import Mathlib

/-!
# gputils: the byte store (`libgputils/gpmemory.c`) and the COFF writer
(`libgputils/gpwriteobj.c`)

A shallow embedding of the C code.  Machine integers are natural numbers;
where the C type truncates, the reduction is written out.  A C pointer that
may be `NULL` is an `Option`; a linked list of blocks is the first block
together with the chain of its `next` pointers.
-/

namespace Gputils

/-! ## Constants of `gpmemory.h` -/

/-- Modelled from the spec: `gpmemory.h` is absent; the store is "internally
partitioned into 64 KiB pages", so a block index is the address shifted by 16. -/
def I_MEM_BITS : Nat := 16

/-- Modelled from the spec: `gpmemory.h` is absent; one block holds one 64 KiB page. -/
def MAX_I_MEM : Nat := 1 <<< I_MEM_BITS

/-- Modelled from the spec: `gpmemory.h` is absent; the mask of the offset in a page. -/
def I_MEM_MASK : Nat := MAX_I_MEM - 1

/-- Modelled from the spec: `gpmemory.h` is absent; the `used` flag of a byte is
kept in the 16-bit `data` word above the byte value (bit 15). -/
def BYTE_USED_MASK : Nat := 0x8000

/-- Modelled from the spec: `gpmemory.h` is absent; the `listed` flag of a byte is
kept in the 16-bit `data` word above the byte value (bit 14). -/
def BYTE_LISTED_MASK : Nat := 0x4000

/-! ## Data model of `gpmemory.c` -/

/-- The C struct `MemWord`: `unsigned short data; char *section_name; char *symbol_name`.
A `NULL` name is `none`. -/
structure MemWord where
  data : Nat
  section_name : Option String
  symbol_name : Option String
deriving DecidableEq

/-- One element of a `calloc`ed array of `MemWord`. -/
def MemWord.zero : MemWord := ⟨0, none, none⟩

/-- The C struct `MemBlock` without its `next` pointer: `base` and the `memory`
array of `MAX_I_MEM` words (`none` is `NULL`).  The array is indexed only by
`address & I_MEM_MASK`. -/
structure MemBlock where
  base : Nat
  memory : Option (Nat → MemWord)

/-- A non-`NULL` `MemBlock *`: the block pointed to and the chain reached through
`next` (the last `next` is `NULL`). -/
structure Memory where
  first : MemBlock
  next : List MemBlock

/-- The blocks in the order in which `m = m->next` visits them. -/
def Memory.blocks (m : Memory) : List MemBlock := m.first :: m.next

/-- The expression `(address >> I_MEM_BITS) & 0xffff` that every function compares
with `m->base`. -/
def block_base (address : Nat) : Nat := (address >>> I_MEM_BITS) &&& 0xffff

/-- The expression `address & I_MEM_MASK`. -/
def block_offset (address : Nat) : Nat := address &&& I_MEM_MASK

/-- Function `i_memory_create`: `calloc(1, sizeof(MemBlock))`: base 0, no array, no next. -/
def i_memory_create : Memory := ⟨⟨0, none⟩, []⟩

/-- The test `(w->data & BYTE_USED_MASK) != 0` as a C `int`. -/
def used_flag (w : MemWord) : Nat := if w.data &&& BYTE_USED_MASK ≠ 0 then 1 else 0

/-- The `do ... while (m != NULL)` loop of `b_memory_is_used` over the blocks. -/
def b_memory_is_used_loop (address : Nat) : List MemBlock → Nat
  | [] => 0
  | m :: next =>
    if block_base address = m.base then
      match m.memory with
      | none => 0
      | some memory => used_flag (memory (block_offset address))
    else b_memory_is_used_loop address next

/-- Function `b_memory_is_used`. -/
def b_memory_is_used (m : Memory) (address : Nat) : Nat :=
  b_memory_is_used_loop address m.blocks

/-- What `b_memory_get` hands back: its `int` result and the values it stores
through `byte`, `section_name` and `symbol_name` (all callers modelled here pass
a `byte`; a caller that passes `NULL` for a name ignores that field). -/
structure GetResult where
  ret : Nat
  byte : Nat
  section_name : Option String
  symbol_name : Option String
deriving DecidableEq

/-- The `do ... while (m != NULL)` loop of `b_memory_get` and the code after it. -/
def b_memory_get_loop (address : Nat) : List MemBlock → GetResult
  | [] => ⟨0, 0, none, none⟩
  | m :: next =>
    if block_base address = m.base then
      match m.memory with
      | some memory =>
        let w := memory (block_offset address)
        ⟨used_flag w, w.data &&& 0xff, w.section_name, w.symbol_name⟩
      | none => ⟨0, 0, none, none⟩
    else b_memory_get_loop address next

/-- Function `b_memory_get`. -/
def b_memory_get (m : Memory) (address : Nat) : GetResult :=
  b_memory_get_loop address m.blocks

/-- Function `i_memory_store_section_name`: `strdup` of a non-`NULL`, non-empty name. -/
def i_memory_store_section_name (mw : MemWord) (name : Option String) : MemWord :=
  match name with
  | some s => if s ≠ "" then { mw with section_name := some s } else mw
  | none => mw

/-- Function `i_memory_store_symbol_name`: `strdup` of a non-`NULL`, non-empty name. -/
def i_memory_store_symbol_name (mw : MemWord) (name : Option String) : MemWord :=
  match name with
  | some s => if s ≠ "" then { mw with symbol_name := some s } else mw
  | none => mw

/-- The body of `b_memory_put` on the word it found (lines 279-287). -/
def put_found_word (w : MemWord) (value : Nat) (section_name symbol_name : Option String) :
    MemWord :=
  let w1 := if w.section_name = none then i_memory_store_section_name w section_name else w
  let w2 := if w1.symbol_name = none then i_memory_store_symbol_name w1 symbol_name else w1
  { w2 with data := value ||| BYTE_USED_MASK }

/-- The body of `b_memory_put` on the word of a new block (lines 296-299). -/
def put_new_word (w : MemWord) (value : Nat) (section_name symbol_name : Option String) :
    MemWord :=
  let w1 := { w with data := value ||| BYTE_USED_MASK }
  i_memory_store_symbol_name (i_memory_store_section_name w1 section_name) symbol_name

/-- The array of a block, allocated by `calloc` when it is still `NULL`. -/
def block_array (m : MemBlock) : Nat → MemWord :=
  match m.memory with
  | some memory => memory
  | none => fun _ => MemWord.zero

/-- The search loop of `b_memory_put`: the blocks after the write, or `none` when
no block has the base of `address`. -/
def b_memory_put_loop (address value : Nat) (section_name symbol_name : Option String) :
    List MemBlock → Option (List MemBlock)
  | [] => none
  | m :: next =>
    if block_base address = m.base then
      let memory := block_array m
      let w := put_found_word (memory (block_offset address)) value section_name symbol_name
      some ({ m with memory := some (Function.update memory (block_offset address) w) } :: next)
    else
      (b_memory_put_loop address value section_name symbol_name next).map (fun l => m :: l)

/-- The loop of `i_memory_new` seen from `m->next`: `mbp` is linked in before the
first following block with a larger base, or at the end.  The argument is the
chain after the block `m` at which the loop starts; the result is that chain
with `mbp` in it. -/
def i_memory_new_loop (mbp : MemBlock) : List MemBlock → List MemBlock
  | [] => [mbp]
  | n :: next => if n.base > mbp.base then mbp :: n :: next else n :: i_memory_new_loop mbp next

/-- Function `b_memory_put`.  When the search fails, `i_memory_new` links a block
with a zeroed array after the first block and the word is written there.
`value` is an `unsigned char`: a caller passes a number below 256. -/
def b_memory_put (i_memory : Memory) (address value : Nat)
    (section_name symbol_name : Option String) : Memory :=
  match b_memory_put_loop address value section_name symbol_name i_memory.blocks with
  | some (first :: next) => ⟨first, next⟩
  | some [] => i_memory
  | none =>
    let w := put_new_word MemWord.zero value section_name symbol_name
    let mbp : MemBlock :=
      ⟨block_base address, some (Function.update (fun _ => MemWord.zero) (block_offset address) w)⟩
    ⟨i_memory.first, i_memory_new_loop mbp i_memory.next⟩

/-- The loop of `b_memory_clear`. -/
def b_memory_clear_loop (address : Nat) : List MemBlock → List MemBlock
  | [] => []
  | m :: next =>
    if block_base address = m.base then
      match m.memory with
      | some memory =>
        { m with memory := some (Function.update memory (block_offset address) ⟨0, none, none⟩) }
          :: next
      | none => m :: next
    else m :: b_memory_clear_loop address next

/-- Function `b_memory_clear`. -/
def b_memory_clear (m : Memory) (address : Nat) : Memory :=
  match b_memory_clear_loop address m.blocks with
  | first :: next => ⟨first, next⟩
  | [] => m

/-- The expression `byte_addr + 1` in `unsigned int` arithmetic. -/
def succ_address (byte_addr : Nat) : Nat := (byte_addr + 1) % 2 ^ 32

/-- What the 16-bit getters hand back: the `int` result, the value stored through
`word` (`none` when `*word` is not written) and the names stored by the first
`b_memory_get`. -/
structure WordResult where
  ret : Nat
  word : Option Nat
  section_name : Option String
  symbol_name : Option String
deriving DecidableEq

/-- Function `i_memory_get_le`.  `byte_addr + 1` is `unsigned int` arithmetic; the
sum `bytes[0] | (bytes[1] << 8)` is stored in an `unsigned short`. -/
def i_memory_get_le (m : Memory) (byte_addr : Nat) : WordResult :=
  let r0 := b_memory_get m byte_addr
  let r1 := b_memory_get m (succ_address byte_addr)
  if (r0.ret ||| r1.ret) ≠ 0 then
    ⟨1, some ((r0.byte ||| (r1.byte <<< 8)) % 2 ^ 16), r0.section_name, r0.symbol_name⟩
  else ⟨0, none, r0.section_name, r0.symbol_name⟩

/-- Function `i_memory_put_le`. -/
def i_memory_put_le (m : Memory) (byte_addr word : Nat)
    (section_name symbol_name : Option String) : Memory :=
  let m1 := b_memory_put m byte_addr (word &&& 0xff) section_name symbol_name
  b_memory_put m1 (succ_address byte_addr) (word >>> 8) section_name symbol_name

/-- Function `i_memory_get_be`. -/
def i_memory_get_be (m : Memory) (byte_addr : Nat) : WordResult :=
  let r0 := b_memory_get m byte_addr
  let r1 := b_memory_get m (succ_address byte_addr)
  if (r0.ret ||| r1.ret) ≠ 0 then
    ⟨1, some ((r1.byte ||| (r0.byte <<< 8)) % 2 ^ 16), r0.section_name, r0.symbol_name⟩
  else ⟨0, none, r0.section_name, r0.symbol_name⟩

/-- Function `i_memory_put_be`. -/
def i_memory_put_be (m : Memory) (byte_addr word : Nat)
    (section_name symbol_name : Option String) : Memory :=
  let m1 := b_memory_put m byte_addr (word >>> 8) section_name symbol_name
  b_memory_put m1 (succ_address byte_addr) (word &&& 0xff) section_name symbol_name

/-- The byte of an address "with an unused byte read as 0". -/
def byte_or_zero (m : Memory) (address : Nat) : Nat :=
  if b_memory_is_used m address = 1 then (b_memory_get m address).byte else 0

/-- The body of the `if` in `b_memory_set_listed`: the array is allocated when it is
`NULL` and `m->memory[address & I_MEM_MASK].data |= BYTE_LISTED_MASK`. -/
def set_listed_block (m : MemBlock) (address : Nat) : MemBlock :=
  let memory := block_array m
  let w := memory (block_offset address)
  { m with
    memory := some (Function.update memory (block_offset address)
      { w with data := w.data ||| BYTE_LISTED_MASK }) }

/-- The inner `do ... while (m != NULL)` loop of `b_memory_set_listed`, started at
the block that `m` points to: the blocks passed over, and the chain from `m` at
loop exit (the marked block first after a `break`, `[]` when `m` is `NULL`). -/
def set_listed_search (address : Nat) : List MemBlock → List MemBlock × List MemBlock
  | [] => ([], [])
  | m :: next =>
    if block_base address = m.base then ([], set_listed_block m address :: next)
    else
      let r := set_listed_search address next
      (m :: r.1, r.2)

/-- The loop `while (n_bytes--)` of `b_memory_set_listed`.  `m` is not set back to the
first block between two bytes: `before` are the blocks left behind, the third
argument is the chain from `m`.  When `m` is `NULL` at the start of a pass the
inner loop dereferences it: no result. -/
def b_memory_set_listed_loop : Nat → List MemBlock → List MemBlock → Nat →
    Option (List MemBlock)
  | 0, before, m, _ => some (before ++ m)
  | _ + 1, _, [], _ => none
  | n + 1, before, m :: next, address =>
    let r := set_listed_search address (m :: next)
    b_memory_set_listed_loop n (before ++ r.1) r.2 ((address + 1) % 2 ^ 32)

/-- Function `b_memory_set_listed`: the memory after the call, or `none` when the
call dereferences a `NULL` block pointer. -/
def b_memory_set_listed (m : Memory) (address n_bytes : Nat) : Option Memory :=
  match b_memory_set_listed_loop n_bytes [] m.blocks address with
  | some (first :: next) => some ⟨first, next⟩
  | _ => none

/-- A call of one of the functions of `gpmemory.c` that change a memory. -/
inductive MemOp where
  | put (address value : Nat) (section_name symbol_name : Option String)
  | clear (address : Nat)
  | set_listed (address n_bytes : Nat)

/-- The address argument of a call. -/
def MemOp.address : MemOp → Nat
  | .put address _ _ _ => address
  | .clear address => address
  | .set_listed address _ => address

/-- The memory after one call (`none` when the call does not return). -/
def MemOp.apply (m : Memory) : MemOp → Option Memory
  | .put address value section_name symbol_name =>
    some (b_memory_put m address value section_name symbol_name)
  | .clear address => some (b_memory_clear m address)
  | .set_listed address n_bytes => b_memory_set_listed m address n_bytes

/-- The memory after a sequence of calls, the first call first (`none` when one
of them does not return). -/
def run_ops (m : Memory) : List MemOp → Option Memory
  | [] => some m
  | op :: ops =>
    match op.apply m with
    | none => none
    | some m1 => run_ops m1 ops

/-! ## The word that an address denotes -/

/-- The word that the lookup loops reach for `address`: the word of the first
block with the base of `address`, a zero word when there is no such block or
its array is `NULL`. -/
def find_word (address : Nat) : List MemBlock → MemWord
  | [] => MemWord.zero
  | m :: next =>
    if block_base address = m.base then block_array m (block_offset address)
    else find_word address next

/-- What `b_memory_get` reports of a word. -/
def get_of_word (w : MemWord) : GetResult :=
  ⟨used_flag w, w.data &&& 0xff, w.section_name, w.symbol_name⟩

/-! ## Counting used bytes (`b_range_memory_used`) -/

/-- The constant `INT_MAX` of `limits.h` for a 32-bit `int`. -/
def INT_MAX : Int := 2 ^ 31 - 1

/-- The first loop of `b_range_memory_used`,
`while (m != NULL && page < (from / MAX_I_MEM)) { j += MAX_I_MEM; m = m->next; }`.
The body does not change `page`.  The result is the `m` and the `j` at loop exit
(`[]` is `NULL`). -/
def range_skip_loop (page from_ : Int) : List MemBlock → Int → List MemBlock × Int
  | [], j => ([], j)
  | m :: next, j =>
    if page < Int.tdiv from_ (MAX_I_MEM : Nat) then
      range_skip_loop page from_ next (j + (MAX_I_MEM : Nat))
    else (m :: next, j)

/-- The inner loop `for (i = 0; i < MAX_I_MEM && j < to; ++i)` of
`b_range_memory_used` on one block; `n` is `MAX_I_MEM - i`.  The result is `j` and
`bytes` at loop exit. -/
def range_count_block (memory : Option (Nat → MemWord)) (to_ : Int) :
    Nat → Nat → Int → Int → Int × Int
  | 0, _, j, bytes => (j, bytes)
  | n + 1, i, j, bytes =>
    if j < to_ then
      let used : Bool :=
        match memory with
        | some mem => (mem (i &&& I_MEM_MASK)).data &&& BYTE_USED_MASK ≠ 0
        | none => false
      range_count_block memory to_ n (i + 1) (j + 1) (if used then bytes + 1 else bytes)
    else (j, bytes)

/-- The second loop `while (m != NULL && j < to)` of `b_range_memory_used`. -/
def range_count_loop (to_ : Int) : List MemBlock → Int → Int → Int
  | [], _, bytes => bytes
  | m :: next, j, bytes =>
    if j < to_ then
      let r := range_count_block m.memory to_ MAX_I_MEM 0 j bytes
      range_count_loop to_ next r.1 r.2
    else bytes

/-- Function `b_range_memory_used`, with `j = 0`, `page = 0`, `bytes = 0` at entry.
The `int` counters are integers here: they stay below 2^31 for a memory of fewer
than 32768 blocks. -/
def b_range_memory_used (m : Memory) (from_ to_ : Int) : Int :=
  let r := range_skip_loop 0 from_ m.blocks 0
  range_count_loop to_ r.1 r.2 0

/-- Function `b_memory_used`. -/
def b_memory_used (m : Memory) : Int := b_range_memory_used m 0 INT_MAX

/-! ## The COFF writer (`gpwriteobj.c`)

A C string is the list of its characters (bytes other than NUL); in memory it
is followed by a NUL byte.  The output file is the list of the bytes written
to it, so every writer yields the bytes that it appends. -/

/-- The constant `MAX_STRING_TABLE` of `gpwriteobj.c`. -/
def MAX_STRING_TABLE : Nat := 0xffff

/-- The constant `UINT32_MAX` of `stdint.h`. -/
def UINT32_MAX : Nat := 2 ^ 32 - 1

/-- Modelled from the spec: `gpcoff.h` is absent; "names ≤ 8 bytes sit inline". -/
def COFF_SSYMBOL_NAME_MAX : Nat := 8

/-- Modelled from the spec: `gpcoff.h` is absent; "bits `0x80000000` and `0x40000000`
encode `RELOC` and `BPACK`". -/
def STYP_RELOC : Nat := 0x80000000

/-- Modelled from the spec: `gpcoff.h` is absent; "bits `0x80000000` and `0x40000000`
encode `RELOC` and `BPACK`". -/
def STYP_BPACK : Nat := 0x40000000

/-- Modelled from the spec: `gp_fputl32` of the absent `gpsystem.c`; "all multi-byte
integers are little-endian": the four bytes of a 32-bit value, low byte first. -/
def gp_fputl32 (data : Nat) : List Nat :=
  [data % 256, data / 256 % 256, data / 65536 % 256, data / 16777216 % 256]

/-- Modelled from the spec: `gp_fputl16` of the absent `gpsystem.c`; the two bytes of a
16-bit value, low byte first. -/
def gp_fputl16 (data : Nat) : List Nat := [data % 256, data / 256 % 256]

/-- Modelled from the spec: `gp_fputvar` of the absent `gpsystem.c`; the first `number`
bytes of `data` are written. -/
def gp_fputvar (data : List Nat) (number : Nat) : List Nat := data.take number

/-- Modelled from the spec: `gp_fputzero` of the absent `gpsystem.c`; `number` zero
bytes are written. -/
def gp_fputzero (number : Nat) : List Nat := List.replicate number 0

/-- Modelled from the spec: `gp_putl32` of the absent `gpsystem.c`; a 32-bit value is
stored at the start of a byte array, low byte first. -/
def gp_putl32 (addr : Nat → Nat) (data : Nat) : Nat → Nat :=
  fun k =>
    if k = 0 then data % 256
    else if k = 1 then data / 256 % 256
    else if k = 2 then data / 65536 % 256
    else if k = 3 then data / 16777216 % 256
    else addr k

/-- Modelled from the spec: `gp_getu32` of the absent `gpsystem.c`; the unsigned 32-bit
value stored at the start of a byte array, low byte first. -/
def gp_getu32 (addr : Nat → Nat) : Nat :=
  addr 0 + 256 * addr 1 + 65536 * addr 2 + 16777216 * addr 3

/-- The 32-bit value of four bytes, low byte first (the reading of what
`gp_fputl32` writes). -/
def le32 (bytes : List Nat) : Nat :=
  bytes.getD 0 0 + 256 * bytes.getD 1 0 + 65536 * bytes.getD 2 0 + 16777216 * bytes.getD 3 0

/-- The static variables `string_table`, `string_offsets`, `string_offs_num` and
`last_string_size` of `gpwriteobj.c`.  The `Table` argument of the functions
below always points to `string_table`. -/
structure StringTable where
  string_table : Nat → Nat
  string_offsets : Nat → Nat
  string_offs_num : Nat
  last_string_size : Nat

/-- The bytes of a C string in memory: its characters and the terminating NUL. -/
def c_bytes (str : List Nat) : List Nat := str ++ [0]

/-- The test `memcmp(&Table[offs], String, String_size) == 0`. -/
def memcmp_eq (Table : Nat → Nat) (offs : Nat) (str : List Nat) (String_size : Nat) : Bool :=
  (List.range String_size).all (fun k => Table (offs + k) == (c_bytes str).getD k 0)

/-- The call `memcpy(&Table[Offset], String, String_size)`. -/
def memcpy_at (Table : Nat → Nat) (Offset : Nat) (str : List Nat) (String_size : Nat) :
    Nat → Nat :=
  fun k =>
    if Offset ≤ k ∧ k < Offset + String_size then (c_bytes str).getD (k - Offset) 0
    else Table k

/-- The loop `for (i = 0; i < e; ++i)` of `_search_string`; the first argument is
`e - i`.  The result is the offset returned from inside the loop, if any.  The
subtraction of two `uint32_t` wraps. -/
def _search_string_loop (st : StringTable) (str : List Nat) (String_size : Nat) :
    Nat → Nat → Option Nat
  | 0, _ => none
  | n + 1, i =>
    let offs := st.string_offsets i
    let size := (st.string_offsets (i + 1) + 2 ^ 32 - offs) % 2 ^ 32
    if size = String_size ∧ memcmp_eq st.string_table offs str String_size then some offs
    else _search_string_loop st str String_size n (i + 1)

/-- Function `_search_string`. -/
def _search_string (st : StringTable) (str : List Nat) (String_size : Nat) : Nat :=
  if st.string_offs_num = 0 then UINT32_MAX
  else if st.string_offs_num = 1 then
    if st.last_string_size ≠ String_size then UINT32_MAX
    else
      let offs := st.string_offsets 0
      if memcmp_eq st.string_table offs str String_size then offs else UINT32_MAX
  else
    let e := st.string_offs_num - 1
    match _search_string_loop st str String_size e 0 with
    | some offs => offs
    | none =>
      if st.last_string_size ≠ String_size then UINT32_MAX
      else
        let offs := st.string_offsets e
        if memcmp_eq st.string_table offs str String_size then offs else UINT32_MAX

/-- Function `_store_string`. -/
def _store_string (st : StringTable) (Offset : Nat) (str : List Nat) (String_size : Nat) :
    StringTable :=
  { string_table := memcpy_at st.string_table Offset str String_size
    string_offsets := Function.update st.string_offsets st.string_offs_num Offset
    string_offs_num := st.string_offs_num + 1
    last_string_size := String_size }

/-- Function `_add_string`: the offset returned and the table after the call, or
`none` when `assert(!(nbytes > MAX_STRING_TABLE))` fails.  `string_size` and
`nbytes` are `uint32_t`. -/
def _add_string (str : List Nat) (st : StringTable) : Option (Nat × StringTable) :=
  let string_size := (str.length + 1) % 2 ^ 32
  let offset := _search_string st str string_size
  if offset = UINT32_MAX then
    let offset := gp_getu32 st.string_table
    let nbytes := (offset + string_size) % 2 ^ 32
    if nbytes > MAX_STRING_TABLE then none
    else
      let st1 := _store_string st offset str string_size
      some (offset, { st1 with string_table := gp_putl32 st1.string_table nbytes })
  else some (offset, st)

/-- The initialisation in `gp_writeobj_write_coff` (lines 565-572); the static
arrays keep what an earlier call left in them. -/
def string_table_init (prev : StringTable) : StringTable :=
  { prev with
    string_offs_num := 0
    last_string_size := 0
    string_table := gp_putl32 prev.string_table 4 }

/-- A sequence of `_add_string` calls: the offsets returned, in call order, and
the table after the last call; `none` when an assertion fails. -/
def add_strings (st : StringTable) : List (List Nat) → Option (List Nat × StringTable)
  | [] => some ([], st)
  | str :: rest =>
    match _add_string str st with
    | none => none
    | some (offset, st1) =>
      match add_strings st1 rest with
      | none => none
      | some (offsets, st2) => some (offset :: offsets, st2)

/-- Function `_add_name`: the bytes written and the table after the call, or
`none` when the assertion of `_add_string` fails.  `length` is `uint32_t`. -/
def _add_name (Name : Option (List Nat)) (st : StringTable) :
    Option (List Nat × StringTable) :=
  match Name with
  | none => some ([], st)
  | some name =>
    let length := name.length % 2 ^ 32
    if length ≤ COFF_SSYMBOL_NAME_MAX then
      let out1 := if length > 0 then gp_fputvar name length else []
      let out2 :=
        if length < COFF_SSYMBOL_NAME_MAX then gp_fputzero (COFF_SSYMBOL_NAME_MAX - length)
        else []
      some (out1 ++ out2, st)
    else
      match _add_string name st with
      | none => none
      | some (offset, st1) => some (gp_fputl32 0 ++ gp_fputl32 offset, st1)

/-- The fields of `gp_section_t` that `_write_section_header` reads. -/
structure gp_section_t where
  name : Option (List Nat)
  address : Nat
  size : Nat
  data_ptr : Nat
  reloc_ptr : Nat
  lineno_ptr : Nat
  relocation_list_num_nodes : Nat
  line_number_list_num_nodes : Nat
  flags : Nat

/-- The declarations that `_write_section_header` uses and that are absent from the
sources: the mask `STYP_ROM_AREA` and the function `gp_insn_from_byte`
(declared in `gpprocessor.h`). -/
structure SectionHeaderEnv where
  STYP_ROM_AREA : Nat
  gp_insn_from_byte : Nat → Nat → Nat

/-- Function `_write_section_header`: the bytes written and the table after the
call, or `none` when the assertion of `_add_string` fails.  `FlagsIsAllClr(f, m)`
is `(f & m) == 0`; `(unsigned int)(~(STYP_RELOC | STYP_BPACK))` is the 32-bit
complement. -/
def _write_section_header (env : SectionHeaderEnv) (Section : gp_section_t)
    (Org_to_byte_shift : Nat) (st : StringTable) : Option (List Nat × StringTable) :=
  let Org_to_byte_shift :=
    if Section.flags &&& env.STYP_ROM_AREA = 0 then 0 else Org_to_byte_shift
  let section_address := env.gp_insn_from_byte Org_to_byte_shift Section.address % 2 ^ 32
  match _add_name Section.name st with
  | none => none
  | some (name_bytes, st1) =>
    some (name_bytes
      ++ gp_fputl32 section_address
      ++ gp_fputl32 section_address
      ++ gp_fputl32 Section.size
      ++ gp_fputl32 Section.data_ptr
      ++ gp_fputl32 Section.reloc_ptr
      ++ gp_fputl32 Section.lineno_ptr
      ++ gp_fputl16 (Section.relocation_list_num_nodes % 2 ^ 16)
      ++ gp_fputl16 (Section.line_number_list_num_nodes % 2 ^ 16)
      ++ gp_fputl32 (Section.flags &&& (2 ^ 32 - 1 - (STYP_RELOC ||| STYP_BPACK))), st1)

/-! ## The layout of the string table -/

/-- The table offset of the string with index `i` when the strings `stored` lie
one after the other from offset 4: 4 plus the sizes (length and NUL) of the
strings before it.  With `i = stored.length` this is the offset after the last
string. -/
def layout_offset (stored : List (List Nat)) (i : Nat) : Nat :=
  4 + ((stored.take i).map (fun s => s.length + 1)).sum

/-- The table holds the characters of `str` and a NUL from offset `offs` on. -/
def table_holds (Table : Nat → Nat) (offs : Nat) (str : List Nat) : Prop :=
  ∀ k, k < str.length + 1 → Table (offs + k) = (c_bytes str).getD k 0

instance (Table : Nat → Nat) (offs : Nat) (str : List Nat) :
    Decidable (table_holds Table offs str) := by
  unfold table_holds
  infer_instance

/-- The index of the first occurrence of `str` in `stored` (`stored.length` when it
does not occur). -/
def string_index (stored : List (List Nat)) (str : List Nat) : Nat :=
  @List.indexOf _ instBEqOfDecidableEq str stored

/-- The distinct strings after one more `_add_string` call, in the order of their
first call. -/
def stored_step (stored : List (List Nat)) (str : List Nat) : List (List Nat) :=
  if str ∈ stored then stored else stored ++ [str]

/-- The distinct strings after a sequence of `_add_string` calls, in the order of
their first call. -/
def stored_after (stored : List (List Nat)) (strs : List (List Nat)) : List (List Nat) :=
  strs.foldl stored_step stored

/-- The table `st` holds exactly the distinct strings `stored`, in this order. -/
structure TableInv (st : StringTable) (stored : List (List Nat)) : Prop where
  num : st.string_offs_num = stored.length
  count : gp_getu32 st.string_table = layout_offset stored stored.length
  bound : layout_offset stored stored.length ≤ MAX_STRING_TABLE
  nodup : stored.Nodup
  offs : ∀ i, i < stored.length → st.string_offsets i = layout_offset stored i
  last : ∀ s, stored[stored.length - 1]? = some s → st.last_string_size = s.length + 1
  holds : ∀ i s, stored[i]? = some s → table_holds st.string_table (layout_offset stored i) s

/-! ## The disassembler passes (`libgputils/gpdis.c`)

`gpdis.c` is written against headers that are absent from the sources: the
instruction catalogue (`gpopcode.h`), the newer interface of the memory map
(`gp_mem_b_*`, `W_*`) and the state record `gpdasm_fstate_t`.  What the passes
need of them is modelled below; the passes themselves are translated from
`gpdis.c`.  A C `int` is an `Int`, an `unsigned int` a natural number below
`2 ^ 32`; the conversions between them are written out. -/

/-- The conversion of an `int` to `unsigned int`. -/
def to_unsigned (x : Int) : Nat := (x % 2 ^ 32).toNat

/-- The conversion of an `unsigned int` to `int` (two's complement). -/
def to_int (n : Nat) : Int :=
  if n % 2 ^ 32 < 2 ^ 31 then ((n % 2 ^ 32 : Nat) : Int)
  else ((n % 2 ^ 32 : Nat) : Int) - 2 ^ 32

/-- The complement `~x` of an `unsigned int`. -/
def not32 (x : Nat) : Nat := 2 ^ 32 - 1 - x % 2 ^ 32

/-- The operator `x & y` on `int`. -/
def c_and (x y : Int) : Int := to_int (to_unsigned x &&& to_unsigned y)

/-- The operator `x | y` on `int`. -/
def c_or (x y : Int) : Int := to_int (to_unsigned x ||| to_unsigned y)

/-- The operator `x ^ y` on `int`. -/
def c_xor (x y : Int) : Int := to_int (to_unsigned x ^^^ to_unsigned y)

/-- The operator `x << k` on `int`. -/
def c_shl (x : Int) (k : Nat) : Int := to_int (to_unsigned x * 2 ^ k)

/-- The assignment `x &= ~tmp` to an `int` with an `unsigned int tmp`. -/
def clear_bits (x : Int) (tmp : Nat) : Int := to_int (to_unsigned x &&& not32 tmp)

/-- The assignment `x |= tmp` to an `int` with an `unsigned int tmp`. -/
def set_bits (x : Int) (tmp : Nat) : Int := to_int (to_unsigned x ||| tmp)

/-- The assignment `x ^= tmp` to an `int` with an `unsigned int tmp`. -/
def toggle_bits (x : Int) (tmp : Nat) : Int := to_int (to_unsigned x ^^^ tmp)

/-- The processor classes `PROC_CLASS_*` of `gpprocessor.h`. -/
inductive proc_class_id where
  | EEPROM8 | EEPROM16 | GENERIC | PIC12 | PIC12E | PIC12I | SX
  | PIC14 | PIC14E | PIC14EX | PIC16 | PIC16E
  deriving DecidableEq, Repr

/-- Modelled from the spec: the instruction classes (`INSN_CLASS_*`) of the absent
`gpopcode.h`, "a closed catalog of instruction classes, each describing one
operand-encoding shape".  The classes that `gp_disassemble_mark_false_addresses`,
`gp_disassemble_find_labels` and `gp_disassemble_find_registers` name are listed;
`OTHER` is any other class. -/
inductive insn_class where
  | LIT3 | LIT4L | LIT4H | LIT5 | LITBSR_6 | LIT7 | LIT8 | LIT8C12 | LIT8C16 | LIT9
  | LIT11 | LIT13 | LIT20 | CALL20 | FLIT12 | FF | FP | PF | SF | SS
  | RBRA8 | RBRA9 | RBRA11
  | OPF5 | OPWF5 | B5 | B8 | OPF7 | OPWF7 | B7 | OPF8 | OPWF8 | OPFA8 | BA8 | OPWFA8
  | TBL2 | TBL3 | IMPLICIT | OTHER
  deriving DecidableEq, Repr

/-- Modelled from the spec: the common instruction codes (`ICODE_*`) of the absent
`gpopcode.h`, "the catalog also enumerates a common icode".  The codes that the
three passes test are listed, with `GOTO`, `LCALL` and `BRA`; `OTHER` is any other
code. -/
inductive common_insn where
  | ADDLW | ANDLW | BCF | BSF | BTG | CALL | CLRF | CLRW | IORLW | MOVLB | MOVLW | MOVWF
  | NEGF | RCALL | SETF | SUBLW | TABLRD | TLRD | XORLW | GOTO | LCALL | BRA | OTHER
  deriving DecidableEq, Repr

/-- Modelled from the spec: the fields `class` and `icode` of an instruction entry
`insn_t` of the absent `gpopcode.h`. -/
structure insn_t where
  class_ : insn_class
  icode : common_insn
  deriving DecidableEq, Repr

/-- The fields of `struct proc_class` (`gpprocessor.h`) that the passes read.
`id` tells which of the objects `proc_class_*` this is; `find_insn` is `none`
for a `NULL` function pointer, and gives the entry found for an opcode (the
instruction tables are absent). -/
structure proc_class where
  id : proc_class_id
  page_size : Nat
  org_to_byte_shift : Nat
  find_insn : Option (Nat → Option insn_t)

/-- The fields of `struct px` (`gpprocessor.h`) that the passes read. -/
structure px where
  class_ : proc_class
  prog_mem_size : Int

/-- Modelled from the spec: `gp_processor_insn_from_byte_c` is declared in
`gpprocessor.h` and defined in an absent file; "byte addresses ... instruction
(org) addresses ... differ by the class's `org_to_byte_shift`". -/
def gp_processor_insn_from_byte_c (Class : proc_class) (Byte_address : Int) : Int :=
  Byte_address / 2 ^ Class.org_to_byte_shift

/-- Modelled from the spec: `gp_processor_byte_from_insn_c` is declared in
`gpprocessor.h` and defined in an absent file; the inverse shift of
`gp_processor_insn_from_byte_c`. -/
def gp_processor_byte_from_insn_c (Class : proc_class) (Insn_address : Int) : Int :=
  c_shl Insn_address Class.org_to_byte_shift

/-! ### Constants of `gpprocessor.h` that the passes use -/

def PIC12_PAGE_SHIFT : Nat := 9
def PIC12_PAGE_MASK : Nat := 2 ^ PIC12_PAGE_SHIFT - 1
def PIC12_REG_STATUS : Nat := 0x03
def PIC12_REG_FSR : Nat := 0x04
def PIC12E_BMSK_BANK : Nat := 0x007
def PIC14_PAGE_SHIFT : Nat := 11
def PIC14_PAGE_MASK : Nat := 2 ^ PIC14_PAGE_SHIFT - 1
def PIC14_BMSK_BANK : Nat := 0x0003
def PIC14_REG_STATUS : Nat := 0x03
def PIC14_BIT_STATUS_RP0 : Nat := 5
def PIC14_BIT_STATUS_RP1 : Nat := 6
def PIC14_REG_PCLATH : Nat := 0x0A
def PIC14E_BMSK_BANK : Nat := 0x001F
def PIC14E_BMSK_PAGE512 : Nat := 0x007F
def PIC14E_REG_BSR : Nat := 0x08
def PIC14E_REG_WREG : Nat := 0x09
def PIC14EX_BMSK_BANK : Nat := 0x003F
def PIC16_BANK_SHIFT : Nat := 8
def PIC16_BMSK_BANK : Nat := 0x00FF
def PIC16_REG_PCLATH : Nat := 0x03
def PIC16_REG_WREG : Nat := 0x0A
def PIC16_REG_BSR : Nat := 0x0F
def PIC16E_BMSK_BRANCH_LOWER : Nat := 0x00FF
def PIC16E_BMSK_BRANCH_HIGHER : Nat := 0x0FFF
def PIC16E_BMSK_SEC_INSN_WORD : Nat := 0xF000
def PIC16E_BMSK_BANK : Nat := 0x000F
def PIC16E_REG_BSR : Nat := 0xFE0

/-! ### Declarations of the absent headers -/

/-- Modelled from the spec: the mask `PIC16E_BMSK_RBRA8` of the absent `gpopcode.h`;
"`RBRA8`: 8-bit PC-relative" (the passes test its sign bit `0x80`). -/
def PIC16E_BMSK_RBRA8 : Nat := 0x00FF

/-- Modelled from the spec: the mask `PIC14E_BMSK_RBRA9` of the absent `gpopcode.h`;
the 9-bit field of the class `RBRA9` (the passes test its sign bit `0x100`). -/
def PIC14E_BMSK_RBRA9 : Nat := 0x01FF

/-- Modelled from the spec: the mask `PIC16E_BMSK_RBRA11` of the absent
`gpopcode.h`; "an 11-bit signed field" (the passes test its sign bit `0x400`). -/
def PIC16E_BMSK_RBRA11 : Nat := 0x07FF

/-- The other masks that the passes take from the absent `gpopcode.h` and the
program-counter masks that `gpprocessor.h` uses without defining them. -/
structure gpopcode_masks where
  PIC12_BMSK_CALL : Nat
  PIC12_BMSK_GOTO : Nat
  PIC12_BMSK_FILE : Nat
  PIC14_BMSK_BRANCH : Nat
  PIC14_BMSK_FILE : Nat
  PIC16_BMSK_FILE : Nat
  PIC16_BMSK_MOVLB : Nat
  PIC16_BMSK_MOVLR : Nat
  PIC16E_BMSK_MOVLB : Nat
  PIC12_PC_MASK : Nat
  PIC14_PC_MASK : Nat
  PIC14E_PC_MASK : Nat

/-- The macro `PIC12_PAGE_BITS` of `gpprocessor.h`. -/
def PIC12_PAGE_BITS (K : gpopcode_masks) : Nat := K.PIC12_PC_MASK ^^^ PIC12_PAGE_MASK

/-- The macro `PIC14_PAGE_BITS` of `gpprocessor.h`. -/
def PIC14_PAGE_BITS (K : gpopcode_masks) : Nat := K.PIC14_PC_MASK ^^^ PIC14_PAGE_MASK

/-- The macro `PIC14E_PAGE_BITS` of `gpprocessor.h`. -/
def PIC14E_PAGE_BITS (K : gpopcode_masks) : Nat := K.PIC14E_PC_MASK ^^^ PIC14_PAGE_MASK

/-- Modelled from the spec: the memory map as the passes see it through the absent
newer interface; "a mapping from 32-bit byte address to a byte value plus a set
of per-byte flags: `used`, `listed`, `second-word-of-instruction`, a dataflow
address-type (`branch source`, `label`, `function entry`)".  `i_memory_get` is
the word that `class->i_memory_get` reads at a byte address when it reports
`W_USED_ALL`, and `none` when it reports anything else; `second_word` is the
flag `W_SECOND_WORD`; `branch_src`, `func` and `label` are the address-type
flags `W_ADDR_T_BRANCH_SRC`, `W_ADDR_T_FUNC` and `W_ADDR_T_LABEL`;
`dest_byte_addr` is the destination stored with a branch source. -/
structure MemBlock_t where
  i_memory_get : Nat → Option Nat
  second_word : Nat → Bool
  branch_src : Nat → Bool
  func : Nat → Bool
  label : Nat → Bool
  dest_byte_addr : Nat → Nat

/-- Modelled from the spec: the address types `W_ADDR_T_*` of the absent
`gpmemory.h`, "`W_ADDR_T_BRANCH_SRC` on the source, `W_ADDR_T_FUNC` or
`W_ADDR_T_LABEL` on the destination". -/
inductive addr_type_t where
  | W_ADDR_T_BRANCH_SRC | W_ADDR_T_FUNC | W_ADDR_T_LABEL
  deriving DecidableEq, Repr

/-- Modelled from the spec: `gp_mem_b_set_type(M, Byte_address, W_SECOND_WORD)` of
the absent `gpmemory.c`, "`set_flag(addr, flag)`". -/
def gp_mem_b_set_type_second_word (M : MemBlock_t) (Byte_address : Nat) : MemBlock_t :=
  { M with second_word := Function.update M.second_word Byte_address true }

/-- Modelled from the spec: `gp_mem_b_set_addr_type` of the absent `gpmemory.c`;
the address-type flag is set, and a branch source keeps its destination. -/
def gp_mem_b_set_addr_type (M : MemBlock_t) (Byte_address : Nat) (Type_ : addr_type_t)
    (Dest_byte_addr : Nat) : MemBlock_t :=
  match Type_ with
  | .W_ADDR_T_BRANCH_SRC =>
    { M with
      branch_src := Function.update M.branch_src Byte_address true
      dest_byte_addr := Function.update M.dest_byte_addr Byte_address Dest_byte_addr }
  | .W_ADDR_T_FUNC => { M with func := Function.update M.func Byte_address true }
  | .W_ADDR_T_LABEL => { M with label := Function.update M.label Byte_address true }

/-- Modelled from the spec: the test
`gp_mem_b_get_addr_type(M, Byte_address, NULL, NULL) & W_ADDR_T_MASK`; the mask
covers the address-type flags. -/
def addr_type_masked (M : MemBlock_t) (Byte_address : Nat) : Bool :=
  M.branch_src Byte_address || M.func Byte_address || M.label Byte_address

/-- Modelled from the spec: the state record `gpdasm_fstate_t` of the absent
`gpdis.h`, "per-instruction register state (`WREG`, `PCLATH`, bank-select state,
each with a validity mask)"; `wreg` is `-1` when unknown.  The register database
`proc_regs` and the flag `need_sfr_equ` only serve the naming of operands. -/
structure gpdasm_fstate_t where
  wreg : Int
  pclath : Int
  pclath_valid : Int
  bank : Int
  bank_valid : Int
  bsr_boundary : Nat

/-- The second word of a two-word instruction: the word at `Byte_address + 2`
when it is fully used and `(word & Mask) == PIC16E_BMSK_SEC_INSN_WORD`. -/
def second_insn_word (M : MemBlock_t) (Byte_address : Nat) (Mask : Nat) : Option Nat :=
  match M.i_memory_get ((Byte_address + 2) % 2 ^ 32) with
  | none => none
  | some word =>
    let opcode := word % 2 ^ 16
    if opcode &&& Mask = PIC16E_BMSK_SEC_INSN_WORD then some opcode else none

/-- Function `gp_disassemble_mark_false_addresses`: the number of words and the
memory map after the call. -/
def gp_disassemble_mark_false_addresses (M : MemBlock_t) (Byte_address : Nat)
    (Processor : px) : Nat × MemBlock_t :=
  let class_ := Processor.class_
  match class_.find_insn with
  | none => (0, M)
  | some find_insn =>
    match M.i_memory_get Byte_address with
    | none => (1, M)
    | some word =>
      let opcode := word % 2 ^ 16
      match find_insn opcode with
      | none => (1, M)
      | some instruction =>
        match instruction.class_ with
        | .LIT20 | .CALL20 | .FLIT12 | .FF | .SF =>
          match second_insn_word M Byte_address PIC16E_BMSK_SEC_INSN_WORD with
          | some _ => (2, gp_mem_b_set_type_second_word M ((Byte_address + 2) % 2 ^ 32))
          | none => (1, M)
        | .SS =>
          match second_insn_word M Byte_address 0xff80 with
          | some _ => (2, gp_mem_b_set_type_second_word M ((Byte_address + 2) % 2 ^ 32))
          | none => (1, M)
        | _ => (1, M)

/-- The local variables of `gp_disassemble_find_labels` that the `switch` changes,
with the memory map. -/
structure labels_locals where
  num_words : Nat
  M : MemBlock_t
  wreg : Int
  pclath : Int
  pclath_valid : Int

/-- The two calls with which `gp_disassemble_find_labels` marks a branch:
`gp_mem_b_set_addr_type(M, Byte_address, W_ADDR_T_BRANCH_SRC, dest_byte_addr)` and
`gp_mem_b_set_addr_type(M, dest_byte_addr, type, 0)`. -/
def mark_branch (M : MemBlock_t) (Byte_address dest_byte_addr : Nat) (Type_ : addr_type_t) :
    MemBlock_t :=
  gp_mem_b_set_addr_type
    (gp_mem_b_set_addr_type M Byte_address .W_ADDR_T_BRANCH_SRC dest_byte_addr)
    dest_byte_addr Type_ 0

/-- The destination of the paged branches (`LIT8C12`, `LIT9`, `LIT11`): `value` is
the literal of the opcode, `Bmsk` its mask and `Page_bits` the page bits taken
from `PCLATH`.  The result is `dst_org` when the code reaches the label
`_class_...`, and `none` when `PCLATH` is needed and not known. -/
def paged_dst_org (l : labels_locals) (prog_max_org value Bmsk Page_bits : Nat) :
    Option Int :=
  let dst_org : Int := value
  if prog_max_org > 0 ∧ prog_max_org ≤ Bmsk then some dst_org
  else if c_and l.pclath_valid (Page_bits >>> 8 : Nat) = ((Page_bits >>> 8 : Nat) : Int) then
    some (c_or dst_org (c_and (c_shl l.pclath 8) Page_bits))
  else none

/-- The case `INSN_CLASS_LIT8C12` of `gp_disassemble_find_labels`. -/
def find_labels_lit8c12 (K : gpopcode_masks) (class_ : proc_class) (l : labels_locals)
    (Byte_address opcode prog_max_org page_mask src_page : Nat) : labels_locals :=
  match paged_dst_org l prog_max_org (opcode &&& K.PIC12_BMSK_CALL) K.PIC12_BMSK_CALL
      (PIC12_PAGE_BITS K) with
  | none => l
  | some dst_org =>
    if prog_max_org > 0 ∧ to_unsigned dst_org ≤ prog_max_org then
      let dest_byte_addr := to_unsigned (gp_processor_byte_from_insn_c class_ dst_org)
      { l with
        M := mark_branch l.M Byte_address dest_byte_addr .W_ADDR_T_FUNC
        wreg := -1
        pclath_valid := if to_unsigned dst_org &&& page_mask ≠ src_page then 0
                        else l.pclath_valid }
    else l

/-- The case `INSN_CLASS_LIT8C16` of `gp_disassemble_find_labels`. -/
def find_labels_lit8c16 (class_ : proc_class) (l : labels_locals)
    (Byte_address opcode prog_max_org page_mask src_page : Nat) : labels_locals :=
  let value := opcode &&& 0x00ff
  let dst_org : Int := value
  if c_and l.pclath_valid 0xff = 0xff then
    let dst_org := c_or dst_org (c_shl (c_and l.pclath 0xff) 8)
    if prog_max_org > 0 ∧ to_unsigned dst_org ≤ prog_max_org then
      let dest_byte_addr := to_unsigned (gp_processor_byte_from_insn_c class_ dst_org)
      { l with
        M := mark_branch l.M Byte_address dest_byte_addr .W_ADDR_T_FUNC
        wreg := -1
        pclath_valid := if to_unsigned dst_org &&& page_mask ≠ src_page then 0
                        else l.pclath_valid }
    else l
  else l

/-- The case `INSN_CLASS_LIT8` of `gp_disassemble_find_labels`. -/
def find_labels_lit8 (class_ : proc_class) (icode : common_insn) (l : labels_locals)
    (opcode : Nat) : labels_locals :=
  if class_.id = .PIC14 ∨ class_.id = .PIC14E ∨ class_.id = .PIC14EX ∨ class_.id = .PIC16 then
    let tmp := opcode &&& 0x00ff
    if icode = .MOVLW then { l with wreg := to_int tmp }
    else if l.wreg ≥ 0 then
      if icode = .ADDLW then { l with wreg := to_int (((to_unsigned l.wreg + tmp) % 2 ^ 32) &&& 0xff) }
      else if icode = .ANDLW then { l with wreg := to_int ((to_unsigned l.wreg &&& tmp) &&& 0xff) }
      else if icode = .IORLW then { l with wreg := to_int ((to_unsigned l.wreg ||| tmp) &&& 0xff) }
      else if icode = .SUBLW then
        { l with wreg := to_int (((tmp + 2 ^ 32 - to_unsigned l.wreg) % 2 ^ 32) &&& 0xff) }
      else if icode = .XORLW then { l with wreg := to_int ((to_unsigned l.wreg ^^^ tmp) &&& 0xff) }
      else l
    else l
  else l

/-- The case `INSN_CLASS_LIT9` of `gp_disassemble_find_labels`. -/
def find_labels_lit9 (K : gpopcode_masks) (class_ : proc_class) (l : labels_locals)
    (Byte_address opcode prog_max_org : Nat) : labels_locals :=
  match paged_dst_org l prog_max_org (opcode &&& K.PIC12_BMSK_GOTO) K.PIC12_BMSK_GOTO
      (PIC12_PAGE_BITS K) with
  | none => l
  | some dst_org =>
    if prog_max_org > 0 ∧ to_unsigned dst_org ≤ prog_max_org then
      let dest_byte_addr := to_unsigned (gp_processor_byte_from_insn_c class_ dst_org)
      { l with M := mark_branch l.M Byte_address dest_byte_addr .W_ADDR_T_FUNC }
    else l

/-- The case `INSN_CLASS_LIT11` of `gp_disassemble_find_labels`. -/
def find_labels_lit11 (K : gpopcode_masks) (class_ : proc_class) (icode : common_insn)
    (l : labels_locals) (Byte_address opcode prog_max_org page_mask src_page : Nat) :
    labels_locals :=
  let tmp :=
    if class_.id = .PIC14E ∨ class_.id = .PIC14EX then PIC14E_PAGE_BITS K else PIC14_PAGE_BITS K
  match paged_dst_org l prog_max_org (opcode &&& K.PIC14_BMSK_BRANCH) K.PIC14_BMSK_BRANCH
      tmp with
  | none => l
  | some dst_org =>
    if prog_max_org > 0 ∧ to_unsigned dst_org ≤ prog_max_org then
      let dest_byte_addr := to_unsigned (gp_processor_byte_from_insn_c class_ dst_org)
      let type_ : addr_type_t := if icode = .CALL then .W_ADDR_T_FUNC else .W_ADDR_T_LABEL
      let M := mark_branch l.M Byte_address dest_byte_addr type_
      if icode = .CALL then
        { l with
          M := M
          wreg := -1
          pclath_valid := if to_unsigned dst_org &&& page_mask ≠ src_page then 0
                          else l.pclath_valid }
      else { l with M := M }
    else l

/-- The displacement of a relative branch as `gp_disassemble_find_labels` computes
it in the `unsigned int value`: `value = opcode & Mask; if (value & Sign)
value = -((value ^ Mask) + 1);`. -/
def rbra_value (opcode Mask Sign : Nat) : Nat :=
  let value := opcode &&& Mask
  if value &&& Sign ≠ 0 then (2 ^ 32 - ((value ^^^ Mask) + 1) % 2 ^ 32) % 2 ^ 32 else value

/-- The destination `dest_byte_addr = Byte_address + value * 2 + 2` of a relative
branch in `gp_disassemble_find_labels`, in `unsigned int`. -/
def rbra_dest_byte_addr (Byte_address opcode Mask Sign : Nat) : Nat :=
  (Byte_address + rbra_value opcode Mask Sign * 2 + 2) % 2 ^ 32

/-- The marking of a relative branch in `gp_disassemble_find_labels`, from the
assignment of `dst_org` on. -/
def find_labels_rbra_mark (class_ : proc_class) (l : labels_locals)
    (Byte_address dest_byte_addr prog_max_org : Nat) (Type_ : addr_type_t) : labels_locals :=
  let dst_org := gp_processor_insn_from_byte_c class_ (to_int dest_byte_addr)
  if prog_max_org > 0 ∧ dst_org ≥ 0 ∧ to_unsigned dst_org ≤ prog_max_org then
    { l with M := mark_branch l.M Byte_address dest_byte_addr Type_ }
  else l

/-- The case `INSN_CLASS_RBRA8` of `gp_disassemble_find_labels`. -/
def find_labels_rbra8 (class_ : proc_class) (l : labels_locals)
    (Byte_address opcode prog_max_org : Nat) : labels_locals :=
  let dest_byte_addr := rbra_dest_byte_addr Byte_address opcode PIC16E_BMSK_RBRA8 0x80
  if l.M.second_word dest_byte_addr = false then
    find_labels_rbra_mark class_ l Byte_address dest_byte_addr prog_max_org .W_ADDR_T_LABEL
  else l

/-- The case `INSN_CLASS_RBRA9` of `gp_disassemble_find_labels`. -/
def find_labels_rbra9 (class_ : proc_class) (l : labels_locals)
    (Byte_address opcode prog_max_org : Nat) : labels_locals :=
  let dest_byte_addr := rbra_dest_byte_addr Byte_address opcode PIC14E_BMSK_RBRA9 0x100
  find_labels_rbra_mark class_ l Byte_address dest_byte_addr prog_max_org .W_ADDR_T_LABEL

/-- The case `INSN_CLASS_RBRA11` of `gp_disassemble_find_labels`. -/
def find_labels_rbra11 (class_ : proc_class) (icode : common_insn) (l : labels_locals)
    (Byte_address opcode prog_max_org : Nat) : labels_locals :=
  let dest_byte_addr := rbra_dest_byte_addr Byte_address opcode PIC16E_BMSK_RBRA11 0x400
  if l.M.second_word dest_byte_addr = false then
    find_labels_rbra_mark class_ l Byte_address dest_byte_addr prog_max_org
      (if icode = .RCALL then .W_ADDR_T_FUNC else .W_ADDR_T_LABEL)
  else l

/-- The target that the cases `INSN_CLASS_LIT20` and `INSN_CLASS_CALL20` (of
`gp_disassemble_find_labels` and of `gp_disassemble`) build in the variable
`uint16_t dest`, which first holds the second word:
`dest = (dest & PIC16E_BMSK_BRANCH_HIGHER) << 8;
dest |= opcode & PIC16E_BMSK_BRANCH_LOWER;`. -/
def lit20_dest (opcode dest : Nat) : Nat :=
  let dest := ((dest &&& PIC16E_BMSK_BRANCH_HIGHER) <<< 8) % 2 ^ 16
  (dest ||| (opcode &&& PIC16E_BMSK_BRANCH_LOWER)) % 2 ^ 16

/-- The cases `INSN_CLASS_LIT20` and `INSN_CLASS_CALL20` of
`gp_disassemble_find_labels`. -/
def find_labels_lit20 (class_ : proc_class) (icode : common_insn) (l : labels_locals)
    (Byte_address opcode prog_max_org : Nat) : labels_locals :=
  match second_insn_word l.M Byte_address PIC16E_BMSK_SEC_INSN_WORD with
  | none => l
  | some dest =>
    let dest := lit20_dest opcode dest
    let dest_byte_addr := dest * 2
    if l.M.second_word dest_byte_addr = false then
      let dst_org := gp_processor_byte_from_insn_c class_ (to_int dest_byte_addr)
      let M :=
        if prog_max_org > 0 ∧ dst_org ≥ 0 ∧ to_unsigned dst_org ≤ prog_max_org then
          mark_branch l.M Byte_address dest_byte_addr
            (if icode = .CALL then .W_ADDR_T_FUNC else .W_ADDR_T_LABEL)
        else l.M
      { l with M := M, num_words := 2 }
    else l

/-- The statements of `gp_disassemble_find_labels` for `bcf` and `bsf` on bit
`tmp` of `PCLATH`. -/
def labels_pclath_bit (icode : common_insn) (l : labels_locals) (tmp : Nat) : labels_locals :=
  if icode = .BCF then
    { l with pclath := clear_bits l.pclath tmp, pclath_valid := set_bits l.pclath_valid tmp }
  else if icode = .BSF then
    { l with pclath := set_bits l.pclath tmp, pclath_valid := set_bits l.pclath_valid tmp }
  else l

/-- The cases `INSN_CLASS_FP` and `INSN_CLASS_PF` of `gp_disassemble_find_labels`,
from the test of `file1` and `file2` on. -/
def find_labels_movfp (l : labels_locals) (file1 file2 : Nat) : labels_locals :=
  if file1 = PIC16_REG_WREG ∧ file2 = PIC16_REG_PCLATH then
    { l with pclath := l.wreg, pclath_valid := if l.wreg ≥ 0 then 0xff else 0 }
  else if file2 = PIC16_REG_WREG then { l with wreg := -1 }
  else l

/-- The case `INSN_CLASS_B5` of `gp_disassemble_find_labels`. -/
def find_labels_b5 (K : gpopcode_masks) (icode : common_insn) (l : labels_locals)
    (opcode : Nat) : labels_locals :=
  let file1 := opcode &&& K.PIC12_BMSK_FILE
  let tmp := (opcode >>> 5) &&& 7
  if file1 = PIC12_REG_STATUS ∧ (tmp = 5 ∨ tmp = 6) then
    labels_pclath_bit icode l (1 <<< (tmp - 4))
  else l

/-- The case `INSN_CLASS_OPF7` of `gp_disassemble_find_labels`. -/
def find_labels_opf7 (K : gpopcode_masks) (class_ : proc_class) (icode : common_insn)
    (l : labels_locals) (opcode : Nat) : labels_locals :=
  let file1 := opcode &&& K.PIC14_BMSK_FILE
  if icode = .CLRF then
    if file1 = PIC14_REG_PCLATH then { l with pclath := 0, pclath_valid := 0xff }
    else if (class_.id = .PIC14E ∨ class_.id = .PIC14EX) ∧ file1 = PIC14E_REG_WREG then
      { l with wreg := 0 }
    else l
  else l

/-- The case `INSN_CLASS_B7` of `gp_disassemble_find_labels`. -/
def find_labels_b7 (K : gpopcode_masks) (class_ : proc_class) (icode : common_insn)
    (l : labels_locals) (opcode : Nat) : labels_locals :=
  let file1 := opcode &&& K.PIC14_BMSK_FILE
  let tmp := (opcode >>> 7) &&& 7
  if class_.id = .PIC14 then
    if file1 = PIC14_REG_PCLATH ∧ (tmp = 3 ∨ tmp = 4) then labels_pclath_bit icode l (1 <<< tmp)
    else l
  else
    if file1 = PIC14_REG_PCLATH ∧ tmp ≥ 3 ∧ tmp ≤ 6 then labels_pclath_bit icode l (1 <<< tmp)
    else l

/-- The case `INSN_CLASS_OPWF8` of `gp_disassemble_find_labels`. -/
def find_labels_opwf8 (K : gpopcode_masks) (icode : common_insn) (l : labels_locals)
    (opcode : Nat) : labels_locals :=
  let file1 := opcode &&& K.PIC16_BMSK_FILE
  let tmp := (opcode >>> 8) &&& 1
  if icode = .SETF then
    if tmp = 0 ∨ file1 = PIC16_REG_WREG then { l with wreg := 0xff } else l
  else if icode = .CLRF then
    if tmp = 0 ∨ file1 = PIC16_REG_WREG then { l with wreg := 0 } else l
  else if tmp = 0 then { l with wreg := -1 }
  else l

/-- The `switch (instruction->class)` of `gp_disassemble_find_labels`. -/
def find_labels_switch (K : gpopcode_masks) (class_ : proc_class) (instruction : insn_t)
    (l : labels_locals) (Byte_address opcode prog_max_org page_mask src_page : Nat) :
    labels_locals :=
  let icode := instruction.icode
  match instruction.class_ with
  | .LIT7 => { l with pclath := ((opcode &&& PIC14E_BMSK_PAGE512 : Nat) : Int), pclath_valid := 0xff }
  | .LIT8C12 => find_labels_lit8c12 K class_ l Byte_address opcode prog_max_org page_mask src_page
  | .LIT8C16 => find_labels_lit8c16 class_ l Byte_address opcode prog_max_org page_mask src_page
  | .LIT8 => find_labels_lit8 class_ icode l opcode
  | .LIT9 => find_labels_lit9 K class_ l Byte_address opcode prog_max_org
  | .LIT11 => find_labels_lit11 K class_ icode l Byte_address opcode prog_max_org page_mask src_page
  | .RBRA8 => find_labels_rbra8 class_ l Byte_address opcode prog_max_org
  | .RBRA9 => find_labels_rbra9 class_ l Byte_address opcode prog_max_org
  | .RBRA11 => find_labels_rbra11 class_ icode l Byte_address opcode prog_max_org
  | .LIT20 | .CALL20 => find_labels_lit20 class_ icode l Byte_address opcode prog_max_org
  | .FP => find_labels_movfp l (opcode &&& K.PIC16_BMSK_FILE) ((opcode >>> 8) &&& 0x1f)
  | .PF => find_labels_movfp l ((opcode >>> 8) &&& 0x1f) (opcode &&& K.PIC16_BMSK_FILE)
  | .OPWF5 => if (opcode >>> 5) &&& 1 = 0 then { l with wreg := -1 } else l
  | .B5 => find_labels_b5 K icode l opcode
  | .OPF7 => find_labels_opf7 K class_ icode l opcode
  | .OPWF7 => if (opcode >>> 7) &&& 1 = 0 then { l with wreg := -1 } else l
  | .B7 => find_labels_b7 K class_ icode l opcode
  | .OPF8 =>
    if opcode &&& K.PIC16_BMSK_FILE = PIC16_REG_PCLATH ∧ icode = .MOVWF then
      { l with pclath := l.wreg, pclath_valid := if l.wreg ≥ 0 then 0xff else 0 }
    else l
  | .OPWF8 => find_labels_opwf8 K icode l opcode
  | .IMPLICIT => if icode = .CLRW then { l with wreg := 0 } else l
  | .FLIT12 | .FF | .SF =>
    match second_insn_word l.M Byte_address PIC16E_BMSK_SEC_INSN_WORD with
    | some _ => { l with num_words := 2 }
    | none => l
  | .SS =>
    match second_insn_word l.M Byte_address 0xff80 with
    | some _ => { l with num_words := 2 }
    | none => l
  | _ => l

/-- Function `gp_disassemble_find_labels`: the number of words, the memory map and
the state after the call. -/
def gp_disassemble_find_labels (K : gpopcode_masks) (M : MemBlock_t) (Byte_address : Nat)
    (Processor : px) (Fstate : gpdasm_fstate_t) : Nat × MemBlock_t × gpdasm_fstate_t :=
  let class_ := Processor.class_
  match class_.find_insn with
  | none => (0, M, Fstate)
  | some find_insn =>
    match M.i_memory_get Byte_address with
    | none => (1, M, Fstate)
    | some word =>
      let opcode := word % 2 ^ 16
      match find_insn opcode with
      | none => (1, M, Fstate)
      | some instruction =>
        let page_mask := if class_.page_size > 0 then not32 (class_.page_size - 1) else 0
        let prog_max_org :=
          if Processor.prog_mem_size > 0 then to_unsigned (Processor.prog_mem_size - 1) else 0
        let src_page :=
          to_unsigned (gp_processor_insn_from_byte_c class_ (to_int Byte_address)) &&& page_mask
        let l := find_labels_switch K class_ instruction
          ⟨1, M, Fstate.wreg, Fstate.pclath, Fstate.pclath_valid⟩
          Byte_address opcode prog_max_org page_mask src_page
        (l.num_words, l.M,
          { Fstate with wreg := l.wreg, pclath := l.pclath, pclath_valid := l.pclath_valid })

/-- The destination that the cases `INSN_CLASS_RBRA8`, `RBRA9` and `RBRA11` of
`gp_disassemble` pass to `gp_processor_insn_from_byte_c`: with the `int value`,
`value = opcode & Mask; if (value & Sign) value = -((value ^ Mask) + 1);` and the
argument `Byte_address + value * 2 + 2`, which is an `unsigned int` converted to
the `int` parameter. -/
def gp_disassemble_rbra_dest (Byte_address opcode Mask Sign : Nat) : Int :=
  let value : Int := ((opcode &&& Mask : Nat) : Int)
  let value : Int :=
    if (opcode &&& Mask) &&& Sign ≠ 0 then -((((opcode &&& Mask) ^^^ Mask : Nat) : Int) + 1)
    else value
  to_int ((Byte_address + to_unsigned (value * 2) + 2) % 2 ^ 32)

/-- The address `org` that the cases `INSN_CLASS_RBRA8`, `RBRA9` and `RBRA11` of
`gp_disassemble` print. -/
def gp_disassemble_rbra_org (Class : proc_class) (Byte_address opcode Mask Sign : Nat) : Int :=
  gp_processor_insn_from_byte_c Class (gp_disassemble_rbra_dest Byte_address opcode Mask Sign)

/-- The address `org` that the cases `INSN_CLASS_LIT20` and `INSN_CLASS_CALL20` of
`gp_disassemble` print, `org = gp_processor_insn_from_byte_c(Class, dest * 2)`,
when the second word `dest` carries the tag. -/
def gp_disassemble_lit20_org (Class : proc_class) (opcode dest : Nat) : Int :=
  gp_processor_insn_from_byte_c Class ((lit20_dest opcode dest * 2 : Nat) : Int)

/-- The macro `IS_VALID_BANK(State, Mask)` of `gpdis.c`. -/
def IS_VALID_BANK (State : gpdasm_fstate_t) (Mask : Nat) : Bool :=
  c_and State.bank_valid Mask = (Mask : Int)

/-- The macro `BANK16_ADDR(State, Mask)` of `gpdis.c`. -/
def BANK16_ADDR (State : gpdasm_fstate_t) (Mask : Nat) : Int :=
  c_shl (c_and State.bank Mask) PIC16_BANK_SHIFT

/-- Function `_pic16e_reg_eval`: the value `reg_addr` that it returns.  The
operand names that it stores with `gp_mem_b_set_args` are not modelled. -/
def _pic16e_reg_eval (Fstate : gpdasm_fstate_t) (File : Nat) (Ram_acc : Bool) : Int :=
  if Ram_acc = false ∧ Fstate.bsr_boundary > 0 ∧ File ≥ Fstate.bsr_boundary then
    ((File + 0xF00 : Nat) : Int)
  else if IS_VALID_BANK Fstate PIC16E_BMSK_BANK then
    (File : Int) + BANK16_ADDR Fstate PIC16E_BMSK_BANK
  else -1

/-- The statements of `gp_disassemble_find_registers` for `bcf`, `bsf` and (where
`Btg` holds) `btg` on the bits `tmp` of the bank register. -/
def registers_bank_bit (icode : common_insn) (Btg : Bool) (Fstate : gpdasm_fstate_t)
    (tmp : Nat) : gpdasm_fstate_t :=
  if icode = .BCF then
    { Fstate with bank := clear_bits Fstate.bank tmp, bank_valid := set_bits Fstate.bank_valid tmp }
  else if icode = .BSF then
    { Fstate with bank := set_bits Fstate.bank tmp, bank_valid := set_bits Fstate.bank_valid tmp }
  else if Btg = true ∧ icode = .BTG then
    { Fstate with bank := toggle_bits Fstate.bank tmp, bank_valid := set_bits Fstate.bank_valid tmp }
  else Fstate

/-- The statements of `gp_disassemble_find_registers` for `bcf`, `bsf` and (where
`Btg` holds) `btg` on the bits `tmp` of `WREG`. -/
def registers_wreg_bit (icode : common_insn) (Btg : Bool) (Fstate : gpdasm_fstate_t)
    (tmp : Nat) : gpdasm_fstate_t :=
  if icode = .BCF then { Fstate with wreg := clear_bits Fstate.wreg tmp }
  else if icode = .BSF then { Fstate with wreg := set_bits Fstate.wreg tmp }
  else if Btg = true ∧ icode = .BTG then { Fstate with wreg := toggle_bits Fstate.wreg tmp }
  else Fstate

/-- The statements of `gp_disassemble_find_registers` that move `WREG` into the
bank register: `if (Fstate->wreg < 0) bank_valid = 0; else { bank = wreg;
bank_valid = 0xff; }`. -/
def registers_wreg_to_bank (Fstate : gpdasm_fstate_t) : gpdasm_fstate_t :=
  if Fstate.wreg < 0 then { Fstate with bank_valid := 0 }
  else { Fstate with bank := Fstate.wreg, bank_valid := 0xff }

/-- The case `INSN_CLASS_LIT8` of `gp_disassemble_find_registers`. -/
def find_registers_lit8 (K : gpopcode_masks) (class_ : proc_class) (icode : common_insn)
    (Fstate : gpdasm_fstate_t) (opcode : Nat) : gpdasm_fstate_t :=
  let tmp := opcode &&& 0xff
  if class_.id = .PIC16 ∧ icode = .MOVLB then
    { Fstate with
      bank := set_bits (clear_bits Fstate.bank K.PIC16_BMSK_MOVLB) (tmp &&& K.PIC16_BMSK_MOVLB)
      bank_valid := set_bits Fstate.bank_valid K.PIC16_BMSK_MOVLB }
  else if Fstate.wreg ≥ 0 then
    match icode with
    | .ADDLW => { Fstate with wreg := to_int (((to_unsigned Fstate.wreg + tmp) % 2 ^ 32) &&& 0xff) }
    | .ANDLW => { Fstate with wreg := to_int ((to_unsigned Fstate.wreg &&& tmp) &&& 0xff) }
    | .IORLW => { Fstate with wreg := to_int ((to_unsigned Fstate.wreg ||| tmp) &&& 0xff) }
    | .SUBLW =>
      { Fstate with wreg := to_int (((tmp + 2 ^ 32 - to_unsigned Fstate.wreg) % 2 ^ 32) &&& 0xff) }
    | .XORLW => { Fstate with wreg := to_int ((to_unsigned Fstate.wreg ^^^ tmp) &&& 0xff) }
    | _ => Fstate
  else if icode = .MOVLW then { Fstate with wreg := to_int tmp }
  else Fstate

/-- The cases `INSN_CLASS_FP` and `INSN_CLASS_PF` of `gp_disassemble_find_registers`,
from the label `_insn_class_pf` on; `first` and `second` are `args.first.val` and
`args.second.val`, to which the bank address has been added when the register is
banked and the bank is known. -/
def find_registers_movfp (Fstate : gpdasm_fstate_t) (first second : Nat) : gpdasm_fstate_t :=
  let banked (val : Nat) : Int :=
    if val ≤ 0x0f ∨ (val ≥ 0x18 ∧ val ≤ 0x1f) then (val : Int)
    else if IS_VALID_BANK Fstate PIC16_BMSK_BANK then (val : Int) + BANK16_ADDR Fstate PIC16_BMSK_BANK
    else (val : Int)
  let first := banked first
  let second := banked second
  if second = (PIC16_REG_WREG : Int) then { Fstate with wreg := -1 }
  else if first = (PIC16_REG_WREG : Int) ∧ second = (PIC16_REG_BSR : Int) then
    registers_wreg_to_bank Fstate
  else Fstate

/-- The case `INSN_CLASS_OPF7` of `gp_disassemble_find_registers`. -/
def find_registers_opf7 (K : gpopcode_masks) (class_ : proc_class) (icode : common_insn)
    (Fstate : gpdasm_fstate_t) (opcode : Nat) : gpdasm_fstate_t :=
  let file1 := opcode &&& K.PIC14_BMSK_FILE
  if class_.id = .PIC14 then
    if file1 = PIC14_REG_STATUS then
      if icode = .CLRF then { Fstate with bank := 0, bank_valid := PIC14_BMSK_BANK }
      else if icode = .MOVWF then { Fstate with bank_valid := 0 }
      else Fstate
    else Fstate
  else
    if file1 = PIC14E_REG_BSR then
      if icode = .CLRF then { Fstate with bank := 0, bank_valid := PIC14E_BMSK_BANK }
      else if icode = .MOVWF then { Fstate with bank_valid := 0 }
      else Fstate
    else Fstate

/-- The case `INSN_CLASS_B7` of `gp_disassemble_find_registers`. -/
def find_registers_b7 (K : gpopcode_masks) (class_ : proc_class) (icode : common_insn)
    (Fstate : gpdasm_fstate_t) (opcode : Nat) : gpdasm_fstate_t :=
  let file1 := opcode &&& K.PIC14_BMSK_FILE
  let tmp := (opcode >>> 7) &&& 7
  if class_.id = .PIC14E ∨ class_.id = .PIC14EX then
    let tmp := 1 <<< tmp
    if file1 = PIC14E_REG_BSR then registers_bank_bit icode false Fstate tmp
    else if file1 = PIC14E_REG_WREG ∧ Fstate.wreg ≥ 0 then registers_wreg_bit icode false Fstate tmp
    else Fstate
  else
    if file1 = PIC14_REG_STATUS ∧ (tmp = PIC14_BIT_STATUS_RP0 ∨ tmp = PIC14_BIT_STATUS_RP1) then
      registers_bank_bit icode false Fstate (1 <<< (tmp - PIC14_BIT_STATUS_RP0))
    else Fstate

/-- The case `INSN_CLASS_OPFA8` of `gp_disassemble_find_registers`. -/
def find_registers_opfa8 (K : gpopcode_masks) (icode : common_insn) (Fstate : gpdasm_fstate_t)
    (opcode : Nat) : gpdasm_fstate_t :=
  let file1 := opcode &&& K.PIC16_BMSK_FILE
  let ram_acc : Bool := opcode &&& 0x100 ≠ 0
  let addr := _pic16e_reg_eval Fstate file1 ram_acc
  if addr = (PIC16E_REG_BSR : Int) then
    if icode = .CLRF then { Fstate with bank := 0, bank_valid := PIC16_BMSK_BANK }
    else if icode = .SETF then { Fstate with bank := 0xff, bank_valid := PIC16_BMSK_BANK }
    else if icode = .MOVWF ∨ icode = .NEGF then { Fstate with bank_valid := 0 }
    else Fstate
  else Fstate

/-- The case `INSN_CLASS_BA8` of `gp_disassemble_find_registers`. -/
def find_registers_ba8 (K : gpopcode_masks) (icode : common_insn) (Fstate : gpdasm_fstate_t)
    (opcode : Nat) : gpdasm_fstate_t :=
  let file1 := opcode &&& K.PIC16_BMSK_FILE
  let tmp := (opcode >>> 9) &&& 7
  let ram_acc : Bool := opcode &&& 0x100 ≠ 0
  let addr := _pic16e_reg_eval Fstate file1 ram_acc
  if addr = (PIC16E_REG_BSR : Int) ∧ IS_VALID_BANK Fstate PIC16_BMSK_BANK then
    let tmp := 1 <<< tmp
    if icode = .BCF then { Fstate with bank := clear_bits Fstate.bank tmp }
    else if icode = .BSF then { Fstate with bank := set_bits Fstate.bank tmp }
    else if icode = .BTG then { Fstate with bank := toggle_bits Fstate.bank tmp }
    else Fstate
  else Fstate

/-- The `switch (instruction->class)` of `gp_disassemble_find_registers`: the
number of words and the state. -/
def find_registers_switch (K : gpopcode_masks) (M : MemBlock_t) (class_ : proc_class)
    (instruction : insn_t) (Fstate : gpdasm_fstate_t) (Byte_address opcode : Nat) :
    Nat × gpdasm_fstate_t :=
  let icode := instruction.icode
  let two_words (Mask : Nat) : Nat :=
    match second_insn_word M Byte_address Mask with
    | some _ => 2
    | none => 1
  match instruction.class_ with
  | .LIT3 =>
    (1, { Fstate with bank := ((opcode &&& PIC12E_BMSK_BANK : Nat) : Int)
                      bank_valid := PIC12E_BMSK_BANK })
  | .LIT4L =>
    (1, { Fstate with bank := ((opcode &&& K.PIC16E_BMSK_MOVLB : Nat) : Int)
                      bank_valid := K.PIC16E_BMSK_MOVLB })
  | .LIT4H =>
    (1, { Fstate with
          bank := set_bits (clear_bits Fstate.bank K.PIC16_BMSK_MOVLR) (opcode &&& K.PIC16_BMSK_MOVLR)
          bank_valid := set_bits Fstate.bank_valid K.PIC16_BMSK_MOVLR })
  | .LIT5 =>
    (1, { Fstate with bank := ((opcode &&& PIC14E_BMSK_BANK : Nat) : Int)
                      bank_valid := PIC14E_BMSK_BANK })
  | .LITBSR_6 =>
    (1, { Fstate with bank := ((opcode &&& PIC14EX_BMSK_BANK : Nat) : Int)
                      bank_valid := PIC14EX_BMSK_BANK })
  | .LIT8 => (1, find_registers_lit8 K class_ icode Fstate opcode)
  | .LIT8C12 | .LIT8C16 | .LIT9 | .LIT11 | .LIT13 | .RBRA8 | .RBRA9 | .RBRA11 =>
    if icode = .CALL ∨ icode = .RCALL then (1, { Fstate with wreg := -1, bank_valid := 0 })
    else (1, Fstate)
  | .LIT20 | .FLIT12 => (two_words PIC16E_BMSK_SEC_INSN_WORD, Fstate)
  | .SS => (two_words 0xff80, Fstate)
  | .CALL20 =>
    (two_words PIC16E_BMSK_SEC_INSN_WORD, { Fstate with wreg := -1, bank_valid := 0 })
  | .FF | .SF => (two_words PIC16E_BMSK_SEC_INSN_WORD, Fstate)
  | .FP =>
    (1, find_registers_movfp Fstate (opcode &&& K.PIC16_BMSK_FILE) ((opcode >>> 8) &&& 0x1f))
  | .PF =>
    (1, find_registers_movfp Fstate ((opcode >>> 8) &&& 0x1f) (opcode &&& K.PIC16_BMSK_FILE))
  | .OPF5 =>
    if class_.id = .PIC12 ∧ opcode &&& K.PIC12_BMSK_FILE = PIC12_REG_FSR then
      if icode = .CLRF then (1, { Fstate with bank := 0, bank_valid := 0xff })
      else if icode = .MOVWF then (1, registers_wreg_to_bank Fstate)
      else (1, Fstate)
    else (1, Fstate)
  | .OPWF5 =>
    if (opcode >>> 5) &&& 1 = 0 then (1, { Fstate with wreg := -1 })
    else if class_.id = .PIC12 ∧ opcode &&& K.PIC12_BMSK_FILE = PIC12_REG_FSR then
      (1, { Fstate with bank_valid := 0 })
    else (1, Fstate)
  | .B5 =>
    let tmp := (opcode >>> 5) &&& 7
    if opcode &&& K.PIC12_BMSK_FILE = PIC12_REG_FSR ∧ tmp ≥ 5 ∧ tmp ≤ 7 then
      (1, registers_bank_bit icode false Fstate (1 <<< (tmp - 5)))
    else (1, Fstate)
  | .B8 =>
    let file1 := opcode &&& K.PIC16_BMSK_FILE
    let tmp := 1 <<< ((opcode >>> 8) &&& 7)
    if file1 = PIC16_REG_BSR then (1, registers_bank_bit icode true Fstate tmp)
    else if file1 = PIC16_REG_WREG ∧ Fstate.wreg ≥ 0 then
      (1, registers_wreg_bit icode true Fstate tmp)
    else (1, Fstate)
  | .OPF7 => (1, find_registers_opf7 K class_ icode Fstate opcode)
  | .OPF8 =>
    if icode = .MOVWF ∧ opcode &&& K.PIC16_BMSK_FILE = PIC16_REG_BSR then
      if Fstate.wreg ≥ 0 then (1, { Fstate with bank := Fstate.wreg, bank_valid := 0xff })
      else (1, { Fstate with bank_valid := 0 })
    else (1, Fstate)
  | .OPWF7 => if (opcode >>> 7) &&& 1 = 0 then (1, { Fstate with wreg := -1 }) else (1, Fstate)
  | .OPWF8 =>
    let file1 := opcode &&& K.PIC16_BMSK_FILE
    if (opcode >>> 8) &&& 1 = 0 ∨ file1 = PIC16_REG_WREG then (1, { Fstate with wreg := -1 })
    else if file1 = PIC16_REG_BSR then (1, { Fstate with bank_valid := 0 })
    else (1, Fstate)
  | .B7 => (1, find_registers_b7 K class_ icode Fstate opcode)
  | .OPFA8 => (1, find_registers_opfa8 K icode Fstate opcode)
  | .BA8 => (1, find_registers_ba8 K icode Fstate opcode)
  | .OPWFA8 =>
    let addr := _pic16e_reg_eval Fstate (opcode &&& K.PIC16_BMSK_FILE) (opcode &&& 0x100 ≠ 0)
    if addr = (PIC16E_REG_BSR : Int) ∧ (opcode >>> 9) &&& 1 ≠ 0 then
      (1, { Fstate with bank_valid := 0 })
    else (1, Fstate)
  | .TBL2 =>
    let file1 := opcode &&& K.PIC16_BMSK_FILE
    if icode = .TLRD then
      if file1 = PIC16_REG_WREG then (1, { Fstate with wreg := -1 })
      else if file1 = PIC16_REG_BSR then (1, { Fstate with bank_valid := 0 })
      else (1, Fstate)
    else (1, Fstate)
  | .TBL3 =>
    let file1 := opcode &&& K.PIC16_BMSK_FILE
    if icode = .TABLRD then
      if file1 = PIC16_REG_WREG then (1, { Fstate with wreg := -1 })
      else if file1 = PIC16_REG_BSR then (1, { Fstate with bank_valid := 0 })
      else (1, Fstate)
    else (1, Fstate)
  | _ => (1, Fstate)

/-- The statement at the head of `gp_disassemble_find_registers`:
`if ((Byte_address > 0) && (gp_mem_b_get_addr_type(M, Byte_address, NULL, NULL) &
W_ADDR_T_MASK)) { Fstate->wreg = -1; Fstate->bank_valid = 0; }`. -/
def find_registers_enter (M : MemBlock_t) (Byte_address : Nat) (Fstate : gpdasm_fstate_t) :
    gpdasm_fstate_t :=
  if Byte_address > 0 ∧ addr_type_masked M Byte_address = true then
    { Fstate with wreg := -1, bank_valid := 0 }
  else Fstate

/-- Function `gp_disassemble_find_registers`: the number of words and the state
after the call.  The operand names that the function stores in the memory map
(`gp_mem_b_set_args`) are not modelled; it changes no flag of the map. -/
def gp_disassemble_find_registers (K : gpopcode_masks) (M : MemBlock_t) (Byte_address : Nat)
    (Processor : px) (Fstate : gpdasm_fstate_t) : Nat × gpdasm_fstate_t :=
  let class_ := Processor.class_
  match class_.find_insn with
  | none => (0, Fstate)
  | some find_insn =>
    match M.i_memory_get Byte_address with
    | none => (1, Fstate)
    | some word =>
      let opcode := word % 2 ^ 16
      match find_insn opcode with
      | none => (1, Fstate)
      | some instruction =>
        find_registers_switch K M class_ instruction
          (find_registers_enter M Byte_address Fstate) Byte_address opcode

/-! ### Specification-side definitions and example data for the disassembler -/

/-- The displacement that the specification gives for a relative branch: the
two's-complement signed value of the low `bits` bits of the opcode. -/
def rbra_displacement (opcode bits : Nat) : Int :=
  if opcode % 2 ^ bits < 2 ^ (bits - 1) then ((opcode % 2 ^ bits : Nat) : Int)
  else ((opcode % 2 ^ bits : Nat) : Int) - 2 ^ bits

/-- What the specification says of a relative branch with the field mask `Mask`,
the sign bit `Sign` and `bits` field bits, at byte address `A`: the displacement
that `gp_disassemble_find_labels` computes is the signed value `d` of the field,
its destination is `A + 2 * d + 2` in 32-bit arithmetic, `gp_disassemble`
computes the same destination (which is `A + 2 * d + 2` itself when that is an
`int`) and the same instruction address. -/
def rbra_decoded (Class : proc_class) (A opcode Mask Sign bits : Nat) : Prop :=
  to_int (rbra_value opcode Mask Sign) = rbra_displacement opcode bits ∧
  ((rbra_dest_byte_addr A opcode Mask Sign : Nat) : Int)
    = ((A : Int) + 2 * rbra_displacement opcode bits + 2) % 2 ^ 32 ∧
  gp_disassemble_rbra_dest A opcode Mask Sign = to_int (rbra_dest_byte_addr A opcode Mask Sign) ∧
  (-(2 : Int) ^ 31 ≤ (A : Int) + 2 * rbra_displacement opcode bits + 2 →
    (A : Int) + 2 * rbra_displacement opcode bits + 2 < 2 ^ 31 →
    gp_disassemble_rbra_dest A opcode Mask Sign
      = (A : Int) + 2 * rbra_displacement opcode bits + 2) ∧
  gp_disassemble_rbra_org Class A opcode Mask Sign
    = gp_processor_insn_from_byte_c Class (to_int (rbra_dest_byte_addr A opcode Mask Sign))

/-- The instruction at `Byte_address` is a two-word instruction with its second
word in place: the word there is fully used and decodes to an entry of a
two-word class, and the next word is fully used and carries the tag
(`0xF000` under the mask `0xF000`, for `movss` under the mask `0xFF80`). -/
def two_word_insn (M : MemBlock_t) (Byte_address : Nat) (find_insn : Nat → Option insn_t) :
    Prop :=
  ∃ word instruction word2,
    M.i_memory_get Byte_address = some word ∧
    find_insn (word % 2 ^ 16) = some instruction ∧
    instruction.class_ ∈ [insn_class.LIT20, .CALL20, .FLIT12, .FF, .SF, .SS] ∧
    M.i_memory_get ((Byte_address + 2) % 2 ^ 32) = some word2 ∧
    (word2 % 2 ^ 16) &&& (if instruction.class_ = .SS then 0xFF80 else 0xF000) = 0xF000

/-- A processor for the examples: the class `id` with the given shift, no paging,
and an instruction set in which every opcode decodes to `insn`. -/
def example_px (id : proc_class_id) (shift : Nat) (insn : insn_t) (prog_mem_size : Int) : px :=
  { class_ := { id := id, page_size := 0, org_to_byte_shift := shift,
                find_insn := some (fun _ => some insn) }
    prog_mem_size := prog_mem_size }

/-- A memory map for the examples: the listed words are fully used and the listed
addresses are marked as labels; every other flag is clear. -/
def example_map (words : List (Nat × Nat)) (labels : List Nat) : MemBlock_t :=
  { i_memory_get := fun a => (words.find? (fun p => p.1 == a)).map (fun p => p.2)
    second_word := fun _ => false
    branch_src := fun _ => false
    func := fun _ => false
    label := fun a => labels.contains a
    dest_byte_addr := fun _ => 0 }

/-- Values of the masks for the examples: the field widths that the class names
state (`LIT8C12`: 8 bits, `LIT9`: 9 bits, `LIT11`: 11 bits, `OPF5`, `OPF7`,
`OPF8`: 5, 7 and 8 file bits). -/
def example_masks : gpopcode_masks :=
  { PIC12_BMSK_CALL := 0x0FF, PIC12_BMSK_GOTO := 0x1FF, PIC12_BMSK_FILE := 0x01F
    PIC14_BMSK_BRANCH := 0x7FF, PIC14_BMSK_FILE := 0x07F, PIC16_BMSK_FILE := 0x0FF
    PIC16_BMSK_MOVLB := 0x0F, PIC16_BMSK_MOVLR := 0xF0, PIC16E_BMSK_MOVLB := 0x0F
    PIC12_PC_MASK := 0x7FF, PIC14_PC_MASK := 0x1FFF, PIC14E_PC_MASK := 0x7FFF }

/-- A state for the examples: `WREG` known to be `wreg`, the bank known to be
`bank`, `PCLATH` unknown. -/
def example_fstate (wreg bank : Int) : gpdasm_fstate_t :=
  { wreg := wreg, pclath := 0, pclath_valid := 0, bank := bank, bank_valid := 0xff
    bsr_boundary := 0x60 }

/-! ## The COFF writer: the whole object (`gpwriteobj.c`, lines 160-623)

The object model (`gp_object_t`, `gp_symbol_t`, `gp_aux_t`, `gp_reloc_t`,
`gp_linenum_t`) and the constants of the format are declared in the absent
headers `gpcoffgen.h` and `gpcoff.h`.  The records below hold the fields that the
writer reads; a pointer to a symbol or to a section is the index of the symbol
or section in the list of the object.  An assertion that fails, and a pointer
that points to nothing, end the run: the writers then yield `none`. -/

/-- The constants and the function that the writer takes from the absent headers
`gpcoff.h` and `gpcoffgen.h`.  `gp_coffgen_section_has_data` is modelled from the
spec, "for each section in order: raw data (if any)": a function of the flags
and the size of the section. -/
structure gpcoff_h where
  MICROCHIP_MAGIC_v1 : Nat
  MICROCHIP_MAGIC_v2 : Nat
  OPTMAGIC_v1 : Nat
  OPTMAGIC_v2 : Nat
  FILE_HDR_SIZ_v1 : Nat
  FILE_HDR_SIZ_v2 : Nat
  OPT_HDR_SIZ_v1 : Nat
  OPT_HDR_SIZ_v2 : Nat
  SEC_HDR_SIZ_v1 : Nat
  SEC_HDR_SIZ_v2 : Nat
  RELOC_SIZ : Nat
  LINENO_SIZ : Nat
  SYMBOL_SIZE_v1 : Nat
  SYMBOL_SIZE_v2 : Nat
  N_SCNUM : Nat
  T_SHIFT_v1 : Nat
  T_SHIFT_v2 : Nat
  gp_coffgen_section_has_data : Nat → Nat → Bool
  env : SectionHeaderEnv

/-- Modelled from the spec: an auxiliary record `gp_aux_t`, "auxiliary variants:
`FILE` (filename, include line, flags), `DIRECT` (command byte + string), `IDENT`
(string), `SECTION` (length, reloc count, line count), and a raw blob fallback".
A string is `none` for a `NULL` pointer. -/
inductive gp_aux_t where
  | AUX_DIRECT (command : Nat) (string : Option (List Nat))
  | AUX_FILE (filename : Option (List Nat)) (line_number : Nat) (flags : Nat)
  | AUX_IDENT (string : Option (List Nat))
  | AUX_SECTION (length : Nat) (nreloc : Nat) (nlineno : Nat)
  | AUX_OTHER (data : List Nat)

/-- Modelled from the spec: a relocation `gp_reloc_t`, "byte offset within section,
target symbol, constant offset, and a tagged type". -/
structure gp_reloc_t where
  address : Nat
  symbol : Nat
  offset : Int
  type_ : Nat

/-- Modelled from the spec: a line number `gp_linenum_t`, "byte address, line
number, symbol of owning source file". -/
structure gp_linenum_t where
  symbol : Nat
  line_number : Nat
  address : Nat

/-- Modelled from the spec: a symbol `gp_symbol_t`, "name, value (numeric),
derived-type byte, storage class, owning section (or null), section number, and
an ordered list of auxiliary records".  `aux_list_num_nodes` is the counter
`aux_list.num_nodes` and `aux_list` the chain from `aux_list.first`. -/
structure gp_symbol_t where
  name : Option (List Nat)
  value : Int
  section_number : Int
  section_ : Option Nat
  type_ : Nat
  derived_type : Nat
  class_ : Nat
  aux_list_num_nodes : Nat
  aux_list : List gp_aux_t
  number : Nat

/-- A section of an object: the fields of `gp_section_t` that the header holds
(`hdr`), and the fields `number`, `shadow_address`, `data` and the chains of the
lists `relocation_list` and `line_number_list`.  `data` is the byte that
`gp_mem_b_assert_get` reads at an address, `none` when its assertion fails
(modelled from the spec: "reading an unused byte", which the name says is
asserted not to happen). -/
structure coff_section where
  hdr : gp_section_t
  number : Nat
  shadow_address : Nat
  data : Nat → Option Nat
  relocation_list : List gp_reloc_t
  line_number_list : List gp_linenum_t

/-- Modelled from the spec: the object `gp_object_t`, "processor, class, name,
flags, time stamp, isnew flag, ordered list of sections, ordered list of
symbols".  `coff_type` is `gp_processor_coff_type(Object->processor)`,
`rom_width` is `gp_processor_rom_width(Object->class)` and `org_to_byte_shift`
is `Object->class->org_to_byte_shift`. -/
structure gp_object_t where
  filename : List Nat
  isnew : Bool
  time : Nat
  flags : Nat
  num_symbols : Nat
  symbol_ptr : Nat
  section_list_num_nodes : Nat
  section_list : List coff_section
  symbol_list : List gp_symbol_t
  coff_type : Nat
  rom_width : Nat
  org_to_byte_shift : Nat

/-- The call `gp_coffgen_section_has_data(section)`. -/
def has_data (K : gpcoff_h) (s : coff_section) : Bool :=
  K.gp_coffgen_section_has_data s.hdr.flags s.hdr.size

/-- The first loop of `_update_pointers`, "update the data pointers in the section
headers": the sections and `data_idx` after the loop. -/
def update_data_ptrs (K : gpcoff_h) : Nat → Nat → List coff_section → List coff_section × Nat
  | _, data_idx, [] => ([], data_idx)
  | section_number, data_idx, s :: rest =>
    let s1 := { s with number := section_number, hdr := { s.hdr with data_ptr := 0 } }
    if has_data K s1 then
      let r := update_data_ptrs K ((section_number + 1) % 2 ^ 32)
        ((data_idx + s1.hdr.size) % 2 ^ 32) rest
      ({ s1 with hdr := { s1.hdr with data_ptr := data_idx } } :: r.1, r.2)
    else
      let r := update_data_ptrs K ((section_number + 1) % 2 ^ 32) data_idx rest
      (s1 :: r.1, r.2)

/-- The second loop of `_update_pointers`, "update the relocation pointers in the
section headers". -/
def update_reloc_ptrs (K : gpcoff_h) : Nat → List coff_section → List coff_section × Nat
  | data_idx, [] => ([], data_idx)
  | data_idx, s :: rest =>
    if s.hdr.relocation_list_num_nodes > 0 then
      let r := update_reloc_ptrs K
        ((data_idx + s.hdr.relocation_list_num_nodes * K.RELOC_SIZ) % 2 ^ 32) rest
      ({ s with hdr := { s.hdr with reloc_ptr := data_idx } } :: r.1, r.2)
    else
      let r := update_reloc_ptrs K data_idx rest
      ({ s with hdr := { s.hdr with reloc_ptr := 0 } } :: r.1, r.2)

/-- The third loop of `_update_pointers`, "update the line number pointers in the
section headers". -/
def update_lineno_ptrs (K : gpcoff_h) : Nat → List coff_section → List coff_section × Nat
  | data_idx, [] => ([], data_idx)
  | data_idx, s :: rest =>
    if s.hdr.line_number_list_num_nodes > 0 then
      let r := update_lineno_ptrs K
        ((data_idx + s.hdr.line_number_list_num_nodes * K.LINENO_SIZ) % 2 ^ 32) rest
      ({ s with hdr := { s.hdr with lineno_ptr := data_idx } } :: r.1, r.2)
    else
      let r := update_lineno_ptrs K data_idx rest
      ({ s with hdr := { s.hdr with lineno_ptr := 0 } } :: r.1, r.2)

/-- The last loop of `_update_pointers`, "update the symbol numbers". -/
def update_symbol_numbers : Nat → List gp_symbol_t → List gp_symbol_t
  | _, [] => []
  | symbol_number, s :: rest =>
    { s with number := symbol_number }
      :: update_symbol_numbers ((symbol_number + (1 + s.aux_list_num_nodes)) % 2 ^ 32) rest

/-- The initial value of `data_idx` in `_update_pointers`: the size of the file
header, of the optional header and of the section headers. -/
def headers_size (K : gpcoff_h) (isnew : Bool) (section_number : Nat) : Nat :=
  if isnew then (K.FILE_HDR_SIZ_v2 + K.OPT_HDR_SIZ_v2 + K.SEC_HDR_SIZ_v2 * section_number) % 2 ^ 32
  else (K.FILE_HDR_SIZ_v1 + K.OPT_HDR_SIZ_v1 + K.SEC_HDR_SIZ_v1 * section_number) % 2 ^ 32

/-- Function `_update_pointers`. -/
def _update_pointers (K : gpcoff_h) (Object : gp_object_t) : gp_object_t :=
  let section_number := Object.section_list_num_nodes % 2 ^ 32
  let data_idx := headers_size K Object.isnew section_number
  let r1 := update_data_ptrs K K.N_SCNUM data_idx Object.section_list
  let r2 := update_reloc_ptrs K r1.2 r1.1
  let r3 := update_lineno_ptrs K r2.2 r2.1
  { Object with
    section_list := r3.1
    symbol_ptr := r3.2
    symbol_list := update_symbol_numbers 0 Object.symbol_list }

/-- Function `_write_file_header`: the bytes written. -/
def _write_file_header (K : gpcoff_h) (Object : gp_object_t) : List Nat :=
  gp_fputl16 (if Object.isnew then K.MICROCHIP_MAGIC_v2 else K.MICROCHIP_MAGIC_v1)
    ++ gp_fputl16 (Object.section_list_num_nodes % 2 ^ 16)
    ++ gp_fputl32 Object.time
    ++ gp_fputl32 Object.symbol_ptr
    ++ gp_fputl32 Object.num_symbols
    ++ gp_fputl16 (if Object.isnew then K.OPT_HDR_SIZ_v2 else K.OPT_HDR_SIZ_v1)
    ++ gp_fputl16 Object.flags

/-- Function `_write_optional_header`: the bytes written, or `none` when
`assert(coff_type != 0)` fails. -/
def _write_optional_header (K : gpcoff_h) (Object : gp_object_t) : Option (List Nat) :=
  if Object.coff_type % 2 ^ 32 = 0 then none
  else
    some (gp_fputl16 (if Object.isnew then K.OPTMAGIC_v2 else K.OPTMAGIC_v1)
      ++ (if Object.isnew then gp_fputl32 1 else gp_fputl16 1)
      ++ gp_fputl32 (Object.coff_type % 2 ^ 32)
      ++ gp_fputl32 Object.rom_width
      ++ gp_fputl32 8)

/-- The loop "write section headers" of `gp_writeobj_write_coff`: the bytes written
and the table after the loop. -/
def write_section_headers (K : gpcoff_h) (org_to_byte_shift : Nat) :
    List coff_section → StringTable → Option (List Nat × StringTable)
  | [], st => some ([], st)
  | s :: rest, st =>
    match _write_section_header K.env s.hdr org_to_byte_shift st with
    | none => none
    | some (out, st1) =>
      match write_section_headers K org_to_byte_shift rest st1 with
      | none => none
      | some (outs, st2) => some (out ++ outs, st2)

/-- The loop `for ( ; org < end; org++)` of `_write_section_data`; the first
argument is `end - org`. -/
def write_section_data_loop (data : Nat → Option Nat) : Nat → Nat → Option (List Nat)
  | 0, _ => some []
  | n + 1, org =>
    match data org with
    | none => none
    | some byte =>
      match write_section_data_loop data n (org + 1) with
      | none => none
      | some out => some (byte % 256 :: out)

/-- Function `_write_section_data`: the bytes written, or `none` when the assertion
of `gp_mem_b_assert_get` fails.  `org` and `end` are `unsigned int`. -/
def _write_section_data (Section : coff_section) : Option (List Nat) :=
  let org := Section.shadow_address % 2 ^ 32
  let end_ := (org + Section.hdr.size) % 2 ^ 32
  write_section_data_loop Section.data (end_ - org) org

/-- The field `number` of the symbol that a pointer points to. -/
def symbol_number (symbols : List gp_symbol_t) (symbol : Nat) : Option Nat :=
  (symbols[symbol]?).map (fun s => s.number)

/-- Function `_write_relocations` on the chain `current`: the bytes written, or
`none` when a relocation has no symbol. -/
def _write_relocations (symbols : List gp_symbol_t) : List gp_reloc_t → Option (List Nat)
  | [] => some []
  | current :: next =>
    match symbol_number symbols current.symbol with
    | none => none
    | some number =>
      match _write_relocations symbols next with
      | none => none
      | some out =>
        some (gp_fputl32 current.address
          ++ gp_fputl32 number
          ++ gp_fputl16 (to_unsigned current.offset % 2 ^ 16)
          ++ gp_fputl16 current.type_
          ++ out)

/-- The loop of `_write_linenumbers` on the chain `current`. -/
def write_linenumbers_loop (K : gpcoff_h) (symbols : List gp_symbol_t)
    (Org_to_byte_shift : Nat) : List gp_linenum_t → Option (List Nat)
  | [] => some []
  | current :: next =>
    match symbol_number symbols current.symbol with
    | none => none
    | some number =>
      match write_linenumbers_loop K symbols Org_to_byte_shift next with
      | none => none
      | some out =>
        some (gp_fputl32 number
          ++ gp_fputl16 current.line_number
          ++ gp_fputl32 (K.env.gp_insn_from_byte Org_to_byte_shift current.address)
          ++ gp_fputl16 0
          ++ gp_fputl32 0
          ++ out)

/-- Function `_write_linenumbers`: the bytes written, or `none` when a line number
has no symbol. -/
def _write_linenumbers (K : gpcoff_h) (symbols : List gp_symbol_t) (Section : coff_section)
    (Org_to_byte_shift : Nat) : Option (List Nat) :=
  let Org_to_byte_shift :=
    if Section.hdr.flags &&& K.env.STYP_ROM_AREA = 0 then 0 else Org_to_byte_shift
  write_linenumbers_loop K symbols Org_to_byte_shift Section.line_number_list

/-- The call `_add_string(String, Table)` with a string that may be `NULL`:
`assert(!(String == NULL))` fails for `NULL`. -/
def add_string_ptr (String : Option (List Nat)) (st : StringTable) :
    Option (Nat × StringTable) :=
  match String with
  | none => none
  | some str => _add_string str st

/-- The body of the loop of `_write_aux_symbols` for one record: the bytes written
and the table after it, or `none` when an assertion of `_add_string` fails. -/
def write_aux_symbol (K : gpcoff_h) (Aux : gp_aux_t) (st : StringTable) (Isnew : Bool) :
    Option (List Nat × StringTable) :=
  let tail := if Isnew then gp_fputzero 2 else []
  match Aux with
  | .AUX_DIRECT command string =>
    match add_string_ptr string st with
    | none => none
    | some (offset, st1) =>
      some (gp_fputl32 command ++ gp_fputl32 offset ++ gp_fputzero 10 ++ tail, st1)
  | .AUX_FILE filename line_number flags =>
    match add_string_ptr filename st with
    | none => none
    | some (offset, st1) =>
      some (gp_fputl32 offset ++ gp_fputl32 line_number ++ [flags % 256] ++ gp_fputzero 9
        ++ tail, st1)
  | .AUX_IDENT string =>
    match add_string_ptr string st with
    | none => none
    | some (offset, st1) => some (gp_fputl32 offset ++ gp_fputzero 14 ++ tail, st1)
  | .AUX_SECTION length nreloc nlineno =>
    some (gp_fputl32 length ++ gp_fputl16 nreloc ++ gp_fputl16 nlineno ++ gp_fputzero 10
      ++ tail, st)
  | .AUX_OTHER data =>
    some (gp_fputvar data (if Isnew then K.SYMBOL_SIZE_v2 else K.SYMBOL_SIZE_v1), st)

/-- Function `_write_aux_symbols` on the chain `Aux`. -/
def _write_aux_symbols (K : gpcoff_h) : List gp_aux_t → StringTable → Bool →
    Option (List Nat × StringTable)
  | [], st, _ => some ([], st)
  | Aux :: next, st, Isnew =>
    match write_aux_symbol K Aux st Isnew with
    | none => none
    | some (out, st1) =>
      match _write_aux_symbols K next st1 Isnew with
      | none => none
      | some (outs, st2) => some (out ++ outs, st2)

/-- The body of the loop of `_write_symbols` for one symbol; `sections` is the
section list of the object, for `symbol->section->number`. -/
def write_symbol (K : gpcoff_h) (sections : List coff_section) (isnew : Bool)
    (symbol : gp_symbol_t) (st : StringTable) : Option (List Nat × StringTable) :=
  match _add_name symbol.name st with
  | none => none
  | some (name_bytes, st1) =>
    let sec_num : Option (List Nat) :=
      if symbol.section_number < (K.N_SCNUM : Int) then
        some (gp_fputl16 (to_unsigned symbol.section_number % 2 ^ 16))
      else
        match symbol.section_ with
        | none => none
        | some i => (sections[i]?).map (fun s => gp_fputl16 (s.number % 2 ^ 16))
    match sec_num with
    | none => none
    | some sec_bytes =>
      let type_bytes :=
        if isnew then
          gp_fputl32 ((symbol.type_ % 2 ^ 32) ||| ((symbol.derived_type <<< K.T_SHIFT_v2) % 2 ^ 32))
        else
          gp_fputl16 ((symbol.type_ % 2 ^ 16) ||| ((symbol.derived_type <<< K.T_SHIFT_v1) % 2 ^ 16))
      let head := name_bytes ++ gp_fputl32 (to_unsigned symbol.value) ++ sec_bytes ++ type_bytes
        ++ [symbol.class_ % 256] ++ [symbol.aux_list_num_nodes % 256]
      if symbol.aux_list_num_nodes > 0 then
        match _write_aux_symbols K symbol.aux_list st1 isnew with
        | none => none
        | some (aux_bytes, st2) => some (head ++ aux_bytes, st2)
      else some (head, st1)

/-- Function `_write_symbols` on the chain `symbol`. -/
def _write_symbols (K : gpcoff_h) (sections : List coff_section) (isnew : Bool) :
    List gp_symbol_t → StringTable → Option (List Nat × StringTable)
  | [], st => some ([], st)
  | symbol :: next, st =>
    match write_symbol K sections isnew symbol st with
    | none => none
    | some (out, st1) =>
      match _write_symbols K sections isnew next st1 with
      | none => none
      | some (outs, st2) => some (out ++ outs, st2)

/-- One of the loops of `gp_writeobj_write_coff` that write a part of every
section for which `present` holds: the bytes written for each section, in
order (nothing for a section that is skipped). -/
def write_each (present : coff_section → Bool) (write : coff_section → Option (List Nat)) :
    List coff_section → Option (List (List Nat))
  | [] => some []
  | s :: rest =>
    match (if present s then write s else some []) with
    | none => none
    | some out =>
      match write_each present write rest with
      | none => none
      | some outs => some (out :: outs)

/-- What `gp_writeobj_write_coff` writes to the file, part by part in the order of
the writes: the headers (file header, optional header, section headers), for
each section its raw data, for each section its relocations, for each section
its line numbers, the symbols, the string table. -/
structure coff_image where
  headers : List Nat
  data : List (List Nat)
  relocations : List (List Nat)
  line_numbers : List (List Nat)
  symbols : List Nat
  string_table : List Nat

/-- The bytes of the file. -/
def coff_image.bytes (im : coff_image) : List Nat :=
  im.headers ++ im.data.flatten ++ im.relocations.flatten ++ im.line_numbers.flatten ++ im.symbols
    ++ im.string_table

/-- The writes of `gp_writeobj_write_coff` from `_write_file_header` to the
`fwrite` of the string table, for the object after `_update_pointers`: the
parts written and the table, or `none` when the run is ended. -/
def write_coff_image (K : gpcoff_h) (Object : gp_object_t) (st : StringTable) :
    Option (coff_image × StringTable) :=
  match _write_optional_header K Object with
  | none => none
  | some opt =>
    match write_section_headers K Object.org_to_byte_shift Object.section_list st with
    | none => none
    | some (hdrs, st1) =>
      match write_each (has_data K) _write_section_data Object.section_list with
      | none => none
      | some data =>
        match write_each (fun s => decide (s.hdr.relocation_list_num_nodes > 0))
            (fun s => _write_relocations Object.symbol_list s.relocation_list)
            Object.section_list with
        | none => none
        | some relocs =>
          match write_each (fun s => decide (s.hdr.line_number_list_num_nodes > 0))
              (fun s => _write_linenumbers K Object.symbol_list s Object.org_to_byte_shift)
              Object.section_list with
          | none => none
          | some linenos =>
            match (if Object.num_symbols ≠ 0 then
                _write_symbols K Object.section_list Object.isnew Object.symbol_list st1
              else some ([], st1)) with
            | none => none
            | some (syms, st2) =>
              some ({ headers := _write_file_header K Object ++ opt ++ hdrs
                      data := data
                      relocations := relocs
                      line_numbers := linenos
                      symbols := syms
                      string_table :=
                        (List.range (gp_getu32 st2.string_table)).map st2.string_table }, st2)

/-- The files that the writer can touch: the contents of the files that exist, and
whether `fopen(name, "wb")` succeeds. -/
structure FileSys where
  files : List Nat → Option (List Nat)
  fopen_wb : List Nat → Bool

/-- The C library call `unlink(name)`. -/
def unlink (fs : FileSys) (name : List Nat) : FileSys :=
  { fs with files := Function.update fs.files name none }

/-- The result of `gp_writeobj_write_coff`: the value returned, the object, the
static string table and the files after the call. -/
structure write_coff_result where
  ret : Bool
  Object : gp_object_t
  st : StringTable
  fs : FileSys

/-- Function `gp_writeobj_write_coff`; `none` when an assertion ends the run. -/
def gp_writeobj_write_coff (K : gpcoff_h) (Object : gp_object_t) (Num_errors : Int)
    (st : StringTable) (fs : FileSys) : Option write_coff_result :=
  if Num_errors > 0 then some ⟨false, Object, st, unlink fs Object.filename⟩
  else if fs.fopen_wb Object.filename = false then some ⟨false, Object, st, fs⟩
  else
    let st0 := string_table_init st
    let Object1 := _update_pointers K Object
    match write_coff_image K Object1 st0 with
    | none => none
    | some (im, st1) =>
      some ⟨true, Object1, st1,
        { fs with files := Function.update fs.files Object.filename (some im.bytes) }⟩

/-- The record is of one of the four variants that `_write_aux_symbols` writes
field by field (`AUX_DIRECT`, `AUX_FILE`, `AUX_IDENT`, `AUX_SECTION`). -/
def gp_aux_t.is_named : gp_aux_t → Bool
  | .AUX_OTHER _ => false
  | _ => true

/-- Values of the constants for the examples: the sizes are those of the parts
that the writers emit (file header 20 bytes, optional header 18 or 16, section
header 40, relocation 12, line number 16, symbol 20 or 18); a section has data
when its size is not 0. -/
def example_gpcoff : gpcoff_h :=
  { MICROCHIP_MAGIC_v1 := 0x1234, MICROCHIP_MAGIC_v2 := 0x1240
    OPTMAGIC_v1 := 0x5678, OPTMAGIC_v2 := 0x5678
    FILE_HDR_SIZ_v1 := 20, FILE_HDR_SIZ_v2 := 20
    OPT_HDR_SIZ_v1 := 16, OPT_HDR_SIZ_v2 := 18
    SEC_HDR_SIZ_v1 := 40, SEC_HDR_SIZ_v2 := 40
    RELOC_SIZ := 12, LINENO_SIZ := 16
    SYMBOL_SIZE_v1 := 18, SYMBOL_SIZE_v2 := 20
    N_SCNUM := 1, T_SHIFT_v1 := 4, T_SHIFT_v2 := 5
    gp_coffgen_section_has_data := fun _ size => decide (size ≠ 0)
    env := { STYP_ROM_AREA := 0x00020000, gp_insn_from_byte := fun shift a => a >>> shift } }

/-- An empty string table for the examples. -/
def example_table : StringTable := string_table_init ⟨fun _ => 0, fun _ => 0, 0, 0⟩

/-- The number of data bytes that `_update_pointers` reserves for a section. -/
def data_size (K : gpcoff_h) (s : coff_section) : Nat :=
  if has_data K s then s.hdr.size else 0

/-- The number of relocation bytes that `_update_pointers` reserves for a
section. -/
def reloc_size (K : gpcoff_h) (s : coff_section) : Nat :=
  s.hdr.relocation_list_num_nodes * K.RELOC_SIZ

/-- The number of line-number bytes that `_update_pointers` reserves for a
section. -/
def lineno_size (K : gpcoff_h) (s : coff_section) : Nat :=
  s.hdr.line_number_list_num_nodes * K.LINENO_SIZ

/-- A section without the fields that `_update_pointers` assigns (`number`,
`data_ptr`, `reloc_ptr`, `lineno_ptr`). -/
def coff_section.core (s : coff_section) : coff_section :=
  { s with number := 0, hdr := { s.hdr with data_ptr := 0, reloc_ptr := 0, lineno_ptr := 0 } }

/-- A symbol without the field that `_update_pointers` assigns (`number`). -/
def gp_symbol_t.core (s : gp_symbol_t) : gp_symbol_t := { s with number := 0 }

/-- The pointers that a loop of `_update_pointers` assigns when nothing wraps:
each entry of the list tells whether the section has the part and how many
bytes the part takes; a section with the part gets the running offset, a
section without it gets 0. -/
def assigned_ptrs : Nat → List (Bool × Nat) → List Nat
  | _, [] => []
  | idx, p :: rest => (if p.1 then idx else 0) :: assigned_ptrs (idx + p.2) rest

/-- The size constants of the absent `gpcoff.h` are the sizes of the parts that the
writers emit: 20 bytes by `_write_file_header`, 18 (v2) or 16 (v1) bytes by
`_write_optional_header`, 40 bytes by `_write_section_header`, 12 bytes for each
relocation by `_write_relocations` and 16 bytes for each line number by
`_write_linenumbers`. -/
structure sizes_as_written (K : gpcoff_h) : Prop where
  file_v1 : K.FILE_HDR_SIZ_v1 = 20
  file_v2 : K.FILE_HDR_SIZ_v2 = 20
  opt_v1 : K.OPT_HDR_SIZ_v1 = 16
  opt_v2 : K.OPT_HDR_SIZ_v2 = 18
  sec_v1 : K.SEC_HDR_SIZ_v1 = 40
  sec_v2 : K.SEC_HDR_SIZ_v2 = 40
  reloc : K.RELOC_SIZ = 12
  lineno : K.LINENO_SIZ = 16

/-- The list counters of the object agree with its lists, every section has a
name, and the data of a section does not run past the end of the 32-bit address
space. -/
structure well_formed_object (K : gpcoff_h) (Object : gp_object_t) : Prop where
  nodes : Object.section_list_num_nodes = Object.section_list.length
  names : ∀ s ∈ Object.section_list, s.hdr.name ≠ none
  relocs : ∀ s ∈ Object.section_list, s.hdr.relocation_list_num_nodes = s.relocation_list.length
  linenos : ∀ s ∈ Object.section_list,
    s.hdr.line_number_list_num_nodes = s.line_number_list.length
  shadow : ∀ s ∈ Object.section_list, has_data K s = true →
    s.shadow_address % 2 ^ 32 + s.hdr.size < 2 ^ 32

/-- The size that `_update_pointers` takes for the three headers, without the
reduction to 32 bits. -/
def header_bytes (K : gpcoff_h) (Object : gp_object_t) : Nat :=
  if Object.isnew then
    K.FILE_HDR_SIZ_v2 + K.OPT_HDR_SIZ_v2 + K.SEC_HDR_SIZ_v2 * Object.section_list_num_nodes
  else K.FILE_HDR_SIZ_v1 + K.OPT_HDR_SIZ_v1 + K.SEC_HDR_SIZ_v1 * Object.section_list_num_nodes

/-- The offset of the symbol table when nothing wraps: the headers, the data, the
relocations and the line numbers of all sections. -/
def layout_total (K : gpcoff_h) (Object : gp_object_t) : Nat :=
  header_bytes K Object + (Object.section_list.map (data_size K)).sum
    + (Object.section_list.map (reloc_size K)).sum
    + (Object.section_list.map (lineno_size K)).sum

/-- An object for the examples: a code section `.text` with 4 bytes of data, one
relocation and one line number, a section `.bss` without data, and a code
section `.cod2` with 2 bytes of data and one line number; one symbol. -/
def example_object : gp_object_t :=
  { filename := [97, 46, 111]
    isnew := true
    time := 0
    flags := 0
    num_symbols := 1
    symbol_ptr := 0
    section_list_num_nodes := 3
    section_list :=
      [ { hdr := ⟨some [46, 116, 101, 120, 116], 0, 4, 0, 0, 0, 1, 1, 0x20⟩
          number := 0, shadow_address := 0, data := fun a => some (0x30 + a)
          relocation_list := [⟨2, 0, 0, 1⟩], line_number_list := [⟨0, 7, 0⟩] },
        { hdr := ⟨some [46, 98, 115, 115], 0x20, 0, 0, 0, 0, 0, 0, 0x80⟩
          number := 0, shadow_address := 0, data := fun _ => none
          relocation_list := [], line_number_list := [] },
        { hdr := ⟨some [46, 99, 111, 100, 50], 0x100, 2, 0, 0, 0, 0, 1, 0x20⟩
          number := 0, shadow_address := 0x100, data := fun a => some (a % 256)
          relocation_list := [], line_number_list := [⟨0, 9, 0x100⟩] } ]
    symbol_list := [⟨some [109, 97, 105, 110], 0, 1, some 0, 0, 0, 2, 0, [], 0⟩]
    coff_type := 0x6877
    rom_width := 14
    org_to_byte_shift := 1 }

/-- An object whose layout does not fit into 32 bits: the data of the first
section take `0xFFFFFFF0` bytes. -/
def overflow_object : gp_object_t :=
  { example_object with
    section_list_num_nodes := 2
    section_list :=
      [ { hdr := ⟨some [46, 116, 101, 120, 116], 0, 0xFFFFFFF0, 0, 0, 0, 0, 0, 0x20⟩
          number := 0, shadow_address := 0, data := fun _ => some 0
          relocation_list := [], line_number_list := [] },
        { hdr := ⟨some [46, 99, 111, 100, 50], 0, 2, 0, 0, 0, 0, 0, 0x20⟩
          number := 0, shadow_address := 0, data := fun _ => some 0
          relocation_list := [], line_number_list := [] } ] }

/-- The string that a call `_add_name(Name, ...)` passes to `_add_string`: a name
of more than `COFF_SSYMBOL_NAME_MAX` characters. -/
def name_strings (Name : Option (List Nat)) : List (List Nat) :=
  match Name with
  | none => []
  | some name => if name.length % 2 ^ 32 ≤ COFF_SSYMBOL_NAME_MAX then [] else [name]

/-- The string that `_write_aux_symbols` passes to `_add_string` for a record. -/
def aux_strings : gp_aux_t → List (List Nat)
  | .AUX_DIRECT _ (some string) => [string]
  | .AUX_FILE (some filename) _ _ => [filename]
  | .AUX_IDENT (some string) => [string]
  | _ => []

/-- The string of a record that has one is not `NULL`. -/
def aux_has_string : gp_aux_t → Bool
  | .AUX_DIRECT _ none => false
  | .AUX_FILE none _ _ => false
  | .AUX_IDENT none => false
  | _ => true

/-- The strings that `_write_symbols` passes to `_add_string` for a symbol, in call
order. -/
def symbol_strings (symbol : gp_symbol_t) : List (List Nat) :=
  name_strings symbol.name
    ++ (if symbol.aux_list_num_nodes > 0 then (symbol.aux_list.map aux_strings).flatten else [])

/-- The strings that `gp_writeobj_write_coff` passes to `_add_string`, in call
order: the long section names, then the long symbol names and the strings of the
auxiliary records. -/
def object_strings (Object : gp_object_t) : List (List Nat) :=
  (Object.section_list.map (fun s => name_strings s.hdr.name)).flatten
    ++ (if Object.num_symbols ≠ 0 then (Object.symbol_list.map symbol_strings).flatten else [])

/-- The calls of `_add_string` with the strings `strs` on a table that holds
`stored` stay within `MAX_STRING_TABLE`. -/
def strings_fit (stored strs : List (List Nat)) : Prop :=
  (∀ s ∈ strs, s.length + 0x10000 < 2 ^ 32) ∧
  layout_offset (stored_after stored strs) (stored_after stored strs).length ≤ MAX_STRING_TABLE

/-- Every byte that `_write_section_data` reads from the section is used. -/
def data_readable (s : coff_section) : Prop :=
  ∀ k, k < (s.shadow_address % 2 ^ 32 + s.hdr.size) % 2 ^ 32 - s.shadow_address % 2 ^ 32 →
    (s.data (s.shadow_address % 2 ^ 32 + k)).isSome = true

/-- No assertion of the writer fails for the object: the processor has a COFF
type, the strings fit the string table, the data of the sections are used
bytes, every relocation and line number has a symbol of the object, every symbol
with a section number from `N_SCNUM` on has a section of the object, and no
string of an auxiliary record is `NULL`. -/
structure writable_object (K : gpcoff_h) (Object : gp_object_t) : Prop where
  coff : Object.coff_type % 2 ^ 32 ≠ 0
  fit : 4 + ∑ s ∈ (object_strings Object).toFinset, (s.length + 1) ≤ MAX_STRING_TABLE
  data : ∀ s ∈ Object.section_list, has_data K s = true → data_readable s
  relocs : ∀ s ∈ Object.section_list, s.hdr.relocation_list_num_nodes > 0 →
    ∀ r ∈ s.relocation_list, r.symbol < Object.symbol_list.length
  linenos : ∀ s ∈ Object.section_list, s.hdr.line_number_list_num_nodes > 0 →
    ∀ l ∈ s.line_number_list, l.symbol < Object.symbol_list.length
  symbols : Object.num_symbols ≠ 0 → ∀ y ∈ Object.symbol_list,
    (y.section_number < (K.N_SCNUM : Int) ∨
      ∃ i, y.section_ = some i ∧ i < Object.section_list.length) ∧
    (y.aux_list_num_nodes > 0 → ∀ a ∈ y.aux_list, aux_has_string a = true)

/-- The example object for a processor without a COFF type. -/
def unfinished_object : gp_object_t := { example_object with coff_type := 0 }

/-- Files for the examples: no file exists and every file can be opened for
writing. -/
def example_files : FileSys := { files := fun _ => none, fopen_wb := fun _ => true }

/-! ## The exit status of the assembler and of the linker
(`gpasm/gpasm.c`, `gplink/gplink.c`)

The parser, the listing, hex and COD writers and the library calls of the
linker are absent from the sources; each call is a function on the state that
the driver takes as a parameter.  `EXIT_SUCCESS` and `EXIT_FAILURE` are the
values of `stdlib.h`. -/

/-- The constant `EXIT_SUCCESS` of `stdlib.h`. -/
def EXIT_SUCCESS : Int := 0

/-- The constant `EXIT_FAILURE` of `stdlib.h`. -/
def EXIT_FAILURE : Int := 1

/-- The fields of the assembler state that the end of `assemble` reads or writes:
`state.pass`, `state.num.errors`, the library counter `gp_num_errors`,
`state.mode == MODE_ABSOLUTE`, `state.extended_pic16e`, the flags of
`state.obj.object` (`none` when the object is `NULL`), `state.memory_dump`,
`state.lst.symbol_table`, `state.lst.memory_map` and `state.processor != NULL`. -/
structure gpasm_state where
  pass : Int
  num_errors : Int
  gp_num_errors : Int
  mode_absolute : Bool
  extended_pic16e : Bool
  object_flags : Option Nat
  memory_dump : Bool
  lst_symbol_table : Bool
  lst_memory_map : Bool
  has_processor : Bool

/-- The calls of `assemble` to functions that are absent from the sources, and the
flag constants of the absent `gpcoff.h`.  `first_pass` stands for the statements
from the start of `assemble` to `yylex_destroy()`, `second_pass` for the
statements after `_setup_second_pass` up to the second `yyparse()`. -/
structure gpasm_calls where
  F_ABSOLUTE : Nat
  F_EXTENDED18 : Nat
  first_pass : gpasm_state → gpasm_state
  second_pass : gpasm_state → gpasm_state
  gp_sym_pop_table : gpasm_state → gpasm_state
  hex_create : gpasm_state → gpasm_state
  gp_mem_i_print : gpasm_state → gpasm_state
  lst_symbol_table : gpasm_state → gpasm_state
  lst_memory_map : gpasm_state → gpasm_state
  coff_close_file : gpasm_state → gpasm_state
  deps_close : gpasm_state → gpasm_state
  lst_close : gpasm_state → gpasm_state
  cod_close_file : gpasm_state → gpasm_state
  file_free : gpasm_state → gpasm_state
  gpmsg_close : gpasm_state → gpasm_state

/-- Function `_setup_second_pass`, the field `state.pass`. -/
def _setup_second_pass (st : gpasm_state) : gpasm_state := { st with pass := st.pass + 1 }

/-- The state of `assemble` at `assert(state.pass == 2)`. -/
def assemble_passes (C : gpasm_calls) (st : gpasm_state) : gpasm_state :=
  C.second_pass (_setup_second_pass (C.first_pass st))

/-- The statements of `assemble` after `assert(state.pass == 2)` up to
`gpmsg_close()`. -/
def assemble_finish (C : gpasm_calls) (st : gpasm_state) : gpasm_state :=
  let st :=
    match st.object_flags with
    | none => st
    | some flags =>
      let flags := if st.mode_absolute then flags ||| C.F_ABSOLUTE else flags
      let flags := if st.extended_pic16e then flags ||| C.F_EXTENDED18 else flags
      { st with object_flags := some flags }
  let st := C.gp_sym_pop_table st
  let st := C.hex_create st
  let st := if st.memory_dump then C.gp_mem_i_print st else st
  let st := if st.lst_symbol_table then C.lst_symbol_table st else st
  let st := if st.mode_absolute && st.lst_memory_map then C.lst_memory_map st else st
  let st := C.coff_close_file st
  let st := C.deps_close st
  let st := C.lst_close st
  let st := if st.has_processor then C.cod_close_file st else st
  let st := C.file_free st
  C.gpmsg_close st

/-- Function `assemble`: the value returned and the state at the `return`, or
`none` when `assert(state.pass == 2)` fails. -/
def assemble (C : gpasm_calls) (st : gpasm_state) : Option (Int × gpasm_state) :=
  let st := assemble_passes C st
  if st.pass ≠ 2 then none
  else
    let st := assemble_finish C st
    some (if st.num_errors > 0 ∨ st.gp_num_errors > 0 then EXIT_FAILURE else EXIT_SUCCESS, st)

/-- Calls for the examples: the parser counts one error in the second pass when
`errors` is set, and the other calls change nothing. -/
def example_gpasm_calls (errors : Bool) : gpasm_calls :=
  { F_ABSOLUTE := 0x8000, F_EXTENDED18 := 0x4000
    first_pass := fun st => { st with pass := 1 }
    second_pass := fun st => if errors then { st with num_errors := st.num_errors + 1 } else st
    gp_sym_pop_table := id, hex_create := id, gp_mem_i_print := id, lst_symbol_table := id
    lst_memory_map := id, coff_close_file := id, deps_close := id, lst_close := id
    cod_close_file := id, file_free := id, gpmsg_close := id }

/-- An assembler state for the examples. -/
def example_gpasm_state : gpasm_state :=
  { pass := 0, num_errors := 0, gp_num_errors := 0, mode_absolute := true
    extended_pic16e := false, object_flags := some 0, memory_dump := false
    lst_symbol_table := false, lst_memory_map := false, has_processor := true }

/-- The fields of the linker state that decide the exit status: the chain
`state.src_file_names` of linker scripts, `state.object != NULL`,
`state.processor != NULL`, the library counter `gp_num_errors` and
`state.obj_file == OUT_NORMAL`. -/
structure gplink_state where
  src_file_names : List (List Nat)
  has_object : Bool
  has_processor : Bool
  gp_num_errors : Int
  obj_file_normal : Bool

/-- The calls of `_linker` to functions that are absent from the sources, the macro
`USE_DEFAULT_PATHS` and the variable `gp_lkr_path`.  `read_script` stands for
`open_src(name, false); yyparse();`, `link_objects` for the statements from
`_build_tables()` to `state.object->flags |= F_EXEC`, `write_outputs` for the
statements from `cod_init()` to `gp_coffgen_free_object(state.object)`;
`link_objects` yields `none` when a call in it ends the process with `exit(1)`.
The two writers return a `gp_boolean`. -/
structure gplink_calls where
  USE_DEFAULT_PATHS : Bool
  gp_lkr_path : Option (List Nat)
  gp_processor_script : gplink_state → Option (List Nat)
  read_script : List Nat → gplink_state → gplink_state
  link_objects : gplink_state → Option gplink_state
  gp_writeobj_write_coff : gplink_state → Bool × gplink_state
  unlink : gplink_state → gplink_state
  gp_cofflink_make_memory : gplink_state → gplink_state
  gp_writehex : gplink_state → Bool × gplink_state
  write_outputs : gplink_state → gplink_state

/-- Modelled from the spec: `gp_error` of the absent `gpmessages.c`, "Accumulated":
the message is counted in `gp_num_errors`. -/
def gp_error (st : gplink_state) : gplink_state :=
  { st with gp_num_errors := st.gp_num_errors + 1 }

/-- How a call of `_linker` ends: it returns a `gp_boolean` (as the `int` that the
`return` statement yields), the process ends in `exit(status)`, or an assertion
fails. -/
inductive linker_result where
  | returned (value : Int) (st : gplink_state)
  | exited (status : Int) (st : gplink_state)
  | aborted

/-- The loop `do { open_src(p->file_name, false); yyparse(); p = p->next; }
while (p != NULL)` of `_linker`. -/
def linker_read_scripts (C : gplink_calls) : List (List Nat) → gplink_state → gplink_state
  | [], st => st
  | p :: next, st => linker_read_scripts C next (C.read_script p st)

/-- The part "Read the script." of `_linker`: the result of `_linker` when it
returns there, or the state after the scripts are read. -/
def linker_script (C : gplink_calls) (st : gplink_state) : linker_result ⊕ gplink_state :=
  if st.src_file_names ≠ [] then .inr (linker_read_scripts C st.src_file_names st)
  else if C.USE_DEFAULT_PATHS ∧ st.has_object = true ∧ C.gp_lkr_path ≠ none then
    if st.has_processor = false then .inl .aborted
    else
      match C.gp_processor_script st with
      | none => .inl (.returned EXIT_FAILURE (gp_error st))
      | some script_name => .inr (C.read_script script_name st)
  else .inl (.returned EXIT_FAILURE (gp_error st))

/-- The statements of `_linker` after the tests of the input: linking, the
writers and the final `return (gp_num_errors <= 0)`. -/
def linker_link (C : gplink_calls) (st : gplink_state) : linker_result :=
  match C.link_objects st with
  | none => .exited 1 st
  | some st =>
    let w :=
      if st.obj_file_normal then C.gp_writeobj_write_coff st else (true, C.unlink st)
    if w.1 = false then .exited 1 (gp_error w.2)
    else
      let st := C.gp_cofflink_make_memory w.2
      let h := C.gp_writehex st
      if h.1 = false then .exited 1 (gp_error h.2)
      else
        let st := C.write_outputs h.2
        .returned (if st.gp_num_errors ≤ 0 then 1 else 0) st

/-- Function `_linker`. -/
def _linker (C : gplink_calls) (st : gplink_state) : linker_result :=
  match linker_script C st with
  | .inl r => r
  | .inr st =>
    if st.has_object = false then .returned EXIT_FAILURE (gp_error st)
    else if st.gp_num_errors > 0 then .returned EXIT_FAILURE st
    else linker_link C st

/-- The exit status of the linker: `return (_linker() ? EXIT_SUCCESS :
EXIT_FAILURE)` in `main`, or the argument of `exit`; `none` when an assertion
fails.  The argument is the state after `_init()` and `_process_args`. -/
def gplink_main (C : gplink_calls) (st : gplink_state) : Option Int :=
  match _linker C st with
  | .returned value _ => some (if value ≠ 0 then EXIT_SUCCESS else EXIT_FAILURE)
  | .exited status _ => some status
  | .aborted => none

/-- The error count with which the run of the linker ends. -/
def gplink_errors (C : gplink_calls) (st : gplink_state) : Option Int :=
  match _linker C st with
  | .returned _ st => some st.gp_num_errors
  | .exited _ st => some st.gp_num_errors
  | .aborted => none

/-- Calls for the examples: nothing changes the state and the writers succeed. -/
def example_gplink_calls : gplink_calls :=
  { USE_DEFAULT_PATHS := false, gp_lkr_path := none
    gp_processor_script := fun _ => none
    read_script := fun _ st => st
    link_objects := fun st => some st
    gp_writeobj_write_coff := fun st => (true, st)
    unlink := id, gp_cofflink_make_memory := id
    gp_writehex := fun st => (true, st)
    write_outputs := id }

/-- The linker state of `gplink -s a.lkr`: a linker script and no object file. -/
def example_gplink_no_object : gplink_state :=
  { src_file_names := [[97, 46, 108, 107, 114]], has_object := false, has_processor := false
    gp_num_errors := 0, obj_file_normal := true }

/-! ## The linker: archive members that resolve missing symbols
(`gplink/gplink.c`, `_scan_index`, `_scan_archive`, `_build_tables`)

The symbol tables (`gpsymbol.c`), the archives (`gparchive.c`) and
`gp_cofflink_add_symbols` (`gpcofflink.c`) are absent from the sources.  A
symbol table is the list of its names in index order, the symbol index of an
archive is the function that `gp_sym_get_symbol` computes on it, and
`gp_cofflink_add_symbols` is a parameter of the functions. -/

/-- Modelled from the spec: an object file as the linker sees it, "Object A
references `bar`; archive X member `m.o` defines `bar` and references `baz`":
its name, the names it defines and the names it references. -/
structure link_object where
  filename : List Nat
  defined : List (List Nat)
  referenced : List (List Nat)
deriving DecidableEq

/-- Modelled from the spec: an entry of the list `state.archives`: the name of the
archive and its symbol index, "on a hit in the archive index, materialize the
member as an object"; `index name` is the object that `gp_convert_file` makes of
the member that the index gives for `name`, `none` when `gp_sym_get_symbol`
returns `NULL`. -/
structure archivelist_t where
  name : List Nat
  index : List Nat → Option link_object

/-- The tables `state.symbol.extern_global` and `state.symbol.missing` (the names, in
index order) and the list `state.object`. -/
structure gplink_symbols where
  extern_global : List (List Nat)
  missing : List (List Nat)
  object : List link_object

/-- The type of `gp_cofflink_add_symbols(extern_global, missing, object)`: the two
tables after the call. -/
def add_symbols_t : Type :=
  List (List Nat) → List (List Nat) → link_object → List (List Nat) × List (List Nat)

/-- The body of the `if (sym_arch != NULL)` of `_scan_index`: `_object_append` and
`gp_cofflink_add_symbols`. -/
def scan_index_add (add : add_symbols_t) (object : link_object) (st : gplink_symbols) :
    gplink_symbols :=
  let t := add st.extern_global st.missing object
  { extern_global := t.1, missing := t.2, object := st.object ++ [object] }

/-- Function `_scan_index`: the value returned and the tables after the call.  The
`for` loop looks for the first name of the missing table that the index has; the
`while (num_added != 0)` loop runs at most `fuel` times, and the result is `none`
when it does not end within them. -/
def _scan_index (add : add_symbols_t) (Table : List Nat → Option link_object) :
    Nat → gplink_symbols → Option (Bool × gplink_symbols)
  | 0, _ => none
  | fuel + 1, st =>
    match st.missing.findSome? Table with
    | none => some (false, st)
    | some object =>
      match _scan_index add Table fuel (scan_index_add add object st) with
      | none => none
      | some (_, st1) => some (true, st1)

/-- Function `_scan_archive`; the index of the archive is the table that
`gp_archive_read_index` fills. -/
def _scan_archive (add : add_symbols_t) (Archive : archivelist_t) (fuel : Nat)
    (st : gplink_symbols) : Option (Bool × gplink_symbols) :=
  _scan_index add Archive.index fuel st

/-- The loop `while (true)` of `_build_tables`: `arlist` is the rest of the list
`state.archives` from the current entry on.  The result is the tables after the
loop and the names of the archives scanned, in the order of the scans; `none`
when the loop does not end within `fuel` scans. -/
def build_tables_loop (add : add_symbols_t) (archives : List archivelist_t) :
    Nat → List archivelist_t → Bool → gplink_symbols → Option (gplink_symbols × List (List Nat))
  | 0, _, _, _ => none
  | _ + 1, [], _, _ => none
  | fuel + 1, arlist :: next, modified, st =>
    match _scan_archive add arlist fuel st with
    | none => none
    | some (m, st1) =>
      let modified := m || modified
      if st1.missing.length = 0 then some (st1, [arlist.name])
      else if next.isEmpty then
        if modified then
          match build_tables_loop add archives fuel archives false st1 with
          | none => none
          | some (st2, scans) => some (st2, arlist.name :: scans)
        else some (st1, [arlist.name])
      else
        match build_tables_loop add archives fuel next modified st1 with
        | none => none
        | some (st2, scans) => some (st2, arlist.name :: scans)

/-- The first loop of `_build_tables`, "Create the object file symbol tables". -/
def build_tables_objects (add : add_symbols_t) :
    List link_object → List (List Nat) × List (List Nat) → List (List Nat) × List (List Nat)
  | [], t => t
  | object :: next, t => build_tables_objects add next (add t.1 t.2 object)

/-- Function `_build_tables` up to the end of the archive loop. -/
def _build_tables (add : add_symbols_t) (archives : List archivelist_t) (fuel : Nat)
    (st : gplink_symbols) : Option (gplink_symbols × List (List Nat)) :=
  let t := build_tables_objects add st.object (st.extern_global, st.missing)
  let st := { st with extern_global := t.1, missing := t.2 }
  if st.missing.length > 0 ∧ archives.isEmpty = false then
    build_tables_loop add archives fuel archives false st
  else some (st, [])

/-- Modelled from the spec: `gp_cofflink_add_symbols`, "add its symbols": the names
that the object defines become external symbols and are no longer missing, the
names that it references and that are neither defined nor missing yet become
missing. -/
def example_add_symbols : add_symbols_t := fun extern_global missing object =>
  let extern_global := extern_global ++ object.defined.filter (fun n => n ∉ extern_global)
  let missing := missing.filter (fun n => n ∉ extern_global)
  (extern_global,
    missing ++ (object.referenced.dedup.filter (fun n => n ∉ extern_global ∧ n ∉ missing)))

/-- The object `a.o` of the scenario "Archive pull-in": it defines `main` and
references `bar`. -/
def example_object_a : link_object :=
  { filename := [97, 46, 111], defined := [[109, 97, 105, 110]], referenced := [[98, 97, 114]] }

/-- The member `m.o`: it defines `bar` and references `baz`. -/
def example_member_m : link_object :=
  { filename := [109, 46, 111], defined := [[98, 97, 114]], referenced := [[98, 97, 122]] }

/-- The member `n.o`: it defines `baz`. -/
def example_member_n : link_object :=
  { filename := [110, 46, 111], defined := [[98, 97, 122]], referenced := [] }

/-- The archive `X` with the members `m.o` and `n.o`. -/
def example_archive_x : archivelist_t :=
  { name := [88]
    index := fun name =>
      if name = [98, 97, 114] then some example_member_m
      else if name = [98, 97, 122] then some example_member_n
      else none }

/-- The scans follow the order of the command line: they are the names of the
archives from `arlist` on, whole rounds over the list of the archives and the
beginning of a round (or they end before the end of `arlist`). -/
def command_line_order (archives : List (List Nat)) (arlist : List (List Nat))
    (scans : List (List Nat)) : Prop :=
  ∃ (rounds : Nat) (last : List (List Nat)),
    last <+: archives ∧
    (scans = arlist ++ (List.replicate rounds archives).flatten ++ last ∨
      (scans <+: arlist))

/-- The linker state of the scenario "Archive pull-in" before `_build_tables`: the
object `a.o` is read, the tables are empty. -/
def example_link_state : gplink_symbols :=
  { extern_global := [], missing := [], object := [example_object_a] }

/-! ## The classical peephole passes (`libgputils/gpcoffopt.c`, lines 36-1237)

The passes keep the last relocations in the array `reloc_pipe` and delete an
instruction with `_destroy_insn_and_update_addr`.  What that function does to
the object goes through functions of `gpmemory.c`, `gpsymbol.c` and
`gpcoffgen.c` that are absent from the sources; it is a parameter of the model,
and the model records which relocations are deleted. -/

def COPT_NULL : Nat := 0
def COPT_BRA14E_CURR_PAGE : Nat := 1 <<< 0
def COPT_BRA14E_OTHER_PAGE : Nat := 1 <<< 1
def COPT_GOTO_CURR_PAGE : Nat := 1 <<< 2
def COPT_GOTO_OTHER_PAGE : Nat := 1 <<< 3
def COPT_CALL_CURR_PAGE : Nat := 1 <<< 4
def COPT_CALL_OTHER_PAGE : Nat := 1 <<< 5
def COPT_PAGESEL_CURR_PAGE : Nat := 1 <<< 6
def COPT_PAGESEL_OTHER_PAGE : Nat := 1 <<< 7
def COPT_BANKSEL : Nat := 1 <<< 8
def COPT_BRA14E_MASK : Nat := COPT_BRA14E_CURR_PAGE ||| COPT_BRA14E_OTHER_PAGE
def COPT_REL_BRANCH_MASK : Nat := COPT_BRA14E_MASK
def COPT_ABS_BRANCH_CURR_PAGE_MASK : Nat := COPT_GOTO_CURR_PAGE ||| COPT_CALL_CURR_PAGE
def COPT_PAGESEL_MASK : Nat := COPT_PAGESEL_CURR_PAGE ||| COPT_PAGESEL_OTHER_PAGE

/-- Modelled from the spec: the relocation types `RELOC_*` of the absent `gpcoff.h`
that the passes name, "absolute branches (`CALL`, `GOTO`, `GOTO2`, `RCALL`), ...
section-size relocs (`SCNSZ_*`, `SCNEND_*`)"; `RELOC_OTHER` is any other value
(the `default` of the `switch` statements). -/
inductive reloc_type where
  | RELOC_ALL | RELOC_CALL | RELOC_GOTO | RELOC_LOW | RELOC_HIGH | RELOC_UPPER | RELOC_P
  | RELOC_BANKSEL | RELOC_IBANKSEL | RELOC_F | RELOC_TRIS | RELOC_TRIS_3BIT | RELOC_MOVLR
  | RELOC_MOVLB | RELOC_GOTO2 | RELOC_FF1 | RELOC_FF2 | RELOC_LFSR1 | RELOC_LFSR2
  | RELOC_BRA | RELOC_CONDBRA | RELOC_ACCESS | RELOC_PAGESEL_WREG | RELOC_PAGESEL_BITS
  | RELOC_PAGESEL_MOVLP | RELOC_PAGESEL | RELOC_SCNSZ_LOW | RELOC_SCNSZ_HIGH
  | RELOC_SCNSZ_UPPER | RELOC_SCNEND_LOW | RELOC_SCNEND_HIGH | RELOC_SCNEND_UPPER
  | RELOC_SCNEND_LFSR1 | RELOC_SCNEND_LFSR2 | RELOC_OTHER
  deriving DecidableEq, Repr

/-- The type `reloc_properties_t`.  `relocation` is the pointer to the relocation
(`none` for `NULL`); of the label that `label` points to the passes read
`reloc_count_all_section`, which the field holds (`none` for `NULL`); of the
instruction they read `icode`, which `instruction` holds (`none` for `NULL`). -/
structure reloc_properties where
  relocation : Option Nat
  label : Option Nat
  instruction : Option Nat
  state : Nat
  protected_ : Bool
  target_page : Nat
  reloc_page : Nat
  reloc_byte_addr : Nat
  reloc_insn_addr : Nat
  reloc_byte_length : Nat
  reloc_insn_length : Nat
  ram_bank : Nat
  deriving DecidableEq, Repr

/-- An element of `reloc_pipe` after `memset(..., 0, ...)`. -/
def reloc_properties.zero : reloc_properties :=
  { relocation := none, label := none, instruction := none, state := 0, protected_ := false
    target_page := 0, reloc_page := 0, reloc_byte_addr := 0, reloc_insn_addr := 0
    reloc_byte_length := 0, reloc_insn_length := 0, ram_bank := 0 }

/-- The array `reloc_pipe[RELOC_PIPE_LENGTH]`, `RELOC_PIPE_LENGTH` being 4: `s0` is
`reloc_pipe[0]`, the current relocation, `s3` is `reloc_pipe[3]`, the oldest. -/
structure reloc_pipe_t where
  s0 : reloc_properties
  s1 : reloc_properties
  s2 : reloc_properties
  s3 : reloc_properties
  deriving DecidableEq, Repr

/-- The element `reloc_pipe[i]`. -/
def reloc_pipe_t.get (pipe : reloc_pipe_t) : Nat → reloc_properties
  | 0 => pipe.s0
  | 1 => pipe.s1
  | 2 => pipe.s2
  | _ => pipe.s3

/-- The elements of the pipe, `reloc_pipe[0]` first. -/
def reloc_pipe_t.slots (pipe : reloc_pipe_t) : List reloc_properties :=
  [pipe.s0, pipe.s1, pipe.s2, pipe.s3]

/-- Function `_reloc_pipe_clear`. -/
def _reloc_pipe_clear : reloc_pipe_t := ⟨.zero, .zero, .zero, .zero⟩

/-- Function `_reloc_pipe_shift`. -/
def _reloc_pipe_shift (pipe : reloc_pipe_t) (Forward : Bool) : reloc_pipe_t :=
  if Forward then ⟨.zero, pipe.s0, pipe.s1, pipe.s2⟩
  else ⟨pipe.s1, pipe.s2, pipe.s3, .zero⟩

/-- Function `_reloc_pipe_delete_state`; `none` when
`assert(State_index < RELOC_PIPE_LENGTH)` fails. -/
def _reloc_pipe_delete_state (pipe : reloc_pipe_t) : Nat → Option reloc_pipe_t
  | 0 => some ⟨pipe.s1, pipe.s2, pipe.s3, .zero⟩
  | 1 => some ⟨pipe.s0, pipe.s2, pipe.s3, .zero⟩
  | 2 => some ⟨pipe.s0, pipe.s1, pipe.s3, .zero⟩
  | 3 => some ⟨pipe.s0, pipe.s1, pipe.s2, .zero⟩
  | _ => none

/-- A relocation as the passes read it: the fields `address`, `offset` and `type` of
`gp_reloc_t` and the field `value` of the symbol that `symbol` points to. -/
structure copt_reloc where
  address : Nat
  symbol_value : Int
  offset : Int
  type_ : reloc_type

/-- The section that a pass works on, as the analysis of a relocation reads it:
the field `address`; `data a` is the word that `Class->i_memory_get(Section->data,
a, ...)` stores when it returns `W_USED_ALL` (`none` otherwise); `label v` is the
field `reloc_count_all_section` of the label that
`gp_symbol_find_by_value(Section->label_array, Section->num_labels, v)` finds
(`none` for `NULL`); `relocation p` is the relocation that the pointer `p` points
to. -/
structure copt_section where
  address : Nat
  data : Nat → Option Nat
  label : Nat → Option Nat
  relocation : Nat → copt_reloc

/-- What the passes take from the processor class and the processor (function
pointers and functions of the absent `gpprocessor.c`, instruction codes of the
absent `gpopcode.h`), and `update_addr`, the effect of
`_destroy_insn_and_update_addr` on the section: of `_destroy_insn`,
`gp_symbol_delete_by_value`, `gp_coffgen_del_linenum_by_address_area`,
`_linenum_decrease_addresses`, `_label_clear_opt_flag`,
`_sections_decrease_start_address`, `_reloc_decrease_addresses` and
`gp_coffgen_del_reloc` for the pipe element given, `none` when the assertion of
`_sections_decrease_start_address` fails.  `find_insn` is `none` for a `NULL`
function pointer and gives the `icode` of the entry found. -/
structure copt_env where
  org_to_byte_shift : Nat
  find_insn : Option (Nat → Option Nat)
  ICODE_MOVLP : Nat
  ICODE_RETFIE : Nat
  ICODE_RETI : Nat
  ICODE_RETIW : Nat
  ICODE_RETLW : Nat
  ICODE_RETP : Nat
  ICODE_RETURN : Nat
  gp_processor_page_addr : Nat → Nat
  gp_processor_bank_addr : Nat → Nat
  pagesel_byte_length : Nat → Bool → Nat
  banksel_byte_length : Nat → Bool → Nat
  update_addr : reloc_properties → copt_section → Option copt_section

/-- The call `gp_processor_insn_from_byte_c(Class, a)` with a `uint32_t` argument
and a `uint32_t` result (the function takes and returns an `int`, see
`gp_processor_insn_from_byte_c` above). -/
def insn_from_byte (K : copt_env) (Byte_address : Nat) : Nat :=
  to_unsigned (to_int Byte_address / 2 ^ K.org_to_byte_shift)

/-- The state of a pass: the static variables `reloc_pipe` and `first_banksel`, the
section, and the relocations that `gp_coffgen_del_reloc` has deleted, in the
order of the calls. -/
structure copt_state where
  reloc_pipe : reloc_pipe_t
  first_banksel : Bool
  Section : copt_section
  deleted : List Nat

/-- Function `_destroy_insn_and_update_addr`; `none` when the relocation of the
element is `NULL` or an assertion fails. -/
def _destroy_insn_and_update_addr (K : copt_env) (st : copt_state) (Insn_index : Nat) :
    Option copt_state :=
  let e := st.reloc_pipe.get Insn_index
  let byte_length_curr := e.reloc_byte_length
  let insn_length_curr := e.reloc_insn_length
  match e.relocation with
  | none => none
  | some relocation =>
    match K.update_addr e st.Section with
    | none => none
    | some sec =>
      let dec := fun (i : Nat) (p : reloc_properties) =>
        if i < Insn_index then
          { p with
            reloc_byte_addr := (p.reloc_byte_addr + 2 ^ 32 - byte_length_curr % 2 ^ 32) % 2 ^ 32
            reloc_insn_addr := (p.reloc_insn_addr + 2 ^ 32 - insn_length_curr % 2 ^ 32) % 2 ^ 32 }
        else p
      let pipe : reloc_pipe_t :=
        ⟨dec 0 st.reloc_pipe.s0, dec 1 st.reloc_pipe.s1, dec 2 st.reloc_pipe.s2,
          dec 3 st.reloc_pipe.s3⟩
      match _reloc_pipe_delete_state pipe Insn_index with
      | none => none
      | some pipe1 =>
        some { st with reloc_pipe := pipe1, Section := sec, deleted := st.deleted ++ [relocation] }

/-- Function `_insn_isReturn`. -/
def _insn_isReturn (K : copt_env) (Section : copt_section) (Byte_addr : Nat) : Bool :=
  match K.find_insn with
  | none => false
  | some find_insn =>
    match Section.data Byte_addr with
    | none => false
    | some data =>
      match find_insn (data % 2 ^ 16) with
      | none => false
      | some icode =>
        icode = K.ICODE_RETFIE || icode = K.ICODE_RETI || icode = K.ICODE_RETIW
          || icode = K.ICODE_RETLW || icode = K.ICODE_RETP || icode = K.ICODE_RETURN

/-- The value of `reloc_pipe[0].protected` that the analysis computes from the label
found. -/
def label_protected (label : Option Nat) : Bool :=
  match label with
  | none => false
  | some reloc_count_all_section => decide (reloc_count_all_section > 1)

/-- The `switch (Relocation->type)` of `_pagesel_reloc_analyze`: the values of
`reloc_pipe[0].state` and `reloc_byte_length` after it, `none` for the
unimplemented relocations (`assert(0)`). -/
def pagesel_reloc_switch (K : copt_env) (type_ : reloc_type) (instruction : Option Nat)
    (curr : Bool) (Num_pages : Nat) : Option (Nat × Nat) :=
  match type_ with
  | .RELOC_ALL => some (COPT_NULL, 0)
  | .RELOC_CALL => some (if curr then COPT_CALL_CURR_PAGE else COPT_CALL_OTHER_PAGE, 2)
  | .RELOC_GOTO => some (if curr then COPT_GOTO_CURR_PAGE else COPT_GOTO_OTHER_PAGE, 2)
  | .RELOC_LOW => some (COPT_NULL, 0)
  | .RELOC_HIGH =>
    if instruction = some K.ICODE_MOVLP then
      some (if curr then COPT_PAGESEL_CURR_PAGE else COPT_PAGESEL_OTHER_PAGE, 2)
    else some (COPT_NULL, 2)
  | .RELOC_UPPER | .RELOC_P | .RELOC_BANKSEL | .RELOC_IBANKSEL | .RELOC_F | .RELOC_TRIS
  | .RELOC_TRIS_3BIT | .RELOC_MOVLR | .RELOC_MOVLB | .RELOC_GOTO2 | .RELOC_FF1 | .RELOC_FF2
  | .RELOC_LFSR1 | .RELOC_LFSR2 => some (COPT_NULL, 0)
  | .RELOC_BRA => some (if curr then COPT_BRA14E_CURR_PAGE else COPT_BRA14E_OTHER_PAGE, 2)
  | .RELOC_CONDBRA | .RELOC_ACCESS => some (COPT_NULL, 0)
  | .RELOC_PAGESEL_WREG =>
    some (if curr then COPT_PAGESEL_CURR_PAGE else COPT_PAGESEL_OTHER_PAGE,
      K.pagesel_byte_length Num_pages true)
  | .RELOC_PAGESEL_BITS | .RELOC_PAGESEL_MOVLP =>
    some (if curr then COPT_PAGESEL_CURR_PAGE else COPT_PAGESEL_OTHER_PAGE,
      K.pagesel_byte_length Num_pages false)
  | _ => none

/-- Function `_pagesel_reloc_analyze` for the relocation that `Relocation` points
to; `none` when an `assert(0)` is reached. -/
def _pagesel_reloc_analyze (K : copt_env) (st : copt_state) (Relocation : Nat)
    (Num_pages : Nat) : Option copt_state :=
  let R := st.Section.relocation Relocation
  let reloc_byte_addr := (st.Section.address + R.address) % 2 ^ 32
  let value := to_unsigned (R.symbol_value + R.offset)
  match st.Section.data reloc_byte_addr with
  | none => none
  | some data =>
    let reloc_insn_addr := insn_from_byte K reloc_byte_addr
    let reloc_page := K.gp_processor_page_addr reloc_insn_addr
    let target_page := K.gp_processor_page_addr value
    let p := st.reloc_pipe
    let pipe :=
      if p.s1.relocation = none ∨ p.s1.state = COPT_NULL
          ∨ (p.s1.reloc_insn_addr + p.s1.reloc_insn_length) % 2 ^ 32 ≠ reloc_insn_addr then
        _reloc_pipe_clear
      else p
    let label := st.Section.label reloc_insn_addr
    let instruction :=
      match K.find_insn with
      | none => none
      | some find_insn => find_insn (data % 2 ^ 16)
    match pagesel_reloc_switch K R.type_ instruction (decide (reloc_page = target_page))
        Num_pages with
    | none => none
    | some (state, reloc_byte_length) =>
      some { st with
        reloc_pipe :=
          { pipe with
            s0 :=
              { pipe.s0 with
                relocation := some Relocation
                label := label
                instruction := instruction
                state := state
                protected_ := label_protected label
                target_page := target_page
                reloc_page := reloc_page
                reloc_byte_addr := reloc_byte_addr
                reloc_insn_addr := reloc_insn_addr
                reloc_byte_length := reloc_byte_length
                reloc_insn_length := insn_from_byte K reloc_byte_length } } }

/-- The value of `saturation` in `_pagesel_remove` and `_banksel_remove`. -/
def saturation (pipe : reloc_pipe_t) : Nat :=
  (if pipe.s0.relocation ≠ none then 1 else 0) + (if pipe.s1.relocation ≠ none then 1 else 0)
    + (if pipe.s2.relocation ≠ none then 1 else 0) + (if pipe.s3.relocation ≠ none then 1 else 0)

/-- The block `if (saturation >= 2)` of `_pagesel_remove`. -/
def pagesel_remove_2 (K : copt_env) (st : copt_state) : Option copt_state :=
  let p := st.reloc_pipe
  if p.s1.state = COPT_CALL_CURR_PAGE ∧ p.s0.state = COPT_PAGESEL_CURR_PAGE
      ∧ p.s0.protected_ = false then
    _destroy_insn_and_update_addr K st 0
  else if p.s1.state = COPT_PAGESEL_CURR_PAGE ∧ p.s1.protected_ = false
      ∧ p.s0.state = COPT_PAGESEL_OTHER_PAGE then
    _destroy_insn_and_update_addr K st 1
  else if p.s1.state = COPT_PAGESEL_CURR_PAGE ∧ p.s1.protected_ = false
      ∧ p.s0.state &&& COPT_ABS_BRANCH_CURR_PAGE_MASK ≠ 0 then
    _destroy_insn_and_update_addr K st 1
  else if p.s1.state &&& COPT_PAGESEL_MASK ≠ 0 ∧ p.s1.protected_ = false
      ∧ p.s0.state &&& COPT_REL_BRANCH_MASK ≠ 0 then
    if p.s1.relocation = none ∨ p.s0.relocation = none then none
    else _destroy_insn_and_update_addr K st 1
  else some st

/-- The block `if (saturation >= 3)` of `_pagesel_remove`. -/
def pagesel_remove_3 (K : copt_env) (st : copt_state) : Option copt_state :=
  let p := st.reloc_pipe
  if p.s2.state = COPT_CALL_OTHER_PAGE ∧ p.s1.state = COPT_PAGESEL_CURR_PAGE
      ∧ p.s0.state = COPT_PAGESEL_CURR_PAGE then
    some { st with
      reloc_pipe :=
        { p with s1 := { p.s1 with protected_ := false }, s0 := { p.s0 with protected_ := true } } }
  else if p.s2.state = COPT_CALL_OTHER_PAGE
      ∧ p.s1.state = COPT_PAGESEL_OTHER_PAGE ∧ p.s1.protected_ = false
      ∧ p.s2.target_page = p.s1.target_page
      ∧ p.s0.state = COPT_CALL_OTHER_PAGE
      ∧ p.s1.target_page = p.s0.target_page then
    _destroy_insn_and_update_addr K st 1
  else if p.s2.state = COPT_CALL_CURR_PAGE
      ∧ p.s1.state = COPT_PAGESEL_CURR_PAGE ∧ p.s1.protected_ = false
      ∧ p.s0.state = COPT_PAGESEL_CURR_PAGE then
    _destroy_insn_and_update_addr K st 1
  else if p.s2.state = COPT_CALL_CURR_PAGE
      ∧ p.s1.state = COPT_PAGESEL_CURR_PAGE ∧ p.s1.protected_ = false
      ∧ p.s0.state = COPT_CALL_CURR_PAGE then
    _destroy_insn_and_update_addr K st 1
  else some st

/-- The block `if (saturation == 4)` of `_pagesel_remove`. -/
def pagesel_remove_4 (K : copt_env) (st : copt_state) : Option copt_state :=
  let p := st.reloc_pipe
  if p.s3.state = COPT_CALL_OTHER_PAGE
      ∧ p.s2.state = COPT_PAGESEL_CURR_PAGE ∧ p.s2.protected_ = false
      ∧ p.s1.state = COPT_PAGESEL_CURR_PAGE
      ∧ p.s0.state = COPT_CALL_CURR_PAGE then
    _destroy_insn_and_update_addr K st 2
  else if p.s3.state = COPT_CALL_OTHER_PAGE
      ∧ p.s2.state = COPT_PAGESEL_CURR_PAGE ∧ p.s2.protected_ = false
      ∧ p.s1.state = COPT_PAGESEL_OTHER_PAGE
      ∧ p.s0.state = COPT_CALL_OTHER_PAGE then
    _destroy_insn_and_update_addr K st 2
  else some st

/-- The three blocks of `_pagesel_remove` after the block `if (Completion)`, for the
value `sat` of `saturation`. -/
def pagesel_remove_blocks (K : copt_env) (sat : Nat) (st : copt_state) : Option copt_state :=
  match (if sat ≥ 2 then pagesel_remove_2 K st else some st) with
  | none => none
  | some st2 =>
    match (if sat ≥ 3 then pagesel_remove_3 K st2 else some st2) with
    | none => none
    | some st3 => if sat = 4 then pagesel_remove_4 K st3 else some st3

/-- Function `_pagesel_remove`: the value returned and the state after the call. -/
def _pagesel_remove (K : copt_env) (st : copt_state) (Completion : Bool) :
    Option (Bool × copt_state) :=
  let p := st.reloc_pipe
  let sat := saturation p
  if sat = 0 then some (false, st)
  else if Completion = true ∧ p.s0.state = COPT_PAGESEL_CURR_PAGE ∧ p.s0.protected_ = false
      ∧ _insn_isReturn K st.Section ((p.s0.reloc_byte_addr + p.s0.reloc_byte_length) % 2 ^ 32)
        = true then
    match _destroy_insn_and_update_addr K st 0 with
    | none => none
    | some st1 => some (true, { st1 with reloc_pipe := _reloc_pipe_shift st1.reloc_pipe false })
  else
    match pagesel_remove_blocks K sat st with
    | none => none
    | some st1 => some (true, st1)

/-- The loop `do { ... } while (reloc_curr != NULL)` of
`gp_coffopt_remove_unnecessary_pagesel` over the relocations of a section, given
by their pointers in list order. -/
def pagesel_relocs (K : copt_env) (Num_pages : Nat) : List Nat → copt_state → Option copt_state
  | [], st => some st
  | reloc_curr :: next, st =>
    match _pagesel_reloc_analyze K st reloc_curr Num_pages with
    | none => none
    | some st1 =>
      match _pagesel_remove K st1 next.isEmpty with
      | none => none
      | some (_, st2) =>
        pagesel_relocs K Num_pages next
          { st2 with reloc_pipe := _reloc_pipe_shift st2.reloc_pipe true }

/-- The work of `gp_coffopt_remove_unnecessary_pagesel` on one section with data
and labels: `_reloc_pipe_clear()` and the loop over its relocations. -/
def pagesel_section (K : copt_env) (Num_pages : Nat) (relocs : List Nat)
    (Section : copt_section) : Option copt_state :=
  pagesel_relocs K Num_pages relocs
    { reloc_pipe := _reloc_pipe_clear, first_banksel := false, Section := Section, deleted := [] }

/-- The `switch (Relocation->type)` of `_banksel_reloc_analyze`: the values of
`ram_bank`, `reloc_byte_length`, `need_clear` and `there_is_banksel` after it,
`none` for the unimplemented relocations (`assert(0)`). -/
def banksel_reloc_switch (K : copt_env) (type_ : reloc_type) (value : Nat) (Num_pages : Nat) :
    Option (Nat × Nat × Bool × Bool) :=
  match type_ with
  | .RELOC_ALL => some (0, 0, false, false)
  | .RELOC_CALL | .RELOC_GOTO => some (0, 0, true, false)
  | .RELOC_LOW | .RELOC_HIGH | .RELOC_UPPER | .RELOC_P => some (0, 0, false, false)
  | .RELOC_BANKSEL =>
    some (K.gp_processor_bank_addr value, K.banksel_byte_length Num_pages false, false, true)
  | .RELOC_IBANKSEL => some (0, 0, false, false)
  | .RELOC_F | .RELOC_TRIS | .RELOC_TRIS_3BIT | .RELOC_MOVLR => some (0, 0, false, false)
  | .RELOC_MOVLB => some (K.gp_processor_bank_addr value, 2, false, true)
  | .RELOC_GOTO2 => some (0, 0, true, false)
  | .RELOC_FF1 | .RELOC_FF2 | .RELOC_LFSR1 | .RELOC_LFSR2 => some (0, 0, false, false)
  | .RELOC_BRA | .RELOC_CONDBRA => some (0, 0, true, false)
  | .RELOC_ACCESS | .RELOC_PAGESEL_WREG | .RELOC_PAGESEL_BITS | .RELOC_PAGESEL_MOVLP =>
    some (0, 0, false, false)
  | _ => none

/-- Function `_banksel_reloc_analyze` for the relocation that `Relocation` points
to: the value returned and the state after the call; `none` when an `assert(0)`
is reached. -/
def _banksel_reloc_analyze (K : copt_env) (st : copt_state) (Relocation : Nat)
    (Num_pages : Nat) : Option (Bool × copt_state) :=
  let R := st.Section.relocation Relocation
  let reloc_byte_addr := (st.Section.address + R.address) % 2 ^ 32
  let reloc_insn_addr := insn_from_byte K reloc_byte_addr
  let value := to_unsigned (R.symbol_value + R.offset)
  let reloc_page := K.gp_processor_page_addr reloc_insn_addr
  match st.Section.data reloc_byte_addr with
  | none => none
  | some data =>
    match banksel_reloc_switch K R.type_ value Num_pages with
    | none => none
    | some (ram_bank, reloc_byte_length, need_clear, there_is_banksel) =>
      if need_clear then some (false, { st with reloc_pipe := _reloc_pipe_clear })
      else if there_is_banksel then
        let pipe := _reloc_pipe_shift st.reloc_pipe true
        let label := st.Section.label reloc_insn_addr
        let instruction :=
          match K.find_insn with
          | none => none
          | some find_insn => find_insn (data % 2 ^ 16)
        let e0 : reloc_properties :=
          { pipe.s0 with
            relocation := some Relocation
            label := label
            instruction := instruction
            state := COPT_BANKSEL
            protected_ := label_protected label
            reloc_page := reloc_page
            reloc_byte_addr := reloc_byte_addr
            reloc_insn_addr := reloc_insn_addr
            reloc_byte_length := reloc_byte_length
            reloc_insn_length := insn_from_byte K reloc_byte_length
            ram_bank := ram_bank }
        if st.first_banksel = false then
          some (true, { st with
            reloc_pipe := { pipe with s0 := { e0 with protected_ := true } }
            first_banksel := true })
        else some (true, { st with reloc_pipe := { pipe with s0 := e0 } })
      else some (false, st)

/-- Function `_banksel_remove`: the value returned and the state after the call. -/
def _banksel_remove (K : copt_env) (st : copt_state) : Option (Bool × copt_state) :=
  let p := st.reloc_pipe
  let sat := saturation p
  if sat = 0 then some (false, st)
  else if sat ≥ 2 ∧ p.s1.state = COPT_BANKSEL ∧ p.s0.state = COPT_BANKSEL
      ∧ p.s1.ram_bank = p.s0.ram_bank then
    if p.s1.protected_ = false then
      match _destroy_insn_and_update_addr K st 1 with
      | none => none
      | some st1 => some (true, st1)
    else if p.s0.protected_ = false then
      match _destroy_insn_and_update_addr K st 0 with
      | none => none
      | some st1 => some (true, st1)
    else some (true, st)
  else some (true, st)

/-- The loop `while (reloc_curr != NULL)` of
`gp_coffopt_remove_unnecessary_banksel` over the relocations of a section, given
by their pointers in list order. -/
def banksel_relocs (K : copt_env) (Num_banks : Nat) : List Nat → copt_state → Option copt_state
  | [], st => some st
  | reloc_curr :: next, st =>
    match _banksel_reloc_analyze K st reloc_curr Num_banks with
    | none => none
    | some (may_remove, st1) =>
      if may_remove then
        match _banksel_remove K st1 with
        | none => none
        | some (_, st2) => banksel_relocs K Num_banks next st2
      else banksel_relocs K Num_banks next st1

/-- The work of `gp_coffopt_remove_unnecessary_banksel` on one section with data:
`first_banksel = false`, `_reloc_pipe_clear()` and the loop over its
relocations. -/
def banksel_section (K : copt_env) (Num_banks : Nat) (relocs : List Nat)
    (Section : copt_section) : Option copt_state :=
  banksel_relocs K Num_banks relocs
    { reloc_pipe := _reloc_pipe_clear, first_banksel := false, Section := Section, deleted := [] }

/-- The relocation is a bank selection: its type is `RELOC_BANKSEL` or
`RELOC_MOVLB`. -/
def is_banksel (Section : copt_section) (Relocation : Nat) : Bool :=
  (Section.relocation Relocation).type_ = .RELOC_BANKSEL
    || (Section.relocation Relocation).type_ = .RELOC_MOVLB

/-- An element of the pipe that holds the relocation `r` has the flag `protected`. -/
def slot_protects (r : Nat) (e : reloc_properties) : Prop :=
  e.relocation = some r → e.protected_ = true

/-- Every element of the pipe that holds the relocation `r` has the flag
`protected`. -/
def pipe_protects (r : Nat) (pipe : reloc_pipe_t) : Prop :=
  slot_protects r pipe.s0 ∧ slot_protects r pipe.s1 ∧ slot_protects r pipe.s2
    ∧ slot_protects r pipe.s3

/-- An effect of `_destroy_insn_and_update_addr` on the section for the examples:
the bytes of the instruction are deleted from the data, the addresses of the
relocations behind it are decreased by its length, and the labels behind it
move down with the instructions. -/
def example_update_addr (e : reloc_properties) (sec : copt_section) : Option copt_section :=
  some
    { sec with
      data := fun a => if a ≥ e.reloc_byte_addr then sec.data (a + e.reloc_byte_length)
        else sec.data a
      label := fun v => if v ≥ e.reloc_insn_addr then sec.label (v + e.reloc_insn_length)
        else sec.label v
      relocation := fun p =>
        if e.relocation.any (fun q => decide (q < p)) then
          { sec.relocation p with address := (sec.relocation p).address - e.reloc_byte_length }
        else sec.relocation p }

/-- A processor for the examples: two bytes for an instruction word
(`org_to_byte_shift` 1), pages of `0x800` words, banks of `0x80` bytes, page and
bank selections of one word, and every word decodes to the instruction code 0. -/
def example_copt_env : copt_env :=
  { org_to_byte_shift := 1
    find_insn := some (fun _ => some 0)
    ICODE_MOVLP := 1, ICODE_RETFIE := 2, ICODE_RETI := 3, ICODE_RETIW := 4, ICODE_RETLW := 5
    ICODE_RETP := 6, ICODE_RETURN := 7
    gp_processor_page_addr := fun a => a &&& 0x1800
    gp_processor_bank_addr := fun a => a &&& 0x180
    pagesel_byte_length := fun _ _ => 2
    banksel_byte_length := fun _ _ => 2
    update_addr := example_update_addr }

/-- A section at byte address 0 for the examples: every word is used, the pointer
`p` points to the relocation with index `p` of `relocs` (two bytes apart, from
offset 0 on), and `labels` gives the labels by instruction address with their
`reloc_count_all_section`. -/
def example_copt_section (relocs : List (reloc_type × Int)) (labels : List (Nat × Nat)) :
    copt_section :=
  { address := 0
    data := fun _ => some 0
    label := fun v => (labels.find? (fun l => l.1 == v)).map (fun l => l.2)
    relocation := fun p =>
      { address := 2 * p
        symbol_value := (relocs.getD p (.RELOC_ALL, 0)).2
        offset := 0
        type_ := (relocs.getD p (.RELOC_ALL, 0)).1 } }

/-- A state of the banksel pass for the examples: `reloc_pipe[1]` holds the bank
selection `r1` and `reloc_pipe[0]` the later bank selection `r0` of the same
bank, with the flags `protected` given. -/
def example_banksel_pair (r1 r0 : Nat) (protected1 protected0 : Bool) : copt_state :=
  { reloc_pipe :=
      { s0 := { reloc_properties.zero with
                relocation := some r0, state := COPT_BANKSEL, protected_ := protected0
                reloc_byte_addr := 2 * r0, reloc_insn_addr := r0, reloc_byte_length := 2
                reloc_insn_length := 1, ram_bank := 0x100 }
        s1 := { reloc_properties.zero with
                relocation := some r1, state := COPT_BANKSEL, protected_ := protected1
                reloc_byte_addr := 2 * r1, reloc_insn_addr := r1, reloc_byte_length := 2
                reloc_insn_length := 1, ram_bank := 0x100 }
        s2 := .zero
        s3 := .zero }
    first_banksel := true
    Section := example_copt_section [] []
    deleted := [] }

/-- The relocation is a branch for the banksel pass: its type is `RELOC_CALL`,
`RELOC_GOTO`, `RELOC_GOTO2`, `RELOC_BRA` or `RELOC_CONDBRA`. -/
def is_branch_reloc (t : reloc_type) : Bool :=
  t = .RELOC_CALL || t = .RELOC_GOTO || t = .RELOC_GOTO2 || t = .RELOC_BRA || t = .RELOC_CONDBRA

/-- Every element of the pipe `p1` that holds a relocation holds it in the pipe `p`
too, with the same flag `protected`. -/
def pipe_keeps_flags (p p1 : reloc_pipe_t) : Prop :=
  ∀ e ∈ p1.slots, ∀ r, e.relocation = some r →
    ∃ e0 ∈ p.slots, e0.relocation = some r ∧ e0.protected_ = e.protected_

/-- Every relocation that was deleted between the states `st` and `st1` was held by
an element of the pipe of `st` with the flag `protected` clear. -/
def deletes_unprotected (st st1 : copt_state) : Prop :=
  ∀ r ∈ st1.deleted, r ∈ st.deleted ∨
    ∃ e ∈ st.reloc_pipe.slots, e.relocation = some r ∧ e.protected_ = false

/-- The condition of the first rule of the block `if (saturation >= 3)` of
`_pagesel_remove`: a call to another page, followed by two selections of the
current page. -/
def protection_rule (p : reloc_pipe_t) : Prop :=
  saturation p ≥ 3 ∧ p.s2.state = COPT_CALL_OTHER_PAGE ∧ p.s1.state = COPT_PAGESEL_CURR_PAGE
    ∧ p.s0.state = COPT_PAGESEL_CURR_PAGE

/-- The effect of that rule: `reloc_pipe[1].protected = false;
reloc_pipe[0].protected = true;`. -/
def move_protection (p : reloc_pipe_t) : reloc_pipe_t :=
  { p with s1 := { p.s1 with protected_ := false }, s0 := { p.s0 with protected_ := true } }

/-- A section for the examples of the pagesel pass: a call to another page, two
selections of the current page and a call to the current page; the label at the
first selection (instruction address 1) is referenced by two relocations. -/
def example_pagesel_section : copt_section :=
  example_copt_section [(.RELOC_CALL, 0x800), (.RELOC_PAGESEL_WREG, 0x10),
    (.RELOC_PAGESEL_WREG, 0x10), (.RELOC_CALL, 0x10)] [(1, 2)]

/-- The state of the pagesel pass on `example_pagesel_section` before the analysis
of the relocation `k` (from 0, not the last one), `none` when the pass does not
get there. -/
def example_pagesel_before : Nat → Option copt_state
  | 0 =>
    some { reloc_pipe := _reloc_pipe_clear, first_banksel := false
           Section := example_pagesel_section, deleted := [] }
  | k + 1 =>
    match example_pagesel_before k with
    | none => none
    | some st =>
      match _pagesel_reloc_analyze example_copt_env st k 4 with
      | none => none
      | some st1 =>
        match _pagesel_remove example_copt_env st1 false with
        | none => none
        | some (_, st2) => some { st2 with reloc_pipe := _reloc_pipe_shift st2.reloc_pipe true }

/-! ## The fixed-point optimiser of `gpcoffopt.c`

The experimental removal optimisations keep their elements in the circular,
doubly linked list `_removal_list`.  The list is a Lean list here, with the
element that `_removal_list` points to in position 0; a pointer to an element is
its position, `next` of the last element is position 0 and `prev` of position 0
is the last element, as `_removal_add_to_list` links them.  The position of an
element does not change while the list is processed. -/

def REMOVAL_TYPE_SECTION : Nat := 0x0001
def REMOVAL_TYPE_LABEL : Nat := 0x0002
def REMOVAL_TYPE_BANKSEL : Nat := 0x0004
def REMOVAL_TYPE_PAGESEL : Nat := 0x0008
def REMOVAL_TYPE_BRANCH : Nat := 0x0010
def REMOVAL_TYPE_GOTO : Nat := 0x0020
def REMOVAL_TYPE_CALL : Nat := 0x0040
def REMOVAL_TYPE_PCALLW_STUB : Nat := 0x0100
def REMOVAL_TYPE_PCALLW_INSN : Nat := 0x0200
def REMOVAL_TYPE_PCALLW_ADDR : Nat := 0x0400

def REMOVAL_FLAG_FIRST : Nat := 0x0001
def REMOVAL_FLAG_FIXED : Nat := 0x0002
def REMOVAL_FLAG_REMOVE : Nat := 0x0004
def REMOVAL_FLAG_INITIALIZED : Nat := 0x0008
def REMOVAL_FLAG_REPAGED : Nat := 0x0010
def REMOVAL_FLAG_REPAGE_FAILED : Nat := 0x0020

def REMOVAL_STATE_UNDEF : Nat := 2 ^ 32 - 1

/-- The fields of `struct _removal_s` that the passes read and write, without
`prev` and `next` (given by the position) and `symbol` (not read).  `source` is
the position of the element pointed to, `relocation` and `section_` name the
relocation and the section pointed to; `none` is `NULL`. -/
structure _removal_t where
  relocation : Option Nat
  section_ : Option Nat
  source : Option Nat
  type_ : Nat
  flags : Nat
  length : Nat
  address : Nat
  page : Nat
  state : Nat
  naddr : Nat
  deriving DecidableEq, Repr

/-- The position of `Ptr->prev` in a list of `n` elements. -/
def removal_prev (n i : Nat) : Nat := (i + n - 1) % n

/-- The position of `Ptr->next` in a list of `n` elements. -/
def removal_next (n i : Nat) : Nat := (i + 1) % n

/-- The fields `address` and `size` of the `gp_section_t` that an element points
to. -/
structure removal_section where
  address : Nat
  size : Nat
  deriving DecidableEq, Repr

/-- What the pagesel variant takes from `_removal_class` and `_removal_processor`:
the class, the function `gp_processor_page_addr` of the absent `gpprocessor.c`
for this class, and the function pointers `page_addr` and `check_page` of the
class. -/
structure removal_env where
  class_ : proc_class
  gp_processor_page_addr : Nat → Nat
  page_addr : Nat → Nat
  check_page : Nat → Nat

/-- The call `gp_processor_insn_from_byte_c(_removal_class, a)` with a `uint32_t`
argument and a `uint32_t` result. -/
def removal_insn_from_byte (R : removal_env) (a : Nat) : Nat :=
  to_unsigned (gp_processor_insn_from_byte_c R.class_ (to_int a))

/-- The call `gp_processor_byte_from_insn_c(_removal_class, a)` with a `uint32_t`
argument and a `uint32_t` result. -/
def removal_byte_from_insn (R : removal_env) (a : Nat) : Nat :=
  to_unsigned (gp_processor_byte_from_insn_c R.class_ (to_int a))

/-- Function `gp_processor_page_num` of `gpcoffopt.c`, with a `uint32_t` argument
and its result stored in a `uint32_t`. -/
def gp_processor_page_num (R : removal_env) (Address : Nat) : Nat :=
  if R.class_.id = .PIC14E ∨ R.class_.id = .PIC14EX then
    (R.page_addr (Address % 2 ^ 32) >>> PIC14_PAGE_SHIFT) % 2 ^ 32
  else R.check_page (Address % 2 ^ 32) % 2 ^ 32

/-- The loop `while (src != NULL) { entry |= src->state; src = src->source; }` of
the pagesel variant.  A chain that does not end within `fuel` elements gives
`none`; with `fuel` the length of the list this is a chain that runs in a
circle, on which the loop does not end. -/
def pagesel_label_entry (L : List _removal_t) : Nat → Option Nat → Nat → Option Nat
  | _, none, entry => some entry
  | 0, some _, _ => none
  | fuel + 1, some s, entry =>
    match L[s]? with
    | none => none
    | some src => pagesel_label_entry L fuel src.source (entry ||| src.state)

/-- The loop `while (src != NULL) { entry |= src->prev->state; src = src->source; }`
of the banksel variant, with the same reading of `fuel`. -/
def banksel_label_entry (L : List _removal_t) : Nat → Option Nat → Nat → Option Nat
  | _, none, entry => some entry
  | 0, some _, _ => none
  | fuel + 1, some s, entry =>
    match L[s]?, L[removal_prev L.length s]? with
    | some src, some sp => banksel_label_entry L fuel src.source (entry ||| sp.state)
    | _, _ => none

/-- Function `_banksel_check_state` for the element in position `i`: the value
returned and the list after the call; `none` when a pointer that is
dereferenced does not point to an element, or the loop over the sources does
not end. -/
def _banksel_check_state (L : List _removal_t) (i : Nat) : Option (Bool × List _removal_t) :=
  match L[i]?, L[removal_prev L.length i]? with
  | some p, some pr =>
    if p.type_ = REMOVAL_TYPE_BANKSEL then
      if decide (pr.state = p.state) = decide (p.flags &&& REMOVAL_FLAG_REMOVE ≠ 0) then
        some (false, L)
      else some (true, L.set i { p with flags := p.flags ^^^ REMOVAL_FLAG_REMOVE })
    else if p.type_ = REMOVAL_TYPE_GOTO then
      if pr.state = p.state then some (false, L)
      else some (true, L.set i { p with state := pr.state })
    else if p.type_ = REMOVAL_TYPE_LABEL then
      match banksel_label_entry L L.length p.source pr.state with
      | none => none
      | some entry =>
        if entry = p.state then some (false, L)
        else some (true, L.set i { p with state := entry })
    else some (false, L.set i { p with flags := p.flags ||| REMOVAL_FLAG_FIXED })
  | _, _ => none

/-- The loop `while (Ptr->source->type != REMOVAL_TYPE_SECTION) Ptr->source =
Ptr->source->prev;` from the position `k` on; `none` when it does not end within
`fuel` elements. -/
def find_section_back (L : List _removal_t) : Nat → Nat → Option Nat
  | 0, _ => none
  | fuel + 1, k =>
    match L[k]? with
    | none => none
    | some e =>
      if e.type_ = REMOVAL_TYPE_SECTION then some k
      else find_section_back L fuel (removal_prev L.length k)

/-- The loop of `_pagesel_check_state` that decreases `size` by the lengths of the
instructions to be removed, over the elements from `Ptr->next` to the end of
the list or the next section. -/
def removed_size (size : Nat) : List _removal_t → Nat
  | [] => size
  | tmp :: rest =>
    if tmp.type_ = REMOVAL_TYPE_SECTION then size
    else
      removed_size
        (if tmp.flags &&& REMOVAL_FLAG_REMOVE ≠ 0 then
          (size + 2 ^ 32 - tmp.length % 2 ^ 32) % 2 ^ 32
         else size) rest

/-- The block `if ((Ptr->flags & REMOVAL_FLAG_INITIALIZED) == 0)` of the section
branch of `_pagesel_check_state` for the element `p` in position `i`: the
element and the value of `changed` after it. -/
def pagesel_section_init (R : removal_env) (L : List _removal_t) (i : Nat) (p : _removal_t) :
    Option (_removal_t × Bool) :=
  if p.flags &&& REMOVAL_FLAG_INITIALIZED = 0 then
    let source : Option (Option Nat) :=
      if p.flags &&& REMOVAL_FLAG_FIRST ≠ 0 then some none
      else (find_section_back L L.length (removal_prev L.length i)).map some
    match source with
    | none => none
    | some src =>
      some ({ p with
              source := src
              flags := p.flags ||| REMOVAL_FLAG_INITIALIZED
              page := R.gp_processor_page_addr p.address }, true)
  else some (p, false)

/-- The end of the section branch of `_pagesel_check_state`, from `if (!changed &&
(state == Ptr->state) && (naddr == Ptr->naddr))` on, for the element `p1` in
position `i` and the values of `changed`, of `Ptr->flags`, of `sipage`, of
`state` and of `naddr` there. -/
def pagesel_section_update (L : List _removal_t) (i : Nat) (p1 : _removal_t) (changed : Bool)
    (flags2 sipage state naddr : Nat) : Bool × List _removal_t :=
  if changed = false ∧ state = p1.state ∧ naddr = p1.naddr then
    (false, L.set i { p1 with flags := flags2 })
  else
    (true, L.set i
      { p1 with
        naddr := naddr
        state := state
        flags := if sipage ≠ p1.page then flags2 ||| REMOVAL_FLAG_REPAGED else flags2 })

/-- The branch `if (Ptr->type == REMOVAL_TYPE_SECTION)` of `_pagesel_check_state`
for the element `p` in position `i`; `S` gives the sections by their names. -/
def pagesel_check_section (R : removal_env) (S : Nat → Option removal_section)
    (L : List _removal_t) (i : Nat) (p : _removal_t) : Option (Bool × List _removal_t) :=
  match pagesel_section_init R L i p with
  | none => none
  | some (p1, changed) =>
    match p1.section_.bind S with
    | none => none
    | some sec =>
      let size := removed_size (sec.size % 2 ^ 32) (L.drop (i + 1))
      let saddr0 : Option Nat :=
        match p1.source with
        | none => some (sec.address % 2 ^ 32)
        | some k => L[k]?.map (fun e => e.naddr)
      match saddr0 with
      | none => none
      | some saddr =>
        let siaddr := removal_insn_from_byte R saddr
        let sipage := R.gp_processor_page_addr siaddr
        let failed := decide (sipage ≠ p1.page ∧ p1.flags &&& REMOVAL_FLAG_REPAGED ≠ 0)
        let flags2 := if failed then p1.flags ||| REMOVAL_FLAG_REPAGE_FAILED else p1.flags
        let siaddr2 := if failed then p1.page else siaddr
        let sipage2 := if failed then p1.page else sipage
        let saddr2 := if failed then removal_byte_from_insn R p1.page else saddr
        let eaddr := (saddr2 + size + 2 ^ 32 - 2) % 2 ^ 32
        let eiaddr := removal_insn_from_byte R eaddr
        let eipage := R.gp_processor_page_addr eiaddr
        let cross := decide (eipage ≠ sipage2)
        let siaddr3 := if cross then eipage else siaddr2
        let sipage3 := if cross then eipage else sipage2
        let saddr3 := if cross then removal_byte_from_insn R eipage else saddr2
        let spage := gp_processor_page_num R siaddr3
        let state := to_unsigned (c_shl 1 spage)
        let naddr := (saddr3 + size) % 2 ^ 32
        some (pagesel_section_update L i p1 changed flags2 sipage3 state naddr)

/-- Function `_pagesel_check_state` for the element in position `i`: the value
returned and the list after the call; `none` when a pointer that is
dereferenced does not point to an element or a section, or a loop does not
end. -/
def _pagesel_check_state (R : removal_env) (S : Nat → Option removal_section)
    (L : List _removal_t) (i : Nat) : Option (Bool × List _removal_t) :=
  match L[i]? with
  | none => none
  | some p =>
    if p.type_ = REMOVAL_TYPE_SECTION then pagesel_check_section R S L i p
    else if p.type_ = REMOVAL_TYPE_PAGESEL then
      match p.source.bind (fun k => L[k]?) with
      | none => none
      | some src =>
        let p1 := if src.state ≠ p.state then { p with state := src.state } else p
        match (L.set i p1)[removal_prev L.length i]? with
        | none => none
        | some pr =>
          if decide (pr.state = p1.state) ≠ decide (p1.flags &&& REMOVAL_FLAG_REMOVE ≠ 0) then
            some (true, L.set i { p1 with flags := p1.flags ^^^ REMOVAL_FLAG_REMOVE })
          else some (false, L.set i p1)
    else
      match L[removal_prev L.length i]? with
      | none => none
      | some pr =>
        if p.type_ = REMOVAL_TYPE_LABEL then
          match pagesel_label_entry L L.length p.source pr.state with
          | none => none
          | some entry =>
            if entry = p.state then some (false, L)
            else some (true, L.set i { p with state := entry })
        else if p.type_ = REMOVAL_TYPE_BRANCH ∨ p.type_ = REMOVAL_TYPE_GOTO then
          if pr.state = p.state then some (false, L)
          else some (true, L.set i { p with state := pr.state })
        else some (false, L.set i { p with flags := p.flags ||| REMOVAL_FLAG_FIXED })

/-- The loop `while ((next != NULL) && (next->type != REMOVAL_TYPE_LABEL) &&
(next->address <= (Ptr->address + 1))) next = next->next;` of
`_pcallw_check_state` from the position `k` on, `limit` being
`Ptr->address + 1`: the position at which it stops, `none` when it has not
stopped after `fuel` elements.  No `next` pointer of the circular list is
`NULL`. -/
def pcallw_find_next (L : List _removal_t) (limit : Nat) : Nat → Nat → Option Nat
  | 0, _ => none
  | fuel + 1, k =>
    match L[k]? with
    | none => none
    | some e =>
      if e.type_ ≠ REMOVAL_TYPE_LABEL ∧ e.address ≤ limit then
        pcallw_find_next L limit fuel (removal_next L.length k)
      else some k

/-- Function `_pcallw_check_state` for the element in position `i`: the value
returned and the list after the call; `none` when its loop has not stopped
after `fuel` elements. -/
def _pcallw_check_state (fuel : Nat) (L : List _removal_t) (i : Nat) :
    Option (Bool × List _removal_t) :=
  match L[i]? with
  | none => none
  | some p =>
    if p.type_ = REMOVAL_TYPE_PCALLW_STUB then
      match pcallw_find_next L ((p.address + 1) % 2 ^ 32) fuel (removal_next L.length i) with
      | none => none
      | some k =>
        match L[k]? with
        | none => none
        | some next =>
          if next.type_ = REMOVAL_TYPE_LABEL ∧ next.address = (p.address + 1) % 2 ^ 32 then
            some (false, L.set i { p with flags := p.flags ||| REMOVAL_FLAG_FIXED })
          else
            some (false, L.set i
              { p with flags := (p.flags ||| REMOVAL_FLAG_REMOVE) ||| REMOVAL_FLAG_FIXED })
    else some (false, L.set i { p with flags := p.flags ||| REMOVAL_FLAG_FIXED })

/-- One run of the inner loop `do { ... ptr = ptr->next; } while (ptr !=
_removal_list)` of `_removal_process_list` over the positions given, with the
value of `changed` so far: the value of `changed` and the list after it. -/
def removal_pass (check : List _removal_t → Nat → Option (Bool × List _removal_t)) :
    List Nat → Bool → List _removal_t → Option (Bool × List _removal_t)
  | [], changed, L => some (changed, L)
  | i :: rest, changed, L =>
    match L[i]? with
    | none => none
    | some ptr =>
      if ptr.flags &&& REMOVAL_FLAG_FIXED = 0 then
        match check L i with
        | none => none
        | some (c, L1) => removal_pass check rest (c || changed) L1
      else removal_pass check rest changed L

/-- The loop `do { ... } while (changed)` of `_removal_process_list`; `none` when
it has not ended after `fuel` runs of the inner loop. -/
def removal_loop (check : List _removal_t → Nat → Option (Bool × List _removal_t)) :
    Nat → List _removal_t → Option (List _removal_t)
  | 0, _ => none
  | fuel + 1, L =>
    match removal_pass check (List.range L.length) false L with
    | none => none
    | some (changed, L1) => if changed then removal_loop check fuel L1 else some L1

/-- Function `_removal_process_list`: the value returned and the list after the
loops; `none` when `assert(_removal_list != NULL)` fails, a check gives `none`,
or the outer loop has not ended after `fuel` runs. -/
def _removal_process_list (check : List _removal_t → Nat → Option (Bool × List _removal_t))
    (fuel : Nat) (L : List _removal_t) : Option (Bool × List _removal_t) :=
  match L with
  | [] => none
  | head :: rest =>
    match removal_loop check fuel
        ({ head with flags := head.flags ||| REMOVAL_FLAG_FIRST } :: rest) with
    | none => none
    | some L1 => some (L1.any (fun e => decide (e.flags &&& REMOVAL_FLAG_REMOVE ≠ 0)), L1)

/-- An element for the examples, as `_removal_add_to_list` and `_removal_add_reloc`
leave it: instruction length 2, in the section 0, of the relocation given. -/
def example_removal_elem (type_ flags address state : Nat) (source relocation : Option Nat) :
    _removal_t :=
  { relocation := relocation, section_ := some 0, source := source, type_ := type_
    flags := flags, length := 2, address := address, page := 0, state := state, naddr := 0 }

/-- A list for the banksel variant: a section, a selection of bank 1, a call of
the label `L`, a selection of bank 2, the label `L`, and two more selections of
bank 2. -/
def example_banksel_list : List _removal_t :=
  [ example_removal_elem REMOVAL_TYPE_SECTION 0 0 REMOVAL_STATE_UNDEF none none,
    example_removal_elem REMOVAL_TYPE_BANKSEL 0 0 (1 <<< 1) none (some 0),
    example_removal_elem REMOVAL_TYPE_CALL REMOVAL_FLAG_FIXED 1 REMOVAL_STATE_UNDEF none (some 1),
    example_removal_elem REMOVAL_TYPE_BANKSEL 0 2 (1 <<< 2) none (some 2),
    example_removal_elem REMOVAL_TYPE_LABEL 0 3 REMOVAL_STATE_UNDEF (some 2) none,
    example_removal_elem REMOVAL_TYPE_BANKSEL 0 3 (1 <<< 2) none (some 3),
    example_removal_elem REMOVAL_TYPE_BANKSEL 0 4 (1 <<< 2) none (some 4) ]

/-- A processor for the examples of the pagesel variant: two bytes for an
instruction word, pages of `0x800` words. -/
def example_removal_env : removal_env :=
  { class_ := { id := .PIC14, page_size := 0x800, org_to_byte_shift := 1, find_insn := none }
    gp_processor_page_addr := fun a => a &&& 0x1800
    page_addr := fun a => a &&& 0x1800
    check_page := fun a => a >>> 11 }

/-- The sections of the examples: the section 0, at byte address 0, of 10 bytes. -/
def example_removal_sections : Nat → Option removal_section
  | 0 => some { address := 0, size := 10 }
  | _ => none

/-- A list for the pagesel variant: the section 0, a selection of the page of a
label in the section 0, a `goto` to the label `L`, a `call` of `L`, and the
label `L`. -/
def example_pagesel_list : List _removal_t :=
  [ example_removal_elem REMOVAL_TYPE_SECTION 0 0 REMOVAL_STATE_UNDEF none none,
    example_removal_elem REMOVAL_TYPE_PAGESEL 0 0 REMOVAL_STATE_UNDEF (some 0) (some 0),
    example_removal_elem REMOVAL_TYPE_GOTO 0 1 REMOVAL_STATE_UNDEF none (some 1),
    example_removal_elem REMOVAL_TYPE_PAGESEL 0 2 REMOVAL_STATE_UNDEF (some 0) (some 2),
    example_removal_elem REMOVAL_TYPE_LABEL 0 4 REMOVAL_STATE_UNDEF (some 2) none ]

/-- The list `example_banksel_list` at the end of `_removal_process_list` with
`_banksel_check_state`. -/
def example_banksel_final : List _removal_t :=
  [ example_removal_elem REMOVAL_TYPE_SECTION 3 0 REMOVAL_STATE_UNDEF none none,
    example_removal_elem REMOVAL_TYPE_BANKSEL 0 0 2 none (some 0),
    example_removal_elem REMOVAL_TYPE_CALL 2 1 REMOVAL_STATE_UNDEF none (some 1),
    example_removal_elem REMOVAL_TYPE_BANKSEL 0 2 4 none (some 2),
    example_removal_elem REMOVAL_TYPE_LABEL 0 3 6 (some 2) none,
    example_removal_elem REMOVAL_TYPE_BANKSEL 0 3 4 none (some 3),
    example_removal_elem REMOVAL_TYPE_BANKSEL 4 4 4 none (some 4) ]

/-- The list `example_pagesel_list` at the end of `_removal_process_list` with
`_pagesel_check_state`. -/
def example_pagesel_final : List _removal_t :=
  [ { example_removal_elem REMOVAL_TYPE_SECTION 9 0 1 none none with naddr := 6 },
    example_removal_elem REMOVAL_TYPE_PAGESEL 4 0 1 (some 0) (some 0),
    example_removal_elem REMOVAL_TYPE_GOTO 0 1 1 none (some 1),
    example_removal_elem REMOVAL_TYPE_PAGESEL 4 2 1 (some 0) (some 2),
    example_removal_elem REMOVAL_TYPE_LABEL 0 4 1 (some 2) none ]

/-- The positions that the loop `while (src != NULL) { ...; src = src->source; }`
of a label visits, in the order of the visits; `none` when the chain does not
end within `fuel` elements or leaves the list. -/
def source_chain (L : List _removal_t) : Nat → Option Nat → Option (List Nat)
  | _, none => some []
  | 0, some _ => none
  | fuel + 1, some s =>
    match L[s]? with
    | none => none
    | some src => (source_chain L fuel src.source).map (fun c => s :: c)

/-- The state of the element in position `k`. -/
def state_at (L : List _removal_t) (k : Nat) : Nat :=
  match L[k]? with
  | some e => e.state
  | none => 0

/-- The bitwise union of a list of states. -/
def state_union (states : List Nat) : Nat := states.foldl (fun a s => a ||| s) 0

/-- No field `source` of the list points to a page selection.  In a list that
`_removal_prepare_list` builds with `_pagesel_add_reloc`, the sources of labels,
branches, `goto`s and calls are branches, `goto`s and calls, and the source of
a page selection or a section is a section. -/
def no_pagesel_source (L : List _removal_t) : Prop :=
  ∀ (k : Nat) (e : _removal_t) (s : Nat) (t : _removal_t),
    L[k]? = some e → e.source = some s → L[s]? = some t → t.type_ ≠ REMOVAL_TYPE_PAGESEL

/-- A list for the pcallw variant: a section and a PCALLW stub at the instruction
address 5; no label, and no element behind the address 6. -/
def example_pcallw_list : List _removal_t :=
  [ example_removal_elem REMOVAL_TYPE_SECTION 0 0 REMOVAL_STATE_UNDEF none none,
    example_removal_elem REMOVAL_TYPE_PCALLW_STUB 0 5 REMOVAL_STATE_UNDEF none (some 0) ]

/-- A list for the pcallw variant in which the label behind the stub is used: a
section, a PCALLW stub at the instruction address 5, and a label at 6. -/
def example_pcallw_list_label : List _removal_t :=
  [ example_removal_elem REMOVAL_TYPE_SECTION 0 0 REMOVAL_STATE_UNDEF none none,
    example_removal_elem REMOVAL_TYPE_PCALLW_STUB 0 5 REMOVAL_STATE_UNDEF none (some 0),
    example_removal_elem REMOVAL_TYPE_LABEL 0 6 REMOVAL_STATE_UNDEF none none ]

/-! ### The removal of the marked instructions

`_removal_update_section` works on the section that the element `Ptr` points to
and on the symbols of the object.  The functions `gp_mem_b_move`,
`gp_mem_b_delete_area`, `gp_coffgen_del_linenum_by_address_area` and
`gp_coffgen_del_reloc` are defined in files that are absent; the first three
are taken as given, the last one takes the relocation out of the list. -/

/-- A relocation of the section: `ptr` names the `gp_reloc_t` (elements of the list
point to it), `address` is its field `address`. -/
structure update_reloc where
  ptr : Nat
  address : Nat
  deriving DecidableEq, Repr

/-- A symbol of the object: its field `value`, and whether
`OPT_FLAGS_GPCOFFOPT_REMOVAL_SYMBOL_VALID` is set in its `opt_flags`. -/
structure update_symbol where
  value : Int
  valid : Bool
  deriving DecidableEq, Repr

/-- The section that `_removal_update_section` works on, with the fields
`address`, `shadow_address` and `size`, the data (`data a` is the word that
`i_memory_get` stores for the byte address `a` when it returns `W_USED_ALL`),
the relocations, the addresses of the line numbers, and the list
`_removal_object->symbol_list`. -/
structure update_object where
  address : Nat
  shadow_address : Nat
  size : Nat
  data : Nat → Option Nat
  relocation_list : List update_reloc
  line_number_list : List Nat
  symbol_list : List update_symbol

/-- The functions of absent files that `_removal_update_section` calls on the data
and the line numbers: `linenum_deleted a s e` tells whether
`gp_coffgen_del_linenum_by_address_area(section, s, e)` deletes a line number
with the address `a`. -/
structure update_calls where
  gp_mem_b_move : (Nat → Option Nat) → Nat → Nat → Nat → (Nat → Option Nat)
  gp_mem_b_delete_area : (Nat → Option Nat) → Nat → Nat → (Nat → Option Nat)
  linenum_deleted : Nat → Nat → Nat → Bool

/-- The update of the address of one line number in `_removal_update`. -/
def removal_update_linenum (Shift Start_address End_address address : Nat) : Nat :=
  if Start_address ≤ address ∧ address < End_address then
    (address + 2 ^ 32 - Shift % 2 ^ 32) % 2 ^ 32
  else address

/-- The update of one symbol in `_removal_update`, with `Shift`, `Start_address`
and `End_address` in instructions. -/
def removal_update_symbol (Shift Start_address End_address : Nat) (symbol : update_symbol) :
    update_symbol :=
  if symbol.valid = true ∧ (Start_address : Int) ≤ symbol.value
      ∧ symbol.value < (End_address : Int) then
    { value := symbol.value - (Shift : Int), valid := false }
  else symbol

/-- Function `_removal_update`. -/
def _removal_update (R : removal_env) (o : update_object) (Shift Start_address End_address : Nat) :
    update_object :=
  if Shift = 0 then o
  else
    { o with
      line_number_list :=
        o.line_number_list.map (removal_update_linenum Shift Start_address End_address)
      symbol_list :=
        o.symbol_list.map
          (removal_update_symbol (removal_insn_from_byte R Shift)
            (removal_insn_from_byte R Start_address) (removal_insn_from_byte R End_address)) }

/-- The loop `do Ptr = Ptr->next; while ((Ptr->flags & REMOVAL_FLAG_REMOVE) == 0);`
from the position `k` on: the position it stops at, `none` when it has not
stopped after `fuel` elements. -/
def next_remove (L : List _removal_t) : Nat → Nat → Option Nat
  | 0, _ => none
  | fuel + 1, k =>
    match L[removal_next L.length k]? with
    | none => none
    | some e =>
      if e.flags &&& REMOVAL_FLAG_REMOVE ≠ 0 then some (removal_next L.length k)
      else next_remove L fuel (removal_next L.length k)

/-- The elements that the loop `while (Insn_count-- > 0)` of
`_removal_update_section` removes, in the order of the loop, from the position
`Ptr` on; `none` when an element is not found or
`assert(Ptr->section == section)` fails. -/
def removal_targets (L : List _removal_t) (section_ : Option Nat) :
    Nat → Nat → Option (List _removal_t)
  | 0, _ => some []
  | Insn_count + 1, Ptr =>
    match next_remove L L.length Ptr with
    | none => none
    | some k =>
      match L[k]? with
      | none => none
      | some e =>
        if e.section_ = section_ then
          (removal_targets L section_ Insn_count k).map (fun rest => e :: rest)
        else none

/-- The address of the relocation that `ptr` points to. -/
def reloc_address (relocs : List update_reloc) (ptr : Nat) : Option Nat :=
  (relocs.find? (fun r => r.ptr = ptr)).map (fun r => r.address)

/-- The update of the address of one relocation in the loop of
`_removal_update_section`, for the instruction at the relocation address `cur`
of `rbshift` bytes. -/
def update_reloc_address (cur rbshift : Nat) (reloc : update_reloc) : update_reloc :=
  if reloc.address > cur then
    { reloc with address := (reloc.address + 2 ^ 32 - rbshift % 2 ^ 32) % 2 ^ 32 }
  else reloc

/-- One turn of the loop `while (Insn_count-- > 0)` of `_removal_update_section`,
for the element `Ptr` to remove: the section and the symbols, and the values of
`isaddr`, `csaddr` and `Shift`, after it; `none` when `Ptr->relocation` does not
point to a relocation of the section or `assert(0)` is reached. -/
def update_section_turn (R : removal_env) (E : update_calls) (Ptr : _removal_t)
    (o : update_object) (isaddr csaddr Shift : Nat) : Option (update_object × Nat × Nat × Nat) :=
  match Ptr.relocation.bind (reloc_address o.relocation_list) with
  | none => none
  | some cur =>
    let rbsaddr := (o.address + cur) % 2 ^ 32
    let rbshift := Ptr.length
    let rbnaddr := (rbsaddr + rbshift) % 2 ^ 32
    match o.data rbsaddr with
    | none => none
    | some _ =>
      let o1 : update_object :=
        { o with
          data := E.gp_mem_b_delete_area o.data rbsaddr rbshift
          size := (o.size + 2 ^ 32 - rbshift % 2 ^ 32) % 2 ^ 32
          line_number_list :=
            o.line_number_list.filter
              (fun a => !E.linenum_deleted a rbsaddr ((rbnaddr + 2 ^ 32 - 1) % 2 ^ 32))
          relocation_list := o.relocation_list.map (update_reloc_address cur rbshift) }
      let isaddr1 := (isaddr + rbshift) % 2 ^ 32
      let o2 := _removal_update R o1 Shift csaddr ((isaddr1 + cur) % 2 ^ 32)
      let o3 : update_object :=
        { o2 with
          relocation_list :=
            o2.relocation_list.filter (fun r => some r.ptr ≠ Ptr.relocation) }
      some (o3, isaddr1, (isaddr1 + cur) % 2 ^ 32, (Shift + rbshift) % 2 ^ 32)

/-- The loop `while (Insn_count-- > 0)` of `_removal_update_section` over the
elements to remove, and the call of `_removal_update` after it: the section and
the symbols, and the value of `Shift`, at the end. -/
def update_section_loop (R : removal_env) (E : update_calls) (inaddr : Nat) :
    List _removal_t → update_object → Nat → Nat → Nat → Option (update_object × Nat)
  | [], o, _, csaddr, Shift => some (_removal_update R o Shift csaddr inaddr, Shift)
  | Ptr :: rest, o, isaddr, csaddr, Shift =>
    match update_section_turn R E Ptr o isaddr csaddr Shift with
    | none => none
    | some (o3, isaddr1, csaddr1, Shift1) =>
      update_section_loop R E inaddr rest o3 isaddr1 csaddr1 Shift1

/-- The value of `Shift` in `_removal_update_section` after the block `if (spage !=
epage)`. -/
def update_section_shift (R : removal_env) (o : update_object) (Shift Byte_count : Nat) : Nat :=
  let isaddr := o.address % 2 ^ 32
  let saddr := removal_insn_from_byte R ((isaddr + 2 ^ 32 - Shift % 2 ^ 32) % 2 ^ 32)
  let spage := R.gp_processor_page_addr saddr
  let eaddr := removal_insn_from_byte R
    ((isaddr + (2 ^ 32 - Shift % 2 ^ 32) + o.size % 2 ^ 32 + (2 ^ 32 - Byte_count % 2 ^ 32)
      + (2 ^ 32 - 2)) % 2 ^ 32)
  let epage := R.gp_processor_page_addr eaddr
  if spage ≠ epage then (isaddr + 2 ^ 32 - removal_byte_from_insn R epage % 2 ^ 32) % 2 ^ 32
  else Shift % 2 ^ 32

/-- Function `_removal_update_section` for the element in position `Ptr` of the
list `L`, whose section is `o`: the section and the symbols after the call, and
the value returned; `none` when an assertion fails or a loop does not end. -/
def _removal_update_section (R : removal_env) (E : update_calls) (L : List _removal_t)
    (Ptr : Nat) (o : update_object) (Shift Byte_count Insn_count : Nat) :
    Option (update_object × Nat) :=
  match L[Ptr]? with
  | none => none
  | some first =>
    let isaddr := o.address % 2 ^ 32
    let inaddr := (isaddr + o.size) % 2 ^ 32
    let Shift1 := update_section_shift R o Shift Byte_count
    let o1 : update_object :=
      if Shift1 ≠ 0 then
        { o with
          data := E.gp_mem_b_move o.data isaddr ((isaddr + 2 ^ 32 - Shift1) % 2 ^ 32) o.size
          address := (o.address + 2 ^ 32 - Shift1) % 2 ^ 32
          shadow_address := (o.shadow_address + 2 ^ 32 - Shift1) % 2 ^ 32 }
      else o
    match removal_targets L first.section_ Insn_count Ptr with
    | none => none
    | some targets => update_section_loop R E inaddr targets o1 isaddr isaddr Shift1

/-- An instruction that `_removal_update_section` removes: the relocation that its
element points to, the address of that relocation, and the length of the
instruction in bytes. -/
structure removed_insn where
  ptr : Nat
  address : Nat
  length : Nat
  deriving DecidableEq, Repr

/-- The total length of the instructions removed. -/
def total_removed (tg : List removed_insn) : Nat := (tg.map (fun t => t.length)).sum

/-- The total length of the instructions removed whose relocation address is below
`a`. -/
def removed_before (tg : List removed_insn) (a : Nat) : Nat :=
  ((tg.filter (fun t => decide (t.address < a))).map (fun t => t.length)).sum

/-- The total length of the instructions removed that end at or before the byte
address `x`, in a section that starts at the byte address `isaddr`. -/
def removed_up_to (isaddr : Nat) (tg : List removed_insn) (x : Nat) : Nat :=
  ((tg.filter (fun t => decide (isaddr + t.address + t.length ≤ x))).map
    (fun t => t.length)).sum

/-- The total length of the instructions removed that end at or before the
instruction address `v`, in a section that starts at the byte address
`isaddr`. -/
def removed_up_to_insn (R : removal_env) (isaddr : Nat) (tg : List removed_insn) (v : Int) :
    Nat :=
  ((tg.filter (fun t =>
      decide (((removal_insn_from_byte R (isaddr + t.address + t.length) : Nat) : Int) ≤ v))).map
    (fun t => t.length)).sum

/-- The relocation `r` at the end: its address is decreased by the total length of
the instructions removed before it. -/
def final_reloc (tg : List removed_insn) (r : update_reloc) : update_reloc :=
  { r with address := r.address - removed_before tg r.address }

/-- The address `x` of a line number at the end: an address from `csaddr` to the
end `inaddr` of the section is decreased by `Shift` and the total length of the
instructions removed that end at or before it. -/
def final_linenum (inaddr csaddr Shift isaddr : Nat) (tg : List removed_insn) (x : Nat) : Nat :=
  if csaddr ≤ x ∧ x < inaddr then x - (Shift + removed_up_to isaddr tg x) else x

/-- A symbol at the end: the value of a symbol marked valid, from the instruction
address of `csaddr` to that of the end `inaddr` of the section, is decreased by
the number of instructions in `Shift` and the total length of the instructions
removed that end at or before it, and the mark is cleared; nothing changes when
that number of bytes is 0. -/
def final_symbol (R : removal_env) (inaddr csaddr Shift isaddr : Nat) (tg : List removed_insn)
    (symbol : update_symbol) : update_symbol :=
  if symbol.valid = true ∧ ((removal_insn_from_byte R csaddr : Nat) : Int) ≤ symbol.value
      ∧ symbol.value < ((removal_insn_from_byte R inaddr : Nat) : Int)
      ∧ Shift + removed_up_to_insn R isaddr tg symbol.value ≠ 0 then
    { value := symbol.value
        - ((removal_insn_from_byte R (Shift + removed_up_to_insn R isaddr tg symbol.value) : Nat)
            : Int)
      valid := false }
  else symbol

/-- The instruction `t` after the removal of an instruction of `l` bytes before
it. -/
def shift_insn (l : Nat) (t : removed_insn) : removed_insn :=
  { t with address := t.address - l }

/-- The conditions on the section, the instructions `tg` still to remove and the
variables `isaddr`, `csaddr` and `Shift` of `_removal_update_section` under
which the loop is followed: the relocations have different pointers and
addresses below `2 ^ 32`, each instruction to remove has its relocation in the
list, the instructions follow each other without overlap and hold no other
relocation, the line numbers are below `2 ^ 32`, `Shift` is at most `isaddr`,
what is below `csaddr` has been dealt with, and the section ends at `inaddr`,
below `2 ^ 31`. -/
def update_wf (inaddr : Nat) (tg : List removed_insn) (o : update_object)
    (isaddr csaddr Shift : Nat) : Prop :=
  (o.relocation_list.map (fun r => r.ptr)).Nodup ∧
  (∀ t ∈ tg, (⟨t.ptr, t.address⟩ : update_reloc) ∈ o.relocation_list) ∧
  tg.Pairwise (fun t1 t2 => t1.address + t1.length ≤ t2.address) ∧
  (∀ t ∈ tg, 0 < t.length) ∧
  (∀ r ∈ o.relocation_list, ∀ t ∈ tg,
    r.address ≤ t.address ∨ t.address + t.length ≤ r.address) ∧
  (∀ r ∈ o.relocation_list, r.address < 2 ^ 32) ∧
  (∀ x ∈ o.line_number_list, x < 2 ^ 32) ∧
  Shift ≤ isaddr ∧
  (∀ t ∈ tg, csaddr ≤ isaddr + t.address) ∧
  Shift ≤ csaddr ∧
  (∀ t ∈ tg, isaddr + t.address + t.length ≤ inaddr) ∧
  csaddr ≤ inaddr ∧ inaddr < 2 ^ 31 ∧
  total_removed tg ≤ o.size ∧ o.size < 2 ^ 32

/-- Functions for the examples: the moves of the data are not followed, and
`gp_coffgen_del_linenum_by_address_area(section, s, e)` deletes the line numbers
with an address from `s` to `e`. -/
def example_update_calls : update_calls :=
  { gp_mem_b_move := fun data _ _ _ => data
    gp_mem_b_delete_area := fun data _ _ => data
    linenum_deleted := fun a s e => decide (s ≤ a ∧ a ≤ e) }

/-- The list of a section at the instruction address 8 with two page selections to
remove, each before a call. -/
def example_update_list : List _removal_t :=
  [ example_removal_elem REMOVAL_TYPE_SECTION 9 8 1 none none,
    example_removal_elem REMOVAL_TYPE_PAGESEL 4 8 1 (some 0) (some 0),
    example_removal_elem REMOVAL_TYPE_CALL 2 9 REMOVAL_STATE_UNDEF none (some 1),
    example_removal_elem REMOVAL_TYPE_PAGESEL 4 10 1 (some 0) (some 2),
    example_removal_elem REMOVAL_TYPE_CALL 2 11 REMOVAL_STATE_UNDEF none (some 3) ]

/-- The section of `example_update_list`, at the byte address 16, of 12 bytes, with
a relocation and a line number for each of its first four instructions, and
symbols at the instruction addresses 3, 8, 9, 11 and 14. -/
def example_update_object : update_object :=
  { address := 16
    shadow_address := 16
    size := 12
    data := fun _ => some 0
    relocation_list := [⟨0, 0⟩, ⟨1, 2⟩, ⟨2, 4⟩, ⟨3, 6⟩]
    line_number_list := [16, 18, 20, 22, 24, 26]
    symbol_list := [⟨3, true⟩, ⟨8, true⟩, ⟨9, true⟩, ⟨11, true⟩, ⟨14, true⟩] }

/-- The two instructions that are removed from `example_update_object`. -/
def example_removed : List removed_insn := [⟨0, 0, 2⟩, ⟨2, 4, 2⟩]

/-- The section `example_update_object` and the symbols after
`_removal_update_section`, when the sections before it have become 2 bytes
shorter. -/
def example_update_final : update_object :=
  { address := 14
    shadow_address := 14
    size := 8
    data := fun _ => some 0
    relocation_list := [⟨1, 0⟩, ⟨3, 2⟩]
    line_number_list := [14, 14, 16, 16, 18, 20]
    symbol_list := [⟨3, true⟩, ⟨7, false⟩, ⟨7, false⟩, ⟨8, false⟩, ⟨14, true⟩] }

/-! ## The byte store: sequences of writes and the unlisted size (`gpmemory.c`) -/

/-- The memory after a sequence of calls `b_memory_put(m, address, value,
section_name, symbol_name)`, the first call first. -/
def put_all (m : Memory) : List (Nat × Nat × Option String × Option String) → Memory
  | [] => m
  | c :: rest => put_all (b_memory_put m c.1 c.2.1 c.2.2.1 c.2.2.2) rest

/-- The loop `while (((address >> I_MEM_BITS) & 0xffff) != m->base) { m = m->next;
if (m == NULL) return n_bytes; }` of `b_memory_get_unlisted_size`: the chain from
the block at which it stops, `[]` when `m` becomes `NULL`. -/
def unlisted_find_block (address : Nat) : List MemBlock → List MemBlock
  | [] => []
  | m :: next =>
    if block_base address ≠ m.base then unlisted_find_block address next else m :: next

/-- The loop `while (n_bytes < 4)` of `b_memory_get_unlisted_size`; the first
argument is `4 - n_bytes`, the second the chain from `m`, which is not set back
to the first block between two bytes.  The result is the value returned. -/
def get_unlisted_size_loop : Nat → List MemBlock → Nat → Nat → Nat
  | 0, _, _, n_bytes => n_bytes
  | k + 1, chain, address, n_bytes =>
    match unlisted_find_block address chain with
    | [] => n_bytes
    | m :: next =>
      match m.memory with
      | none => n_bytes
      | some memory =>
        if (memory (block_offset address)).data &&& (BYTE_LISTED_MASK ||| BYTE_USED_MASK)
            = BYTE_USED_MASK then
          get_unlisted_size_loop k (m :: next) ((address + 1) % 2 ^ 32) (n_bytes + 1)
        else n_bytes

/-- Function `b_memory_get_unlisted_size` for a pointer `m` that is not `NULL`:
the loop runs only `if (m != NULL && m->memory != NULL)`, with the first block
of the memory as `m`. -/
def b_memory_get_unlisted_size (m : Memory) (address : Nat) : Nat :=
  match m.first.memory with
  | none => 0
  | some _ => get_unlisted_size_loop 4 m.blocks address 0

/-- The byte at `address` is "used and not marked listed": the flags of the word
that `b_memory_get` and `b_memory_set_listed` reach for the address. -/
def unlisted_byte (m : Memory) (address : Nat) : Prop :=
  (find_word address m.blocks).data &&& BYTE_USED_MASK ≠ 0 ∧
  (find_word address m.blocks).data &&& BYTE_LISTED_MASK = 0

/-- The number `n` is "the length of the maximal run of consecutive addresses
a, a+1, ... whose bytes are used and not marked listed" among the 32-bit
addresses. -/
def maximal_unlisted_run (m : Memory) (a n : Nat) : Prop :=
  (∀ j, j < n → a + j < 2 ^ 32 ∧ unlisted_byte m (a + j)) ∧
  ¬ (a + n < 2 ^ 32 ∧ unlisted_byte m (a + n))

/-- A memory in which only the configuration byte at `0x300000` was written: the
first block has no array. -/
def example_config_memory : Memory :=
  b_memory_put i_memory_create 0x300000 0xAB none none

/-! ## The map file: the table sorted by address (`gplink/map.c`)

`_cmp_address` is the comparator that `_write_symbols` hands to `qsort` for the
table "Symbols - Sorted by Address".  The type `gp_symvalue_t` of the field
`value` of a symbol is declared in the absent `gpcoffgen.h`. -/

/-- Modelled from the spec: the type `gp_symvalue_t` of "value (numeric)" is absent;
`gpcoffopt.c` prints a value with `%#lx` and compares it with `(gp_symvalue_t)`
casts, so it is a signed integer type (`long`) of `value_bits` bits.  The values
of that type: -/
def symvalue_fits (value_bits : Nat) (v : Int) : Bool :=
  decide (-(2 ^ (value_bits - 1)) ≤ v) && decide (v < 2 ^ (value_bits - 1))

/-- Function `_cmp_address` on the values of the two symbols: the difference is
computed in the type of the values and converted to the `int` that the function
returns (the conversion keeps the low 32 bits); `none` when the subtraction
overflows, which is undefined. -/
def _cmp_address (value_bits : Nat) (v1 v2 : Int) : Option Int :=
  if symvalue_fits value_bits (v1 - v2) = true then some (to_int (to_unsigned (v1 - v2)))
  else none

/-! ## The command line of the assembler (`gpasm/gpasm.c`, `process_args`)

`getopt_long` belongs to the C library: the values that its calls return in the
third loop of `process_args`, and the value of `optind` after that loop, are
given.  The functions that an option calls to change the assembler state
(`select_hex_format`, `select_radix`, ...) and `gp_exit_if_arg_an_option` are
absent from the sources. -/

/-- The options of the third `getopt_long` loop of `process_args`, by what their
`case` does to the variables that decide how the process ends.
`unknown` is `'?'`, `help` is `'h'`, `include_path` is `'I'` (`empty` tells
whether `optarg[0] == '\0'`), `list_processors` is `'l'`, `properties` is `'s'`,
`sdcc_dev14` is `'t'`, `sdcc_dev16` is `'j'`, `version` is `'v'`; `other` is any
other option, whose `case` changes fields of the assembler state only. -/
inductive gpasm_option where
  | unknown
  | help
  | include_path (empty : Bool)
  | list_processors
  | properties
  | sdcc_dev14
  | sdcc_dev16
  | version
  | other
  deriving DecidableEq, Repr

/-- The local variables `usage`, `usage_code`, `properties`, `sdcc_dev14` and
`sdcc_dev16` of `process_args`, and the field `state.num_paths`. -/
structure args_locals where
  usage : Bool
  usage_code : Int
  properties : Bool
  sdcc_dev14 : Bool
  sdcc_dev16 : Bool
  num_paths : Nat
  deriving DecidableEq, Repr

/-- Function `_add_path`: the variables after the call, or the status of
`exit(1)` when `state.num_paths` has reached `MAX_PATHS` (a constant of the absent
`gpasm.h`). -/
def _add_path (MAX_PATHS : Nat) (empty : Bool) (l : args_locals) : Int ⊕ args_locals :=
  if empty then .inr l
  else if l.num_paths < MAX_PATHS then .inr { l with num_paths := l.num_paths + 1 }
  else .inl 1

/-- The `switch (c)` of the third loop of `process_args`: the variables after it,
or the status with which a `case` ends the process. -/
def process_args_option (MAX_PATHS : Nat) (c : gpasm_option) (l : args_locals) :
    Int ⊕ args_locals :=
  match c with
  | .unknown => .inr { l with usage_code := 1, usage := true }
  | .help => .inr { l with usage := true }
  | .include_path empty => _add_path MAX_PATHS empty l
  | .list_processors => .inl 0
  | .properties => .inr { l with properties := true }
  | .sdcc_dev14 => .inr { l with sdcc_dev14 := true }
  | .sdcc_dev16 => .inr { l with sdcc_dev16 := true }
  | .version => .inl 0
  | .other => .inr l

/-- The third loop `while ((c = getopt_long(...)) != EOF) { switch (c) {...}
if (usage) { break; } }` of `process_args` over the values that `getopt_long`
returns. -/
def process_args_loop (MAX_PATHS : Nat) : List gpasm_option → args_locals → Int ⊕ args_locals
  | [], l => .inr l
  | c :: rest, l =>
    match process_args_option MAX_PATHS c l with
    | .inl status => .inl status
    | .inr l1 => if l1.usage then .inr l1 else process_args_loop MAX_PATHS rest l1

/-- A command line as `process_args` sees it.  `strict_exit` is the status with
which a call of `gp_exit_if_arg_an_option` ends the process in the second loop
(`none` when `--strict-options` is not given or every call returns); `options`
are the values that `getopt_long` returns in the third loop; `optind` is its
index after that loop and `argc` the number of arguments; `num_paths` is
`state.num_paths` at entry; `gp_header_path` is `none` for `NULL` and tells
otherwise whether the path is empty. -/
structure gpasm_command_line where
  strict_exit : Option Int
  options : List gpasm_option
  optind : Nat
  argc : Nat
  num_paths : Nat
  MAX_PATHS : Nat
  gp_header_path : Option Bool

/-- The statements of `process_args` after the third loop, from `if (properties)`
on: the status with which they end the process, or the variables with which
the function returns. -/
def process_args_finish (A : gpasm_command_line) (l : args_locals) : Int ⊕ args_locals :=
  if l.properties then .inl 0
  else if l.sdcc_dev14 then .inl 0
  else if l.sdcc_dev16 then .inl 0
  else
    let l1 := if A.optind + 1 = A.argc then l else { l with usage := true }
    if l1.usage then .inl l1.usage_code
    else
      match A.gp_header_path with
      | none => .inr l1
      | some empty => _add_path A.MAX_PATHS empty l1

/-- The variables of `process_args` before the third loop. -/
def args_locals_init (A : gpasm_command_line) : args_locals :=
  { usage := false, usage_code := 0, properties := false, sdcc_dev14 := false
    sdcc_dev16 := false, num_paths := A.num_paths }

/-- Function `process_args`: the status with which it ends the process (`exit`),
or the variables with which it returns. -/
def process_args (A : gpasm_command_line) : Int ⊕ args_locals :=
  match A.strict_exit with
  | some status => .inl status
  | none =>
    match process_args_loop A.MAX_PATHS A.options (args_locals_init A) with
    | .inl status => .inl status
    | .inr l => process_args_finish A l

/-- The command line `gpasm` without any argument: `getopt_long` returns no
option, `optind` and `argc` are 1. -/
def example_no_source : gpasm_command_line :=
  { strict_exit := none, options := [], optind := 1, argc := 1, num_paths := 0, MAX_PATHS := 100
    gp_header_path := none }

/-- The command line `gpasm a.asm b.asm`: two source files. -/
def example_two_sources : gpasm_command_line :=
  { strict_exit := none, options := [], optind := 1, argc := 3, num_paths := 0, MAX_PATHS := 100
    gp_header_path := none }

/-- The command line `gpasm -c a.asm`. -/
def example_one_source : gpasm_command_line :=
  { strict_exit := none, options := [.other], optind := 2, argc := 3, num_paths := 0
    MAX_PATHS := 100, gp_header_path := none }

/-- The command line `gpasm --bogus a.asm`. -/
def example_unknown_option : gpasm_command_line :=
  { strict_exit := none, options := [.unknown], optind := 2, argc := 3, num_paths := 0
    MAX_PATHS := 100, gp_header_path := none }

/-- Calls for the examples: the parser counts three errors in the second pass, and
the other calls change nothing. -/
def example_three_errors : gpasm_calls :=
  { example_gpasm_calls false with
    second_pass := fun st => { st with num_errors := st.num_errors + 3 } }

/-! ## The symbol stripper (`gputils/gpstrip.c`)

The object model (`gpcoffgen.c`), the symbol tables (`gpsymbol.c`) and the lists
(`gplist.c`) are absent from the sources.  A table of names is the list of its
names; a symbol carries what the absent predicates report of it. -/

/-- The fields of a `gp_symbol_t` that `gpstrip` reads.  `ptr` tells the symbols of
an object apart; `has_reloc` is what `gp_coffgen_symbol_has_reloc(symbol,
COFF_SYM_RELOC_ALL)` returns and `is_global` what `gp_coffgen_is_global_symbol(symbol)`
returns. -/
structure strip_symbol where
  ptr : Nat
  name : String
  section_number : Int
  has_reloc : Bool
  is_global : Bool
  deriving DecidableEq, Repr

/-- The fields of a `gp_section_t` that `gpstrip` reads or writes: the name and
the entries of its lists of line numbers and of relocations. -/
structure strip_section where
  name : String
  line_number_list : List Nat
  relocation_list : List Nat
  deriving DecidableEq, Repr

/-- The fields of a `gp_object_t` that `gpstrip` reads or writes, without the
counter `num_symbols`. -/
structure strip_object where
  flags : Nat
  section_list : List strip_section
  symbol_list : List strip_symbol
  deriving DecidableEq, Repr

/-- The fields of `struct gpstrip_state` that the options set; the three tables
are the lists of the names given with `--keep-symbol`, `--strip-symbol` and
`--remove-section`. -/
structure gpstrip_state where
  strip_debug : Bool
  strip_all : Bool
  strip_unneeded : Bool
  discard_all : Bool
  symbol_keep : List String
  symbol_remove : List String
  section_remove : List String

/-- The constants `F_EXEC` and `N_DEBUG` of the absent `gpcoff.h`, and the two
functions of the absent `gpcoffgen.c` with which `_remove_sections` changes the
object. -/
structure gpstrip_calls where
  F_EXEC : Nat
  N_DEBUG : Int
  gp_coffgen_del_section_symbols : strip_object → strip_section → strip_object
  gp_coffgen_del_section : strip_object → strip_section → strip_object

/-- Modelled from the spec: `gp_coffgen_del_symbol(object, Symbol, true)` of the
absent `gpcoffgen.c` takes the symbol out of the symbol list of the object. -/
def gp_coffgen_del_symbol (o : strip_object) (s : strip_symbol) : strip_object :=
  { o with symbol_list := o.symbol_list.filter (fun x => decide (x ≠ s)) }

/-- Modelled from the spec: `gp_coffgen_find_symbol(object, name)` of the absent
`gpcoffgen.c` gives the symbol of the object with the name, `NULL` when there is
none. -/
def gp_coffgen_find_symbol (o : strip_object) (name : String) : Option strip_symbol :=
  o.symbol_list.find? (fun x => decide (x.name = name))

/-- Modelled from the spec: `gp_coffgen_find_section(object, first, name)` of the
absent `gpcoffgen.c` gives the section of the object with the name, `NULL` when
there is none. -/
def gp_coffgen_find_section (o : strip_object) (name : String) : Option strip_section :=
  o.section_list.find? (fun x => decide (x.name = name))

/-- Function `_conditional_remove`: the symbol is deleted unless
`gp_sym_get_symbol(state.symbol_keep, Symbol->name)` finds its name. -/
def _conditional_remove (st : gpstrip_state) (o : strip_object) (s : strip_symbol) :
    strip_object :=
  if s.name ∈ st.symbol_keep then o else gp_coffgen_del_symbol o s

/-- Function `_remove_sections`, over the names of `state.section_remove`. -/
def _remove_sections (K : gpstrip_calls) : List String → strip_object → strip_object
  | [], o => o
  | name_ :: rest, o =>
    match gp_coffgen_find_section o name_ with
    | none => _remove_sections K rest o
    | some sec =>
      _remove_sections K rest
        (K.gp_coffgen_del_section (K.gp_coffgen_del_section_symbols o sec) sec)

/-- Function `_remove_symbols`, over the names of `state.symbol_remove`. -/
def _remove_symbols (st : gpstrip_state) : List String → strip_object → strip_object
  | [], o => o
  | name_ :: rest, o =>
    match gp_coffgen_find_symbol o name_ with
    | none => _remove_symbols st rest o
    | some s =>
      if s.has_reloc = false then _remove_symbols st rest (_conditional_remove st o s)
      else _remove_symbols st rest o

/-- Function `_strip_all`: the object and the error counter `gp_num_errors` after
the call.  `gp_list_delete` (absent) empties a list. -/
def _strip_all (K : gpstrip_calls) (o : strip_object) (gp_num_errors : Nat) :
    strip_object × Nat :=
  if o.flags &&& K.F_EXEC ≠ 0 then
    ({ o with
       section_list := o.section_list.map
         (fun sec => { sec with line_number_list := [], relocation_list := [] })
       symbol_list := [] }, gp_num_errors)
  else (o, gp_num_errors + 1)

/-- The loops of `_strip_debug`, `_strip_unneeded` and `_discard_all` over the
symbol list: `symbol = list; list = list->next; if (test) _conditional_remove(symbol);`
visits the symbols that the list held when the loop began. -/
def strip_symbols_loop (st : gpstrip_state) (test : strip_symbol → Bool) :
    List strip_symbol → strip_object → strip_object
  | [], o => o
  | s :: rest, o =>
    strip_symbols_loop st test rest (if test s then _conditional_remove st o s else o)

/-- Function `_strip_debug`. -/
def _strip_debug (K : gpstrip_calls) (st : gpstrip_state) (o : strip_object) : strip_object :=
  let o1 := { o with
    section_list := o.section_list.map (fun sec => { sec with line_number_list := [] }) }
  strip_symbols_loop st (fun s => decide (s.section_number = K.N_DEBUG)) o1.symbol_list o1

/-- Function `_strip_unneeded`. -/
def _strip_unneeded (st : gpstrip_state) (o : strip_object) : strip_object :=
  strip_symbols_loop st (fun s => !s.has_reloc && !s.is_global) o.symbol_list o

/-- Function `_discard_all`. -/
def _discard_all (st : gpstrip_state) (o : strip_object) : strip_object :=
  strip_symbols_loop st (fun s => !s.is_global) o.symbol_list o

/-- The statements of `main` on one object that was read, from
`_remove_sections()` to the test of `state.discard_all`: the object and the error
counter before the object is written. -/
def gpstrip_object (K : gpstrip_calls) (st : gpstrip_state) (o : strip_object)
    (gp_num_errors : Nat) : strip_object × Nat :=
  let o1 := _remove_sections K st.section_remove o
  let o2 := _remove_symbols st st.symbol_remove o1
  let r := if st.strip_all then _strip_all K o2 gp_num_errors else (o2, gp_num_errors)
  let o3 := if st.strip_debug ∧ ¬ st.strip_all then _strip_debug K st r.1 else r.1
  let o4 := if st.strip_unneeded ∧ ¬ st.strip_all then _strip_unneeded st o3 else o3
  let o5 := if st.discard_all ∧ ¬ st.strip_all then _discard_all st o4 else o4
  (o5, r.2)

/-- Calls for the examples: `F_EXEC` is `0x0002`, `N_DEBUG` is `-2`;
`gp_coffgen_del_section` takes the section out of the list and
`gp_coffgen_del_section_symbols` leaves the object (no example removes a
section). -/
def example_gpstrip_calls : gpstrip_calls :=
  { F_EXEC := 0x0002, N_DEBUG := -2
    gp_coffgen_del_section_symbols := fun o _ => o
    gp_coffgen_del_section := fun o sec =>
      { o with section_list := o.section_list.filter (fun x => decide (x ≠ sec)) } }

/-- An executable object with one section and the symbols `main` (global),
`loop` (local, used by a relocation), `tmp` (local) and a debug symbol. -/
def example_strip_object : strip_object :=
  { flags := 0x0002
    section_list := [{ name := ".code", line_number_list := [1, 2], relocation_list := [7] }]
    symbol_list :=
      [ { ptr := 0, name := "main", section_number := 1, has_reloc := false, is_global := true },
        { ptr := 1, name := "loop", section_number := 1, has_reloc := true, is_global := false },
        { ptr := 2, name := "tmp", section_number := 1, has_reloc := false, is_global := false },
        { ptr := 3, name := ".dbg", section_number := -2, has_reloc := false,
          is_global := false } ] }

/-- The options `--keep-symbol tmp --strip-all`. -/
def example_keep_strip_all : gpstrip_state :=
  { strip_debug := false, strip_all := true, strip_unneeded := false, discard_all := false
    symbol_keep := ["tmp"], symbol_remove := [], section_remove := [] }

/-- The options `--keep-symbol tmp --strip-symbol tmp --strip-symbol loop
--strip-debug --strip-unneeded --discard-all`. -/
def example_keep_others : gpstrip_state :=
  { strip_debug := true, strip_all := false, strip_unneeded := true, discard_all := true
    symbol_keep := ["tmp"], symbol_remove := ["tmp", "loop"], section_remove := [] }

/-! ### The number of words that `gp_disassemble` returns (`gpdis.c`, lines 1835-2946)

`gp_disassemble` writes the text of an instruction into a buffer and returns the
number of words of the instruction.  Only the value returned is modelled: the
text has no effect on it, except that `print_word` returns 0 when `snprintf`
reports no character. -/

/-- The constants of the absent `gpopcode.h` that `gp_disassemble` uses beyond
those of `gpopcode_masks`. -/
structure gpdis_consts where
  PIC16_BMSK_BRANCH : Nat
  PIC14E_MASK_MOVIW_IDX : Nat
  PIC14E_INSN_MOVIW_IDX : Nat
  PIC14E_INSN_MOVWI_IDX : Nat

/-- Function `print_word`: the value returned, from the result `l` of its call of
`snprintf`. -/
def print_word (l : Int) : Nat := if l ≤ 0 then 0 else 1

/-- The test of the branches with an absolute target (`LIT8C12`, `LIT8C16`,
`LIT9`, `LIT11`, `LIT13`): `(Behavior & GPDIS_SHOW_ALL_BRANCH) || ((prog_max_org >
0) && (org <= prog_max_org))`; when it fails the case returns `print_word(...)`
("The target address not exist."). -/
def absolute_target_printed (show_all_branch : Bool) (prog_max_org org : Nat) : Bool :=
  show_all_branch || (decide (prog_max_org > 0) && decide (org ≤ prog_max_org))

/-- The test of the branches with a computed target (`RBRA8`, `RBRA9`, `RBRA11`,
`LIT20`, `CALL20`): `(Behavior & GPDIS_SHOW_ALL_BRANCH) || ((prog_max_org > 0) &&
(org >= 0) && (org <= prog_max_org))`, with the `int org` converted to `unsigned`
in the last comparison. -/
def computed_target_printed (show_all_branch : Bool) (prog_max_org : Nat) (org : Int) : Bool :=
  show_all_branch ||
    (decide (prog_max_org > 0) && decide (org ≥ 0) && decide (to_unsigned org ≤ prog_max_org))

/-- The `switch (instruction->class)` of `gp_disassemble`: the value that the
function returns, `pw` being the value of a `return print_word(...)`. -/
def gp_disassemble_switch (K : gpopcode_masks) (D : gpdis_consts) (M : MemBlock_t)
    (Byte_address : Nat) (Class : proc_class) (instruction : insn_t) (opcode prog_max_org : Nat)
    (show_all_branch : Bool) (pw : Nat) : Nat :=
  match instruction.class_ with
  | .LIT8C12 | .LIT8C16 =>
    if absolute_target_printed show_all_branch prog_max_org (opcode &&& 0x00ff) then 1 else pw
  | .LIT9 =>
    if absolute_target_printed show_all_branch prog_max_org (opcode &&& K.PIC12_BMSK_GOTO)
    then 1 else pw
  | .LIT11 =>
    if absolute_target_printed show_all_branch prog_max_org (opcode &&& K.PIC14_BMSK_BRANCH)
    then 1 else pw
  | .LIT13 =>
    if absolute_target_printed show_all_branch prog_max_org (opcode &&& D.PIC16_BMSK_BRANCH)
    then 1 else pw
  | .RBRA8 =>
    if computed_target_printed show_all_branch prog_max_org
        (gp_disassemble_rbra_org Class Byte_address opcode PIC16E_BMSK_RBRA8 0x80) then 1
    else pw
  | .RBRA9 =>
    if computed_target_printed show_all_branch prog_max_org
        (gp_disassemble_rbra_org Class Byte_address opcode PIC14E_BMSK_RBRA9 0x100) then 1
    else pw
  | .RBRA11 =>
    if computed_target_printed show_all_branch prog_max_org
        (gp_disassemble_rbra_org Class Byte_address opcode PIC16E_BMSK_RBRA11 0x400) then 1
    else pw
  | .LIT20 | .CALL20 =>
    match second_insn_word M Byte_address PIC16E_BMSK_SEC_INSN_WORD with
    | some dest =>
      if computed_target_printed show_all_branch prog_max_org
          (gp_disassemble_lit20_org Class opcode dest) then 2
      else pw
    | none => pw
  | .FLIT12 | .FF | .SF =>
    match second_insn_word M Byte_address PIC16E_BMSK_SEC_INSN_WORD with
    | some _ => 2
    | none => pw
  | .SS =>
    match second_insn_word M Byte_address 0xff80 with
    | some _ => 2
    | none => pw
  | _ => 1

/-- Function `gp_disassemble`: the value returned.  `opcode` stays 0 when the word
at `Byte_address` is not fully used; `show_all_branch` is `Behavior &
GPDIS_SHOW_ALL_BRANCH`, `snprintf_result` the result of `snprintf` in
`print_word`. -/
def gp_disassemble (K : gpopcode_masks) (D : gpdis_consts) (M : MemBlock_t) (Byte_address : Nat)
    (Class : proc_class) (Prog_mem_size : Nat) (show_all_branch : Bool)
    (snprintf_result : Int) : Nat :=
  match Class.find_insn with
  | none => 0
  | some find_insn =>
    let prog_max_org := if Prog_mem_size > 0 then Prog_mem_size - 1 else 0
    let opcode :=
      match M.i_memory_get Byte_address with
      | some word => word % 2 ^ 16
      | none => 0
    if (Class.id = .PIC14E ∨ Class.id = .PIC14EX) ∧
        (opcode &&& D.PIC14E_MASK_MOVIW_IDX = D.PIC14E_INSN_MOVIW_IDX ∨
         opcode &&& D.PIC14E_MASK_MOVIW_IDX = D.PIC14E_INSN_MOVWI_IDX) then 1
    else
      match find_insn opcode with
      | none => print_word snprintf_result
      | some instruction =>
        gp_disassemble_switch K D M Byte_address Class instruction opcode prog_max_org
          show_all_branch (print_word snprintf_result)

/-- Values of the constants for the examples. -/
def example_gpdis_consts : gpdis_consts :=
  { PIC16_BMSK_BRANCH := 0x1FFF, PIC14E_MASK_MOVIW_IDX := 0x3F80
    PIC14E_INSN_MOVIW_IDX := 0x3F00, PIC14E_INSN_MOVWI_IDX := 0x3F80 }

/-- A memory map with the two words `0xEF01 0xF000` of a PIC16E `goto` at the byte
address 0 whose target is the byte address 2, the place of its own second word. -/
def example_goto_map : MemBlock_t := example_map [(0, 0xEF01), (2, 0xF000)] []

/-- A memory map with the two words `0xEF00 0xF002` of a PIC16E `goto` at the byte
address 0 whose target is the instruction address `0x200`. -/
def example_far_goto_map : MemBlock_t := example_map [(0, 0xEF00), (2, 0xF002)] []

/-! ### The banksel variant: lists as `_removal_prepare_list` builds them -/

/-- What `_removal_prepare_list` with `_banksel_add_reloc` establishes of the list
that it builds.  The list is not empty; every state is a `uint32_t`; the state
of a `goto` or label element is `REMOVAL_STATE_UNDEF`, as `_removal_add_to_list`
sets it (`_banksel_add_reloc` assigns a state to bank selections only); and the
chain of sources of every label ends within the list (`_removal_add_label` puts
each new source in front of the chain of its label). -/
def banksel_prepared (L : List _removal_t) : Bool :=
  !L.isEmpty &&
  L.all (fun e =>
    decide (e.state < 2 ^ 32) &&
    (if e.type_ = REMOVAL_TYPE_GOTO ∨ e.type_ = REMOVAL_TYPE_LABEL then
       decide (e.state = REMOVAL_STATE_UNDEF)
     else true) &&
    (if e.type_ = REMOVAL_TYPE_LABEL then (source_chain L L.length e.source).isSome else true))

/-- The sum of the states of a list. -/
def states_sum : List _removal_t → Nat
  | [] => 0
  | e :: rest => e.state + states_sum rest

/-- The value that `_banksel_check_state` computes for the label in position `i`
whose sources are the positions `chain`: the union of the state of its
predecessor with the states of the predecessors of the sources. -/
def banksel_label_value (L : List _removal_t) (i : Nat) (chain : List Nat) : Nat :=
  state_at L (removal_prev L.length i) |||
    state_union (chain.map (fun k => state_at L (removal_prev L.length k)))

/-- The invariant of the loop of `_removal_process_list` with
`_banksel_check_state`: the list is not empty, the states are below `2^32`, the
chains of sources of the labels end, and the state of every `goto` and label
includes (bit by bit) the value that the check would assign to it. -/
structure banksel_inv (L : List _removal_t) : Prop where
  pos : 0 < L.length
  bound : ∀ (k : Nat) (p : _removal_t), L[k]? = some p → p.state < 2 ^ 32
  chains : ∀ (k : Nat) (p : _removal_t), L[k]? = some p → p.type_ = REMOVAL_TYPE_LABEL →
    ∃ chain, source_chain L L.length p.source = some chain
  goto_le : ∀ (k : Nat) (p : _removal_t), L[k]? = some p → p.type_ = REMOVAL_TYPE_GOTO →
    state_at L (removal_prev L.length k) ||| p.state = p.state
  label_le : ∀ (k : Nat) (p : _removal_t) (chain : List Nat), L[k]? = some p →
    p.type_ = REMOVAL_TYPE_LABEL → source_chain L L.length p.source = some chain →
    banksel_label_value L k chain ||| p.state = p.state

/-- The flag `REMOVAL_FLAG_REMOVE` of the bank selection in position `k` agrees
with the states: it is set exactly when the state of the predecessor is the
state of the element (for elements whose state is not fixed). -/
def banksel_cons_at (L : List _removal_t) (k : Nat) : Prop :=
  ∀ p : _removal_t, L[k]? = some p → p.type_ = REMOVAL_TYPE_BANKSEL →
    p.flags &&& REMOVAL_FLAG_FIXED = 0 →
    decide (state_at L (removal_prev L.length k) = p.state)
      = decide (p.flags &&& REMOVAL_FLAG_REMOVE ≠ 0)

/-- The sections of the example of a pagesel run without end: the section 0 of 6
bytes at the byte address `0xFFC` (the instruction addresses `0x7FE`, `0x7FF` and
`0x800`: it ends in the next page), and the section 1 of 2 bytes at the byte
address `0x1002`. -/
def example_crossing_sections : Nat → Option removal_section
  | 0 => some { address := 0xFFC, size := 6 }
  | 1 => some { address := 0x1002, size := 2 }
  | _ => none

/-- A list for the pagesel variant, as `_removal_prepare_list` builds it with
`_pagesel_add_reloc`: the section 0 at the instruction address `0x7FE`, the page
selection at `0x7FE` for a label of the section 1, the section 1 at `0x801` and
that label (a label element has no section). -/
def example_crossing_list : List _removal_t :=
  [ example_removal_elem REMOVAL_TYPE_SECTION 0 0x7FE REMOVAL_STATE_UNDEF none none,
    example_removal_elem REMOVAL_TYPE_PAGESEL 0 0x7FE REMOVAL_STATE_UNDEF (some 2) (some 0),
    { example_removal_elem REMOVAL_TYPE_SECTION 0 0x801 REMOVAL_STATE_UNDEF none none with
      section_ := some 1 },
    { example_removal_elem REMOVAL_TYPE_LABEL 0 0x801 REMOVAL_STATE_UNDEF none none with
      section_ := none } ]

/-- The list `example_crossing_list` after the second, fourth, sixth, ... run of
the inner loop of `_removal_process_list` with `_pagesel_check_state`: the section
0 has moved to the next page (state `1 << 1`) and the page selection is marked
for removal. -/
def example_crossing_even : List _removal_t :=
  [ { example_removal_elem REMOVAL_TYPE_SECTION 25 0x7FE 2 none none with naddr := 4102 },
    example_removal_elem REMOVAL_TYPE_PAGESEL 4 0x7FE 2 (some 2) (some 0),
    { example_removal_elem REMOVAL_TYPE_SECTION 8 0x801 2 (some 0) none with
      section_ := some 1, naddr := 4104, page := 2048 },
    { example_removal_elem REMOVAL_TYPE_LABEL 0 0x801 2 none none with section_ := none } ]

/-- The list `example_crossing_list` after the third, fifth, seventh, ... run: the
section 0 fits into its page (state `1 << 0`) and the page selection is kept. -/
def example_crossing_odd : List _removal_t :=
  [ { example_removal_elem REMOVAL_TYPE_SECTION 25 0x7FE 1 none none with naddr := 4096 },
    example_removal_elem REMOVAL_TYPE_PAGESEL 0 0x7FE 2 (some 2) (some 0),
    { example_removal_elem REMOVAL_TYPE_SECTION 8 0x801 2 (some 0) none with
      section_ := some 1, naddr := 4098, page := 2048 },
    { example_removal_elem REMOVAL_TYPE_LABEL 0 0x801 2 none none with section_ := none } ]

/-! ### The list of elements on the heap (`gpcoffopt.c`)

`_removal_add_to_list` and `_removal_find_in_list` work on the pointers `prev`
and `next` of the elements, so here the elements live on a heap: a pointer is
the number of the allocation that returned it, `NULL` is `none`, and following a
pointer that was never allocated does not return. -/

/-- An element on the heap: the pointers `prev` and `next`, and the other fields
of `_removal_t`. -/
structure removal_cell where
  prev : Nat
  next : Nat
  elem : _removal_t
  deriving DecidableEq, Repr

/-- The elements allocated so far, in the order of allocation, and the variable
`_removal_list`. -/
structure removal_heap where
  cells : List removal_cell
  removal_list : Option Nat
  deriving DecidableEq, Repr

/-- The heap before the first call: nothing allocated, `_removal_list == NULL`. -/
def removal_heap_empty : removal_heap := { cells := [], removal_list := none }

/-- Function `_removal_compare` of `gpcoffopt.c`, with a `uint32_t` address and a
`uint16_t` type. -/
def _removal_compare (Ptr : _removal_t) (Address Type_ : Nat) : Int :=
  if Ptr.address < Address then -1
  else if Ptr.address > Address then 1
  else if Ptr.type_ < Type_ then -1
  else if Ptr.type_ > Type_ then 1
  else 0

/-- The loop `while (((res = _removal_compare(pos, Address, Type)) < 0) &&
(pos->next != _removal_list)) pos = pos->next;` of `_removal_find_in_list` and of
`_removal_add_to_list`, from the element `pos`: the values of `pos` and `res`
after the loop.  The fuel counts the tests of the loop. -/
def removal_scan (cells : List removal_cell) (head Address Type_ : Nat) :
    Nat → Nat → Option (Nat × Int)
  | 0, _ => none
  | fuel + 1, pos =>
    match cells[pos]? with
    | none => none
    | some c =>
      let res := _removal_compare c.elem Address Type_
      if res < 0 ∧ c.next ≠ head then removal_scan cells head Address Type_ fuel c.next
      else some (pos, res)

/-- Function `_removal_find_in_list` of `gpcoffopt.c`: `none` when the call does
not return, `some none` for `NULL`.  The loop gets one test for each element
allocated. -/
def _removal_find_in_list (H : removal_heap) (Address Type_ : Nat) : Option (Option Nat) :=
  match H.removal_list with
  | none => some none
  | some head =>
    match removal_scan H.cells head Address Type_ H.cells.length head with
    | none => none
    | some (ptr, res) => some (if res = 0 then some ptr else none)

/-- The assignment `p->next = ptr`. -/
def set_cell_next (cells : List removal_cell) (p ptr : Nat) : Option (List removal_cell) :=
  match cells[p]? with
  | none => none
  | some c => some (cells.set p { c with next := ptr })

/-- The assignment `p->prev = ptr`. -/
def set_cell_prev (cells : List removal_cell) (p ptr : Nat) : Option (List removal_cell) :=
  match cells[p]? with
  | none => none
  | some c => some (cells.set p { c with prev := ptr })

/-- Function `_removal_add_to_list` of `gpcoffopt.c`: the heap after the call and
the pointer returned.  `GP_Malloc` leaves the fields `page` and `naddr` as it
finds them; `malloc_page` and `malloc_naddr` are what it found. -/
def _removal_add_to_list (H : removal_heap) (Address Type_ malloc_page malloc_naddr : Nat) :
    Option (removal_heap × Nat) :=
  let ptr := H.cells.length
  let elem : _removal_t :=
    { relocation := none, section_ := none, source := none, type_ := Type_, flags := 0
      length := 2, address := Address, page := malloc_page, state := REMOVAL_STATE_UNDEF
      naddr := malloc_naddr }
  match H.removal_list with
  | none =>
    some ({ cells := H.cells ++ [{ prev := ptr, next := ptr, elem := elem }]
            removal_list := some ptr }, ptr)
  | some head =>
    match removal_scan H.cells head Address Type_ H.cells.length head with
    | none => none
    | some (pos, res) =>
      match H.cells[pos]? with
      | none => none
      | some pc =>
        let cell : removal_cell :=
          if res > 0 then { prev := pc.prev, next := pos, elem := elem }
          else { prev := pos, next := pc.next, elem := elem }
        let head1 := if res > 0 ∧ pos = head then ptr else head
        match set_cell_next (H.cells ++ [cell]) cell.prev ptr with
        | none => none
        | some cells2 =>
          match set_cell_prev cells2 cell.next ptr with
          | none => none
          | some cells3 => some ({ cells := cells3, removal_list := some head1 }, ptr)

/-- A sequence of calls of `_removal_add_to_list`, each with its address, its type
and what `GP_Malloc` left in `page` and `naddr`. -/
def removal_add_all (H : removal_heap) : List (Nat × Nat × Nat × Nat) → Option removal_heap
  | [] => some H
  | (Address, Type_, malloc_page, malloc_naddr) :: rest =>
    match _removal_add_to_list H Address Type_ malloc_page malloc_naddr with
    | none => none
    | some (H1, _) => removal_add_all H1 rest

/-- The walk `ptr = _removal_list; do { ... ptr = ptr->next; } while (ptr !=
_removal_list);` over the list: the pointers visited, in order. -/
def removal_walk (cells : List removal_cell) (head : Nat) : Nat → Nat → Option (List Nat)
  | 0, _ => none
  | fuel + 1, ptr =>
    match cells[ptr]? with
    | none => none
    | some c =>
      if c.next = head then some [ptr]
      else (removal_walk cells head fuel c.next).map (fun l => ptr :: l)

/-- The circular list traversed from `_removal_list`, with one step for each
element allocated. -/
def removal_traverse (H : removal_heap) : Option (List Nat) :=
  match H.removal_list with
  | none => some []
  | some head => removal_walk H.cells head H.cells.length head

/-- The address and the type of the element a pointer points to. -/
def removal_key (cells : List removal_cell) (p : Nat) : Option (Nat × Nat) :=
  (cells[p]?).map (fun c => (c.elem.address, c.elem.type_))

/-- The order of the list: by address, and by type among equal addresses. -/
def removal_key_le (x y : Option (Nat × Nat)) : Prop :=
  match x, y with
  | some a, some b => a.1 < b.1 ∨ (a.1 = b.1 ∧ a.2 ≤ b.2)
  | _, _ => False

/-- The calls for the examples: addresses 4, 0, 4, 2 with the types 1, 0, 0, 1. -/
def example_add_calls : List (Nat × Nat × Nat × Nat) :=
  [(4, 1, 0, 0), (0, 0, 0, 0), (4, 0, 0, 0), (2, 1, 0, 0)]
/-- The links between an element `a` and the element `b` after it: `a->next == b`
and `b->prev == a`. -/
def removal_linked (cells : List removal_cell) (a b : Nat) : Prop :=
  (∃ c, cells[a]? = some c ∧ c.next = b) ∧ (∃ c, cells[b]? = some c ∧ c.prev = a)

/-- The links of a circular list whose elements are `order`, from any of them
round to itself. -/
def removal_ring (cells : List removal_cell) (order : List Nat) : Prop :=
  List.Chain' (removal_linked cells) (order ++ order.take 1)

/-- The elements of `order` are sorted by address and type. -/
def removal_sorted (cells : List removal_cell) (order : List Nat) : Prop :=
  List.Pairwise (fun a b => removal_key_le (removal_key cells a) (removal_key cells b)) order

/-- The state of the heap between two calls: the circular list from
`_removal_list` visits the pointers `order`, which are all the elements
allocated, each once, in sorted order. -/
structure removal_inv (H : removal_heap) (order : List Nat) : Prop where
  head : H.removal_list = order.head?
  perm : order.Perm (List.range H.cells.length)
  ring : removal_ring H.cells order
  sorted : removal_sorted H.cells order

/-! ### Building the list of elements (`_removal_prepare_list`)

The elements are built on the heap; `removal_list_of_heap` then gives the list
in the order of the walk from `_removal_list`, with every pointer `source`
replaced by the position of the element it points to, which is the form in
which `_removal_process_list` is written above. -/

/-- The assignments `ptr->field = ...` to fields other than `prev` and `next`. -/
def set_cell_elem (H : removal_heap) (ptr : Nat) (f : _removal_t → _removal_t) :
    Option removal_heap :=
  match H.cells[ptr]? with
  | none => none
  | some c => some { H with cells := H.cells.set ptr { c with elem := f c.elem } }

/-- A relocation, as `_removal_prepare_list` and the functions `_banksel_add_reloc`
and `_pagesel_add_reloc` read it: `ptr` is the pointer to it, `symbol_value` is
`Reloc->symbol->value` (`none` when `Reloc->symbol` is `NULL`), `used_all` tells
whether `i_memory_get` returns `W_USED_ALL` at `section->address + reloc->address`,
and `is_movlp` whether `find_insn` finds an instruction with the code
`ICODE_MOVLP` there. -/
structure prepare_reloc where
  ptr : Nat
  address : Nat
  type_ : reloc_type
  symbol_value : Option Int
  offset : Int
  used_all : Bool
  is_movlp : Bool
  deriving DecidableEq, Repr

/-- A section, as `_removal_prepare_list` reads it.  The macros `FlagsIsAllClr` and
`FlagIsSet` and the masks `STYP_ABS` and `STYP_TEXT` are not in the sources:
`rom_relocatable` is the outcome of the test `!(FlagsIsAllClr(section->flags,
STYP_ROM_AREA) || FlagIsSet(section->flags, STYP_ABS))` and `text` the outcome
of `FlagIsSet(section->flags, STYP_TEXT)`; `has_symbol` is `section->symbol !=
NULL`. -/
structure prepare_section where
  address : Nat
  rom_relocatable : Bool
  text : Bool
  has_symbol : Bool
  relocation_list : List prepare_reloc
  deriving DecidableEq, Repr

/-- What the building of the list takes from the processor and from the
allocator: the class, `malloc n` for the fields `page` and `naddr` as `GP_Malloc`
leaves them in the allocation number `n`, the results of
`banksel_byte_length(_banksel_banks, false)` and of
`pagesel_byte_length(_pagesel_pages, use_wreg)`, the function
`gp_processor_bank_num` of the absent `gpprocessor.c` with a `uint32_t` result,
and `_banksel_banks`. -/
structure prepare_env where
  R : removal_env
  malloc : Nat → Nat × Nat
  banksel_byte_length : Nat
  pagesel_byte_length : Bool → Nat
  gp_processor_bank_num : Nat → Nat
  banksel_banks : Nat

/-- The call `_removal_add_to_list(Address, Type)` in the allocation that comes
next. -/
def removal_new (E : prepare_env) (H : removal_heap) (Address Type_ : Nat) :
    Option (removal_heap × Nat) :=
  _removal_add_to_list H Address Type_ (E.malloc H.cells.length).1 (E.malloc H.cells.length).2

/-- Function `_removal_add_section` of `gpcoffopt.c` for the section number `idx`
of the object. -/
def _removal_add_section (E : prepare_env) (H : removal_heap) (idx : Nat)
    (Section : prepare_section) : Option (removal_heap × Nat) :=
  let addr := removal_insn_from_byte E.R Section.address
  match removal_new E H addr REMOVAL_TYPE_SECTION with
  | none => none
  | some (H1, ptr) =>
    match set_cell_elem H1 ptr (fun e => { e with section_ := some idx }) with
    | none => none
    | some H2 => some (H2, ptr)

/-- The block `if (Source != NULL) { ... }` of `_removal_add_label` for the label
`ptr`; `none` when the assertion `Source->source == NULL` fails. -/
def removal_link_source (H : removal_heap) (ptr : Nat) (Source : Option Nat) :
    Option removal_heap :=
  match Source with
  | none => some H
  | some s =>
    match H.cells[s]?, H.cells[ptr]? with
    | some sc, some pc =>
      if sc.elem.source ≠ none then none
      else
        match set_cell_elem H s (fun e => { e with source := pc.elem.source }) with
        | none => none
        | some H2 => set_cell_elem H2 ptr (fun e => { e with source := some s })
    | _, _ => none

/-- Function `_removal_add_label` of `gpcoffopt.c` for a symbol of the value given
(the field `symbol` of the elements is not kept here): the heap after the call
and the pointer returned. -/
def _removal_add_label (E : prepare_env) (H : removal_heap) (value : Int)
    (Source : Option Nat) : Option (removal_heap × Nat) :=
  match _removal_find_in_list H (to_unsigned value) REMOVAL_TYPE_LABEL with
  | none => none
  | some (some ptr) => (removal_link_source H ptr Source).map (fun H3 => (H3, ptr))
  | some none =>
    match removal_new E H (to_unsigned value) REMOVAL_TYPE_LABEL with
    | none => none
    | some (H1, ptr) => (removal_link_source H1 ptr Source).map (fun H3 => (H3, ptr))

/-- Function `_removal_add_reloc` of `gpcoffopt.c`, with a `uint8_t` length and
flags; `none` when `assert(Reloc->symbol != NULL)` fails. -/
def _removal_add_reloc (E : prepare_env) (H : removal_heap) (Type_ Length Flags idx : Nat)
    (Section : prepare_section) (Reloc : prepare_reloc) : Option (removal_heap × Nat) :=
  match Reloc.symbol_value with
  | none => none
  | some _ =>
    let address := removal_insn_from_byte E.R ((Section.address + Reloc.address) % 2 ^ 32)
    match removal_new E H address Type_ with
    | none => none
    | some (H1, ptr) =>
      match set_cell_elem H1 ptr (fun e =>
          { e with relocation := some Reloc.ptr, section_ := some idx, length := Length
                   flags := Flags }) with
      | none => none
      | some H2 => some (H2, ptr)

/-- The `switch (Reloc->type)` of `_banksel_add_reloc`: the type, the length and
the flags of the element, `none` for `default: return false`. -/
def banksel_reloc_kind (E : prepare_env) (t : reloc_type) : Option (Nat × Nat × Nat) :=
  match t with
  | .RELOC_BANKSEL => some (REMOVAL_TYPE_BANKSEL, E.banksel_byte_length % 2 ^ 8, 0)
  | .RELOC_MOVLB => some (REMOVAL_TYPE_BANKSEL, 2, 0)
  | .RELOC_CALL => some (REMOVAL_TYPE_CALL, 2, REMOVAL_FLAG_FIXED)
  | .RELOC_GOTO => some (REMOVAL_TYPE_GOTO, 2, 0)
  | .RELOC_GOTO2 => some (REMOVAL_TYPE_GOTO, 2, 0)
  | .RELOC_BRA => some (REMOVAL_TYPE_GOTO, 2, 0)
  | .RELOC_CONDBRA => some (REMOVAL_TYPE_GOTO, 2, 0)
  | _ => none

/-- Function `_banksel_add_reloc` of `gpcoffopt.c`: the heap after the call and the
value returned; `none` when an assertion fails. -/
def _banksel_add_reloc (E : prepare_env) (H : removal_heap) (idx : Nat)
    (Section : prepare_section) (Reloc : prepare_reloc) : Option (removal_heap × Bool) :=
  match banksel_reloc_kind E Reloc.type_ with
  | none => some (H, false)
  | some (type, length, flags) =>
    match _removal_add_reloc E H type length flags idx Section Reloc, Reloc.symbol_value with
    | some (H1, ptr), some symbol_value =>
      if type = REMOVAL_TYPE_BANKSEL then
        let value := to_unsigned (symbol_value + Reloc.offset)
        let bank := E.gp_processor_bank_num value
        if bank ≤ E.banksel_banks then
          match set_cell_elem H1 ptr (fun e => { e with state := to_unsigned (c_shl 1 bank) }) with
          | none => none
          | some H2 => some (H2, true)
        else none
      else
        match _removal_add_label E H1 symbol_value (some ptr) with
        | none => none
        | some (H2, _) => some (H2, false)
    | _, _ => none

/-- The loop `while (ptr->source->type != REMOVAL_TYPE_SECTION) ptr->source =
ptr->source->prev;` of `_pagesel_add_reloc`, from the element `src`: the value of
`ptr->source` after it.  The fuel counts the tests. -/
def pagesel_find_section (cells : List removal_cell) : Nat → Nat → Option Nat
  | 0, _ => none
  | fuel + 1, src =>
    match cells[src]? with
    | none => none
    | some c =>
      if c.elem.type_ ≠ REMOVAL_TYPE_SECTION then pagesel_find_section cells fuel c.prev
      else some src

/-- The `switch (Reloc->type)` of `_pagesel_add_reloc`: the type, the length and
the flags of the element, `none` for the paths that return false. -/
def pagesel_reloc_kind (E : prepare_env) (Reloc : prepare_reloc) : Option (Nat × Nat × Nat) :=
  match Reloc.type_ with
  | .RELOC_CALL => some (REMOVAL_TYPE_CALL, 2, REMOVAL_FLAG_FIXED)
  | .RELOC_GOTO => some (REMOVAL_TYPE_GOTO, 2, 0)
  | .RELOC_BRA => some (REMOVAL_TYPE_BRANCH, 2, 0)
  | .RELOC_HIGH =>
    if E.R.class_.find_insn.isNone then none
    else if Reloc.used_all = false then none
    else if Reloc.is_movlp = false then none
    else some (REMOVAL_TYPE_PAGESEL, 2, 0)
  | .RELOC_PAGESEL_WREG => some (REMOVAL_TYPE_PAGESEL, E.pagesel_byte_length true % 2 ^ 8, 0)
  | .RELOC_PAGESEL_BITS => some (REMOVAL_TYPE_PAGESEL, E.pagesel_byte_length false % 2 ^ 8, 0)
  | .RELOC_PAGESEL_MOVLP => some (REMOVAL_TYPE_PAGESEL, E.pagesel_byte_length false % 2 ^ 8, 0)
  | _ => none

/-- Function `_pagesel_add_reloc` of `gpcoffopt.c`: the heap after the call and the
value returned; `none` when an assertion fails or the search for the section of
the target does not end. -/
def _pagesel_add_reloc (E : prepare_env) (H : removal_heap) (idx : Nat)
    (Section : prepare_section) (Reloc : prepare_reloc) : Option (removal_heap × Bool) :=
  match pagesel_reloc_kind E Reloc with
  | none => some (H, false)
  | some (type, length, flags) =>
    match _removal_add_reloc E H type length flags idx Section Reloc, Reloc.symbol_value with
    | some (H1, ptr), some symbol_value =>
      if type = REMOVAL_TYPE_PAGESEL then
        match _removal_add_label E H1 symbol_value none with
        | none => none
        | some (H2, label) =>
          match pagesel_find_section H2.cells (H2.cells.length + 1) label with
          | none => none
          | some src =>
            match set_cell_elem H2 ptr (fun e => { e with source := some src }) with
            | none => none
            | some H3 => some (H3, true)
      else
        match _removal_add_label E H1 symbol_value (some ptr) with
        | none => none
        | some (H2, _) => some (H2, false)
    | _, _ => none

/-- The first loop of `_removal_prepare_list` ("identify sections"), from the
section number `idx` on. -/
def prepare_sections (E : prepare_env) : List prepare_section → Nat → removal_heap →
    Option removal_heap
  | [], _, H => some H
  | section_ :: rest, idx, H =>
    if section_.rom_relocatable then
      match _removal_add_section E H idx section_ with
      | none => none
      | some (H1, _) => prepare_sections E rest (idx + 1) H1
    else prepare_sections E rest (idx + 1) H

/-- The `switch (reloc->type)` of `_removal_prepare_list`: whether the type is one
of the "known and supported relocation types". -/
def prepare_supported (t : reloc_type) : Bool :=
  match t with
  | .RELOC_PAGESEL | .RELOC_SCNSZ_LOW | .RELOC_SCNSZ_HIGH | .RELOC_SCNSZ_UPPER
  | .RELOC_SCNEND_LOW | .RELOC_SCNEND_HIGH | .RELOC_SCNEND_UPPER | .RELOC_SCNEND_LFSR1
  | .RELOC_SCNEND_LFSR2 | .RELOC_OTHER => false
  | _ => true

/-- The loop over the relocations of one section in `_removal_prepare_list`, with
the value of `ret` so far; `none` when `assert(0)` is reached. -/
def prepare_relocs (add_reloc : removal_heap → Nat → prepare_section → prepare_reloc →
      Option (removal_heap × Bool)) (idx : Nat) (section_ : prepare_section) :
    List prepare_reloc → removal_heap → Bool → Option (removal_heap × Bool)
  | [], H, ret => some (H, ret)
  | reloc :: rest, H, ret =>
    if reloc.used_all = false then none
    else if prepare_supported reloc.type_ = false then none
    else
      match add_reloc H idx section_ reloc with
      | none => none
      | some (H1, r) => prepare_relocs add_reloc idx section_ rest H1 (r || ret)

/-- The second loop of `_removal_prepare_list` ("identify relocations"), from the
section number `idx` on. -/
def prepare_relocations (add_reloc : removal_heap → Nat → prepare_section → prepare_reloc →
      Option (removal_heap × Bool)) :
    List prepare_section → Nat → removal_heap → Bool → Option (removal_heap × Bool)
  | [], _, H, ret => some (H, ret)
  | section_ :: rest, idx, H, ret =>
    if section_.rom_relocatable ∧ section_.text then
      if section_.has_symbol = false then none
      else
        match prepare_relocs add_reloc idx section_ section_.relocation_list H ret with
        | none => none
        | some (H1, ret1) => prepare_relocations add_reloc rest (idx + 1) H1 ret1
    else prepare_relocations add_reloc rest (idx + 1) H ret

/-- Function `_removal_prepare_list` of `gpcoffopt.c` on the sections of
`_removal_object`: the heap after the call and the value returned.  After
`_removal_free_list` nothing is allocated. -/
def _removal_prepare_list (E : prepare_env)
    (add_reloc : removal_heap → Nat → prepare_section → prepare_reloc →
      Option (removal_heap × Bool)) (sections : List prepare_section) :
    Option (removal_heap × Bool) :=
  match prepare_sections E sections 0 removal_heap_empty with
  | none => none
  | some H =>
    if H.removal_list = none then some (H, false)
    else
      match prepare_relocations add_reloc sections 0 H false with
      | none => none
      | some (H1, ret) => if ret then some (H1, true) else some (removal_heap_empty, false)

/-- The position of the element `p` in the walk `order`: the number of steps
from `_removal_list` to it. -/
def removal_position : List Nat → Nat → Nat
  | [], _ => 0
  | q :: rest, p => if q = p then 0 else removal_position rest p + 1

/-- The elements that the pointers of `order` point to, `none` when one of them
points to no element. -/
def removal_collect (f : Nat → Option _removal_t) : List Nat → Option (List _removal_t)
  | [] => some []
  | p :: rest =>
    match f p, removal_collect f rest with
    | some e, some l => some (e :: l)
    | _, _ => none

/-- The list of the elements of the heap in the order of the walk from
`_removal_list`, every pointer `source` replaced by the position of the element
that it points to. -/
def removal_list_of_heap (H : removal_heap) : Option (List _removal_t) :=
  match removal_traverse H with
  | none => none
  | some order =>
    removal_collect (fun p =>
      (H.cells[p]?).map (fun c =>
        { c.elem with source := c.elem.source.map (removal_position order) })) order

/-- The fields of the elements allocated, in the order of allocation. -/
def removal_elems (H : removal_heap) : List _removal_t := H.cells.map (fun c => c.elem)

/-- What the building of the list for the banksel variant keeps true of the
fields of the elements: the states are `uint32_t` values; a `goto` or label
element has the state `REMOVAL_STATE_UNDEF`; and a pointer `source` points to an
element that is not a label and that, unless the pointer is that of a label, was
allocated earlier. -/
structure prepare_fields (els : List _removal_t) : Prop where
  state_lt : ∀ (i : Nat) (e : _removal_t), els[i]? = some e → e.state < 2 ^ 32
  undef : ∀ (i : Nat) (e : _removal_t), els[i]? = some e →
    e.type_ = REMOVAL_TYPE_GOTO ∨ e.type_ = REMOVAL_TYPE_LABEL → e.state = REMOVAL_STATE_UNDEF
  source : ∀ (i : Nat) (e : _removal_t) (s : Nat), els[i]? = some e → e.source = some s →
    ∃ es, els[s]? = some es ∧ es.type_ ≠ REMOVAL_TYPE_LABEL ∧
      (e.type_ ≠ REMOVAL_TYPE_LABEL → s < i)

/-- The state of the heap while the list for the banksel variant is built. -/
def banksel_heap_inv (H : removal_heap) : Prop :=
  (∃ order, removal_inv H order) ∧ prepare_fields (removal_elems H)

/-- The processor of the examples for the building of the list: banks of `0x80`
registers, four of them, and selections of one instruction word. -/
def example_prepare_env : prepare_env :=
  { R := example_removal_env, malloc := fun _ => (0, 0), banksel_byte_length := 2
    pagesel_byte_length := fun _ => 2, gp_processor_bank_num := fun v => v >>> 7
    banksel_banks := 4 }

/-- An object for the banksel variant: one code section at the address 0 with a
selection of bank 1, a call of the label at the instruction address 3, and three
selections of bank 2. -/
def example_banksel_object : List prepare_section :=
  [ { address := 0, rom_relocatable := true, text := true, has_symbol := true
      relocation_list :=
        [ { ptr := 0, address := 0, type_ := .RELOC_BANKSEL, symbol_value := some 0x80
            offset := 0, used_all := true, is_movlp := false },
          { ptr := 1, address := 2, type_ := .RELOC_CALL, symbol_value := some 3
            offset := 0, used_all := true, is_movlp := false },
          { ptr := 2, address := 4, type_ := .RELOC_BANKSEL, symbol_value := some 0x100
            offset := 0, used_all := true, is_movlp := false },
          { ptr := 3, address := 6, type_ := .RELOC_BANKSEL, symbol_value := some 0x100
            offset := 0, used_all := true, is_movlp := false },
          { ptr := 4, address := 8, type_ := .RELOC_MOVLB, symbol_value := some 0x100
            offset := 0, used_all := true, is_movlp := false } ] } ]

/-- The heap that `_removal_prepare_list` with `_banksel_add_reloc` leaves for
`example_banksel_object`. -/
def example_banksel_heap : removal_heap :=
  match _removal_prepare_list example_prepare_env (_banksel_add_reloc example_prepare_env)
      example_banksel_object with
  | some (H, _) => H
  | none => removal_heap_empty

/-- The object of the pagesel run without end: the section 0 of `example_crossing_sections`
with a page selection, at its start, for the label at the instruction address
`0x801`, and the section 1. -/
def example_crossing_object : List prepare_section :=
  [ { address := 0xFFC, rom_relocatable := true, text := true, has_symbol := true
      relocation_list :=
        [ { ptr := 0, address := 0, type_ := .RELOC_PAGESEL_BITS, symbol_value := some 0x801
            offset := 0, used_all := true, is_movlp := false } ] },
    { address := 0x1002, rom_relocatable := true, text := true, has_symbol := true
      relocation_list := [] } ]

/-! # Theorems -/

theorem get_of_word_zero : get_of_word MemWord.zero = ⟨0, 0, none, none⟩ := by
  decide

theorem b_memory_get_loop_eq (a : Nat) (l : List MemBlock) :
    b_memory_get_loop a l = get_of_word (find_word a l) := by
  induction l with
  | nil => simp [b_memory_get_loop, find_word, get_of_word_zero]
  | cons m next ih =>
    unfold b_memory_get_loop find_word
    by_cases h : block_base a = m.base
    · simp only [h, if_true, block_array]
      cases hm : m.memory with
      | none => simp [get_of_word_zero]
      | some memory => simp [get_of_word]
    · simp only [h, if_false, ih]

theorem b_memory_get_eq (m : Memory) (a : Nat) :
    b_memory_get m a = get_of_word (find_word a m.blocks) :=
  b_memory_get_loop_eq a m.blocks

theorem b_memory_is_used_loop_eq (a : Nat) (l : List MemBlock) :
    b_memory_is_used_loop a l = used_flag (find_word a l) := by
  induction l with
  | nil => simp [b_memory_is_used_loop, find_word, used_flag, MemWord.zero]
  | cons m next ih =>
    unfold b_memory_is_used_loop find_word
    by_cases h : block_base a = m.base
    · simp only [h, if_true, block_array]
      cases hm : m.memory with
      | none => simp [used_flag, MemWord.zero]
      | some memory => simp
    · simp only [h, if_false, ih]

theorem b_memory_is_used_eq (m : Memory) (a : Nat) :
    b_memory_is_used m a = used_flag (find_word a m.blocks) :=
  b_memory_is_used_loop_eq a m.blocks

/-- Two 32-bit addresses with the same block base and the same offset are equal. -/
theorem same_cell_eq {a b : Nat} (ha : a < 2 ^ 32) (hb : b < 2 ^ 32)
    (h1 : block_base a = block_base b) (h2 : block_offset a = block_offset b) : a = b := by
  have e1 : ∀ x, block_base x = (x / 65536) % 65536 := by
    intro x
    have : (0xffff : Nat) = 2 ^ 16 - 1 := by norm_num
    simp only [block_base, I_MEM_BITS, this, Nat.and_pow_two_sub_one_eq_mod,
      Nat.shiftRight_eq_div_pow]
  have e2 : ∀ x, block_offset x = x % 65536 := by
    intro x
    have : I_MEM_MASK = 2 ^ 16 - 1 := by decide
    simp only [block_offset, this, Nat.and_pow_two_sub_one_eq_mod]
  rw [e1, e1] at h1
  rw [e2, e2] at h2
  omega

theorem put_found_word_zero (v : Nat) (s y : Option String) :
    put_new_word MemWord.zero v s y = put_found_word MemWord.zero v s y := by
  rcases s with _ | s <;> rcases y with _ | y <;>
    simp only [put_found_word, put_new_word, MemWord.zero, i_memory_store_section_name,
      i_memory_store_symbol_name] <;> split_ifs <;> simp_all

theorem find_word_put_loop_some {a v : Nat} {s y : Option String} {l l' : List MemBlock}
    (h : b_memory_put_loop a v s y l = some l') (b : Nat) :
    find_word b l' =
      if block_base b = block_base a ∧ block_offset b = block_offset a then
        put_found_word (find_word a l) v s y
      else find_word b l := by
  induction l generalizing l' with
  | nil => simp [b_memory_put_loop] at h
  | cons m next ih =>
    unfold b_memory_put_loop at h
    by_cases hm : block_base a = m.base
    · simp only [hm, if_true, Option.some.injEq] at h
      subst h
      simp only [find_word, hm, if_true]
      by_cases hb : block_base b = m.base
      · simp only [hb, if_true, true_and]
        by_cases ho : block_offset b = block_offset a
        · rw [if_pos ho, ho]
          simp only [block_array, Function.update_same]
        · rw [if_neg ho]
          simp only [block_array]
          rw [Function.update_noteq ho]
      · simp [hb]
    · simp only [hm, if_false, Option.map_eq_some'] at h
      obtain ⟨l'', hl, rfl⟩ := h
      simp only [find_word, hm, if_false]
      by_cases hb : block_base b = m.base
      · have : ¬ m.base = block_base a := fun e => hm e.symm
        simp [hb, this]
      · simp only [hb, if_false]
        exact ih hl

theorem put_loop_some_ne_nil {a v : Nat} {s y : Option String} {l l' : List MemBlock}
    (h : b_memory_put_loop a v s y l = some l') : l' ≠ [] := by
  cases l with
  | nil => simp [b_memory_put_loop] at h
  | cons m next =>
    unfold b_memory_put_loop at h
    split_ifs at h
    · simp only [Option.some.injEq] at h
      subst h
      simp
    · simp only [Option.map_eq_some'] at h
      obtain ⟨l'', _, rfl⟩ := h
      simp

theorem put_loop_none {a v : Nat} {s y : Option String} {l : List MemBlock}
    (h : b_memory_put_loop a v s y l = none) : ∀ m ∈ l, block_base a ≠ m.base := by
  induction l with
  | nil => simp
  | cons m next ih =>
    unfold b_memory_put_loop at h
    split_ifs at h with hm
    simp only [Option.map_eq_none'] at h
    intro x hx
    rcases List.mem_cons.mp hx with rfl | hx
    · exact hm
    · exact ih h x hx

theorem find_word_no_block {a : Nat} {l : List MemBlock}
    (h : ∀ m ∈ l, block_base a ≠ m.base) : find_word a l = MemWord.zero := by
  induction l with
  | nil => rfl
  | cons m next ih =>
    have hm := h m (List.mem_cons_self _ _)
    simp only [find_word, hm, if_false]
    exact ih (fun x hx => h x (List.mem_cons_of_mem _ hx))

theorem find_word_new_loop_other (mbp : MemBlock) (l : List MemBlock) (b : Nat)
    (h : block_base b ≠ mbp.base) :
    find_word b (i_memory_new_loop mbp l) = find_word b l := by
  induction l with
  | nil => simp [i_memory_new_loop, find_word, h]
  | cons n next ih =>
    unfold i_memory_new_loop
    split_ifs
    · simp [find_word, h]
    · simp only [find_word, ih]

theorem find_word_new_loop_same (mbp : MemBlock) (l : List MemBlock) (b : Nat)
    (h : block_base b = mbp.base) (hl : ∀ m ∈ l, block_base b ≠ m.base) :
    find_word b (i_memory_new_loop mbp l) = block_array mbp (block_offset b) := by
  induction l with
  | nil => simp [i_memory_new_loop, find_word, h]
  | cons n next ih =>
    have hn := hl n (List.mem_cons_self _ _)
    unfold i_memory_new_loop
    split_ifs
    · simp [find_word, h]
    · simp only [find_word, hn, if_false]
      exact ih (fun x hx => hl x (List.mem_cons_of_mem _ hx))

/-- The word of every address after `b_memory_put`: the written word at the
cell of `a`, the old word elsewhere. -/
theorem find_word_put (m : Memory) (a v : Nat) (s y : Option String) (b : Nat) :
    find_word b (b_memory_put m a v s y).blocks =
      if block_base b = block_base a ∧ block_offset b = block_offset a then
        put_found_word (find_word a m.blocks) v s y
      else find_word b m.blocks := by
  unfold b_memory_put
  cases h : b_memory_put_loop a v s y m.blocks with
  | none =>
    have hall := put_loop_none h
    have hzero := find_word_no_block hall
    have hfirst : block_base a ≠ m.first.base := hall m.first (List.mem_cons_self _ _)
    have hnext : ∀ x ∈ m.next, block_base a ≠ x.base :=
      fun x hx => hall x (List.mem_cons_of_mem _ hx)
    rw [hzero]
    simp only [Memory.blocks]
    by_cases hb : block_base b = block_base a
    · have hbf : block_base b ≠ m.first.base := hb ▸ hfirst
      have hbn : ∀ x ∈ m.next, block_base b ≠ x.base := fun x hx => hb ▸ hnext x hx
      have hbz : find_word b (m.first :: m.next) = MemWord.zero :=
        find_word_no_block (fun x hx => hb ▸ hall x hx)
      rw [hbz]
      conv_lhs => rw [find_word, if_neg hbf]
      rw [find_word_new_loop_same _ _ _ hb hbn]
      simp only [block_array, put_found_word_zero]
      by_cases ho : block_offset b = block_offset a
      · rw [if_pos ⟨hb, ho⟩, ho, Function.update_same]
      · rw [Function.update_noteq ho, if_neg (fun h => ho h.2)]
    · rw [if_neg (fun h => hb h.1)]
      simp only [find_word]
      rw [find_word_new_loop_other _ _ _ hb]
  | some l' =>
    have hne := put_loop_some_ne_nil h
    cases l' with
    | nil => exact absurd rfl hne
    | cons first next => exact find_word_put_loop_some h b

theorem find_word_clear_loop (a : Nat) (l : List MemBlock) (b : Nat) :
    find_word b (b_memory_clear_loop a l) =
      if block_base b = block_base a ∧ block_offset b = block_offset a then MemWord.zero
      else find_word b l := by
  induction l with
  | nil => simp [b_memory_clear_loop, find_word]
  | cons m next ih =>
    unfold b_memory_clear_loop
    by_cases hm : block_base a = m.base
    · simp only [hm, if_true]
      cases hmem : m.memory with
      | none =>
        simp only [find_word, block_array, hmem]
        by_cases hb : block_base b = m.base
        · simp [hb]
        · simp [hb]
      | some memory =>
        simp only [find_word, block_array, hmem]
        by_cases hb : block_base b = m.base
        · simp only [hb, if_true, true_and]
          by_cases ho : block_offset b = block_offset a
          · rw [if_pos ho, ho, Function.update_same]
            rfl
          · rw [if_neg ho, Function.update_noteq ho]
        · simp [hb]
    · simp only [hm, if_false, find_word]
      by_cases hb : block_base b = m.base
      · have : ¬ m.base = block_base a := fun e => hm e.symm
        simp [hb, this]
      · simp only [hb, if_false]
        exact ih

theorem clear_loop_ne_nil (a : Nat) (m : MemBlock) (next : List MemBlock) :
    b_memory_clear_loop a (m :: next) ≠ [] := by
  unfold b_memory_clear_loop
  split_ifs
  · cases m.memory <;> simp
  · simp

theorem b_memory_clear_blocks (m : Memory) (a : Nat) :
    (b_memory_clear m a).blocks = b_memory_clear_loop a m.blocks := by
  unfold b_memory_clear
  have hne := clear_loop_ne_nil a m.first m.next
  cases h : b_memory_clear_loop a m.blocks with
  | nil => exact absurd h hne
  | cons first next => rfl

/-- The word of every address after `b_memory_clear`: a zero word at the cell
of `a`, the old word elsewhere. -/
theorem find_word_clear (m : Memory) (a b : Nat) :
    find_word b (b_memory_clear m a).blocks =
      if block_base b = block_base a ∧ block_offset b = block_offset a then MemWord.zero
      else find_word b m.blocks := by
  rw [b_memory_clear_blocks, find_word_clear_loop]

/-! ## Arithmetic of the flag bits -/

theorem or_used_and_used (v : Nat) : (v ||| BYTE_USED_MASK) &&& BYTE_USED_MASK = BYTE_USED_MASK := by
  apply Nat.eq_of_testBit_eq
  intro i
  simp only [Nat.testBit_and, Nat.testBit_or]
  cases Nat.testBit v i <;> simp

set_option maxRecDepth 100000 in
theorem or_used_and_byte : ∀ v, v < 256 → (v ||| BYTE_USED_MASK) &&& 0xff = v := by
  decide

theorem used_flag_put_found_word (w : MemWord) (v : Nat) (s y : Option String) :
    used_flag (put_found_word w v s y) = 1 := by
  simp only [used_flag, put_found_word, or_used_and_used]
  decide

theorem data_put_found_word (w : MemWord) (v : Nat) (s y : Option String) :
    (put_found_word w v s y).data = v ||| BYTE_USED_MASK := rfl

/-! ## `b_memory_set_listed` changes no reading -/

theorem get_of_word_listed (w : MemWord) :
    get_of_word { w with data := w.data ||| BYTE_LISTED_MASK } = get_of_word w := by
  have h1 : (w.data ||| BYTE_LISTED_MASK) &&& BYTE_USED_MASK = w.data &&& BYTE_USED_MASK := by
    apply Nat.eq_of_testBit_eq
    intro i
    have e1 : BYTE_LISTED_MASK = 2 ^ 14 := by decide
    have e2 : BYTE_USED_MASK = 2 ^ 15 := by decide
    simp only [Nat.testBit_and, Nat.testBit_or, e1, e2, Nat.testBit_two_pow]
    by_cases h : 15 = i
    · subst h
      simp
    · simp [h]
  have h2 : (w.data ||| BYTE_LISTED_MASK) &&& 0xff = w.data &&& 0xff := by
    apply Nat.eq_of_testBit_eq
    intro i
    have e1 : BYTE_LISTED_MASK = 2 ^ 14 := by decide
    have e2 : (0xff : Nat) = 2 ^ 8 - 1 := by decide
    simp only [Nat.testBit_and, Nat.testBit_or, e1, e2, Nat.testBit_two_pow,
      Nat.testBit_two_pow_sub_one]
    by_cases h : i < 8
    · have : ¬ 14 = i := by omega
      simp [h, this]
    · simp [h]
  simp only [get_of_word, used_flag, h1, h2]

/-- Replacing a block by one with the same base and the same readings changes no
reading of the block list. -/
theorem find_word_replace_block (m m1 : MemBlock) (next : List MemBlock) (x : Nat)
    (hbase : m1.base = m.base)
    (hread : ∀ o, get_of_word (block_array m1 o) = get_of_word (block_array m o)) :
    ∀ pre : List MemBlock,
      get_of_word (find_word x (pre ++ m1 :: next)) =
        get_of_word (find_word x (pre ++ m :: next)) := by
  intro pre
  induction pre with
  | nil =>
    simp only [List.nil_append, find_word, hbase]
    split_ifs
    · exact hread _
    · rfl
  | cons p pre ih =>
    simp only [List.cons_append, find_word]
    split_ifs
    · rfl
    · exact ih

theorem set_listed_block_base (m : MemBlock) (address : Nat) :
    (set_listed_block m address).base = m.base := rfl

theorem set_listed_block_read (m : MemBlock) (address o : Nat) :
    get_of_word (block_array (set_listed_block m address) o) = get_of_word (block_array m o) := by
  simp only [set_listed_block]
  show get_of_word (Function.update (block_array m) (block_offset address) _ o) = _
  by_cases h : o = block_offset address
  · subst h
    rw [Function.update_same]
    exact get_of_word_listed _
  · rw [Function.update_noteq h]

theorem set_listed_search_reads (address x : Nat) (l : List MemBlock) :
    ∀ pre : List MemBlock,
      get_of_word (find_word x
          (pre ++ (set_listed_search address l).1 ++ (set_listed_search address l).2)) =
        get_of_word (find_word x (pre ++ l)) := by
  induction l with
  | nil => intro pre; simp [set_listed_search]
  | cons m next ih =>
    intro pre
    unfold set_listed_search
    split_ifs
    · simp only [List.append_nil]
      exact find_word_replace_block m _ next x (set_listed_block_base m address)
        (set_listed_block_read m address) pre
    · have h := ih (pre ++ [m])
      simp only [List.append_assoc, List.singleton_append] at h ⊢
      simpa using h

theorem set_listed_loop_reads (x : Nat) :
    ∀ (n : Nat) (before m : List MemBlock) (address : Nat) (l1 : List MemBlock),
      b_memory_set_listed_loop n before m address = some l1 →
      get_of_word (find_word x l1) = get_of_word (find_word x (before ++ m)) := by
  intro n
  induction n with
  | zero =>
    intro before m address l1 h
    simp only [b_memory_set_listed_loop, Option.some.injEq] at h
    rw [← h]
  | succ n ih =>
    intro before m address l1 h
    cases m with
    | nil => simp [b_memory_set_listed_loop] at h
    | cons blk next =>
      simp only [b_memory_set_listed_loop] at h
      rw [ih _ _ _ _ h]
      exact set_listed_search_reads address x (blk :: next) before

/-- Function `b_memory_set_listed`, when it returns, changes what no address reads. -/
theorem b_memory_set_listed_reads {m m1 : Memory} {address n_bytes : Nat}
    (h : b_memory_set_listed m address n_bytes = some m1) (x : Nat) :
    get_of_word (find_word x m1.blocks) = get_of_word (find_word x m.blocks) := by
  unfold b_memory_set_listed at h
  cases hl : b_memory_set_listed_loop n_bytes [] m.blocks address with
  | none => simp [hl] at h
  | some l =>
    cases l with
    | nil => simp [hl] at h
    | cons first next =>
      simp only [hl, Option.some.injEq] at h
      subst h
      have := set_listed_loop_reads x n_bytes [] m.blocks address _ hl
      simpa [Memory.blocks] using this

/-- After any calls to a memory in which `a` reads as unused, `a` still reads as
unused unless one of the calls is a `b_memory_put` at `a`. -/
theorem reads_unused_run_ops (a : Nat) (ha : a < 2 ^ 32) (ops : List MemOp) :
    ∀ m m1 : Memory, get_of_word (find_word a m.blocks) = ⟨0, 0, none, none⟩ →
      (∀ op ∈ ops, op.address < 2 ^ 32) → (∀ v s y, MemOp.put a v s y ∉ ops) →
      run_ops m ops = some m1 →
      get_of_word (find_word a m1.blocks) = ⟨0, 0, none, none⟩ := by
  induction ops with
  | nil =>
    intro m m1 h _ _ hrun
    simp only [run_ops, Option.some.injEq] at hrun
    rw [← hrun]
    exact h
  | cons op ops ih =>
    intro m m1 h hlt hnp hrun
    have hlt1 : ∀ o ∈ ops, o.address < 2 ^ 32 := fun o ho => hlt o (List.mem_cons_of_mem _ ho)
    have hnp1 : ∀ v s y, MemOp.put a v s y ∉ ops :=
      fun v s y hmem => hnp v s y (List.mem_cons_of_mem _ hmem)
    have hop := hlt op (List.mem_cons_self _ _)
    unfold run_ops at hrun
    cases hap : MemOp.apply m op with
    | none => simp [hap] at hrun
    | some m2 =>
      simp only [hap] at hrun
      apply ih m2 m1 _ hlt1 hnp1 hrun
      cases op with
      | put b v s y =>
        have hne : a ≠ b := by
          rintro rfl
          exact hnp v s y (List.mem_cons_self _ _)
        simp only [MemOp.apply, Option.some.injEq] at hap
        rw [← hap, find_word_put, if_neg (fun hc => hne (same_cell_eq ha hop hc.1 hc.2))]
        exact h
      | clear b =>
        simp only [MemOp.apply, Option.some.injEq] at hap
        rw [← hap, find_word_clear]
        split_ifs
        · exact get_of_word_zero
        · exact h
      | set_listed b n =>
        simp only [MemOp.apply] at hap
        rw [b_memory_set_listed_reads hap]
        exact h

/-! ## Claims on the byte store -/

/-- C1: in a freshly created memory every 32-bit address reads as not used, byte 0,
no section name and no symbol name, and `b_memory_is_used` is 0; the same holds after
any sequence of `b_memory_put`, `b_memory_clear` and `b_memory_set_listed` calls at
32-bit addresses for every address at which no `b_memory_put` was made. -/
theorem unwritten_address_reads_unused (a : Nat) (ha : a < 2 ^ 32) :
    (b_memory_get i_memory_create a = ⟨0, 0, none, none⟩ ∧
      b_memory_is_used i_memory_create a = 0) ∧
    ∀ (ops : List MemOp) (m : Memory), (∀ op ∈ ops, op.address < 2 ^ 32) →
      (∀ v s y, MemOp.put a v s y ∉ ops) →
      run_ops i_memory_create ops = some m →
      b_memory_get m a = ⟨0, 0, none, none⟩ ∧ b_memory_is_used m a = 0 := by
  have hfresh : get_of_word (find_word a i_memory_create.blocks) = ⟨0, 0, none, none⟩ := by
    simp only [i_memory_create, Memory.blocks, find_word, block_array]
    split_ifs <;> exact get_of_word_zero
  have key : ∀ (ops : List MemOp) (m : Memory), (∀ op ∈ ops, op.address < 2 ^ 32) →
      (∀ v s y, MemOp.put a v s y ∉ ops) →
      run_ops i_memory_create ops = some m →
      b_memory_get m a = ⟨0, 0, none, none⟩ ∧ b_memory_is_used m a = 0 := by
    intro ops m hlt hnp hrun
    have hz := reads_unused_run_ops a ha ops i_memory_create m hfresh hlt hnp hrun
    rw [b_memory_get_eq, b_memory_is_used_eq]
    exact ⟨hz, congrArg GetResult.ret hz⟩
  exact ⟨key [] i_memory_create (by simp) (by simp) rfl, key⟩

/-- C2: after `b_memory_put(m, a, v, sec, sym)` with a byte `v`, `b_memory_get(m, a)`
returns 1 and stores `v`, and `b_memory_is_used(m, a)` is 1, for every memory `m`
(with or without a block for the page of `a`). -/
theorem put_then_get_used (m : Memory) (a v : Nat) (sec sym : Option String) (hv : v < 256) :
    (b_memory_get (b_memory_put m a v sec sym) a).ret = 1 ∧
    (b_memory_get (b_memory_put m a v sec sym) a).byte = v ∧
    b_memory_is_used (b_memory_put m a v sec sym) a = 1 := by
  rw [b_memory_get_eq, b_memory_is_used_eq, find_word_put, if_pos ⟨rfl, rfl⟩]
  refine ⟨used_flag_put_found_word _ _ _ _, ?_, used_flag_put_found_word _ _ _ _⟩
  simp only [get_of_word, data_put_found_word]
  exact or_used_and_byte v hv

/-- C3: after `b_memory_clear(m, a)`, `b_memory_get(m, a)` returns 0 with byte 0 and
`NULL` names, and `b_memory_get` at every other 32-bit address gives what it gave
before. -/
theorem clear_then_get (m : Memory) (a : Nat) (ha : a < 2 ^ 32) :
    b_memory_get (b_memory_clear m a) a = ⟨0, 0, none, none⟩ ∧
    ∀ b, b < 2 ^ 32 → b ≠ a → b_memory_get (b_memory_clear m a) b = b_memory_get m b := by
  constructor
  · rw [b_memory_get_eq, find_word_clear, if_pos ⟨rfl, rfl⟩]
    exact get_of_word_zero
  · intro b hb hne
    rw [b_memory_get_eq, b_memory_get_eq, find_word_clear,
      if_neg (fun hc => hne (same_cell_eq hb ha hc.1 hc.2))]

/-! ## The 16-bit accessors -/

theorem and_ff_eq_mod (x : Nat) : x &&& 0xff = x % 256 := by
  have h1 : (0xff : Nat) = 2 ^ 8 - 1 := by norm_num
  rw [h1, Nat.and_pow_two_sub_one_eq_mod]

theorem or_shift8_eq_add (lo hi : Nat) (h : lo < 256) : lo ||| (hi <<< 8) = 256 * hi + lo := by
  have h2 : lo < 2 ^ 8 := by norm_num; exact h
  have := Nat.mul_add_lt_is_or h2 hi
  rw [Nat.shiftLeft_eq, Nat.mul_comm, Nat.lor_comm, ← this]

theorem word_of_bytes (w : Nat) (hw : w < 65536) :
    ((w &&& 0xff) ||| ((w >>> 8) <<< 8)) % 2 ^ 16 = w := by
  have hlo : w &&& 0xff < 256 := by rw [and_ff_eq_mod]; omega
  rw [or_shift8_eq_add _ _ hlo, and_ff_eq_mod, Nat.shiftRight_eq_div_pow]
  norm_num
  omega

theorem succ_address_lt_ne (a : Nat) :
    succ_address a < 2 ^ 32 ∧ succ_address a ≠ a := by
  unfold succ_address
  constructor
  · exact Nat.mod_lt _ (by norm_num)
  · omega

theorem not_same_cell_next (a : Nat) (ha : a < 2 ^ 32) :
    ¬ (block_base a = block_base (succ_address a) ∧
        block_offset a = block_offset (succ_address a)) := by
  intro hc
  have h := succ_address_lt_ne a
  exact h.2 (same_cell_eq ha h.1 hc.1 hc.2).symm

theorem not_same_cell_next_symm (a : Nat) (ha : a < 2 ^ 32) :
    ¬ (block_base (succ_address a) = block_base a ∧
        block_offset (succ_address a) = block_offset a) :=
  fun hc => not_same_cell_next a ha ⟨hc.1.symm, hc.2.symm⟩

/-- After two `b_memory_put` calls at `a` and at the next address, both addresses
are used and hold the two bytes. -/
theorem get_after_two_puts (m : Memory) (a v0 v1 : Nat) (sec sym : Option String)
    (ha : a < 2 ^ 32) (h0 : v0 < 256) (h1 : v1 < 256) :
    (b_memory_get (b_memory_put (b_memory_put m a v0 sec sym) (succ_address a) v1 sec sym)
        a).ret = 1 ∧
    (b_memory_get (b_memory_put (b_memory_put m a v0 sec sym) (succ_address a) v1 sec sym)
        a).byte = v0 ∧
    (b_memory_get (b_memory_put (b_memory_put m a v0 sec sym) (succ_address a) v1 sec sym)
        (succ_address a)).ret = 1 ∧
    (b_memory_get (b_memory_put (b_memory_put m a v0 sec sym) (succ_address a) v1 sec sym)
        (succ_address a)).byte = v1 := by
  have e0 : find_word a
      (b_memory_put (b_memory_put m a v0 sec sym) (succ_address a) v1 sec sym).blocks =
      put_found_word (find_word a m.blocks) v0 sec sym := by
    rw [find_word_put, if_neg (not_same_cell_next a ha), find_word_put, if_pos ⟨rfl, rfl⟩]
  have e1 : find_word (succ_address a)
      (b_memory_put (b_memory_put m a v0 sec sym) (succ_address a) v1 sec sym).blocks =
      put_found_word (find_word (succ_address a) (b_memory_put m a v0 sec sym).blocks)
        v1 sec sym := by
    rw [find_word_put, if_pos ⟨rfl, rfl⟩]
  rw [b_memory_get_eq, b_memory_get_eq, e0, e1]
  simp only [get_of_word, used_flag_put_found_word, data_put_found_word, true_and]
  exact ⟨or_used_and_byte v0 h0, or_used_and_byte v1 h1⟩

/-- C4: a 16-bit word written by `i_memory_put_le` is read back by `i_memory_get_le`,
which returns 1, and likewise for `i_memory_put_be` and `i_memory_get_be`; the
little-endian put leaves the low byte at `a` and the high byte at `a + 1` (in
`unsigned int` arithmetic, `succ_address a`), the big-endian put the reverse. -/
theorem word_put_get_round_trip (m : Memory) (a w : Nat) (sec sym : Option String)
    (ha : a < 2 ^ 32) (hw : w < 65536) :
    ((i_memory_get_le (i_memory_put_le m a w sec sym) a).ret = 1 ∧
      (i_memory_get_le (i_memory_put_le m a w sec sym) a).word = some w) ∧
    ((i_memory_get_be (i_memory_put_be m a w sec sym) a).ret = 1 ∧
      (i_memory_get_be (i_memory_put_be m a w sec sym) a).word = some w) ∧
    ((b_memory_get (i_memory_put_le m a w sec sym) a).byte = w &&& 0xff ∧
      (b_memory_get (i_memory_put_le m a w sec sym) (succ_address a)).byte = w >>> 8) ∧
    ((b_memory_get (i_memory_put_be m a w sec sym) a).byte = w >>> 8 ∧
      (b_memory_get (i_memory_put_be m a w sec sym) (succ_address a)).byte = w &&& 0xff) := by
  have hlo : w &&& 0xff < 256 := by rw [and_ff_eq_mod]; omega
  have hhi : w >>> 8 < 256 := by rw [Nat.shiftRight_eq_div_pow]; norm_num; omega
  obtain ⟨l0, l1, l2, l3⟩ := get_after_two_puts m a (w &&& 0xff) (w >>> 8) sec sym ha hlo hhi
  obtain ⟨g0, g1, g2, g3⟩ := get_after_two_puts m a (w >>> 8) (w &&& 0xff) sec sym ha hhi hlo
  have hword : ((w &&& 0xff) ||| ((w >>> 8) <<< 8)) % 65536 = w := by
    simpa using word_of_bytes w hw
  refine ⟨?_, ?_, ⟨l1, l3⟩, ⟨g1, g3⟩⟩
  · simp only [i_memory_get_le, i_memory_put_le] at *
    rw [l0, l1, l2, l3]
    simp [hword]
  · simp only [i_memory_get_be, i_memory_put_be] at *
    rw [g0, g1, g2, g3]
    simp [hword]

theorem find_word_create (x : Nat) : find_word x i_memory_create.blocks = MemWord.zero := by
  simp only [i_memory_create, Memory.blocks, find_word, block_array]
  split_ifs <;> rfl

/-- In every memory built by calls of `b_memory_put`, `b_memory_clear` and
`b_memory_set_listed` from one in which it holds, a word whose `used` flag is
clear has a zero byte. -/
theorem unused_word_zero_byte (ops : List MemOp) :
    ∀ m m1 : Memory,
      (∀ x, used_flag (find_word x m.blocks) = 0 → (find_word x m.blocks).data &&& 0xff = 0) →
      run_ops m ops = some m1 →
      ∀ x, used_flag (find_word x m1.blocks) = 0 →
        (find_word x m1.blocks).data &&& 0xff = 0 := by
  induction ops with
  | nil =>
    intro m m1 h hrun
    simp only [run_ops, Option.some.injEq] at hrun
    rw [← hrun]
    exact h
  | cons op ops ih =>
    intro m m1 h hrun
    unfold run_ops at hrun
    cases hap : MemOp.apply m op with
    | none => simp [hap] at hrun
    | some m2 =>
      simp only [hap] at hrun
      apply ih m2 m1 _ hrun
      intro x
      cases op with
      | put b v s y =>
        simp only [MemOp.apply, Option.some.injEq] at hap
        rw [← hap, find_word_put]
        split_ifs
        · intro hu
          rw [used_flag_put_found_word] at hu
          exact absurd hu (by decide)
        · exact h x
      | clear b =>
        simp only [MemOp.apply, Option.some.injEq] at hap
        rw [← hap, find_word_clear]
        split_ifs
        · intro _; rfl
        · exact h x
      | set_listed b n =>
        simp only [MemOp.apply] at hap
        have hr := b_memory_set_listed_reads hap x
        have hret : used_flag (find_word x m2.blocks) = used_flag (find_word x m.blocks) :=
          congrArg GetResult.ret hr
        have hbyte : (find_word x m2.blocks).data &&& 0xff =
            (find_word x m.blocks).data &&& 0xff := congrArg GetResult.byte hr
        rw [hret, hbyte]
        exact h x

theorem used_flag_cases (w : MemWord) : used_flag w = 0 ∨ used_flag w = 1 := by
  unfold used_flag
  split_ifs
  · exact Or.inr rfl
  · exact Or.inl rfl

theorem byte_lt (w : MemWord) : w.data &&& 0xff < 256 := by
  rw [and_ff_eq_mod]
  omega

theorem word_lt (b0 b1 : Nat) (h0 : b0 < 256) (h1 : b1 < 256) :
    (b0 ||| (b1 <<< 8)) % 2 ^ 16 = b0 ||| (b1 <<< 8) := by
  rw [or_shift8_eq_add _ _ h0]
  apply Nat.mod_eq_of_lt
  norm_num
  omega

/-- How the two getters combine two `b_memory_get` results, when an unused byte is 0. -/
theorem assemble_word (u0 u1 b0 b1 : Nat) (n n' : Option String)
    (hu0 : u0 = 0 ∨ u0 = 1) (hu1 : u1 = 0 ∨ u1 = 1) (hb0 : b0 < 256) (hb1 : b1 < 256)
    (z0 : u0 = 0 → b0 = 0) (z1 : u1 = 0 → b1 = 0) :
    (if (u0 ||| u1) ≠ 0 then (⟨1, some ((b0 ||| (b1 <<< 8)) % 2 ^ 16), n, n'⟩ : WordResult)
      else ⟨0, none, n, n'⟩) =
    (if u0 = 1 ∨ u1 = 1 then
      ⟨1, some ((if u0 = 1 then b0 else 0) ||| ((if u1 = 1 then b1 else 0) <<< 8)), n, n'⟩
      else ⟨0, none, n, n'⟩) := by
  have hw := word_lt b0 b1 hb0 hb1
  rcases hu0 with rfl | rfl <;> rcases hu1 with rfl | rfl
  · simp
  · have := z0 rfl
    subst this
    simpa using hw
  · have := z1 rfl
    subst this
    simpa using hw
  · simpa using hw

/-- The same for the big-endian getter. -/
theorem assemble_word_be (u0 u1 b0 b1 : Nat) (n n' : Option String)
    (hu0 : u0 = 0 ∨ u0 = 1) (hu1 : u1 = 0 ∨ u1 = 1) (hb0 : b0 < 256) (hb1 : b1 < 256)
    (z0 : u0 = 0 → b0 = 0) (z1 : u1 = 0 → b1 = 0) :
    (if (u0 ||| u1) ≠ 0 then (⟨1, some ((b1 ||| (b0 <<< 8)) % 2 ^ 16), n, n'⟩ : WordResult)
      else ⟨0, none, n, n'⟩) =
    (if u0 = 1 ∨ u1 = 1 then
      ⟨1, some ((if u1 = 1 then b1 else 0) ||| ((if u0 = 1 then b0 else 0) <<< 8)), n, n'⟩
      else ⟨0, none, n, n'⟩) := by
  have hw := word_lt b1 b0 hb1 hb0
  rcases hu0 with rfl | rfl <;> rcases hu1 with rfl | rfl
  · simp
  · have := z0 rfl
    subst this
    simpa using hw
  · have := z1 rfl
    subst this
    simpa using hw
  · simpa using hw

/-- The two 16-bit getters on a memory whose unused words have a zero byte. -/
theorem get_word_of_clean (m : Memory)
    (hinv : ∀ x, used_flag (find_word x m.blocks) = 0 → (find_word x m.blocks).data &&& 0xff = 0)
    (a : Nat) :
    i_memory_get_le m a =
      (if b_memory_is_used m a = 1 ∨ b_memory_is_used m (succ_address a) = 1 then
        ⟨1, some (byte_or_zero m a ||| (byte_or_zero m (succ_address a) <<< 8)),
          (b_memory_get m a).section_name, (b_memory_get m a).symbol_name⟩
      else ⟨0, none, (b_memory_get m a).section_name, (b_memory_get m a).symbol_name⟩) ∧
    i_memory_get_be m a =
      (if b_memory_is_used m a = 1 ∨ b_memory_is_used m (succ_address a) = 1 then
        ⟨1, some (byte_or_zero m (succ_address a) ||| (byte_or_zero m a <<< 8)),
          (b_memory_get m a).section_name, (b_memory_get m a).symbol_name⟩
      else ⟨0, none, (b_memory_get m a).section_name, (b_memory_get m a).symbol_name⟩) := by
  have i0 := hinv a
  have i1 := hinv (succ_address a)
  have b0 := byte_lt (find_word a m.blocks)
  have b1 := byte_lt (find_word (succ_address a) m.blocks)
  have u0 := used_flag_cases (find_word a m.blocks)
  have u1 := used_flag_cases (find_word (succ_address a) m.blocks)
  unfold i_memory_get_le i_memory_get_be byte_or_zero
  rw [b_memory_get_eq, b_memory_get_eq, b_memory_is_used_eq, b_memory_is_used_eq]
  constructor
  · exact assemble_word _ _ _ _ _ _ u0 u1 b0 b1 i0 i1
  · exact assemble_word_be _ _ _ _ _ _ u0 u1 b0 b1 i0 i1

/-- C5: on every memory `m` built from a fresh one by `b_memory_put`,
`b_memory_clear` and `b_memory_set_listed` calls, `i_memory_get_le` and
`i_memory_get_be` return 1 exactly when the byte at `a` or the byte at `a + 1` is
used; then the word stored is put together from the two bytes, an unused byte
counting as 0 (low byte first for `le`, high byte first for `be`); otherwise
they return 0 and store no word. -/
theorem get_word_used_iff (ops : List MemOp) (m : Memory) (a : Nat)
    (hrun : run_ops i_memory_create ops = some m) :
    (((i_memory_get_le m a).ret = 1 ↔
        (b_memory_is_used m a = 1 ∨ b_memory_is_used m (succ_address a) = 1)) ∧
      ((i_memory_get_le m a).ret = 1 →
        (i_memory_get_le m a).word =
          some (byte_or_zero m a ||| (byte_or_zero m (succ_address a) <<< 8))) ∧
      ((i_memory_get_le m a).ret ≠ 1 →
        (i_memory_get_le m a).ret = 0 ∧ (i_memory_get_le m a).word = none)) ∧
    (((i_memory_get_be m a).ret = 1 ↔
        (b_memory_is_used m a = 1 ∨ b_memory_is_used m (succ_address a) = 1)) ∧
      ((i_memory_get_be m a).ret = 1 →
        (i_memory_get_be m a).word =
          some (byte_or_zero m (succ_address a) ||| (byte_or_zero m a <<< 8))) ∧
      ((i_memory_get_be m a).ret ≠ 1 →
        (i_memory_get_be m a).ret = 0 ∧ (i_memory_get_be m a).word = none)) := by
  have hinv := unused_word_zero_byte ops i_memory_create m
    (fun x _ => by rw [find_word_create]; rfl) hrun
  obtain ⟨hle, hbe⟩ := get_word_of_clean m hinv a
  by_cases hc : b_memory_is_used m a = 1 ∨ b_memory_is_used m (succ_address a) = 1
  · rw [if_pos hc] at hle hbe
    rw [hle, hbe]
    simp [hc]
  · rw [if_neg hc] at hle hbe
    rw [hle, hbe]
    simp [hc]

/-! ## Counting used bytes -/

/-- When `from` lies beyond the first page, the first loop of `b_range_memory_used`
runs to the end of the block list, because `page` stays 0. -/
theorem range_skip_loop_later_page (from_ : Int) (h : (MAX_I_MEM : Nat) ≤ from_)
    (l : List MemBlock) (j : Int) : (range_skip_loop 0 from_ l j).1 = [] := by
  have hpos : (0 : Int) < Int.tdiv from_ (MAX_I_MEM : Nat) := by
    have h0 : (0 : Int) ≤ from_ := le_trans (by decide) h
    have hM : ((MAX_I_MEM : Nat) : Int) = 65536 := by decide
    rw [hM] at h ⊢
    rw [Int.tdiv_eq_ediv h0 (by norm_num)]
    omega
  induction l generalizing j with
  | nil => rfl
  | cons m next ih =>
    unfold range_skip_loop
    rw [if_pos hpos]
    exact ih _

/-- For every memory and every window that starts at or after address 65536,
`b_range_memory_used` returns 0. -/
theorem b_range_memory_used_later_page (m : Memory) (from_ to_ : Int)
    (h : (MAX_I_MEM : Nat) ≤ from_) : b_range_memory_used m from_ to_ = 0 := by
  unfold b_range_memory_used
  have h1 := range_skip_loop_later_page from_ h m.blocks 0
  simp only [h1]
  rfl

/-- C6 (what the code does at a failing input): with one used byte at address 65536,
`b_range_memory_used(m, 65536, 65537)` is 0 although the window holds one used
address; and with one used byte at address 0, `b_range_memory_used(m, 1, 2)` is 1
although the only address of the window, 1, is not used. -/
theorem b_range_memory_used_miscounts :
    (b_range_memory_used (b_memory_put i_memory_create 65536 0x12 none none) 65536 65537 = 0 ∧
      b_memory_is_used (b_memory_put i_memory_create 65536 0x12 none none) 65536 = 1) ∧
    (b_range_memory_used (b_memory_put i_memory_create 0 0x12 none none) 1 2 = 1 ∧
      b_memory_is_used (b_memory_put i_memory_create 0 0x12 none none) 1 = 0) := by
  decide

/-! ## The section header -/

theorem le32_gp_fputl32 (data : Nat) : le32 (gp_fputl32 data) = data % 2 ^ 32 := by
  simp only [le32, gp_fputl32, List.getD_cons_zero, List.getD_cons_succ]
  omega

theorem length_gp_fputl32 (data : Nat) : (gp_fputl32 data).length = 4 := rfl

/-- The value of the last four bytes of a file that ends with a `gp_fputl32`. -/
theorem le32_last_four (file : List Nat) (data : Nat) :
    le32 ((file ++ gp_fputl32 data).drop ((file ++ gp_fputl32 data).length - 4)) =
      data % 2 ^ 32 := by
  rw [List.length_append, length_gp_fputl32, Nat.add_sub_cancel, List.drop_left,
    le32_gp_fputl32]

theorem flags_mask_bits : ∀ i, i < 32 →
    (2 ^ 32 - 1 - (STYP_RELOC ||| STYP_BPACK)).testBit i =
      !(STYP_RELOC.testBit i || STYP_BPACK.testBit i) := by
  decide

/-- C7: when `_write_section_header` writes a header, its last four bytes are the
32-bit little-endian word `flags & ~(STYP_RELOC | STYP_BPACK)`: bit `i` of that word
is 0 where `STYP_RELOC` or `STYP_BPACK` has a bit and is bit `i` of the section
flags everywhere else; a header is written whenever `_add_name` returns. -/
theorem section_header_flags_masked (env : SectionHeaderEnv) (Section : gp_section_t)
    (Org_to_byte_shift : Nat) (st : StringTable) :
    (_write_section_header env Section Org_to_byte_shift st).isSome =
      (_add_name Section.name st).isSome ∧
    ∀ out st1, _write_section_header env Section Org_to_byte_shift st = some (out, st1) →
      le32 (out.drop (out.length - 4)) =
        Section.flags &&& (2 ^ 32 - 1 - (STYP_RELOC ||| STYP_BPACK)) ∧
      ∀ i, i < 32 →
        (le32 (out.drop (out.length - 4))).testBit i =
          (if STYP_RELOC.testBit i ∨ STYP_BPACK.testBit i then false
            else Section.flags.testBit i) := by
  unfold _write_section_header
  cases hn : _add_name Section.name st with
  | none => simp
  | some r =>
    obtain ⟨name_bytes, st1⟩ := r
    refine ⟨rfl, ?_⟩
    intro out st2 h
    simp only [Option.some.injEq, Prod.mk.injEq] at h
    obtain ⟨rfl, -⟩ := h
    have hword := le32_last_four
      (name_bytes
        ++ gp_fputl32 (env.gp_insn_from_byte
            (if Section.flags &&& env.STYP_ROM_AREA = 0 then 0 else Org_to_byte_shift)
            Section.address % 2 ^ 32)
        ++ gp_fputl32 (env.gp_insn_from_byte
            (if Section.flags &&& env.STYP_ROM_AREA = 0 then 0 else Org_to_byte_shift)
            Section.address % 2 ^ 32)
        ++ gp_fputl32 Section.size
        ++ gp_fputl32 Section.data_ptr
        ++ gp_fputl32 Section.reloc_ptr
        ++ gp_fputl32 Section.lineno_ptr
        ++ gp_fputl16 (Section.relocation_list_num_nodes % 2 ^ 16)
        ++ gp_fputl16 (Section.line_number_list_num_nodes % 2 ^ 16))
      (Section.flags &&& (2 ^ 32 - 1 - (STYP_RELOC ||| STYP_BPACK)))
    rw [Nat.mod_eq_of_lt (lt_of_le_of_lt Nat.and_le_right (by decide))] at hword
    refine ⟨hword, ?_⟩
    intro i hi
    rw [hword, Nat.testBit_and, flags_mask_bits i hi]
    cases STYP_RELOC.testBit i <;> cases STYP_BPACK.testBit i <;> simp

/-! ## The string table -/

theorem gp_getu32_gp_putl32 (t : Nat → Nat) (n : Nat) (h : n < 2 ^ 32) :
    gp_getu32 (gp_putl32 t n) = n := by
  simp only [gp_getu32, gp_putl32]
  norm_num
  omega

theorem gp_putl32_of_ge (t : Nat → Nat) (n k : Nat) (h : 4 ≤ k) : gp_putl32 t n k = t k := by
  unfold gp_putl32
  have h0 : k ≠ 0 := by omega
  have h1 : k ≠ 1 := by omega
  have h2 : k ≠ 2 := by omega
  have h3 : k ≠ 3 := by omega
  simp [h0, h1, h2, h3]

theorem memcmp_eq_iff (T : Nat → Nat) (offs : Nat) (str : List Nat) :
    memcmp_eq T offs str (str.length + 1) = true ↔ table_holds T offs str := by
  simp [memcmp_eq, table_holds, List.all_eq_true, List.mem_range]

/-- Two strings of the same length that the table holds at the same offset are equal. -/
theorem table_holds_inj {T : Nat → Nat} {offs : Nat} {s s' : List Nat}
    (h : table_holds T offs s) (h' : table_holds T offs s') (hl : s.length = s'.length) :
    s = s' := by
  apply List.ext_getElem hl
  intro k hk hk'
  have e := h k (by omega)
  have e' := h' k (by omega)
  rw [e] at e'
  simp only [c_bytes, List.getD_eq_getElem?_getD] at e'
  rw [List.getElem?_append_left hk, List.getElem?_append_left hk'] at e'
  simp only [List.getElem?_eq_getElem hk, List.getElem?_eq_getElem hk', Option.getD_some] at e'
  exact e'

theorem layout_offset_zero (stored : List (List Nat)) : layout_offset stored 0 = 4 := by
  simp [layout_offset]

theorem layout_offset_succ {stored : List (List Nat)} {i : Nat} {s : List Nat}
    (h : stored[i]? = some s) :
    layout_offset stored (i + 1) = layout_offset stored i + (s.length + 1) := by
  simp only [layout_offset, List.take_succ, h, Option.toList_some, List.map_append,
    List.sum_append, List.map_cons, List.map_nil, List.sum_cons, List.sum_nil]
  omega

theorem layout_offset_of_length_le {stored : List (List Nat)} {i : Nat}
    (h : stored.length ≤ i) : layout_offset stored i = layout_offset stored stored.length := by
  simp only [layout_offset, List.take_of_length_le h, List.take_length]

theorem layout_offset_mono (stored : List (List Nat)) {i j : Nat} (h : i ≤ j) :
    layout_offset stored i ≤ layout_offset stored j := by
  induction j with
  | zero =>
    have : i = 0 := by omega
    subst this
    exact le_refl _
  | succ j ih =>
    rcases Nat.lt_or_ge i (j + 1) with hlt | hge
    · have hij : i ≤ j := by omega
      refine le_trans (ih hij) ?_
      rcases Nat.lt_or_ge j stored.length with hj | hj
      · have hs : stored[j]? = some stored[j] := List.getElem?_eq_getElem hj
        rw [layout_offset_succ hs]
        omega
      · rw [layout_offset_of_length_le hj, layout_offset_of_length_le (by omega : stored.length ≤ j + 1)]
    · have : i = j + 1 := by omega
      subst this
      exact le_refl _

theorem layout_offset_lt {stored : List (List Nat)} {i j : Nat} (h : i < j)
    (hj : j ≤ stored.length) : layout_offset stored i < layout_offset stored j := by
  have hi : i < stored.length := by omega
  have hs : stored[i]? = some stored[i] := List.getElem?_eq_getElem hi
  have h1 := layout_offset_succ hs
  have h2 := layout_offset_mono stored (by omega : i + 1 ≤ j)
  omega

theorem layout_offset_append_left (stored extra : List (List Nat)) {i : Nat}
    (h : i ≤ stored.length) : layout_offset (stored ++ extra) i = layout_offset stored i := by
  simp only [layout_offset, List.take_append_of_le_length h]

theorem layout_offset_append_total (stored extra : List (List Nat)) :
    layout_offset (stored ++ extra) (stored ++ extra).length =
      layout_offset stored stored.length + (extra.map (fun s => s.length + 1)).sum := by
  simp only [layout_offset, List.take_length, List.map_append, List.sum_append]
  omega

theorem string_index_lt {stored : List (List Nat)} {str : List Nat} :
    string_index stored str < stored.length ↔ str ∈ stored :=
  List.indexOf_lt_length

theorem string_index_le (stored : List (List Nat)) (str : List Nat) :
    string_index stored str ≤ stored.length :=
  List.indexOf_le_length

theorem string_index_getElem {stored : List (List Nat)} (h : stored.Nodup) (i : Nat)
    (hi : i < stored.length) : string_index stored stored[i] = i :=
  List.indexOf_getElem h i hi

theorem getElem_string_index {stored : List (List Nat)} {str : List Nat}
    (h : string_index stored str < stored.length) : stored[string_index stored str] = str :=
  List.getElem_indexOf h

theorem string_index_append_of_mem {stored extra : List (List Nat)} {str : List Nat}
    (h : str ∈ stored) : string_index (stored ++ extra) str = string_index stored str :=
  List.indexOf_append_of_mem h

/-- The comparison that `_search_string` makes for the stored string with index `i`
succeeds exactly when that string is `str`. -/
theorem search_test_iff {st : StringTable} {stored : List (List Nat)} (inv : TableInv st stored)
    (str : List Nat) {i : Nat} (hi : i < stored.length) (size : Nat)
    (hsize : size = stored[i].length + 1) :
    (size = str.length + 1 ∧
        memcmp_eq st.string_table (layout_offset stored i) str (str.length + 1) = true) ↔
      string_index stored str = i := by
  have hs : stored[i]? = some stored[i] := List.getElem?_eq_getElem hi
  have hold := inv.holds i _ hs
  constructor
  · rintro ⟨h1, h2⟩
    rw [memcmp_eq_iff] at h2
    have hl : stored[i].length = str.length := by omega
    have he : stored[i] = str := table_holds_inj hold h2 hl
    rw [← he]
    exact string_index_getElem inv.nodup i hi
  · intro h
    have hlt : string_index stored str < stored.length := by omega
    have he : stored[i] = str := by
      have := getElem_string_index hlt
      simp only [h] at this
      exact this
    rw [memcmp_eq_iff, ← he]
    exact ⟨hsize, hold⟩

theorem search_loop_spec {st : StringTable} {stored : List (List Nat)} (inv : TableInv st stored)
    (str : List Nat) :
    ∀ n i, i + n < stored.length → i ≤ string_index stored str →
      _search_string_loop st str (str.length + 1) n i =
        if string_index stored str < i + n then
          some (layout_offset stored (string_index stored str))
        else none := by
  intro n
  induction n with
  | zero =>
    intro i _ hle
    simp only [_search_string_loop, Nat.add_zero]
    rw [if_neg (by omega)]
  | succ n ih =>
    intro i hlt hle
    have hi : i < stored.length := by omega
    have hi1 : i + 1 < stored.length := by omega
    have hs : stored[i]? = some stored[i] := List.getElem?_eq_getElem hi
    have hsucc := layout_offset_succ hs
    have hb := inv.bound
    have hm := layout_offset_mono stored (by omega : i + 1 ≤ stored.length)
    have hsize : (layout_offset stored (i + 1) + 2 ^ 32 - layout_offset stored i) % 2 ^ 32 =
        stored[i].length + 1 := by
      rw [hsucc]
      simp only [MAX_STRING_TABLE] at hb
      omega
    have hiff := search_test_iff inv str hi (stored[i].length + 1) rfl
    unfold _search_string_loop
    simp only [inv.offs i hi, inv.offs (i + 1) hi1, hsize]
    by_cases hc : string_index stored str = i
    · rw [if_pos (hiff.mpr hc), if_pos (by omega), hc]
    · rw [if_neg (fun h => hc (hiff.mp h)), ih (i + 1) (by omega) (by omega)]
      have e : i + 1 + n = i + (n + 1) := by omega
      rw [e]

/-- What `_search_string` returns on a table that holds the distinct strings
`stored`: the offset of `str` when it is stored, `UINT32_MAX` otherwise. -/
theorem search_string_spec {st : StringTable} {stored : List (List Nat)}
    (inv : TableInv st stored) (str : List Nat) :
    _search_string st str (str.length + 1) =
      if str ∈ stored then layout_offset stored (string_index stored str) else UINT32_MAX := by
  have hnum := inv.num
  have hidx : string_index stored str < stored.length ↔ str ∈ stored := string_index_lt
  have hidxle : string_index stored str ≤ stored.length := string_index_le _ _
  unfold _search_string
  by_cases h0 : stored.length = 0
  · have hnil : stored = [] := List.length_eq_zero.mp h0
    subst hnil
    simp [hnum]
  · have hlastlt : stored.length - 1 < stored.length := by omega
    have hs : stored[stored.length - 1]? = some stored[stored.length - 1] :=
      List.getElem?_eq_getElem hlastlt
    have hlast := inv.last _ hs
    have hiff := search_test_iff inv str hlastlt st.last_string_size hlast
    have hoff := inv.offs _ hlastlt
    rw [if_neg (by omega)]
    by_cases h1 : stored.length = 1
    · rw [if_pos (by omega)]
      have e0 : stored.length - 1 = 0 := by omega
      rw [e0] at hiff hoff
      by_cases hc : string_index stored str = 0
      · have hmem : str ∈ stored := hidx.mp (by omega)
        have hh := hiff.mpr hc
        rw [if_neg (by simp [hh.1]), hoff]
        simp only [hh.2, if_true, hmem, hc]
      · have hmem : str ∉ stored := fun hm => hc (by have := hidx.mpr hm; omega)
        rw [if_neg hmem]
        by_cases hsz : st.last_string_size = str.length + 1
        · rw [if_neg (by simp [hsz]), hoff]
          have : ¬ memcmp_eq st.string_table (layout_offset stored 0) str (str.length + 1) =
              true := fun hm => hc (hiff.mp ⟨hsz, hm⟩)
          simp only [this, if_false]
          rfl
        · rw [if_pos hsz]
    · rw [if_neg (by omega)]
      have hloop := search_loop_spec inv str (stored.length - 1) 0 (by omega) (by omega)
      simp only [hnum, Nat.zero_add] at hloop ⊢
      rw [hloop]
      by_cases hlt : string_index stored str < stored.length - 1
      · have hmem : str ∈ stored := hidx.mp (by omega)
        simp only [hlt, if_true, hmem]
      · simp only [hlt, if_false]
        by_cases hc : string_index stored str = stored.length - 1
        · have hmem : str ∈ stored := hidx.mp (by omega)
          have hh := hiff.mpr hc
          rw [if_neg (by simp [hh.1]), hoff]
          simp only [hh.2, if_true, hmem, hc]
        · have hmem : str ∉ stored := fun hm => hc (by have := hidx.mpr hm; omega)
          rw [if_neg hmem]
          by_cases hsz : st.last_string_size = str.length + 1
          · rw [if_neg (by simp [hsz]), hoff]
            have : ¬ memcmp_eq st.string_table (layout_offset stored (stored.length - 1)) str
                (str.length + 1) = true := fun hm => hc (hiff.mp ⟨hsz, hm⟩)
            simp only [this, if_false]
            rfl
          · rw [if_pos hsz]

theorem layout_offset_ge_four (stored : List (List Nat)) (i : Nat) : 4 ≤ layout_offset stored i := by
  unfold layout_offset
  omega

/-- A call of `_add_string` with a stored string returns its offset and leaves the
table as it is. -/
theorem add_string_found {st : StringTable} {stored : List (List Nat)} (inv : TableInv st stored)
    (str : List Nat) (hmem : str ∈ stored) :
    _add_string str st = some (layout_offset stored (string_index stored str), st) := by
  have hidx : string_index stored str < stored.length := string_index_lt.mpr hmem
  have hm := layout_offset_mono stored (le_of_lt hidx)
  have hb := inv.bound
  have hs : stored[string_index stored str]? = some str := by
    rw [List.getElem?_eq_getElem hidx, getElem_string_index hidx]
  have hsucc := layout_offset_succ hs
  have hm1 := layout_offset_mono stored (by omega : string_index stored str + 1 ≤ stored.length)
  simp only [MAX_STRING_TABLE] at hb
  have hsize : (str.length + 1) % 2 ^ 32 = str.length + 1 := by
    apply Nat.mod_eq_of_lt
    omega
  unfold _add_string
  simp only [hsize, search_string_spec inv str, hmem, if_true]
  rw [if_neg]
  simp only [UINT32_MAX]
  omega

/-- A call of `_add_string` with a string that is not stored appends it at the
offset that the byte count gives, when the new byte count is at most
`MAX_STRING_TABLE`; otherwise the assertion fails. -/
theorem add_string_new {st : StringTable} {stored : List (List Nat)} (inv : TableInv st stored)
    (str : List Nat) (hshort : str.length + 0x10000 < 2 ^ 32) (hnew : str ∉ stored) :
    (layout_offset stored stored.length + (str.length + 1) ≤ MAX_STRING_TABLE →
      ∃ st1, _add_string str st = some (layout_offset stored stored.length, st1) ∧
        TableInv st1 (stored ++ [str])) ∧
    (¬ layout_offset stored stored.length + (str.length + 1) ≤ MAX_STRING_TABLE →
      _add_string str st = none) := by
  have hb := inv.bound
  have hcount := inv.count
  have hsize : (str.length + 1) % 2 ^ 32 = str.length + 1 := by
    apply Nat.mod_eq_of_lt
    omega
  have hbytes : (layout_offset stored stored.length + (str.length + 1)) % 2 ^ 32 =
      layout_offset stored stored.length + (str.length + 1) := by
    apply Nat.mod_eq_of_lt
    simp only [MAX_STRING_TABLE] at hb
    omega
  have hunf : _add_string str st =
      if layout_offset stored stored.length + (str.length + 1) > MAX_STRING_TABLE then none
      else some (layout_offset stored stored.length,
        { _store_string st (layout_offset stored stored.length) str (str.length + 1) with
          string_table := gp_putl32
            (_store_string st (layout_offset stored stored.length) str
              (str.length + 1)).string_table
            (layout_offset stored stored.length + (str.length + 1)) }) := by
    unfold _add_string
    simp only [hsize, search_string_spec inv str, hnew, if_false, if_true, hcount, hbytes]
  constructor
  · intro hfit
    rw [hunf, if_neg (by omega)]
    refine ⟨_, rfl, ?_⟩
    have htotal : layout_offset (stored ++ [str]) (stored ++ [str]).length =
        layout_offset stored stored.length + (str.length + 1) := by
      rw [layout_offset_append_total]
      simp
    constructor
    · simp [_store_string, inv.num]
    · show gp_getu32 (gp_putl32 _ _) = _
      rw [gp_getu32_gp_putl32 _ _ (by simp only [MAX_STRING_TABLE] at hfit; omega), htotal]
    · rw [htotal]
      exact hfit
    · exact List.Nodup.append inv.nodup (List.nodup_singleton _)
        (by
          intro a ha hb
          rw [List.mem_singleton] at hb
          exact hnew (hb ▸ ha))
    · intro i hi
      simp only [List.length_append, List.length_singleton] at hi
      show Function.update st.string_offsets st.string_offs_num _ i = _
      rw [layout_offset_append_left _ _ (by omega : i ≤ stored.length)]
      by_cases hc : i = stored.length
      · subst hc
        rw [inv.num, Function.update_same]
      · rw [Function.update_noteq (by rw [inv.num]; exact hc)]
        exact inv.offs i (by omega)
    · intro s hs
      simp only [List.length_append, List.length_singleton, Nat.add_sub_cancel] at hs
      rw [List.getElem?_append_right (le_refl _)] at hs
      simp only [Nat.sub_self, List.getElem?_cons_zero, Option.some.injEq] at hs
      subst hs
      rfl
    · intro i s hs k hk
      show gp_putl32 (memcpy_at st.string_table _ str (str.length + 1)) _ _ = _
      have h4 := layout_offset_ge_four (stored ++ [str]) i
      rw [gp_putl32_of_ge _ _ _ (by omega)]
      by_cases hi : i < stored.length
      · rw [List.getElem?_append_left hi] at hs
        have hsucc := layout_offset_succ hs
        have hm := layout_offset_mono stored (by omega : i + 1 ≤ stored.length)
        rw [layout_offset_append_left _ _ (le_of_lt hi)]
        unfold memcpy_at
        rw [if_neg (by omega)]
        exact inv.holds i s hs k hk
      · have hlen : i < (stored ++ [str]).length := by
          rcases List.getElem?_eq_some.mp hs with ⟨h, _⟩
          exact h
        simp only [List.length_append, List.length_singleton] at hlen
        have hi' : i = stored.length := by omega
        subst hi'
        rw [List.getElem?_append_right (le_refl _)] at hs
        simp only [Nat.sub_self, List.getElem?_cons_zero, Option.some.injEq] at hs
        subst hs
        rw [layout_offset_append_left _ _ (le_refl _)]
        unfold memcpy_at
        rw [if_pos (by omega), Nat.add_sub_cancel_left]
  · intro hfit
    rw [hunf, if_pos (by omega)]

theorem stored_step_eq_append (stored : List (List Nat)) (str : List Nat) :
    ∃ extra, stored_step stored str = stored ++ extra := by
  unfold stored_step
  split_ifs
  · exact ⟨[], by simp⟩
  · exact ⟨[str], rfl⟩

theorem stored_after_cons (stored : List (List Nat)) (str : List Nat) (rest : List (List Nat)) :
    stored_after stored (str :: rest) = stored_after (stored_step stored str) rest := rfl

theorem stored_after_eq_append (strs : List (List Nat)) :
    ∀ stored, ∃ extra, stored_after stored strs = stored ++ extra := by
  induction strs with
  | nil => intro stored; exact ⟨[], by simp [stored_after]⟩
  | cons str rest ih =>
    intro stored
    obtain ⟨e1, h1⟩ := stored_step_eq_append stored str
    obtain ⟨e2, h2⟩ := ih (stored_step stored str)
    exact ⟨e1 ++ e2, by rw [stored_after_cons, h2, h1, List.append_assoc]⟩

theorem mem_stored_step (stored : List (List Nat)) (str x : List Nat) :
    x ∈ stored_step stored str ↔ x ∈ stored ∨ x = str := by
  unfold stored_step
  split_ifs with h
  · constructor
    · exact Or.inl
    · rintro (h1 | rfl)
      · exact h1
      · exact h
  · simp

theorem mem_stored_after (strs : List (List Nat)) :
    ∀ stored x, x ∈ stored_after stored strs ↔ x ∈ stored ∨ x ∈ strs := by
  induction strs with
  | nil => intro stored x; simp [stored_after]
  | cons str rest ih =>
    intro stored x
    rw [stored_after_cons, ih, mem_stored_step, List.mem_cons, or_assoc]

theorem nodup_stored_step {stored : List (List Nat)} (h : stored.Nodup) (str : List Nat) :
    (stored_step stored str).Nodup := by
  unfold stored_step
  split_ifs with hm
  · exact h
  · exact List.Nodup.append h (List.nodup_singleton _)
      (by
        intro a ha hb
        rw [List.mem_singleton] at hb
        exact hm (hb ▸ ha))

theorem nodup_stored_after (strs : List (List Nat)) :
    ∀ stored, stored.Nodup → (stored_after stored strs).Nodup := by
  induction strs with
  | nil => intro stored h; exact h
  | cons str rest ih =>
    intro stored h
    rw [stored_after_cons]
    exact ih _ (nodup_stored_step h str)

/-- One `_add_string` call on a table that holds the distinct strings `stored`: it
returns the offset of the string and the table then holds `stored_step stored str`,
when that fits `MAX_STRING_TABLE`; otherwise the assertion fails. -/
theorem add_string_step {st : StringTable} {stored : List (List Nat)} (inv : TableInv st stored)
    (str : List Nat) (hshort : str.length + 0x10000 < 2 ^ 32) :
    (layout_offset (stored_step stored str) (stored_step stored str).length ≤ MAX_STRING_TABLE →
      ∃ st1,
        _add_string str st =
          some (layout_offset (stored_step stored str)
            (string_index (stored_step stored str) str), st1) ∧
        TableInv st1 (stored_step stored str) ∧ (str ∈ stored → st1 = st)) ∧
    (¬ layout_offset (stored_step stored str) (stored_step stored str).length ≤
        MAX_STRING_TABLE → _add_string str st = none) := by
  by_cases hmem : str ∈ stored
  · have hstep : stored_step stored str = stored := by simp [stored_step, hmem]
    rw [hstep]
    exact ⟨fun _ => ⟨st, add_string_found inv str hmem, inv, fun _ => rfl⟩,
      fun h => absurd inv.bound h⟩
  · have hstep : stored_step stored str = stored ++ [str] := by simp [stored_step, hmem]
    have htotal : layout_offset (stored ++ [str]) (stored ++ [str]).length =
        layout_offset stored stored.length + (str.length + 1) := by
      rw [layout_offset_append_total]
      simp
    have hidx : string_index (stored ++ [str]) str = stored.length := by
      unfold string_index
      rw [List.indexOf_append_of_not_mem hmem, List.indexOf_cons_self]
      rfl
    have hnew := add_string_new inv str hshort hmem
    rw [hstep, htotal, hidx, layout_offset_append_left _ _ (le_refl _)]
    refine ⟨fun hfit => ?_, hnew.2⟩
    obtain ⟨st1, h1, inv1⟩ := hnew.1 hfit
    exact ⟨st1, h1, inv1, fun h => absurd h hmem⟩

/-- A sequence of `_add_string` calls on a table that holds the distinct strings
`stored`: when the distinct strings of the table and of the calls fit
`MAX_STRING_TABLE`, every call returns the offset of its string in the final
layout and the table then holds `stored_after stored strs`; otherwise an
assertion fails. -/
theorem add_strings_run (strs : List (List Nat)) :
    ∀ (st : StringTable) (stored : List (List Nat)), TableInv st stored →
      (∀ s ∈ strs, s.length + 0x10000 < 2 ^ 32) →
      (layout_offset (stored_after stored strs) (stored_after stored strs).length ≤
          MAX_STRING_TABLE →
        ∃ st1,
          add_strings st strs =
            some (strs.map (fun s => layout_offset (stored_after stored strs)
              (string_index (stored_after stored strs) s)), st1) ∧
          TableInv st1 (stored_after stored strs)) ∧
      (¬ layout_offset (stored_after stored strs) (stored_after stored strs).length ≤
          MAX_STRING_TABLE → add_strings st strs = none) := by
  induction strs with
  | nil =>
    intro st stored inv _
    exact ⟨fun _ => ⟨st, rfl, inv⟩, fun h => absurd inv.bound h⟩
  | cons str rest ih =>
    intro st stored inv hshort
    have hs := hshort str (List.mem_cons_self _ _)
    have hrest : ∀ s ∈ rest, s.length + 0x10000 < 2 ^ 32 :=
      fun s h => hshort s (List.mem_cons_of_mem _ h)
    obtain ⟨extra, hextra⟩ := stored_after_eq_append rest (stored_step stored str)
    have hstep := add_string_step inv str hs
    have htot : layout_offset (stored_after stored (str :: rest))
        (stored_after stored (str :: rest)).length =
        layout_offset (stored_step stored str) (stored_step stored str).length +
          (extra.map (fun s => s.length + 1)).sum := by
      rw [stored_after_cons, hextra, layout_offset_append_total]
    constructor
    · intro hfit
      have hfit1 : layout_offset (stored_step stored str) (stored_step stored str).length ≤
          MAX_STRING_TABLE := by omega
      obtain ⟨st1, h1, inv1, -⟩ := hstep.1 hfit1
      have hfit2 : layout_offset (stored_after (stored_step stored str) rest)
          (stored_after (stored_step stored str) rest).length ≤ MAX_STRING_TABLE := by
        rw [← stored_after_cons]
        exact hfit
      obtain ⟨st2, h2, inv2⟩ := (ih st1 _ inv1 hrest).1 hfit2
      refine ⟨st2, ?_, ?_⟩
      · have hmem : str ∈ stored_step stored str := (mem_stored_step _ _ _).mpr (Or.inr rfl)
        have hoff : layout_offset (stored_after stored (str :: rest))
            (string_index (stored_after stored (str :: rest)) str) =
            layout_offset (stored_step stored str)
              (string_index (stored_step stored str) str) := by
          rw [stored_after_cons, hextra, string_index_append_of_mem hmem,
            layout_offset_append_left _ _ (string_index_le _ _)]
        unfold add_strings
        rw [h1]
        simp only [h2, List.map_cons, hoff]
        rfl
      · rw [stored_after_cons]
        exact inv2
    · intro hfit
      unfold add_strings
      by_cases hfit1 : layout_offset (stored_step stored str) (stored_step stored str).length ≤
          MAX_STRING_TABLE
      · obtain ⟨st1, h1, inv1, -⟩ := hstep.1 hfit1
        have h2 := (ih st1 _ inv1 hrest).2 (by rw [← stored_after_cons]; exact hfit)
        rw [h1]
        simp only [h2]
      · rw [hstep.2 hfit1]

theorem table_inv_init (prev : StringTable) : TableInv (string_table_init prev) [] where
  num := rfl
  count := by
    show gp_getu32 (gp_putl32 prev.string_table 4) = layout_offset [] 0
    rw [gp_getu32_gp_putl32 _ _ (by norm_num)]
    rfl
  bound := by decide
  nodup := List.nodup_nil
  offs := fun i hi => absurd hi (by simp)
  last := fun s hs => by simp at hs
  holds := fun i s hs => by simp at hs

/-- The byte count after all calls is 4 plus the sizes of the distinct strings. -/
theorem layout_total_eq_sum (strs : List (List Nat)) :
    layout_offset (stored_after [] strs) (stored_after [] strs).length =
      4 + ∑ s ∈ strs.toFinset, (s.length + 1) := by
  have hnd := nodup_stored_after strs [] List.nodup_nil
  have hfin : (stored_after [] strs).toFinset = strs.toFinset := by
    ext x
    simp [mem_stored_after]
  rw [← hfin, List.sum_toFinset _ hnd]
  simp [layout_offset]

/-- A sequence of `_add_string` calls that returns, from the initialised table,
leaves a table that holds the distinct strings of the calls, and has returned the
offsets of the strings in that table. -/
theorem table_inv_of_run {prev : StringTable} {strs : List (List Nat)} {offs : List Nat}
    {st : StringTable} (hshort : ∀ s ∈ strs, s.length + 0x10000 < 2 ^ 32)
    (hrun : add_strings (string_table_init prev) strs = some (offs, st)) :
    TableInv st (stored_after [] strs) ∧
    offs = strs.map (fun s => layout_offset (stored_after [] strs)
      (string_index (stored_after [] strs) s)) := by
  have run := add_strings_run strs (string_table_init prev) [] (table_inv_init prev) hshort
  by_cases hfit : layout_offset (stored_after [] strs) (stored_after [] strs).length ≤
      MAX_STRING_TABLE
  · obtain ⟨st1, h1, inv1⟩ := run.1 hfit
    rw [h1] at hrun
    simp only [Option.some.injEq, Prod.mk.injEq] at hrun
    obtain ⟨rfl, rfl⟩ := hrun
    exact ⟨inv1, rfl⟩
  · rw [run.2 hfit] at hrun
    exact absurd hrun (by simp)

theorem short_of_fit {strs : List (List Nat)}
    (hfit : 4 + ∑ s ∈ strs.toFinset, (s.length + 1) ≤ MAX_STRING_TABLE) :
    ∀ s ∈ strs, s.length + 0x10000 < 2 ^ 32 := by
  intro s hs
  have h := Finset.single_le_sum (f := fun s : List Nat => s.length + 1)
    (fun _ _ => Nat.zero_le _) (List.mem_toFinset.mpr hs)
  simp only [MAX_STRING_TABLE] at hfit
  simp only at h
  omega

/-- In a table that holds distinct strings, two stored strings with the same offset
are the same string. -/
theorem layout_offset_index_inj {stored : List (List Nat)} {s s' : List Nat}
    (hs : s ∈ stored) (hs' : s' ∈ stored)
    (h : layout_offset stored (string_index stored s) =
      layout_offset stored (string_index stored s')) : s = s' := by
  have hi := string_index_lt.mpr hs
  have hi' := string_index_lt.mpr hs'
  have hidx : string_index stored s = string_index stored s' := by
    rcases Nat.lt_trichotomy (string_index stored s) (string_index stored s') with hlt | heq | hgt
    · have := layout_offset_lt hlt (le_of_lt hi')
      omega
    · exact heq
    · have := layout_offset_lt hgt (le_of_lt hi)
      omega
  have e : stored[string_index stored s]? = some s := by
    rw [List.getElem?_eq_getElem hi, getElem_string_index hi]
  have e' : stored[string_index stored s']? = some s' := by
    rw [List.getElem?_eq_getElem hi', getElem_string_index hi']
  rw [hidx, e'] at e
  exact (Option.some.inj e).symm

theorem zip_map_self (strs : List (List Nat)) (g : List Nat → Nat) :
    strs.zip (strs.map g) = strs.map (fun s => (s, g s)) := by
  have h := List.zip_map' (fun s : List Nat => s) g strs
  simp only [List.map_id'] at h
  exact h

/-- C9 (as amended): from the initialised table, for every sequence of `_add_string`
calls whose distinct strings fit the table (4 plus the sum of length + 1 over the
distinct strings is at most `MAX_STRING_TABLE`), every call returns; each pair of a
string and the offset returned for it is such that the table holds the string
with its NUL at that offset; two calls have the same offset if and only if they
have the same string; and a call with a string of the sequence on the resulting
table returns the same offset again and changes nothing. -/
theorem add_string_dedup (prev : StringTable) (strs : List (List Nat))
    (hfit : 4 + ∑ s ∈ strs.toFinset, (s.length + 1) ≤ MAX_STRING_TABLE) :
    ∃ offs st,
      add_strings (string_table_init prev) strs = some (offs, st) ∧
      offs.length = strs.length ∧
      (∀ p ∈ strs.zip offs,
        table_holds st.string_table p.2 p.1 ∧ _add_string p.1 st = some (p.2, st)) ∧
      (∀ p ∈ strs.zip offs, ∀ q ∈ strs.zip offs, p.2 = q.2 ↔ p.1 = q.1) := by
  have hshort := short_of_fit hfit
  have run := add_strings_run strs (string_table_init prev) [] (table_inv_init prev) hshort
  obtain ⟨st, hrun, inv⟩ := run.1 (by rw [layout_total_eq_sum]; exact hfit)
  have hmemfinal : ∀ s ∈ strs, s ∈ stored_after [] strs :=
    fun s hs => (mem_stored_after strs [] s).mpr (Or.inr hs)
  refine ⟨_, st, hrun, by simp, ?_, ?_⟩
  · intro p hp
    rw [zip_map_self, List.mem_map] at hp
    obtain ⟨s, hs, rfl⟩ := hp
    have hm := hmemfinal s hs
    have hidx := string_index_lt.mpr hm
    have hget : (stored_after [] strs)[string_index (stored_after [] strs) s]? = some s := by
      rw [List.getElem?_eq_getElem hidx, getElem_string_index hidx]
    exact ⟨inv.holds _ s hget, add_string_found inv s hm⟩
  · intro p hp q hq
    rw [zip_map_self, List.mem_map] at hp hq
    obtain ⟨s, hs, rfl⟩ := hp
    obtain ⟨s', hs', rfl⟩ := hq
    constructor
    · exact layout_offset_index_inj (hmemfinal s hs) (hmemfinal s' hs')
    · intro h
      simp only at h
      rw [h]

theorem add_strings_of_add_string_none {str : List Nat} {st : StringTable}
    (h : _add_string str st = none) (rest : List (List Nat)) :
    add_strings st (str :: rest) = none := by
  unfold add_strings
  rw [h]

theorem add_name_of_add_string_none {name : List Nat} {st : StringTable}
    (hlen : COFF_SSYMBOL_NAME_MAX < name.length % 2 ^ 32)
    (h : _add_string name st = none) : _add_name (some name) st = none := by
  unfold _add_name
  simp only [h]
  rw [if_neg (by omega)]

/-- On the initialised table `_add_string` with a string of 65531 characters fails
its assertion: the byte count would be 4 + 65532 = 65536. -/
theorem add_string_65531_none :
    _add_string (List.replicate 65531 97)
      (string_table_init ⟨fun _ => 0, fun _ => 0, 0, 0⟩) = none := by
  have hs : (List.replicate 65531 97 : List Nat).length + 0x10000 < 2 ^ 32 := by
    rw [List.length_replicate]
    decide
  have hroom : ¬ layout_offset [] ([] : List (List Nat)).length +
      ((List.replicate 65531 97 : List Nat).length + 1) ≤ MAX_STRING_TABLE := by
    rw [List.length_replicate]
    decide
  exact (add_string_new (table_inv_init ⟨fun _ => 0, fun _ => 0, 0, 0⟩)
    (List.replicate 65531 97) hs (List.not_mem_nil _)).2 hroom

/-- C9 (the claim as stated fails): the first `_add_string` call of a sequence,
with a string of 65531 characters, does not return an offset: the assertion
`!(nbytes > MAX_STRING_TABLE)` fails. -/
theorem add_string_too_long_aborts :
    add_strings (string_table_init ⟨fun _ => 0, fun _ => 0, 0, 0⟩)
      [List.replicate 65531 97] = none :=
  add_strings_of_add_string_none add_string_65531_none []

/-- C10: after the initialisation and any sequence of `_add_string` calls that have
returned (with strings shorter than 2^32 - 0x10000 characters), the 32-bit count at
the start of the table is 4 plus the sum of length + 1 over the distinct strings, it
is at most 0xffff, and the distinct strings lie one after the other from offset 4:
the string with index `i` starts at `string_offsets[i]`, which is 4 plus the
sizes of the strings before it, and the count is the offset after the last one. -/
theorem string_table_count_invariant (prev : StringTable) (strs : List (List Nat))
    (offs : List Nat) (st : StringTable)
    (hshort : ∀ s ∈ strs, s.length + 0x10000 < 2 ^ 32)
    (hrun : add_strings (string_table_init prev) strs = some (offs, st)) :
    gp_getu32 st.string_table = 4 + ∑ s ∈ strs.toFinset, (s.length + 1) ∧
    gp_getu32 st.string_table ≤ 0xffff ∧
    ∃ stored : List (List Nat),
      stored.Nodup ∧ (∀ s, s ∈ stored ↔ s ∈ strs) ∧
      st.string_offs_num = stored.length ∧
      gp_getu32 st.string_table = layout_offset stored stored.length ∧
      ∀ i s, stored[i]? = some s →
        st.string_offsets i = layout_offset stored i ∧
        table_holds st.string_table (st.string_offsets i) s := by
  obtain ⟨inv, -⟩ := table_inv_of_run hshort hrun
  refine ⟨?_, ?_, stored_after [] strs, inv.nodup, ?_, inv.num, inv.count, ?_⟩
  · rw [inv.count, layout_total_eq_sum]
  · rw [inv.count]
    exact inv.bound
  · intro s
    simp [mem_stored_after]
  · intro i s hs
    have hi : i < (stored_after [] strs).length := by
      rcases List.getElem?_eq_some.mp hs with ⟨h, _⟩
      exact h
    rw [inv.offs i hi]
    exact ⟨rfl, inv.holds i s hs⟩

/-- C8 (as amended): on a table reached from the initialised one by `_add_string`
calls, `_add_name` with a name of at most 8 characters writes the 8 bytes that are
the characters followed by zero padding, and leaves the table as it is; with a
longer name that is already stored, or that fits the table, it writes 8 bytes: 4
zero bytes and the 4 bytes of the offset, low byte first, and the table then
holds the name with its NUL at that offset; with a longer name that is not
stored and does not fit, the assertion fails and nothing is written. -/
theorem add_name_bytes (prev : StringTable) (strs : List (List Nat)) (offs : List Nat)
    (st : StringTable) (name : List Nat)
    (hshort : ∀ s ∈ strs, s.length + 0x10000 < 2 ^ 32)
    (hrun : add_strings (string_table_init prev) strs = some (offs, st))
    (hname : name.length + 0x10000 < 2 ^ 32) :
    (name.length ≤ 8 →
      ∃ out, _add_name (some name) st = some (out, st) ∧ out.length = 8 ∧
        out = name ++ List.replicate (8 - name.length) 0) ∧
    (8 < name.length →
      (name ∈ strs ∨ gp_getu32 st.string_table + (name.length + 1) ≤ MAX_STRING_TABLE) →
      ∃ out off st1, _add_name (some name) st = some (out, st1) ∧ out.length = 8 ∧
        out = [0, 0, 0, 0] ++ gp_fputl32 off ∧ le32 (gp_fputl32 off) = off ∧
        table_holds st1.string_table off name) ∧
    (8 < name.length → name ∉ strs →
      ¬ gp_getu32 st.string_table + (name.length + 1) ≤ MAX_STRING_TABLE →
      _add_name (some name) st = none) := by
  obtain ⟨inv, -⟩ := table_inv_of_run hshort hrun
  have hlen : name.length % 2 ^ 32 = name.length := Nat.mod_eq_of_lt (by omega)
  have hmemiff : name ∈ stored_after [] strs ↔ name ∈ strs := by simp [mem_stored_after]
  refine ⟨?_, ?_, ?_⟩
  · intro hle
    refine ⟨name ++ List.replicate (8 - name.length) 0, ?_, by simp; omega, rfl⟩
    unfold _add_name
    simp only [hlen, COFF_SSYMBOL_NAME_MAX, if_pos hle, gp_fputvar, gp_fputzero]
    have h1 : (if name.length > 0 then List.take name.length name else []) = name := by
      split_ifs with h
      · exact List.take_length name
      · have : name.length = 0 := by omega
        exact (List.length_eq_zero.mp this).symm
    have h2 : (if name.length < 8 then List.replicate (8 - name.length) 0 else []) =
        List.replicate (8 - name.length) 0 := by
      split_ifs with h
      · rfl
      · have : 8 - name.length = 0 := by omega
        rw [this]
        rfl
    rw [h1, h2]
  · intro hgt hroom
    have hb := inv.bound
    simp only [MAX_STRING_TABLE] at hb hroom
    by_cases hmem : name ∈ stored_after [] strs
    · have hidx := string_index_lt.mpr hmem
      have hget : (stored_after [] strs)[string_index (stored_after [] strs) name]? =
          some name := by
        rw [List.getElem?_eq_getElem hidx, getElem_string_index hidx]
      have hm := layout_offset_mono (stored_after [] strs) (le_of_lt hidx)
      refine ⟨_, layout_offset (stored_after [] strs)
        (string_index (stored_after [] strs) name), st, ?_, ?_, rfl, ?_, inv.holds _ _ hget⟩
      · unfold _add_name
        simp only [hlen, COFF_SSYMBOL_NAME_MAX, if_neg (by omega : ¬ name.length ≤ 8),
          add_string_found inv name hmem]
        rfl
      · rfl
      · rw [le32_gp_fputl32]
        exact Nat.mod_eq_of_lt (by omega)
    · have hroom' : gp_getu32 st.string_table + (name.length + 1) ≤ 65535 := by
        rcases hroom with h | h
        · exact absurd (hmemiff.mpr h) hmem
        · exact h
      rw [inv.count] at hroom'
      obtain ⟨st1, h1, inv1⟩ := (add_string_new inv name hname hmem).1 hroom'
      have hget : (stored_after [] strs ++ [name])[(stored_after [] strs).length]? =
          some name := by
        rw [List.getElem?_append_right (le_refl _)]
        simp
      have hholds := inv1.holds _ _ hget
      rw [layout_offset_append_left _ _ (le_refl _)] at hholds
      refine ⟨_, layout_offset (stored_after [] strs) (stored_after [] strs).length, st1,
        ?_, ?_, rfl, ?_, hholds⟩
      · unfold _add_name
        simp only [hlen, COFF_SSYMBOL_NAME_MAX, if_neg (by omega : ¬ name.length ≤ 8), h1]
        rfl
      · rfl
      · rw [le32_gp_fputl32]
        exact Nat.mod_eq_of_lt (by omega)
  · intro hgt hnot hroom
    have hmem : name ∉ stored_after [] strs := fun h => hnot (hmemiff.mp h)
    rw [inv.count] at hroom
    have h1 := (add_string_new inv name hname hmem).2 hroom
    unfold _add_name
    simp only [hlen, COFF_SSYMBOL_NAME_MAX, if_neg (by omega : ¬ name.length ≤ 8), h1]

/-- C8 (the claim as stated fails): for a name of 65531 characters `_add_name` writes
nothing: the assertion `!(nbytes > MAX_STRING_TABLE)` of `_add_string` fails. -/
theorem add_name_too_long_aborts :
    _add_name (some (List.replicate 65531 97))
      (string_table_init ⟨fun _ => 0, fun _ => 0, 0, 0⟩) = none :=
  add_name_of_add_string_none (by rw [List.length_replicate]; decide) add_string_65531_none

/-! ## Instances at concrete inputs -/

/-- C1 at address 5 after a put at 7, a listing of 5..7, a clear of 7 and a put in
another block. -/
theorem unwritten_address_reads_unused_witness :
    (5 : Nat) < 2 ^ 32 ∧
    ∃ m,
      run_ops i_memory_create
        [MemOp.put 7 0x12 (some "code") none, MemOp.set_listed 5 3, MemOp.clear 7,
          MemOp.put 0x20006 1 none none] = some m ∧
      b_memory_get m 5 = ⟨0, 0, none, none⟩ ∧ b_memory_is_used m 5 = 0 :=
  ⟨by norm_num, _, rfl,
    (unwritten_address_reads_unused 5 (by norm_num)).2
      [MemOp.put 7 0x12 (some "code") none, MemOp.set_listed 5 3, MemOp.clear 7,
        MemOp.put 0x20006 1 none none] _
      (by simp [MemOp.address]) (by simp) rfl⟩

/-- C2 at address 0x12345 of a fresh memory, whose page has no block yet. -/
theorem put_then_get_used_witness :
    (0xAB : Nat) < 256 ∧
    (b_memory_get (b_memory_put i_memory_create 0x12345 0xAB none none) 0x12345).ret = 1 ∧
    (b_memory_get (b_memory_put i_memory_create 0x12345 0xAB none none) 0x12345).byte = 0xAB ∧
    b_memory_is_used (b_memory_put i_memory_create 0x12345 0xAB none none) 0x12345 = 1 :=
  ⟨by norm_num, put_then_get_used i_memory_create 0x12345 0xAB none none (by norm_num)⟩

/-- C3 at address 3, with address 4 as the other address. -/
theorem clear_then_get_witness :
    (3 : Nat) < 2 ^ 32 ∧
    b_memory_get (b_memory_clear (b_memory_put i_memory_create 3 7 none none) 3) 3 =
      ⟨0, 0, none, none⟩ ∧
    b_memory_get (b_memory_clear (b_memory_put (b_memory_put i_memory_create 3 7 none none)
      4 9 none none) 3) 4 =
      b_memory_get (b_memory_put (b_memory_put i_memory_create 3 7 none none) 4 9 none none) 4 :=
  ⟨by norm_num,
    (clear_then_get (b_memory_put i_memory_create 3 7 none none) 3 (by norm_num)).1,
    (clear_then_get (b_memory_put (b_memory_put i_memory_create 3 7 none none) 4 9 none none) 3
      (by norm_num)).2 4 (by norm_num) (by norm_num)⟩

/-- C4 at address 0xFFFF, whose two bytes lie in different blocks. -/
theorem word_put_get_round_trip_witness :
    ((0xFFFF : Nat) < 2 ^ 32 ∧ (0xBEEF : Nat) < 65536) ∧
    (i_memory_get_le (i_memory_put_le i_memory_create 0xFFFF 0xBEEF none none) 0xFFFF).word =
      some 0xBEEF ∧
    (i_memory_get_be (i_memory_put_be i_memory_create 0xFFFF 0xBEEF none none) 0xFFFF).word =
      some 0xBEEF :=
  ⟨⟨by norm_num, by norm_num⟩,
    (word_put_get_round_trip i_memory_create 0xFFFF 0xBEEF none none (by norm_num)
      (by norm_num)).1.2,
    (word_put_get_round_trip i_memory_create 0xFFFF 0xBEEF none none (by norm_num)
      (by norm_num)).2.1.2⟩

/-- C5 at address 0xFFFF when only the byte at 0x10000 is used. -/
theorem get_word_used_iff_witness :
    ∃ m,
      run_ops i_memory_create
        [MemOp.put 0x10000 0x34 none none, MemOp.set_listed 0xFFFF 2] = some m ∧
      (i_memory_get_le m 0xFFFF).ret = 1 ∧ (i_memory_get_le m 0xFFFF).word = some 0x3400 :=
  have h := (get_word_used_iff
    [MemOp.put 0x10000 0x34 none none, MemOp.set_listed 0xFFFF 2] _ 0xFFFF rfl).1
  have hret := h.1.mpr (Or.inr (by decide))
  ⟨_, rfl, hret, (h.2.1 hret).trans (by decide)⟩

/-- C7 for a section `.text` whose flags have both internal bits set. -/
theorem section_header_flags_masked_witness :
    ∃ out st1,
      _write_section_header ⟨0x120, fun shift address => address >>> shift⟩
        ⟨some [46, 116, 101, 120, 116], 0x100, 4, 0x3E, 0, 0, 0, 0, 0xC0000020⟩ 1
        (string_table_init ⟨fun _ => 0, fun _ => 0, 0, 0⟩) = some (out, st1) ∧
      out.length = 40 ∧
      le32 (out.drop (out.length - 4)) = 0x20 :=
  ⟨_, _, rfl, rfl,
    ((section_header_flags_masked ⟨0x120, fun shift address => address >>> shift⟩
      ⟨some [46, 116, 101, 120, 116], 0x100, 4, 0x3E, 0, 0, 0, 0, 0xC0000020⟩ 1
      (string_table_init ⟨fun _ => 0, fun _ => 0, 0, 0⟩)).2 _ _ rfl).1.trans (by decide)⟩

/-- C8 (as amended) for the names `main` and `long_symbol` on the initialised table. -/
theorem add_name_bytes_witness :
    (∃ out,
      _add_name (some [109, 97, 105, 110]) (string_table_init ⟨fun _ => 0, fun _ => 0, 0, 0⟩) =
        some (out, string_table_init ⟨fun _ => 0, fun _ => 0, 0, 0⟩) ∧
      out.length = 8 ∧ out = [109, 97, 105, 110] ++ List.replicate (8 - 4) 0) ∧
    (∃ out off st1,
      _add_name (some [108, 111, 110, 103, 95, 115, 121, 109, 98, 111, 108])
        (string_table_init ⟨fun _ => 0, fun _ => 0, 0, 0⟩) = some (out, st1) ∧
      out.length = 8 ∧ out = [0, 0, 0, 0] ++ gp_fputl32 off ∧ le32 (gp_fputl32 off) = off ∧
      table_holds st1.string_table off [108, 111, 110, 103, 95, 115, 121, 109, 98, 111, 108]) :=
  ⟨(add_name_bytes ⟨fun _ => 0, fun _ => 0, 0, 0⟩ [] [] _ [109, 97, 105, 110]
      (by simp) rfl (by decide)).1 (by decide),
    (add_name_bytes ⟨fun _ => 0, fun _ => 0, 0, 0⟩ [] [] _
      [108, 111, 110, 103, 95, 115, 121, 109, 98, 111, 108]
      (by simp) rfl (by decide)).2.1 (by decide) (Or.inr (by decide))⟩

/-- C9 (as amended) for the calls with `ab`, `c`, `ab`. -/
theorem add_string_dedup_witness :
    4 + ∑ s ∈ [[97, 98], [99], [97, 98]].toFinset, (s.length + 1) ≤ MAX_STRING_TABLE ∧
    ∃ offs st,
      add_strings (string_table_init ⟨fun _ => 0, fun _ => 0, 0, 0⟩)
        [[97, 98], [99], [97, 98]] = some (offs, st) ∧
      offs.length = [[97, 98], [99], [97, 98]].length ∧
      (∀ p ∈ [[97, 98], [99], [97, 98]].zip offs,
        table_holds st.string_table p.2 p.1 ∧ _add_string p.1 st = some (p.2, st)) ∧
      (∀ p ∈ [[97, 98], [99], [97, 98]].zip offs,
        ∀ q ∈ [[97, 98], [99], [97, 98]].zip offs, p.2 = q.2 ↔ p.1 = q.1) :=
  ⟨by decide,
    add_string_dedup ⟨fun _ => 0, fun _ => 0, 0, 0⟩ [[97, 98], [99], [97, 98]] (by decide)⟩

/-- C10 for the calls with `ab`, `c`, `ab`: the offsets are 4, 7, 4 and the count is 9. -/
theorem string_table_count_invariant_witness :
    ∃ offs st,
      add_strings (string_table_init ⟨fun _ => 0, fun _ => 0, 0, 0⟩)
        [[97, 98], [99], [97, 98]] = some (offs, st) ∧
      offs = [4, 7, 4] ∧
      gp_getu32 st.string_table = 4 + ∑ s ∈ [[97, 98], [99], [97, 98]].toFinset, (s.length + 1) ∧
      gp_getu32 st.string_table = 9 :=
  ⟨_, _, rfl, rfl,
    (string_table_count_invariant ⟨fun _ => 0, fun _ => 0, 0, 0⟩ [[97, 98], [99], [97, 98]]
      _ _ (by decide) rfl).1, rfl⟩

/-! ## The disassembler: two-word targets, relative branches, false addresses -/

theorem or_mod_two_pow (x y k : Nat) : (x % 2 ^ k ||| y) % 2 ^ k = (x ||| y) % 2 ^ k := by
  apply Nat.eq_of_testBit_eq
  intro i
  simp only [Nat.testBit_mod_two_pow, Nat.testBit_or]
  by_cases h : i < k <;> simp [h]

theorem lit20_dest_eq (opcode dest : Nat) :
    lit20_dest opcode dest
      = (((dest &&& 0x0FFF) <<< 8) ||| (opcode &&& 0x00FF)) % 2 ^ 16 := by
  unfold lit20_dest PIC16E_BMSK_BRANCH_HIGHER PIC16E_BMSK_BRANCH_LOWER
  exact or_mod_two_pow _ _ 16

/-- C14 (the code diverges from the claim): the cases `INSN_CLASS_LIT20` and
`INSN_CLASS_CALL20` build the target in a `uint16_t`, so both passes keep only
the low 16 bits of the 20-bit target `((w2 & 0x0FFF) << 8) | (w1 & 0x00FF)`.  For
the `goto` with the words `0xEF00`, `0xF100` at byte address 0 the target is
`0x10000`; `gp_disassemble_find_labels` records the destination byte address 0
(not `0x20000`) and marks it as a label, and `gp_disassemble` prints the
address 0. -/
theorem lit20_target_truncated (K : gpopcode_masks) (Fstate : gpdasm_fstate_t) :
    (∀ opcode dest, lit20_dest opcode dest
        = (((dest &&& 0x0FFF) <<< 8) ||| (opcode &&& 0x00FF)) % 2 ^ 16) ∧
    ((0xF100 &&& 0x0FFF) <<< 8) ||| (0xEF00 &&& 0x00FF) = 0x10000 ∧
    lit20_dest 0xEF00 0xF100 = 0 ∧
    (gp_disassemble_find_labels K (example_map [(0, 0xEF00), (2, 0xF100)] []) 0
        (example_px .PIC16E 1 ⟨.LIT20, .GOTO⟩ 0x200000) Fstate).1 = 2 ∧
    (gp_disassemble_find_labels K (example_map [(0, 0xEF00), (2, 0xF100)] []) 0
        (example_px .PIC16E 1 ⟨.LIT20, .GOTO⟩ 0x200000) Fstate).2.1.branch_src 0 = true ∧
    (gp_disassemble_find_labels K (example_map [(0, 0xEF00), (2, 0xF100)] []) 0
        (example_px .PIC16E 1 ⟨.LIT20, .GOTO⟩ 0x200000) Fstate).2.1.dest_byte_addr 0 = 0 ∧
    (gp_disassemble_find_labels K (example_map [(0, 0xEF00), (2, 0xF100)] []) 0
        (example_px .PIC16E 1 ⟨.LIT20, .GOTO⟩ 0x200000) Fstate).2.1.label 0 = true ∧
    (gp_disassemble_find_labels K (example_map [(0, 0xEF00), (2, 0xF100)] []) 0
        (example_px .PIC16E 1 ⟨.LIT20, .GOTO⟩ 0x200000) Fstate).2.1.label 0x20000 = false ∧
    gp_disassemble_lit20_org (example_px .PIC16E 1 ⟨.LIT20, .GOTO⟩ 0x200000).class_
        0xEF00 0xF100 = 0 :=
  ⟨lit20_dest_eq, by decide, by decide, rfl, rfl, rfl, rfl, rfl, by decide⟩

theorem xor_ones (n f : Nat) (h : f < 2 ^ n) : f ^^^ (2 ^ n - 1) = 2 ^ n - 1 - f := by
  apply Nat.eq_of_testBit_eq
  intro i
  have e : 2 ^ n - 1 - f = 2 ^ n - (f + 1) := by omega
  rw [e, Nat.testBit_xor, Nat.testBit_two_pow_sub_one, Nat.testBit_two_pow_sub_succ h]
  by_cases hi : i < n
  · simp [hi]
  · have : f.testBit i = false :=
      Nat.testBit_eq_false_of_lt (lt_of_lt_of_le h (Nat.pow_le_pow_right (by norm_num) (by omega)))
    simp [hi, this]

theorem and_sign_bit (k f : Nat) (h : f < 2 ^ (k + 1)) : (f &&& 2 ^ k ≠ 0) ↔ 2 ^ k ≤ f := by
  rw [Nat.and_two_pow, Nat.testBit_to_div_mod]
  have hp : 0 < 2 ^ k := by positivity
  have h2 : f / 2 ^ k < 2 := by
    rw [Nat.div_lt_iff_lt_mul hp]
    rw [pow_succ] at h
    omega
  by_cases hle : 2 ^ k ≤ f
  · have : f / 2 ^ k = 1 := by
      have : 0 < f / 2 ^ k := Nat.div_pos hle hp
      omega
    simp [this, hle]
  · have : f / 2 ^ k = 0 := Nat.div_eq_of_lt (by omega)
    simp [this, hle]

/-- The field of a relative branch with `k + 1` bits: the mask takes the opcode
modulo `2 ^ (k + 1)`, the sign bit is set from `2 ^ k` on, and the exclusive or
with the mask is the complement within the field. -/
theorem rbra_field (k opcode : Nat) :
    opcode &&& (2 ^ (k + 1) - 1) = opcode % 2 ^ (k + 1) ∧
    ((opcode % 2 ^ (k + 1)) &&& 2 ^ k ≠ 0 ↔ 2 ^ k ≤ opcode % 2 ^ (k + 1)) ∧
    (opcode % 2 ^ (k + 1)) ^^^ (2 ^ (k + 1) - 1) = 2 ^ (k + 1) - 1 - opcode % 2 ^ (k + 1) :=
  ⟨Nat.and_pow_two_sub_one_eq_mod _ _, and_sign_bit k _ (Nat.mod_lt _ (by positivity)),
    xor_ones _ _ (Nat.mod_lt _ (by positivity))⟩

theorem rbra_core (T S f A : Nat) (hT : T = 2 * S) (hS : S ≤ 2 ^ 16) (hf : f < T) :
    let d : Int := if f < S then (f : Int) else (f : Int) - T
    let v : Nat := if S ≤ f then (2 ^ 32 - ((T - 1 - f) + 1) % 2 ^ 32) % 2 ^ 32 else f
    let w : Int := if S ≤ f then -(((T - 1 - f : Nat) : Int) + 1) else (f : Int)
    to_int v = d ∧
    (((A + v * 2 + 2) % 2 ^ 32 : Nat) : Int) = ((A : Int) + 2 * d + 2) % 2 ^ 32 ∧
    to_int ((A + to_unsigned (w * 2) + 2) % 2 ^ 32) = to_int ((A + v * 2 + 2) % 2 ^ 32) ∧
    (-(2 : Int) ^ 31 ≤ (A : Int) + 2 * d + 2 → (A : Int) + 2 * d + 2 < 2 ^ 31 →
      to_int ((A + to_unsigned (w * 2) + 2) % 2 ^ 32) = (A : Int) + 2 * d + 2) := by
  intro d v w
  subst hT
  have hv : to_unsigned (w * 2) = v * 2 % 2 ^ 32 := by
    simp only [to_unsigned, w, v]
    split_ifs <;> omega
  have h3 : (A + to_unsigned (w * 2) + 2) % 2 ^ 32 = (A + v * 2 + 2) % 2 ^ 32 := by
    rw [hv]; omega
  refine ⟨?_, ?_, ?_, ?_⟩
  · simp only [to_int, v, d]
    split_ifs <;> omega
  · simp only [v, d]
    split_ifs <;> omega
  · rw [h3]
  · intro h1 h2
    rw [h3]
    simp only [to_int, v, d] at h1 h2 ⊢
    split_ifs at h1 h2 ⊢ <;> omega

theorem rbra_decoded_gen (k : Nat) (hk : k ≤ 15) (Class : proc_class) (A opcode : Nat) :
    rbra_decoded Class A opcode (2 ^ (k + 1) - 1) (2 ^ k) (k + 1) := by
  obtain ⟨h1, h2, h3⟩ := rbra_field k opcode
  have hp : 2 ^ (k + 1) = 2 * 2 ^ k := by rw [pow_succ]; omega
  have hlt : opcode % 2 ^ (k + 1) < 2 ^ (k + 1) := Nat.mod_lt opcode (by positivity)
  have hS : 2 ^ k ≤ 2 ^ 16 := Nat.pow_le_pow_right (by norm_num) (by omega)
  obtain ⟨c1, c2, c3, c4⟩ := rbra_core (2 ^ (k + 1)) (2 ^ k) (opcode % 2 ^ (k + 1)) A hp hS hlt
  have hval : rbra_value opcode (2 ^ (k + 1) - 1) (2 ^ k)
      = if 2 ^ k ≤ opcode % 2 ^ (k + 1) then
          (2 ^ 32 - ((2 ^ (k + 1) - 1 - opcode % 2 ^ (k + 1)) + 1) % 2 ^ 32) % 2 ^ 32
        else opcode % 2 ^ (k + 1) := by
    unfold rbra_value
    simp only [h1, h3]
    by_cases hs : 2 ^ k ≤ opcode % 2 ^ (k + 1)
    · simp only [h2.2 hs, hs, if_true, ne_eq, not_false_eq_true]
    · have : ¬ (opcode % 2 ^ (k + 1) &&& 2 ^ k ≠ 0) := fun h => hs (h2.1 h)
      simp only [this, hs, if_false]
  have hdis : rbra_displacement opcode (k + 1)
      = if opcode % 2 ^ (k + 1) < 2 ^ k then ((opcode % 2 ^ (k + 1) : Nat) : Int)
        else ((opcode % 2 ^ (k + 1) : Nat) : Int) - ((2 ^ (k + 1) : Nat) : Int) := by
    unfold rbra_displacement
    simp only [Nat.add_sub_cancel]
    split_ifs <;> simp
  have hdst : gp_disassemble_rbra_dest A opcode (2 ^ (k + 1) - 1) (2 ^ k)
      = to_int ((A + to_unsigned ((if 2 ^ k ≤ opcode % 2 ^ (k + 1) then
          -(((2 ^ (k + 1) - 1 - opcode % 2 ^ (k + 1) : Nat) : Int) + 1)
          else ((opcode % 2 ^ (k + 1) : Nat) : Int)) * 2) + 2) % 2 ^ 32) := by
    unfold gp_disassemble_rbra_dest
    simp only [h1, h3]
    by_cases hs : 2 ^ k ≤ opcode % 2 ^ (k + 1)
    · simp only [h2.2 hs, hs, if_true, ne_eq, not_false_eq_true]
    · have : ¬ (opcode % 2 ^ (k + 1) &&& 2 ^ k ≠ 0) := fun h => hs (h2.1 h)
      simp only [this, hs, if_false]
  unfold rbra_decoded gp_disassemble_rbra_org rbra_dest_byte_addr
  rw [hval, hdis, hdst]
  exact ⟨c1, c2, c3, c4, by rw [c3]⟩

theorem rbra_displacement_11_bounds (opcode : Nat) :
    -1024 ≤ rbra_displacement opcode 11 ∧ rbra_displacement opcode 11 ≤ 1023 := by
  unfold rbra_displacement
  have := Nat.mod_lt opcode (show 0 < 2 ^ 11 by norm_num)
  split_ifs <;> constructor <;> omega

/-- The relative-branch cases of `gp_disassemble_find_labels` mark nothing or mark
the destination `rbra_dest_byte_addr`. -/
theorem find_labels_rbra_mark_dest (class_ : proc_class) (l : labels_locals)
    (A dest prog_max_org : Nat) (Type_ : addr_type_t) :
    (find_labels_rbra_mark class_ l A dest prog_max_org Type_).M = l.M ∨
    (find_labels_rbra_mark class_ l A dest prog_max_org Type_).M
      = mark_branch l.M A dest Type_ := by
  unfold find_labels_rbra_mark
  simp only []
  split_ifs
  · exact Or.inr rfl
  · exact Or.inl rfl

/-- C15: for every opcode of a relative-branch class at byte address `A`, the
displacement that `gp_disassemble_find_labels` decodes is the two's-complement
signed value `d` of the 8-, 9- or 11-bit field, the destination byte address is
`A + 2 * d + 2` (in the 32-bit arithmetic of the code, and exactly so as the
`int` that `gp_disassemble` passes on whenever `A + 2 * d + 2` is an `int`);
`gp_disassemble` computes the same destination and instruction address; the
destination that `gp_disassemble_find_labels` marks is this address; for
`RBRA11`, `-1024 ≤ d ≤ 1023`, the field `0x400` gives `-1024` and `0x3FF` gives
`1023`. -/
theorem rbra_destination (Class : proc_class) (A opcode : Nat) :
    rbra_decoded Class A opcode PIC16E_BMSK_RBRA8 0x80 8 ∧
    rbra_decoded Class A opcode PIC14E_BMSK_RBRA9 0x100 9 ∧
    rbra_decoded Class A opcode PIC16E_BMSK_RBRA11 0x400 11 ∧
    (∀ l prog_max_org icode,
      ((find_labels_rbra8 Class l A opcode prog_max_org).M = l.M ∨
        (find_labels_rbra8 Class l A opcode prog_max_org).M
          = mark_branch l.M A (rbra_dest_byte_addr A opcode PIC16E_BMSK_RBRA8 0x80)
              .W_ADDR_T_LABEL) ∧
      ((find_labels_rbra9 Class l A opcode prog_max_org).M = l.M ∨
        (find_labels_rbra9 Class l A opcode prog_max_org).M
          = mark_branch l.M A (rbra_dest_byte_addr A opcode PIC14E_BMSK_RBRA9 0x100)
              .W_ADDR_T_LABEL) ∧
      ((find_labels_rbra11 Class icode l A opcode prog_max_org).M = l.M ∨
        (find_labels_rbra11 Class icode l A opcode prog_max_org).M
          = mark_branch l.M A (rbra_dest_byte_addr A opcode PIC16E_BMSK_RBRA11 0x400)
              (if icode = .RCALL then .W_ADDR_T_FUNC else .W_ADDR_T_LABEL))) ∧
    (-1024 ≤ rbra_displacement opcode 11 ∧ rbra_displacement opcode 11 ≤ 1023) ∧
    rbra_displacement 0x400 11 = -1024 ∧ rbra_displacement 0x3FF 11 = 1023 := by
  refine ⟨rbra_decoded_gen 7 (by norm_num) Class A opcode,
    rbra_decoded_gen 8 (by norm_num) Class A opcode,
    rbra_decoded_gen 10 (by norm_num) Class A opcode, ?_,
    rbra_displacement_11_bounds opcode, by decide, by decide⟩
  intro l prog_max_org icode
  refine ⟨?_, ?_, ?_⟩
  · unfold find_labels_rbra8
    simp only []
    split_ifs
    · exact find_labels_rbra_mark_dest _ _ _ _ _ _
    · exact Or.inl rfl
  · exact find_labels_rbra_mark_dest _ _ _ _ _ _
  · unfold find_labels_rbra11
    simp only []
    split_ifs
    all_goals first
      | exact Or.inl rfl
      | exact find_labels_rbra_mark_dest _ _ _ _ _ _

theorem second_insn_word_eq (M : MemBlock_t) (A Mask : Nat) :
    second_insn_word M A Mask
      = match M.i_memory_get ((A + 2) % 2 ^ 32) with
        | none => none
        | some word => if (word % 2 ^ 16) &&& Mask = 0xF000 then some (word % 2 ^ 16) else none := by
  unfold second_insn_word PIC16E_BMSK_SEC_INSN_WORD
  rfl

/-- C16: with a known instruction set, `gp_disassemble_mark_false_addresses`
returns 2 and sets the second-word flag of the byte at `Byte_address + 2`
(changing nothing else) if the word at `Byte_address` decodes to a two-word
class (`LIT20`, `CALL20`, `FLIT12`, `FF`, `SF`, `SS`) and the next word is fully
used and carries the tag; in every other case it returns 1 and leaves the memory
map as it is. -/
theorem mark_false_addresses_spec (M : MemBlock_t) (Byte_address : Nat) (Processor : px)
    (find_insn : Nat → Option insn_t) (h : Processor.class_.find_insn = some find_insn) :
    (two_word_insn M Byte_address find_insn →
      gp_disassemble_mark_false_addresses M Byte_address Processor
        = (2, gp_mem_b_set_type_second_word M ((Byte_address + 2) % 2 ^ 32)) ∧
      (gp_disassemble_mark_false_addresses M Byte_address Processor).2.second_word
        ((Byte_address + 2) % 2 ^ 32) = true) ∧
    (¬ two_word_insn M Byte_address find_insn →
      gp_disassemble_mark_false_addresses M Byte_address Processor = (1, M)) := by
  have hset : (gp_mem_b_set_type_second_word M ((Byte_address + 2) % 2 ^ 32)).second_word
      ((Byte_address + 2) % 2 ^ 32) = true := by
    simp [gp_mem_b_set_type_second_word]
  have main : (two_word_insn M Byte_address find_insn →
      gp_disassemble_mark_false_addresses M Byte_address Processor
        = (2, gp_mem_b_set_type_second_word M ((Byte_address + 2) % 2 ^ 32))) ∧
    (¬ two_word_insn M Byte_address find_insn →
      gp_disassemble_mark_false_addresses M Byte_address Processor = (1, M)) := by
    unfold gp_disassemble_mark_false_addresses
    simp only [h, second_insn_word_eq, PIC16E_BMSK_SEC_INSN_WORD]
    constructor
    · rintro ⟨word, instruction, word2, h1, h2, h3, h4, h5⟩
      simp only [h1, h2, h4]
      simp only [List.mem_cons, List.mem_singleton, List.not_mem_nil, or_false] at h3
      rcases h3 with h3 | h3 | h3 | h3 | h3 | h3 <;> simp [h3] at h5 ⊢ <;> simp [h5]
    · intro hn
      cases h1 : M.i_memory_get Byte_address with
      | none => rfl
      | some word =>
        simp only []
        cases h2 : find_insn (word % 2 ^ 16) with
        | none => rfl
        | some instruction =>
          simp only []
          cases h4 : M.i_memory_get ((Byte_address + 2) % 2 ^ 32) with
          | none => cases instruction.class_ <;> rfl
          | some word2 =>
            have key : instruction.class_ ∈ [insn_class.LIT20, .CALL20, .FLIT12, .FF, .SF, .SS] →
                ¬ ((word2 % 2 ^ 16) &&& (if instruction.class_ = .SS then 0xFF80 else 0xF000)
                    = 0xF000) :=
              fun hc h5 => hn ⟨word, instruction, word2, h1, h2, hc, h4, h5⟩
            cases hc : instruction.class_ <;> simp only [] <;>
              first
              | rfl
              | (have key2 := key (by simp [hc]); simp [hc] at key2; simp [key2])
  exact ⟨fun ht => ⟨main.1 ht, by rw [main.1 ht]; exact hset⟩, main.2⟩

/-- C16, an instance: a PIC16E `movff` (words `0xC123`, `0xF456`) at byte
address 0. -/
theorem mark_false_addresses_spec_witness :
    (example_px .PIC16E 1 ⟨.FF, .OTHER⟩ 0x8000).class_.find_insn
      = some (fun _ => some ⟨.FF, .OTHER⟩) ∧
    (gp_disassemble_mark_false_addresses (example_map [(0, 0xC123), (2, 0xF456)] []) 0
        (example_px .PIC16E 1 ⟨.FF, .OTHER⟩ 0x8000)).1 = 2 ∧
    (gp_disassemble_mark_false_addresses (example_map [(0, 0xC123), (2, 0xF456)] []) 0
        (example_px .PIC16E 1 ⟨.FF, .OTHER⟩ 0x8000)).2.second_word 2 = true :=
  ⟨rfl,
    congrArg Prod.fst ((mark_false_addresses_spec (example_map [(0, 0xC123), (2, 0xF456)] []) 0
      (example_px .PIC16E 1 ⟨.FF, .OTHER⟩ 0x8000) _ rfl).1
      ⟨0xC123, ⟨.FF, .OTHER⟩, 0xF456, rfl, rfl, by decide, rfl, by decide⟩).1,
    ((mark_false_addresses_spec (example_map [(0, 0xC123), (2, 0xF456)] []) 0
      (example_px .PIC16E 1 ⟨.FF, .OTHER⟩ 0x8000) _ rfl).1
      ⟨0xC123, ⟨.FF, .OTHER⟩, 0xF456, rfl, rfl, by decide, rfl, by decide⟩).2⟩

/-! ## The disassembler: the register state -/

/-- C17 (the code diverges from the claim): when `WREG` is known (`wreg ≥ 0`) as
`gp_disassemble_find_registers` reaches the `switch`, a `movlw k` leaves the
tracked `WREG` as it was, because the case `INSN_CLASS_LIT8` tests
`Fstate->wreg >= 0` before it tests `ICODE_MOVLW`; only an unknown `WREG`
becomes `k`.  `gp_disassemble_find_labels` sets `WREG` to `k` in the classes in
which it tracks it (PIC14, PIC14E, PIC14EX, PIC16). -/
theorem find_registers_movlw_keeps_known_wreg (K : gpopcode_masks) (M : MemBlock_t)
    (Byte_address : Nat) (Processor : px) (Fstate : gpdasm_fstate_t)
    (find_insn : Nat → Option insn_t) (word : Nat)
    (hf : Processor.class_.find_insn = some find_insn)
    (hw : M.i_memory_get Byte_address = some word)
    (hi : find_insn (word % 2 ^ 16) = some ⟨.LIT8, .MOVLW⟩) :
    (0 ≤ (find_registers_enter M Byte_address Fstate).wreg →
      (gp_disassemble_find_registers K M Byte_address Processor Fstate).2.wreg
        = (find_registers_enter M Byte_address Fstate).wreg) ∧
    ((find_registers_enter M Byte_address Fstate).wreg < 0 →
      (gp_disassemble_find_registers K M Byte_address Processor Fstate).2.wreg
        = (((word % 2 ^ 16) &&& 0xff : Nat) : Int)) ∧
    (Processor.class_.id ∈ [proc_class_id.PIC14, .PIC14E, .PIC14EX, .PIC16] →
      (gp_disassemble_find_labels K M Byte_address Processor Fstate).2.2.wreg
        = (((word % 2 ^ 16) &&& 0xff : Nat) : Int)) := by
  have hlt : (word % 2 ^ 16) &&& 0xff < 256 := Nat.lt_of_le_of_lt Nat.and_le_right (by norm_num)
  have hint : to_int ((word % 2 ^ 16) &&& 0xff) = (((word % 2 ^ 16) &&& 0xff : Nat) : Int) := by
    unfold to_int
    have : ((word % 2 ^ 16) &&& 0xff) % 2 ^ 32 = (word % 2 ^ 16) &&& 0xff :=
      Nat.mod_eq_of_lt (by omega)
    rw [this]
    rw [if_pos (by omega)]
  refine ⟨?_, ?_, ?_⟩
  · intro h0
    simp only [gp_disassemble_find_registers, hf, hw, hi, find_registers_switch,
      find_registers_lit8]
    simp [h0]
  · intro h0
    have h0' : ¬ (0 ≤ (find_registers_enter M Byte_address Fstate).wreg) := by omega
    simp only [gp_disassemble_find_registers, hf, hw, hi, find_registers_switch,
      find_registers_lit8]
    simp [h0']
    simpa using hint
  · intro hc
    simp only [List.mem_cons, List.mem_singleton, List.not_mem_nil, or_false] at hc
    simp only [gp_disassemble_find_labels, hf, hw, hi, find_labels_switch, find_labels_lit8]
    simp [hc]
    simpa using hint

/-- C17, the failing input: PIC14, `WREG` known to be 5, `movlw 0x12` (opcode
`0x3012`) at byte address 0. -/
theorem find_registers_movlw_keeps_known_wreg_witness :
    (gp_disassemble_find_registers example_masks (example_map [(0, 0x3012)] []) 0
        (example_px .PIC14 1 ⟨.LIT8, .MOVLW⟩ 0x800) (example_fstate 5 0)).2.wreg = 5 ∧
    (gp_disassemble_find_labels example_masks (example_map [(0, 0x3012)] []) 0
        (example_px .PIC14 1 ⟨.LIT8, .MOVLW⟩ 0x800) (example_fstate 5 0)).2.2.wreg = 0x12 :=
  ⟨(find_registers_movlw_keeps_known_wreg example_masks (example_map [(0, 0x3012)] []) 0
      (example_px .PIC14 1 ⟨.LIT8, .MOVLW⟩ 0x800) (example_fstate 5 0) _ 0x3012 rfl rfl rfl).1
      (by decide),
    (find_registers_movlw_keeps_known_wreg example_masks (example_map [(0, 0x3012)] []) 0
      (example_px .PIC14 1 ⟨.LIT8, .MOVLW⟩ 0x800) (example_fstate 5 0) _ 0x3012 rfl rfl rfl).2.2
      (by decide)⟩

/-- C18 (amended): `gp_disassemble_find_registers` moves `WREG` into the bank
register only for the PIC16 `movwf BSR` (class `OPF8`): with the `WREG` that
reaches the `switch` known to be `w` the bank becomes `w` with the validity mask
`0xff`, with `WREG` unknown the bank becomes invalid.  For PIC14E and PIC14EX
(class `OPF7`, file `PIC14E_REG_BSR`) and for PIC16E (class `OPFA8`, register
address `PIC16E_REG_BSR`) a `movwf BSR` makes the bank invalid whatever `WREG`
is, and leaves the bank value as it was. -/
theorem movwf_bsr_bank (K : gpopcode_masks) (M : MemBlock_t) (Byte_address : Nat)
    (Processor : px) (Fstate : gpdasm_fstate_t) (find_insn : Nat → Option insn_t) (word : Nat)
    (hf : Processor.class_.find_insn = some find_insn)
    (hw : M.i_memory_get Byte_address = some word) :
    (find_insn (word % 2 ^ 16) = some ⟨.OPF8, .MOVWF⟩ →
      (word % 2 ^ 16) &&& K.PIC16_BMSK_FILE = PIC16_REG_BSR →
      (0 ≤ (find_registers_enter M Byte_address Fstate).wreg →
        (gp_disassemble_find_registers K M Byte_address Processor Fstate).2.bank
          = (find_registers_enter M Byte_address Fstate).wreg ∧
        (gp_disassemble_find_registers K M Byte_address Processor Fstate).2.bank_valid = 0xff) ∧
      ((find_registers_enter M Byte_address Fstate).wreg < 0 →
        (gp_disassemble_find_registers K M Byte_address Processor Fstate).2.bank_valid = 0)) ∧
    (find_insn (word % 2 ^ 16) = some ⟨.OPF7, .MOVWF⟩ →
      Processor.class_.id ≠ .PIC14 →
      (word % 2 ^ 16) &&& K.PIC14_BMSK_FILE = PIC14E_REG_BSR →
      (gp_disassemble_find_registers K M Byte_address Processor Fstate).2.bank_valid = 0 ∧
      (gp_disassemble_find_registers K M Byte_address Processor Fstate).2.bank
        = Fstate.bank) ∧
    (find_insn (word % 2 ^ 16) = some ⟨.OPFA8, .MOVWF⟩ →
      _pic16e_reg_eval (find_registers_enter M Byte_address Fstate)
        ((word % 2 ^ 16) &&& K.PIC16_BMSK_FILE) ((word % 2 ^ 16) &&& 0x100 ≠ 0)
        = (PIC16E_REG_BSR : Int) →
      (gp_disassemble_find_registers K M Byte_address Processor Fstate).2.bank_valid = 0 ∧
      (gp_disassemble_find_registers K M Byte_address Processor Fstate).2.bank
        = Fstate.bank) := by
  have hbank : (find_registers_enter M Byte_address Fstate).bank = Fstate.bank := by
    unfold find_registers_enter
    split_ifs <;> rfl
  simp only [Nat.reducePow]
  refine ⟨?_, ?_, ?_⟩
  · intro hi hfile
    simp only [gp_disassemble_find_registers, hf, hw, Nat.reducePow, hi, find_registers_switch]
    constructor
    · intro h0
      simp [hfile, h0]
    · intro h0
      have h0' : ¬ (0 ≤ (find_registers_enter M Byte_address Fstate).wreg) := by omega
      simp [hfile, h0']
  · intro hi hid hfile
    simp only [gp_disassemble_find_registers, hf, hw, Nat.reducePow, hi, find_registers_switch,
      find_registers_opf7]
    simp [hfile, hid, hbank]
  · intro hi haddr
    simp only [gp_disassemble_find_registers, hf, hw, Nat.reducePow, hi, find_registers_switch,
      find_registers_opfa8]
    simp only [ne_eq, decide_not] at haddr ⊢
    simp [haddr, hbank]

/-- C18, an instance of each case: PIC16 `movwf BSR` (opcode `0x010F`) with `WREG`
known to be 3 makes the bank 3 with the mask `0xff`. -/
theorem movwf_bsr_bank_witness :
    (gp_disassemble_find_registers example_masks (example_map [(0, 0x010F)] []) 0
        (example_px .PIC16 1 ⟨.OPF8, .MOVWF⟩ 0x800) (example_fstate 3 0)).2.bank = 3 ∧
    (gp_disassemble_find_registers example_masks (example_map [(0, 0x010F)] []) 0
        (example_px .PIC16 1 ⟨.OPF8, .MOVWF⟩ 0x800) (example_fstate 3 0)).2.bank_valid = 0xff :=
  ((movwf_bsr_bank example_masks (example_map [(0, 0x010F)] []) 0
      (example_px .PIC16 1 ⟨.OPF8, .MOVWF⟩ 0x800) (example_fstate 3 0) _ 0x010F rfl rfl).1
      rfl (by decide)).1 (by decide)

/-- C18, a counterexample to the claim as stated: on a PIC14E, `movwf BSR` (opcode
`0x0088`) at byte address 0 with `WREG` known to be 3 and the bank known to be 0
leaves the bank value 0 and makes the bank invalid; the bank does not become
3. -/
theorem movwf_bsr_pic14e_invalidates :
    (example_fstate 3 0).wreg = 3 ∧
    (gp_disassemble_find_registers example_masks (example_map [(0, 0x0088)] []) 0
        (example_px .PIC14E 1 ⟨.OPF7, .MOVWF⟩ 0x800) (example_fstate 3 0)).2.bank = 0 ∧
    (gp_disassemble_find_registers example_masks (example_map [(0, 0x0088)] []) 0
        (example_px .PIC14E 1 ⟨.OPF7, .MOVWF⟩ 0x800) (example_fstate 3 0)).2.bank_valid = 0 ∧
    (gp_disassemble_find_registers example_masks (example_map [(0, 0x6EE0)] []) 0
        (example_px .PIC16E 1 ⟨.OPFA8, .MOVWF⟩ 0x8000) (example_fstate 3 0)).2.bank = 0 ∧
    (gp_disassemble_find_registers example_masks (example_map [(0, 0x6EE0)] []) 0
        (example_px .PIC16E 1 ⟨.OPFA8, .MOVWF⟩ 0x8000) (example_fstate 3 0)).2.bank_valid = 0 := by
  decide

/-- The state `Fstate` with the knowledge of `WREG` and of the bank discarded. -/
theorem find_registers_enter_marked (M : MemBlock_t) (Byte_address : Nat)
    (Fstate : gpdasm_fstate_t) (h0 : 0 < Byte_address)
    (hm : M.func Byte_address = true ∨ M.label Byte_address = true) :
    find_registers_enter M Byte_address Fstate = { Fstate with wreg := -1, bank_valid := 0 } := by
  unfold find_registers_enter addr_type_masked
  have : (M.branch_src Byte_address || M.func Byte_address || M.label Byte_address) = true := by
    rcases hm with h | h <;> simp [h]
  rw [if_pos ⟨h0, this⟩]

/-- C19 (amended): at a byte address other than 0 that is marked as a function
entry or as a label, `gp_disassemble_find_registers` interprets a decodable
instruction in the state whose `WREG` is unknown (`-1`) and whose bank is
invalid; and whatever the address and the incoming state, after an instruction
with the icode `CALL` or `RCALL` in a branch class, and after a two-word call
(class `CALL20`), `WREG` is `-1` and `bank_valid` is 0. -/
theorem find_registers_discards (K : gpopcode_masks) (M : MemBlock_t) (Byte_address : Nat)
    (Processor : px) (Fstate : gpdasm_fstate_t) (find_insn : Nat → Option insn_t) (word : Nat)
    (instruction : insn_t)
    (hf : Processor.class_.find_insn = some find_insn)
    (hw : M.i_memory_get Byte_address = some word)
    (hi : find_insn (word % 2 ^ 16) = some instruction) :
    (0 < Byte_address → (M.func Byte_address = true ∨ M.label Byte_address = true) →
      gp_disassemble_find_registers K M Byte_address Processor Fstate
        = find_registers_switch K M Processor.class_ instruction
            { Fstate with wreg := -1, bank_valid := 0 } Byte_address (word % 2 ^ 16)) ∧
    (instruction.class_ ∈ [insn_class.LIT8C12, .LIT8C16, .LIT9, .LIT11, .LIT13, .RBRA8,
        .RBRA9, .RBRA11] →
      (instruction.icode = .CALL ∨ instruction.icode = .RCALL) →
      (gp_disassemble_find_registers K M Byte_address Processor Fstate).2.wreg = -1 ∧
      (gp_disassemble_find_registers K M Byte_address Processor Fstate).2.bank_valid = 0) ∧
    (instruction.class_ = .CALL20 →
      (gp_disassemble_find_registers K M Byte_address Processor Fstate).2.wreg = -1 ∧
      (gp_disassemble_find_registers K M Byte_address Processor Fstate).2.bank_valid = 0) := by
  simp only [Nat.reducePow] at hi ⊢
  refine ⟨?_, ?_, ?_⟩
  · intro h0 hm
    simp only [gp_disassemble_find_registers, hf, hw, Nat.reducePow, hi,
      find_registers_enter_marked M Byte_address Fstate h0 hm]
  · intro hc hic
    have hic' : (instruction.icode = .CALL ∨ instruction.icode = .RCALL) = True := eq_true hic
    simp only [List.mem_cons, List.mem_singleton, List.not_mem_nil, or_false] at hc
    simp only [gp_disassemble_find_registers, hf, hw, Nat.reducePow, hi, find_registers_switch]
    rcases hc with hc | hc | hc | hc | hc | hc | hc | hc <;> simp [hc, hic']
  · intro hc
    simp only [gp_disassemble_find_registers, hf, hw, Nat.reducePow, hi, find_registers_switch]
    simp [hc]

/-- C19, an instance: at byte address 4, marked as a label, a `nop` is
interpreted with `WREG` and the bank discarded. -/
theorem find_registers_discards_witness :
    (gp_disassemble_find_registers example_masks (example_map [(4, 0)] [4]) 4
        (example_px .PIC14 1 ⟨.IMPLICIT, .OTHER⟩ 0x800) (example_fstate 5 1)).2.wreg = -1 ∧
    (gp_disassemble_find_registers example_masks (example_map [(4, 0)] [4]) 4
        (example_px .PIC14 1 ⟨.IMPLICIT, .OTHER⟩ 0x800) (example_fstate 5 1)).2.bank_valid = 0 := by
  have h := (find_registers_discards example_masks (example_map [(4, 0)] [4]) 4
      (example_px .PIC14 1 ⟨.IMPLICIT, .OTHER⟩ 0x800) (example_fstate 5 1) _ 0
      ⟨.IMPLICIT, .OTHER⟩ rfl rfl rfl).1 (by decide) (Or.inr rfl)
  rw [h]
  exact ⟨rfl, rfl⟩

/-- C19, a counterexample to the claim as stated: at byte address 0, marked as a
label, `gp_disassemble_find_registers` keeps the incoming `WREG` (5) and the
validity of the bank (`0xff`) while it interprets a `nop`: the head of the
function tests `Byte_address > 0`. -/
theorem find_registers_keeps_state_at_zero :
    (example_map [(0, 0)] [0]).label 0 = true ∧
    (gp_disassemble_find_registers example_masks (example_map [(0, 0)] [0]) 0
        (example_px .PIC14 1 ⟨.IMPLICIT, .OTHER⟩ 0x800) (example_fstate 5 1)).2.wreg = 5 ∧
    (gp_disassemble_find_registers example_masks (example_map [(0, 0)] [0]) 0
        (example_px .PIC14 1 ⟨.IMPLICIT, .OTHER⟩ 0x800) (example_fstate 5 1)).2.bank_valid
      = 0xff := by
  decide

/-- C20 (the code diverges from the claim): the case `INSN_CLASS_LIT9` (PIC12 and
SX `goto`) of `gp_disassemble_find_labels` marks nothing or marks the
destination with `W_ADDR_T_FUNC`, whatever the icode; it never marks it with
`W_ADDR_T_LABEL`.  For the PIC12 `goto 5` (opcode `0x0A05`) at byte address 0 the
source is marked as a branch source with the destination byte address 10, and
byte 10 is marked as a function entry and not as a label.  The sibling case
`INSN_CLASS_LIT11` marks a `goto` destination with `W_ADDR_T_LABEL`. -/
theorem find_labels_lit9_marks_func (K : gpopcode_masks) (class_ : proc_class)
    (l : labels_locals) (Byte_address opcode prog_max_org : Nat) :
    ((find_labels_lit9 K class_ l Byte_address opcode prog_max_org).M = l.M ∨
      ∃ dest_byte_addr,
        (find_labels_lit9 K class_ l Byte_address opcode prog_max_org).M
          = mark_branch l.M Byte_address dest_byte_addr .W_ADDR_T_FUNC) ∧
    (gp_disassemble_find_labels example_masks (example_map [(0, 0x0A05)] []) 0
        (example_px .PIC12 1 ⟨.LIT9, .GOTO⟩ 0x200) (example_fstate 0 0)).2.1.branch_src 0
      = true ∧
    (gp_disassemble_find_labels example_masks (example_map [(0, 0x0A05)] []) 0
        (example_px .PIC12 1 ⟨.LIT9, .GOTO⟩ 0x200) (example_fstate 0 0)).2.1.dest_byte_addr 0
      = 10 ∧
    (gp_disassemble_find_labels example_masks (example_map [(0, 0x0A05)] []) 0
        (example_px .PIC12 1 ⟨.LIT9, .GOTO⟩ 0x200) (example_fstate 0 0)).2.1.func 10 = true ∧
    (gp_disassemble_find_labels example_masks (example_map [(0, 0x0A05)] []) 0
        (example_px .PIC12 1 ⟨.LIT9, .GOTO⟩ 0x200) (example_fstate 0 0)).2.1.label 10 = false ∧
    (gp_disassemble_find_labels example_masks (example_map [(0, 0x2805)] []) 0
        (example_px .PIC14 1 ⟨.LIT11, .GOTO⟩ 0x800) (example_fstate 0 0)).2.1.label 10 = true ∧
    (gp_disassemble_find_labels example_masks (example_map [(0, 0x2805)] []) 0
        (example_px .PIC14 1 ⟨.LIT11, .GOTO⟩ 0x800) (example_fstate 0 0)).2.1.func 10 = false := by
  refine ⟨?_, by decide, by decide, by decide, by decide, by decide, by decide⟩
  unfold find_labels_lit9
  cases paged_dst_org l prog_max_org (opcode &&& K.PIC12_BMSK_GOTO) K.PIC12_BMSK_GOTO
      (PIC12_PAGE_BITS K) with
  | none => exact Or.inl rfl
  | some dst_org =>
    simp only []
    split_ifs
    · exact Or.inr ⟨_, rfl⟩
    · exact Or.inl rfl

/-! ## The COFF writer: auxiliary records -/

theorem length_gp_fputl16 (data : Nat) : (gp_fputl16 data).length = 2 := rfl

theorem length_gp_fputzero (n : Nat) : (gp_fputzero n).length = n := by
  simp [gp_fputzero]

/-- C12 (amended): every auxiliary record of the variants `AUX_DIRECT`, `AUX_FILE`,
`AUX_IDENT` and `AUX_SECTION` that `_write_aux_symbols` writes occupies 20 bytes
in the v2 format and 18 bytes in the v1 format; the raw fallback writes the
first `SYMBOL_SIZE_v2` or `SYMBOL_SIZE_v1` bytes of the record's data.  The
record is written exactly when `_add_string` returns for its string (always for
`AUX_SECTION` and for the raw fallback). -/
theorem aux_record_size (K : gpcoff_h) (Aux : gp_aux_t) (st : StringTable) (Isnew : Bool) :
    (∀ out st1, write_aux_symbol K Aux st Isnew = some (out, st1) →
      (Aux.is_named = true → out.length = if Isnew then 20 else 18) ∧
      (∀ data, Aux = .AUX_OTHER data →
        out = data.take (if Isnew then K.SYMBOL_SIZE_v2 else K.SYMBOL_SIZE_v1))) ∧
    (write_aux_symbol K Aux st Isnew).isSome
      = (match Aux with
        | .AUX_DIRECT _ string => (add_string_ptr string st).isSome
        | .AUX_FILE filename _ _ => (add_string_ptr filename st).isSome
        | .AUX_IDENT string => (add_string_ptr string st).isSome
        | _ => true) := by
  cases Aux with
  | AUX_DIRECT command string =>
    cases h : add_string_ptr string st with
    | none => simp [write_aux_symbol, h]
    | some p =>
      obtain ⟨offset, st1⟩ := p
      refine ⟨?_, by simp [write_aux_symbol, h]⟩
      intro out st2 ho
      simp only [write_aux_symbol, h, Option.some.injEq, Prod.mk.injEq] at ho
      obtain ⟨ho, -⟩ := ho
      subst ho
      refine ⟨fun _ => ?_, fun data hd => by cases hd⟩
      cases Isnew <;> simp [length_gp_fputl32, length_gp_fputzero]
  | AUX_FILE filename line_number flags =>
    cases h : add_string_ptr filename st with
    | none => simp [write_aux_symbol, h]
    | some p =>
      obtain ⟨offset, st1⟩ := p
      refine ⟨?_, by simp [write_aux_symbol, h]⟩
      intro out st2 ho
      simp only [write_aux_symbol, h, Option.some.injEq, Prod.mk.injEq] at ho
      obtain ⟨ho, -⟩ := ho
      subst ho
      refine ⟨fun _ => ?_, fun data hd => by cases hd⟩
      cases Isnew <;> simp [length_gp_fputl32, length_gp_fputzero]
  | AUX_IDENT string =>
    cases h : add_string_ptr string st with
    | none => simp [write_aux_symbol, h]
    | some p =>
      obtain ⟨offset, st1⟩ := p
      refine ⟨?_, by simp [write_aux_symbol, h]⟩
      intro out st2 ho
      simp only [write_aux_symbol, h, Option.some.injEq, Prod.mk.injEq] at ho
      obtain ⟨ho, -⟩ := ho
      subst ho
      refine ⟨fun _ => ?_, fun data hd => by cases hd⟩
      cases Isnew <;> simp [length_gp_fputl32, length_gp_fputzero]
  | AUX_SECTION length nreloc nlineno =>
    unfold write_aux_symbol
    refine ⟨?_, by simp⟩
    intro out st2 ho
    simp only [Option.some.injEq, Prod.mk.injEq] at ho
    obtain ⟨ho, -⟩ := ho
    subst ho
    refine ⟨fun _ => ?_, fun data hd => by cases hd⟩
    cases Isnew <;> simp [length_gp_fputl32, length_gp_fputl16, length_gp_fputzero]
  | AUX_OTHER data =>
    unfold write_aux_symbol
    refine ⟨?_, by simp⟩
    intro out st2 ho
    simp only [Option.some.injEq, Prod.mk.injEq] at ho
    obtain ⟨ho, -⟩ := ho
    subst ho
    refine ⟨fun hn => by simp [gp_aux_t.is_named] at hn, fun d hd => ?_⟩
    cases hd
    rfl

/-- C12, a counterexample to the claim as stated: the `AUX_DIRECT` record with the
command 1 and the string "a", written to an empty table, takes 20 bytes in the
v2 format and 18 bytes in the v1 format (not 18 and 16), and so does an
`AUX_SECTION` record. -/
theorem aux_record_is_20_or_18_bytes :
    (∃ out st1, write_aux_symbol example_gpcoff (.AUX_DIRECT 1 (some [97])) example_table true
        = some (out, st1) ∧ out.length = 20) ∧
    (∃ out st1, write_aux_symbol example_gpcoff (.AUX_DIRECT 1 (some [97])) example_table false
        = some (out, st1) ∧ out.length = 18) ∧
    (∃ out st1, write_aux_symbol example_gpcoff (.AUX_SECTION 6 1 2) example_table true
        = some (out, st1) ∧ out.length = 20) ∧
    (∃ out st1, write_aux_symbol example_gpcoff (.AUX_SECTION 6 1 2) example_table false
        = some (out, st1) ∧ out.length = 18) :=
  ⟨⟨_, _, rfl, rfl⟩, ⟨_, _, rfl, rfl⟩, ⟨_, _, rfl, rfl⟩, ⟨_, _, rfl, rfl⟩⟩

/-! ## The COFF writer: `_update_pointers` -/

theorem has_data_core (K : gpcoff_h) (s : coff_section) : has_data K s.core = has_data K s := rfl

theorem update_data_ptrs_core (K : gpcoff_h) :
    ∀ (secs : List coff_section) (n idx : Nat),
      (update_data_ptrs K n idx secs).1.map coff_section.core = secs.map coff_section.core := by
  intro secs
  induction secs with
  | nil => intro n idx; rfl
  | cons s rest ih =>
    intro n idx
    unfold update_data_ptrs
    simp only []
    split_ifs
    · simp only [List.map_cons, ih]
      rfl
    · simp only [List.map_cons, ih]
      rfl

theorem update_reloc_ptrs_core (K : gpcoff_h) :
    ∀ (secs : List coff_section) (idx : Nat),
      (update_reloc_ptrs K idx secs).1.map coff_section.core = secs.map coff_section.core := by
  intro secs
  induction secs with
  | nil => intro idx; rfl
  | cons s rest ih =>
    intro idx
    unfold update_reloc_ptrs
    split_ifs
    · simp only [List.map_cons, ih]
      rfl
    · simp only [List.map_cons, ih]
      rfl

theorem update_lineno_ptrs_core (K : gpcoff_h) :
    ∀ (secs : List coff_section) (idx : Nat),
      (update_lineno_ptrs K idx secs).1.map coff_section.core = secs.map coff_section.core := by
  intro secs
  induction secs with
  | nil => intro idx; rfl
  | cons s rest ih =>
    intro idx
    unfold update_lineno_ptrs
    split_ifs
    · simp only [List.map_cons, ih]
      rfl
    · simp only [List.map_cons, ih]
      rfl

theorem update_symbol_numbers_core :
    ∀ (syms : List gp_symbol_t) (n : Nat),
      (update_symbol_numbers n syms).map gp_symbol_t.core = syms.map gp_symbol_t.core := by
  intro syms
  induction syms with
  | nil => intro n; rfl
  | cons s rest ih =>
    intro n
    unfold update_symbol_numbers
    simp only [List.map_cons, ih]
    rfl

/-- `_update_pointers` changes nothing but the pointers and the numbers. -/
theorem update_pointers_core (K : gpcoff_h) (Object : gp_object_t) :
    (_update_pointers K Object).section_list.map coff_section.core
      = Object.section_list.map coff_section.core ∧
    (_update_pointers K Object).symbol_list.map gp_symbol_t.core
      = Object.symbol_list.map gp_symbol_t.core ∧
    (_update_pointers K Object).isnew = Object.isnew ∧
    (_update_pointers K Object).num_symbols = Object.num_symbols ∧
    (_update_pointers K Object).coff_type = Object.coff_type ∧
    (_update_pointers K Object).org_to_byte_shift = Object.org_to_byte_shift ∧
    (_update_pointers K Object).section_list_num_nodes = Object.section_list_num_nodes := by
  refine ⟨?_, update_symbol_numbers_core _ _, rfl, rfl, rfl, rfl, rfl⟩
  unfold _update_pointers
  simp only [update_lineno_ptrs_core, update_reloc_ptrs_core, update_data_ptrs_core]

theorem update_data_ptrs_map {α : Type} (K : gpcoff_h) (f : coff_section → α)
    (hf : ∀ s n p, f { s with number := n, hdr := { s.hdr with data_ptr := p } } = f s) :
    ∀ (secs : List coff_section) (n idx : Nat),
      (update_data_ptrs K n idx secs).1.map f = secs.map f := by
  intro secs
  induction secs with
  | nil => intro n idx; rfl
  | cons s rest ih =>
    intro n idx
    unfold update_data_ptrs
    simp only []
    split_ifs
    · simp only [List.map_cons, ih]
      congr 1
      exact hf s n idx
    · simp only [List.map_cons, ih]
      congr 1
      exact hf s n 0

theorem update_reloc_ptrs_map {α : Type} (K : gpcoff_h) (f : coff_section → α)
    (hf : ∀ s p, f { s with hdr := { s.hdr with reloc_ptr := p } } = f s) :
    ∀ (secs : List coff_section) (idx : Nat),
      (update_reloc_ptrs K idx secs).1.map f = secs.map f := by
  intro secs
  induction secs with
  | nil => intro idx; rfl
  | cons s rest ih =>
    intro idx
    unfold update_reloc_ptrs
    split_ifs <;> simp only [List.map_cons, ih, hf]

theorem update_lineno_ptrs_map {α : Type} (K : gpcoff_h) (f : coff_section → α)
    (hf : ∀ s p, f { s with hdr := { s.hdr with lineno_ptr := p } } = f s) :
    ∀ (secs : List coff_section) (idx : Nat),
      (update_lineno_ptrs K idx secs).1.map f = secs.map f := by
  intro secs
  induction secs with
  | nil => intro idx; rfl
  | cons s rest ih =>
    intro idx
    unfold update_lineno_ptrs
    split_ifs <;> simp only [List.map_cons, ih, hf]

/-- The first loop of `_update_pointers`, when nothing wraps. -/
theorem update_data_ptrs_spec (K : gpcoff_h) :
    ∀ (secs : List coff_section) (n idx : Nat),
      idx + (secs.map (data_size K)).sum < 2 ^ 32 →
      (update_data_ptrs K n idx secs).2 = idx + (secs.map (data_size K)).sum ∧
      (update_data_ptrs K n idx secs).1.map (fun s => s.hdr.data_ptr)
        = assigned_ptrs idx (secs.map (fun s => (has_data K s, data_size K s))) := by
  intro secs
  induction secs with
  | nil => intro n idx _; exact ⟨rfl, rfl⟩
  | cons s rest ih =>
    intro n idx h
    simp only [List.map_cons, List.sum_cons] at h
    unfold update_data_ptrs
    simp only []
    have hd : has_data K { s with number := n, hdr := { s.hdr with data_ptr := 0 } }
        = has_data K s := rfl
    rw [hd]
    by_cases hs : has_data K s = true
    · have hsz : data_size K s = s.hdr.size := by simp [data_size, hs]
      rw [hsz] at h
      have hmod : (idx + s.hdr.size) % 2 ^ 32 = idx + s.hdr.size := Nat.mod_eq_of_lt (by omega)
      obtain ⟨i1, i2⟩ := ih ((n + 1) % 2 ^ 32) (idx + s.hdr.size) (by omega)
      simp only [hs, if_true, hmod, List.map_cons, List.sum_cons, assigned_ptrs, hsz]
      exact ⟨by rw [i1]; omega, by rw [i2]⟩
    · have hs' : has_data K s = false := by simpa using hs
      have hsz : data_size K s = 0 := by simp [data_size, hs']
      rw [hsz] at h
      obtain ⟨i1, i2⟩ := ih ((n + 1) % 2 ^ 32) idx (by omega)
      simp only [hs', Bool.false_eq_true, if_false, List.map_cons, List.sum_cons, assigned_ptrs,
        hsz]
      exact ⟨by rw [i1]; omega, by rw [i2, Nat.add_zero]⟩

/-- The second loop of `_update_pointers`, when nothing wraps. -/
theorem update_reloc_ptrs_spec (K : gpcoff_h) :
    ∀ (secs : List coff_section) (idx : Nat),
      idx + (secs.map (reloc_size K)).sum < 2 ^ 32 →
      (update_reloc_ptrs K idx secs).2 = idx + (secs.map (reloc_size K)).sum ∧
      (update_reloc_ptrs K idx secs).1.map (fun s => s.hdr.reloc_ptr)
        = assigned_ptrs idx (secs.map (fun s =>
            (decide (s.hdr.relocation_list_num_nodes > 0), reloc_size K s))) := by
  intro secs
  induction secs with
  | nil => intro idx _; exact ⟨rfl, rfl⟩
  | cons s rest ih =>
    intro idx h
    simp only [List.map_cons, List.sum_cons] at h
    unfold update_reloc_ptrs
    by_cases hs : s.hdr.relocation_list_num_nodes > 0
    · have hmod : (idx + s.hdr.relocation_list_num_nodes * K.RELOC_SIZ) % 2 ^ 32
          = idx + reloc_size K s := Nat.mod_eq_of_lt (by unfold reloc_size at h; omega)
      obtain ⟨i1, i2⟩ := ih (idx + reloc_size K s) (by omega)
      simp only [hs, if_true, hmod, List.map_cons, List.sum_cons, assigned_ptrs, decide_True]
      exact ⟨by rw [i1]; omega, by rw [i2]⟩
    · have hsz : reloc_size K s = 0 := by
        unfold reloc_size
        have : s.hdr.relocation_list_num_nodes = 0 := by omega
        rw [this, Nat.zero_mul]
      rw [hsz] at h
      obtain ⟨i1, i2⟩ := ih idx (by omega)
      simp only [hs, if_false, List.map_cons, List.sum_cons, assigned_ptrs, hsz, decide_False]
      exact ⟨by rw [i1]; omega, by rw [i2]; simp⟩

/-- The third loop of `_update_pointers`, when nothing wraps. -/
theorem update_lineno_ptrs_spec (K : gpcoff_h) :
    ∀ (secs : List coff_section) (idx : Nat),
      idx + (secs.map (lineno_size K)).sum < 2 ^ 32 →
      (update_lineno_ptrs K idx secs).2 = idx + (secs.map (lineno_size K)).sum ∧
      (update_lineno_ptrs K idx secs).1.map (fun s => s.hdr.lineno_ptr)
        = assigned_ptrs idx (secs.map (fun s =>
            (decide (s.hdr.line_number_list_num_nodes > 0), lineno_size K s))) := by
  intro secs
  induction secs with
  | nil => intro idx _; exact ⟨rfl, rfl⟩
  | cons s rest ih =>
    intro idx h
    simp only [List.map_cons, List.sum_cons] at h
    unfold update_lineno_ptrs
    by_cases hs : s.hdr.line_number_list_num_nodes > 0
    · have hmod : (idx + s.hdr.line_number_list_num_nodes * K.LINENO_SIZ) % 2 ^ 32
          = idx + lineno_size K s := Nat.mod_eq_of_lt (by unfold lineno_size at h; omega)
      obtain ⟨i1, i2⟩ := ih (idx + lineno_size K s) (by omega)
      simp only [hs, if_true, hmod, List.map_cons, List.sum_cons, assigned_ptrs, decide_True]
      exact ⟨by rw [i1]; omega, by rw [i2]⟩
    · have hsz : lineno_size K s = 0 := by
        unfold lineno_size
        have : s.hdr.line_number_list_num_nodes = 0 := by omega
        rw [this, Nat.zero_mul]
      rw [hsz] at h
      obtain ⟨i1, i2⟩ := ih idx (by omega)
      simp only [hs, if_false, List.map_cons, List.sum_cons, assigned_ptrs, hsz, decide_False]
      exact ⟨by rw [i1]; omega, by rw [i2]; simp⟩

/-- The pointer that `assigned_ptrs` gives to the entry with index `i`. -/
theorem assigned_ptrs_getElem :
    ∀ (l : List (Bool × Nat)) (idx i : Nat) (p : Bool × Nat), l[i]? = some p →
      (assigned_ptrs idx l)[i]? = some (if p.1 then idx + ((l.take i).map Prod.snd).sum else 0) := by
  intro l
  induction l with
  | nil => intro idx i p h; simp at h
  | cons q rest ih =>
    intro idx i p h
    cases i with
    | zero =>
      simp only [List.getElem?_cons_zero, Option.some.injEq] at h
      subst h
      simp [assigned_ptrs]
    | succ i =>
      simp only [List.getElem?_cons_succ] at h
      simp only [assigned_ptrs, List.getElem?_cons_succ, ih (idx + q.2) i p h, List.take_succ_cons,
        List.map_cons, List.sum_cons]
      split_ifs <;> simp [Nat.add_assoc]

/-! ## The COFF writer: the sizes of the parts -/

theorem length_write_file_header (K : gpcoff_h) (Object : gp_object_t) :
    (_write_file_header K Object).length = 20 := by
  simp [_write_file_header, length_gp_fputl32, length_gp_fputl16]

theorem length_write_optional_header (K : gpcoff_h) (Object : gp_object_t) (opt : List Nat)
    (h : _write_optional_header K Object = some opt) :
    opt.length = if Object.isnew then 18 else 16 := by
  unfold _write_optional_header at h
  by_cases h0 : Object.coff_type % 2 ^ 32 = 0
  · rw [if_pos h0] at h
    cases h
  · rw [if_neg h0] at h
    simp only [Option.some.injEq] at h
    subst h
    cases Object.isnew <;> simp [length_gp_fputl32, length_gp_fputl16]

theorem length_add_name (name : List Nat) (st st1 : StringTable) (out : List Nat)
    (h : _add_name (some name) st = some (out, st1)) : out.length = 8 := by
  unfold _add_name at h
  simp only [COFF_SSYMBOL_NAME_MAX] at h
  have hle : name.length % 2 ^ 32 ≤ name.length := Nat.mod_le _ _
  split_ifs at h with h1 h2 h3 h3
  · simp only [Option.some.injEq, Prod.mk.injEq] at h
    obtain ⟨h, -⟩ := h
    subst h
    simp [gp_fputvar, gp_fputzero]
    omega
  · simp only [Option.some.injEq, Prod.mk.injEq] at h
    obtain ⟨h, -⟩ := h
    subst h
    simp [gp_fputvar]
    omega
  · simp only [Option.some.injEq, Prod.mk.injEq] at h
    obtain ⟨h, -⟩ := h
    subst h
    simp [gp_fputzero]
    omega
  · omega
  · cases h4 : _add_string name st with
    | none => simp [h4] at h
    | some p =>
      simp only [h4, Option.some.injEq, Prod.mk.injEq] at h
      obtain ⟨h, -⟩ := h
      subst h
      simp [length_gp_fputl32]

theorem length_write_section_header (env : SectionHeaderEnv) (Section : gp_section_t)
    (shift : Nat) (st st1 : StringTable) (out : List Nat) (name : List Nat)
    (hn : Section.name = some name)
    (h : _write_section_header env Section shift st = some (out, st1)) : out.length = 40 := by
  unfold _write_section_header at h
  simp only [hn] at h
  cases h4 : _add_name (some name) st with
  | none => simp [h4] at h
  | some p =>
    obtain ⟨nb, st2⟩ := p
    simp only [h4, Option.some.injEq, Prod.mk.injEq] at h
    obtain ⟨h, -⟩ := h
    subst h
    have := length_add_name name st st2 nb h4
    simp [length_gp_fputl32, length_gp_fputl16, this]

theorem length_write_section_headers (K : gpcoff_h) (shift : Nat) :
    ∀ (secs : List coff_section) (st st1 : StringTable) (out : List Nat),
      (∀ s ∈ secs, s.hdr.name ≠ none) →
      write_section_headers K shift secs st = some (out, st1) →
      out.length = 40 * secs.length := by
  intro secs
  induction secs with
  | nil =>
    intro st st1 out _ h
    simp only [write_section_headers, Option.some.injEq, Prod.mk.injEq] at h
    rw [← h.1]
    rfl
  | cons s rest ih =>
    intro st st1 out hn h
    unfold write_section_headers at h
    cases h1 : _write_section_header K.env s.hdr shift st with
    | none => simp [h1] at h
    | some p =>
      obtain ⟨o1, st2⟩ := p
      simp only [h1] at h
      cases h2 : write_section_headers K shift rest st2 with
      | none => simp [h2] at h
      | some q =>
        obtain ⟨o2, st3⟩ := q
        simp only [h2, Option.some.injEq, Prod.mk.injEq] at h
        obtain ⟨h, -⟩ := h
        subst h
        obtain ⟨name, hname⟩ := Option.ne_none_iff_exists'.mp (hn s (List.mem_cons_self _ _))
        have l1 := length_write_section_header K.env s.hdr shift st st2 o1 name hname h1
        have l2 := ih st2 st3 o2 (fun x hx => hn x (List.mem_cons_of_mem _ hx)) h2
        simp only [List.length_append, List.length_cons, l1, l2]
        omega

theorem length_write_section_data_loop (data : Nat → Option Nat) :
    ∀ (n org : Nat) (out : List Nat), write_section_data_loop data n org = some out →
      out.length = n := by
  intro n
  induction n with
  | zero =>
    intro org out h
    simp only [write_section_data_loop, Option.some.injEq] at h
    rw [← h]
    rfl
  | succ n ih =>
    intro org out h
    unfold write_section_data_loop at h
    cases h1 : data org with
    | none => simp [h1] at h
    | some byte =>
      simp only [h1] at h
      cases h2 : write_section_data_loop data n (org + 1) with
      | none => simp [h2] at h
      | some o =>
        simp only [h2, Option.some.injEq] at h
        subst h
        simp [ih (org + 1) o h2]

theorem length_write_relocations (symbols : List gp_symbol_t) :
    ∀ (l : List gp_reloc_t) (out : List Nat), _write_relocations symbols l = some out →
      out.length = 12 * l.length := by
  intro l
  induction l with
  | nil =>
    intro out h
    simp only [_write_relocations, Option.some.injEq] at h
    rw [← h]
    rfl
  | cons r rest ih =>
    intro out h
    unfold _write_relocations at h
    cases h1 : symbol_number symbols r.symbol with
    | none => simp [h1] at h
    | some number =>
      simp only [h1] at h
      cases h2 : _write_relocations symbols rest with
      | none => simp [h2] at h
      | some o =>
        simp only [h2, Option.some.injEq] at h
        subst h
        simp only [List.length_append, length_gp_fputl32, length_gp_fputl16, ih o h2,
          List.length_cons]
        omega

theorem length_write_linenumbers_loop (K : gpcoff_h) (symbols : List gp_symbol_t) (shift : Nat) :
    ∀ (l : List gp_linenum_t) (out : List Nat),
      write_linenumbers_loop K symbols shift l = some out → out.length = 16 * l.length := by
  intro l
  induction l with
  | nil =>
    intro out h
    simp only [write_linenumbers_loop, Option.some.injEq] at h
    rw [← h]
    rfl
  | cons r rest ih =>
    intro out h
    unfold write_linenumbers_loop at h
    cases h1 : symbol_number symbols r.symbol with
    | none => simp [h1] at h
    | some number =>
      simp only [h1] at h
      cases h2 : write_linenumbers_loop K symbols shift rest with
      | none => simp [h2] at h
      | some o =>
        simp only [h2, Option.some.injEq] at h
        subst h
        simp only [List.length_append, length_gp_fputl32, length_gp_fputl16, ih o h2,
          List.length_cons]
        omega

/-- The lengths of the parts that one of the loops over the sections writes. -/
theorem write_each_lengths (present : coff_section → Bool)
    (write : coff_section → Option (List Nat)) (size : coff_section → Nat) :
    ∀ (secs : List coff_section) (outs : List (List Nat)),
      (∀ s ∈ secs, ∀ o, present s = true → write s = some o → o.length = size s) →
      write_each present write secs = some outs →
      outs.map List.length = secs.map (fun s => if present s then size s else 0) := by
  intro secs
  induction secs with
  | nil =>
    intro outs _ h
    simp only [write_each, Option.some.injEq] at h
    rw [← h]
    rfl
  | cons s rest ih =>
    intro outs hsz h
    unfold write_each at h
    cases h1 : (if present s = true then write s else some []) with
    | none => simp [h1] at h
    | some o =>
      simp only [h1] at h
      cases h2 : write_each present write rest with
      | none => simp [h2] at h
      | some os =>
        simp only [h2, Option.some.injEq] at h
        subst h
        simp only [List.map_cons, ih os (fun x hx => hsz x (List.mem_cons_of_mem _ hx)) h2]
        congr 1
        by_cases hp : present s = true
        · simp only [hp, if_true] at h1 ⊢
          exact hsz s (List.mem_cons_self _ _) o hp h1
        · have hp' : present s = false := by simpa using hp
          simp only [hp', Bool.false_eq_true, if_false, Option.some.injEq] at h1 ⊢
          rw [← h1]
          rfl

/-! ## The COFF writer: the layout that `_update_pointers` records -/

theorem headers_size_eq (K : gpcoff_h) (Object : gp_object_t) (hK : sizes_as_written K)
    (h : header_bytes K Object < 2 ^ 32) :
    headers_size K Object.isnew (Object.section_list_num_nodes % 2 ^ 32)
      = header_bytes K Object := by
  unfold headers_size header_bytes at *
  rw [hK.file_v1, hK.file_v2, hK.opt_v1, hK.opt_v2, hK.sec_v1, hK.sec_v2] at *
  split_ifs at h ⊢ <;> omega

/-- The pointers that `_update_pointers` records when the layout fits into 32
bits: the data of the sections from the end of the headers on, then the
relocations, then the line numbers, then the symbol table; 0 for a part that a
section does not have. -/
theorem update_pointers_assigned (K : gpcoff_h) (Object : gp_object_t)
    (hK : sizes_as_written K) (hfit : layout_total K Object < 2 ^ 32) :
    (_update_pointers K Object).section_list.map (fun s => s.hdr.data_ptr)
      = assigned_ptrs (header_bytes K Object)
          (Object.section_list.map (fun s => (has_data K s, data_size K s))) ∧
    (_update_pointers K Object).section_list.map (fun s => s.hdr.reloc_ptr)
      = assigned_ptrs (header_bytes K Object + (Object.section_list.map (data_size K)).sum)
          (Object.section_list.map (fun s =>
            (decide (s.hdr.relocation_list_num_nodes > 0), reloc_size K s))) ∧
    (_update_pointers K Object).section_list.map (fun s => s.hdr.lineno_ptr)
      = assigned_ptrs (header_bytes K Object + (Object.section_list.map (data_size K)).sum
            + (Object.section_list.map (reloc_size K)).sum)
          (Object.section_list.map (fun s =>
            (decide (s.hdr.line_number_list_num_nodes > 0), lineno_size K s))) ∧
    (_update_pointers K Object).symbol_ptr = layout_total K Object := by
  unfold layout_total at hfit ⊢
  have h0 := headers_size_eq K Object hK (by omega)
  -- the first loop
  obtain ⟨a1, a2⟩ := update_data_ptrs_spec K Object.section_list K.N_SCNUM
    (header_bytes K Object) (by omega)
  have f1r : ∀ (n idx : Nat), (update_data_ptrs K n idx Object.section_list).1.map (reloc_size K)
      = Object.section_list.map (reloc_size K) :=
    update_data_ptrs_map K (reloc_size K) (fun _ _ _ => rfl) Object.section_list
  have f1l : ∀ (n idx : Nat), (update_data_ptrs K n idx Object.section_list).1.map (lineno_size K)
      = Object.section_list.map (lineno_size K) :=
    update_data_ptrs_map K (lineno_size K) (fun _ _ _ => rfl) Object.section_list
  have f1rp : ∀ (n idx : Nat), (update_data_ptrs K n idx Object.section_list).1.map
        (fun s => (decide (s.hdr.relocation_list_num_nodes > 0), reloc_size K s))
      = Object.section_list.map
        (fun s => (decide (s.hdr.relocation_list_num_nodes > 0), reloc_size K s)) :=
    update_data_ptrs_map K
      (fun s => (decide (s.hdr.relocation_list_num_nodes > 0), reloc_size K s))
      (fun _ _ _ => rfl) Object.section_list
  have f1lp : ∀ (n idx : Nat), (update_data_ptrs K n idx Object.section_list).1.map
        (fun s => (decide (s.hdr.line_number_list_num_nodes > 0), lineno_size K s))
      = Object.section_list.map
        (fun s => (decide (s.hdr.line_number_list_num_nodes > 0), lineno_size K s)) :=
    update_data_ptrs_map K
      (fun s => (decide (s.hdr.line_number_list_num_nodes > 0), lineno_size K s))
      (fun _ _ _ => rfl) Object.section_list
  -- the second loop
  obtain ⟨b1, b2⟩ := update_reloc_ptrs_spec K
    (update_data_ptrs K K.N_SCNUM (header_bytes K Object) Object.section_list).1
    (update_data_ptrs K K.N_SCNUM (header_bytes K Object) Object.section_list).2
    (by rw [a1, f1r]; omega)
  rw [a1, f1r] at b1
  rw [a1, f1rp] at b2
  have f2d := update_reloc_ptrs_map K (fun s => s.hdr.data_ptr) (fun _ _ => rfl)
    (update_data_ptrs K K.N_SCNUM (header_bytes K Object) Object.section_list).1
    (header_bytes K Object + (Object.section_list.map (data_size K)).sum)
  have f2l := update_reloc_ptrs_map K (lineno_size K) (fun _ _ => rfl)
    (update_data_ptrs K K.N_SCNUM (header_bytes K Object) Object.section_list).1
    (header_bytes K Object + (Object.section_list.map (data_size K)).sum)
  have f2lp := update_reloc_ptrs_map K
    (fun s => (decide (s.hdr.line_number_list_num_nodes > 0), lineno_size K s))
    (fun _ _ => rfl)
    (update_data_ptrs K K.N_SCNUM (header_bytes K Object) Object.section_list).1
    (header_bytes K Object + (Object.section_list.map (data_size K)).sum)
  rw [f1l] at f2l
  rw [f1lp] at f2lp
  -- the third loop
  obtain ⟨c1, c2⟩ := update_lineno_ptrs_spec K
    (update_reloc_ptrs K (header_bytes K Object + (Object.section_list.map (data_size K)).sum)
      (update_data_ptrs K K.N_SCNUM (header_bytes K Object) Object.section_list).1).1
    (update_reloc_ptrs K (header_bytes K Object + (Object.section_list.map (data_size K)).sum)
      (update_data_ptrs K K.N_SCNUM (header_bytes K Object) Object.section_list).1).2
    (by rw [b1, f2l]; omega)
  rw [b1, f2l] at c1
  rw [b1, f2lp] at c2
  have f3d := update_lineno_ptrs_map K (fun s => s.hdr.data_ptr) (fun _ _ => rfl)
    (update_reloc_ptrs K (header_bytes K Object + (Object.section_list.map (data_size K)).sum)
      (update_data_ptrs K K.N_SCNUM (header_bytes K Object) Object.section_list).1).1
    (header_bytes K Object + (Object.section_list.map (data_size K)).sum
      + (Object.section_list.map (reloc_size K)).sum)
  have f3r := update_lineno_ptrs_map K (fun s => s.hdr.reloc_ptr) (fun _ _ => rfl)
    (update_reloc_ptrs K (header_bytes K Object + (Object.section_list.map (data_size K)).sum)
      (update_data_ptrs K K.N_SCNUM (header_bytes K Object) Object.section_list).1).1
    (header_bytes K Object + (Object.section_list.map (data_size K)).sum
      + (Object.section_list.map (reloc_size K)).sum)
  unfold _update_pointers
  simp only [h0, a1, b1]
  exact ⟨by rw [f3d, f2d, a2], by rw [f3r, b2], c2, c1⟩

theorem mem_of_map_core_eq {l l1 : List coff_section}
    (h : l1.map coff_section.core = l.map coff_section.core) {s1 : coff_section}
    (hs : s1 ∈ l1) : ∃ s ∈ l, s1.core = s.core := by
  have : s1.core ∈ l1.map coff_section.core := List.mem_map_of_mem _ hs
  rw [h, List.mem_map] at this
  obtain ⟨s, hs, he⟩ := this
  exact ⟨s, hs, he.symm⟩

/-- `_update_pointers` keeps an object well formed. -/
theorem well_formed_update (K : gpcoff_h) (Object : gp_object_t)
    (hwf : well_formed_object K Object) : well_formed_object K (_update_pointers K Object) := by
  obtain ⟨hc, -, -, -, -, -, hn⟩ := update_pointers_core K Object
  have hlen : (_update_pointers K Object).section_list.length = Object.section_list.length := by
    have := congrArg List.length hc
    simpa using this
  refine ⟨by rw [hn, hlen]; exact hwf.nodes, ?_, ?_, ?_, ?_⟩
  · intro s1 hs1
    obtain ⟨s, hs, he⟩ := mem_of_map_core_eq hc hs1
    have : s1.hdr.name = s.hdr.name := congrArg (fun c => c.hdr.name) he
    rw [this]
    exact hwf.names s hs
  · intro s1 hs1
    obtain ⟨s, hs, he⟩ := mem_of_map_core_eq hc hs1
    have e1 : s1.hdr.relocation_list_num_nodes = s.hdr.relocation_list_num_nodes :=
      congrArg (fun c => c.hdr.relocation_list_num_nodes) he
    have e2 : s1.relocation_list = s.relocation_list := congrArg (fun c => c.relocation_list) he
    rw [e1, e2]
    exact hwf.relocs s hs
  · intro s1 hs1
    obtain ⟨s, hs, he⟩ := mem_of_map_core_eq hc hs1
    have e1 : s1.hdr.line_number_list_num_nodes = s.hdr.line_number_list_num_nodes :=
      congrArg (fun c => c.hdr.line_number_list_num_nodes) he
    have e2 : s1.line_number_list = s.line_number_list :=
      congrArg (fun c => c.line_number_list) he
    rw [e1, e2]
    exact hwf.linenos s hs
  · intro s1 hs1 hd
    obtain ⟨s, hs, he⟩ := mem_of_map_core_eq hc hs1
    have e1 : has_data K s1 = has_data K s :=
      show has_data K s1.core = has_data K s.core from congrArg (has_data K) he
    have e2 : s1.shadow_address = s.shadow_address := congrArg (fun c => c.shadow_address) he
    have e3 : s1.hdr.size = s.hdr.size := congrArg (fun c => c.hdr.size) he
    rw [e2, e3]
    exact hwf.shadow s hs (e1 ▸ hd)

/-- The sizes of the parts that `gp_writeobj_write_coff` writes for a well-formed
object. -/
theorem write_coff_image_lengths (K : gpcoff_h) (Object : gp_object_t) (st st1 : StringTable)
    (im : coff_image) (hK : sizes_as_written K) (hwf : well_formed_object K Object)
    (hrun : write_coff_image K Object st = some (im, st1)) :
    im.headers.length = 20 + (if Object.isnew then 18 else 16) + 40 * Object.section_list.length ∧
    im.data.map List.length = Object.section_list.map (data_size K) ∧
    im.relocations.map List.length = Object.section_list.map (reloc_size K) ∧
    im.line_numbers.map List.length = Object.section_list.map (lineno_size K) := by
  unfold write_coff_image at hrun
  cases h1 : _write_optional_header K Object with
  | none => simp [h1] at hrun
  | some opt =>
  simp only [h1] at hrun
  cases h2 : write_section_headers K Object.org_to_byte_shift Object.section_list st with
  | none => simp [h2] at hrun
  | some p2 =>
  obtain ⟨hdrs, st2⟩ := p2
  simp only [h2] at hrun
  cases h3 : write_each (has_data K) _write_section_data Object.section_list with
  | none => simp [h3] at hrun
  | some data =>
  simp only [h3] at hrun
  cases h4 : write_each (fun s => decide (s.hdr.relocation_list_num_nodes > 0))
      (fun s => _write_relocations Object.symbol_list s.relocation_list)
      Object.section_list with
  | none => simp [h4] at hrun
  | some relocs =>
  simp only [h4] at hrun
  cases h5 : write_each (fun s => decide (s.hdr.line_number_list_num_nodes > 0))
      (fun s => _write_linenumbers K Object.symbol_list s Object.org_to_byte_shift)
      Object.section_list with
  | none => simp [h5] at hrun
  | some linenos =>
  simp only [h5] at hrun
  cases h6 : (if Object.num_symbols ≠ 0 then
      _write_symbols K Object.section_list Object.isnew Object.symbol_list st2
    else some ([], st2)) with
  | none => simp [h6] at hrun
  | some p6 =>
  obtain ⟨syms, st3⟩ := p6
  simp only [h6, Option.some.injEq, Prod.mk.injEq] at hrun
  obtain ⟨hrun, -⟩ := hrun
  subst hrun
  simp only []
  refine ⟨?_, ?_, ?_, ?_⟩
  · simp only [List.length_append, length_write_file_header,
      length_write_optional_header K Object opt h1,
      length_write_section_headers K _ _ st st2 hdrs hwf.names h2]
  · have := write_each_lengths (has_data K) _write_section_data (fun s => s.hdr.size)
      Object.section_list data ?_ h3
    · rw [this]
      rfl
    · intro s hs o hp ho
      show o.length = s.hdr.size
      unfold _write_section_data at ho
      rw [length_write_section_data_loop _ _ _ _ ho]
      have := hwf.shadow s hs hp
      rw [Nat.mod_eq_of_lt this]
      omega
  · have := write_each_lengths (fun s => decide (s.hdr.relocation_list_num_nodes > 0))
      (fun s => _write_relocations Object.symbol_list s.relocation_list)
      (reloc_size K) Object.section_list relocs ?_ h4
    · rw [this]
      apply List.map_congr_left
      intro s _
      by_cases h0 : s.hdr.relocation_list_num_nodes > 0
      · simp [h0]
      · have : s.hdr.relocation_list_num_nodes = 0 := by omega
        simp [reloc_size, this]
    · intro s hs o _ ho
      rw [length_write_relocations _ _ _ ho, reloc_size, hK.reloc, hwf.relocs s hs]
      omega
  · have := write_each_lengths (fun s => decide (s.hdr.line_number_list_num_nodes > 0))
      (fun s => _write_linenumbers K Object.symbol_list s Object.org_to_byte_shift)
      (lineno_size K) Object.section_list linenos ?_ h5
    · rw [this]
      apply List.map_congr_left
      intro s _
      by_cases h0 : s.hdr.line_number_list_num_nodes > 0
      · simp [h0]
      · have : s.hdr.line_number_list_num_nodes = 0 := by omega
        simp [lineno_size, this]
    · intro s hs o _ ho
      unfold _write_linenumbers at ho
      rw [length_write_linenumbers_loop _ _ _ _ _ ho, lineno_size, hK.lineno, hwf.linenos s hs]
      omega

theorem map_eq_of_core_eq {α : Type} (g : coff_section → α) (hg : ∀ s, g s.core = g s)
    {l l1 : List coff_section} (h : l1.map coff_section.core = l.map coff_section.core) :
    l1.map g = l.map g := by
  have e : ∀ l2 : List coff_section, l2.map g = (l2.map coff_section.core).map g := by
    intro l2
    rw [List.map_map]
    apply List.map_congr_left
    intro s _
    exact (hg s).symm
  rw [e l1, e l, h]

/-- The number of bytes in the first `i` parts of a list of parts. -/
theorem length_take_flatten (parts : List (List Nat)) (sizes : List Nat)
    (h : parts.map List.length = sizes) (i : Nat) :
    (parts.take i).flatten.length = (sizes.take i).sum := by
  rw [List.length_flatten, ← h, List.map_take]

theorem length_flatten_eq (parts : List (List Nat)) (sizes : List Nat)
    (h : parts.map List.length = sizes) : parts.flatten.length = sizes.sum := by
  rw [List.length_flatten, h]

/-- The pointer of the section with index `i` among the pointers that a loop of
`_update_pointers` assigns. -/
theorem assigned_ptr_at {α : Type} (secs : List α) (ptr : α → Nat) (present : α → Bool)
    (size : α → Nat) (base : Nat)
    (h : secs.map ptr = assigned_ptrs base (secs.map (fun s => (present s, size s))))
    (i : Nat) (s : α) (hs : secs[i]? = some s) :
    ptr s = if present s then base + ((secs.map size).take i).sum else 0 := by
  have h1 : (secs.map ptr)[i]? = some (ptr s) := by rw [List.getElem?_map, hs]; rfl
  have h2 : (secs.map (fun s => (present s, size s)))[i]? = some (present s, size s) := by
    rw [List.getElem?_map, hs]; rfl
  rw [h, assigned_ptrs_getElem _ base i _ h2] at h1
  simp only [Option.some.injEq] at h1
  rw [← h1, List.map_take, List.map_map]
  rfl

/-- C11 (amended): for an object whose list counters agree with its lists, whose
sections have names and whose headers, data, relocations and line numbers take
less than 2^32 bytes together, every pointer that `_update_pointers` records is
the offset at which `gp_writeobj_write_coff` writes the part: the data of the
sections follow the headers in section order, then the relocations in section
order, then the line numbers in section order, then the symbol table; the part
of a section takes its size, `RELOC_SIZ` for each relocation or `LINENO_SIZ` for
each line number, and a section without the part has pointer 0. -/
theorem update_pointers_layout (K : gpcoff_h) (Object : gp_object_t) (st st1 : StringTable)
    (im : coff_image) (hK : sizes_as_written K) (hwf : well_formed_object K Object)
    (hfit : layout_total K Object < 2 ^ 32)
    (hrun : write_coff_image K (_update_pointers K Object) st = some (im, st1)) :
    im.headers.length
      = (if Object.isnew then K.FILE_HDR_SIZ_v2 + K.OPT_HDR_SIZ_v2
            + K.SEC_HDR_SIZ_v2 * Object.section_list.length
          else K.FILE_HDR_SIZ_v1 + K.OPT_HDR_SIZ_v1
            + K.SEC_HDR_SIZ_v1 * Object.section_list.length) ∧
    im.data.map List.length
      = (_update_pointers K Object).section_list.map
          (fun s => if has_data K s then s.hdr.size else 0) ∧
    im.relocations.map List.length
      = (_update_pointers K Object).section_list.map
          (fun s => s.hdr.relocation_list_num_nodes * K.RELOC_SIZ) ∧
    im.line_numbers.map List.length
      = (_update_pointers K Object).section_list.map
          (fun s => s.hdr.line_number_list_num_nodes * K.LINENO_SIZ) ∧
    (∀ (i : Nat) (s : coff_section), (_update_pointers K Object).section_list[i]? = some s →
      s.hdr.data_ptr
        = (if has_data K s then (im.headers ++ (im.data.take i).flatten).length else 0) ∧
      s.hdr.reloc_ptr
        = (if s.hdr.relocation_list_num_nodes > 0 then
            (im.headers ++ im.data.flatten ++ (im.relocations.take i).flatten).length else 0) ∧
      s.hdr.lineno_ptr
        = (if s.hdr.line_number_list_num_nodes > 0 then
            (im.headers ++ im.data.flatten ++ im.relocations.flatten
              ++ (im.line_numbers.take i).flatten).length else 0)) ∧
    (_update_pointers K Object).symbol_ptr
      = (im.headers ++ im.data.flatten ++ im.relocations.flatten
          ++ im.line_numbers.flatten).length := by
  obtain ⟨hc, -, hnew, -, -, -, -⟩ := update_pointers_core K Object
  have hlen : (_update_pointers K Object).section_list.length = Object.section_list.length := by
    have := congrArg List.length hc
    simpa using this
  obtain ⟨w0, w1, w2, w3⟩ := write_coff_image_lengths K (_update_pointers K Object) st st1 im hK
    (well_formed_update K Object hwf) hrun
  obtain ⟨p1, p2, p3, p4⟩ := update_pointers_assigned K Object hK hfit
  rw [← map_eq_of_core_eq (fun s => (has_data K s, data_size K s)) (fun _ => rfl) hc] at p1
  rw [← map_eq_of_core_eq (fun s => (decide (s.hdr.relocation_list_num_nodes > 0), reloc_size K s))
    (fun _ => rfl) hc, ← map_eq_of_core_eq (data_size K) (fun _ => rfl) hc] at p2
  rw [← map_eq_of_core_eq (fun s => (decide (s.hdr.line_number_list_num_nodes > 0),
      lineno_size K s)) (fun _ => rfl) hc,
    ← map_eq_of_core_eq (data_size K) (fun _ => rfl) hc,
    ← map_eq_of_core_eq (reloc_size K) (fun _ => rfl) hc] at p3
  unfold layout_total at p4
  rw [← map_eq_of_core_eq (data_size K) (fun _ => rfl) hc,
    ← map_eq_of_core_eq (reloc_size K) (fun _ => rfl) hc,
    ← map_eq_of_core_eq (lineno_size K) (fun _ => rfl) hc] at p4
  have hh : im.headers.length = header_bytes K Object := by
    rw [w0, hlen, hnew]
    unfold header_bytes
    rw [hK.file_v1, hK.file_v2, hK.opt_v1, hK.opt_v2, hK.sec_v1, hK.sec_v2, hwf.nodes]
    split_ifs <;> omega
  have hd := length_flatten_eq _ _ w1
  have hr := length_flatten_eq _ _ w2
  have hl := length_flatten_eq _ _ w3
  refine ⟨?_, w1, w2, w3, ?_, ?_⟩
  · rw [hh]
    unfold header_bytes
    rw [hwf.nodes]
  · intro i s hs
    have q1 := assigned_ptr_at _ (fun s => s.hdr.data_ptr) (has_data K) (data_size K) _ p1 i s hs
    have q2 := assigned_ptr_at _ (fun s => s.hdr.reloc_ptr)
      (fun s => decide (s.hdr.relocation_list_num_nodes > 0)) (reloc_size K) _ p2 i s hs
    have q3 := assigned_ptr_at _ (fun s => s.hdr.lineno_ptr)
      (fun s => decide (s.hdr.line_number_list_num_nodes > 0)) (lineno_size K) _ p3 i s hs
    simp only [decide_eq_true_eq] at q1 q2 q3
    refine ⟨?_, ?_, ?_⟩
    · rw [q1, List.length_append, length_take_flatten _ _ w1, hh]
    · rw [q2, List.length_append, List.length_append, length_take_flatten _ _ w2, hh, hd]
    · rw [q3, List.length_append, List.length_append, List.length_append,
        length_take_flatten _ _ w3, hh, hd, hr]
  · rw [p4, List.length_append, List.length_append, List.length_append, hh, hd, hr, hl]

theorem sizes_as_written_example : sizes_as_written example_gpcoff :=
  ⟨rfl, rfl, rfl, rfl, rfl, rfl, rfl, rfl⟩

theorem well_formed_example_object : well_formed_object example_gpcoff example_object :=
  ⟨rfl, by decide, by decide, by decide, by decide⟩

theorem well_formed_overflow_object : well_formed_object example_gpcoff overflow_object :=
  ⟨rfl, by decide, by decide, by decide, by decide⟩

/-- C11 (as amended) on the example object: the headers take 158 bytes, the data
of the sections start at 158 and 162, the relocations at 164, the line numbers
at 176 and 192, the symbol table at 208. -/
theorem update_pointers_layout_witness :
    ∃ im st1,
      write_coff_image example_gpcoff (_update_pointers example_gpcoff example_object)
        example_table = some (im, st1) ∧
      layout_total example_gpcoff example_object < 2 ^ 32 ∧
      (_update_pointers example_gpcoff example_object).section_list.map
          (fun s => (s.hdr.data_ptr, s.hdr.reloc_ptr, s.hdr.lineno_ptr))
        = [(158, 164, 176), (0, 0, 0), (162, 0, 192)] ∧
      (_update_pointers example_gpcoff example_object).symbol_ptr = 208 ∧
      (_update_pointers example_gpcoff example_object).symbol_ptr
        = (im.headers ++ im.data.flatten ++ im.relocations.flatten
            ++ im.line_numbers.flatten).length :=
  ⟨_, _, rfl, by decide, rfl, rfl,
    (update_pointers_layout example_gpcoff example_object example_table _ _
      sizes_as_written_example well_formed_example_object (by decide) rfl).2.2.2.2.2⟩

/-- C11, counterexample: the data of the first section of `overflow_object` take
`0xFFFFFFF0` bytes from offset 118 on, so that `gp_writeobj_write_coff` writes
the data of the second section at offset `118 + 0xFFFFFFF0`; `_update_pointers`
records the 32-bit sum 102 for it, an offset inside the section headers. -/
theorem update_pointers_wraps :
    well_formed_object example_gpcoff overflow_object ∧
    (_update_pointers example_gpcoff overflow_object).section_list.map
        (fun s => (has_data example_gpcoff s, s.hdr.size, s.hdr.data_ptr))
      = [(true, 0xFFFFFFF0, 118), (true, 2, 102)] ∧
    ∀ im st1, write_coff_image example_gpcoff (_update_pointers example_gpcoff overflow_object)
        example_table = some (im, st1) →
      im.headers.length = 118 ∧ (im.headers ++ (im.data.take 1).flatten).length = 118 + 0xFFFFFFF0 := by
  refine ⟨well_formed_overflow_object, by decide, ?_⟩
  intro im st1 hrun
  obtain ⟨w0, w1, -, -⟩ := write_coff_image_lengths _ _ _ _ _ sizes_as_written_example
    (well_formed_update _ _ well_formed_overflow_object) hrun
  have e : (_update_pointers example_gpcoff overflow_object).section_list.map
      (data_size example_gpcoff) = [0xFFFFFFF0, 2] := by decide
  rw [e] at w1
  have w0' : im.headers.length = 118 := w0
  refine ⟨w0', ?_⟩
  rw [List.length_append, length_take_flatten _ _ w1, w0']
  rfl

/-! ## The COFF writer: the runs in which no assertion fails -/

theorem stored_after_append (stored A B : List (List Nat)) :
    stored_after stored (A ++ B) = stored_after (stored_after stored A) B := by
  unfold stored_after
  rw [List.foldl_append]

theorem strings_fit_append {stored A B : List (List Nat)} (h : strings_fit stored (A ++ B)) :
    strings_fit stored A ∧ strings_fit (stored_after stored A) B := by
  obtain ⟨h1, h2⟩ := h
  rw [stored_after_append] at h2
  refine ⟨⟨fun s hs => h1 s (List.mem_append_left _ hs), ?_⟩,
    ⟨fun s hs => h1 s (List.mem_append_right _ hs), h2⟩⟩
  obtain ⟨extra, he⟩ := stored_after_eq_append B (stored_after stored A)
  rw [he, layout_offset_append_total] at h2
  omega

theorem strings_fit_nil {st : StringTable} {stored : List (List Nat)} (inv : TableInv st stored) :
    strings_fit stored [] :=
  ⟨fun _ hs => absurd hs (List.not_mem_nil _), inv.bound⟩

theorem add_string_ok {st : StringTable} {stored : List (List Nat)} (inv : TableInv st stored)
    (str : List Nat) (h : strings_fit stored [str]) :
    ∃ off st1, _add_string str st = some (off, st1) ∧ TableInv st1 (stored_after stored [str]) := by
  obtain ⟨st1, h1, inv1, -⟩ := (add_string_step inv str (h.1 str (List.mem_singleton_self _))).1 h.2
  exact ⟨_, st1, h1, inv1⟩

theorem add_name_ok {st : StringTable} {stored : List (List Nat)} (inv : TableInv st stored)
    (Name : Option (List Nat)) (h : strings_fit stored (name_strings Name)) :
    ∃ out st1, _add_name Name st = some (out, st1) ∧
      TableInv st1 (stored_after stored (name_strings Name)) := by
  cases Name with
  | none => exact ⟨_, st, rfl, inv⟩
  | some name =>
    unfold _add_name
    unfold name_strings at h ⊢
    by_cases hl : name.length % 2 ^ 32 ≤ COFF_SSYMBOL_NAME_MAX
    · simp only [hl, if_true] at h ⊢
      exact ⟨_, st, rfl, inv⟩
    · simp only [hl, if_false] at h ⊢
      obtain ⟨off, st1, h1, inv1⟩ := add_string_ok inv name h
      rw [h1]
      exact ⟨_, st1, rfl, inv1⟩

theorem write_section_headers_ok (K : gpcoff_h) (shift : Nat) (secs : List coff_section) :
    ∀ (st : StringTable) (stored : List (List Nat)), TableInv st stored →
      strings_fit stored (secs.map (fun s => name_strings s.hdr.name)).flatten →
      ∃ out st1, write_section_headers K shift secs st = some (out, st1) ∧
        TableInv st1 (stored_after stored (secs.map (fun s => name_strings s.hdr.name)).flatten) := by
  induction secs with
  | nil => intro st stored inv _; exact ⟨_, st, rfl, inv⟩
  | cons s rest ih =>
    intro st stored inv h
    rw [List.map_cons, List.flatten_cons] at h ⊢
    obtain ⟨ha, hb⟩ := strings_fit_append h
    obtain ⟨o1, st1, h1, inv1⟩ := add_name_ok inv s.hdr.name ha
    obtain ⟨o2, st2, h2, inv2⟩ := ih st1 _ inv1 hb
    unfold write_section_headers _write_section_header
    simp only [h1, h2]
    rw [stored_after_append]
    exact ⟨_, st2, rfl, inv2⟩

theorem write_aux_symbol_ok (K : gpcoff_h) (Isnew : Bool) {st : StringTable}
    {stored : List (List Nat)} (inv : TableInv st stored) (Aux : gp_aux_t)
    (hs : aux_has_string Aux = true) (h : strings_fit stored (aux_strings Aux)) :
    ∃ out st1, write_aux_symbol K Aux st Isnew = some (out, st1) ∧
      TableInv st1 (stored_after stored (aux_strings Aux)) := by
  cases Aux with
  | AUX_DIRECT command string =>
    cases string with
    | none => simp [aux_has_string] at hs
    | some str =>
      obtain ⟨off, st1, h1, inv1⟩ := add_string_ok inv str h
      unfold write_aux_symbol add_string_ptr
      simp only [h1]
      exact ⟨_, st1, rfl, inv1⟩
  | AUX_FILE filename line_number flags =>
    cases filename with
    | none => simp [aux_has_string] at hs
    | some str =>
      obtain ⟨off, st1, h1, inv1⟩ := add_string_ok inv str h
      unfold write_aux_symbol add_string_ptr
      simp only [h1]
      exact ⟨_, st1, rfl, inv1⟩
  | AUX_IDENT string =>
    cases string with
    | none => simp [aux_has_string] at hs
    | some str =>
      obtain ⟨off, st1, h1, inv1⟩ := add_string_ok inv str h
      unfold write_aux_symbol add_string_ptr
      simp only [h1]
      exact ⟨_, st1, rfl, inv1⟩
  | AUX_SECTION length nreloc nlineno => exact ⟨_, st, rfl, inv⟩
  | AUX_OTHER data => exact ⟨_, st, rfl, inv⟩

theorem write_aux_symbols_ok (K : gpcoff_h) (Isnew : Bool) (auxs : List gp_aux_t) :
    ∀ (st : StringTable) (stored : List (List Nat)), TableInv st stored →
      (∀ a ∈ auxs, aux_has_string a = true) →
      strings_fit stored (auxs.map aux_strings).flatten →
      ∃ out st1, _write_aux_symbols K auxs st Isnew = some (out, st1) ∧
        TableInv st1 (stored_after stored (auxs.map aux_strings).flatten) := by
  induction auxs with
  | nil => intro st stored inv _ _; exact ⟨_, st, rfl, inv⟩
  | cons a rest ih =>
    intro st stored inv hs h
    rw [List.map_cons, List.flatten_cons] at h ⊢
    obtain ⟨ha, hb⟩ := strings_fit_append h
    obtain ⟨o1, st1, h1, inv1⟩ := write_aux_symbol_ok K Isnew inv a
      (hs a (List.mem_cons_self _ _)) ha
    obtain ⟨o2, st2, h2, inv2⟩ := ih st1 _ inv1
      (fun b hb => hs b (List.mem_cons_of_mem _ hb)) hb
    unfold _write_aux_symbols
    simp only [h1, h2]
    rw [stored_after_append]
    exact ⟨_, st2, rfl, inv2⟩

theorem write_symbol_ok (K : gpcoff_h) (sections : List coff_section) (isnew : Bool)
    {st : StringTable} {stored : List (List Nat)} (inv : TableInv st stored) (y : gp_symbol_t)
    (hsec : y.section_number < (K.N_SCNUM : Int) ∨
      ∃ i, y.section_ = some i ∧ i < sections.length)
    (haux : y.aux_list_num_nodes > 0 → ∀ a ∈ y.aux_list, aux_has_string a = true)
    (h : strings_fit stored (symbol_strings y)) :
    ∃ out st1, write_symbol K sections isnew y st = some (out, st1) ∧
      TableInv st1 (stored_after stored (symbol_strings y)) := by
  unfold symbol_strings at h ⊢
  obtain ⟨ha, hb⟩ := strings_fit_append h
  obtain ⟨o1, st1, h1, inv1⟩ := add_name_ok inv y.name ha
  rw [stored_after_append]
  unfold write_symbol
  simp only [h1]
  by_cases hsn : y.section_number < (K.N_SCNUM : Int)
  · simp only [hsn, if_true]
    by_cases hn : y.aux_list_num_nodes > 0
    · simp only [hn, if_true] at hb ⊢
      obtain ⟨o2, st2, h2, inv2⟩ := write_aux_symbols_ok K isnew y.aux_list st1 _ inv1 (haux hn) hb
      simp only [h2]
      exact ⟨_, st2, rfl, inv2⟩
    · simp only [hn, if_false] at hb ⊢
      exact ⟨_, st1, rfl, inv1⟩
  · obtain ⟨i, hi, hlt⟩ := hsec.resolve_left hsn
    simp only [hsn, if_false, hi, List.getElem?_eq_getElem hlt, Option.map_some']
    by_cases hn : y.aux_list_num_nodes > 0
    · simp only [hn, if_true] at hb ⊢
      obtain ⟨o2, st2, h2, inv2⟩ := write_aux_symbols_ok K isnew y.aux_list st1 _ inv1 (haux hn) hb
      simp only [h2]
      exact ⟨_, st2, rfl, inv2⟩
    · simp only [hn, if_false] at hb ⊢
      exact ⟨_, st1, rfl, inv1⟩

theorem write_symbols_ok (K : gpcoff_h) (sections : List coff_section) (isnew : Bool)
    (symbols : List gp_symbol_t) :
    ∀ (st : StringTable) (stored : List (List Nat)), TableInv st stored →
      (∀ y ∈ symbols, (y.section_number < (K.N_SCNUM : Int) ∨
          ∃ i, y.section_ = some i ∧ i < sections.length) ∧
        (y.aux_list_num_nodes > 0 → ∀ a ∈ y.aux_list, aux_has_string a = true)) →
      strings_fit stored (symbols.map symbol_strings).flatten →
      ∃ out st1, _write_symbols K sections isnew symbols st = some (out, st1) ∧
        TableInv st1 (stored_after stored (symbols.map symbol_strings).flatten) := by
  induction symbols with
  | nil => intro st stored inv _ _; exact ⟨_, st, rfl, inv⟩
  | cons y rest ih =>
    intro st stored inv hs h
    rw [List.map_cons, List.flatten_cons] at h ⊢
    obtain ⟨ha, hb⟩ := strings_fit_append h
    obtain ⟨o1, st1, h1, inv1⟩ := write_symbol_ok K sections isnew inv y
      (hs y (List.mem_cons_self _ _)).1 (hs y (List.mem_cons_self _ _)).2 ha
    obtain ⟨o2, st2, h2, inv2⟩ := ih st1 _ inv1
      (fun b hb => hs b (List.mem_cons_of_mem _ hb)) hb
    unfold _write_symbols
    simp only [h1, h2]
    rw [stored_after_append]
    exact ⟨_, st2, rfl, inv2⟩

theorem write_each_ok (present : coff_section → Bool) (write : coff_section → Option (List Nat))
    (secs : List coff_section)
    (h : ∀ s ∈ secs, present s = true → ∃ out, write s = some out) :
    ∃ outs, write_each present write secs = some outs := by
  induction secs with
  | nil => exact ⟨_, rfl⟩
  | cons s rest ih =>
    obtain ⟨outs, h2⟩ := ih (fun t ht => h t (List.mem_cons_of_mem _ ht))
    unfold write_each
    by_cases hp : present s = true
    · obtain ⟨out, h1⟩ := h s (List.mem_cons_self _ _) hp
      simp only [hp, if_true, h1, h2]
      exact ⟨_, rfl⟩
    · have hp' : present s = false := by simpa using hp
      simp only [hp', Bool.false_eq_true, if_false, h2]
      exact ⟨_, rfl⟩

theorem write_section_data_loop_ok (data : Nat → Option Nat) (n : Nat) :
    ∀ org, (∀ k, k < n → (data (org + k)).isSome = true) →
      ∃ out, write_section_data_loop data n org = some out := by
  induction n with
  | zero => intro org _; exact ⟨_, rfl⟩
  | succ n ih =>
    intro org h
    have h0 := h 0 (Nat.succ_pos n)
    rw [Nat.add_zero, Option.isSome_iff_exists] at h0
    obtain ⟨byte, hb⟩ := h0
    obtain ⟨out, ho⟩ := ih (org + 1) (fun k hk => by
      have := h (k + 1) (Nat.succ_lt_succ hk)
      rwa [show org + (k + 1) = org + 1 + k by omega] at this)
    unfold write_section_data_loop
    simp only [hb, ho]
    exact ⟨_, rfl⟩

theorem write_relocations_ok (symbols : List gp_symbol_t) (relocs : List gp_reloc_t)
    (h : ∀ r ∈ relocs, r.symbol < symbols.length) :
    ∃ out, _write_relocations symbols relocs = some out := by
  induction relocs with
  | nil => exact ⟨_, rfl⟩
  | cons r rest ih =>
    obtain ⟨out, ho⟩ := ih (fun t ht => h t (List.mem_cons_of_mem _ ht))
    have hr := h r (List.mem_cons_self _ _)
    unfold _write_relocations symbol_number
    rw [List.getElem?_eq_getElem hr]
    simp only [Option.map_some', ho]
    exact ⟨_, rfl⟩

theorem write_linenumbers_loop_ok (K : gpcoff_h) (symbols : List gp_symbol_t) (shift : Nat)
    (linenos : List gp_linenum_t) (h : ∀ l ∈ linenos, l.symbol < symbols.length) :
    ∃ out, write_linenumbers_loop K symbols shift linenos = some out := by
  induction linenos with
  | nil => exact ⟨_, rfl⟩
  | cons l rest ih =>
    obtain ⟨out, ho⟩ := ih (fun t ht => h t (List.mem_cons_of_mem _ ht))
    have hr := h l (List.mem_cons_self _ _)
    unfold write_linenumbers_loop symbol_number
    rw [List.getElem?_eq_getElem hr]
    simp only [Option.map_some', ho]
    exact ⟨_, rfl⟩

theorem write_coff_image_ok (K : gpcoff_h) (Object : gp_object_t) (st : StringTable)
    (hw : writable_object K Object) (inv : TableInv st []) :
    ∃ im st1, write_coff_image K Object st = some (im, st1) := by
  have hfit : strings_fit [] (object_strings Object) :=
    ⟨short_of_fit hw.fit, by rw [layout_total_eq_sum]; exact hw.fit⟩
  unfold object_strings at hfit
  obtain ⟨fa, fb⟩ := strings_fit_append hfit
  obtain ⟨hdrs, st1, h2, inv1⟩ :=
    write_section_headers_ok K Object.org_to_byte_shift Object.section_list st [] inv fa
  obtain ⟨data, h3⟩ := write_each_ok (has_data K) _write_section_data Object.section_list
    (fun s hs hp => write_section_data_loop_ok s.data _ _ (hw.data s hs hp))
  obtain ⟨relocs, h4⟩ := write_each_ok (fun s => decide (s.hdr.relocation_list_num_nodes > 0))
    (fun s => _write_relocations Object.symbol_list s.relocation_list) Object.section_list
    (fun s hs hp => write_relocations_ok _ _ (hw.relocs s hs (by simpa using hp)))
  obtain ⟨linenos, h5⟩ := write_each_ok
    (fun s => decide (s.hdr.line_number_list_num_nodes > 0))
    (fun s => _write_linenumbers K Object.symbol_list s Object.org_to_byte_shift)
    Object.section_list
    (fun s hs hp => write_linenumbers_loop_ok K _ _ _ (hw.linenos s hs (by simpa using hp)))
  have h6 : ∃ syms st2, (if Object.num_symbols ≠ 0 then
        _write_symbols K Object.section_list Object.isnew Object.symbol_list st1
      else some ([], st1)) = some (syms, st2) := by
    by_cases hn : Object.num_symbols ≠ 0
    · rw [if_pos hn] at fb ⊢
      obtain ⟨o, st2, ho, -⟩ := write_symbols_ok K Object.section_list Object.isnew
        Object.symbol_list st1 _ inv1 (hw.symbols hn) fb
      exact ⟨o, st2, ho⟩
    · rw [if_neg hn]
      exact ⟨_, _, rfl⟩
  obtain ⟨syms, st2, h6⟩ := h6
  unfold write_coff_image _write_optional_header
  rw [if_neg hw.coff]
  simp only [h2, h3, h4, h5, h6]
  exact ⟨_, _, rfl⟩

theorem map_eq_of_symbol_core_eq {α : Type} (g : gp_symbol_t → α) (hg : ∀ s, g s.core = g s)
    {l l1 : List gp_symbol_t} (h : l1.map gp_symbol_t.core = l.map gp_symbol_t.core) :
    l1.map g = l.map g := by
  have e : ∀ l2 : List gp_symbol_t, l2.map g = (l2.map gp_symbol_t.core).map g := by
    intro l2
    rw [List.map_map]
    apply List.map_congr_left
    intro s _
    exact (hg s).symm
  rw [e l1, e l, h]

theorem mem_of_map_symbol_core_eq {l l1 : List gp_symbol_t}
    (h : l1.map gp_symbol_t.core = l.map gp_symbol_t.core) {y1 : gp_symbol_t}
    (hs : y1 ∈ l1) : ∃ y ∈ l, y1.core = y.core := by
  have : y1.core ∈ l1.map gp_symbol_t.core := List.mem_map_of_mem _ hs
  rw [h, List.mem_map] at this
  obtain ⟨y, hy, he⟩ := this
  exact ⟨y, hy, he.symm⟩

/-- `_update_pointers` changes nothing that an assertion of the writer tests. -/
theorem writable_update (K : gpcoff_h) (Object : gp_object_t) (hw : writable_object K Object) :
    writable_object K (_update_pointers K Object) := by
  obtain ⟨hc, hy, -, hn, hct, -, -⟩ := update_pointers_core K Object
  have hlen : (_update_pointers K Object).section_list.length = Object.section_list.length := by
    have := congrArg List.length hc
    simpa using this
  have hylen : (_update_pointers K Object).symbol_list.length = Object.symbol_list.length := by
    have := congrArg List.length hy
    simpa using this
  have hstr : object_strings (_update_pointers K Object) = object_strings Object := by
    unfold object_strings
    rw [hn, map_eq_of_core_eq (fun s => name_strings s.hdr.name) (fun _ => rfl) hc,
      map_eq_of_symbol_core_eq symbol_strings (fun _ => rfl) hy]
  refine ⟨by rw [hct]; exact hw.coff, by rw [hstr]; exact hw.fit, ?_, ?_, ?_, ?_⟩
  · intro s1 hs1 hd
    obtain ⟨s, hs, he⟩ := mem_of_map_core_eq hc hs1
    have e1 : has_data K s1 = has_data K s :=
      show has_data K s1.core = has_data K s.core from congrArg (has_data K) he
    have e2 : data_readable s1.core = data_readable s.core := congrArg data_readable he
    exact e2.mpr (hw.data s hs (e1 ▸ hd))
  · intro s1 hs1 h0 r hr
    obtain ⟨s, hs, he⟩ := mem_of_map_core_eq hc hs1
    have e1 : s1.hdr.relocation_list_num_nodes = s.hdr.relocation_list_num_nodes :=
      congrArg (fun c => c.hdr.relocation_list_num_nodes) he
    have e2 : s1.relocation_list = s.relocation_list := congrArg (fun c => c.relocation_list) he
    rw [hylen]
    exact hw.relocs s hs (e1 ▸ h0) r (e2 ▸ hr)
  · intro s1 hs1 h0 l hl
    obtain ⟨s, hs, he⟩ := mem_of_map_core_eq hc hs1
    have e1 : s1.hdr.line_number_list_num_nodes = s.hdr.line_number_list_num_nodes :=
      congrArg (fun c => c.hdr.line_number_list_num_nodes) he
    have e2 : s1.line_number_list = s.line_number_list :=
      congrArg (fun c => c.line_number_list) he
    rw [hylen]
    exact hw.linenos s hs (e1 ▸ h0) l (e2 ▸ hl)
  · intro h0 y1 hy1
    obtain ⟨y, hym, he⟩ := mem_of_map_symbol_core_eq hy hy1
    have e1 : y1.section_number = y.section_number := congrArg (fun c => c.section_number) he
    have e2 : y1.section_ = y.section_ := congrArg (fun c => c.section_) he
    have e3 : y1.aux_list_num_nodes = y.aux_list_num_nodes :=
      congrArg (fun c => c.aux_list_num_nodes) he
    have e4 : y1.aux_list = y.aux_list := congrArg (fun c => c.aux_list) he
    rw [e1, e2, e3, e4, hlen]
    exact hw.symbols (hn ▸ h0) y hym

/-- C13 (amended): with `Num_errors > 0`, `gp_writeobj_write_coff` returns false,
leaves the object and the string table as they are and only unlinks the file
name.  With `Num_errors <= 0` and a file that can be opened for writing it
never returns false, and it returns true, with the pointers of
`_update_pointers` in the object, when no assertion of the writer fails: the
processor has a COFF type, the strings fit the string table, the section data
are used bytes, every relocation and line number has a symbol, every symbol
with a section number from `N_SCNUM` on has a section, and no string of an
auxiliary record is `NULL`. -/
theorem write_coff_returns (K : gpcoff_h) (Object : gp_object_t) (Num_errors : Int)
    (st : StringTable) (fs : FileSys) :
    (Num_errors > 0 →
      gp_writeobj_write_coff K Object Num_errors st fs
        = some ⟨false, Object, st, unlink fs Object.filename⟩) ∧
    (Num_errors ≤ 0 → fs.fopen_wb Object.filename = true →
      (∀ r, gp_writeobj_write_coff K Object Num_errors st fs = some r → r.ret = true) ∧
      (writable_object K Object →
        ∃ r, gp_writeobj_write_coff K Object Num_errors st fs = some r ∧ r.ret = true ∧
          r.Object = _update_pointers K Object ∧
          ∃ bytes, r.fs.files Object.filename = some bytes)) := by
  refine ⟨fun h => ?_, fun h hopen => ⟨fun r hr => ?_, fun hw => ?_⟩⟩
  · unfold gp_writeobj_write_coff
    rw [if_pos h]
  · unfold gp_writeobj_write_coff at hr
    rw [if_neg (by omega), hopen] at hr
    simp only [Bool.true_eq_false, if_false] at hr
    cases h1 : write_coff_image K (_update_pointers K Object) (string_table_init st) with
    | none => simp [h1] at hr
    | some p =>
      obtain ⟨im, st1⟩ := p
      simp only [h1, Option.some.injEq] at hr
      rw [← hr]
  · obtain ⟨im, st1, h1⟩ := write_coff_image_ok K (_update_pointers K Object)
      (string_table_init st) (writable_update K Object hw) (table_inv_init st)
    unfold gp_writeobj_write_coff
    rw [if_neg (by omega), hopen]
    simp only [Bool.true_eq_false, if_false, h1]
    exact ⟨_, rfl, rfl, rfl, im.bytes, by simp⟩

theorem writable_example_object : writable_object example_gpcoff example_object where
  coff := by decide
  fit := by decide
  data := by
    intro s hs hd k _
    simp only [example_object, List.mem_cons, List.mem_singleton, List.not_mem_nil, or_false] at hs
    rcases hs with rfl | rfl | rfl
    · rfl
    · exact absurd hd (by decide)
    · rfl
  relocs := by decide
  linenos := by decide
  symbols := by
    intro _ y hy
    simp only [example_object, List.mem_singleton] at hy
    subst hy
    exact ⟨Or.inr ⟨0, rfl, by decide⟩, fun h => absurd h (by decide)⟩

/-- C13 (as amended) on the example object: with one error the call returns
false and changes nothing but the file name; without errors it returns true. -/
theorem write_coff_returns_witness :
    gp_writeobj_write_coff example_gpcoff example_object 1 example_table example_files
      = some ⟨false, example_object, example_table, unlink example_files example_object.filename⟩ ∧
    ∃ r, gp_writeobj_write_coff example_gpcoff example_object 0 example_table example_files
        = some r ∧ r.ret = true ∧
      r.Object = _update_pointers example_gpcoff example_object ∧
      ∃ bytes, r.fs.files example_object.filename = some bytes :=
  ⟨(write_coff_returns example_gpcoff example_object 1 example_table example_files).1
      (by decide),
    ((write_coff_returns example_gpcoff example_object 0 example_table example_files).2
      (by decide) rfl).2 writable_example_object⟩

/-- C13, counterexample: for a processor without a COFF type
(`gp_processor_coff_type` is 0), with no errors and a file that can be opened
for writing, `assert(coff_type != 0)` of `_write_optional_header` fails and
`gp_writeobj_write_coff` returns nothing. -/
theorem write_coff_unfinished_processor_aborts :
    example_files.fopen_wb unfinished_object.filename = true ∧
    gp_writeobj_write_coff example_gpcoff unfinished_object 0 example_table example_files
      = none :=
  ⟨rfl, rfl⟩

/-! ## The exit status of the assembler -/

/-- C30: in every run of `assemble` that reaches the end of pass 2
(`state.pass == 2` after the second parse), `assemble` returns, and the value
returned is `EXIT_FAILURE` if `state.num.errors > 0` or `gp_num_errors > 0` at
the `return`, and `EXIT_SUCCESS` otherwise. -/
theorem assemble_exit_code (C : gpasm_calls) (st : gpasm_state)
    (hpass : (assemble_passes C st).pass = 2) :
    ∃ ret final, assemble C st = some (ret, final) ∧
      final = assemble_finish C (assemble_passes C st) ∧
      ((final.num_errors > 0 ∨ final.gp_num_errors > 0) → ret = EXIT_FAILURE) ∧
      (¬ (final.num_errors > 0 ∨ final.gp_num_errors > 0) → ret = EXIT_SUCCESS) := by
  refine ⟨if (assemble_finish C (assemble_passes C st)).num_errors > 0 ∨
      (assemble_finish C (assemble_passes C st)).gp_num_errors > 0 then EXIT_FAILURE
    else EXIT_SUCCESS, assemble_finish C (assemble_passes C st), ?_, rfl, ?_, ?_⟩
  · unfold assemble
    simp only [hpass, ne_eq, not_true_eq_false, if_false]
  · intro h
    simp only [h, if_true]
  · intro h
    simp only [h, if_false]

/-- C30 on two runs: a run without errors returns `EXIT_SUCCESS`, a run with one
error in the second pass returns `EXIT_FAILURE`. -/
theorem assemble_exit_code_witness :
    (∃ final, assemble (example_gpasm_calls false) example_gpasm_state
      = some (EXIT_SUCCESS, final)) ∧
    (∃ final, assemble (example_gpasm_calls true) example_gpasm_state
      = some (EXIT_FAILURE, final)) := by
  obtain ⟨r1, f1, h1, e1, -, b1⟩ :=
    assemble_exit_code (example_gpasm_calls false) example_gpasm_state rfl
  obtain ⟨r2, f2, h2, e2, a2, -⟩ :=
    assemble_exit_code (example_gpasm_calls true) example_gpasm_state rfl
  refine ⟨⟨f1, ?_⟩, ⟨f2, ?_⟩⟩
  · rw [h1, b1 (by rw [e1]; decide)]
  · rw [h2, a2 (by rw [e2]; decide)]

/-! ## The exit status of the linker -/

theorem linker_link_result (C : gplink_calls) (st1 : gplink_state) :
    (∀ value st2, linker_link C st1 = .returned value st2 →
      value = if st2.gp_num_errors ≤ 0 then 1 else 0) ∧
    (∀ status st2, linker_link C st1 = .exited status st2 → status = 1) ∧
    linker_link C st1 ≠ .aborted := by
  unfold linker_link
  cases hlo : C.link_objects st1 with
  | none =>
    refine ⟨?_, ?_, ?_⟩
    · intro _ _ h
      cases h
    · intro _ _ h
      simp only [linker_result.exited.injEq] at h
      exact h.1.symm
    · intro h
      cases h
  | some st3 =>
    simp only []
    by_cases c1 : (if st3.obj_file_normal = true then C.gp_writeobj_write_coff st3
        else (true, C.unlink st3)).1 = false
    · rw [if_pos c1]
      refine ⟨?_, ?_, ?_⟩
      · intro _ _ h
        cases h
      · intro _ _ h
        simp only [linker_result.exited.injEq] at h
        exact h.1.symm
      · intro h
        cases h
    · rw [if_neg c1]
      by_cases c2 : (C.gp_writehex (C.gp_cofflink_make_memory
          (if st3.obj_file_normal = true then C.gp_writeobj_write_coff st3
            else (true, C.unlink st3)).2)).1 = false
      · rw [if_pos c2]
        refine ⟨?_, ?_, ?_⟩
        · intro _ _ h
          cases h
        · intro _ _ h
          simp only [linker_result.exited.injEq] at h
          exact h.1.symm
        · intro h
          cases h
      · rw [if_neg c2]
        refine ⟨?_, ?_, ?_⟩
        · intro value st2 h
          simp only [linker_result.returned.injEq] at h
          obtain ⟨a, b⟩ := h
          rw [← b, ← a]
        · intro _ _ h
          cases h
        · intro h
          cases h

/-- C29 (the code diverges from the claim): when no linker script can be
determined, when no input object file is given and when an error occurred while
the input files were read, `_linker` executes `return EXIT_FAILURE`; its result
is a `gp_boolean`, `EXIT_FAILURE` is not 0, and `main` returns
`_linker() ? EXIT_SUCCESS : EXIT_FAILURE`, so the exit status is `EXIT_SUCCESS`
although the error count is positive.  Only `exit(1)` and the last `return
(gp_num_errors <= 0)` give the status that the claim states. -/
theorem linker_exit_status (C : gplink_calls) (st : gplink_state) (h0 : 0 ≤ st.gp_num_errors) :
    (st.src_file_names = [] →
      ¬ (C.USE_DEFAULT_PATHS ∧ st.has_object = true ∧ C.gp_lkr_path ≠ none) →
      gplink_main C st = some EXIT_SUCCESS ∧
      ∃ n, gplink_errors C st = some n ∧ 0 < n) ∧
    (st.src_file_names = [] →
      (C.USE_DEFAULT_PATHS ∧ st.has_object = true ∧ C.gp_lkr_path ≠ none) →
      st.has_processor = true → C.gp_processor_script st = none →
      gplink_main C st = some EXIT_SUCCESS ∧
      ∃ n, gplink_errors C st = some n ∧ 0 < n) ∧
    (∀ st1, linker_script C st = .inr st1 → st1.has_object = false →
      0 ≤ st1.gp_num_errors →
      gplink_main C st = some EXIT_SUCCESS ∧
      ∃ n, gplink_errors C st = some n ∧ 0 < n) ∧
    (∀ st1, linker_script C st = .inr st1 → st1.has_object = true →
      0 < st1.gp_num_errors →
      gplink_main C st = some EXIT_SUCCESS ∧
      ∃ n, gplink_errors C st = some n ∧ 0 < n) ∧
    (∀ st1 value st2, linker_script C st = .inr st1 → st1.has_object = true →
      st1.gp_num_errors ≤ 0 → linker_link C st1 = .returned value st2 →
      gplink_main C st
        = some (if st2.gp_num_errors ≤ 0 then EXIT_SUCCESS else EXIT_FAILURE)) ∧
    (∀ st1 status st2, linker_script C st = .inr st1 → st1.has_object = true →
      st1.gp_num_errors ≤ 0 → linker_link C st1 = .exited status st2 →
      gplink_main C st = some 1) := by
  refine ⟨?_, ?_, ?_, ?_, ?_, ?_⟩
  · intro hs hd
    have e : linker_script C st = .inl (.returned EXIT_FAILURE (gp_error st)) := by
      unfold linker_script
      rw [if_neg (by simp [hs]), if_neg hd]
    simp only [gplink_main, gplink_errors, _linker, e]
    refine ⟨by decide, _, rfl, ?_⟩
    show 0 < st.gp_num_errors + 1
    omega
  · intro hs hd hp hn
    have e : linker_script C st = .inl (.returned EXIT_FAILURE (gp_error st)) := by
      unfold linker_script
      rw [if_neg (by simp [hs]), if_pos hd, hp]
      simp [hn]
    simp only [gplink_main, gplink_errors, _linker, e]
    refine ⟨by decide, _, rfl, ?_⟩
    show 0 < st.gp_num_errors + 1
    omega
  · intro st1 e ho h1
    simp only [gplink_main, gplink_errors, _linker, e, ho, if_true]
    refine ⟨by decide, _, rfl, ?_⟩
    show 0 < st1.gp_num_errors + 1
    omega
  · intro st1 e ho h1
    simp only [gplink_main, gplink_errors, _linker, e, ho, h1, Bool.true_eq_false, if_false,
      if_true]
    exact ⟨by decide, _, rfl, h1⟩
  · intro st1 value st2 e ho h1 hl
    have hv := (linker_link_result C st1).1 value st2 hl
    have hn : ¬ st1.gp_num_errors > 0 := by omega
    simp only [gplink_main, _linker, e, ho, hn, hl, Bool.true_eq_false, if_false]
    rw [hv]
    by_cases hc : st2.gp_num_errors ≤ 0
    · simp only [hc, if_true]
      decide
    · simp only [hc, if_false]
      decide
  · intro st1 status st2 e ho h1 hl
    have hv := (linker_link_result C st1).2.1 status st2 hl
    have hn : ¬ st1.gp_num_errors > 0 := by omega
    simp only [gplink_main, _linker, e, ho, hn, hl, Bool.true_eq_false, if_false]
    rw [hv]

/-- C29 on `gplink -s a.lkr` (a linker script and no object file): the message
"Missing input object file." is counted and the exit status is `EXIT_SUCCESS`. -/
theorem linker_exit_status_witness :
    gplink_main example_gplink_calls example_gplink_no_object = some EXIT_SUCCESS ∧
    gplink_errors example_gplink_calls example_gplink_no_object = some 1 ∧
    EXIT_SUCCESS = 0 := by
  have h := (linker_exit_status example_gplink_calls example_gplink_no_object
    (by decide)).2.2.1 example_gplink_no_object rfl rfl (by decide)
  exact ⟨h.1, rfl, rfl⟩

/-! ## The linker: archive members that resolve missing symbols -/

/-- When `_scan_index` returns, no name of the missing table has an entry in the
index; when it returns false it has changed nothing. -/
theorem scan_index_spec (add : add_symbols_t) (Table : List Nat → Option link_object) :
    ∀ (fuel : Nat) (st st1 : gplink_symbols) (m : Bool),
      _scan_index add Table fuel st = some (m, st1) →
      (∀ n ∈ st1.missing, Table n = none) ∧ (m = false → st1 = st) := by
  intro fuel
  induction fuel with
  | zero => intro st st1 m h; simp [_scan_index] at h
  | succ fuel ih =>
    intro st st1 m h
    unfold _scan_index at h
    cases hf : st.missing.findSome? Table with
    | none =>
      simp only [hf, Option.some.injEq, Prod.mk.injEq] at h
      obtain ⟨rfl, rfl⟩ := h
      refine ⟨fun n hn => ?_, fun _ => rfl⟩
      rw [List.findSome?_eq_none_iff] at hf
      exact hf n hn
    | some object =>
      simp only [hf] at h
      cases hr : _scan_index add Table fuel (scan_index_add add object st) with
      | none => simp [hr] at h
      | some p =>
        obtain ⟨m2, st2⟩ := p
        simp only [hr, Option.some.injEq, Prod.mk.injEq] at h
        obtain ⟨rfl, rfl⟩ := h
        exact ⟨(ih _ _ _ hr).1, fun hm => by cases hm⟩

theorem build_tables_loop_spec (add : add_symbols_t) (archives : List archivelist_t) :
    ∀ (fuel : Nat) (done arlist : List archivelist_t) (modified : Bool)
      (st st1 : gplink_symbols) (scans : List (List Nat)),
      archives = done ++ arlist →
      (modified = false → ∀ a ∈ done, ∀ n ∈ st.missing, a.index n = none) →
      build_tables_loop add archives fuel arlist modified st = some (st1, scans) →
      (st1.missing = [] ∨ ∀ a ∈ archives, ∀ n ∈ st1.missing, a.index n = none) ∧
      command_line_order (archives.map (fun a => a.name)) (arlist.map (fun a => a.name))
        scans := by
  intro fuel
  induction fuel with
  | zero => intro done arlist modified st st1 scans _ _ h; simp [build_tables_loop] at h
  | succ fuel ih =>
    intro done arlist modified st st1 scans hsplit hinv h
    cases arlist with
    | nil => simp [build_tables_loop] at h
    | cons a next =>
      unfold build_tables_loop at h
      cases hs : _scan_archive add a fuel st with
      | none => simp [hs] at h
      | some p =>
        obtain ⟨m, st2⟩ := p
        simp only [hs] at h
        obtain ⟨hno, hsame⟩ := scan_index_spec add a.index fuel st st2 m hs
        by_cases h0 : st2.missing.length = 0
        · rw [if_pos h0] at h
          simp only [Option.some.injEq, Prod.mk.injEq] at h
          obtain ⟨rfl, rfl⟩ := h
          refine ⟨Or.inl (List.length_eq_zero.mp h0), 0, [], List.nil_prefix, Or.inr ?_⟩
          simp
        · rw [if_neg h0] at h
          -- the invariant after the scan of `a`
          have hinv2 : (m || modified) = false →
              ∀ b ∈ done ++ [a], ∀ n ∈ st2.missing, b.index n = none := by
            intro hm
            rw [Bool.or_eq_false_iff] at hm
            obtain ⟨hm1, hm2⟩ := hm
            have e := hsame hm1
            intro b hb n hn
            rw [List.mem_append, List.mem_singleton] at hb
            rcases hb with hb | rfl
            · rw [e] at hn
              exact hinv hm2 b hb n hn
            · exact hno n hn
          by_cases hn : next.isEmpty = true
          · rw [if_pos hn] at h
            have hn' : next = [] := List.isEmpty_iff.mp hn
            subst hn'
            by_cases hm : (m || modified) = true
            · rw [if_pos hm] at h
              cases hr : build_tables_loop add archives fuel archives false st2 with
              | none => simp [hr] at h
              | some q =>
                obtain ⟨st3, scans3⟩ := q
                simp only [hr, Option.some.injEq, Prod.mk.injEq] at h
                obtain ⟨rfl, rfl⟩ := h
                obtain ⟨r1, rounds, last, hl, r2⟩ := ih [] archives false st2 st3 scans3
                  (by simp) (fun _ b hb => absurd hb (List.not_mem_nil b)) hr
                refine ⟨r1, ?_⟩
                rcases r2 with r2 | r2
                · refine ⟨rounds + 1, last, hl, Or.inl ?_⟩
                  rw [r2, List.replicate_succ, List.flatten_cons]
                  simp
                · refine ⟨0, scans3, r2, Or.inl ?_⟩
                  simp
            · rw [if_neg hm] at h
              simp only [Option.some.injEq, Prod.mk.injEq] at h
              obtain ⟨rfl, rfl⟩ := h
              have hm' : (m || modified) = false := by
                simpa using hm
              refine ⟨Or.inr ?_, 0, [], List.nil_prefix, Or.inr ?_⟩
              · rw [hsplit]
                exact hinv2 hm'
              · simp
          · rw [if_neg hn] at h
            cases hr : build_tables_loop add archives fuel next
                (m || modified) st2 with
            | none => simp [hr] at h
            | some q =>
              obtain ⟨st3, scans3⟩ := q
              simp only [hr, Option.some.injEq, Prod.mk.injEq] at h
              obtain ⟨rfl, rfl⟩ := h
              obtain ⟨r1, rounds, last, hl, r2⟩ := ih (done ++ [a]) next _ st2 st3 scans3
                (by rw [hsplit]; simp) hinv2 hr
              refine ⟨r1, rounds, last, hl, ?_⟩
              rcases r2 with r2 | r2
              · left
                rw [r2]
                simp
              · right
                rw [List.map_cons]
                exact (List.prefix_cons_inj _).mpr r2

/-- C28: when the archive loop of `_build_tables` has ended, the missing table is
empty or no name of it has an entry in the symbol index of an archive; the
archives are scanned in the order of the list `state.archives`, round after
round; and a call of `_scan_index` returns only when no name of the missing
table, the names that the added members brought included, has an entry in the
index that it scans. -/
theorem archive_pull_in (add : add_symbols_t) (archives : List archivelist_t) (fuel : Nat)
    (st st1 : gplink_symbols) (scans : List (List Nat))
    (hrun : _build_tables add archives fuel st = some (st1, scans)) :
    (st1.missing = [] ∨ ∀ a ∈ archives, ∀ n ∈ st1.missing, a.index n = none) ∧
    command_line_order (archives.map (fun a => a.name)) (archives.map (fun a => a.name)) scans ∧
    (∀ (Table : List Nat → Option link_object) (fuel1 : Nat) (s s1 : gplink_symbols) (m : Bool),
      _scan_index add Table fuel1 s = some (m, s1) →
      (∀ n ∈ s1.missing, Table n = none) ∧ (m = false → s1 = s)) := by
  refine ⟨?_, ?_, fun Table fuel1 s s1 m h => scan_index_spec add Table fuel1 s s1 m h⟩
  all_goals
    unfold _build_tables at hrun
    simp only [] at hrun
    by_cases hc : (build_tables_objects add st.object (st.extern_global, st.missing)).2.length > 0 ∧
        archives.isEmpty = false
  · rw [if_pos hc] at hrun
    exact (build_tables_loop_spec add archives fuel [] archives false _ st1 scans (by simp)
      (fun _ b hb => absurd hb (List.not_mem_nil b)) hrun).1
  · rw [if_neg hc] at hrun
    simp only [Option.some.injEq, Prod.mk.injEq] at hrun
    obtain ⟨rfl, rfl⟩ := hrun
    rw [not_and_or] at hc
    rcases hc with hc | hc
    · left
      exact List.length_eq_zero.mp (by simpa using hc)
    · right
      have : archives = [] := List.isEmpty_iff.mp (by simpa using hc)
      intro a ha
      rw [this] at ha
      exact absurd ha (List.not_mem_nil a)
  · rw [if_pos hc] at hrun
    exact (build_tables_loop_spec add archives fuel [] archives false _ st1 scans (by simp)
      (fun _ b hb => absurd hb (List.not_mem_nil b)) hrun).2
  · rw [if_neg hc] at hrun
    simp only [Option.some.injEq, Prod.mk.injEq] at hrun
    obtain ⟨rfl, rfl⟩ := hrun
    exact ⟨0, [], List.nil_prefix, Or.inr List.nil_prefix⟩

/-- C28 on the scenario "Archive pull-in": the object `a.o` references `bar`, the
member `m.o` of the archive defines `bar` and references `baz`, the member `n.o`
defines `baz`; after the loop both members are in the object list and the
missing table is empty. -/
theorem archive_pull_in_witness :
    ∃ st1 scans,
      _build_tables example_add_symbols [example_archive_x] 4 example_link_state
        = some (st1, scans) ∧
      st1.object = [example_object_a, example_member_m, example_member_n] ∧
      st1.missing = [] ∧
      (st1.missing = [] ∨
        ∀ a ∈ [example_archive_x], ∀ n ∈ st1.missing, a.index n = none) :=
  ⟨_, _, rfl, rfl, rfl,
    (archive_pull_in example_add_symbols [example_archive_x] 4 example_link_state _ _ rfl).1⟩

/-! ## The classical banksel pass -/

theorem slot_protects_zero (r : Nat) : slot_protects r reloc_properties.zero := by
  intro h
  cases h

theorem pipe_protects_clear (r : Nat) : pipe_protects r _reloc_pipe_clear :=
  ⟨slot_protects_zero r, slot_protects_zero r, slot_protects_zero r, slot_protects_zero r⟩

/-- What `_destroy_insn_and_update_addr` does to the pipe and to the list of the
deleted relocations. -/
theorem destroy_insn_spec (K : copt_env) (st st1 : copt_state) (i : Nat)
    (h : _destroy_insn_and_update_addr K st i = some st1) :
    ∃ rel, (st.reloc_pipe.get i).relocation = some rel ∧
      st1.deleted = st.deleted ++ [rel] ∧ st1.first_banksel = st.first_banksel ∧
      ∀ r, (∀ j, j < 4 → j ≠ i → slot_protects r (st.reloc_pipe.get j)) →
        pipe_protects r st1.reloc_pipe := by
  unfold _destroy_insn_and_update_addr at h
  simp only [] at h
  cases hr : (st.reloc_pipe.get i).relocation with
  | none => simp [hr] at h
  | some rel =>
    simp only [hr] at h
    cases hu : K.update_addr (st.reloc_pipe.get i) st.Section with
    | none => simp [hu] at h
    | some sec =>
      simp only [hu] at h
      refine ⟨rel, rfl, ?_⟩
      match i, h with
      | 0, h =>
        simp only [_reloc_pipe_delete_state, Option.some.injEq, Nat.not_lt_zero, if_false] at h
        subst h
        refine ⟨rfl, rfl, fun r hj => ⟨hj 1 (by omega) (by omega), hj 2 (by omega) (by omega),
          hj 3 (by omega) (by omega), slot_protects_zero r⟩⟩
      | 1, h =>
        simp only [_reloc_pipe_delete_state, Option.some.injEq] at h
        subst h
        refine ⟨rfl, rfl, fun r hj => ⟨?_, hj 2 (by omega) (by omega),
          hj 3 (by omega) (by omega), slot_protects_zero r⟩⟩
        exact hj 0 (by omega) (by omega)
      | 2, h =>
        simp only [_reloc_pipe_delete_state, Option.some.injEq] at h
        subst h
        refine ⟨rfl, rfl, fun r hj => ⟨?_, ?_, hj 3 (by omega) (by omega),
          slot_protects_zero r⟩⟩
        · exact hj 0 (by omega) (by omega)
        · exact hj 1 (by omega) (by omega)
      | 3, h =>
        simp only [_reloc_pipe_delete_state, Option.some.injEq] at h
        subst h
        refine ⟨rfl, rfl, fun r hj => ⟨?_, ?_, ?_, slot_protects_zero r⟩⟩
        · exact hj 0 (by omega) (by omega)
        · exact hj 1 (by omega) (by omega)
        · exact hj 2 (by omega) (by omega)
      | n + 4, h => simp [_reloc_pipe_delete_state] at h

theorem banksel_switch_not_banksel (K : copt_env) (t : reloc_type) (value n : Nat)
    (h1 : t ≠ .RELOC_BANKSEL) (h2 : t ≠ .RELOC_MOVLB)
    (x : Nat × Nat × Bool × Bool) (h : banksel_reloc_switch K t value n = some x) :
    x.2.2.2 = false := by
  cases t <;> simp_all [banksel_reloc_switch] <;> subst h <;> rfl

theorem banksel_switch_banksel (K : copt_env) (t : reloc_type) (value n : Nat)
    (ht : t = .RELOC_BANKSEL ∨ t = .RELOC_MOVLB) :
    ∃ bank len, banksel_reloc_switch K t value n = some (bank, len, false, true) := by
  rcases ht with rfl | rfl
  · exact ⟨_, _, rfl⟩
  · exact ⟨_, _, rfl⟩

/-- The analysis of a relocation that is not a bank selection leaves a state with
an empty pipe as it is and returns false. -/
theorem banksel_analyze_other (K : copt_env) (st : copt_state) (q n : Nat)
    (hq : is_banksel st.Section q = false) (hp : st.reloc_pipe = _reloc_pipe_clear)
    (r : Bool × copt_state) (h : _banksel_reloc_analyze K st q n = some r) :
    r = (false, st) := by
  unfold is_banksel at hq
  simp only [Bool.or_eq_false_iff, decide_eq_false_iff_not] at hq
  unfold _banksel_reloc_analyze at h
  simp only [Nat.reducePow] at h
  cases hd : st.Section.data ((st.Section.address + (st.Section.relocation q).address) % 4294967296) with
  | none => simp [hd] at h
  | some data =>
    simp only [hd] at h
    cases hs : banksel_reloc_switch K (st.Section.relocation q).type_
        (to_unsigned ((st.Section.relocation q).symbol_value + (st.Section.relocation q).offset))
        n with
    | none => simp [hs] at h
    | some x =>
      obtain ⟨bank, len, need_clear, there⟩ := x
      have ht := banksel_switch_not_banksel K _ _ _ hq.1 hq.2 _ hs
      simp only at ht
      subst ht
      simp only [hs] at h
      cases need_clear
      · simp only [Bool.false_eq_true, if_false, Option.some.injEq] at h
        exact h.symm
      · simp only [if_true, Option.some.injEq] at h
        rw [← h, ← hp]

theorem banksel_relocs_other (K : copt_env) (n : Nat) (before : List Nat) :
    ∀ (st st1 : copt_state), st.reloc_pipe = _reloc_pipe_clear →
      (∀ q ∈ before, is_banksel st.Section q = false) →
      banksel_relocs K n before st = some st1 → st1 = st := by
  induction before with
  | nil =>
    intro st st1 _ _ h
    simp only [banksel_relocs, Option.some.injEq] at h
    exact h.symm
  | cons q rest ih =>
    intro st st1 hp hq h
    unfold banksel_relocs at h
    cases ha : _banksel_reloc_analyze K st q n with
    | none => simp [ha] at h
    | some r =>
      have e := banksel_analyze_other K st q n (hq q (List.mem_cons_self _ _)) hp r ha
      subst e
      simp only [ha, Bool.false_eq_true, if_false] at h
      exact ih st st1 hp (fun x hx => hq x (List.mem_cons_of_mem _ hx)) h

theorem banksel_relocs_append (K : copt_env) (n : Nat) (l1 l2 : List Nat) :
    ∀ st, banksel_relocs K n (l1 ++ l2) st
      = (banksel_relocs K n l1 st).bind (banksel_relocs K n l2) := by
  induction l1 with
  | nil => intro st; simp [banksel_relocs]
  | cons q rest ih =>
    intro st
    simp only [List.cons_append, banksel_relocs]
    cases ha : _banksel_reloc_analyze K st q n with
    | none => simp
    | some r =>
      obtain ⟨b, st1⟩ := r
      simp only []
      cases b
      · simp only [Bool.false_eq_true, if_false]
        exact ih st1
      · simp only [if_true]
        cases hr : _banksel_remove K st1 with
        | none => simp
        | some r2 =>
          obtain ⟨_, st2⟩ := r2
          exact ih st2

/-- The analysis of the first bank selection of a section: the relocation enters
`reloc_pipe[0]` with the flag `protected`. -/
theorem banksel_analyze_first (K : copt_env) (st : copt_state) (r n : Nat)
    (hr : is_banksel st.Section r = true) (hp : st.reloc_pipe = _reloc_pipe_clear)
    (hf : st.first_banksel = false)
    (x : Bool × copt_state) (h : _banksel_reloc_analyze K st r n = some x) :
    x.1 = true ∧ x.2.reloc_pipe.s0.relocation = some r ∧ x.2.reloc_pipe.s0.protected_ = true ∧
    x.2.reloc_pipe.s1 = .zero ∧ x.2.reloc_pipe.s2 = .zero ∧ x.2.reloc_pipe.s3 = .zero ∧
    x.2.first_banksel = true ∧ x.2.deleted = st.deleted := by
  unfold is_banksel at hr
  simp only [Bool.or_eq_true, decide_eq_true_eq] at hr
  unfold _banksel_reloc_analyze at h
  simp only [Nat.reducePow] at h
  cases hd : st.Section.data ((st.Section.address + (st.Section.relocation r).address) % 4294967296) with
  | none => simp [hd] at h
  | some data =>
    obtain ⟨bank, len, hs⟩ := banksel_switch_banksel K (st.Section.relocation r).type_
      (to_unsigned ((st.Section.relocation r).symbol_value + (st.Section.relocation r).offset))
      n hr
    simp only [hd, hs, Bool.false_eq_true, if_false, if_true, hf, hp, Option.some.injEq] at h
    subst h
    exact ⟨rfl, rfl, rfl, rfl, rfl, rfl, rfl, rfl⟩

/-- The analysis of another relocation keeps the flag of the elements that hold
`r`. -/
theorem banksel_analyze_keeps (K : copt_env) (st : copt_state) (q n r : Nat) (hqr : q ≠ r)
    (x : Bool × copt_state) (h : _banksel_reloc_analyze K st q n = some x)
    (hp : pipe_protects r st.reloc_pipe) :
    pipe_protects r x.2.reloc_pipe ∧ x.2.deleted = st.deleted ∧
    (st.first_banksel = true → x.2.first_banksel = true) := by
  unfold _banksel_reloc_analyze at h
  simp only [Nat.reducePow] at h
  cases hd : st.Section.data ((st.Section.address + (st.Section.relocation q).address) % 4294967296) with
  | none => simp [hd] at h
  | some data =>
    simp only [hd] at h
    cases hs : banksel_reloc_switch K (st.Section.relocation q).type_
        (to_unsigned ((st.Section.relocation q).symbol_value + (st.Section.relocation q).offset))
        n with
    | none => simp [hs] at h
    | some y =>
      obtain ⟨bank, len, need_clear, there⟩ := y
      simp only [hs] at h
      have hnew : ∀ e : reloc_properties, e.relocation = some q → slot_protects r e := by
        intro e he hr
        rw [he] at hr
        exact absurd (Option.some.inj hr) hqr
      obtain ⟨p0, p1, p2, p3⟩ := hp
      cases need_clear
      · cases there
        · simp only [Bool.false_eq_true, if_false, Option.some.injEq] at h
          subst h
          exact ⟨⟨p0, p1, p2, p3⟩, rfl, fun hf => hf⟩
        · simp only [Bool.false_eq_true, if_false, if_true] at h
          by_cases hf : st.first_banksel = false
          · rw [if_pos hf] at h
            simp only [Option.some.injEq] at h
            subst h
            exact ⟨⟨hnew _ rfl, p0, p1, p2⟩, rfl, fun _ => rfl⟩
          · rw [if_neg hf] at h
            simp only [Option.some.injEq] at h
            subst h
            exact ⟨⟨hnew _ rfl, p0, p1, p2⟩, rfl, fun hf => hf⟩
      · simp only [if_true, Option.some.injEq] at h
        subst h
        exact ⟨pipe_protects_clear r, rfl, fun hf => hf⟩

/-- `_banksel_remove` deletes no relocation whose elements in the pipe have the
flag `protected`. -/
theorem banksel_remove_keeps (K : copt_env) (st : copt_state) (r : Nat)
    (x : Bool × copt_state) (h : _banksel_remove K st = some x)
    (hp : pipe_protects r st.reloc_pipe) (hd : r ∉ st.deleted) :
    pipe_protects r x.2.reloc_pipe ∧ r ∉ x.2.deleted ∧
    x.2.first_banksel = st.first_banksel := by
  obtain ⟨p0, p1, p2, p3⟩ := hp
  unfold _banksel_remove at h
  simp only [] at h
  by_cases h0 : saturation st.reloc_pipe = 0
  · rw [if_pos h0] at h
    simp only [Option.some.injEq] at h
    subst h
    exact ⟨⟨p0, p1, p2, p3⟩, hd, rfl⟩
  · rw [if_neg h0] at h
    by_cases hc : saturation st.reloc_pipe ≥ 2 ∧ st.reloc_pipe.s1.state = COPT_BANKSEL
        ∧ st.reloc_pipe.s0.state = COPT_BANKSEL
        ∧ st.reloc_pipe.s1.ram_bank = st.reloc_pipe.s0.ram_bank
    · rw [if_pos hc] at h
      by_cases h1 : st.reloc_pipe.s1.protected_ = false
      · rw [if_pos h1] at h
        cases hx : _destroy_insn_and_update_addr K st 1 with
        | none => simp [hx] at h
        | some st1 =>
          simp only [hx, Option.some.injEq] at h
          subst h
          obtain ⟨rel, hrel, hdel, hfb, hpipe⟩ := destroy_insn_spec K st st1 1 hx
          refine ⟨hpipe r ?_, ?_, hfb⟩
          · intro j hj hne
            match j, hj, hne with
            | 0, _, _ => exact p0
            | 2, _, _ => exact p2
            | 3, _, _ => exact p3
          · rw [hdel, List.mem_append, List.mem_singleton]
            rintro (hm | rfl)
            · exact hd hm
            · have := p1 hrel
              rw [h1] at this
              cases this
      · rw [if_neg h1] at h
        by_cases h2 : st.reloc_pipe.s0.protected_ = false
        · rw [if_pos h2] at h
          cases hx : _destroy_insn_and_update_addr K st 0 with
          | none => simp [hx] at h
          | some st1 =>
            simp only [hx, Option.some.injEq] at h
            subst h
            obtain ⟨rel, hrel, hdel, hfb, hpipe⟩ := destroy_insn_spec K st st1 0 hx
            refine ⟨hpipe r ?_, ?_, hfb⟩
            · intro j hj hne
              match j, hj, hne with
              | 1, _, _ => exact p1
              | 2, _, _ => exact p2
              | 3, _, _ => exact p3
            · rw [hdel, List.mem_append, List.mem_singleton]
              rintro (hm | rfl)
              · exact hd hm
              · have := p0 hrel
                rw [h2] at this
                cases this
        · rw [if_neg h2] at h
          simp only [Option.some.injEq] at h
          subst h
          exact ⟨⟨p0, p1, p2, p3⟩, hd, rfl⟩
    · rw [if_neg hc] at h
      simp only [Option.some.injEq] at h
      subst h
      exact ⟨⟨p0, p1, p2, p3⟩, hd, rfl⟩

theorem banksel_relocs_keeps (K : copt_env) (n r : Nat) (l : List Nat) (hr : r ∉ l) :
    ∀ (st st1 : copt_state), banksel_relocs K n l st = some st1 →
      pipe_protects r st.reloc_pipe → r ∉ st.deleted → r ∉ st1.deleted := by
  induction l with
  | nil =>
    intro st st1 h _ hd
    simp only [banksel_relocs, Option.some.injEq] at h
    rw [← h]
    exact hd
  | cons q rest ih =>
    intro st st1 h hp hd
    have hqr : q ≠ r := fun e => hr (e ▸ List.mem_cons_self _ _)
    have hrest : r ∉ rest := fun hm => hr (List.mem_cons_of_mem _ hm)
    unfold banksel_relocs at h
    cases ha : _banksel_reloc_analyze K st q n with
    | none => simp [ha] at h
    | some x =>
      obtain ⟨b, st2⟩ := x
      obtain ⟨a1, a2, -⟩ := banksel_analyze_keeps K st q n r hqr _ ha hp
      simp only [ha] at h
      cases b
      · simp only [Bool.false_eq_true, if_false] at h
        exact ih hrest st2 st1 h a1 (a2 ▸ hd)
      · simp only [if_true] at h
        cases hm : _banksel_remove K st2 with
        | none => simp [hm] at h
        | some y =>
          obtain ⟨b2, st3⟩ := y
          simp only [hm] at h
          obtain ⟨r1, r2, -⟩ := banksel_remove_keeps K st2 r _ hm a1 (a2 ▸ hd)
          exact ih hrest st3 st1 h r1 r2

/-- C22: in a run of the classical banksel pass over the relocations of a section,
the first relocation of type `RELOC_BANKSEL` or `RELOC_MOVLB` enters the pipe
with the flag `protected`, and `_banksel_remove` never deletes it, whatever
relocations follow it (the pointers of the relocations being distinct). -/
theorem first_banksel_kept (K : copt_env) (Num_banks : Nat) (Section : copt_section)
    (before after : List Nat) (r : Nat) (st1 : copt_state)
    (hnd : (before ++ r :: after).Nodup)
    (hbefore : ∀ q ∈ before, is_banksel Section q = false)
    (hr : is_banksel Section r = true)
    (hrun : banksel_section K Num_banks (before ++ r :: after) Section = some st1) :
    r ∉ st1.deleted ∧
    ∃ st_r, _banksel_reloc_analyze K
        { reloc_pipe := _reloc_pipe_clear, first_banksel := false, Section := Section,
          deleted := [] } r Num_banks = some (true, st_r) ∧
      st_r.reloc_pipe.s0.relocation = some r ∧ st_r.reloc_pipe.s0.protected_ = true ∧
      banksel_relocs K Num_banks after st_r = some st1 := by
  unfold banksel_section at hrun
  rw [banksel_relocs_append] at hrun
  cases hb : banksel_relocs K Num_banks before
      { reloc_pipe := _reloc_pipe_clear, first_banksel := false, Section := Section,
        deleted := [] } with
  | none => simp [hb] at hrun
  | some st0 =>
    have e0 := banksel_relocs_other K Num_banks before _ st0 rfl hbefore hb
    subst e0
    simp only [hb, Option.some_bind] at hrun
    unfold banksel_relocs at hrun
    cases ha : _banksel_reloc_analyze K
        { reloc_pipe := _reloc_pipe_clear, first_banksel := false, Section := Section,
          deleted := [] } r Num_banks with
    | none => simp [ha] at hrun
    | some x =>
      obtain ⟨b, st_r⟩ := x
      obtain ⟨f1, f2, f3, f4, f5, f6, f7, f8⟩ := banksel_analyze_first K _ r Num_banks hr rfl rfl _ ha
      simp only at f1 f2 f3 f4 f5 f6 f7 f8
      subst f1
      simp only [ha, if_true] at hrun
      have hprot : pipe_protects r st_r.reloc_pipe := by
        refine ⟨fun _ => f3, ?_, ?_, ?_⟩
        · rw [f4]; exact slot_protects_zero r
        · rw [f5]; exact slot_protects_zero r
        · rw [f6]; exact slot_protects_zero r
      have hdel : r ∉ st_r.deleted := by
        rw [f8]
        exact List.not_mem_nil r
      cases hm : _banksel_remove K st_r with
      | none => simp [hm] at hrun
      | some y =>
        obtain ⟨b2, st2⟩ := y
        simp only [hm] at hrun
        have hsat : saturation st_r.reloc_pipe = 1 := by
          unfold saturation
          rw [f2, f4, f5, f6]
          rfl
        have e2 : st2 = st_r := by
          unfold _banksel_remove at hm
          simp only [hsat] at hm
          simp at hm
          exact hm.2.symm
        subst e2
        have hra : r ∉ after := by
          have := (List.nodup_append.mp hnd).2.1
          exact (List.nodup_cons.mp this).1
        exact ⟨banksel_relocs_keeps K Num_banks r after hra _ st1 hrun hprot hdel,
          _, rfl, f2, f3, hrun⟩

/-- C22 on a section with the relocations `banksel X`, `movwf X` (type `RELOC_F`),
`banksel X`: the first bank selection is kept, and the second one is
deleted. -/
theorem first_banksel_kept_witness :
    ∃ st1,
      banksel_section example_copt_env 4 ([] ++ 0 :: [1, 2])
        (example_copt_section [(.RELOC_BANKSEL, 0x80), (.RELOC_F, 0x80), (.RELOC_BANKSEL, 0x80)] [])
        = some st1 ∧
      st1.deleted = [2] ∧ 0 ∉ st1.deleted :=
  ⟨_, rfl, rfl,
    (first_banksel_kept example_copt_env 4
      (example_copt_section [(.RELOC_BANKSEL, 0x80), (.RELOC_F, 0x80), (.RELOC_BANKSEL, 0x80)] [])
      [] [1, 2] 0 _ (by decide) (by simp) rfl rfl).1⟩

theorem saturation_ge_two (pipe : reloc_pipe_t) (r0 r1 : Nat)
    (h0 : pipe.s0.relocation = some r0) (h1 : pipe.s1.relocation = some r1) :
    saturation pipe ≥ 2 ∧ saturation pipe ≠ 0 := by
  unfold saturation
  rw [h0, h1]
  simp only [ne_eq, reduceCtorEq, not_false_eq_true, if_true]
  constructor <;> omega

/-- C23 (the code diverges from the claim): when `reloc_pipe[1]` and
`reloc_pipe[0]` hold two bank selections of the same bank and the older one
(`reloc_pipe[1]`) is not protected, `_banksel_remove` deletes the older one and
keeps the later one, whether the later one is protected or not; the later one is
deleted only when the older one is protected and the later one is not.  The
analysis of a branch relocation (`RELOC_CALL`, `RELOC_GOTO`, `RELOC_GOTO2`,
`RELOC_BRA`, `RELOC_CONDBRA`) empties the pipe and `_banksel_remove` is not
called for it, so no pair with a branch between its members is reduced. -/
theorem banksel_remove_deletes_older (K : copt_env) (st : copt_state) (r0 r1 : Nat)
    (h0 : st.reloc_pipe.s0.relocation = some r0) (h1 : st.reloc_pipe.s1.relocation = some r1)
    (hs0 : st.reloc_pipe.s0.state = COPT_BANKSEL) (hs1 : st.reloc_pipe.s1.state = COPT_BANKSEL)
    (hbank : st.reloc_pipe.s1.ram_bank = st.reloc_pipe.s0.ram_bank) :
    (st.reloc_pipe.s1.protected_ = false →
      ∀ x, _banksel_remove K st = some x →
        x.2.deleted = st.deleted ++ [r1] ∧ x.2.reloc_pipe.s0.relocation = some r0) ∧
    (st.reloc_pipe.s1.protected_ = true → st.reloc_pipe.s0.protected_ = false →
      ∀ x, _banksel_remove K st = some x →
        x.2.deleted = st.deleted ++ [r0] ∧ x.2.reloc_pipe.s0.relocation = some r1) ∧
    (st.reloc_pipe.s1.protected_ = true → st.reloc_pipe.s0.protected_ = true →
      _banksel_remove K st = some (true, st)) ∧
    (∀ (q n : Nat) (x : Bool × copt_state),
      is_branch_reloc (st.Section.relocation q).type_ = true →
      _banksel_reloc_analyze K st q n = some x →
      x = (false, { st with reloc_pipe := _reloc_pipe_clear })) := by
  obtain ⟨g2, g0⟩ := saturation_ge_two st.reloc_pipe r0 r1 h0 h1
  have hc : saturation st.reloc_pipe ≥ 2 ∧ st.reloc_pipe.s1.state = COPT_BANKSEL
      ∧ st.reloc_pipe.s0.state = COPT_BANKSEL
      ∧ st.reloc_pipe.s1.ram_bank = st.reloc_pipe.s0.ram_bank := ⟨g2, hs1, hs0, hbank⟩
  refine ⟨?_, ?_, ?_, ?_⟩
  · intro hp x hx
    unfold _banksel_remove at hx
    simp only [] at hx
    rw [if_neg g0, if_pos hc, if_pos hp] at hx
    cases hd : _destroy_insn_and_update_addr K st 1 with
    | none => simp [hd] at hx
    | some st1 =>
      simp only [hd, Option.some.injEq] at hx
      subst hx
      unfold _destroy_insn_and_update_addr at hd
      simp only [reloc_pipe_t.get, h1] at hd
      cases hu : K.update_addr st.reloc_pipe.s1 st.Section with
      | none => simp [hu] at hd
      | some sec =>
        simp only [hu, _reloc_pipe_delete_state, Option.some.injEq] at hd
        subst hd
        exact ⟨rfl, h0⟩
  · intro hp1 hp0 x hx
    unfold _banksel_remove at hx
    simp only [] at hx
    rw [if_neg g0, if_pos hc, if_neg (by simp [hp1]), if_pos hp0] at hx
    cases hd : _destroy_insn_and_update_addr K st 0 with
    | none => simp [hd] at hx
    | some st1 =>
      simp only [hd, Option.some.injEq] at hx
      subst hx
      unfold _destroy_insn_and_update_addr at hd
      simp only [reloc_pipe_t.get, h0] at hd
      cases hu : K.update_addr st.reloc_pipe.s0 st.Section with
      | none => simp [hu] at hd
      | some sec =>
        simp only [hu, _reloc_pipe_delete_state, Option.some.injEq] at hd
        subst hd
        exact ⟨rfl, h1⟩
  · intro hp1 hp0
    unfold _banksel_remove
    simp only []
    rw [if_neg g0, if_pos hc, if_neg (by simp [hp1]), if_neg (by simp [hp0])]
  · intro q n x hq hx
    unfold _banksel_reloc_analyze at hx
    simp only [Nat.reducePow] at hx
    cases hd : st.Section.data
        ((st.Section.address + (st.Section.relocation q).address) % 4294967296) with
    | none => simp [hd] at hx
    | some data =>
      simp only [hd] at hx
      unfold is_branch_reloc at hq
      simp only [Bool.or_eq_true, decide_eq_true_eq] at hq
      rcases hq with (((hq | hq) | hq) | hq) | hq <;>
        · rw [hq] at hx
          simp only [banksel_reloc_switch, if_true, Option.some.injEq] at hx
          exact hx.symm

/-- C23 on a pipe with two bank selections of the same bank, neither protected: the
older one (relocation 2) is deleted and the later one (relocation 4) stays in
`reloc_pipe[0]`. -/
theorem banksel_remove_deletes_older_witness :
    ∃ x, _banksel_remove example_copt_env (example_banksel_pair 2 4 false false) = some x ∧
      x.2.deleted = [2] ∧ x.2.reloc_pipe.s0.relocation = some 4 := by
  refine ⟨_, rfl, ?_⟩
  exact (banksel_remove_deletes_older example_copt_env (example_banksel_pair 2 4 false false) 4 2
    rfl rfl rfl rfl rfl).1 rfl _ rfl

/-- C23, a run of the pass: in a section with the relocations `banksel A`, `goto`,
`banksel X`, `movwf X` (type `RELOC_F`), `banksel X`, the first `banksel X`
(relocation 2) is deleted and the second one (relocation 4) is kept. -/
theorem banksel_pass_deletes_first_of_pair :
    ∃ st1,
      banksel_section example_copt_env 4 [0, 1, 2, 3, 4]
        (example_copt_section [(.RELOC_BANKSEL, 0x80), (.RELOC_GOTO, 0x20),
          (.RELOC_BANKSEL, 0x100), (.RELOC_F, 0x100), (.RELOC_BANKSEL, 0x100)] [])
        = some st1 ∧
      st1.deleted = [2] ∧ st1.reloc_pipe.s0.relocation = some 4 :=
  ⟨_, rfl, rfl, rfl⟩

theorem pipe_keeps_flags_refl (p : reloc_pipe_t) : pipe_keeps_flags p p :=
  fun e he _ hr => ⟨e, he, hr, rfl⟩

theorem pipe_keeps_flags_trans (p p1 p2 : reloc_pipe_t)
    (h1 : pipe_keeps_flags p p1) (h2 : pipe_keeps_flags p1 p2) : pipe_keeps_flags p p2 := by
  intro e he r hr
  obtain ⟨e1, he1, hr1, hp1⟩ := h2 e he r hr
  obtain ⟨e0, he0, hr0, hp0⟩ := h1 e1 he1 r hr1
  exact ⟨e0, he0, hr0, hp0.trans hp1⟩

theorem deletes_unprotected_refl (st : copt_state) : deletes_unprotected st st :=
  fun _ hr => Or.inl hr

theorem deletes_unprotected_trans (st st1 st2 : copt_state)
    (h1 : deletes_unprotected st st1) (hk : pipe_keeps_flags st.reloc_pipe st1.reloc_pipe)
    (h2 : deletes_unprotected st1 st2) : deletes_unprotected st st2 := by
  intro r hr
  rcases h2 r hr with h | ⟨e, he, her, hep⟩
  · exact h1 r h
  · obtain ⟨e0, he0, hr0, hp0⟩ := hk e he r her
    exact Or.inr ⟨e0, he0, hr0, hp0.trans hep⟩

theorem get_mem_slots (p : reloc_pipe_t) (i : Nat) : p.get i ∈ p.slots := by
  match i with
  | 0 => simp [reloc_pipe_t.get, reloc_pipe_t.slots]
  | 1 => simp [reloc_pipe_t.get, reloc_pipe_t.slots]
  | 2 => simp [reloc_pipe_t.get, reloc_pipe_t.slots]
  | _ + 3 => simp [reloc_pipe_t.get, reloc_pipe_t.slots]

/-- What `_destroy_insn_and_update_addr` does for an element whose flag `protected`
is clear: the elements that stay keep their flags, and the relocation deleted is
the one of that element. -/
theorem destroy_unprotected (K : copt_env) (st st1 : copt_state) (i : Nat)
    (h : _destroy_insn_and_update_addr K st i = some st1)
    (hp : (st.reloc_pipe.get i).protected_ = false) :
    pipe_keeps_flags st.reloc_pipe st1.reloc_pipe ∧ deletes_unprotected st st1 ∧
      (i = 0 → st1.reloc_pipe.s0.state = st.reloc_pipe.s1.state) ∧
      (i ≠ 0 → st1.reloc_pipe.s0.state = st.reloc_pipe.s0.state) := by
  have hmem := get_mem_slots st.reloc_pipe i
  unfold _destroy_insn_and_update_addr at h
  simp only [] at h
  cases hr : (st.reloc_pipe.get i).relocation with
  | none => simp [hr] at h
  | some rel =>
    simp only [hr] at h
    cases hu : K.update_addr (st.reloc_pipe.get i) st.Section with
    | none => simp [hu] at h
    | some sec =>
      simp only [hu] at h
      have hdel : ∀ pipe1, deletes_unprotected st
          { st with reloc_pipe := pipe1, Section := sec, deleted := st.deleted ++ [rel] } := by
        intro pipe1 r hrm
        simp only [List.mem_append, List.mem_singleton] at hrm
        rcases hrm with hrm | hrm
        · exact Or.inl hrm
        · subst hrm
          exact Or.inr ⟨_, hmem, hr, hp⟩
      match i, h with
      | 0, h =>
        simp only [_reloc_pipe_delete_state, Option.some.injEq, Nat.not_lt_zero, if_false] at h
        subst h
        refine ⟨?_, hdel _, fun _ => rfl, fun h0 => absurd rfl h0⟩
        intro e he r hr
        simp only [reloc_pipe_t.slots, List.mem_cons, List.mem_singleton, List.not_mem_nil,
          or_false] at he
        rcases he with he | he | he | he <;> subst he
        · exact ⟨_, by simp [reloc_pipe_t.slots], hr, rfl⟩
        · exact ⟨_, by simp [reloc_pipe_t.slots], hr, rfl⟩
        · exact ⟨_, by simp [reloc_pipe_t.slots], hr, rfl⟩
        · simp [reloc_properties.zero] at hr
      | 1, h =>
        simp only [_reloc_pipe_delete_state, Option.some.injEq] at h
        subst h
        refine ⟨?_, hdel _, fun h0 => absurd h0 (by decide), fun _ => ?_⟩
        · intro e he r hr
          simp only [reloc_pipe_t.slots, List.mem_cons, List.mem_singleton, List.not_mem_nil,
            or_false] at he
          rcases he with he | he | he | he <;> subst he
          · exact ⟨st.reloc_pipe.s0, by simp [reloc_pipe_t.slots], by simpa using hr, by simp⟩
          · exact ⟨st.reloc_pipe.s2, by simp [reloc_pipe_t.slots], by simpa using hr, by simp⟩
          · exact ⟨st.reloc_pipe.s3, by simp [reloc_pipe_t.slots], by simpa using hr, by simp⟩
          · simp [reloc_properties.zero] at hr
        · simp
      | 2, h =>
        simp only [_reloc_pipe_delete_state, Option.some.injEq] at h
        subst h
        refine ⟨?_, hdel _, fun h0 => absurd h0 (by decide), fun _ => ?_⟩
        · intro e he r hr
          simp only [reloc_pipe_t.slots, List.mem_cons, List.mem_singleton, List.not_mem_nil,
            or_false] at he
          rcases he with he | he | he | he <;> subst he
          · exact ⟨st.reloc_pipe.s0, by simp [reloc_pipe_t.slots], by simpa using hr, by simp⟩
          · exact ⟨st.reloc_pipe.s1, by simp [reloc_pipe_t.slots], by simpa using hr, by simp⟩
          · exact ⟨st.reloc_pipe.s3, by simp [reloc_pipe_t.slots], by simpa using hr, by simp⟩
          · simp [reloc_properties.zero] at hr
        · simp
      | 3, h =>
        simp only [_reloc_pipe_delete_state, Option.some.injEq] at h
        subst h
        refine ⟨?_, hdel _, fun h0 => absurd h0 (by decide), fun _ => ?_⟩
        · intro e he r hr
          simp only [reloc_pipe_t.slots, List.mem_cons, List.mem_singleton, List.not_mem_nil,
            or_false] at he
          rcases he with he | he | he | he <;> subst he
          · exact ⟨st.reloc_pipe.s0, by simp [reloc_pipe_t.slots], by simpa using hr, by simp⟩
          · exact ⟨st.reloc_pipe.s1, by simp [reloc_pipe_t.slots], by simpa using hr, by simp⟩
          · exact ⟨st.reloc_pipe.s2, by simp [reloc_pipe_t.slots], by simpa using hr, by simp⟩
          · simp [reloc_properties.zero] at hr
        · simp
      | _ + 4, h => simp [_reloc_pipe_delete_state] at h

/-- The block `if (saturation >= 2)` of `_pagesel_remove` deletes an element only
when its flag `protected` is clear, and leaves the flags of the others. -/
theorem pagesel_remove_2_spec (K : copt_env) (st st1 : copt_state)
    (h : pagesel_remove_2 K st = some st1) :
    pipe_keeps_flags st.reloc_pipe st1.reloc_pipe ∧ deletes_unprotected st st1 ∧
      (st1 = st ∨ st1.reloc_pipe.s0.state ≠ COPT_PAGESEL_CURR_PAGE) := by
  unfold pagesel_remove_2 at h
  simp only [] at h
  by_cases c1 : st.reloc_pipe.s1.state = COPT_CALL_CURR_PAGE
      ∧ st.reloc_pipe.s0.state = COPT_PAGESEL_CURR_PAGE ∧ st.reloc_pipe.s0.protected_ = false
  · rw [if_pos c1] at h
    obtain ⟨hk, hd, h0, -⟩ := destroy_unprotected K st st1 0 h c1.2.2
    refine ⟨hk, hd, Or.inr ?_⟩
    rw [h0 rfl, c1.1]
    decide
  rw [if_neg c1] at h
  by_cases c2 : st.reloc_pipe.s1.state = COPT_PAGESEL_CURR_PAGE
      ∧ st.reloc_pipe.s1.protected_ = false ∧ st.reloc_pipe.s0.state = COPT_PAGESEL_OTHER_PAGE
  · rw [if_pos c2] at h
    obtain ⟨hk, hd, -, h0⟩ := destroy_unprotected K st st1 1 h c2.2.1
    refine ⟨hk, hd, Or.inr ?_⟩
    rw [h0 (by decide), c2.2.2]
    decide
  rw [if_neg c2] at h
  by_cases c3 : st.reloc_pipe.s1.state = COPT_PAGESEL_CURR_PAGE
      ∧ st.reloc_pipe.s1.protected_ = false
      ∧ st.reloc_pipe.s0.state &&& COPT_ABS_BRANCH_CURR_PAGE_MASK ≠ 0
  · rw [if_pos c3] at h
    obtain ⟨hk, hd, -, h0⟩ := destroy_unprotected K st st1 1 h c3.2.1
    refine ⟨hk, hd, Or.inr ?_⟩
    rw [h0 (by decide)]
    intro hs
    exact c3.2.2 (by rw [hs]; decide)
  rw [if_neg c3] at h
  by_cases c4 : st.reloc_pipe.s1.state &&& COPT_PAGESEL_MASK ≠ 0
      ∧ st.reloc_pipe.s1.protected_ = false
      ∧ st.reloc_pipe.s0.state &&& COPT_REL_BRANCH_MASK ≠ 0
  · rw [if_pos c4] at h
    by_cases c5 : st.reloc_pipe.s1.relocation = none ∨ st.reloc_pipe.s0.relocation = none
    · rw [if_pos c5] at h
      cases h
    rw [if_neg c5] at h
    obtain ⟨hk, hd, -, h0⟩ := destroy_unprotected K st st1 1 h c4.2.1
    refine ⟨hk, hd, Or.inr ?_⟩
    rw [h0 (by decide)]
    intro hs
    exact c4.2.2 (by rw [hs]; decide)
  rw [if_neg c4] at h
  cases h
  exact ⟨pipe_keeps_flags_refl _, deletes_unprotected_refl _, Or.inl rfl⟩

/-- The block `if (saturation >= 3)` of `_pagesel_remove`: its first rule moves the
flag `protected` from `reloc_pipe[1]` to `reloc_pipe[0]` and deletes nothing; the
other rules delete an element only when its flag is clear and leave the flags of
the others. -/
theorem pagesel_remove_3_spec (K : copt_env) (st st1 : copt_state)
    (h : pagesel_remove_3 K st = some st1) :
    deletes_unprotected st st1 ∧
      ((st.reloc_pipe.s2.state = COPT_CALL_OTHER_PAGE
          ∧ st.reloc_pipe.s1.state = COPT_PAGESEL_CURR_PAGE
          ∧ st.reloc_pipe.s0.state = COPT_PAGESEL_CURR_PAGE
          ∧ st1 = { st with reloc_pipe := move_protection st.reloc_pipe })
        ∨ pipe_keeps_flags st.reloc_pipe st1.reloc_pipe) := by
  unfold pagesel_remove_3 at h
  simp only [] at h
  by_cases c1 : st.reloc_pipe.s2.state = COPT_CALL_OTHER_PAGE
      ∧ st.reloc_pipe.s1.state = COPT_PAGESEL_CURR_PAGE
      ∧ st.reloc_pipe.s0.state = COPT_PAGESEL_CURR_PAGE
  · rw [if_pos c1] at h
    cases h
    exact ⟨fun _ hr => Or.inl hr, Or.inl ⟨c1.1, c1.2.1, c1.2.2, rfl⟩⟩
  rw [if_neg c1] at h
  by_cases c2 : st.reloc_pipe.s2.state = COPT_CALL_OTHER_PAGE
      ∧ st.reloc_pipe.s1.state = COPT_PAGESEL_OTHER_PAGE ∧ st.reloc_pipe.s1.protected_ = false
      ∧ st.reloc_pipe.s2.target_page = st.reloc_pipe.s1.target_page
      ∧ st.reloc_pipe.s0.state = COPT_CALL_OTHER_PAGE
      ∧ st.reloc_pipe.s1.target_page = st.reloc_pipe.s0.target_page
  · rw [if_pos c2] at h
    obtain ⟨hk, hd, -, -⟩ := destroy_unprotected K st st1 1 h c2.2.2.1
    exact ⟨hd, Or.inr hk⟩
  rw [if_neg c2] at h
  by_cases c3 : st.reloc_pipe.s2.state = COPT_CALL_CURR_PAGE
      ∧ st.reloc_pipe.s1.state = COPT_PAGESEL_CURR_PAGE ∧ st.reloc_pipe.s1.protected_ = false
      ∧ st.reloc_pipe.s0.state = COPT_PAGESEL_CURR_PAGE
  · rw [if_pos c3] at h
    obtain ⟨hk, hd, -, -⟩ := destroy_unprotected K st st1 1 h c3.2.2.1
    exact ⟨hd, Or.inr hk⟩
  rw [if_neg c3] at h
  by_cases c4 : st.reloc_pipe.s2.state = COPT_CALL_CURR_PAGE
      ∧ st.reloc_pipe.s1.state = COPT_PAGESEL_CURR_PAGE ∧ st.reloc_pipe.s1.protected_ = false
      ∧ st.reloc_pipe.s0.state = COPT_CALL_CURR_PAGE
  · rw [if_pos c4] at h
    obtain ⟨hk, hd, -, -⟩ := destroy_unprotected K st st1 1 h c4.2.2.1
    exact ⟨hd, Or.inr hk⟩
  rw [if_neg c4] at h
  cases h
  exact ⟨deletes_unprotected_refl _, Or.inr (pipe_keeps_flags_refl _)⟩

/-- The block `if (saturation == 4)` of `_pagesel_remove` deletes `reloc_pipe[2]`
only when its flag `protected` is clear, leaves the flags of the others, and
does nothing when `reloc_pipe[0]` is a selection of the current page. -/
theorem pagesel_remove_4_spec (K : copt_env) (st st1 : copt_state)
    (h : pagesel_remove_4 K st = some st1) :
    pipe_keeps_flags st.reloc_pipe st1.reloc_pipe ∧ deletes_unprotected st st1 ∧
      (st.reloc_pipe.s0.state = COPT_PAGESEL_CURR_PAGE → st1 = st) := by
  unfold pagesel_remove_4 at h
  simp only [] at h
  by_cases c1 : st.reloc_pipe.s3.state = COPT_CALL_OTHER_PAGE
      ∧ st.reloc_pipe.s2.state = COPT_PAGESEL_CURR_PAGE ∧ st.reloc_pipe.s2.protected_ = false
      ∧ st.reloc_pipe.s1.state = COPT_PAGESEL_CURR_PAGE
      ∧ st.reloc_pipe.s0.state = COPT_CALL_CURR_PAGE
  · rw [if_pos c1] at h
    obtain ⟨hk, hd, -, -⟩ := destroy_unprotected K st st1 2 h c1.2.2.1
    refine ⟨hk, hd, fun hs => ?_⟩
    rw [c1.2.2.2.2] at hs
    exact absurd hs (by decide)
  rw [if_neg c1] at h
  by_cases c2 : st.reloc_pipe.s3.state = COPT_CALL_OTHER_PAGE
      ∧ st.reloc_pipe.s2.state = COPT_PAGESEL_CURR_PAGE ∧ st.reloc_pipe.s2.protected_ = false
      ∧ st.reloc_pipe.s1.state = COPT_PAGESEL_OTHER_PAGE
      ∧ st.reloc_pipe.s0.state = COPT_CALL_OTHER_PAGE
  · rw [if_pos c2] at h
    obtain ⟨hk, hd, -, -⟩ := destroy_unprotected K st st1 2 h c2.2.2.1
    refine ⟨hk, hd, fun hs => ?_⟩
    rw [c2.2.2.2.2] at hs
    exact absurd hs (by decide)
  rw [if_neg c2] at h
  cases h
  exact ⟨pipe_keeps_flags_refl _, deletes_unprotected_refl _, fun _ => rfl⟩

/-- The three blocks of `_pagesel_remove` together. -/
theorem pagesel_remove_blocks_spec (K : copt_env) (st st1 : copt_state)
    (h : pagesel_remove_blocks K (saturation st.reloc_pipe) st = some st1) :
    deletes_unprotected st st1 ∧
      (pipe_keeps_flags st.reloc_pipe st1.reloc_pipe ∨
        (protection_rule st.reloc_pipe ∧
          st1 = { st with reloc_pipe := move_protection st.reloc_pipe })) := by
  unfold pagesel_remove_blocks at h
  have h2 : ∀ st2, (if saturation st.reloc_pipe ≥ 2 then pagesel_remove_2 K st else some st)
      = some st2 →
      pipe_keeps_flags st.reloc_pipe st2.reloc_pipe ∧ deletes_unprotected st st2 ∧
        (st2 = st ∨ st2.reloc_pipe.s0.state ≠ COPT_PAGESEL_CURR_PAGE) := by
    intro st2 e
    by_cases c : saturation st.reloc_pipe ≥ 2
    · rw [if_pos c] at e
      exact pagesel_remove_2_spec K st st2 e
    · rw [if_neg c] at e
      cases e
      exact ⟨pipe_keeps_flags_refl _, deletes_unprotected_refl _, Or.inl rfl⟩
  cases e2 : (if saturation st.reloc_pipe ≥ 2 then pagesel_remove_2 K st else some st) with
  | none => simp [e2] at h
  | some st2 =>
    simp only [e2] at h
    obtain ⟨k2, d2, s2⟩ := h2 st2 e2
    by_cases c3 : saturation st.reloc_pipe ≥ 3
    · rw [if_pos c3] at h
      cases e3 : pagesel_remove_3 K st2 with
      | none => simp [e3] at h
      | some st3 =>
        simp only [e3] at h
        obtain ⟨d3, r3⟩ := pagesel_remove_3_spec K st2 st3 e3
        have h4 : pipe_keeps_flags st3.reloc_pipe st1.reloc_pipe ∧ deletes_unprotected st3 st1 ∧
            (st3.reloc_pipe.s0.state = COPT_PAGESEL_CURR_PAGE → st1 = st3) := by
          by_cases c4 : saturation st.reloc_pipe = 4
          · rw [if_pos c4] at h
            exact pagesel_remove_4_spec K st3 st1 h
          · rw [if_neg c4] at h
            cases h
            exact ⟨pipe_keeps_flags_refl _, deletes_unprotected_refl _, fun _ => rfl⟩
        obtain ⟨k4, d4, s4⟩ := h4
        rcases r3 with ⟨a2, a1, a0, e⟩ | k3
        · have hst2 : st2 = st := by
            rcases s2 with s2 | s2
            · exact s2
            · exact absurd a0 s2
          subst hst2
          have e1 : st1 = st3 := s4 (by rw [e]; exact a0)
          subst e1
          subst e
          exact ⟨fun _ hr => Or.inl hr, Or.inr ⟨⟨c3, a2, a1, a0⟩, rfl⟩⟩
        · have k23 := pipe_keeps_flags_trans _ _ _ k2 k3
          have d23 := deletes_unprotected_trans _ _ _ d2 k2 d3
          exact ⟨deletes_unprotected_trans _ _ _ d23 k23 d4,
            Or.inl (pipe_keeps_flags_trans _ _ _ k23 k4)⟩
    · rw [if_neg c3] at h
      simp only [] at h
      rw [if_neg (fun (c4 : saturation st.reloc_pipe = 4) => c3 (by omega))] at h
      cases h
      exact ⟨d2, Or.inl k2⟩

/-- C21 (amended): every relocation that a call of `_pagesel_remove` deletes is held
at the start of the call by an element of the pipe whose flag `protected` is
clear; the call leaves the flags of the elements that stay, unless the rule
"call to another page, selection of the current page, selection of the current
page" applies, and then it deletes nothing and moves the flag from
`reloc_pipe[1]` to `reloc_pipe[0]`; and `_pagesel_reloc_analyze` deletes
nothing and sets the flag of the relocation it enters exactly when the label
at its address is referenced by more than one relocation. -/
theorem pagesel_remove_only_unprotected (K : copt_env) (st0 st st1 : copt_state)
    (q Num_pages : Nat) (Completion b : Bool)
    (ha : _pagesel_reloc_analyze K st0 q Num_pages = some st)
    (h : _pagesel_remove K st Completion = some (b, st1)) :
    (st.deleted = st0.deleted ∧ st.reloc_pipe.s0.relocation = some q ∧
      st.reloc_pipe.s0.protected_ = label_protected (st0.Section.label
        (insn_from_byte K ((st0.Section.address + (st0.Section.relocation q).address) % 2 ^ 32))))
    ∧ deletes_unprotected st st1
    ∧ (pipe_keeps_flags st.reloc_pipe st1.reloc_pipe ∨
        (protection_rule st.reloc_pipe ∧
          st1 = { st with reloc_pipe := move_protection st.reloc_pipe })) := by
  refine ⟨?_, ?_⟩
  · unfold _pagesel_reloc_analyze at ha
    simp only [Nat.reducePow] at ha
    cases hd : st0.Section.data
        ((st0.Section.address + (st0.Section.relocation q).address) % 4294967296) with
    | none => simp [hd] at ha
    | some data =>
      simp only [hd] at ha
      split at ha
      · cases ha
      · simp only [Option.some.injEq] at ha
        subst ha
        exact ⟨rfl, rfl, rfl⟩
  · unfold _pagesel_remove at h
    simp only [] at h
    by_cases c0 : saturation st.reloc_pipe = 0
    · rw [if_pos c0] at h
      simp only [Option.some.injEq, Prod.mk.injEq] at h
      obtain ⟨-, h⟩ := h
      subst h
      exact ⟨deletes_unprotected_refl _, Or.inl (pipe_keeps_flags_refl _)⟩
    rw [if_neg c0] at h
    split at h
    · rename_i c
      cases e : _destroy_insn_and_update_addr K st 0 with
      | none => simp [e] at h
      | some st2 =>
        simp only [e, Option.some.injEq, Prod.mk.injEq] at h
        obtain ⟨-, h⟩ := h
        subst h
        obtain ⟨hk, hdl, -, -⟩ := destroy_unprotected K st st2 0 e c.2.2.1
        refine ⟨hdl, Or.inl ?_⟩
        refine pipe_keeps_flags_trans _ _ _ hk ?_
        intro e1 he1 r hr
        simp only [_reloc_pipe_shift, Bool.false_eq_true, if_false, reloc_pipe_t.slots,
          List.mem_cons, List.mem_singleton, List.not_mem_nil, or_false] at he1
        rcases he1 with he1 | he1 | he1 | he1 <;> subst he1
        · exact ⟨_, by simp [reloc_pipe_t.slots], hr, rfl⟩
        · exact ⟨_, by simp [reloc_pipe_t.slots], hr, rfl⟩
        · exact ⟨_, by simp [reloc_pipe_t.slots], hr, rfl⟩
        · simp [reloc_properties.zero] at hr
    · cases e : pagesel_remove_blocks K (saturation st.reloc_pipe) st with
      | none => simp [e] at h
      | some st2 =>
        simp only [e, Option.some.injEq, Prod.mk.injEq] at h
        obtain ⟨-, h⟩ := h
        subst h
        exact pagesel_remove_blocks_spec K st st2 e

/-- C21 on the example section, at the second selection of the current page
(relocation 2): the rule applies, nothing is deleted, and the flag `protected`
moves from the first selection to the second. -/
theorem pagesel_remove_only_unprotected_witness :
    ∃ st0 st st1,
      example_pagesel_before 2 = some st0 ∧
      _pagesel_reloc_analyze example_copt_env st0 2 4 = some st ∧
      _pagesel_remove example_copt_env st false = some (true, st1) ∧
      st.reloc_pipe.s1.relocation = some 1 ∧ st.reloc_pipe.s1.protected_ = true ∧
      st1.reloc_pipe.s1.relocation = some 1 ∧ st1.reloc_pipe.s1.protected_ = false ∧
      ((st.deleted = st0.deleted ∧ st.reloc_pipe.s0.relocation = some 2 ∧
        st.reloc_pipe.s0.protected_ = label_protected (st0.Section.label
          (insn_from_byte example_copt_env
            ((st0.Section.address + (st0.Section.relocation 2).address) % 2 ^ 32))))
      ∧ deletes_unprotected st st1
      ∧ (pipe_keeps_flags st.reloc_pipe st1.reloc_pipe ∨
          (protection_rule st.reloc_pipe ∧
            st1 = { st with reloc_pipe := move_protection st.reloc_pipe }))) :=
  ⟨_, _, _, rfl, rfl, rfl, rfl, rfl, rfl, rfl,
    pagesel_remove_only_unprotected example_copt_env _ _ _ 2 4 false true rfl rfl⟩

/-- C21, a run against the claim as stated: in the section `call other_page;
L: pagesel current_page; pagesel current_page; call current_page`, where the
label `L` is referenced by two relocations, the first selection (relocation 1)
has the flag `protected` after its analysis, and the pass deletes it. -/
theorem pagesel_protected_at_analysis_destroyed :
    ∃ st0 st st1,
      example_pagesel_before 1 = some st0 ∧
      _pagesel_reloc_analyze example_copt_env st0 1 4 = some st ∧
      st.reloc_pipe.s0.relocation = some 1 ∧
      st.reloc_pipe.s0.state = COPT_PAGESEL_CURR_PAGE ∧
      st.reloc_pipe.s0.label = some 2 ∧
      st.reloc_pipe.s0.protected_ = true ∧
      pagesel_section example_copt_env 4 [0, 1, 2, 3] example_pagesel_section = some st1 ∧
      st1.deleted = [1] :=
  ⟨_, _, _, rfl, rfl, rfl, rfl, rfl, rfl, rfl, rfl⟩

/-! ## The fixed-point optimiser: the last run of the inner loop -/

theorem or_flag_and_flag (x k : Nat) : (x ||| 2 ^ k) &&& 2 ^ k ≠ 0 := by
  intro h
  have h1 : ((x ||| 2 ^ k) &&& 2 ^ k).testBit k = true := by
    simp [Nat.testBit_and, Nat.testBit_or, Nat.testBit_two_pow_self]
  rw [h] at h1
  simp at h1

theorem or_fixed_and_fixed (x : Nat) : (x ||| REMOVAL_FLAG_FIXED) &&& REMOVAL_FLAG_FIXED ≠ 0 :=
  or_flag_and_flag x 1

theorem removal_prev_pos (n i : Nat) (h0 : 0 < i) (hn : i < n) : removal_prev n i = i - 1 := by
  unfold removal_prev
  have e : i + n - 1 = (i - 1) + n := by omega
  rw [e, Nat.add_mod_right, Nat.mod_eq_of_lt (by omega)]

/-- The value of `changed` after a run of the inner loop is true when it was true
before. -/
theorem removal_pass_changed
    (check : List _removal_t → Nat → Option (Bool × List _removal_t)) :
    ∀ (idxs : List Nat) (changed : Bool) (L Lf : List _removal_t) (b : Bool),
      removal_pass check idxs changed L = some (b, Lf) → changed = true → b = true := by
  intro idxs
  induction idxs with
  | nil =>
    intro changed L Lf b h hc
    simp only [removal_pass, Option.some.injEq, Prod.mk.injEq] at h
    rw [← h.1]
    exact hc
  | cons i rest ih =>
    intro changed L Lf b h hc
    unfold removal_pass at h
    cases hp : L[i]? with
    | none => simp [hp] at h
    | some ptr =>
      simp only [hp] at h
      split at h
      · cases hk : check L i with
        | none => simp [hk] at h
        | some r =>
          obtain ⟨c, L1⟩ := r
          simp only [hk] at h
          exact ih _ _ _ _ h (by simp [hc])
      · exact ih _ _ _ _ h hc

/-- A run of the inner loop that leaves `changed` false: a property `Q` of a
position that holds for an element whose state is fixed, holds after a check
of the position that returns false, and is kept by a check of a later position
that returns false, holds for every position at the end of the run. -/
theorem removal_pass_false
    (check : List _removal_t → Nat → Option (Bool × List _removal_t))
    (Q : List _removal_t → Nat → Prop)
    (hfix : ∀ L i p, L[i]? = some p → p.flags &&& REMOVAL_FLAG_FIXED ≠ 0 → Q L i)
    (hest : ∀ L i L1, check L i = some (false, L1) → Q L1 i)
    (hpres : ∀ L i j L1, i < j → check L j = some (false, L1) → Q L i → Q L1 i) :
    ∀ (m a : Nat) (L Lf : List _removal_t) (changed : Bool),
      removal_pass check (List.range' a m) changed L = some (false, Lf) →
      (∀ i, i < a → Q L i) → ∀ i, i < a + m → Q Lf i := by
  intro m
  induction m with
  | zero =>
    intro a L Lf changed h hq i hi
    simp only [List.range'_zero, removal_pass, Option.some.injEq, Prod.mk.injEq] at h
    rw [← h.2]
    exact hq i (by omega)
  | succ m ih =>
    intro a L Lf changed h hq i hi
    rw [List.range'_succ] at h
    unfold removal_pass at h
    cases hp : L[a]? with
    | none => simp [hp] at h
    | some ptr =>
      simp only [hp] at h
      split at h
      · cases hk : check L a with
        | none => simp [hk] at h
        | some r =>
          obtain ⟨c, L1⟩ := r
          simp only [hk] at h
          have hc : c = false := by
            cases c with
            | false => rfl
            | true =>
              have := removal_pass_changed check _ _ _ _ _ h (by simp)
              cases this
          subst hc
          refine ih (a + 1) L1 Lf _ h ?_ i (by omega)
          intro k hk1
          by_cases hka : k = a
          · subst hka
            exact hest L k L1 hk
          · exact hpres L k a L1 (by omega) hk (hq k (by omega))
      · rename_i hf
        refine ih (a + 1) L Lf _ h ?_ i (by omega)
        intro k hk1
        by_cases hka : k = a
        · subst hka
          exact hfix L k ptr hp hf
        · exact hq k (by omega)

/-- The list at the end of the outer loop is the result of a run of the inner loop
that left `changed` false. -/
theorem removal_loop_last
    (check : List _removal_t → Nat → Option (Bool × List _removal_t)) :
    ∀ (fuel : Nat) (L L1 : List _removal_t), removal_loop check fuel L = some L1 →
      ∃ L0, removal_pass check (List.range L0.length) false L0 = some (false, L1) := by
  intro fuel
  induction fuel with
  | zero =>
    intro L L1 h
    simp [removal_loop] at h
  | succ fuel ih =>
    intro L L1 h
    unfold removal_loop at h
    cases hp : removal_pass check (List.range L.length) false L with
    | none => simp [hp] at h
    | some r =>
      obtain ⟨c, L2⟩ := r
      simp only [hp] at h
      cases c with
      | true =>
        simp only [if_true] at h
        exact ih L2 L1 h
      | false =>
        simp only [Bool.false_eq_true, if_false, Option.some.injEq] at h
        subst h
        exact ⟨L, hp⟩

/-- A run of the inner loop keeps the length of the list when every check does. -/
theorem removal_pass_length
    (check : List _removal_t → Nat → Option (Bool × List _removal_t))
    (hlen : ∀ L i c L1, check L i = some (c, L1) → L1.length = L.length) :
    ∀ (idxs : List Nat) (changed : Bool) (L Lf : List _removal_t) (b : Bool),
      removal_pass check idxs changed L = some (b, Lf) → Lf.length = L.length := by
  intro idxs
  induction idxs with
  | nil =>
    intro changed L Lf b h
    simp only [removal_pass, Option.some.injEq, Prod.mk.injEq] at h
    rw [← h.2]
  | cons i rest ih =>
    intro changed L Lf b h
    unfold removal_pass at h
    cases hp : L[i]? with
    | none => simp [hp] at h
    | some ptr =>
      simp only [hp] at h
      split at h
      · cases hk : check L i with
        | none => simp [hk] at h
        | some r =>
          obtain ⟨c, L1⟩ := r
          simp only [hk] at h
          rw [ih _ _ _ _ h, hlen L i c L1 hk]
      · exact ih _ _ _ _ h

/-- At the end of `_removal_process_list`, a property `Q` as in
`removal_pass_false` holds for every position. -/
theorem removal_process_list_final
    (check : List _removal_t → Nat → Option (Bool × List _removal_t))
    (Q : List _removal_t → Nat → Prop)
    (hlen : ∀ L i c L1, check L i = some (c, L1) → L1.length = L.length)
    (hfix : ∀ L i p, L[i]? = some p → p.flags &&& REMOVAL_FLAG_FIXED ≠ 0 → Q L i)
    (hest : ∀ L i L1, check L i = some (false, L1) → Q L1 i)
    (hpres : ∀ L i j L1, i < j → check L j = some (false, L1) → Q L i → Q L1 i)
    (fuel : Nat) (L L1 : List _removal_t) (b : Bool)
    (h : _removal_process_list check fuel L = some (b, L1)) :
    ∀ i, i < L1.length → Q L1 i := by
  unfold _removal_process_list at h
  cases L with
  | nil => simp at h
  | cons head rest =>
    simp only [] at h
    cases hl : removal_loop check fuel
        ({ head with flags := head.flags ||| REMOVAL_FLAG_FIRST } :: rest) with
    | none => simp [hl] at h
    | some L2 =>
      simp only [hl, Option.some.injEq, Prod.mk.injEq] at h
      obtain ⟨-, h⟩ := h
      subst h
      obtain ⟨L0, h0⟩ := removal_loop_last check fuel _ _ hl
      have hlen0 := removal_pass_length check hlen _ _ _ _ _ h0
      rw [List.range_eq_range'] at h0
      intro i hi
      exact removal_pass_false check Q hfix hest hpres L0.length 0 L0 L2 false h0
        (fun k hk => absurd hk (by omega)) i (by omega)

theorem set_frame (L : List _removal_t) (j : Nat) (x : _removal_t) :
    (L.set j x).length = L.length ∧ ∀ k, k ≠ j → (L.set j x)[k]? = L[k]? := by
  refine ⟨List.length_set _ _ _, fun k hk => ?_⟩
  rw [List.getElem?_set_ne (Ne.symm hk)]

theorem set_same (L : List _removal_t) (j : Nat) (x p : _removal_t) (h : L[j]? = some p) :
    (L.set j x)[j]? = some x := by
  have hj : j < L.length := by
    by_contra hc
    rw [List.getElem?_eq_none (by omega)] at h
    cases h
  rw [List.getElem?_set_self hj]

/-- What a call of `_banksel_check_state` that returns false leaves of the list:
every element but the one checked, and of that one everything but the flag
`REMOVAL_FLAG_FIXED`. -/
theorem banksel_check_false (L L1 : List _removal_t) (j : Nat)
    (h : _banksel_check_state L j = some (false, L1)) :
    L1 = L ∨ ∃ p, L[j]? = some p ∧ p.type_ ≠ REMOVAL_TYPE_BANKSEL
      ∧ p.type_ ≠ REMOVAL_TYPE_GOTO ∧ p.type_ ≠ REMOVAL_TYPE_LABEL
      ∧ L1 = L.set j { p with flags := p.flags ||| REMOVAL_FLAG_FIXED } := by
  unfold _banksel_check_state at h
  cases hp : L[j]? with
  | none => simp [hp] at h
  | some p =>
    cases hpr : L[removal_prev L.length j]? with
    | none => simp [hp, hpr] at h
    | some pr =>
      simp only [hp, hpr] at h
      by_cases c1 : p.type_ = REMOVAL_TYPE_BANKSEL
      · rw [if_pos c1] at h
        split at h
        · simp only [Option.some.injEq, Prod.mk.injEq, true_and] at h
          exact Or.inl h.symm
        · simp at h
      rw [if_neg c1] at h
      by_cases c2 : p.type_ = REMOVAL_TYPE_GOTO
      · rw [if_pos c2] at h
        split at h
        · simp only [Option.some.injEq, Prod.mk.injEq, true_and] at h
          exact Or.inl h.symm
        · simp at h
      rw [if_neg c2] at h
      by_cases c3 : p.type_ = REMOVAL_TYPE_LABEL
      · rw [if_pos c3] at h
        cases he : banksel_label_entry L L.length p.source pr.state with
        | none => simp [he] at h
        | some entry =>
          simp only [he] at h
          split at h
          · simp only [Option.some.injEq, Prod.mk.injEq, true_and] at h
            exact Or.inl h.symm
          · simp at h
      rw [if_neg c3] at h
      simp only [Option.some.injEq, Prod.mk.injEq, true_and] at h
      exact Or.inr ⟨p, rfl, c1, c2, c3, h.symm⟩

/-- A call of `_banksel_check_state` keeps the length of the list. -/
theorem banksel_check_length (L : List _removal_t) (j : Nat) (c : Bool) (L1 : List _removal_t)
    (h : _banksel_check_state L j = some (c, L1)) : L1.length = L.length := by
  unfold _banksel_check_state at h
  cases hp : L[j]? with
  | none => simp [hp] at h
  | some p =>
    cases hpr : L[removal_prev L.length j]? with
    | none => simp [hp, hpr] at h
    | some pr =>
      simp only [hp, hpr] at h
      cases he : banksel_label_entry L L.length p.source pr.state with
      | none =>
        simp only [he] at h
        split_ifs at h <;> simp only [Option.some.injEq, Prod.mk.injEq, reduceCtorEq] at h <;>
          (obtain ⟨-, rfl⟩ := h; simp)
      | some entry =>
        simp only [he] at h
        split_ifs at h <;> simp only [Option.some.injEq, Prod.mk.injEq] at h <;>
          (obtain ⟨-, rfl⟩ := h; simp)

/-- What a call of `_banksel_check_state` that returns false leaves, by position:
the type, the source, the state and the flag `REMOVAL_FLAG_REMOVE` of every
element, and every element that is not the one checked. -/
theorem banksel_check_false_elems (L L1 : List _removal_t) (j : Nat)
    (h : _banksel_check_state L j = some (false, L1)) :
    L1.length = L.length ∧ (∀ k, k ≠ j → L1[k]? = L[k]?) ∧
      ∀ (k : Nat) (p1 : _removal_t), L1[k]? = some p1 → ∃ p, L[k]? = some p ∧ p1.type_ = p.type_
        ∧ p1.source = p.source ∧ p1.state = p.state := by
  rcases banksel_check_false L L1 j h with e | ⟨p, hp, -, -, -, e⟩
  · subst e
    exact ⟨rfl, fun _ _ => rfl, fun k p1 hk => ⟨p1, hk, rfl, rfl, rfl⟩⟩
  · subst e
    refine ⟨(set_frame L j _).1, (set_frame L j _).2, fun k p1 hk => ?_⟩
    by_cases hkj : k = j
    · subst hkj
      rw [set_same L k _ p hp] at hk
      cases hk
      exact ⟨p, hp, rfl, rfl, rfl⟩
    · rw [(set_frame L j _).2 k hkj] at hk
      exact ⟨p1, hk, rfl, rfl, rfl⟩

/-- The section branch of `_pagesel_check_state` ends with the update of the
element after its initialisation. -/
theorem pagesel_check_section_eq (R : removal_env) (S : Nat → Option removal_section)
    (L : List _removal_t) (j : Nat) (p : _removal_t) (r : Bool × List _removal_t)
    (h : pagesel_check_section R S L j p = some r) :
    ∃ p1 changed flags2 sipage state naddr,
      pagesel_section_init R L j p = some (p1, changed) ∧
      r = pagesel_section_update L j p1 changed flags2 sipage state naddr := by
  unfold pagesel_check_section at h
  cases hi : pagesel_section_init R L j p with
  | none => simp [hi] at h
  | some r0 =>
    obtain ⟨p1, changed⟩ := r0
    simp only [hi] at h
    cases hs : p1.section_.bind S with
    | none => simp [hs] at h
    | some sec =>
      simp only [hs] at h
      split at h
      · cases h
      · exact ⟨p1, changed, _, _, _, _, rfl, (Option.some.inj h).symm⟩

theorem pagesel_section_init_false (R : removal_env) (L : List _removal_t) (j : Nat)
    (p p1 : _removal_t) (h : pagesel_section_init R L j p = some (p1, false)) : p1 = p := by
  unfold pagesel_section_init at h
  by_cases c : p.flags &&& REMOVAL_FLAG_INITIALIZED = 0
  · rw [if_pos c] at h
    simp only [] at h
    split at h
    · cases h
    · simp at h
  · rw [if_neg c] at h
    simp only [Option.some.injEq, Prod.mk.injEq, and_true] at h
    exact h.symm

/-- What a call of the section branch of `_pagesel_check_state` that returns false
leaves: the element checked keeps everything but its flags. -/
theorem pagesel_check_section_false (R : removal_env) (S : Nat → Option removal_section)
    (L L1 : List _removal_t) (j : Nat) (p : _removal_t)
    (h : pagesel_check_section R S L j p = some (false, L1)) :
    ∃ x, L1 = L.set j x ∧ x.type_ = p.type_ ∧ x.source = p.source ∧ x.state = p.state := by
  obtain ⟨p1, changed, f2, sp, st, na, hi, e⟩ := pagesel_check_section_eq R S L j p _ h
  unfold pagesel_section_update at e
  by_cases c : changed = false ∧ st = p1.state ∧ na = p1.naddr
  · rw [if_pos c] at e
    simp only [Prod.mk.injEq, true_and] at e
    rw [c.1] at hi
    have hp1 := pagesel_section_init_false R L j p p1 hi
    subst hp1
    exact ⟨_, e, rfl, rfl, rfl⟩
  · rw [if_neg c] at e
    simp at e

/-- What a call of `_pagesel_check_state` that returns false leaves of the list:
every element but the one checked, and of that one the type and the source,
and the state unless it is a page selection. -/
theorem pagesel_check_false (R : removal_env) (S : Nat → Option removal_section)
    (L L1 : List _removal_t) (j : Nat)
    (h : _pagesel_check_state R S L j = some (false, L1)) :
    L1 = L ∨ ∃ p x, L[j]? = some p ∧ L1 = L.set j x ∧ x.type_ = p.type_ ∧ x.source = p.source
      ∧ (p.type_ ≠ REMOVAL_TYPE_PAGESEL → x.state = p.state) := by
  unfold _pagesel_check_state at h
  cases hp : L[j]? with
  | none => simp [hp] at h
  | some p =>
    simp only [hp] at h
    by_cases c1 : p.type_ = REMOVAL_TYPE_SECTION
    · rw [if_pos c1] at h
      obtain ⟨x, e, ht, hs, hst⟩ := pagesel_check_section_false R S L L1 j p h
      exact Or.inr ⟨p, x, rfl, e, ht, hs, fun _ => hst⟩
    rw [if_neg c1] at h
    by_cases c2 : p.type_ = REMOVAL_TYPE_PAGESEL
    · rw [if_pos c2] at h
      cases hsrc : p.source.bind (fun k => L[k]?) with
      | none => simp [hsrc] at h
      | some src =>
        simp only [hsrc] at h
        generalize hp1 : (if src.state ≠ p.state then { p with state := src.state } else p) = p1
          at h
        have ht : p1.type_ = p.type_ := by
          rw [← hp1]
          split <;> rfl
        have hs : p1.source = p.source := by
          rw [← hp1]
          split <;> rfl
        cases hpr : (L.set j p1)[removal_prev L.length j]? with
        | none => simp [hpr] at h
        | some pr =>
          simp only [hpr] at h
          by_cases c : decide (pr.state = p1.state) ≠ decide (p1.flags &&& REMOVAL_FLAG_REMOVE ≠ 0)
          · rw [if_pos c] at h
            simp at h
          · rw [if_neg c] at h
            simp only [Option.some.injEq, Prod.mk.injEq, true_and] at h
            exact Or.inr ⟨p, p1, rfl, h.symm, ht, hs, fun hc => absurd c2 hc⟩
    rw [if_neg c2] at h
    cases hpr : L[removal_prev L.length j]? with
    | none => simp [hpr] at h
    | some pr =>
      simp only [hpr] at h
      by_cases c3 : p.type_ = REMOVAL_TYPE_LABEL
      · rw [if_pos c3] at h
        cases he : pagesel_label_entry L L.length p.source pr.state with
        | none => simp [he] at h
        | some entry =>
          simp only [he] at h
          split at h
          · simp only [Option.some.injEq, Prod.mk.injEq, true_and] at h
            exact Or.inl h.symm
          · simp at h
      rw [if_neg c3] at h
      by_cases c4 : p.type_ = REMOVAL_TYPE_BRANCH ∨ p.type_ = REMOVAL_TYPE_GOTO
      · rw [if_pos c4] at h
        split at h
        · simp only [Option.some.injEq, Prod.mk.injEq, true_and] at h
          exact Or.inl h.symm
        · simp at h
      rw [if_neg c4] at h
      simp only [Option.some.injEq, Prod.mk.injEq, true_and] at h
      exact Or.inr ⟨p, _, rfl, h.symm, rfl, rfl, fun _ => rfl⟩

/-- The same by position. -/
theorem pagesel_check_false_elems (R : removal_env) (S : Nat → Option removal_section)
    (L L1 : List _removal_t) (j : Nat)
    (h : _pagesel_check_state R S L j = some (false, L1)) :
    L1.length = L.length ∧ (∀ k, k ≠ j → L1[k]? = L[k]?) ∧
      ∀ (k : Nat) (p1 : _removal_t), L1[k]? = some p1 → ∃ p, L[k]? = some p ∧ p1.type_ = p.type_
        ∧ p1.source = p.source ∧ (p.type_ ≠ REMOVAL_TYPE_PAGESEL → p1.state = p.state) := by
  rcases pagesel_check_false R S L L1 j h with e | ⟨p, x, hp, e, ht, hs, hst⟩
  · subst e
    exact ⟨rfl, fun _ _ => rfl, fun k p1 hk => ⟨p1, hk, rfl, rfl, fun _ => rfl⟩⟩
  · subst e
    refine ⟨(set_frame L j _).1, (set_frame L j _).2, fun k p1 hk => ?_⟩
    by_cases hkj : k = j
    · subst hkj
      rw [set_same L k _ p hp] at hk
      cases hk
      exact ⟨p, hp, ht, hs, hst⟩
    · rw [(set_frame L j _).2 k hkj] at hk
      exact ⟨p1, hk, rfl, rfl, fun _ => rfl⟩

/-- A call of the section branch of `_pagesel_check_state` keeps the length of the
list. -/
theorem pagesel_check_section_length (R : removal_env) (S : Nat → Option removal_section)
    (L L1 : List _removal_t) (j : Nat) (p : _removal_t) (c : Bool)
    (h : pagesel_check_section R S L j p = some (c, L1)) : L1.length = L.length := by
  obtain ⟨p1, changed, f2, sp, st, na, -, e⟩ := pagesel_check_section_eq R S L j p _ h
  unfold pagesel_section_update at e
  split at e <;> simp only [Prod.mk.injEq] at e <;> (obtain ⟨-, rfl⟩ := e; simp)

/-- A call of `_pagesel_check_state` keeps the length of the list. -/
theorem pagesel_check_length (R : removal_env) (S : Nat → Option removal_section)
    (L : List _removal_t) (j : Nat) (c : Bool) (L1 : List _removal_t)
    (h : _pagesel_check_state R S L j = some (c, L1)) : L1.length = L.length := by
  unfold _pagesel_check_state at h
  cases hp : L[j]? with
  | none => simp [hp] at h
  | some p =>
    simp only [hp] at h
    by_cases c1 : p.type_ = REMOVAL_TYPE_SECTION
    · rw [if_pos c1] at h
      exact pagesel_check_section_length R S L L1 j p c h
    rw [if_neg c1] at h
    by_cases c2 : p.type_ = REMOVAL_TYPE_PAGESEL
    · rw [if_pos c2] at h
      cases hsrc : p.source.bind (fun k => L[k]?) with
      | none => simp [hsrc] at h
      | some src =>
        simp only [hsrc] at h
        generalize hp1 : (if src.state ≠ p.state then { p with state := src.state } else p) = p1
          at h
        cases hpr : (L.set j p1)[removal_prev L.length j]? with
        | none => simp [hpr] at h
        | some pr =>
          simp only [hpr] at h
          by_cases c : decide (pr.state = p1.state) ≠ decide (p1.flags &&& REMOVAL_FLAG_REMOVE ≠ 0)
          · rw [if_pos c] at h
            simp only [Option.some.injEq, Prod.mk.injEq] at h
            obtain ⟨-, rfl⟩ := h
            simp
          · rw [if_neg c] at h
            simp only [Option.some.injEq, Prod.mk.injEq] at h
            obtain ⟨-, rfl⟩ := h
            simp
    rw [if_neg c2] at h
    cases hpr : L[removal_prev L.length j]? with
    | none => simp [hpr] at h
    | some pr =>
      simp only [hpr] at h
      cases he : pagesel_label_entry L L.length p.source pr.state with
      | none =>
        simp only [he] at h
        split_ifs at h <;> simp only [Option.some.injEq, Prod.mk.injEq, reduceCtorEq] at h <;>
          (obtain ⟨-, rfl⟩ := h; simp)
      | some entry =>
        simp only [he] at h
        split_ifs at h <;> simp only [Option.some.injEq, Prod.mk.injEq] at h <;>
          (obtain ⟨-, rfl⟩ := h; simp)

/-- After a call of `_banksel_check_state` that returns false, a bank selection in
the position checked has the flag `REMOVAL_FLAG_REMOVE` exactly when the state
of the element before it is its own. -/
theorem banksel_check_false_remove (L L1 : List _removal_t) (i : Nat)
    (h : _banksel_check_state L i = some (false, L1)) (p pr : _removal_t)
    (hp : L1[i]? = some p) (hpr : L1[removal_prev L1.length i]? = some pr)
    (ht : p.type_ = REMOVAL_TYPE_BANKSEL) :
    (p.flags &&& REMOVAL_FLAG_REMOVE ≠ 0 ↔ pr.state = p.state) := by
  rcases banksel_check_false L L1 i h with e | ⟨q, hq, hnb, -, -, e⟩
  · subst e
    unfold _banksel_check_state at h
    simp only [hp, hpr] at h
    rw [if_pos ht] at h
    by_cases c : decide (pr.state = p.state) = decide (p.flags &&& REMOVAL_FLAG_REMOVE ≠ 0)
    · simp only [decide_eq_decide] at c
      exact c.symm
    · rw [if_neg c] at h
      simp at h
  · subst e
    rw [set_same L i _ q hq] at hp
    cases hp
    exact absurd ht hnb

/-- After a call of `_pagesel_check_state` that returns false, a page selection in
the position checked has the flag `REMOVAL_FLAG_REMOVE` exactly when the state
of the element before it is its own. -/
theorem pagesel_check_false_remove (R : removal_env) (S : Nat → Option removal_section)
    (L L1 : List _removal_t) (i : Nat)
    (h : _pagesel_check_state R S L i = some (false, L1)) (p pr : _removal_t)
    (hp : L1[i]? = some p) (hpr : L1[removal_prev L1.length i]? = some pr)
    (ht : p.type_ = REMOVAL_TYPE_PAGESEL) :
    (p.flags &&& REMOVAL_FLAG_REMOVE ≠ 0 ↔ pr.state = p.state) := by
  obtain ⟨hlen, -, hel⟩ := pagesel_check_false_elems R S L L1 i h
  obtain ⟨q, hq, hqt, -, -⟩ := hel i p hp
  rw [ht] at hqt
  unfold _pagesel_check_state at h
  simp only [hq] at h
  rw [if_neg (by rw [← hqt]; decide), if_pos hqt.symm] at h
  cases hsrc : q.source.bind (fun k => L[k]?) with
  | none => simp [hsrc] at h
  | some src =>
    simp only [hsrc] at h
    generalize hp1 : (if src.state ≠ q.state then { q with state := src.state } else q) = p1 at h
    cases hpr1 : (L.set i p1)[removal_prev L.length i]? with
    | none => simp [hpr1] at h
    | some pr1 =>
      simp only [hpr1] at h
      by_cases c : decide (pr1.state = p1.state) ≠ decide (p1.flags &&& REMOVAL_FLAG_REMOVE ≠ 0)
      · rw [if_pos c] at h
        simp at h
      · rw [if_neg c] at h
        simp only [Option.some.injEq, Prod.mk.injEq, true_and] at h
        subst h
        rw [set_same L i _ q hq] at hp
        cases hp
        rw [List.length_set, hpr1] at hpr
        cases hpr
        simp only [ne_eq, not_not, decide_eq_decide] at c
        exact c.symm

/-- C24: when `_removal_process_list` has finished with `_banksel_check_state`,
every bank selection whose state is not fixed has the flag
`REMOVAL_FLAG_REMOVE` exactly when the state of the element before it in the
list is its own state; when it has finished with `_pagesel_check_state`, the
same holds for every page selection that is not the first element of the list
(the first element of a list that `_removal_prepare_list` builds is a
section). -/
theorem removal_remove_iff_state (R : removal_env) (S : Nat → Option removal_section)
    (fuel : Nat) (L L1 : List _removal_t) (b : Bool) (i : Nat) (p pr : _removal_t)
    (hp : L1[i]? = some p) (hpr : L1[removal_prev L1.length i]? = some pr)
    (hfixed : p.flags &&& REMOVAL_FLAG_FIXED = 0) :
    (_removal_process_list _banksel_check_state fuel L = some (b, L1) →
      p.type_ = REMOVAL_TYPE_BANKSEL →
      (p.flags &&& REMOVAL_FLAG_REMOVE ≠ 0 ↔ pr.state = p.state)) ∧
    (_removal_process_list (_pagesel_check_state R S) fuel L = some (b, L1) →
      p.type_ = REMOVAL_TYPE_PAGESEL → 0 < i →
      (p.flags &&& REMOVAL_FLAG_REMOVE ≠ 0 ↔ pr.state = p.state)) := by
  have hi : i < L1.length := by
    by_contra hc
    rw [List.getElem?_eq_none (by omega)] at hp
    cases hp
  constructor
  · intro h ht
    have key := removal_process_list_final _banksel_check_state
      (fun L i => ∀ p pr, L[i]? = some p → L[removal_prev L.length i]? = some pr →
        p.flags &&& REMOVAL_FLAG_FIXED = 0 → p.type_ = REMOVAL_TYPE_BANKSEL →
        (p.flags &&& REMOVAL_FLAG_REMOVE ≠ 0 ↔ pr.state = p.state))
      banksel_check_length
      (fun L i p hp hf q qr hq _ hqf _ => by
        rw [hp] at hq
        cases hq
        exact absurd hqf hf)
      (fun L i L1 hc q qr hq hqr _ hqt => banksel_check_false_remove L L1 i hc q qr hq hqr hqt)
      (fun L i j L1 hij hc hQ q qr hq hqr hqf hqt => by
        obtain ⟨hlen, hne, hel⟩ := banksel_check_false_elems L L1 j hc
        rw [hne i (by omega)] at hq
        rw [hlen] at hqr
        obtain ⟨qr0, hqr0, -, -, hst⟩ := hel _ qr hqr
        rw [hst]
        exact hQ q qr0 hq hqr0 hqf hqt)
      fuel L L1 b h i hi
    exact key p pr hp hpr hfixed ht
  · intro h ht h0
    have key := removal_process_list_final (_pagesel_check_state R S)
      (fun L i => 0 < i → ∀ p pr, L[i]? = some p → L[removal_prev L.length i]? = some pr →
        p.flags &&& REMOVAL_FLAG_FIXED = 0 → p.type_ = REMOVAL_TYPE_PAGESEL →
        (p.flags &&& REMOVAL_FLAG_REMOVE ≠ 0 ↔ pr.state = p.state))
      (pagesel_check_length R S)
      (fun L i p hp hf _ q qr hq _ hqf _ => by
        rw [hp] at hq
        cases hq
        exact absurd hqf hf)
      (fun L i L1 hc _ q qr hq hqr _ hqt =>
        pagesel_check_false_remove R S L L1 i hc q qr hq hqr hqt)
      (fun L i j L1 hij hc hQ h0 q qr hq hqr hqf hqt => by
        obtain ⟨hlen, hne, -⟩ := pagesel_check_false_elems R S L L1 j hc
        have hil : i < L.length := by
          by_contra hcon
          rw [List.getElem?_eq_none (by omega)] at hq
          cases hq
        rw [hne i (by omega)] at hq
        rw [hlen, removal_prev_pos _ _ h0 hil] at hqr
        rw [hne (i - 1) (by omega)] at hqr
        refine hQ h0 q qr hq ?_ hqf hqt
        rw [removal_prev_pos _ _ h0 hil]
        exact hqr)
      fuel L L1 b h i hi
    exact key h0 p pr hp hpr hfixed ht

/-- C24 on the example lists: the last bank selection of `example_banksel_list`
follows a selection of the same bank and is marked for removal; the second page
selection of `example_pagesel_list` follows a `goto` whose state is the page
selected and is marked for removal. -/
theorem removal_remove_iff_state_witness :
    _removal_process_list _banksel_check_state 2 example_banksel_list
      = some (true, example_banksel_final) ∧
    ((example_removal_elem REMOVAL_TYPE_BANKSEL 4 4 4 none (some 4)).flags
        &&& REMOVAL_FLAG_REMOVE ≠ 0 ↔
      (example_removal_elem REMOVAL_TYPE_BANKSEL 0 3 4 none (some 3)).state
        = (example_removal_elem REMOVAL_TYPE_BANKSEL 4 4 4 none (some 4)).state) ∧
    _removal_process_list (_pagesel_check_state example_removal_env example_removal_sections) 3
      example_pagesel_list = some (true, example_pagesel_final) ∧
    ((example_removal_elem REMOVAL_TYPE_PAGESEL 4 2 1 (some 0) (some 2)).flags
        &&& REMOVAL_FLAG_REMOVE ≠ 0 ↔
      (example_removal_elem REMOVAL_TYPE_GOTO 0 1 1 none (some 1)).state
        = (example_removal_elem REMOVAL_TYPE_PAGESEL 4 2 1 (some 0) (some 2)).state) :=
  ⟨rfl,
    (removal_remove_iff_state example_removal_env example_removal_sections 2
      example_banksel_list example_banksel_final true 6
      (example_removal_elem REMOVAL_TYPE_BANKSEL 4 4 4 none (some 4))
      (example_removal_elem REMOVAL_TYPE_BANKSEL 0 3 4 none (some 3)) rfl rfl rfl).1 rfl rfl,
    rfl,
    (removal_remove_iff_state example_removal_env example_removal_sections 3
      example_pagesel_list example_pagesel_final true 3
      (example_removal_elem REMOVAL_TYPE_PAGESEL 4 2 1 (some 0) (some 2))
      (example_removal_elem REMOVAL_TYPE_GOTO 0 1 1 none (some 1)) rfl rfl rfl).2 rfl rfl
      (by decide)⟩

/-! ## The fixed-point optimiser: the states of labels and jumps -/

theorem foldl_or_init (xs : List Nat) (a : Nat) :
    xs.foldl (fun a s => a ||| s) a = a ||| xs.foldl (fun a s => a ||| s) 0 := by
  induction xs generalizing a with
  | nil => simp
  | cons x xs ih =>
    simp only [List.foldl_cons]
    rw [ih (a ||| x), ih (0 ||| x), Nat.zero_or, Nat.or_assoc]

theorem state_union_cons (x : Nat) (xs : List Nat) :
    state_union (x :: xs) = x ||| state_union xs := by
  unfold state_union
  simp only [List.foldl_cons]
  rw [foldl_or_init, Nat.zero_or]

/-- The loop of the pagesel variant over the sources of a label computes the union
of the entry value with the states of the elements of the chain. -/
theorem pagesel_label_entry_union (L : List _removal_t) :
    ∀ (fuel : Nat) (src : Option Nat) (e v : Nat),
      pagesel_label_entry L fuel src e = some v →
      ∃ chain, source_chain L fuel src = some chain ∧
        v = e ||| state_union (chain.map (state_at L)) := by
  intro fuel
  induction fuel with
  | zero =>
    intro src e v h
    cases src with
    | none =>
      simp only [pagesel_label_entry, Option.some.injEq] at h
      exact ⟨[], by simp [source_chain], by simp [state_union, h]⟩
    | some s => simp [pagesel_label_entry] at h
  | succ fuel ih =>
    intro src e v h
    cases src with
    | none =>
      simp only [pagesel_label_entry, Option.some.injEq] at h
      exact ⟨[], by simp [source_chain], by simp [state_union, h]⟩
    | some s =>
      unfold pagesel_label_entry at h
      cases hs : L[s]? with
      | none => simp [hs] at h
      | some q =>
        simp only [hs] at h
        obtain ⟨chain, hc, hv⟩ := ih q.source (e ||| q.state) v h
        refine ⟨s :: chain, by simp [source_chain, hs, hc], ?_⟩
        rw [List.map_cons, state_union_cons, hv, Nat.or_assoc]
        simp [state_at, hs]

/-- The loop of the banksel variant over the sources of a label computes the union
of the entry value with the states of the elements before the elements of the
chain. -/
theorem banksel_label_entry_union (L : List _removal_t) :
    ∀ (fuel : Nat) (src : Option Nat) (e v : Nat),
      banksel_label_entry L fuel src e = some v →
      ∃ chain, source_chain L fuel src = some chain ∧
        v = e ||| state_union (chain.map (fun k => state_at L (removal_prev L.length k))) := by
  intro fuel
  induction fuel with
  | zero =>
    intro src e v h
    cases src with
    | none =>
      simp only [banksel_label_entry, Option.some.injEq] at h
      exact ⟨[], by simp [source_chain], by simp [state_union, h]⟩
    | some s => simp [banksel_label_entry] at h
  | succ fuel ih =>
    intro src e v h
    cases src with
    | none =>
      simp only [banksel_label_entry, Option.some.injEq] at h
      exact ⟨[], by simp [source_chain], by simp [state_union, h]⟩
    | some s =>
      unfold banksel_label_entry at h
      cases hs : L[s]? with
      | none => simp [hs] at h
      | some q =>
        cases hsp : L[removal_prev L.length s]? with
        | none => simp [hs, hsp] at h
        | some sp =>
          simp only [hs, hsp] at h
          obtain ⟨chain, hc, hv⟩ := ih q.source (e ||| sp.state) v h
          refine ⟨s :: chain, by simp [source_chain, hs, hc], ?_⟩
          rw [List.map_cons, state_union_cons, hv, Nat.or_assoc]
          simp [state_at, hsp]

theorem getElem?_none_of_length (L L1 : List _removal_t) (hlen : L1.length = L.length) (s : Nat)
    (h : L1[s]? = none) : L[s]? = none := by
  rw [List.getElem?_eq_none_iff] at h ⊢
  omega

/-- The loop of the banksel variant gives the same value on two lists of the same
length whose elements have the same sources and states. -/
theorem banksel_label_entry_congr (L L1 : List _removal_t) (hlen : L1.length = L.length)
    (hel : ∀ (k : Nat) (p1 : _removal_t), L1[k]? = some p1 →
      ∃ p, L[k]? = some p ∧ p1.source = p.source ∧ p1.state = p.state) :
    ∀ (fuel : Nat) (src : Option Nat) (e : Nat),
      banksel_label_entry L1 fuel src e = banksel_label_entry L fuel src e := by
  intro fuel
  induction fuel with
  | zero =>
    intro src e
    cases src <;> simp [banksel_label_entry]
  | succ fuel ih =>
    intro src e
    cases src with
    | none => simp [banksel_label_entry]
    | some s =>
      unfold banksel_label_entry
      rw [hlen]
      cases h1 : L1[s]? with
      | none =>
        rw [getElem?_none_of_length L L1 hlen s h1]
      | some q1 =>
        obtain ⟨q, hq, hqs, -⟩ := hel s q1 h1
        rw [hq]
        cases h2 : L1[removal_prev L.length s]? with
        | none =>
          rw [getElem?_none_of_length L L1 hlen _ h2]
        | some sp1 =>
          obtain ⟨sp, hsp, -, hst⟩ := hel _ sp1 h2
          rw [hsp]
          simp only []
          rw [hqs, hst]
          exact ih _ _

/-- The loop of the pagesel variant gives the same value on two lists of the same
length whose elements have the same sources, and the same states but for the
page selections, when the chain holds no page selection. -/
theorem pagesel_label_entry_congr (L L1 : List _removal_t) (hlen : L1.length = L.length)
    (hel : ∀ (k : Nat) (p1 : _removal_t), L1[k]? = some p1 →
      ∃ p, L[k]? = some p ∧ p1.type_ = p.type_ ∧ p1.source = p.source
        ∧ (p.type_ ≠ REMOVAL_TYPE_PAGESEL → p1.state = p.state))
    (hns : no_pagesel_source L) :
    ∀ (fuel : Nat) (src : Option Nat) (e : Nat),
      (∀ s t, src = some s → L[s]? = some t → t.type_ ≠ REMOVAL_TYPE_PAGESEL) →
      pagesel_label_entry L1 fuel src e = pagesel_label_entry L fuel src e := by
  intro fuel
  induction fuel with
  | zero =>
    intro src e _
    cases src <;> simp [pagesel_label_entry]
  | succ fuel ih =>
    intro src e hsrc
    cases src with
    | none => simp [pagesel_label_entry]
    | some s =>
      unfold pagesel_label_entry
      cases h1 : L1[s]? with
      | none =>
        rw [getElem?_none_of_length L L1 hlen s h1]
      | some q1 =>
        obtain ⟨q, hq, -, hqs, hst⟩ := hel s q1 h1
        rw [hq]
        simp only []
        rw [hqs, hst (hsrc s q rfl hq)]
        exact ih _ _ (fun s2 t2 hs2 ht2 => hns s q s2 t2 hq hs2 ht2)

/-- A call of `_banksel_check_state` for a label or a `goto` that returns false has
found the state of the element equal to the value it computes. -/
theorem banksel_check_false_jump (L L1 : List _removal_t) (i : Nat)
    (h : _banksel_check_state L i = some (false, L1)) (p pr : _removal_t)
    (hp : L1[i]? = some p) (hpr : L1[removal_prev L1.length i]? = some pr) :
    (p.type_ = REMOVAL_TYPE_LABEL →
      banksel_label_entry L1 L1.length p.source pr.state = some p.state) ∧
    (p.type_ = REMOVAL_TYPE_GOTO → p.state = pr.state) := by
  rcases banksel_check_false L L1 i h with e | ⟨q, hq, -, hng, hnl, e⟩
  · subst e
    unfold _banksel_check_state at h
    simp only [hp, hpr] at h
    constructor
    · intro ht
      rw [if_neg (by rw [ht]; decide), if_neg (by rw [ht]; decide), if_pos ht] at h
      cases he : banksel_label_entry L1 L1.length p.source pr.state with
      | none => simp [he] at h
      | some entry =>
        simp only [he] at h
        by_cases c : entry = p.state
        · rw [c]
        · rw [if_neg c] at h
          simp at h
    · intro ht
      rw [if_neg (by rw [ht]; decide), if_pos ht] at h
      by_cases c : pr.state = p.state
      · exact c.symm
      · rw [if_neg c] at h
        simp at h
  · subst e
    rw [set_same L i _ q hq] at hp
    cases hp
    exact ⟨fun ht => absurd ht hnl, fun ht => absurd ht hng⟩

/-- A call of `_pagesel_check_state` for a label, a branch or a `goto` that returns
false has left the list and found the state of the element equal to the value
it computes. -/
theorem pagesel_check_false_jump (R : removal_env) (S : Nat → Option removal_section)
    (L L1 : List _removal_t) (i : Nat)
    (h : _pagesel_check_state R S L i = some (false, L1)) (p pr : _removal_t)
    (hp : L[i]? = some p) (hpr : L[removal_prev L.length i]? = some pr) :
    (p.type_ = REMOVAL_TYPE_LABEL →
      L1 = L ∧ pagesel_label_entry L L.length p.source pr.state = some p.state) ∧
    (p.type_ = REMOVAL_TYPE_BRANCH ∨ p.type_ = REMOVAL_TYPE_GOTO →
      L1 = L ∧ p.state = pr.state) := by
  unfold _pagesel_check_state at h
  simp only [hp, hpr] at h
  constructor
  · intro ht
    rw [if_neg (by rw [ht]; decide), if_neg (by rw [ht]; decide), if_pos ht] at h
    cases he : pagesel_label_entry L L.length p.source pr.state with
    | none => simp [he] at h
    | some entry =>
      simp only [he] at h
      by_cases c : entry = p.state
      · rw [if_pos c] at h
        simp only [Option.some.injEq, Prod.mk.injEq, true_and] at h
        exact ⟨h.symm, by rw [c]⟩
      · rw [if_neg c] at h
        simp at h
  · intro ht
    have h1 : p.type_ ≠ REMOVAL_TYPE_SECTION := by
      rcases ht with ht | ht <;> (rw [ht]; decide)
    have h2 : p.type_ ≠ REMOVAL_TYPE_PAGESEL := by
      rcases ht with ht | ht <;> (rw [ht]; decide)
    have h3 : p.type_ ≠ REMOVAL_TYPE_LABEL := by
      rcases ht with ht | ht <;> (rw [ht]; decide)
    rw [if_neg h1, if_neg h2, if_neg h3, if_pos ht] at h
    by_cases c : pr.state = p.state
    · rw [if_pos c] at h
      simp only [Option.some.injEq, Prod.mk.injEq, true_and] at h
      exact ⟨h.symm, c.symm⟩
    · rw [if_neg c] at h
      simp at h

/-- Two lists of the same length whose elements have the same types and sources
agree on `no_pagesel_source`. -/
theorem no_pagesel_source_of_elems (L L1 : List _removal_t) (hlen : L1.length = L.length)
    (hel : ∀ (k : Nat) (p1 : _removal_t), L1[k]? = some p1 →
      ∃ p, L[k]? = some p ∧ p1.type_ = p.type_ ∧ p1.source = p.source
        ∧ (p.type_ ≠ REMOVAL_TYPE_PAGESEL → p1.state = p.state))
    (h : no_pagesel_source L1) : no_pagesel_source L := by
  intro k e s t hk hs ht
  have hk1 : ∃ e1, L1[k]? = some e1 := by
    cases h1 : L1[k]? with
    | none => rw [getElem?_none_of_length L L1 hlen k h1] at hk; cases hk
    | some e1 => exact ⟨e1, rfl⟩
  have hs1 : ∃ t1, L1[s]? = some t1 := by
    cases h1 : L1[s]? with
    | none => rw [getElem?_none_of_length L L1 hlen s h1] at ht; cases ht
    | some t1 => exact ⟨t1, rfl⟩
  obtain ⟨e1, he1⟩ := hk1
  obtain ⟨t1, ht1⟩ := hs1
  obtain ⟨e0, he0, -, hsrc, -⟩ := hel k e1 he1
  obtain ⟨t0, ht0, htt, -, -⟩ := hel s t1 ht1
  rw [hk] at he0
  cases he0
  rw [ht] at ht0
  cases ht0
  rw [← htt]
  exact h k e1 s t1 he1 (by rw [hsrc, hs]) ht1

/-- C25 (amended): when `_removal_process_list` has finished, the state of a label
whose state is not fixed is the union of the state of the element before it
with, in the pagesel variant, the states of the branch, `goto` and call
elements linked to it, and, in the banksel variant, the states of the elements
before the `goto` and call elements linked to it; and the state of a `goto`
(banksel variant) or of a branch or `goto` (pagesel variant) is the state of
the element before it.  In the pagesel variant the element is not the first
of the list and no source is a page selection, as in the lists that
`_removal_prepare_list` builds. -/
theorem removal_label_state (R : removal_env) (S : Nat → Option removal_section)
    (fuel : Nat) (L L1 : List _removal_t) (b : Bool) (i : Nat) (p pr : _removal_t)
    (hp : L1[i]? = some p) (hpr : L1[removal_prev L1.length i]? = some pr)
    (hfixed : p.flags &&& REMOVAL_FLAG_FIXED = 0) :
    (_removal_process_list _banksel_check_state fuel L = some (b, L1) →
      (p.type_ = REMOVAL_TYPE_LABEL →
        ∃ chain, source_chain L1 L1.length p.source = some chain ∧
          p.state = pr.state |||
            state_union (chain.map (fun k => state_at L1 (removal_prev L1.length k)))) ∧
      (p.type_ = REMOVAL_TYPE_GOTO → p.state = pr.state)) ∧
    (_removal_process_list (_pagesel_check_state R S) fuel L = some (b, L1) → 0 < i →
      (p.type_ = REMOVAL_TYPE_LABEL → no_pagesel_source L1 →
        ∃ chain, source_chain L1 L1.length p.source = some chain ∧
          p.state = pr.state ||| state_union (chain.map (state_at L1))) ∧
      (p.type_ = REMOVAL_TYPE_BRANCH ∨ p.type_ = REMOVAL_TYPE_GOTO → p.state = pr.state)) := by
  have hi : i < L1.length := by
    by_contra hc
    rw [List.getElem?_eq_none (by omega)] at hp
    cases hp
  constructor
  · intro h
    have key := removal_process_list_final _banksel_check_state
      (fun L i => ∀ p pr, L[i]? = some p → L[removal_prev L.length i]? = some pr →
        p.flags &&& REMOVAL_FLAG_FIXED = 0 →
        (p.type_ = REMOVAL_TYPE_LABEL →
          banksel_label_entry L L.length p.source pr.state = some p.state) ∧
        (p.type_ = REMOVAL_TYPE_GOTO → p.state = pr.state))
      banksel_check_length
      (fun L i p hp hf q qr hq _ hqf => by
        rw [hp] at hq
        cases hq
        exact absurd hqf hf)
      (fun L i L1 hc q qr hq hqr _ => banksel_check_false_jump L L1 i hc q qr hq hqr)
      (fun L i j L1 hij hc hQ q qr hq hqr hqf => by
        obtain ⟨hlen, hne, hel⟩ := banksel_check_false_elems L L1 j hc
        rw [hne i (by omega)] at hq
        rw [hlen] at hqr
        obtain ⟨qr0, hqr0, -, -, hst⟩ := hel _ qr hqr
        obtain ⟨a1, a2⟩ := hQ q qr0 hq hqr0 hqf
        refine ⟨fun ht => ?_, fun ht => ?_⟩
        · rw [banksel_label_entry_congr L L1 hlen
            (fun k p1 hk => by
              obtain ⟨p0, h0, -, h1, h2⟩ := hel k p1 hk
              exact ⟨p0, h0, h1, h2⟩), hlen, hst]
          exact a1 ht
        · rw [hst]
          exact a2 ht)
      fuel L L1 b h i hi
    obtain ⟨a1, a2⟩ := key p pr hp hpr hfixed
    refine ⟨fun ht => ?_, a2⟩
    obtain ⟨chain, hc, hv⟩ := banksel_label_entry_union L1 _ _ _ _ (a1 ht)
    exact ⟨chain, hc, hv⟩
  · intro h h0
    have key := removal_process_list_final (_pagesel_check_state R S)
      (fun L i => 0 < i → ∀ p pr, L[i]? = some p → L[removal_prev L.length i]? = some pr →
        p.flags &&& REMOVAL_FLAG_FIXED = 0 →
        (p.type_ = REMOVAL_TYPE_LABEL → no_pagesel_source L →
          pagesel_label_entry L L.length p.source pr.state = some p.state) ∧
        (p.type_ = REMOVAL_TYPE_BRANCH ∨ p.type_ = REMOVAL_TYPE_GOTO → p.state = pr.state))
      (pagesel_check_length R S)
      (fun L i p hp hf _ q qr hq _ hqf => by
        rw [hp] at hq
        cases hq
        exact absurd hqf hf)
      (fun L i L1 hc _ q qr hq hqr _ => by
        obtain ⟨hlen, -, hel⟩ := pagesel_check_false_elems R S L L1 i hc
        obtain ⟨q0, hq0, hqt, -, -⟩ := hel i q hq
        have hqr0 : ∃ qr0, L[removal_prev L.length i]? = some qr0 := by
          cases h1 : L[removal_prev L.length i]? with
          | none =>
            rw [hlen] at hqr
            have := getElem?_none_of_length L1 L hlen.symm _ h1
            rw [this] at hqr
            cases hqr
          | some qr0 => exact ⟨qr0, rfl⟩
        obtain ⟨qr0, hqr0⟩ := hqr0
        obtain ⟨a1, a2⟩ := pagesel_check_false_jump R S L L1 i hc q0 qr0 hq0 hqr0
        refine ⟨fun ht _ => ?_, fun ht => ?_⟩
        · obtain ⟨e, a⟩ := a1 (by rw [← hqt]; exact ht)
          subst e
          rw [hq] at hq0
          cases hq0
          rw [hqr] at hqr0
          cases hqr0
          exact a
        · obtain ⟨e, a⟩ := a2 (by rw [← hqt]; exact ht)
          subst e
          rw [hq] at hq0
          cases hq0
          rw [hqr] at hqr0
          cases hqr0
          exact a)
      (fun L i j L1 hij hc hQ h0 q qr hq hqr hqf => by
        obtain ⟨hlen, hne, hel⟩ := pagesel_check_false_elems R S L L1 j hc
        have hil : i < L.length := by
          by_contra hcon
          rw [List.getElem?_eq_none (by omega)] at hq
          cases hq
        rw [hne i (by omega)] at hq
        rw [hlen, removal_prev_pos _ _ h0 hil] at hqr
        rw [hne (i - 1) (by omega)] at hqr
        have hqr0 : L[removal_prev L.length i]? = some qr := by
          rw [removal_prev_pos _ _ h0 hil]
          exact hqr
        obtain ⟨a1, a2⟩ := hQ h0 q qr hq hqr0 hqf
        refine ⟨fun ht hns1 => ?_, a2⟩
        have hns := no_pagesel_source_of_elems L L1 hlen hel hns1
        rw [pagesel_label_entry_congr L L1 hlen hel hns _ _ _
          (fun s t hs ht2 => hns i q s t hq hs ht2), hlen]
        exact a1 ht hns)
      fuel L L1 b h i hi
    obtain ⟨a1, a2⟩ := key h0 p pr hp hpr hfixed
    refine ⟨fun ht hns => ?_, a2⟩
    obtain ⟨chain, hc, hv⟩ := pagesel_label_entry_union L1 _ _ _ _ (a1 ht hns)
    exact ⟨chain, hc, hv⟩

theorem example_pagesel_final_sources : no_pagesel_source example_pagesel_final := by
  intro k e s t hk hs ht
  have hs0 : s = 0 ∨ s = 2 := by
    match k, hk with
    | 0, hk =>
      simp only [example_pagesel_final, List.getElem?_cons_zero, Option.some.injEq] at hk
      subst hk
      simp [example_removal_elem] at hs
    | 1, hk =>
      simp only [example_pagesel_final, List.getElem?_cons_succ, List.getElem?_cons_zero,
        Option.some.injEq] at hk
      subst hk
      simp only [example_removal_elem, Option.some.injEq] at hs
      exact Or.inl hs.symm
    | 2, hk =>
      simp only [example_pagesel_final, List.getElem?_cons_succ, List.getElem?_cons_zero,
        Option.some.injEq] at hk
      subst hk
      simp [example_removal_elem] at hs
    | 3, hk =>
      simp only [example_pagesel_final, List.getElem?_cons_succ, List.getElem?_cons_zero,
        Option.some.injEq] at hk
      subst hk
      simp only [example_removal_elem, Option.some.injEq] at hs
      exact Or.inl hs.symm
    | 4, hk =>
      simp only [example_pagesel_final, List.getElem?_cons_succ, List.getElem?_cons_zero,
        Option.some.injEq] at hk
      subst hk
      simp only [example_removal_elem, Option.some.injEq] at hs
      exact Or.inr hs.symm
    | k + 5, hk =>
      simp [example_pagesel_final] at hk
  rcases hs0 with h | h <;> subst h
  · simp only [example_pagesel_final, List.getElem?_cons_zero, Option.some.injEq] at ht
    subst ht
    decide
  · simp only [example_pagesel_final, List.getElem?_cons_succ, List.getElem?_cons_zero,
      Option.some.injEq] at ht
    subst ht
    decide

/-- C25 (amended) on the example lists: the label of `example_banksel_list`, which
a call is linked to, gets the union of the state of the bank selection before
it with the state of the bank selection before the call; the label of
`example_pagesel_list` gets the union of the state of the page selection before
it with the state of the `goto` linked to it. -/
theorem removal_label_state_witness :
    _removal_process_list _banksel_check_state 2 example_banksel_list
      = some (true, example_banksel_final) ∧
    (∃ chain,
      source_chain example_banksel_final example_banksel_final.length
          (example_removal_elem REMOVAL_TYPE_LABEL 0 3 6 (some 2) none).source = some chain ∧
        (example_removal_elem REMOVAL_TYPE_LABEL 0 3 6 (some 2) none).state =
          (example_removal_elem REMOVAL_TYPE_BANKSEL 0 2 4 none (some 2)).state |||
            state_union (chain.map (fun k =>
              state_at example_banksel_final (removal_prev example_banksel_final.length k)))) ∧
    _removal_process_list (_pagesel_check_state example_removal_env example_removal_sections) 3
      example_pagesel_list = some (true, example_pagesel_final) ∧
    (∃ chain,
      source_chain example_pagesel_final example_pagesel_final.length
          (example_removal_elem REMOVAL_TYPE_LABEL 0 4 1 (some 2) none).source = some chain ∧
        (example_removal_elem REMOVAL_TYPE_LABEL 0 4 1 (some 2) none).state =
          (example_removal_elem REMOVAL_TYPE_PAGESEL 4 2 1 (some 0) (some 2)).state |||
            state_union (chain.map (state_at example_pagesel_final))) :=
  ⟨rfl,
    ((removal_label_state example_removal_env example_removal_sections 2
      example_banksel_list example_banksel_final true 4
      (example_removal_elem REMOVAL_TYPE_LABEL 0 3 6 (some 2) none)
      (example_removal_elem REMOVAL_TYPE_BANKSEL 0 2 4 none (some 2)) rfl rfl rfl).1 rfl).1 rfl,
    rfl,
    ((removal_label_state example_removal_env example_removal_sections 3
      example_pagesel_list example_pagesel_final true 4
      (example_removal_elem REMOVAL_TYPE_LABEL 0 4 1 (some 2) none)
      (example_removal_elem REMOVAL_TYPE_PAGESEL 4 2 1 (some 0) (some 2)) rfl rfl rfl).2 rfl
      (by decide)).1 rfl example_pagesel_final_sources⟩

/-- C25, a run against the claim as stated: at the end of the banksel variant on
`example_banksel_list`, the label in position 4 has the state 6, the union of
the state 4 of the bank selection before it with the state 2 of the bank
selection before the call linked to it; the union with the state of the call
itself is `0xFFFFFFFF`. -/
theorem banksel_label_state_not_union_of_sources :
    _removal_process_list _banksel_check_state 2 example_banksel_list
      = some (true, example_banksel_final) ∧
    example_banksel_final[4]? = some (example_removal_elem REMOVAL_TYPE_LABEL 0 3 6 (some 2) none) ∧
    source_chain example_banksel_final example_banksel_final.length (some 2) = some [2] ∧
    example_banksel_final[2]?
      = some (example_removal_elem REMOVAL_TYPE_CALL 2 1 REMOVAL_STATE_UNDEF none (some 1)) ∧
    state_at example_banksel_final 4 = 6 ∧
    state_at example_banksel_final 3
      ||| state_union ([2].map (state_at example_banksel_final)) = 4294967295 :=
  ⟨rfl, rfl, rfl, rfl, rfl, rfl⟩

/-! ## The fixed-point optimiser: the PCALLW stubs -/

/-- The loop of `_pcallw_check_state` does not stop on a list without a label whose
addresses are all at most `limit`. -/
theorem pcallw_find_next_none (L : List _removal_t) (limit : Nat)
    (hall : ∀ e ∈ L, e.type_ ≠ REMOVAL_TYPE_LABEL ∧ e.address ≤ limit) :
    ∀ (fuel k : Nat), pcallw_find_next L limit fuel k = none := by
  intro fuel
  induction fuel with
  | zero => intro k; rfl
  | succ fuel ih =>
    intro k
    unfold pcallw_find_next
    cases hk : L[k]? with
    | none => rfl
    | some e =>
      simp only []
      rw [if_pos (hall e (List.mem_iff_getElem?.2 ⟨k, hk⟩))]
      exact ih _

/-- The call of `_pcallw_check_state` for a PCALLW stub does not return on a list
without a label whose addresses are all at most `Ptr->address + 1`. -/
theorem pcallw_check_state_stub_none (fuel : Nat) (L : List _removal_t) (i : Nat)
    (p : _removal_t) (hp : L[i]? = some p) (hstub : p.type_ = REMOVAL_TYPE_PCALLW_STUB)
    (hall : ∀ e ∈ L, e.type_ ≠ REMOVAL_TYPE_LABEL ∧ e.address ≤ (p.address + 1) % 2 ^ 32) :
    _pcallw_check_state fuel L i = none := by
  unfold _pcallw_check_state
  simp only [hp]
  rw [if_pos hstub, pcallw_find_next_none L _ hall]

/-- C27 (the code diverges from the claim): on a list that holds no label and no
element behind the address `A + 1`, the loop of `_pcallw_check_state` for a
PCALLW stub at the address `A` does not stop, whatever the number of steps it
is given: the `next` pointers of the circular list are never `NULL`.  A call
that returns, returns false, and it keeps the stub only when the list holds a
label at the address `A + 1`. -/
theorem pcallw_check_state_no_return (fuel : Nat) (L : List _removal_t) (i : Nat) (p : _removal_t)
    (hp : L[i]? = some p) (hstub : p.type_ = REMOVAL_TYPE_PCALLW_STUB) :
    ((∀ e ∈ L, e.type_ ≠ REMOVAL_TYPE_LABEL ∧ e.address ≤ (p.address + 1) % 2 ^ 32) →
      _pcallw_check_state fuel L i = none) ∧
    (∀ c L1, _pcallw_check_state fuel L i = some (c, L1) →
      c = false ∧
      (L1 = L.set i { p with flags := (p.flags ||| REMOVAL_FLAG_REMOVE) ||| REMOVAL_FLAG_FIXED } ∨
        (L1 = L.set i { p with flags := p.flags ||| REMOVAL_FLAG_FIXED } ∧
          ∃ next ∈ L, next.type_ = REMOVAL_TYPE_LABEL
            ∧ next.address = (p.address + 1) % 2 ^ 32))) := by
  constructor
  · intro hall
    exact pcallw_check_state_stub_none fuel L i p hp hstub hall
  · intro c L1 h
    unfold _pcallw_check_state at h
    simp only [hp, Nat.reducePow] at h
    rw [if_pos hstub] at h
    simp only [Nat.reducePow]
    cases hk : pcallw_find_next L ((p.address + 1) % 4294967296) fuel
        (removal_next L.length i) with
    | none => simp [hk] at h
    | some k =>
      simp only [hk] at h
      cases hn : L[k]? with
      | none => simp [hn] at h
      | some next =>
        simp only [hn] at h
        by_cases cl : next.type_ = REMOVAL_TYPE_LABEL ∧ next.address = (p.address + 1) % 4294967296
        · rw [if_pos cl] at h
          simp only [Option.some.injEq, Prod.mk.injEq] at h
          exact ⟨h.1.symm, Or.inr ⟨h.2.symm, next, List.mem_iff_getElem?.2 ⟨k, hn⟩, cl⟩⟩
        · rw [if_neg cl] at h
          simp only [Option.some.injEq, Prod.mk.injEq] at h
          exact ⟨h.1.symm, Or.inl h.2.symm⟩

/-- C27 on the list of a section and a stub: the call for the stub has not returned
after 1000 steps of its loop; on the list with a label behind the stub, the
call returns and keeps the stub. -/
theorem pcallw_check_state_no_return_witness :
    _pcallw_check_state 1000 example_pcallw_list 1 = none ∧
    _pcallw_check_state 1 example_pcallw_list_label 1
      = some (false, example_pcallw_list_label.set 1
          (example_removal_elem REMOVAL_TYPE_PCALLW_STUB REMOVAL_FLAG_FIXED 5 REMOVAL_STATE_UNDEF
            none (some 0))) :=
  ⟨(pcallw_check_state_no_return 1000 example_pcallw_list 1
      (example_removal_elem REMOVAL_TYPE_PCALLW_STUB 0 5 REMOVAL_STATE_UNDEF none (some 0))
      rfl rfl).1 (by decide),
    rfl⟩

/-- On the list of a section and a stub, `_removal_process_list` with
`_pcallw_check_state` does not return, whatever the numbers of steps given to
its loops. -/
theorem pcallw_process_list_no_return (fuel1 fuel2 : Nat) :
    _removal_process_list (_pcallw_check_state fuel1) fuel2 example_pcallw_list = none := by
  cases fuel2 with
  | zero => rfl
  | succ n =>
    have h1 : _pcallw_check_state fuel1
        [example_removal_elem REMOVAL_TYPE_SECTION 3 0 REMOVAL_STATE_UNDEF none none,
          example_removal_elem REMOVAL_TYPE_PCALLW_STUB 0 5 REMOVAL_STATE_UNDEF none (some 0)] 1
        = none :=
      pcallw_check_state_stub_none fuel1 _ 1
        (example_removal_elem REMOVAL_TYPE_PCALLW_STUB 0 5 REMOVAL_STATE_UNDEF none (some 0))
        rfl rfl (by decide)
    simp only [_removal_process_list, example_pcallw_list, removal_loop]
    have h0 : removal_pass (_pcallw_check_state fuel1) (List.range 2) false
        [{ example_removal_elem REMOVAL_TYPE_SECTION 0 0 REMOVAL_STATE_UNDEF none none with
            flags := (example_removal_elem REMOVAL_TYPE_SECTION 0 0 REMOVAL_STATE_UNDEF none
              none).flags ||| REMOVAL_FLAG_FIRST },
          example_removal_elem REMOVAL_TYPE_PCALLW_STUB 0 5 REMOVAL_STATE_UNDEF none (some 0)]
        = none := by
      have hr : List.range 2 = [0, 1] := rfl
      rw [hr]
      unfold removal_pass
      simp only [List.getElem?_cons_zero]
      rw [if_pos (by decide)]
      have hc0 : _pcallw_check_state fuel1
          [{ example_removal_elem REMOVAL_TYPE_SECTION 0 0 REMOVAL_STATE_UNDEF none none with
              flags := (example_removal_elem REMOVAL_TYPE_SECTION 0 0 REMOVAL_STATE_UNDEF none
                none).flags ||| REMOVAL_FLAG_FIRST },
            example_removal_elem REMOVAL_TYPE_PCALLW_STUB 0 5 REMOVAL_STATE_UNDEF none (some 0)] 0
          = some (false,
            [example_removal_elem REMOVAL_TYPE_SECTION 3 0 REMOVAL_STATE_UNDEF none none,
              example_removal_elem REMOVAL_TYPE_PCALLW_STUB 0 5 REMOVAL_STATE_UNDEF none
                (some 0)]) := rfl
      rw [hc0]
      simp only []
      unfold removal_pass
      simp only [List.getElem?_cons_succ, List.getElem?_cons_zero]
      rw [if_pos (by decide), h1]
    simp only [List.length_cons, List.length_nil] at h0 ⊢
    rw [h0]

/-! ## The removal of the marked instructions -/

theorem removed_before_cons (t : removed_insn) (rest : List removed_insn) (a : Nat) :
    removed_before (t :: rest) a
      = (if t.address < a then t.length else 0) + removed_before rest a := by
  unfold removed_before
  by_cases c : t.address < a
  · simp [List.filter_cons, c]
  · simp [List.filter_cons, c]

theorem removed_before_zero (tg : List removed_insn) (a : Nat)
    (h : ∀ t ∈ tg, a ≤ t.address) : removed_before tg a = 0 := by
  induction tg with
  | nil => rfl
  | cons t rest ih =>
    rw [removed_before_cons, if_neg (by have := h t (List.mem_cons_self _ _); omega),
      ih (fun x hx => h x (List.mem_cons_of_mem _ hx))]

theorem removed_before_shift (l : Nat) (rest : List removed_insn) (a : Nat)
    (h : ∀ t ∈ rest, l ≤ t.address) (ha : l ≤ a) :
    removed_before (rest.map (shift_insn l)) (a - l) = removed_before rest a := by
  induction rest with
  | nil => rfl
  | cons t rest ih =>
    have ht := h t (List.mem_cons_self _ _)
    rw [List.map_cons, removed_before_cons, removed_before_cons,
      ih (fun x hx => h x (List.mem_cons_of_mem _ hx))]
    simp only [shift_insn]
    by_cases c : t.address < a
    · rw [if_pos c, if_pos (by omega)]
    · rw [if_neg c, if_neg (by omega)]

theorem removed_up_to_cons (isaddr : Nat) (t : removed_insn) (rest : List removed_insn)
    (x : Nat) :
    removed_up_to isaddr (t :: rest) x
      = (if isaddr + t.address + t.length ≤ x then t.length else 0)
        + removed_up_to isaddr rest x := by
  unfold removed_up_to
  by_cases c : isaddr + t.address + t.length ≤ x
  · simp [List.filter_cons, c]
  · simp [List.filter_cons, c]

theorem removed_up_to_zero (isaddr : Nat) (tg : List removed_insn) (x : Nat)
    (h : ∀ t ∈ tg, x < isaddr + t.address + t.length) : removed_up_to isaddr tg x = 0 := by
  induction tg with
  | nil => rfl
  | cons t rest ih =>
    rw [removed_up_to_cons, if_neg (by have := h t (List.mem_cons_self _ _); omega),
      ih (fun y hy => h y (List.mem_cons_of_mem _ hy))]

theorem removed_up_to_shift (isaddr l : Nat) (rest : List removed_insn) (x : Nat)
    (h : ∀ t ∈ rest, l ≤ t.address) :
    removed_up_to (isaddr + l) (rest.map (shift_insn l)) x = removed_up_to isaddr rest x := by
  induction rest with
  | nil => rfl
  | cons t rest ih =>
    have ht := h t (List.mem_cons_self _ _)
    rw [List.map_cons, removed_up_to_cons, removed_up_to_cons,
      ih (fun y hy => h y (List.mem_cons_of_mem _ hy))]
    simp only [shift_insn]
    have e : isaddr + l + (t.address - l) + t.length = isaddr + t.address + t.length := by omega
    rw [e]

theorem removed_up_to_insn_cons (R : removal_env) (isaddr : Nat) (t : removed_insn)
    (rest : List removed_insn) (v : Int) :
    removed_up_to_insn R isaddr (t :: rest) v
      = (if ((removal_insn_from_byte R (isaddr + t.address + t.length) : Nat) : Int) ≤ v
          then t.length else 0)
        + removed_up_to_insn R isaddr rest v := by
  unfold removed_up_to_insn
  by_cases c : ((removal_insn_from_byte R (isaddr + t.address + t.length) : Nat) : Int) ≤ v
  · simp [List.filter_cons, c]
  · simp [List.filter_cons, c]

theorem removed_up_to_insn_zero (R : removal_env) (isaddr : Nat) (tg : List removed_insn)
    (v : Int)
    (h : ∀ t ∈ tg, v < ((removal_insn_from_byte R (isaddr + t.address + t.length) : Nat) : Int)) :
    removed_up_to_insn R isaddr tg v = 0 := by
  induction tg with
  | nil => rfl
  | cons t rest ih =>
    rw [removed_up_to_insn_cons,
      if_neg (by have := h t (List.mem_cons_self _ _); omega),
      ih (fun y hy => h y (List.mem_cons_of_mem _ hy))]

theorem removed_up_to_insn_shift (R : removal_env) (isaddr l : Nat) (rest : List removed_insn)
    (v : Int) (h : ∀ t ∈ rest, l ≤ t.address) :
    removed_up_to_insn R (isaddr + l) (rest.map (shift_insn l)) v
      = removed_up_to_insn R isaddr rest v := by
  induction rest with
  | nil => simp [removed_up_to_insn]
  | cons t rest ih =>
    have ht := h t (List.mem_cons_self _ _)
    rw [List.map_cons, removed_up_to_insn_cons, removed_up_to_insn_cons,
      ih (fun y hy => h y (List.mem_cons_of_mem _ hy))]
    simp only [shift_insn]
    have e : isaddr + l + (t.address - l) + t.length = isaddr + t.address + t.length := by omega
    rw [e]

theorem total_removed_cons (t : removed_insn) (rest : List removed_insn) :
    total_removed (t :: rest) = t.length + total_removed rest := by
  simp [total_removed]

theorem total_removed_shift (l : Nat) (rest : List removed_insn) :
    total_removed (rest.map (shift_insn l)) = total_removed rest := by
  simp [total_removed, shift_insn, Function.comp_def]

/-- The conversion of a byte address below `2 ^ 31` to an instruction address. -/
theorem removal_insn_from_byte_eq (R : removal_env) (x : Nat) (hx : x < 2 ^ 31) :
    removal_insn_from_byte R x = x / 2 ^ R.class_.org_to_byte_shift := by
  unfold removal_insn_from_byte gp_processor_insn_from_byte_c to_int to_unsigned
  have h1 : x % 2 ^ 32 = x := Nat.mod_eq_of_lt (by omega)
  rw [h1, if_pos hx]
  have h2 : ((x : Int) / 2 ^ R.class_.org_to_byte_shift)
      = ((x / 2 ^ R.class_.org_to_byte_shift : Nat) : Int) := by
    push_cast
    rfl
  have h3 : x / 2 ^ R.class_.org_to_byte_shift < 2 ^ 32 := by
    have := Nat.div_le_self x (2 ^ R.class_.org_to_byte_shift)
    omega
  have h4 : ((x / 2 ^ R.class_.org_to_byte_shift : Nat) : Int) % 2 ^ 32
      = ((x / 2 ^ R.class_.org_to_byte_shift : Nat) : Int) := by
    apply Int.emod_eq_of_lt
    · exact Int.ofNat_nonneg _
    · exact_mod_cast h3
  rw [h2, h4, Int.toNat_ofNat]

theorem removal_insn_from_byte_mono (R : removal_env) (x y : Nat) (hxy : x ≤ y) (hy : y < 2 ^ 31) :
    removal_insn_from_byte R x ≤ removal_insn_from_byte R y := by
  rw [removal_insn_from_byte_eq R x (by omega), removal_insn_from_byte_eq R y hy]
  exact Nat.div_le_div_right hxy

/-- One turn of the loop on a relocation that stays, followed by the rest of the
loop, is the whole loop on it. -/
theorem final_reloc_step (t : removed_insn) (rest : List removed_insn) (r : update_reloc)
    (hr : r.address < 2 ^ 32) (hl : t.length < 2 ^ 32) (hpos : 0 < t.length)
    (h4 : r.address ≤ t.address ∨ t.address + t.length ≤ r.address)
    (hsorted : ∀ u ∈ rest, t.address + t.length ≤ u.address) :
    final_reloc (rest.map (shift_insn t.length)) (update_reloc_address t.address t.length r)
      = final_reloc (t :: rest) r := by
  unfold update_reloc_address
  rcases h4 with h | h
  · rw [if_neg (by omega)]
    unfold final_reloc
    rw [removed_before_cons, if_neg (by omega),
      removed_before_zero rest r.address (fun u hu => by have := hsorted u hu; omega),
      removed_before_zero (rest.map (shift_insn t.length)) r.address (fun u hu => by
        obtain ⟨u0, hu0, e⟩ := List.mem_map.1 hu
        have := hsorted u0 hu0
        rw [← e]
        simp only [shift_insn]
        omega)]
  · rw [if_pos (by omega)]
    unfold final_reloc
    simp only []
    have e1 : (r.address + 2 ^ 32 - t.length % 2 ^ 32) % 2 ^ 32 = r.address - t.length := by
      rw [Nat.mod_eq_of_lt hl]
      omega
    rw [e1, removed_before_cons, if_pos (by omega),
      removed_before_shift t.length rest r.address
        (fun u hu => by have := hsorted u hu; omega) (by omega)]
    congr 1
    omega

/-- The update of the line numbers in `_removal_update` is the identity for the
shift 0. -/
theorem removal_update_linenum_zero (Start End x : Nat) (hx : x < 2 ^ 32) :
    removal_update_linenum 0 Start End x = x := by
  unfold removal_update_linenum
  split
  · simp only [Nat.zero_mod, Nat.sub_zero]
    omega
  · rfl

/-- The line numbers after `_removal_update`. -/
theorem removal_update_linenums (R : removal_env) (o : update_object) (Shift Start End : Nat)
    (hx : ∀ x ∈ o.line_number_list, x < 2 ^ 32) :
    (_removal_update R o Shift Start End).line_number_list
      = o.line_number_list.map (removal_update_linenum Shift Start End) := by
  unfold _removal_update
  by_cases c : Shift = 0
  · rw [if_pos c, c]
    symm
    conv_rhs => rw [← List.map_id o.line_number_list]
    exact List.map_congr_left (fun x hxm => removal_update_linenum_zero Start End x (hx x hxm))
  · rw [if_neg c]

/-- One turn of the loop on a line number that stays, followed by the rest of the
loop, is the whole loop on it. -/
theorem final_linenum_step (inaddr csaddr Shift isaddr : Nat) (t : removed_insn)
    (rest : List removed_insn) (x : Nat) (hx : x < 2 ^ 32)
    (hS : Shift ≤ csaddr) (hc : csaddr ≤ isaddr + t.address)
    (hE : isaddr + t.address + t.length ≤ inaddr)
    (hsorted : ∀ u ∈ rest, t.address + t.length ≤ u.address) :
    final_linenum inaddr (isaddr + t.length + t.address) (Shift + t.length) (isaddr + t.length)
        (rest.map (shift_insn t.length))
        (removal_update_linenum Shift csaddr (isaddr + t.length + t.address) x)
      = final_linenum inaddr csaddr Shift isaddr (t :: rest) x := by
  have hshift := removed_up_to_shift isaddr t.length rest
  unfold removal_update_linenum final_linenum
  by_cases c1 : csaddr ≤ x ∧ x < isaddr + t.length + t.address
  · rw [if_pos c1]
    have e1 : (x + 2 ^ 32 - Shift % 2 ^ 32) % 2 ^ 32 = x - Shift := by
      omega
    rw [e1, if_neg (by omega), if_pos (by omega),
      removed_up_to_zero isaddr (t :: rest) x (fun u hu => by
        rcases List.mem_cons.1 hu with e | hu
        · rw [e]; omega
        · have := hsorted u hu; omega)]
    omega
  · rw [if_neg c1]
    by_cases c2 : isaddr + t.length + t.address ≤ x ∧ x < inaddr
    · rw [if_pos c2, if_pos (by omega), removed_up_to_cons, if_pos (by omega),
        hshift x (fun u hu => by have := hsorted u hu; omega)]
      omega
    · rw [if_neg c2]
      by_cases c3 : csaddr ≤ x ∧ x < inaddr
      · omega
      · rw [if_neg c3]

/-- The symbols after `_removal_update`. -/
theorem removal_update_symbols (R : removal_env) (o : update_object) (Shift Start End : Nat) :
    (_removal_update R o Shift Start End).symbol_list
      = o.symbol_list.map (fun s =>
          if Shift = 0 then s
          else removal_update_symbol (removal_insn_from_byte R Shift)
            (removal_insn_from_byte R Start) (removal_insn_from_byte R End) s) := by
  unfold _removal_update
  by_cases c : Shift = 0
  · rw [if_pos c]
    simp [c]
  · rw [if_neg c]
    simp [c]

/-- One turn of the loop on a symbol, followed by the rest of the loop, is the
whole loop on it. -/
theorem final_symbol_step (R : removal_env) (inaddr csaddr Shift isaddr : Nat) (t : removed_insn)
    (rest : List removed_insn) (s : update_symbol)
    (hc : csaddr ≤ isaddr + t.address)
    (hE : isaddr + t.address + t.length ≤ inaddr) (hin : inaddr < 2 ^ 31)
    (hsorted : ∀ u ∈ rest, t.address + t.length ≤ u.address)
    (hends : ∀ u ∈ rest, isaddr + u.address + u.length ≤ inaddr) :
    final_symbol R inaddr (isaddr + t.length + t.address) (Shift + t.length) (isaddr + t.length)
        (rest.map (shift_insn t.length))
        (if Shift = 0 then s
         else removal_update_symbol (removal_insn_from_byte R Shift)
          (removal_insn_from_byte R csaddr)
          (removal_insn_from_byte R (isaddr + t.length + t.address)) s)
      = final_symbol R inaddr csaddr Shift isaddr (t :: rest) s := by
  have hshift := removed_up_to_insn_shift R isaddr t.length rest s.value
    (fun u hu => by have := hsorted u hu; omega)
  have hm1 := removal_insn_from_byte_mono R csaddr (isaddr + t.length + t.address) (by omega)
    (by omega)
  have hm2 := removal_insn_from_byte_mono R (isaddr + t.length + t.address) inaddr (by omega) hin
  have hzero : s.value < ((removal_insn_from_byte R (isaddr + t.length + t.address) : Nat) : Int)
      → removed_up_to_insn R isaddr (t :: rest) s.value = 0 := by
    intro hv
    apply removed_up_to_insn_zero
    intro u hu
    rcases List.mem_cons.1 hu with e | hu
    · rw [e]
      have e2 : isaddr + t.address + t.length = isaddr + t.length + t.address := by omega
      rw [e2]
      exact hv
    · have h1 := hsorted u hu
      have h2 := hends u hu
      have := removal_insn_from_byte_mono R (isaddr + t.length + t.address)
        (isaddr + u.address + u.length) (by omega) (by omega)
      omega
  have e2 : isaddr + t.address + t.length = isaddr + t.length + t.address := by omega
  by_cases cv : s.valid = true
  · by_cases c1 : ((removal_insn_from_byte R csaddr : Nat) : Int) ≤ s.value
        ∧ s.value < ((removal_insn_from_byte R (isaddr + t.length + t.address) : Nat) : Int)
    · have hz := hzero c1.2
      by_cases c0 : Shift = 0
      · rw [if_pos c0]
        unfold final_symbol
        rw [if_neg (by omega), if_neg (by rw [hz]; omega)]
      · rw [if_neg c0]
        unfold removal_update_symbol
        rw [if_pos ⟨cv, c1⟩]
        unfold final_symbol
        rw [if_neg (by simp), if_pos ⟨cv, c1.1, by omega, by rw [hz]; omega⟩, hz]
        simp
    · have hupd : (if Shift = 0 then s
          else removal_update_symbol (removal_insn_from_byte R Shift)
            (removal_insn_from_byte R csaddr)
            (removal_insn_from_byte R (isaddr + t.length + t.address)) s) = s := by
        by_cases c0 : Shift = 0
        · rw [if_pos c0]
        · rw [if_neg c0]
          unfold removal_update_symbol
          rw [if_neg (fun hcon => c1 hcon.2)]
      rw [hupd]
      unfold final_symbol
      rw [hshift]
      by_cases c2 : ((removal_insn_from_byte R (isaddr + t.length + t.address) : Nat) : Int)
          ≤ s.value
      · rw [removed_up_to_insn_cons, e2, if_pos c2]
        have e3 : Shift + t.length + removed_up_to_insn R isaddr rest s.value
            = Shift + (t.length + removed_up_to_insn R isaddr rest s.value) := by omega
        rw [e3]
        by_cases c3 : s.value < ((removal_insn_from_byte R inaddr : Nat) : Int)
            ∧ Shift + (t.length + removed_up_to_insn R isaddr rest s.value) ≠ 0
        · rw [if_pos ⟨cv, c2, c3⟩, if_pos ⟨cv, by omega, c3⟩]
        · rw [if_neg (fun hcon => c3 hcon.2.2), if_neg (fun hcon => c3 hcon.2.2)]
      · rw [if_neg (fun hcon => c2 hcon.2.1), if_neg (fun hcon => by
          have : ¬ ((removal_insn_from_byte R csaddr : Nat) : Int) ≤ s.value := by
            intro h1
            exact c1 ⟨h1, by omega⟩
          exact this hcon.2.1)]
  · have hupd : (if Shift = 0 then s
        else removal_update_symbol (removal_insn_from_byte R Shift)
          (removal_insn_from_byte R csaddr)
          (removal_insn_from_byte R (isaddr + t.length + t.address)) s) = s := by
      by_cases c0 : Shift = 0
      · rw [if_pos c0]
      · rw [if_neg c0]
        unfold removal_update_symbol
        rw [if_neg (fun hcon => cv hcon.1)]
    rw [hupd]
    unfold final_symbol
    rw [if_neg (fun hcon => cv hcon.1), if_neg (fun hcon => cv hcon.1)]

theorem reloc_address_of_mem (relocs : List update_reloc) (p a : Nat)
    (hnd : (relocs.map (fun r => r.ptr)).Nodup) (hm : (⟨p, a⟩ : update_reloc) ∈ relocs) :
    reloc_address relocs p = some a := by
  induction relocs with
  | nil => cases hm
  | cons r rest ih =>
    rw [List.map_cons, List.nodup_cons] at hnd
    unfold reloc_address
    rw [List.find?_cons]
    by_cases c : r.ptr = p
    · simp only [c, decide_True, Option.map_some']
      rcases List.mem_cons.1 hm with e | hm
      · rw [← e]
      · exfalso
        apply hnd.1
        rw [c]
        exact List.mem_map.2 ⟨⟨p, a⟩, hm, rfl⟩
    · simp only [c, decide_False]
      rcases List.mem_cons.1 hm with e | hm
      · exfalso
        apply c
        rw [← e]
      · exact ih hnd.2 hm

theorem reloc_ptr_inj (relocs : List update_reloc) (p a b : Nat)
    (hnd : (relocs.map (fun r => r.ptr)).Nodup) (ha : (⟨p, a⟩ : update_reloc) ∈ relocs)
    (hb : (⟨p, b⟩ : update_reloc) ∈ relocs) : a = b := by
  have h1 := reloc_address_of_mem relocs p a hnd ha
  have h2 := reloc_address_of_mem relocs p b hnd hb
  rw [h1] at h2
  exact Option.some.inj h2

theorem update_reloc_address_ptr (cur l : Nat) (r : update_reloc) :
    (update_reloc_address cur l r).ptr = r.ptr := by
  unfold update_reloc_address
  split <;> rfl

theorem update_reloc_address_lt (cur l : Nat) (r : update_reloc) (h : r.address < 2 ^ 32) :
    (update_reloc_address cur l r).address < 2 ^ 32 := by
  unfold update_reloc_address
  split
  · exact Nat.mod_lt _ (by decide)
  · exact h

theorem removal_update_linenum_lt (Shift Start End x : Nat) (h : x < 2 ^ 32) :
    removal_update_linenum Shift Start End x < 2 ^ 32 := by
  unfold removal_update_linenum
  split
  · exact Nat.mod_lt _ (by decide)
  · exact h

/-- The conditions `update_wf` hold again after one turn of the loop. -/
theorem update_wf_step (inaddr : Nat) (t : removed_insn) (rest : List removed_insn)
    (o o3 : update_object) (isaddr csaddr Shift : Nat)
    (keep : Nat → Bool) (End : Nat)
    (h : update_wf inaddr (t :: rest) o isaddr csaddr Shift)
    (hrel : o3.relocation_list = (o.relocation_list.map
      (update_reloc_address t.address t.length)).filter (fun r => decide (r.ptr ≠ t.ptr)))
    (hlin : o3.line_number_list = (o.line_number_list.filter keep).map
      (removal_update_linenum Shift csaddr End))
    (hsize : o3.size = o.size - t.length) :
    update_wf inaddr (rest.map (shift_insn t.length)) o3 (isaddr + t.length)
      (isaddr + t.length + t.address) (Shift + t.length) := by
  obtain ⟨h1, h2, h3, h4, h5, h6, h7, h8, h9, h10, h11, h12, h13, h14, h15⟩ := h
  have ht := List.mem_cons_self t rest
  rw [List.pairwise_cons] at h3
  have hsorted := h3.1
  have hl := h4 t ht
  refine ⟨?_, ?_, ?_, ?_, ?_, ?_, ?_, ?_, ?_, ?_, ?_, ?_, h13, ?_, ?_⟩
  · rw [hrel]
    refine List.Nodup.sublist (List.Sublist.map _ (List.filter_sublist _)) ?_
    rw [List.map_map]
    have e : ((fun r => r.ptr) ∘ update_reloc_address t.address t.length)
        = (fun r : update_reloc => r.ptr) := by
      funext r
      exact update_reloc_address_ptr _ _ r
    rw [e]
    exact h1
  · intro u' hu'
    obtain ⟨u, hu, e⟩ := List.mem_map.1 hu'
    rw [← e, hrel]
    have hum := h2 u (List.mem_cons_of_mem _ hu)
    have hs := hsorted u hu
    have hb := h6 _ hum
    simp only [] at hb
    rw [List.mem_filter]
    constructor
    · refine List.mem_map.2 ⟨⟨u.ptr, u.address⟩, hum, ?_⟩
      unfold update_reloc_address
      simp only [shift_insn]
      rw [if_pos (by omega)]
      congr 1
      omega
    · simp only [shift_insn, ne_eq, decide_eq_true_eq]
      intro hp
      rw [hp] at hum
      have := reloc_ptr_inj _ _ _ _ h1 hum (h2 t ht)
      omega
  · rw [List.pairwise_map]
    refine List.Pairwise.imp_of_mem ?_ h3.2
    intro a b ha hb hab
    have := hsorted a ha
    have := hsorted b hb
    simp only [shift_insn]
    omega
  · intro u' hu'
    obtain ⟨u, hu, e⟩ := List.mem_map.1 hu'
    rw [← e]
    exact h4 u (List.mem_cons_of_mem _ hu)
  · intro r' hr' u' hu'
    rw [hrel, List.mem_filter] at hr'
    obtain ⟨r, hr, e⟩ := List.mem_map.1 hr'.1
    obtain ⟨u, hu, e2⟩ := List.mem_map.1 hu'
    rw [← e, ← e2]
    have a1 := h5 r hr t ht
    have a2 := h5 r hr u (List.mem_cons_of_mem _ hu)
    have a3 := hsorted u hu
    have a4 := h6 r hr
    unfold update_reloc_address
    simp only [shift_insn]
    split
    · simp only []
      omega
    · omega
  · intro r' hr'
    rw [hrel, List.mem_filter] at hr'
    obtain ⟨r, hr, e⟩ := List.mem_map.1 hr'.1
    rw [← e]
    exact update_reloc_address_lt _ _ r (h6 r hr)
  · intro x' hx'
    rw [hlin] at hx'
    obtain ⟨x, hx, e⟩ := List.mem_map.1 hx'
    rw [← e]
    exact removal_update_linenum_lt _ _ _ x (h7 x (List.mem_of_mem_filter hx))
  · omega
  · intro u' hu'
    obtain ⟨u, hu, e⟩ := List.mem_map.1 hu'
    rw [← e]
    have := hsorted u hu
    simp only [shift_insn]
    omega
  · omega
  · intro u' hu'
    obtain ⟨u, hu, e⟩ := List.mem_map.1 hu'
    rw [← e]
    have := hsorted u hu
    have := h11 u (List.mem_cons_of_mem _ hu)
    simp only [shift_insn]
    omega
  · have := h11 t ht
    omega
  · rw [total_removed_shift, hsize]
    rw [total_removed_cons] at h14
    omega
  · rw [hsize]
    omega

theorem removal_update_fields (R : removal_env) (o : update_object) (Shift Start End : Nat) :
    (_removal_update R o Shift Start End).size = o.size ∧
    (_removal_update R o Shift Start End).address = o.address ∧
    (_removal_update R o Shift Start End).shadow_address = o.shadow_address ∧
    (_removal_update R o Shift Start End).relocation_list = o.relocation_list := by
  unfold _removal_update
  split <;> exact ⟨rfl, rfl, rfl, rfl⟩

theorem final_reloc_nil (r : update_reloc) : final_reloc [] r = r := by
  cases r
  simp [final_reloc, removed_before]

/-- One turn of the loop of `_removal_update_section` under the conditions
`update_wf`. -/
theorem update_section_turn_spec (R : removal_env) (E : update_calls) (inaddr : Nat)
    (t : removed_insn) (rest : List removed_insn) (e : _removal_t) (o : update_object)
    (isaddr csaddr Shift : Nat) (res : update_object × Nat × Nat × Nat)
    (he1 : e.relocation = some t.ptr) (he2 : e.length = t.length)
    (hwf : update_wf inaddr (t :: rest) o isaddr csaddr Shift)
    (h : update_section_turn R E e o isaddr csaddr Shift = some res) :
    res.2.1 = isaddr + t.length ∧ res.2.2.1 = isaddr + t.length + t.address ∧
    res.2.2.2 = Shift + t.length ∧
    res.1.size = o.size - t.length ∧ res.1.address = o.address ∧
    res.1.shadow_address = o.shadow_address ∧
    res.1.relocation_list = (o.relocation_list.map
      (update_reloc_address t.address t.length)).filter (fun r => decide (r.ptr ≠ t.ptr)) ∧
    (∃ keep : Nat → Bool, res.1.line_number_list = (o.line_number_list.filter keep).map
      (removal_update_linenum Shift csaddr (isaddr + t.length + t.address))) ∧
    res.1.symbol_list = o.symbol_list.map (fun s =>
      if Shift = 0 then s
      else removal_update_symbol (removal_insn_from_byte R Shift)
        (removal_insn_from_byte R csaddr)
        (removal_insn_from_byte R (isaddr + t.length + t.address)) s) := by
  obtain ⟨h1, h2, h3, h4, h5, h6, h7, h8, h9, h10, h11, h12, h13, h14, h15⟩ := hwf
  have ht := List.mem_cons_self t rest
  have hl := h4 t ht
  have hE := h11 t ht
  rw [total_removed_cons] at h14
  have hra : e.relocation.bind (reloc_address o.relocation_list) = some t.address := by
    rw [he1]
    exact reloc_address_of_mem _ _ _ h1 (h2 t ht)
  unfold update_section_turn at h
  rw [hra] at h
  simp only [Nat.reducePow] at h h15 h13 h6 h7
  cases hd : o.data ((o.address + t.address) % 4294967296) with
  | none => simp [hd] at h
  | some w =>
    simp only [hd, Option.some.injEq] at h
    subst h
    have e1 : (isaddr + t.length) % 4294967296 = isaddr + t.length :=
      Nat.mod_eq_of_lt (by omega)
    have e2 : (isaddr + t.length + t.address) % 4294967296 = isaddr + t.length + t.address :=
      Nat.mod_eq_of_lt (by omega)
    have e3 : (Shift + t.length) % 4294967296 = Shift + t.length := Nat.mod_eq_of_lt (by omega)
    have e4 : (o.size + 4294967296 - t.length % 4294967296) % 4294967296 = o.size - t.length := by
      omega
    simp only [he2, e1, e2, e3]
    refine ⟨trivial, trivial, trivial, ?_, ?_, ?_, ?_, ?_, ?_⟩
    · rw [(removal_update_fields R _ _ _ _).1]
      exact e4
    · rw [(removal_update_fields R _ _ _ _).2.1]
    · rw [(removal_update_fields R _ _ _ _).2.2.1]
    · rw [(removal_update_fields R _ _ _ _).2.2.2, he1]
      simp
    · exact ⟨_, removal_update_linenums R _ _ _ _ (fun x hx => by
        have := h7 x (List.mem_of_mem_filter hx)
        simp only [Nat.reducePow]
        exact this)⟩
    · rw [removal_update_symbols]

/-- The loop of `_removal_update_section` and the call of `_removal_update` after
it: the value of `Shift`, the size and the address of the section, the
relocations, the line numbers and the symbols at the end. -/
theorem update_section_loop_spec (R : removal_env) (E : update_calls) (inaddr : Nat) :
    ∀ (tg : List removed_insn) (targets : List _removal_t) (o : update_object)
      (isaddr csaddr Shift : Nat) (res : update_object × Nat),
      targets.map (fun e => (e.relocation, e.length))
        = tg.map (fun t => (some t.ptr, t.length)) →
      update_wf inaddr tg o isaddr csaddr Shift →
      update_section_loop R E inaddr targets o isaddr csaddr Shift = some res →
      res.2 = Shift + total_removed tg ∧ res.1.size = o.size - total_removed tg ∧
      res.1.address = o.address ∧ res.1.shadow_address = o.shadow_address ∧
      res.1.relocation_list
        = (o.relocation_list.filter
            (fun r => decide (r.ptr ∉ tg.map (fun t => t.ptr)))).map (final_reloc tg) ∧
      (∃ kept : List Nat, kept.Sublist o.line_number_list ∧
        res.1.line_number_list = kept.map (final_linenum inaddr csaddr Shift isaddr tg)) ∧
      res.1.symbol_list = o.symbol_list.map (final_symbol R inaddr csaddr Shift isaddr tg) := by
  intro tg targets
  induction targets generalizing tg with
  | nil =>
    intro o isaddr csaddr Shift res hlink hwf h
    obtain ⟨h1, h2, h3, h4, h5, h6, h7, h8, h9, h10, h11, h12, h13, h14, h15⟩ := hwf
    have htg : tg = [] := by
      cases tg with
      | nil => rfl
      | cons t rest => simp at hlink
    subst htg
    simp only [update_section_loop, Option.some.injEq] at h
    subst h
    obtain ⟨f1, f2, f3, f4⟩ := removal_update_fields R o Shift csaddr inaddr
    refine ⟨by simp [total_removed], by simp [total_removed, f1], f2, f3, ?_, ?_, ?_⟩
    · simp only [f4, List.map_nil, List.not_mem_nil, not_false_eq_true, decide_True,
        List.filter_true]
      symm
      conv_rhs => rw [← List.map_id o.relocation_list]
      exact List.map_congr_left (fun r _ => final_reloc_nil r)
    · refine ⟨o.line_number_list, List.Sublist.refl _, ?_⟩
      simp only []
      rw [removal_update_linenums R o Shift csaddr inaddr h7]
      apply List.map_congr_left
      intro x hx
      have hxb := h7 x hx
      unfold removal_update_linenum final_linenum
      split
      · simp only [removed_up_to, List.filter_nil, List.map_nil, List.sum_nil, Nat.add_zero]
        omega
      · rfl
    · simp only []
      rw [removal_update_symbols]
      apply List.map_congr_left
      intro s _
      unfold final_symbol removal_update_symbol
      simp only [removed_up_to_insn, List.filter_nil, List.map_nil, List.sum_nil, Nat.add_zero]
      by_cases c0 : Shift = 0
      · rw [if_pos c0, if_neg (fun hcon => hcon.2.2.2 c0)]
      · rw [if_neg c0]
        by_cases c : s.valid = true ∧ ((removal_insn_from_byte R csaddr : Nat) : Int) ≤ s.value
            ∧ s.value < ((removal_insn_from_byte R inaddr : Nat) : Int)
        · rw [if_pos c, if_pos ⟨c.1, c.2.1, c.2.2, c0⟩]
        · rw [if_neg c, if_neg (fun hcon => c ⟨hcon.1, hcon.2.1, hcon.2.2.1⟩)]
  | cons e erest ih =>
    intro o isaddr csaddr Shift res hlink hwf h
    cases tg with
    | nil => simp at hlink
    | cons t rest =>
      have hwf0 := hwf
      obtain ⟨h1, h2, h3, h4, h5, h6, h7, h8, h9, h10, h11, h12, h13, h14, h15⟩ := hwf
      have ht := List.mem_cons_self t rest
      have hsorted := (List.pairwise_cons.1 h3).1
      have hl := h4 t ht
      have hE := h11 t ht
      have hc := h9 t ht
      simp only [List.map_cons, List.cons.injEq, Prod.mk.injEq] at hlink
      obtain ⟨⟨he1, he2⟩, hlink2⟩ := hlink
      unfold update_section_loop at h
      cases hturn : update_section_turn R E e o isaddr csaddr Shift with
      | none => simp [hturn] at h
      | some r0 =>
        obtain ⟨o3, isaddr1, csaddr1, Shift1⟩ := r0
        simp only [hturn] at h
        obtain ⟨q1, q2, q3, q4, q5, q6, q7, ⟨keep, q8⟩, q9⟩ :=
          update_section_turn_spec R E inaddr t rest e o isaddr csaddr Shift _ he1 he2 hwf0 hturn
        simp only [] at q1 q2 q3 q4 q5 q6 q7 q8 q9
        subst q1 q2 q3
        have hlink3 : erest.map (fun e => (e.relocation, e.length))
            = (rest.map (shift_insn t.length)).map (fun t => (some t.ptr, t.length)) := by
          rw [hlink2, List.map_map]
          rfl
        have hwf3 := update_wf_step inaddr t rest o o3 isaddr csaddr Shift keep
          (isaddr + t.length + t.address) hwf0 q7 q8 q4
        obtain ⟨r1, r2, r3, r4, r5, ⟨kept1, hk1, r6⟩, r7⟩ :=
          ih (rest.map (shift_insn t.length)) _ _ _ _ res hlink3 hwf3 h
        rw [total_removed_cons] at h14
        refine ⟨?_, ?_, by rw [r3, q5], by rw [r4, q6], ?_, ?_, ?_⟩
        · rw [r1, total_removed_shift, total_removed_cons]
          omega
        · rw [r2, q4, total_removed_shift, total_removed_cons]
          omega
        · rw [r5, q7, List.filter_filter, List.filter_map, List.map_map]
          have hq : ∀ r ∈ o.relocation_list,
              ((fun r : update_reloc =>
                  decide (r.ptr ∉ (rest.map (shift_insn t.length)).map (fun t => t.ptr))
                    && decide (r.ptr ≠ t.ptr))
                ∘ update_reloc_address t.address t.length) r
              = decide (r.ptr ∉ (t :: rest).map (fun t => t.ptr)) := by
            intro r _
            simp only [Function.comp, update_reloc_address_ptr, List.map_map, List.map_cons,
              List.mem_cons, not_or]
            have e : ((fun t : removed_insn => t.ptr) ∘ shift_insn t.length)
                = (fun t : removed_insn => t.ptr) := by
              funext u
              rfl
            rw [e]
            by_cases c1 : r.ptr = t.ptr <;>
              by_cases c2 : r.ptr ∈ rest.map (fun t => t.ptr) <;> simp [c1, c2]
          rw [List.filter_congr hq]
          apply List.map_congr_left
          intro r hr
          have hrm := List.mem_of_mem_filter hr
          exact final_reloc_step t rest r (h6 r hrm) (by omega) hl (h5 r hrm t ht) hsorted
        · rw [q8] at hk1
          obtain ⟨k0, hk0, ek⟩ := List.sublist_map_iff.1 hk1
          refine ⟨k0, hk0.trans (List.filter_sublist _), ?_⟩
          rw [r6, ek, List.map_map]
          apply List.map_congr_left
          intro x hx
          have hxm : x ∈ o.line_number_list := List.mem_of_mem_filter (hk0.subset hx)
          exact final_linenum_step inaddr csaddr Shift isaddr t rest x (h7 x hxm) h10 hc hE
            hsorted
        · rw [r7, q9, List.map_map]
          apply List.map_congr_left
          intro s _
          exact final_symbol_step R inaddr csaddr Shift isaddr t rest s hc hE h13 hsorted
            (fun u hu => h11 u (List.mem_cons_of_mem _ hu))

theorem update_wf_congr (inaddr : Nat) (tg : List removed_insn) (o o1 : update_object)
    (isaddr csaddr Shift : Nat)
    (hr : o1.relocation_list = o.relocation_list) (hl : o1.line_number_list = o.line_number_list)
    (hs : o1.size = o.size) (h : update_wf inaddr tg o isaddr csaddr Shift) :
    update_wf inaddr tg o1 isaddr csaddr Shift := by
  unfold update_wf at h ⊢
  rw [hr, hl, hs]
  exact h

/-- C26: when `_removal_update_section` returns, for a section that it moves down
by `s` bytes (the value of `Shift` after the page check) and from which it
removes the instructions `tg`, in the order of their addresses: the value
returned is `s` plus the total length `b` of the instructions, the size of the
section is decreased by `b` and its address by `s`; the relocations of the
instructions are gone, and the address of every other relocation is decreased
by the total length of the instructions removed before it; every line number
that `gp_coffgen_del_linenum_by_address_area` has left and that lies in the
section has its address decreased by `s` plus the total length of the
instructions removed that end at or before it; and every symbol marked valid
with a value in the section has its value decreased by that number of bytes
in instructions, once, and loses the mark. -/
theorem removal_update_section_shifts (R : removal_env) (E : update_calls)
    (L : List _removal_t) (Ptr : Nat) (first : _removal_t) (o : update_object)
    (Shift Byte_count Insn_count : Nat) (targets : List _removal_t) (tg : List removed_insn)
    (res : update_object × Nat)
    (hfirst : L[Ptr]? = some first)
    (htargets : removal_targets L first.section_ Insn_count Ptr = some targets)
    (hlink : targets.map (fun e => (e.relocation, e.length))
      = tg.map (fun t => (some t.ptr, t.length)))
    (hwf : update_wf (o.address + o.size) tg o o.address o.address
      (update_section_shift R o Shift Byte_count))
    (h : _removal_update_section R E L Ptr o Shift Byte_count Insn_count = some res) :
    res.2 = update_section_shift R o Shift Byte_count + total_removed tg ∧
    res.1.size = o.size - total_removed tg ∧
    res.1.address = o.address - update_section_shift R o Shift Byte_count ∧
    res.1.relocation_list
      = (o.relocation_list.filter
          (fun r => decide (r.ptr ∉ tg.map (fun t => t.ptr)))).map (final_reloc tg) ∧
    (∃ kept : List Nat, kept.Sublist o.line_number_list ∧
      res.1.line_number_list = kept.map (final_linenum (o.address + o.size) o.address
        (update_section_shift R o Shift Byte_count) o.address tg)) ∧
    res.1.symbol_list = o.symbol_list.map (final_symbol R (o.address + o.size) o.address
      (update_section_shift R o Shift Byte_count) o.address tg) := by
  have hw := hwf
  obtain ⟨h1, h2, h3, h4, h5, h6, h7, h8, h9, h10, h11, h12, h13, h14, h15⟩ := hw
  unfold _removal_update_section at h
  simp only [hfirst, htargets] at h
  have ea : o.address % 2 ^ 32 = o.address := Nat.mod_eq_of_lt (by omega)
  have ei : (o.address + o.size) % 2 ^ 32 = o.address + o.size := Nat.mod_eq_of_lt (by omega)
  rw [ea, ei] at h
  by_cases c : update_section_shift R o Shift Byte_count = 0
  · rw [if_neg (by simp [c])] at h
    obtain ⟨r1, r2, r3, -, r5, r6, r7⟩ :=
      update_section_loop_spec R E _ tg targets o _ _ _ res hlink hwf h
    exact ⟨r1, r2, by rw [r3, c]; rfl, r5, r6, r7⟩
  · rw [if_pos c] at h
    have key := fun hw1 => update_section_loop_spec R E _ tg targets _ _ _ _ res hlink hw1 h
    obtain ⟨r1, r2, r3, -, r5, r6, r7⟩ :=
      key (update_wf_congr _ tg o _ _ _ _ rfl rfl rfl hwf)
    have r3a : res.1.address
        = (o.address + 2 ^ 32 - update_section_shift R o Shift Byte_count) % 2 ^ 32 := r3
    refine ⟨r1, r2, ?_, r5, r6, r7⟩
    rw [r3a]
    omega

theorem example_update_wf :
    update_wf (example_update_object.address + example_update_object.size) example_removed
      example_update_object example_update_object.address example_update_object.address
      (update_section_shift example_removal_env example_update_object 2 4) := by
  have hs : update_section_shift example_removal_env example_update_object 2 4 = 2 := rfl
  rw [hs]
  unfold update_wf
  refine ⟨by decide, by decide, by decide, by decide, by decide, by decide, by decide,
    by decide, by decide, by decide, by decide, by decide, by decide, by decide, by decide⟩

/-- C26 on the example: the section at the byte address 16 is moved down by 2
bytes and loses its two page selections. -/
theorem removal_update_section_shifts_witness :
    _removal_update_section example_removal_env example_update_calls example_update_list 0
      example_update_object 2 4 2 = some (example_update_final, 6) ∧
    ((example_update_final, 6).2
        = update_section_shift example_removal_env example_update_object 2 4
          + total_removed example_removed ∧
      (example_update_final, 6).1.size
        = example_update_object.size - total_removed example_removed ∧
      (example_update_final, 6).1.address = example_update_object.address
        - update_section_shift example_removal_env example_update_object 2 4 ∧
      (example_update_final, 6).1.relocation_list
        = (example_update_object.relocation_list.filter
            (fun r => decide (r.ptr ∉ example_removed.map (fun t => t.ptr)))).map
              (final_reloc example_removed) ∧
      (∃ kept : List Nat, kept.Sublist example_update_object.line_number_list ∧
        (example_update_final, 6).1.line_number_list
          = kept.map (final_linenum
              (example_update_object.address + example_update_object.size)
              example_update_object.address
              (update_section_shift example_removal_env example_update_object 2 4)
              example_update_object.address example_removed)) ∧
      (example_update_final, 6).1.symbol_list
        = example_update_object.symbol_list.map (final_symbol example_removal_env
            (example_update_object.address + example_update_object.size)
            example_update_object.address
            (update_section_shift example_removal_env example_update_object 2 4)
            example_update_object.address example_removed)) :=
  ⟨rfl,
    removal_update_section_shifts example_removal_env example_update_calls example_update_list 0
      (example_removal_elem REMOVAL_TYPE_SECTION 9 8 1 none none) example_update_object 2 4 2
      [example_removal_elem REMOVAL_TYPE_PAGESEL 4 8 1 (some 0) (some 0),
        example_removal_elem REMOVAL_TYPE_PAGESEL 4 10 1 (some 0) (some 2)]
      example_removed (example_update_final, 6) rfl rfl rfl example_update_wf rfl⟩

/-! ## The byte store: the frame of a write -/

/-- C36: for 32-bit addresses `a ≠ b`, `b_memory_put` at `a` and `b_memory_clear` at
`a` leave what `b_memory_get` gives at `b` (result, byte, section name, symbol
name) and `b_memory_is_used` at `b` unchanged; and a call of
`b_memory_set_listed` that returns changes the result of `b_memory_get` and of
`b_memory_is_used` at no address. -/
theorem byte_store_frame (m : Memory) (a b : Nat) (ha : a < 2 ^ 32) (hb : b < 2 ^ 32)
    (hne : a ≠ b) :
    (∀ (v : Nat) (s y : Option String),
      b_memory_get (b_memory_put m a v s y) b = b_memory_get m b ∧
      b_memory_is_used (b_memory_put m a v s y) b = b_memory_is_used m b) ∧
    (b_memory_get (b_memory_clear m a) b = b_memory_get m b ∧
      b_memory_is_used (b_memory_clear m a) b = b_memory_is_used m b) ∧
    (∀ (n_bytes : Nat) (m1 : Memory) (x : Nat), b_memory_set_listed m a n_bytes = some m1 →
      b_memory_get m1 x = b_memory_get m x ∧ b_memory_is_used m1 x = b_memory_is_used m x) := by
  have hcell : ¬ (block_base b = block_base a ∧ block_offset b = block_offset a) :=
    fun hc => hne (same_cell_eq hb ha hc.1 hc.2).symm
  refine ⟨?_, ?_, ?_⟩
  · intro v s y
    rw [b_memory_get_eq, b_memory_get_eq, b_memory_is_used_eq, b_memory_is_used_eq,
      find_word_put, if_neg hcell]
    exact ⟨rfl, rfl⟩
  · rw [b_memory_get_eq, b_memory_get_eq, b_memory_is_used_eq, b_memory_is_used_eq,
      find_word_clear, if_neg hcell]
    exact ⟨rfl, rfl⟩
  · intro n_bytes m1 x h
    have hr := b_memory_set_listed_reads h x
    rw [b_memory_get_eq, b_memory_get_eq, b_memory_is_used_eq, b_memory_is_used_eq, hr]
    refine ⟨rfl, ?_⟩
    have := congrArg GetResult.ret hr
    simpa [get_of_word] using this

/-- C36 at the addresses `0x10` and `0x20011` of a memory with one byte written:
the write, the clear and the listing at `0x10` leave the reading at `0x20011`. -/
theorem byte_store_frame_witness :
    (∀ (v : Nat) (s y : Option String),
      b_memory_get (b_memory_put example_config_memory 0x10 v s y) 0x20011
        = b_memory_get example_config_memory 0x20011 ∧
      b_memory_is_used (b_memory_put example_config_memory 0x10 v s y) 0x20011
        = b_memory_is_used example_config_memory 0x20011) ∧
    (b_memory_get (b_memory_clear example_config_memory 0x10) 0x20011
        = b_memory_get example_config_memory 0x20011 ∧
      b_memory_is_used (b_memory_clear example_config_memory 0x10) 0x20011
        = b_memory_is_used example_config_memory 0x20011) ∧
    (∀ (n_bytes : Nat) (m1 : Memory) (x : Nat),
      b_memory_set_listed example_config_memory 0x10 n_bytes = some m1 →
      b_memory_get m1 x = b_memory_get example_config_memory x ∧
      b_memory_is_used m1 x = b_memory_is_used example_config_memory x) :=
  byte_store_frame example_config_memory 0x10 0x20011 (by norm_num) (by norm_num) (by norm_num)

/-! ## The byte store: the list of blocks -/

theorem put_loop_bases {a v : Nat} {s y : Option String} {l l1 : List MemBlock}
    (h : b_memory_put_loop a v s y l = some l1) :
    l1.map (fun x => x.base) = l.map (fun x => x.base) := by
  induction l generalizing l1 with
  | nil => simp [b_memory_put_loop] at h
  | cons m next ih =>
    unfold b_memory_put_loop at h
    by_cases hm : block_base a = m.base
    · simp only [hm, if_true, Option.some.injEq] at h
      subst h
      rfl
    · simp only [hm, if_false, Option.map_eq_some'] at h
      obtain ⟨l2, h2, rfl⟩ := h
      simp only [List.map_cons, ih h2]

theorem mem_new_loop (mbp : MemBlock) (l : List MemBlock) (x : MemBlock) :
    x ∈ i_memory_new_loop mbp l ↔ x = mbp ∨ x ∈ l := by
  induction l with
  | nil => simp [i_memory_new_loop]
  | cons n next ih =>
    unfold i_memory_new_loop
    split_ifs
    · simp
    · simp only [List.mem_cons, ih]
      tauto

theorem new_loop_sorted (mbp : MemBlock) (l : List MemBlock)
    (hs : l.Pairwise (fun x y => x.base < y.base)) (hne : ∀ x ∈ l, x.base ≠ mbp.base) :
    (i_memory_new_loop mbp l).Pairwise (fun x y => x.base < y.base) := by
  induction l with
  | nil => simp [i_memory_new_loop]
  | cons n next ih =>
    have hn := List.pairwise_cons.1 hs
    unfold i_memory_new_loop
    split_ifs with hgt
    · refine List.pairwise_cons.2 ⟨?_, hs⟩
      intro x hx
      rcases List.mem_cons.1 hx with rfl | hx
      · exact hgt
      · exact lt_trans hgt (hn.1 x hx)
    · refine List.pairwise_cons.2 ⟨?_, ih hn.2 (fun x hx => hne x (List.mem_cons_of_mem _ hx))⟩
      intro x hx
      rcases (mem_new_loop mbp next x).1 hx with rfl | hx
      · have := hne n (List.mem_cons_self _ _)
        omega
      · exact hn.1 x hx

/-- The invariant of the list of blocks: the first block has base 0 and the bases
increase strictly along the list. -/
theorem put_blocks_sorted (m : Memory) (a v : Nat) (s y : Option String)
    (h0 : m.first.base = 0) (hs : m.blocks.Pairwise (fun x y => x.base < y.base)) :
    (b_memory_put m a v s y).first.base = 0 ∧
    (b_memory_put m a v s y).blocks.Pairwise (fun x y => x.base < y.base) := by
  unfold b_memory_put
  cases h : b_memory_put_loop a v s y m.blocks with
  | none =>
    have hall := put_loop_none h
    have hfirst : block_base a ≠ m.first.base := hall m.first (List.mem_cons_self _ _)
    have hnext : ∀ x ∈ m.next, block_base a ≠ x.base :=
      fun x hx => hall x (List.mem_cons_of_mem _ hx)
    have hcons := List.pairwise_cons.1 hs
    refine ⟨h0, ?_⟩
    show List.Pairwise _ (m.first :: i_memory_new_loop _ m.next)
    refine List.pairwise_cons.2 ⟨?_, new_loop_sorted _ _ hcons.2 (fun x hx => (hnext x hx).symm)⟩
    intro x hx
    rcases (mem_new_loop _ _ x).1 hx with rfl | hx
    · show m.first.base < block_base a
      omega
    · exact hcons.1 x hx
  | some l1 =>
    have hb := put_loop_bases h
    cases l1 with
    | nil => exact absurd rfl (put_loop_some_ne_nil h)
    | cons first next =>
      have hb1 : first.base = m.first.base := by
        have := congrArg List.head? hb
        simpa [Memory.blocks] using this
      refine ⟨hb1.trans h0, ?_⟩
      show List.Pairwise _ (first :: next)
      have h1 : ((first :: next).map (fun x => x.base)).Pairwise (· < ·) := by
        rw [hb]
        exact List.pairwise_map.2 hs
      exact List.pairwise_map.1 h1

theorem put_all_sorted (calls : List (Nat × Nat × Option String × Option String)) :
    ∀ m : Memory, m.first.base = 0 → m.blocks.Pairwise (fun x y => x.base < y.base) →
      (put_all m calls).first.base = 0 ∧
      (put_all m calls).blocks.Pairwise (fun x y => x.base < y.base) := by
  induction calls with
  | nil => intro m h0 hs; exact ⟨h0, hs⟩
  | cons c rest ih =>
    intro m h0 hs
    have := put_blocks_sorted m c.1 c.2.1 c.2.2.1 c.2.2.2 h0 hs
    exact ih _ this.1 this.2

/-- In a list with strictly increasing bases, the lookup of an address reaches the
block that has the base of the address. -/
theorem find_word_of_sorted (a : Nat) (l : List MemBlock)
    (hs : l.Pairwise (fun x y => x.base < y.base)) (blk : MemBlock) (hmem : blk ∈ l)
    (hbase : blk.base = block_base a) :
    find_word a l = block_array blk (block_offset a) ∧
    ∀ other ∈ l, other.base = block_base a → other = blk := by
  induction l with
  | nil => simp at hmem
  | cons m next ih =>
    have hc := List.pairwise_cons.1 hs
    rcases List.mem_cons.1 hmem with rfl | hmem1
    · refine ⟨by simp only [find_word, hbase, if_true], ?_⟩
      intro other ho hob
      rcases List.mem_cons.1 ho with rfl | ho
      · rfl
      · have := hc.1 other ho
        omega
    · have hlt := hc.1 blk hmem1
      have hne : block_base a ≠ m.base := by omega
      have := ih hc.2 hmem1
      refine ⟨by simp only [find_word, hne, if_false]; exact this.1, ?_⟩
      intro other ho hob
      rcases List.mem_cons.1 ho with rfl | ho
      · omega
      · exact this.2 other ho hob

theorem block_base_eq_shift (a : Nat) (ha : a < 2 ^ 32) : block_base a = a >>> I_MEM_BITS := by
  have h1 : (0xffff : Nat) = 2 ^ 16 - 1 := by norm_num
  simp only [block_base, I_MEM_BITS, h1, Nat.and_pow_two_sub_one_eq_mod,
    Nat.shiftRight_eq_div_pow]
  apply Nat.mod_eq_of_lt
  omega

/-- C37: after any sequence of `b_memory_put` calls on the memory that
`i_memory_create` makes, the first block of the list has base 0, the bases
increase strictly along the list, and for every 32-bit address `b_memory_get`
reads the word of the one block whose base is `address >> I_MEM_BITS` (no other
block has that base); without such a block the address reads as unused. -/
theorem block_list_invariant (calls : List (Nat × Nat × Option String × Option String)) :
    (put_all i_memory_create calls).first.base = 0 ∧
    (put_all i_memory_create calls).blocks.Pairwise (fun x y => x.base < y.base) ∧
    ∀ a, a < 2 ^ 32 →
      (∀ blk ∈ (put_all i_memory_create calls).blocks, blk.base = a >>> I_MEM_BITS →
        b_memory_get (put_all i_memory_create calls) a
          = get_of_word (block_array blk (block_offset a)) ∧
        ∀ other ∈ (put_all i_memory_create calls).blocks,
          other.base = a >>> I_MEM_BITS → other = blk) ∧
      ((∀ blk ∈ (put_all i_memory_create calls).blocks, blk.base ≠ a >>> I_MEM_BITS) →
        b_memory_get (put_all i_memory_create calls) a = ⟨0, 0, none, none⟩) := by
  have hinv := put_all_sorted calls i_memory_create rfl
    (by simp [i_memory_create, Memory.blocks])
  refine ⟨hinv.1, hinv.2, ?_⟩
  intro a ha
  have hb := block_base_eq_shift a ha
  constructor
  · intro blk hmem hbase
    have := find_word_of_sorted a _ hinv.2 blk hmem (hbase.trans hb.symm)
    refine ⟨by rw [b_memory_get_eq, this.1], ?_⟩
    intro other ho hob
    exact this.2 other ho (hob.trans hb.symm)
  · intro hno
    rw [b_memory_get_eq, find_word_no_block, get_of_word_zero]
    intro x hx hc
    exact hno x hx (hc.symm.trans hb)

/-- The list of blocks after writes at `0x300000`, `0x10` and `0x20000`, in this
order: the bases are 0, 2 and 48. -/
theorem block_list_example :
    ((put_all i_memory_create
        [(0x300000, 1, none, none), (0x10, 2, none, none), (0x20000, 3, none, none)]).blocks.map
      (fun x => x.base)) = [0, 2, 48] := by
  decide

/-! ## The byte store: the unlisted size -/

theorem unlisted_test_iff (d : Nat) :
    d &&& (BYTE_LISTED_MASK ||| BYTE_USED_MASK) = BYTE_USED_MASK ↔
      (d &&& BYTE_USED_MASK ≠ 0 ∧ d &&& BYTE_LISTED_MASK = 0) := by
  have e1 : BYTE_LISTED_MASK = 2 ^ 14 := by decide
  have e2 : BYTE_USED_MASK = 2 ^ 15 := by decide
  have hor : d &&& (BYTE_LISTED_MASK ||| BYTE_USED_MASK)
      = (d &&& BYTE_LISTED_MASK) ||| (d &&& BYTE_USED_MASK) := by
    apply Nat.eq_of_testBit_eq
    intro i
    simp only [Nat.testBit_and, Nat.testBit_or]
    cases Nat.testBit d i <;> simp
  rw [hor, e1, e2, Nat.and_two_pow, Nat.and_two_pow]
  cases Nat.testBit d 14 <;> cases Nat.testBit d 15 <;> decide

theorem find_block_nil {a : Nat} {chain : List MemBlock}
    (h : unlisted_find_block a chain = []) : find_word a chain = MemWord.zero := by
  induction chain with
  | nil => rfl
  | cons m next ih =>
    unfold unlisted_find_block at h
    by_cases hm : block_base a = m.base
    · simp [hm] at h
    · simp only [ne_eq, hm, not_false_eq_true, if_true] at h
      simp only [find_word, hm, if_false]
      exact ih h

theorem find_block_cons {a : Nat} {chain : List MemBlock} {m : MemBlock} {next : List MemBlock}
    (hs : chain.Pairwise (fun x y => x.base < y.base))
    (h : unlisted_find_block a chain = m :: next) :
    m.base = block_base a ∧ (m :: next).Pairwise (fun x y => x.base < y.base) ∧
    ∀ x, block_base a ≤ block_base x → find_word x chain = find_word x (m :: next) := by
  induction chain with
  | nil => simp [unlisted_find_block] at h
  | cons c rest ih =>
    have hc := List.pairwise_cons.1 hs
    unfold unlisted_find_block at h
    by_cases hm : block_base a = c.base
    · simp only [ne_eq, hm, not_true_eq_false, if_false, List.cons.injEq] at h
      obtain ⟨rfl, rfl⟩ := h
      exact ⟨hm.symm, hs, fun _ _ => rfl⟩
    · simp only [ne_eq, hm, not_false_eq_true, if_true] at h
      obtain ⟨h1, h2, h3⟩ := ih hc.2 h
      refine ⟨h1, h2, ?_⟩
      intro x hx
      have hmem : m ∈ rest := by
        have : m ∈ unlisted_find_block a rest := by rw [h]; exact List.mem_cons_self _ _
        clear h h3 h2 ih hs hc
        induction rest with
        | nil => simp [unlisted_find_block] at this
        | cons r rs ih2 =>
          unfold unlisted_find_block at this
          split_ifs at this
          · exact List.mem_cons_of_mem _ (ih2 this)
          · exact this
      have hlt := hc.1 m hmem
      have hne : block_base x ≠ c.base := by omega
      simp only [find_word, hne, if_false]
      exact h3 x hx

theorem block_base_eq_div (a : Nat) : block_base a = (a / 65536) % 65536 := by
  have h1 : (0xffff : Nat) = 2 ^ 16 - 1 := by norm_num
  simp only [block_base, I_MEM_BITS, h1, Nat.and_pow_two_sub_one_eq_mod,
    Nat.shiftRight_eq_div_pow]

theorem maximal_run_zero {m : Memory} {a n : Nat} (hn : maximal_unlisted_run m a n)
    (h : ¬ unlisted_byte m a) : n = 0 := by
  by_contra hne
  have := (hn.1 0 (Nat.pos_of_ne_zero hne)).2
  exact h this

theorem maximal_run_succ {m : Memory} {a n : Nat} (ha : a < 2 ^ 32)
    (hn : maximal_unlisted_run m a n) (h : unlisted_byte m a) :
    ∃ n1, n = n1 + 1 ∧ (a + 1 < 2 ^ 32 → maximal_unlisted_run m (a + 1) n1) ∧
      (¬ a + 1 < 2 ^ 32 → n1 = 0) := by
  cases n with
  | zero => exact absurd ⟨ha, h⟩ hn.2
  | succ n1 =>
    refine ⟨n1, rfl, ?_, ?_⟩
    · intro _
      refine ⟨?_, ?_⟩
      · intro j hj
        have := hn.1 (j + 1) (by omega)
        have e : a + (j + 1) = a + 1 + j := by omega
        rw [e] at this
        exact this
      · have := hn.2
        have e : a + (n1 + 1) = a + 1 + n1 := by omega
        rw [e] at this
        exact this
    · intro hw
      by_contra hne
      have := (hn.1 1 (by omega)).1
      omega

/-- The loop of `b_memory_get_unlisted_size` on a chain with strictly increasing
bases that holds every block in which the addresses from `address` on are
looked up: it adds the length of the run, up to the number of passes left. -/
theorem get_unlisted_size_loop_spec (m : Memory) :
    ∀ (k : Nat) (chain : List MemBlock) (address n_bytes n : Nat),
      chain.Pairwise (fun x y => x.base < y.base) → address < 2 ^ 32 →
      (∀ x, block_base address ≤ block_base x → find_word x m.blocks = find_word x chain) →
      maximal_unlisted_run m address n →
      get_unlisted_size_loop k chain address n_bytes = n_bytes + min k n := by
  intro k
  induction k with
  | zero => intro chain address n_bytes n _ _ _ _; simp [get_unlisted_size_loop]
  | succ k ih =>
    intro chain address n_bytes n hs ha hfw hn
    have hword : find_word address m.blocks = find_word address chain := hfw address (le_refl _)
    unfold get_unlisted_size_loop
    cases hf : unlisted_find_block address chain with
    | nil =>
      have hz := find_block_nil hf
      have hnot : ¬ unlisted_byte m address := by
        unfold unlisted_byte
        rw [hword, hz]
        simp [MemWord.zero]
      simp [maximal_run_zero hn hnot]
    | cons blk next =>
      obtain ⟨hbase, hs1, hfw1⟩ := find_block_cons hs hf
      have hw1 : find_word address chain = block_array blk (block_offset address) := by
        rw [hfw1 address (le_refl _)]
        simp only [find_word, hbase, if_true]
      dsimp only
      cases hmem : blk.memory with
      | none =>
        have hnot : ¬ unlisted_byte m address := by
          unfold unlisted_byte
          rw [hword, hw1]
          simp [block_array, hmem, MemWord.zero]
        simp [maximal_run_zero hn hnot]
      | some memory =>
        have hw2 : find_word address m.blocks = memory (block_offset address) := by
          rw [hword, hw1]
          simp [block_array, hmem]
        dsimp only
        by_cases htest : (memory (block_offset address)).data &&&
            (BYTE_LISTED_MASK ||| BYTE_USED_MASK) = BYTE_USED_MASK
        · rw [if_pos htest]
          have hun : unlisted_byte m address := by
            unfold unlisted_byte
            rw [hw2]
            exact (unlisted_test_iff _).1 htest
          obtain ⟨n1, rfl, hrun, hwrap⟩ := maximal_run_succ ha hn hun
          by_cases hlt : address + 1 < 2 ^ 32
          · rw [Nat.mod_eq_of_lt hlt]
            have hmono : block_base address ≤ block_base (address + 1) := by
              rw [block_base_eq_div, block_base_eq_div]
              omega
            rw [ih (blk :: next) (address + 1) (n_bytes + 1) n1 hs1 hlt
              (fun x hx => by
                rw [hfw x (le_trans hmono hx), hfw1 x (le_trans hmono hx)])
              (hrun hlt)]
            omega
          · have hn1 := hwrap hlt
            subst hn1
            have haddr : address = 2 ^ 32 - 1 := by omega
            have hmod : (address + 1) % 2 ^ 32 = 0 := by rw [haddr]; norm_num
            rw [hmod]
            have hb : blk.base = 65535 := by
              rw [hbase, haddr]
              decide
            have hfind : unlisted_find_block 0 (blk :: next) = [] := by
              have hall : ∀ x ∈ blk :: next, block_base 0 ≠ x.base := by
                intro x hx
                have h0 : block_base 0 = 0 := by decide
                rw [h0]
                rcases List.mem_cons.1 hx with rfl | hx
                · omega
                · have := (List.pairwise_cons.1 hs1).1 x hx
                  omega
              generalize blk :: next = l at hall
              induction l with
              | nil => rfl
              | cons c rest ih2 =>
                unfold unlisted_find_block
                rw [if_pos (hall c (List.mem_cons_self _ _))]
                exact ih2 (fun x hx => hall x (List.mem_cons_of_mem _ hx))
            cases k with
            | zero => simp [get_unlisted_size_loop]
            | succ k =>
              unfold get_unlisted_size_loop
              rw [hfind]
              simp
        · rw [if_neg htest]
          have hnot : ¬ unlisted_byte m address := by
            unfold unlisted_byte
            rw [hw2]
            exact fun h => htest ((unlisted_test_iff _).2 h)
          simp [maximal_run_zero hn hnot]

/-- C38: on a memory whose blocks have strictly increasing bases, for a 32-bit
address `a` with a maximal run of `n` used and unlisted bytes from `a` on,
`b_memory_get_unlisted_size(m, a)` is `min(4, n)` if the first block of the
memory has an array, and 0 if it has none, wherever the run lies. -/
theorem get_unlisted_size_spec (m : Memory) (a n : Nat) (ha : a < 2 ^ 32)
    (hs : m.blocks.Pairwise (fun x y => x.base < y.base))
    (hn : maximal_unlisted_run m a n) :
    b_memory_get_unlisted_size m a = if m.first.memory.isSome then min 4 n else 0 := by
  unfold b_memory_get_unlisted_size
  cases hm : m.first.memory with
  | none => simp
  | some memory =>
    simp only [Option.isSome_some, if_true]
    rw [get_unlisted_size_loop_spec m 4 m.blocks a 0 n hs ha (fun _ _ => rfl) hn]
    simp

theorem example_config_run : maximal_unlisted_run example_config_memory 0x300000 1 := by
  refine ⟨?_, ?_⟩
  · intro j hj
    have : j = 0 := by omega
    subst this
    exact ⟨by norm_num, by decide, by decide⟩
  · intro h
    have := h.2.1
    revert this
    decide

/-- C38 on the memory in which only the byte at `0x300000` was written: the run
of used and unlisted bytes from `0x300000` has the length 1, and
`b_memory_get_unlisted_size` gives 0, because the first block has no array. -/
theorem get_unlisted_size_spec_witness :
    maximal_unlisted_run example_config_memory 0x300000 1 ∧
    b_memory_get_unlisted_size example_config_memory 0x300000 = 0 :=
  ⟨example_config_run,
    (get_unlisted_size_spec example_config_memory 0x300000 1 (by norm_num) (by decide)
      example_config_run).trans (by decide)⟩

/-- The same byte is counted once a byte of the first page is written too. -/
theorem get_unlisted_size_after_low_write :
    b_memory_get_unlisted_size (b_memory_put example_config_memory 0 0 none none) 0x300000 = 1 ∧
    b_memory_get_unlisted_size example_config_memory 0x300000 = 0 := by
  decide

/-! ## The map file: the comparator of the table sorted by address -/

theorem to_int_to_unsigned_of_small (x : Int) (h1 : -(2 ^ 31) ≤ x) (h2 : x < 2 ^ 31) :
    to_int (to_unsigned x) = x := by
  unfold to_int to_unsigned
  have hnn : (0 : Int) ≤ x % 2 ^ 32 := Int.emod_nonneg _ (by norm_num)
  have hlt : x % 2 ^ 32 < 2 ^ 32 := Int.emod_lt_of_pos _ (by norm_num)
  have hcast : (((x % 2 ^ 32).toNat : Nat) : Int) = x % 2 ^ 32 := Int.toNat_of_nonneg hnn
  have hmod : (x % 2 ^ 32).toNat % 2 ^ 32 = (x % 2 ^ 32).toNat := by
    apply Nat.mod_eq_of_lt
    omega
  rw [hmod]
  by_cases hx : 0 ≤ x
  · have e : x % 2 ^ 32 = x := Int.emod_eq_of_lt hx (by omega)
    rw [if_pos (by omega), hcast, e]
  · have e : x % 2 ^ 32 = x + 2 ^ 32 := by
      have := Int.emod_emod_of_dvd x (dvd_refl ((2 : Int) ^ 32))
      have h3 : (x + 2 ^ 32) % 2 ^ 32 = x + 2 ^ 32 := Int.emod_eq_of_lt (by omega) (by omega)
      rw [← h3, Int.add_emod_self]
    rw [if_neg (by omega), hcast, e]
    ring

theorem symvalue_fits_of_small (value_bits : Nat) (hbits : 32 ≤ value_bits) (x : Int)
    (h1 : -(2 ^ 31) ≤ x) (h2 : x < 2 ^ 31) : symvalue_fits value_bits x = true := by
  have hp : (2 : Int) ^ 31 ≤ 2 ^ (value_bits - 1) :=
    pow_le_pow_right₀ (by norm_num) (by omega)
  simp only [symvalue_fits, Bool.and_eq_true, decide_eq_true_eq]
  constructor <;> omega

/-- C40: for a value type of at least 32 bits, `_cmp_address` returns the
difference of the two values (so its sign is the sign of the difference) whenever
the difference lies between `-2^31` and `2^31 - 1`; for the two representable
values `2^31 - 1` and `-1`, whose difference `2^31` is positive, it either has no
defined result (the subtraction overflows a 32-bit type) or returns the negative
number `-2^31`. -/
theorem cmp_address_sign (value_bits : Nat) (hbits : 32 ≤ value_bits) :
    (∀ v1 v2 : Int, -(2 ^ 31) ≤ v1 - v2 → v1 - v2 < 2 ^ 31 →
      _cmp_address value_bits v1 v2 = some (v1 - v2)) ∧
    symvalue_fits value_bits (2 ^ 31 - 1) = true ∧ symvalue_fits value_bits (-1) = true ∧
    (_cmp_address value_bits (2 ^ 31 - 1) (-1) = none ∨
      _cmp_address value_bits (2 ^ 31 - 1) (-1) = some (-(2 ^ 31))) := by
  refine ⟨?_, symvalue_fits_of_small _ hbits _ (by norm_num) (by norm_num),
    symvalue_fits_of_small _ hbits _ (by norm_num) (by norm_num), ?_⟩
  · intro v1 v2 h1 h2
    unfold _cmp_address
    rw [if_pos (symvalue_fits_of_small _ hbits _ h1 h2), to_int_to_unsigned_of_small _ h1 h2]
  · unfold _cmp_address
    by_cases h : symvalue_fits value_bits (2 ^ 31 - 1 - -1) = true
    · right
      rw [if_pos h]
      have : to_int (to_unsigned (2 ^ 31 - 1 - -1)) = -(2 ^ 31) := by decide
      rw [this]
    · left
      rw [if_neg h]

/-- C40 for a value type of 64 bits: small differences are returned as they are,
and the values `2^31 - 1` and `-1` compare as "less". -/
theorem cmp_address_sign_witness :
    (∀ v1 v2 : Int, -(2 ^ 31) ≤ v1 - v2 → v1 - v2 < 2 ^ 31 →
      _cmp_address 64 v1 v2 = some (v1 - v2)) ∧
    symvalue_fits 64 (2 ^ 31 - 1) = true ∧ symvalue_fits 64 (-1) = true ∧
    (_cmp_address 64 (2 ^ 31 - 1) (-1) = none ∨
      _cmp_address 64 (2 ^ 31 - 1) (-1) = some (-(2 ^ 31))) :=
  cmp_address_sign 64 (by decide)

/-- With 64-bit values, the symbols with the values `0x80000000` and `0` compare as
"less" in both orders, and two symbols whose values differ by `2^32` compare as
equal: the comparator is not antisymmetric, and the sign of its result is not
the sign of the difference. -/
theorem cmp_address_not_antisymmetric :
    _cmp_address 64 2147483648 0 = some (-2147483648) ∧
    _cmp_address 64 0 2147483648 = some (-2147483648) ∧
    _cmp_address 64 4294967296 0 = some 0 ∧
    _cmp_address 32 2147483647 (-1) = none := by
  decide

/-! ## The exit status of the assembler: the command line -/

theorem process_args_loop_other (MAX_PATHS : Nat) (opts : List gpasm_option) (l : args_locals)
    (hall : ∀ c ∈ opts, c = gpasm_option.other) (hu : l.usage = false) :
    process_args_loop MAX_PATHS opts l = .inr l := by
  induction opts with
  | nil => rfl
  | cons c rest ih =>
    have hc := hall c (List.mem_cons_self _ _)
    subst hc
    simp only [process_args_loop, process_args_option, hu, Bool.false_eq_true, if_false]
    exact ih (fun c hc => hall c (List.mem_cons_of_mem _ hc))

theorem process_args_loop_unknown (MAX_PATHS : Nat) (pre post : List gpasm_option)
    (l : args_locals) (hall : ∀ c ∈ pre, c = gpasm_option.other) (hu : l.usage = false) :
    process_args_loop MAX_PATHS (pre ++ gpasm_option.unknown :: post) l
      = .inr { l with usage_code := 1, usage := true } := by
  induction pre with
  | nil => simp [process_args_loop, process_args_option]
  | cons c rest ih =>
    have hc := hall c (List.mem_cons_self _ _)
    subst hc
    simp only [List.cons_append, process_args_loop, process_args_option, hu,
      Bool.false_eq_true, if_false]
    exact ih (fun c hc => hall c (List.mem_cons_of_mem _ hc))

/-- C31: what the sources fix of the status with which the assembler ends, for a
command line on which no call of `gp_exit_if_arg_an_option` ends the process.
(1) If the first option that is not a plain one is an unknown option,
`process_args` ends the process with the status 1.  (2) If all options are plain
and the number of remaining arguments is not one (the source file is missing, or
there is an extra argument), `process_args` shows the usage text and ends the
process with the status 0.  (3) If all options are plain, exactly one argument
remains and the header path fits into the list of paths, `process_args` returns:
it does not end the process.  (4) The value that `assemble` hands to its caller
in a run that reaches the end of pass 2 is `EXIT_SUCCESS` (0) without errors and
`EXIT_FAILURE` (1) with any positive number of errors: the number of errors is
not in it. -/
theorem gpasm_exit_code (A : gpasm_command_line) (C : gpasm_calls) (st : gpasm_state)
    (hstrict : A.strict_exit = none) :
    (∀ pre post, A.options = pre ++ gpasm_option.unknown :: post →
      (∀ c ∈ pre, c = gpasm_option.other) → process_args A = .inl 1) ∧
    ((∀ c ∈ A.options, c = gpasm_option.other) → A.optind + 1 ≠ A.argc →
      process_args A = .inl 0) ∧
    ((∀ c ∈ A.options, c = gpasm_option.other) → A.optind + 1 = A.argc →
      (A.gp_header_path = none ∨ A.gp_header_path = some true ∨ A.num_paths < A.MAX_PATHS) →
      ∃ l, process_args A = .inr l) ∧
    ((assemble_passes C st).pass = 2 →
      ∃ final, final = assemble_finish C (assemble_passes C st) ∧
        assemble C st =
          some (if final.num_errors > 0 ∨ final.gp_num_errors > 0 then 1 else 0, final)) := by
  refine ⟨?_, ?_, ?_, ?_⟩
  · intro pre post hopts hpre
    have hloop := process_args_loop_unknown A.MAX_PATHS pre post (args_locals_init A) hpre rfl
    unfold process_args
    rw [hstrict]
    simp only [hopts, hloop]
    by_cases hc : A.optind + 1 = A.argc <;>
      simp [process_args_finish, args_locals_init, hc]
  · intro hall hne
    have hloop := process_args_loop_other A.MAX_PATHS A.options (args_locals_init A) hall rfl
    unfold process_args
    rw [hstrict]
    simp only [hloop]
    simp [process_args_finish, args_locals_init, hne]
  · intro hall heq hpath
    have hloop := process_args_loop_other A.MAX_PATHS A.options (args_locals_init A) hall rfl
    unfold process_args
    rw [hstrict]
    simp only [hloop]
    simp only [process_args_finish, args_locals_init, Bool.false_eq_true, if_false, heq,
      if_true]
    rcases hpath with h | h | h
    · rw [h]; exact ⟨_, rfl⟩
    · rw [h]; exact ⟨_, rfl⟩
    · cases hp : A.gp_header_path with
      | none => exact ⟨_, rfl⟩
      | some empty =>
        cases empty with
        | true => exact ⟨_, rfl⟩
        | false =>
          simp only [_add_path, Bool.false_eq_true, if_false, h, if_true]
          exact ⟨_, rfl⟩
  · intro hpass
    refine ⟨_, rfl, ?_⟩
    unfold assemble
    simp only [hpass, ne_eq, not_true_eq_false, if_false, EXIT_FAILURE, EXIT_SUCCESS]

/-- C31 on the command line `gpasm -c a.asm`: `process_args` returns; when the
parser counts three errors `assemble` returns 1 and the count at the return is 3;
without errors it returns 0. -/
theorem gpasm_exit_code_witness :
    (∃ l, process_args example_one_source = .inr l) ∧
    (∃ final, assemble example_three_errors example_gpasm_state = some (1, final) ∧
      final.num_errors = 3) ∧
    (∃ final, assemble (example_gpasm_calls false) example_gpasm_state = some (0, final)) := by
  obtain ⟨f1, e1, h1⟩ := (gpasm_exit_code example_one_source example_three_errors
    example_gpasm_state rfl).2.2.2 rfl
  obtain ⟨f2, e2, h2⟩ := (gpasm_exit_code example_one_source (example_gpasm_calls false)
    example_gpasm_state rfl).2.2.2 rfl
  subst e1 e2
  exact ⟨(gpasm_exit_code example_one_source example_three_errors
      example_gpasm_state rfl).2.2.1 (by decide) rfl (Or.inl rfl),
    ⟨assemble_finish example_three_errors
      (assemble_passes example_three_errors example_gpasm_state), h1.trans rfl, rfl⟩,
    ⟨assemble_finish (example_gpasm_calls false)
      (assemble_passes (example_gpasm_calls false) example_gpasm_state), h2.trans rfl⟩⟩

/-- The command lines `gpasm` (no source file) and `gpasm a.asm b.asm` (an extra
argument): `process_args` ends the process with the status 0; the command line
`gpasm --bogus a.asm`: it ends the process with the status 1. -/
theorem gpasm_missing_source_exits_zero :
    process_args example_no_source = .inl 0 ∧
    process_args example_two_sources = .inl 0 ∧
    process_args example_unknown_option = .inl 1 := by
  decide

/-! ## The symbol stripper -/

theorem conditional_remove_keeps (st : gpstrip_state) (o : strip_object) (s x : strip_symbol)
    (hx : x ∈ o.symbol_list) (hkeep : x.name ∈ st.symbol_keep ∨ x ≠ s) :
    x ∈ (_conditional_remove st o s).symbol_list := by
  unfold _conditional_remove
  by_cases hs : s.name ∈ st.symbol_keep
  · rw [if_pos hs]
    exact hx
  · rw [if_neg hs]
    simp only [gp_coffgen_del_symbol, List.mem_filter, decide_eq_true_eq]
    refine ⟨hx, ?_⟩
    rcases hkeep with h | h
    · intro hc
      subst hc
      exact hs h
    · exact h

theorem strip_symbols_loop_keeps (st : gpstrip_state) (test : strip_symbol → Bool)
    (x : strip_symbol) (hkeep : x.name ∈ st.symbol_keep ∨ test x = false) :
    ∀ (l : List strip_symbol) (o : strip_object), x ∈ o.symbol_list →
      x ∈ (strip_symbols_loop st test l o).symbol_list := by
  intro l
  induction l with
  | nil => intro o hx; exact hx
  | cons s rest ih =>
    intro o hx
    unfold strip_symbols_loop
    apply ih
    by_cases ht : test s = true
    · rw [if_pos ht]
      apply conditional_remove_keeps st o s x hx
      rcases hkeep with h | h
      · exact Or.inl h
      · right
        intro hc
        subst hc
        rw [h] at ht
        exact absurd ht (by simp)
    · rw [if_neg ht]
      exact hx

theorem remove_symbols_keeps (st : gpstrip_state) (x : strip_symbol)
    (hkeep : x.name ∈ st.symbol_keep ∨ x.has_reloc = true) :
    ∀ (names : List String) (o : strip_object), x ∈ o.symbol_list →
      x ∈ (_remove_symbols st names o).symbol_list := by
  intro names
  induction names with
  | nil => intro o hx; exact hx
  | cons name_ rest ih =>
    intro o hx
    unfold _remove_symbols
    cases hf : gp_coffgen_find_symbol o name_ with
    | none => exact ih o hx
    | some s =>
      dsimp only
      by_cases hr : s.has_reloc = false
      · rw [if_pos hr]
        apply ih
        apply conditional_remove_keeps st o s x hx
        rcases hkeep with h | h
        · exact Or.inl h
        · right
          intro hc
          subst hc
          rw [h] at hr
          exact absurd hr (by simp)
      · rw [if_neg hr]
        exact ih o hx

/-- C32: in the object that `gpstrip` is about to write, a symbol whose name was
given with `--keep-symbol` is present if it is present after `_remove_sections`
and `--strip-all` is not given or does not apply (the object is not
executable), for every combination of `--strip-symbol`, `--strip-debug`,
`--strip-unneeded`, `--discard-all` and `--remove-section`; and `_remove_symbols`
(`--strip-symbol`) removes no symbol that a relocation refers to. -/
theorem keep_symbol_kept (K : gpstrip_calls) (st : gpstrip_state) (o : strip_object)
    (gp_num_errors : Nat) (x : strip_symbol)
    (hx : x ∈ (_remove_sections K st.section_remove o).symbol_list) :
    (x.name ∈ st.symbol_keep →
      (st.strip_all = false ∨ (_remove_sections K st.section_remove o).flags &&& K.F_EXEC = 0) →
      x ∈ (gpstrip_object K st o gp_num_errors).1.symbol_list) ∧
    (x.has_reloc = true →
      x ∈ (_remove_symbols st st.symbol_remove
        (_remove_sections K st.section_remove o)).symbol_list) := by
  constructor
  · intro hk hall
    have h2 := remove_symbols_keeps st x (Or.inl hk) st.symbol_remove _ hx
    have hflags : ∀ (names : List String) (o1 : strip_object),
        (_remove_symbols st names o1).flags = o1.flags := by
      intro names
      induction names with
      | nil => intro o1; rfl
      | cons n rest ih =>
        intro o1
        unfold _remove_symbols
        cases gp_coffgen_find_symbol o1 n with
        | none => exact ih o1
        | some s =>
          dsimp only
          split_ifs
          · rw [ih]
            unfold _conditional_remove
            split_ifs <;> rfl
          · exact ih o1
    unfold gpstrip_object
    dsimp only
    have h3 : x ∈ (if st.strip_all = true then
        _strip_all K (_remove_symbols st st.symbol_remove
          (_remove_sections K st.section_remove o)) gp_num_errors
        else (_remove_symbols st st.symbol_remove (_remove_sections K st.section_remove o),
          gp_num_errors)).1.symbol_list := by
      by_cases ha : st.strip_all = true
      · rw [if_pos ha]
        rcases hall with h | h
        · rw [h] at ha
          exact absurd ha (by simp)
        · unfold _strip_all
          rw [hflags, if_neg (by rw [h]; simp)]
          exact h2
      · rw [if_neg ha]
        exact h2
    generalize (if st.strip_all = true then
        _strip_all K (_remove_symbols st st.symbol_remove
          (_remove_sections K st.section_remove o)) gp_num_errors
        else (_remove_symbols st st.symbol_remove (_remove_sections K st.section_remove o),
          gp_num_errors)) = r at h3 ⊢
    have h4 : x ∈ (if st.strip_debug = true ∧ ¬ st.strip_all = true then _strip_debug K st r.1
        else r.1).symbol_list := by
      split_ifs
      · exact strip_symbols_loop_keeps st _ x (Or.inl hk) _ _ h3
      · exact h3
    generalize (if st.strip_debug = true ∧ ¬ st.strip_all = true then _strip_debug K st r.1
        else r.1) = o3 at h4 ⊢
    have h5 : x ∈ (if st.strip_unneeded = true ∧ ¬ st.strip_all = true then
        _strip_unneeded st o3 else o3).symbol_list := by
      split_ifs
      · exact strip_symbols_loop_keeps st _ x (Or.inl hk) _ _ h4
      · exact h4
    generalize (if st.strip_unneeded = true ∧ ¬ st.strip_all = true then
        _strip_unneeded st o3 else o3) = o4 at h5 ⊢
    split_ifs
    · exact strip_symbols_loop_keeps st _ x (Or.inl hk) _ _ h5
    · exact h5
  · intro hr
    exact remove_symbols_keeps st x (Or.inr hr) st.symbol_remove _ hx

/-- C32 on the options `--keep-symbol tmp --strip-symbol tmp --strip-symbol loop
--strip-debug --strip-unneeded --discard-all`: the symbol `tmp` is in the object
that is written, and the symbol `loop`, used by a relocation, outlives
`_remove_symbols`. -/
theorem keep_symbol_kept_witness :
    { ptr := 2, name := "tmp", section_number := 1, has_reloc := false, is_global := false }
      ∈ (gpstrip_object example_gpstrip_calls example_keep_others example_strip_object
          0).1.symbol_list ∧
    { ptr := 1, name := "loop", section_number := 1, has_reloc := true, is_global := false }
      ∈ (_remove_symbols example_keep_others example_keep_others.symbol_remove
          (_remove_sections example_gpstrip_calls example_keep_others.section_remove
            example_strip_object)).symbol_list :=
  ⟨(keep_symbol_kept example_gpstrip_calls example_keep_others example_strip_object 0
      { ptr := 2, name := "tmp", section_number := 1, has_reloc := false, is_global := false }
      (by decide)).1 (by decide) (Or.inl rfl),
   (keep_symbol_kept example_gpstrip_calls example_keep_others example_strip_object 0
      { ptr := 1, name := "loop", section_number := 1, has_reloc := true, is_global := false }
      (by decide)).2 rfl⟩

/-- With `--keep-symbol tmp --strip-all` on an executable object, the object that
is written holds no symbol: the symbol `tmp` is removed. -/
theorem strip_all_removes_kept_symbol :
    (gpstrip_object example_gpstrip_calls example_keep_strip_all example_strip_object
      0).1.symbol_list = [] ∧
    { ptr := 2, name := "tmp", section_number := 1, has_reloc := false, is_global := false }
      ∈ example_strip_object.symbol_list ∧
    "tmp" ∈ example_keep_strip_all.symbol_keep := by
  decide

/-! ## The disassembler: the number of words of an instruction -/

/-- The number of words that `gp_disassemble_mark_false_addresses` returns for an
instruction entry. -/
theorem mark_false_words (M : MemBlock_t) (a : Nat) (P : px) (find_insn : Nat → Option insn_t)
    (word : Nat) (instruction : insn_t) (hf : P.class_.find_insn = some find_insn)
    (hw : M.i_memory_get a = some word) (hi : find_insn (word % 2 ^ 16) = some instruction) :
    (gp_disassemble_mark_false_addresses M a P).1 =
      if instruction.class_ ∈ [insn_class.LIT20, .CALL20, .FLIT12, .FF, .SF] then
        (if (second_insn_word M a PIC16E_BMSK_SEC_INSN_WORD).isSome then 2 else 1)
      else if instruction.class_ = .SS then
        (if (second_insn_word M a 0xff80).isSome then 2 else 1)
      else 1 := by
  unfold gp_disassemble_mark_false_addresses
  simp only [hf, hw, hi]
  cases hc : instruction.class_ <;> simp <;>
    first
    | (cases second_insn_word M a PIC16E_BMSK_SEC_INSN_WORD <;> rfl)
    | (cases second_insn_word M a 0xff80 <;> rfl)

theorem find_registers_words (K : gpopcode_masks) (M : MemBlock_t) (a : Nat) (P : px)
    (F : gpdasm_fstate_t) (find_insn : Nat → Option insn_t) (word : Nat) (instruction : insn_t)
    (hf : P.class_.find_insn = some find_insn)
    (hw : M.i_memory_get a = some word) (hi : find_insn (word % 2 ^ 16) = some instruction) :
    (gp_disassemble_find_registers K M a P F).1 =
      if instruction.class_ ∈ [insn_class.LIT20, .CALL20, .FLIT12, .FF, .SF] then
        (if (second_insn_word M a PIC16E_BMSK_SEC_INSN_WORD).isSome then 2 else 1)
      else if instruction.class_ = .SS then
        (if (second_insn_word M a 0xff80).isSome then 2 else 1)
      else 1 := by
  unfold gp_disassemble_find_registers
  simp only [hf, hw, hi]
  unfold find_registers_switch
  cases hc : instruction.class_ <;> simp <;>
    first
    | (cases second_insn_word M a PIC16E_BMSK_SEC_INSN_WORD <;> rfl)
    | (cases second_insn_word M a 0xff80 <;> rfl)
    | (split_ifs <;> rfl)

theorem find_labels_switch_words (K : gpopcode_masks) (class_ : proc_class)
    (instruction : insn_t) (l : labels_locals) (a opcode pm pmask sp : Nat) :
    (find_labels_switch K class_ instruction l a opcode pm pmask sp).num_words =
      if instruction.class_ = .LIT20 ∨ instruction.class_ = .CALL20 then
        (match second_insn_word l.M a PIC16E_BMSK_SEC_INSN_WORD with
         | some dest => if l.M.second_word (lit20_dest opcode dest * 2) = false then 2
                        else l.num_words
         | none => l.num_words)
      else if instruction.class_ ∈ [insn_class.FLIT12, .FF, .SF] then
        (if (second_insn_word l.M a PIC16E_BMSK_SEC_INSN_WORD).isSome then 2 else l.num_words)
      else if instruction.class_ = .SS then
        (if (second_insn_word l.M a 0xff80).isSome then 2 else l.num_words)
      else l.num_words := by
  unfold find_labels_switch
  cases hc : instruction.class_ <;> simp
  case LIT8C12 => unfold find_labels_lit8c12; repeat' (first | rfl | split)
  case LIT8C16 => unfold find_labels_lit8c16; repeat' (first | rfl | split | dsimp only)
  case LIT8 => unfold find_labels_lit8; repeat' (first | rfl | split)
  case LIT9 => unfold find_labels_lit9; repeat' (first | rfl | split)
  case LIT11 => unfold find_labels_lit11; repeat' (first | rfl | split | dsimp only)
  case RBRA8 =>
    unfold find_labels_rbra8 find_labels_rbra_mark; repeat' (first | rfl | split | dsimp only)
  case RBRA9 =>
    unfold find_labels_rbra9 find_labels_rbra_mark; repeat' (first | rfl | split | dsimp only)
  case RBRA11 =>
    unfold find_labels_rbra11 find_labels_rbra_mark; repeat' (first | rfl | split | dsimp only)
  case LIT20 =>
    unfold find_labels_lit20
    cases hs : second_insn_word l.M a PIC16E_BMSK_SEC_INSN_WORD with
    | none => rfl
    | some dest =>
      dsimp only
      by_cases h2 : l.M.second_word (lit20_dest opcode dest * 2) = false
      · rw [if_pos h2, if_pos h2]
      · rw [if_neg h2, if_neg h2]
  case CALL20 =>
    unfold find_labels_lit20
    cases hs : second_insn_word l.M a PIC16E_BMSK_SEC_INSN_WORD with
    | none => rfl
    | some dest =>
      dsimp only
      by_cases h2 : l.M.second_word (lit20_dest opcode dest * 2) = false
      · rw [if_pos h2, if_pos h2]
      · rw [if_neg h2, if_neg h2]
  case FP => unfold find_labels_movfp; repeat' (first | rfl | split)
  case PF => unfold find_labels_movfp; repeat' (first | rfl | split)
  case OPWF5 => repeat' (first | rfl | split)
  case B5 => unfold find_labels_b5 labels_pclath_bit; repeat' (first | rfl | split | dsimp only)
  case OPF7 => unfold find_labels_opf7; repeat' (first | rfl | split | dsimp only)
  case OPWF7 => repeat' (first | rfl | split)
  case B7 => unfold find_labels_b7 labels_pclath_bit; repeat' (first | rfl | split | dsimp only)
  case OPF8 => repeat' (first | rfl | split)
  case OPWF8 => unfold find_labels_opwf8; repeat' (first | rfl | split | dsimp only)
  case IMPLICIT => repeat' (first | rfl | split)
  case FLIT12 => cases second_insn_word l.M a PIC16E_BMSK_SEC_INSN_WORD <;> rfl
  case FF => cases second_insn_word l.M a PIC16E_BMSK_SEC_INSN_WORD <;> rfl
  case SF => cases second_insn_word l.M a PIC16E_BMSK_SEC_INSN_WORD <;> rfl
  case SS => cases second_insn_word l.M a 0xff80 <;> rfl

theorem mark_false_words_pos (M : MemBlock_t) (a : Nat) (P : px) (find_insn : Nat → Option insn_t)
    (hf : P.class_.find_insn = some find_insn) :
    1 ≤ (gp_disassemble_mark_false_addresses M a P).1 := by
  unfold gp_disassemble_mark_false_addresses
  simp only [hf]
  repeat' (first | exact le_refl _ | exact Nat.le_succ _ | split)

theorem print_word_le_one (l : Int) : print_word l ≤ 1 := by
  unfold print_word
  split_ifs <;> omega

theorem gp_disassemble_switch_le (K : gpopcode_masks) (D : gpdis_consts) (M : MemBlock_t)
    (a : Nat) (Class : proc_class) (instruction : insn_t) (opcode pm : Nat) (sab : Bool)
    (pw : Nat) (hpw : pw ≤ 1) :
    gp_disassemble_switch K D M a Class instruction opcode pm sab pw ≤
      if instruction.class_ ∈ [insn_class.LIT20, .CALL20, .FLIT12, .FF, .SF] then
        (if (second_insn_word M a PIC16E_BMSK_SEC_INSN_WORD).isSome then 2 else 1)
      else if instruction.class_ = .SS then
        (if (second_insn_word M a 0xff80).isSome then 2 else 1)
      else 1 := by
  unfold gp_disassemble_switch
  cases hc : instruction.class_ <;> simp <;>
    first
    | (cases second_insn_word M a PIC16E_BMSK_SEC_INSN_WORD <;> simp <;>
        first | exact hpw | (split_ifs <;> omega))
    | (cases second_insn_word M a 0xff80 <;> simp <;> exact hpw)
    | (split_ifs <;> omega)

/-- C39: for every memory map, processor, state and byte address,
(1) `gp_disassemble_mark_false_addresses` and `gp_disassemble_find_registers`
return the same number of words; (2) `gp_disassemble_find_labels` returns the
same number or less, and less only for a two-word instruction of the class
`LIT20` or `CALL20` (PIC16E `goto`, `call`) whose target is marked as the second
word of an instruction; (3) where the word at the address is fully used,
`gp_disassemble` returns the same number or less. -/
theorem disassemble_words_agree (K : gpopcode_masks) (D : gpdis_consts) (M : MemBlock_t)
    (a : Nat) (P : px) (F : gpdasm_fstate_t) (Prog_mem_size : Nat) (show_all_branch : Bool)
    (snprintf_result : Int) :
    (gp_disassemble_find_registers K M a P F).1 = (gp_disassemble_mark_false_addresses M a P).1 ∧
    (gp_disassemble_find_labels K M a P F).1 ≤ (gp_disassemble_mark_false_addresses M a P).1 ∧
    ((gp_disassemble_find_labels K M a P F).1 < (gp_disassemble_mark_false_addresses M a P).1 →
      ∃ find_insn word instruction dest,
        P.class_.find_insn = some find_insn ∧ M.i_memory_get a = some word ∧
        find_insn (word % 2 ^ 16) = some instruction ∧
        (instruction.class_ = .LIT20 ∨ instruction.class_ = .CALL20) ∧
        second_insn_word M a PIC16E_BMSK_SEC_INSN_WORD = some dest ∧
        M.second_word (lit20_dest (word % 2 ^ 16) dest * 2) = true) ∧
    (M.i_memory_get a ≠ none →
      gp_disassemble K D M a P.class_ Prog_mem_size show_all_branch snprintf_result
        ≤ (gp_disassemble_mark_false_addresses M a P).1) := by
  cases hf : P.class_.find_insn with
  | none =>
    simp [gp_disassemble_find_registers, gp_disassemble_mark_false_addresses,
      gp_disassemble_find_labels, gp_disassemble, hf]
  | some find_insn =>
    cases hw : M.i_memory_get a with
    | none =>
      simp [gp_disassemble_find_registers, gp_disassemble_mark_false_addresses,
        gp_disassemble_find_labels, hf, hw]
    | some word =>
      cases hi : find_insn (word % 2 ^ 16) with
      | none =>
        have hpw := print_word_le_one snprintf_result
        simp only [gp_disassemble_find_registers, gp_disassemble_mark_false_addresses,
          gp_disassemble_find_labels, gp_disassemble, hf, hw, hi]
        refine ⟨trivial, le_refl _, fun h => absurd h (lt_irrefl _), fun _ => ?_⟩
        split_ifs
        · exact le_refl _
        · exact hpw
      | some instruction =>
        have hm := mark_false_words M a P find_insn word instruction hf hw hi
        have hr := find_registers_words K M a P F find_insn word instruction hf hw hi
        have hl : (gp_disassemble_find_labels K M a P F).1 =
            if instruction.class_ = .LIT20 ∨ instruction.class_ = .CALL20 then
              (match second_insn_word M a PIC16E_BMSK_SEC_INSN_WORD with
               | some dest => if M.second_word (lit20_dest (word % 2 ^ 16) dest * 2) = false
                              then 2 else 1
               | none => 1)
            else if instruction.class_ ∈ [insn_class.FLIT12, .FF, .SF] then
              (if (second_insn_word M a PIC16E_BMSK_SEC_INSN_WORD).isSome then 2 else 1)
            else if instruction.class_ = .SS then
              (if (second_insn_word M a 0xff80).isSome then 2 else 1)
            else 1 := by
          unfold gp_disassemble_find_labels
          simp only [hf, hw, hi]
          exact find_labels_switch_words K P.class_ instruction _ a (word % 2 ^ 16) _ _ _
        have hd : gp_disassemble K D M a P.class_ Prog_mem_size show_all_branch snprintf_result
            ≤ (gp_disassemble_mark_false_addresses M a P).1 := by
          have hpos := mark_false_words_pos M a P find_insn hf
          unfold gp_disassemble
          simp only [hf, hw, hi]
          by_cases hmov : (P.class_.id = .PIC14E ∨ P.class_.id = .PIC14EX) ∧
              ((word % 2 ^ 16) &&& D.PIC14E_MASK_MOVIW_IDX = D.PIC14E_INSN_MOVIW_IDX ∨
               (word % 2 ^ 16) &&& D.PIC14E_MASK_MOVIW_IDX = D.PIC14E_INSN_MOVWI_IDX)
          · rw [if_pos hmov]
            exact hpos
          · rw [if_neg hmov, hm]
            exact gp_disassemble_switch_le K D M a P.class_ instruction _ _ _ _
              (print_word_le_one _)
        refine ⟨hr.trans hm.symm, ?_, ?_, fun _ => hd⟩
        · rw [hl, hm]
          cases hc : instruction.class_ <;> simp <;>
            (cases second_insn_word M a PIC16E_BMSK_SEC_INSN_WORD <;>
              first
              | (simp; done)
              | (simp; split_ifs <;> omega))
        · intro hlt
          rw [hl, hm] at hlt
          by_cases h20 : instruction.class_ = .LIT20 ∨ instruction.class_ = .CALL20
          · rw [if_pos h20] at hlt
            cases hs : second_insn_word M a PIC16E_BMSK_SEC_INSN_WORD with
            | none =>
              rw [hs] at hlt
              rcases h20 with h | h <;> simp [h] at hlt
            | some dest =>
              refine ⟨find_insn, word, instruction, dest, rfl, rfl, hi, h20, rfl, ?_⟩
              by_contra hsw
              have hsw2 : M.second_word (lit20_dest (word % 2 ^ 16) dest * 2) = false := by
                simpa using hsw
              rw [hs] at hlt
              simp only [Nat.reducePow] at hsw2
              rcases h20 with h | h <;> simp [h, hsw2] at hlt
          · rw [if_neg h20] at hlt
            exfalso
            revert hlt
            cases hc : instruction.class_ <;> simp at h20 ⊢ <;> simp_all

/-- A PIC16E `goto` whose target is the place of its own second word:
`gp_disassemble_mark_false_addresses` returns 2 and marks the second word, and on
the map that it leaves `gp_disassemble_find_labels` returns 1.  A PIC16E `goto`
to the instruction address `0x200` in a program memory of `0x100` words:
`gp_disassemble_mark_false_addresses` returns 2 and `gp_disassemble` returns 1
("The target address not exist."). -/
theorem disassemble_words_differ :
    (gp_disassemble_mark_false_addresses example_goto_map 0
      (example_px .PIC16E 1 ⟨.LIT20, .GOTO⟩ 0x10000)).1 = 2 ∧
    (gp_disassemble_find_labels example_masks
      (gp_disassemble_mark_false_addresses example_goto_map 0
        (example_px .PIC16E 1 ⟨.LIT20, .GOTO⟩ 0x10000)).2 0
      (example_px .PIC16E 1 ⟨.LIT20, .GOTO⟩ 0x10000) (example_fstate 0 0)).1 = 1 ∧
    (gp_disassemble_mark_false_addresses example_far_goto_map 0
      (example_px .PIC16E 1 ⟨.LIT20, .GOTO⟩ 0x100)).1 = 2 ∧
    gp_disassemble example_masks example_gpdis_consts example_far_goto_map 0
      (example_px .PIC16E 1 ⟨.LIT20, .GOTO⟩ 0x100).class_ 0x100 false 12 = 1 := by
  refine ⟨by decide, ?_, by decide, by decide⟩
  decide

/-! ## The fixed-point optimiser: the banksel loop ends -/

theorem or_sub_le {a b : Nat} (h : a ||| b = b) : a ≤ b := by
  apply Nat.le_of_testBit
  intro i hi
  have := congrArg (fun x => Nat.testBit x i) h
  simp only [Nat.testBit_or, hi, Bool.true_or] at this
  exact this.symm

theorem or_sub_trans {a b c : Nat} (h1 : a ||| b = b) (h2 : b ||| c = c) : a ||| c = c := by
  rw [← h2, ← Nat.or_assoc, h1]

theorem or_sub_mono {a a1 b b1 : Nat} (h1 : a ||| a1 = a1) (h2 : b ||| b1 = b1) :
    (a ||| b) ||| (a1 ||| b1) = a1 ||| b1 := by
  have e : (a ||| b) ||| (a1 ||| b1) = (a ||| a1) ||| (b ||| b1) := by
    apply Nat.eq_of_testBit_eq
    intro i
    simp only [Nat.testBit_or]
    cases Nat.testBit a i <;> cases Nat.testBit b i <;> cases Nat.testBit a1 i <;>
      cases Nat.testBit b1 i <;> rfl
  rw [e, h1, h2]

theorem or_sub_undef {a : Nat} (h : a < 2 ^ 32) : a ||| REMOVAL_STATE_UNDEF = REMOVAL_STATE_UNDEF := by
  apply Nat.eq_of_testBit_eq
  intro i
  simp only [Nat.testBit_or, REMOVAL_STATE_UNDEF, Nat.testBit_two_pow_sub_one]
  by_cases hi : i < 32
  · simp [hi]
  · simp only [hi, decide_False, Bool.or_false]
    apply Nat.testBit_lt_two_pow
    exact lt_of_lt_of_le h (Nat.pow_le_pow_right (by norm_num) (by omega))

theorem state_at_lt (L : List _removal_t)
    (hb : ∀ (k : Nat) (p : _removal_t), L[k]? = some p → p.state < 2 ^ 32) (k : Nat) :
    state_at L k < 2 ^ 32 := by
  unfold state_at
  cases h : L[k]? with
  | none => norm_num
  | some e => exact hb k e h

theorem state_union_lt (xs : List Nat) (h : ∀ x ∈ xs, x < 2 ^ 32) : state_union xs < 2 ^ 32 := by
  induction xs with
  | nil => simp [state_union]
  | cons x rest ih =>
    rw [state_union_cons]
    exact Nat.or_lt_two_pow (h x (List.mem_cons_self _ _))
      (ih (fun y hy => h y (List.mem_cons_of_mem _ hy)))

theorem state_union_mono (f g : Nat → Nat) (hfg : ∀ k, f k ||| g k = g k) (chain : List Nat) :
    state_union (chain.map f) ||| state_union (chain.map g) = state_union (chain.map g) := by
  induction chain with
  | nil => simp [state_union]
  | cons x rest ih =>
    simp only [List.map_cons, state_union_cons]
    exact or_sub_mono (hfg x) ih

theorem states_sum_set (L : List _removal_t) :
    ∀ (k : Nat) (p p1 : _removal_t), L[k]? = some p →
      states_sum (L.set k p1) + p.state = states_sum L + p1.state := by
  induction L with
  | nil => intro k p p1 h; simp at h
  | cons e rest ih =>
    intro k p p1 h
    cases k with
    | zero =>
      simp only [List.getElem?_cons_zero, Option.some.injEq] at h
      subst h
      simp only [List.set_cons_zero, states_sum]
      omega
    | succ k =>
      simp only [List.getElem?_cons_succ] at h
      have := ih k p p1 h
      simp only [List.set_cons_succ, states_sum]
      omega

theorem state_at_set (L : List _removal_t) (k : Nat) (p p1 : _removal_t) (hp : L[k]? = some p)
    (j : Nat) : state_at (L.set k p1) j = if j = k then p1.state else state_at L j := by
  unfold state_at
  by_cases hj : j = k
  · subst hj
    rw [set_same L j p1 p hp, if_pos rfl]
  · rw [(set_frame L k p1).2 j hj, if_neg hj]

theorem source_chain_set (L : List _removal_t) (k : Nat) (p p1 : _removal_t)
    (hp : L[k]? = some p) (hs : p1.source = p.source) :
    ∀ (fuel : Nat) (src : Option Nat),
      source_chain (L.set k p1) fuel src = source_chain L fuel src := by
  intro fuel
  induction fuel with
  | zero => intro src; cases src <;> rfl
  | succ fuel ih =>
    intro src
    cases src with
    | none => rfl
    | some s =>
      unfold source_chain
      by_cases hsk : s = k
      · subst hsk
        rw [set_same L s p1 p hp, hp]
        simp only [hs, ih]
      · rw [(set_frame L k p1).2 s hsk]
        cases L[s]? with
        | none => rfl
        | some src1 => simp only [ih]

/-- The loop of the banksel variant over the sources of a label returns when the
chain of sources ends. -/
theorem banksel_label_entry_some (L : List _removal_t) (hpos : 0 < L.length) :
    ∀ (fuel : Nat) (src : Option Nat) (chain : List Nat) (e : Nat),
      source_chain L fuel src = some chain →
      banksel_label_entry L fuel src e
        = some (e ||| state_union (chain.map (fun k => state_at L (removal_prev L.length k)))) := by
  intro fuel
  induction fuel with
  | zero =>
    intro src chain e h
    cases src with
    | none =>
      simp only [source_chain, Option.some.injEq] at h
      subst h
      simp [banksel_label_entry, state_union]
    | some s => simp [source_chain] at h
  | succ fuel ih =>
    intro src chain e h
    cases src with
    | none =>
      simp only [source_chain, Option.some.injEq] at h
      subst h
      simp [banksel_label_entry, state_union]
    | some s =>
      unfold source_chain at h
      cases hs : L[s]? with
      | none => simp [hs] at h
      | some src1 =>
        simp only [hs, Option.map_eq_some'] at h
        obtain ⟨c, hc, rfl⟩ := h
        have hlt : removal_prev L.length s < L.length := Nat.mod_lt _ hpos
        obtain ⟨sp, hsp⟩ : ∃ sp, L[removal_prev L.length s]? = some sp :=
          ⟨L[removal_prev L.length s], List.getElem?_eq_getElem hlt⟩
        unfold banksel_label_entry
        simp only [hs, hsp]
        rw [ih src1.source c _ hc]
        simp only [List.map_cons, state_union_cons]
        have e1 : state_at L (removal_prev L.length s) = sp.state := by
          simp [state_at, hsp]
        rw [e1, Nat.or_assoc]

/-- The invariant is kept when the element in position `k` is replaced by one of
the same type and with the same sources, whose state lies within the old state
and includes the value that the check assigns. -/
theorem banksel_inv_set (L : List _removal_t) (hinv : banksel_inv L) (k : Nat)
    (p p1 : _removal_t) (hp : L[k]? = some p) (htype : p1.type_ = p.type_)
    (hsrc : p1.source = p.source) (hsub : p1.state ||| p.state = p.state)
    (hgoto : p.type_ = REMOVAL_TYPE_GOTO →
      state_at L (removal_prev L.length k) ||| p1.state = p1.state)
    (hlabel : ∀ chain, p.type_ = REMOVAL_TYPE_LABEL →
      source_chain L L.length p.source = some chain →
      banksel_label_value L k chain ||| p1.state = p1.state) :
    banksel_inv (L.set k p1) := by
  have hlen : (L.set k p1).length = L.length := List.length_set _ _ _
  have hst : ∀ j, state_at (L.set k p1) j ||| state_at L j = state_at L j := by
    intro j
    rw [state_at_set L k p p1 hp j]
    by_cases hj : j = k
    · subst hj
      rw [if_pos rfl]
      have : state_at L j = p.state := by simp [state_at, hp]
      rw [this]
      exact hsub
    · rw [if_neg hj, Nat.or_self]
  have hval : ∀ (j : Nat) (chain : List Nat),
      banksel_label_value (L.set k p1) j chain ||| banksel_label_value L j chain
        = banksel_label_value L j chain := by
    intro j chain
    unfold banksel_label_value
    rw [hlen]
    exact or_sub_mono (hst _)
      (state_union_mono _ _ (fun x => hst (removal_prev L.length x)) chain)
  have hget : ∀ (j : Nat) (q : _removal_t), (L.set k p1)[j]? = some q →
      (j = k ∧ q = p1) ∨ (j ≠ k ∧ L[j]? = some q) := by
    intro j q hq
    by_cases hj : j = k
    · subst hj
      rw [set_same L j p1 p hp] at hq
      cases hq
      exact Or.inl ⟨rfl, rfl⟩
    · rw [(set_frame L k p1).2 j hj] at hq
      exact Or.inr ⟨hj, hq⟩
  refine ⟨by rw [hlen]; exact hinv.pos, ?_, ?_, ?_, ?_⟩
  · intro j q hq
    rcases hget j q hq with ⟨-, rfl⟩ | ⟨-, hq1⟩
    · exact lt_of_le_of_lt (or_sub_le hsub) (hinv.bound k p hp)
    · exact hinv.bound j q hq1
  · intro j q hq hty
    rw [hlen, source_chain_set L k p p1 hp hsrc]
    rcases hget j q hq with ⟨-, rfl⟩ | ⟨-, hq1⟩
    · rw [hsrc]
      exact hinv.chains k p hp (htype ▸ hty)
    · exact hinv.chains j q hq1 hty
  · intro j q hq hty
    rw [hlen]
    rcases hget j q hq with ⟨rfl, rfl⟩ | ⟨-, hq1⟩
    · exact or_sub_trans (hst _) (hgoto (htype ▸ hty))
    · exact or_sub_trans (hst _) (hinv.goto_le j q hq1 hty)
  · intro j q chain hq hty hch
    rw [hlen, source_chain_set L k p p1 hp hsrc] at hch
    rcases hget j q hq with ⟨rfl, rfl⟩ | ⟨-, hq1⟩
    · rw [hsrc] at hch
      exact or_sub_trans (hval _ chain) (hlabel chain (htype ▸ hty) hch)
    · exact or_sub_trans (hval _ chain) (hinv.label_le j q chain hq1 hty hch)

theorem xor_remove_and_fixed (f : Nat) :
    (f ^^^ REMOVAL_FLAG_REMOVE) &&& REMOVAL_FLAG_FIXED = f &&& REMOVAL_FLAG_FIXED := by
  apply Nat.eq_of_testBit_eq
  intro i
  have e1 : REMOVAL_FLAG_REMOVE = 2 ^ 2 := by decide
  have e2 : REMOVAL_FLAG_FIXED = 2 ^ 1 := by decide
  simp only [Nat.testBit_and, Nat.testBit_xor, e1, e2, Nat.testBit_two_pow]
  by_cases h1 : 1 = i
  · subst h1
    simp
  · simp [h1]

theorem xor_remove_and_remove (f : Nat) :
    ((f ^^^ REMOVAL_FLAG_REMOVE) &&& REMOVAL_FLAG_REMOVE ≠ 0) ↔
      ¬ (f &&& REMOVAL_FLAG_REMOVE ≠ 0) := by
  have e1 : REMOVAL_FLAG_REMOVE = 2 ^ 2 := by decide
  rw [e1, Nat.and_two_pow, Nat.and_two_pow, Nat.testBit_xor, Nat.testBit_two_pow_self]
  cases Nat.testBit f 2 <;> decide

theorem state_at_of_get (L : List _removal_t) (k : Nat) (p : _removal_t) (hp : L[k]? = some p) :
    state_at L k = p.state := by
  simp [state_at, hp]

theorem state_at_set_same (L : List _removal_t) (k : Nat) (p p1 : _removal_t)
    (hp : L[k]? = some p) (hs : p1.state = p.state) (j : Nat) :
    state_at (L.set k p1) j = state_at L j := by
  rw [state_at_set L k p p1 hp j]
  by_cases hj : j = k
  · subst hj
    rw [if_pos rfl, hs, state_at_of_get L j p hp]
  · rw [if_neg hj]

theorem cons_at_other (L : List _removal_t) (k : Nat) (q : _removal_t) (hq : L[k]? = some q)
    (hty : q.type_ ≠ REMOVAL_TYPE_BANKSEL) : banksel_cons_at L k := by
  intro p hp hb _
  rw [hq] at hp
  cases hp
  exact absurd hb hty

/-- One call of `_banksel_check_state` on an element whose state is not fixed, in
a list with the invariant: the call returns, the invariant holds after it, and
either no state has changed, the call reports a change only if the flag of the
element disagreed with the states, and the flag agrees after it; or the sum of
the states has gone down. -/
theorem banksel_check_step (L : List _removal_t) (hinv : banksel_inv L) (k : Nat)
    (p : _removal_t) (hp : L[k]? = some p) (hfix : p.flags &&& REMOVAL_FLAG_FIXED = 0) :
    ∃ c L1, _banksel_check_state L k = some (c, L1) ∧ banksel_inv L1 ∧
      L1.length = L.length ∧ (∀ j, j ≠ k → L1[j]? = L[j]?) ∧
      ((states_sum L1 = states_sum L ∧ (∀ j, state_at L1 j = state_at L j) ∧
          (c = true → ¬ banksel_cons_at L k) ∧ banksel_cons_at L1 k) ∨
        states_sum L1 < states_sum L) := by
  have hlt : removal_prev L.length k < L.length := Nat.mod_lt _ hinv.pos
  obtain ⟨pr, hpr⟩ : ∃ pr, L[removal_prev L.length k]? = some pr :=
    ⟨L[removal_prev L.length k], List.getElem?_eq_getElem hlt⟩
  have hprs : state_at L (removal_prev L.length k) = pr.state := state_at_of_get L _ pr hpr
  have hbg : REMOVAL_TYPE_BANKSEL ≠ REMOVAL_TYPE_GOTO := by decide
  have hbl : REMOVAL_TYPE_BANKSEL ≠ REMOVAL_TYPE_LABEL := by decide
  have hgl : REMOVAL_TYPE_GOTO ≠ REMOVAL_TYPE_LABEL := by decide
  unfold _banksel_check_state
  simp only [hp, hpr]
  by_cases c1 : p.type_ = REMOVAL_TYPE_BANKSEL
  · rw [if_pos c1]
    by_cases htest : decide (pr.state = p.state) = decide (p.flags &&& REMOVAL_FLAG_REMOVE ≠ 0)
    · rw [if_pos htest]
      refine ⟨false, L, rfl, hinv, rfl, fun _ _ => rfl,
        Or.inl ⟨rfl, fun _ => rfl, fun h => absurd h (by simp), ?_⟩⟩
      intro q hq _ _
      rw [hp] at hq
      cases hq
      rw [hprs]
      exact htest
    · rw [if_neg htest]
      have hinv1 := banksel_inv_set L hinv k p { p with flags := p.flags ^^^ REMOVAL_FLAG_REMOVE }
        hp rfl rfl (Nat.or_self _) (fun h => absurd (c1.symm.trans h) hbg)
        (fun _ h _ => absurd (c1.symm.trans h) hbl)
      have hsum := states_sum_set L k p { p with flags := p.flags ^^^ REMOVAL_FLAG_REMOVE } hp
      have hsame := state_at_set_same L k p { p with flags := p.flags ^^^ REMOVAL_FLAG_REMOVE }
        hp rfl
      refine ⟨true, _, rfl, hinv1, List.length_set _ _ _, (set_frame L k _).2,
        Or.inl ⟨by simp only [] at hsum; omega, hsame, fun _ hc => ?_, ?_⟩⟩
      · have := hc p hp c1 hfix
        rw [hprs] at this
        exact htest this
      · intro q hq _ _
        rw [set_same L k _ p hp] at hq
        cases hq
        rw [List.length_set, hsame, hprs]
        have hx := xor_remove_and_remove p.flags
        by_cases ha : pr.state = p.state <;>
          by_cases hb : p.flags &&& REMOVAL_FLAG_REMOVE ≠ 0 <;>
          simp_all
  · rw [if_neg c1]
    by_cases c2 : p.type_ = REMOVAL_TYPE_GOTO
    · rw [if_pos c2]
      have hle := hinv.goto_le k p hp c2
      rw [hprs] at hle
      by_cases he : pr.state = p.state
      · rw [if_pos he]
        exact ⟨false, L, rfl, hinv, rfl, fun _ _ => rfl,
          Or.inl ⟨rfl, fun _ => rfl, fun h => absurd h (by simp), cons_at_other L k p hp c1⟩⟩
      · rw [if_neg he]
        have hinv1 := banksel_inv_set L hinv k p { p with state := pr.state } hp rfl rfl hle
          (fun _ => by rw [hprs]; exact Nat.or_self _)
          (fun _ h _ => absurd (c2.symm.trans h) hgl)
        have hsum := states_sum_set L k p { p with state := pr.state } hp
        have hlt2 : pr.state < p.state := lt_of_le_of_ne (or_sub_le hle) he
        refine ⟨true, _, rfl, hinv1, List.length_set _ _ _, (set_frame L k _).2, Or.inr ?_⟩
        simp only [] at hsum
        omega
    · rw [if_neg c2]
      by_cases c3 : p.type_ = REMOVAL_TYPE_LABEL
      · rw [if_pos c3]
        obtain ⟨chain, hch⟩ := hinv.chains k p hp c3
        have hentry := banksel_label_entry_some L hinv.pos L.length p.source chain pr.state hch
        have hval : pr.state ||| state_union
            (chain.map (fun x => state_at L (removal_prev L.length x)))
            = banksel_label_value L k chain := by
          unfold banksel_label_value
          rw [hprs]
        rw [hval] at hentry
        have hle := hinv.label_le k p chain hp c3 hch
        rw [hentry]
        dsimp only
        by_cases he : banksel_label_value L k chain = p.state
        · rw [if_pos he]
          exact ⟨false, L, rfl, hinv, rfl, fun _ _ => rfl,
            Or.inl ⟨rfl, fun _ => rfl, fun h => absurd h (by simp), cons_at_other L k p hp c1⟩⟩
        · rw [if_neg he]
          have hinv1 := banksel_inv_set L hinv k p
            { p with state := banksel_label_value L k chain } hp rfl rfl hle
            (fun h => absurd (c3.symm.trans h) hgl.symm)
            (fun chain1 _ hch1 => by
              rw [hch] at hch1
              cases hch1
              exact Nat.or_self _)
          have hsum := states_sum_set L k p { p with state := banksel_label_value L k chain } hp
          have hlt2 : banksel_label_value L k chain < p.state :=
            lt_of_le_of_ne (or_sub_le hle) he
          refine ⟨true, _, rfl, hinv1, List.length_set _ _ _, (set_frame L k _).2, Or.inr ?_⟩
          simp only [] at hsum
          omega
      · rw [if_neg c3]
        have hinv1 := banksel_inv_set L hinv k p
          { p with flags := p.flags ||| REMOVAL_FLAG_FIXED } hp rfl rfl (Nat.or_self _)
          (fun h => absurd h c2) (fun _ h _ => absurd h c3)
        have hsum := states_sum_set L k p { p with flags := p.flags ||| REMOVAL_FLAG_FIXED } hp
        have hsame := state_at_set_same L k p { p with flags := p.flags ||| REMOVAL_FLAG_FIXED }
          hp rfl
        refine ⟨false, _, rfl, hinv1, List.length_set _ _ _, (set_frame L k _).2,
          Or.inl ⟨by simp only [] at hsum; omega, hsame, fun h => absurd h (by simp), ?_⟩⟩
        exact cons_at_other _ k _ (set_same L k _ p hp) c1

theorem cons_at_congr (L L1 : List _removal_t) (hlen : L1.length = L.length) (j : Nat)
    (hj : L1[j]? = L[j]?) (hs : ∀ i, state_at L1 i = state_at L i)
    (h : banksel_cons_at L j) : banksel_cons_at L1 j := by
  intro p hp hty hfx
  rw [hj] at hp
  rw [hlen, hs]
  exact h p hp hty hfx

/-- One run of the inner loop of `_removal_process_list` with
`_banksel_check_state`, from the position `k` on, in a list with the invariant:
the run returns and keeps the invariant; the sum of the states does not go up;
if the run reports a change, the sum has gone down or a flag disagreed with the
states at the start of the run; and if the sum is what it was at the start,
every flag agrees with the states at the end. -/
theorem banksel_pass_spec (L0 : List _removal_t) :
    ∀ (m k : Nat) (c : Bool) (L : List _removal_t), k + m = L0.length → banksel_inv L →
      L.length = L0.length →
      (states_sum L < states_sum L0 ∨
        (states_sum L = states_sum L0 ∧ ∀ j, state_at L j = state_at L0 j)) →
      (c = true → states_sum L < states_sum L0 ∨ ∃ j, ¬ banksel_cons_at L0 j) →
      (states_sum L = states_sum L0 → ∀ j, j < k → banksel_cons_at L j) →
      (∀ j, k ≤ j → L[j]? = L0[j]?) →
      ∃ c1 L1, removal_pass _banksel_check_state (List.range' k m) c L = some (c1, L1) ∧
        banksel_inv L1 ∧ L1.length = L0.length ∧
        (states_sum L1 < states_sum L0 ∨
          (states_sum L1 = states_sum L0 ∧ ∀ j, state_at L1 j = state_at L0 j)) ∧
        (c1 = true → states_sum L1 < states_sum L0 ∨ ∃ j, ¬ banksel_cons_at L0 j) ∧
        (states_sum L1 = states_sum L0 → ∀ j, j < L0.length → banksel_cons_at L1 j) := by
  intro m
  induction m with
  | zero =>
    intro k c L hk hinv hlen h1 h2 h3 _
    refine ⟨c, L, rfl, hinv, hlen, h1, h2, ?_⟩
    intro hs j hj
    exact h3 hs j (by omega)
  | succ m ih =>
    intro k c L hk hinv hlen h1 h2 h3 h4
    have hkl : k < L.length := by omega
    obtain ⟨ptr, hptr⟩ : ∃ ptr, L[k]? = some ptr := ⟨L[k], List.getElem?_eq_getElem hkl⟩
    have hle : states_sum L ≤ states_sum L0 := by
      rcases h1 with h | h
      · omega
      · omega
    rw [List.range'_succ]
    unfold removal_pass
    simp only [hptr]
    by_cases hfix : ptr.flags &&& REMOVAL_FLAG_FIXED = 0
    · rw [if_pos hfix]
      obtain ⟨c1, L1, hcheck, hinv1, hlen1, hframe, hcase⟩ :=
        banksel_check_step L hinv k ptr hptr hfix
      rw [hcheck]
      dsimp only
      apply ih (k + 1) (c1 || c) L1 (by omega) hinv1 (hlen1.trans hlen)
      · rcases hcase with ⟨hs, hst, -, -⟩ | hd
        · rcases h1 with h | ⟨h, hst0⟩
          · left; omega
          · right
            exact ⟨by omega, fun j => (hst j).trans (hst0 j)⟩
        · left; omega
      · intro hc
        rcases hcase with ⟨hs, hst, hc1, -⟩ | hd
        · cases hcc : c with
          | true =>
            rcases h2 hcc with h | h
            · left; omega
            · exact Or.inr h
          | false =>
            have hc1t : c1 = true := by simpa [hcc] using hc
            rcases h1 with h | ⟨h, hst0⟩
            · left; omega
            · right
              refine ⟨k, fun hcons => hc1 hc1t ?_⟩
              exact cons_at_congr L0 L hlen k (h4 k (le_refl _)) hst0 hcons
        · left; omega
      · intro hs j hj
        rcases hcase with ⟨hs1, hst, -, hcons⟩ | hd
        · by_cases hjk : j = k
          · subst hjk
            exact hcons
          · have := h3 (by omega) j (by omega)
            exact cons_at_congr L L1 hlen1 j (hframe j hjk) hst this
        · omega
      · intro j hj
        rw [hframe j (by omega)]
        exact h4 j (by omega)
    · rw [if_neg hfix]
      apply ih (k + 1) c L (by omega) hinv hlen h1 h2
      · intro hs j hj
        by_cases hjk : j = k
        · subst hjk
          intro p hp _ hfx
          rw [hptr] at hp
          cases hp
          exact absurd hfx hfix
        · exact h3 hs j (by omega)
      · intro j hj
        exact h4 j (by omega)

theorem cons_at_out_of_range (L : List _removal_t) (j : Nat) (hj : L.length ≤ j) :
    banksel_cons_at L j := by
  intro p hp _ _
  rw [List.getElem?_eq_none hj] at hp
  cases hp

/-- The loop of `_removal_process_list` with `_banksel_check_state` ends on every
list with the invariant. -/
theorem banksel_loop_terminates :
    ∀ (s : Nat) (L : List _removal_t), banksel_inv L → states_sum L ≤ s →
      ∃ fuel r, removal_loop _banksel_check_state fuel L = some r := by
  intro s
  induction s using Nat.strong_induction_on with
  | _ s ih =>
    intro L hinv hs
    obtain ⟨c1, L1, hpass1, hinv1, hlen1, hj1, hc1, hcons1⟩ :=
      banksel_pass_spec L L.length 0 false L (by omega) hinv rfl
        (Or.inr ⟨rfl, fun _ => rfl⟩) (fun h => absurd h (by simp)) (fun _ j hj => by omega)
        (fun _ _ => rfl)
    rw [← List.range_eq_range'] at hpass1
    cases hcc1 : c1 with
    | false =>
      refine ⟨1, L1, ?_⟩
      unfold removal_loop
      rw [hpass1, hcc1]
      rfl
    | true =>
      by_cases hd : states_sum L1 < states_sum L
      · obtain ⟨fuel, r, hr⟩ := ih (states_sum L1) (by omega) L1 hinv1 (le_refl _)
        refine ⟨fuel + 1, r, ?_⟩
        unfold removal_loop
        rw [hpass1, hcc1]
        exact hr
      · have hseq : states_sum L1 = states_sum L := by
          rcases hj1 with h | h
          · exact absurd h hd
          · exact h.1
        have hcons := hcons1 hseq
        obtain ⟨c2, L2, hpass2, hinv2, hlen2, hj2, hc2, -⟩ :=
          banksel_pass_spec L1 L1.length 0 false L1 (by omega) hinv1 rfl
            (Or.inr ⟨rfl, fun _ => rfl⟩) (fun h => absurd h (by simp)) (fun _ j hj => by omega)
            (fun _ _ => rfl)
        rw [← List.range_eq_range'] at hpass2
        cases hcc2 : c2 with
        | false =>
          refine ⟨2, L2, ?_⟩
          unfold removal_loop
          rw [hpass1, hcc1]
          dsimp only
          unfold removal_loop
          rw [hpass2, hcc2]
          rfl
        | true =>
          rcases hc2 hcc2 with h | ⟨j, hj⟩
          · obtain ⟨fuel, r, hr⟩ := ih (states_sum L2) (by omega) L2 hinv2 (le_refl _)
            refine ⟨fuel + 2, r, ?_⟩
            unfold removal_loop
            rw [hpass1, hcc1]
            dsimp only
            unfold removal_loop
            rw [hpass2, hcc2]
            exact hr
          · exfalso
            apply hj
            by_cases hjl : j < L.length
            · exact hcons j hjl
            · exact cons_at_out_of_range L1 j (by omega)

theorem banksel_inv_of_undef (L : List _removal_t) (hpos : 0 < L.length)
    (hb : ∀ (k : Nat) (p : _removal_t), L[k]? = some p → p.state < 2 ^ 32)
    (hu : ∀ (k : Nat) (p : _removal_t), L[k]? = some p →
      p.type_ = REMOVAL_TYPE_GOTO ∨ p.type_ = REMOVAL_TYPE_LABEL → p.state = REMOVAL_STATE_UNDEF)
    (hc : ∀ (k : Nat) (p : _removal_t), L[k]? = some p → p.type_ = REMOVAL_TYPE_LABEL →
      ∃ chain, source_chain L L.length p.source = some chain) :
    banksel_inv L := by
  refine ⟨hpos, hb, hc, ?_, ?_⟩
  · intro k p hp hty
    rw [hu k p hp (Or.inl hty)]
    exact or_sub_undef (state_at_lt L hb _)
  · intro k p chain hp hty _
    rw [hu k p hp (Or.inr hty)]
    apply or_sub_undef
    unfold banksel_label_value
    apply Nat.or_lt_two_pow (state_at_lt L hb _)
    apply state_union_lt
    intro x hx
    obtain ⟨y, -, rfl⟩ := List.mem_map.1 hx
    exact state_at_lt L hb _

/-- For every list with the properties `banksel_prepared` (not empty, states below
`2^32`, the state of every `goto` and label element `REMOVAL_STATE_UNDEF`, the
chain of sources of every label ending), `_removal_process_list` with
`_banksel_check_state` returns: after finitely many runs of the inner loop a run
changes no element. -/
theorem banksel_terminates_of_prepared (L : List _removal_t)
    (h : banksel_prepared L = true) :
    ∃ fuel r, _removal_process_list _banksel_check_state fuel L = some r := by
  cases L with
  | nil => simp [banksel_prepared] at h
  | cons head rest =>
    simp only [banksel_prepared, List.isEmpty_cons, Bool.not_false, Bool.true_and,
      List.all_eq_true, Bool.and_eq_true, decide_eq_true_eq] at h
    have hel : ∀ (k : Nat) (q : _removal_t),
        (({ head with flags := head.flags ||| REMOVAL_FLAG_FIRST } :: rest : List _removal_t))[k]?
          = some q →
        ∃ p, (head :: rest)[k]? = some p ∧ q.state = p.state ∧ q.type_ = p.type_ ∧
          q.source = p.source := by
      intro k q hq
      cases k with
      | zero =>
        simp only [List.getElem?_cons_zero, Option.some.injEq] at hq
        subst hq
        exact ⟨head, List.getElem?_cons_zero, rfl, rfl, rfl⟩
      | succ k =>
        simp only [List.getElem?_cons_succ] at hq
        exact ⟨q, by simpa using hq, rfl, rfl, rfl⟩
    have hchain : ∀ (fuel : Nat) (src : Option Nat),
        source_chain ({ head with flags := head.flags ||| REMOVAL_FLAG_FIRST } :: rest) fuel src
          = source_chain (head :: rest) fuel src :=
      source_chain_set (head :: rest) 0 head _ List.getElem?_cons_zero rfl
    have hinv : banksel_inv ({ head with flags := head.flags ||| REMOVAL_FLAG_FIRST } :: rest) := by
      apply banksel_inv_of_undef
      · simp
      · intro k q hq
        obtain ⟨p, hp, hs, -, -⟩ := hel k q hq
        rw [hs]
        exact (h p (List.mem_iff_getElem?.2 ⟨k, hp⟩)).1.1
      · intro k q hq hty
        obtain ⟨p, hp, hs, ht, -⟩ := hel k q hq
        rw [hs]
        rw [ht] at hty
        have := (h p (List.mem_iff_getElem?.2 ⟨k, hp⟩)).1.2
        rw [if_pos hty] at this
        simpa using this
      · intro k q hq hty
        obtain ⟨p, hp, -, ht, hsrc⟩ := hel k q hq
        rw [ht] at hty
        have := (h p (List.mem_iff_getElem?.2 ⟨k, hp⟩)).2
        rw [if_pos hty] at this
        rw [hchain, hsrc]
        simp only [List.length_cons] at this ⊢
        exact Option.isSome_iff_exists.1 this
    obtain ⟨fuel, r, hr⟩ := banksel_loop_terminates _ _ hinv (le_refl _)
    refine ⟨fuel, (r.any (fun e => decide (e.flags &&& REMOVAL_FLAG_REMOVE ≠ 0)), r), ?_⟩
    unfold _removal_process_list
    simp only [hr]

/-- On the list of the examples (a section, bank selections, a call, a label)
`_removal_process_list` with `_banksel_check_state` returns. -/
theorem banksel_terminates_of_prepared_example :
    ∃ fuel r, _removal_process_list _banksel_check_state fuel example_banksel_list = some r :=
  banksel_terminates_of_prepared example_banksel_list (by decide)

/-! ## The fixed-point optimiser: a pagesel run without end -/

theorem crossing_pass_even :
    removal_pass (_pagesel_check_state example_removal_env example_crossing_sections)
      (List.range example_crossing_even.length) false example_crossing_even
      = some (true, example_crossing_odd) := by
  decide

theorem crossing_pass_odd :
    removal_pass (_pagesel_check_state example_removal_env example_crossing_sections)
      (List.range example_crossing_odd.length) false example_crossing_odd
      = some (true, example_crossing_even) := by
  decide

theorem crossing_loop_none (fuel : Nat) :
    removal_loop (_pagesel_check_state example_removal_env example_crossing_sections) fuel
      example_crossing_even = none ∧
    removal_loop (_pagesel_check_state example_removal_env example_crossing_sections) fuel
      example_crossing_odd = none := by
  induction fuel with
  | zero => exact ⟨rfl, rfl⟩
  | succ n ih =>
    constructor
    · unfold removal_loop
      rw [crossing_pass_even]
      exact ih.2
    · unfold removal_loop
      rw [crossing_pass_odd]
      exact ih.1

theorem crossing_first_passes (fuel : Nat) :
    removal_loop (_pagesel_check_state example_removal_env example_crossing_sections) (fuel + 2)
      ({ example_removal_elem REMOVAL_TYPE_SECTION 0 0x7FE REMOVAL_STATE_UNDEF none none with
          flags := 0 ||| REMOVAL_FLAG_FIRST } :: example_crossing_list.tail)
      = removal_loop (_pagesel_check_state example_removal_env example_crossing_sections) fuel
          example_crossing_even := by
  rfl

/-- C34: for the object with a section of three instruction words that ends in the
next page and begins with a page selection for a label of the following section,
`_removal_prepare_list` with `_pagesel_add_reloc` builds the list
`example_crossing_list` and returns true, and on this list the loop of
`_removal_process_list` with `_pagesel_check_state` has no run without change:
for every number of runs allowed it has not ended.  From the second run on the
list alternates between two contents, every run reports a change, the section
is moved to the next page (state `1 << 1`) in one run and back to its own page
(state `1 << 0`) in the next, and the flag `REMOVAL_FLAG_REPAGE_FAILED` is never
set. -/
theorem pagesel_process_list_no_fixed_point :
    (_removal_prepare_list example_prepare_env (_pagesel_add_reloc example_prepare_env)
        example_crossing_object).map (fun r => (removal_list_of_heap r.1, r.2))
      = some (some example_crossing_list, true) ∧
    (∀ fuel, _removal_process_list
      (_pagesel_check_state example_removal_env example_crossing_sections) fuel
      example_crossing_list = none) ∧
    removal_pass (_pagesel_check_state example_removal_env example_crossing_sections)
      (List.range example_crossing_even.length) false example_crossing_even
      = some (true, example_crossing_odd) ∧
    removal_pass (_pagesel_check_state example_removal_env example_crossing_sections)
      (List.range example_crossing_odd.length) false example_crossing_odd
      = some (true, example_crossing_even) ∧
    example_crossing_even.map (fun e => e.state) = [2, 2, 2, 2] ∧
    example_crossing_odd.map (fun e => e.state) = [1, 2, 2, 2] ∧
    (∀ e ∈ example_crossing_even ++ example_crossing_odd,
      e.flags &&& REMOVAL_FLAG_REPAGE_FAILED = 0) := by
  refine ⟨by decide, ?_, crossing_pass_even, crossing_pass_odd, by decide, by decide,
    by decide⟩
  intro fuel
  cases fuel with
  | zero => rfl
  | succ n =>
    cases n with
    | zero => decide
    | succ m =>
      show (match removal_loop
          (_pagesel_check_state example_removal_env example_crossing_sections) (m + 2)
          ({ example_removal_elem REMOVAL_TYPE_SECTION 0 0x7FE REMOVAL_STATE_UNDEF none none with
              flags := 0 ||| REMOVAL_FLAG_FIRST } :: example_crossing_list.tail) with
        | none => none
        | some L1 =>
          some (L1.any (fun e => decide (e.flags &&& REMOVAL_FLAG_REMOVE ≠ 0)), L1)) = none
      rw [crossing_first_passes m, (crossing_loop_none m).1]

/-! ## The list of elements on the heap: order and links -/

theorem chain_of_inner {R S : Nat → Nat → Prop} :
    ∀ (r : List Nat), List.Chain' R r →
      (∀ c d, R c d → c ∈ r.dropLast → d ∈ r.tail → S c d) → List.Chain' S r
  | [], _, _ => List.chain'_nil
  | [_], _, _ => List.chain'_singleton _
  | x :: y :: t, h, himp => by
    rw [List.chain'_cons] at h ⊢
    refine ⟨himp x y h.1 (by simp) (by simp), chain_of_inner (y :: t) h.2 ?_⟩
    intro c d hcd hc hd
    refine himp c d hcd ?_ ?_
    · simp only [List.dropLast_cons₂, List.mem_cons]
      exact Or.inr hc
    · simp only [List.tail_cons, List.mem_cons] at hd ⊢
      exact Or.inr hd

theorem not_mem_dropLast_of_nodup {r : List Nat} {a : Nat} (hnd : r.Nodup)
    (hl : r.getLast? = some a) : a ∉ r.dropLast := by
  have h := List.dropLast_append_getLast? a hl
  rw [← h] at hnd
  intro hmem
  have := List.nodup_append.1 hnd
  exact this.2.2 hmem (by simp)

theorem not_mem_tail_of_nodup {r : List Nat} {b : Nat} (hnd : r.Nodup)
    (hh : r.head? = some b) : b ∉ r.tail := by
  cases r with
  | nil => simp
  | cons x t =>
    simp only [List.head?_cons, Option.some.injEq] at hh
    subst hh
    simpa using (List.nodup_cons.1 hnd).1

theorem removal_ring_rotate (cells : List removal_cell) (l1 l2 : List Nat)
    (h : removal_ring cells (l1 ++ l2)) : removal_ring cells (l2 ++ l1) := by
  cases l1 with
  | nil => simpa using h
  | cons h1 t1 =>
    cases l2 with
    | nil => simpa using h
    | cons h2 t2 =>
      unfold removal_ring at h ⊢
      have e1 : (h1 :: t1 ++ h2 :: t2) ++ List.take 1 (h1 :: t1 ++ h2 :: t2)
          = (h1 :: t1) ++ ((h2 :: t2) ++ [h1]) := by simp
      have e2 : (h2 :: t2 ++ h1 :: t1) ++ List.take 1 (h2 :: t2 ++ h1 :: t1)
          = (h2 :: t2) ++ ((h1 :: t1) ++ [h2]) := by simp
      rw [e1] at h
      rw [e2]
      rw [List.chain'_append] at h
      obtain ⟨c1, c2, c12⟩ := h
      rw [List.chain'_append] at c2
      obtain ⟨c2a, -, c21⟩ := c2
      rw [List.chain'_append]
      refine ⟨c2a, ?_, ?_⟩
      · rw [List.chain'_append]
        refine ⟨c1, List.chain'_singleton _, ?_⟩
        intro x hx y hy
        exact c12 x hx y (by simpa using hy)
      · intro x hx y hy
        exact c21 x hx y (by simpa using hy)
theorem set_cells_spec (cells : List removal_cell) (a b : Nat) (cell : removal_cell)
    (ha : a < cells.length) (hb : b < cells.length) :
    ∃ cells2 cells3 : List removal_cell, set_cell_next (cells ++ [cell]) a cells.length = some cells2 ∧
      set_cell_prev cells2 b cells.length = some cells3 ∧
      cells3.length = cells.length + 1 ∧
      cells3[cells.length]? = some cell ∧
      ∀ (i : Nat) (c : removal_cell), cells[i]? = some c →
        cells3[i]? = some { prev := if i = b then cells.length else c.prev
                            next := if i = a then cells.length else c.next
                            elem := c.elem } := by
  have ha1 : (cells ++ [cell])[a]? = some cells[a] := by
    rw [List.getElem?_append_left ha, List.getElem?_eq_getElem ha]
  let cells2 : List removal_cell :=
    (cells ++ [cell]).set a { cells[a] with next := cells.length }
  have h2 : set_cell_next (cells ++ [cell]) a cells.length = some cells2 := by
    simp only [set_cell_next, ha1]
  have hlen2 : cells2.length = cells.length + 1 := by simp [cells2]
  have hb2 : b < cells2.length := by omega
  let cells3 : List removal_cell := cells2.set b { cells2[b] with prev := cells.length }
  have h3 : set_cell_prev cells2 b cells.length = some cells3 := by
    simp only [set_cell_prev, List.getElem?_eq_getElem hb2]
  refine ⟨cells2, cells3, h2, h3, by simp [cells3, hlen2], ?_, ?_⟩
  · have : cells3[cells.length]? = (cells ++ [cell])[cells.length]? := by
      simp only [cells3, cells2]
      rw [List.getElem?_set_ne (by omega), List.getElem?_set_ne (by omega)]
    rw [this]
    simp
  · intro i c hic
    have hi : i < cells.length := by
      by_contra hn
      rw [List.getElem?_eq_none (by omega)] at hic
      cases hic
    have hci : cells[i] = c := by
      rw [List.getElem?_eq_getElem hi] at hic
      exact Option.some.inj hic
    have hc2 : cells2[i]? = some { prev := c.prev
                                   next := if i = a then cells.length else c.next
                                   elem := c.elem } := by
      simp only [cells2]
      by_cases hia : i = a
      · subst hia
        rw [List.getElem?_set_self (by simp; omega)]
        simp [hci]
      · rw [List.getElem?_set_ne (fun h => hia h.symm), List.getElem?_append_left hi, hic]
        simp [hia]
    simp only [cells3]
    by_cases hib : i = b
    · subst hib
      rw [List.getElem?_set_self hb2]
      have hc2b := hc2
      rw [List.getElem?_eq_getElem hb2] at hc2b
      rw [Option.some.inj hc2b]
      simp
    · rw [List.getElem?_set_ne (fun h => hib h.symm), hc2]
      simp [hib]
theorem removal_ring_insert (cells cells3 : List removal_cell) (r : List Nat) (a b : Nat)
    (cell : removal_cell) (hnd : r.Nodup) (hbound : ∀ p ∈ r, p < cells.length)
    (hh : r.head? = some b) (hl : r.getLast? = some a) (hring : removal_ring cells r)
    (hprev : cell.prev = a) (hnext : cell.next = b)
    (hnew : cells3[cells.length]? = some cell)
    (hold : ∀ (i : Nat) (c : removal_cell), cells[i]? = some c →
        cells3[i]? = some { prev := if i = b then cells.length else c.prev
                            next := if i = a then cells.length else c.next
                            elem := c.elem }) :
    removal_ring cells3 (r ++ [cells.length]) := by
  have hbm : b ∈ r := List.mem_of_mem_head? hh
  have ham : a ∈ r := List.mem_of_mem_getLast? hl
  have hbN := hbound b hbm
  have haN := hbound a ham
  have e : (r ++ [cells.length]) ++ List.take 1 (r ++ [cells.length])
      = r ++ [cells.length, b] := by
    cases r with
    | nil => simp at hh
    | cons x t =>
      simp only [List.head?_cons, Option.some.injEq] at hh
      subst hh
      simp
  unfold removal_ring at hring ⊢
  rw [e, List.chain'_append]
  refine ⟨?_, ?_, ?_⟩
  · refine chain_of_inner r hring.left_of_append ?_
    intro c d hcd hc hd
    have hca : c ≠ a := fun h => not_mem_dropLast_of_nodup hnd hl (h ▸ hc)
    have hdb : d ≠ b := fun h => not_mem_tail_of_nodup hnd hh (h ▸ hd)
    obtain ⟨⟨cc, hcc, hccn⟩, ⟨cd, hcd2, hcdp⟩⟩ := hcd
    refine ⟨⟨_, hold c cc hcc, ?_⟩, ⟨_, hold d cd hcd2, ?_⟩⟩
    · simp [hca, hccn]
    · simp [hdb, hcdp]
  · rw [List.chain'_pair]
    refine ⟨⟨cell, hnew, hnext⟩, ⟨_, hold b cells[b] (List.getElem?_eq_getElem hbN), ?_⟩⟩
    simp
  · intro x hx y hy
    simp only [List.head?_cons, Option.mem_def, Option.some.injEq] at hy
    rw [Option.mem_def, hl] at hx
    cases Option.some.inj hx
    subst hy
    refine ⟨⟨_, hold a cells[a] (List.getElem?_eq_getElem haN), ?_⟩, ⟨cell, hnew, hprev⟩⟩
    simp
theorem removal_scan_path (cells : List removal_cell) (head Address Type_ pos : Nat)
    (pc : removal_cell) (hpos : cells[pos]? = some pc)
    (hstop : ¬ (_removal_compare pc.elem Address Type_ < 0 ∧ pc.next ≠ head)) :
    ∀ (l1 : List Nat) (s fuel : Nat), (l1 ++ [pos]).head? = some s → l1.length < fuel →
      List.Chain' (removal_linked cells) (l1 ++ [pos]) →
      (∀ p ∈ l1, ∃ c, cells[p]? = some c ∧ _removal_compare c.elem Address Type_ < 0) →
      (∀ p ∈ (l1 ++ [pos]).tail, p ≠ head) →
      removal_scan cells head Address Type_ fuel s
        = some (pos, _removal_compare pc.elem Address Type_)
  | [], s, fuel, hs, hf, _, _, _ => by
    simp only [List.nil_append, List.head?_cons, Option.some.injEq] at hs
    subst hs
    obtain ⟨f, rfl⟩ : ∃ f, fuel = f + 1 := ⟨fuel - 1, by simp at hf; omega⟩
    unfold removal_scan
    rw [hpos]
    simp only
    rw [if_neg hstop]
  | a :: l1, s, fuel, hs, hf, hch, hneg, hne => by
    simp only [List.cons_append, List.head?_cons, Option.some.injEq] at hs
    subst hs
    obtain ⟨f, rfl⟩ : ∃ f, fuel = f + 1 := ⟨fuel - 1, by simp at hf; omega⟩
    obtain ⟨ca, hca, hcneg⟩ := hneg a (by simp)
    rw [List.cons_append, List.chain'_cons'] at hch
    obtain ⟨s1, hs1⟩ : ∃ s1, (l1 ++ [pos]).head? = some s1 := by
      cases l1 with
      | nil => exact ⟨pos, rfl⟩
      | cons x t => exact ⟨x, rfl⟩
    obtain ⟨⟨ca2, hca2, hnext⟩, -⟩ := hch.1 s1 hs1
    rw [hca] at hca2
    cases Option.some.inj hca2
    have hs1ne : s1 ≠ head := hne s1 (by
      simp only [List.cons_append, List.tail_cons]
      exact List.mem_of_mem_head? hs1)
    unfold removal_scan
    rw [hca]
    simp only
    rw [if_pos ⟨hcneg, by rw [hnext]; exact hs1ne⟩, hnext]
    refine removal_scan_path cells head Address Type_ pos pc hpos hstop l1 s1 f hs1
      (by simp at hf; omega) hch.2 (fun p hp => hneg p (by simp [hp])) ?_
    intro p hp
    refine hne p ?_
    simp only [List.cons_append, List.tail_cons]
    exact List.mem_of_mem_tail hp

theorem removal_split (P : Nat → Prop) :
    ∀ (order : List Nat), order ≠ [] →
      ∃ l1 pos l2, order = l1 ++ pos :: l2 ∧ (∀ p ∈ l1, P p) ∧ (¬ P pos ∨ l2 = [])
  | [], h => absurd rfl h
  | [a], _ => ⟨[], a, [], rfl, by simp, Or.inr rfl⟩
  | a :: b :: t, _ => by
    by_cases ha : P a
    · obtain ⟨l1, pos, l2, he, h1, h2⟩ := removal_split P (b :: t) (by simp)
      refine ⟨a :: l1, pos, l2, by rw [he]; rfl, ?_, h2⟩
      intro p hp
      rcases List.mem_cons.1 hp with rfl | hp
      · exact ha
      · exact h1 p hp
    · exact ⟨[], a, b :: t, rfl, by simp, Or.inl ha⟩

theorem removal_compare_neg (e : _removal_t) (Address Type_ : Nat) :
    _removal_compare e Address Type_ < 0 ↔
      e.address < Address ∨ (e.address = Address ∧ e.type_ < Type_) := by
  unfold _removal_compare
  split_ifs <;> constructor <;> intro h <;> omega

theorem removal_compare_zero (e : _removal_t) (Address Type_ : Nat) :
    _removal_compare e Address Type_ = 0 ↔ e.address = Address ∧ e.type_ = Type_ := by
  unfold _removal_compare
  split_ifs <;> constructor <;> intro h <;> first | omega | (simp at h)

theorem removal_compare_pos (e : _removal_t) (Address Type_ : Nat) :
    0 < _removal_compare e Address Type_ ↔
      Address < e.address ∨ (e.address = Address ∧ Type_ < e.type_) := by
  unfold _removal_compare
  split_ifs <;> constructor <;> intro h <;> omega
theorem removal_ring_chain (cells : List removal_cell) (r : List Nat)
    (h : removal_ring cells r) : List.Chain' (removal_linked cells) r :=
  List.Chain'.left_of_append h

theorem removal_ring_closing (cells : List removal_cell) (r : List Nat) (a b : Nat)
    (h : removal_ring cells r) (hh : r.head? = some b) (hl : r.getLast? = some a) :
    removal_linked cells a b := by
  unfold removal_ring at h
  rw [List.chain'_append] at h
  refine h.2.2 a hl b ?_
  cases r with
  | nil => simp at hh
  | cons x t =>
    simp only [List.head?_cons, Option.some.injEq] at hh
    subst hh
    simp

theorem removal_inv_nodup {H : removal_heap} {order : List Nat} (h : removal_inv H order) :
    order.Nodup := (List.Perm.nodup_iff h.perm).2 (List.nodup_range _)

theorem removal_inv_bound {H : removal_heap} {order : List Nat} (h : removal_inv H order) :
    ∀ p ∈ order, p < H.cells.length := by
  intro p hp
  exact List.mem_range.1 ((List.Perm.mem_iff h.perm).1 hp)

theorem removal_inv_length {H : removal_heap} {order : List Nat} (h : removal_inv H order) :
    order.length = H.cells.length := by
  rw [List.Perm.length_eq h.perm, List.length_range]

theorem removal_scan_ring (H : removal_heap) (l1 l2 : List Nat) (head pos Address Type_ : Nat)
    (pc : removal_cell) (hinv : removal_inv H (l1 ++ pos :: l2))
    (hhead : H.removal_list = some head) (hpos : H.cells[pos]? = some pc)
    (hneg : ∀ p ∈ l1, ∃ c, H.cells[p]? = some c ∧ _removal_compare c.elem Address Type_ < 0)
    (hstop : ¬ _removal_compare pc.elem Address Type_ < 0 ∨ l2 = []) :
    removal_scan H.cells head Address Type_ H.cells.length head
      = some (pos, _removal_compare pc.elem Address Type_) := by
  have hnd := removal_inv_nodup hinv
  have hlen := removal_inv_length hinv
  have hh : (l1 ++ pos :: l2).head? = some head := by rw [← hinv.head, hhead]
  have hh1 : (l1 ++ [pos]).head? = some head := by
    cases l1 with
    | nil => simpa using hh
    | cons x t => simpa using hh
  have hch : List.Chain' (removal_linked H.cells) (l1 ++ [pos]) := by
    have := removal_ring_chain _ _ hinv.ring
    have e : l1 ++ pos :: l2 = (l1 ++ [pos]) ++ l2 := by simp
    rw [e] at this
    exact this.left_of_append
  have htail : ∀ p ∈ (l1 ++ [pos]).tail, p ≠ head := by
    intro p hp hph
    subst hph
    refine not_mem_tail_of_nodup hnd hh ?_
    cases l1 with
    | nil => simp at hp
    | cons x t =>
      simp only [List.cons_append, List.tail_cons, List.mem_append, List.mem_singleton] at hp
      simp only [List.cons_append, List.tail_cons, List.mem_append, List.mem_cons]
      rcases hp with hp | hp
      · exact Or.inl hp
      · exact Or.inr (Or.inl hp)
  refine removal_scan_path H.cells head Address Type_ pos pc hpos ?_ l1 head H.cells.length
    hh1 ?_ hch hneg htail
  · rintro ⟨hlt, hne⟩
    rcases hstop with hs | hs
    · exact hs hlt
    · subst hs
      have hlast : (l1 ++ [pos]).getLast? = some pos := by simp
      obtain ⟨⟨c, hc, hcn⟩, -⟩ := removal_ring_closing _ _ pos head hinv.ring hh hlast
      rw [hpos] at hc
      cases Option.some.inj hc
      exact hne hcn
  · rw [← hlen]
    simp
theorem removal_key_of_cell (cells : List removal_cell) (p : Nat) (c : removal_cell)
    (h : cells[p]? = some c) : removal_key cells p = some (c.elem.address, c.elem.type_) := by
  simp [removal_key, h]

theorem removal_insert_inv (H : removal_heap) (u v : List Nat) (a b Address Type_ : Nat)
    (cell : removal_cell) (cells3 : List removal_cell)
    (hinv : removal_inv H (u ++ v))
    (hh : (v ++ u).head? = some b) (hl : (v ++ u).getLast? = some a)
    (hprev : cell.prev = a) (hnext : cell.next = b)
    (haddr : cell.elem.address = Address) (htype : cell.elem.type_ = Type_)
    (hlen3 : cells3.length = H.cells.length + 1)
    (hnew : cells3[H.cells.length]? = some cell)
    (hold : ∀ (i : Nat) (c : removal_cell), H.cells[i]? = some c →
        cells3[i]? = some { prev := if i = b then H.cells.length else c.prev
                            next := if i = a then H.cells.length else c.next
                            elem := c.elem })
    (hu : ∀ p ∈ u, removal_key_le (removal_key H.cells p) (some (Address, Type_)))
    (hv : ∀ q ∈ v, removal_key_le (some (Address, Type_)) (removal_key H.cells q)) :
    removal_inv { cells := cells3, removal_list := (u ++ H.cells.length :: v).head? }
      (u ++ H.cells.length :: v) := by
  have hnd := removal_inv_nodup hinv
  have hbound := removal_inv_bound hinv
  have hkeep : ∀ p ∈ u ++ v, removal_key cells3 p = removal_key H.cells p := by
    intro p hp
    have hpN := hbound p hp
    have hc := List.getElem?_eq_getElem hpN
    rw [removal_key_of_cell _ _ _ hc, removal_key_of_cell _ _ _ (hold p _ hc)]
  have hkeyN : removal_key cells3 H.cells.length = some (Address, Type_) := by
    rw [removal_key_of_cell _ _ _ hnew, haddr, htype]
  refine ⟨rfl, ?_, ?_, ?_⟩
  · show (u ++ H.cells.length :: v).Perm (List.range cells3.length)
    rw [hlen3, List.range_succ]
    refine List.Perm.trans List.perm_middle ?_
    refine List.Perm.trans (List.Perm.cons _ hinv.perm) ?_
    exact (List.perm_append_singleton _ _).symm
  · show removal_ring cells3 (u ++ H.cells.length :: v)
    have hr : removal_ring cells3 ((v ++ u) ++ [H.cells.length]) := by
      refine removal_ring_insert H.cells cells3 (v ++ u) a b cell ?_ ?_ hh hl ?_ hprev hnext
        hnew hold
      · exact (List.Perm.nodup_iff List.perm_append_comm).1 hnd
      · intro p hp
        exact hbound p (by simp only [List.mem_append] at hp ⊢; tauto)
      · exact removal_ring_rotate _ _ _ hinv.ring
    have e : (v ++ u) ++ [H.cells.length] = v ++ (u ++ [H.cells.length]) := by simp
    rw [e] at hr
    have := removal_ring_rotate _ _ _ hr
    simpa using this
  · show removal_sorted cells3 (u ++ H.cells.length :: v)
    have hs0 : removal_sorted cells3 (u ++ v) := by
      refine List.Pairwise.imp_of_mem ?_ hinv.sorted
      intro x y hx hy hxy
      rw [hkeep x hx, hkeep y hy]
      exact hxy
    unfold removal_sorted at hs0 ⊢
    rw [List.pairwise_append] at hs0 ⊢
    obtain ⟨hsu, hsv, huv⟩ := hs0
    refine ⟨hsu, List.pairwise_cons.2 ⟨?_, hsv⟩, ?_⟩
    · intro q hq
      rw [hkeyN, hkeep q (by simp [hq])]
      exact hv q hq
    · intro p hp q hq
      rcases List.mem_cons.1 hq with rfl | hq
      · rw [hkeyN, hkeep p (by simp [hp])]
        exact hu p hp
      · exact huv p hp q hq
theorem removal_key_le_of_compare_le (cells : List removal_cell) (p Address Type_ : Nat)
    (c : removal_cell) (h : cells[p]? = some c)
    (hle : _removal_compare c.elem Address Type_ ≤ 0) :
    removal_key_le (removal_key cells p) (some (Address, Type_)) := by
  rw [removal_key_of_cell _ _ _ h]
  unfold _removal_compare at hle
  simp only [removal_key_le]
  split_ifs at hle <;> omega

theorem removal_key_le_of_compare_ge (cells : List removal_cell) (p Address Type_ : Nat)
    (c : removal_cell) (h : cells[p]? = some c)
    (hle : 0 ≤ _removal_compare c.elem Address Type_) :
    removal_key_le (some (Address, Type_)) (removal_key cells p) := by
  rw [removal_key_of_cell _ _ _ h]
  unfold _removal_compare at hle
  simp only [removal_key_le]
  split_ifs at hle <;> omega

theorem removal_key_le_trans (x y z : Option (Nat × Nat)) (hxy : removal_key_le x y)
    (hyz : removal_key_le y z) : removal_key_le x z := by
  cases x with
  | none => simp [removal_key_le] at hxy
  | some a =>
    cases y with
    | none => simp [removal_key_le] at hxy
    | some b =>
      cases z with
      | none => simp [removal_key_le] at hyz
      | some c =>
        simp only [removal_key_le] at hxy hyz ⊢
        omega
theorem removal_insert_step (H : removal_heap) (u v : List Nat) (a b Address Type_ : Nat)
    (elem : _removal_t) (hinv : removal_inv H (u ++ v))
    (hh : (v ++ u).head? = some b) (hl : (v ++ u).getLast? = some a)
    (haddr : elem.address = Address) (htype : elem.type_ = Type_)
    (hu : ∀ p ∈ u, removal_key_le (removal_key H.cells p) (some (Address, Type_)))
    (hv : ∀ q ∈ v, removal_key_le (some (Address, Type_)) (removal_key H.cells q)) :
    ∃ cells2 cells3 : List removal_cell,
      set_cell_next (H.cells ++ [{ prev := a, next := b, elem := elem }]) a H.cells.length
        = some cells2 ∧
      set_cell_prev cells2 b H.cells.length = some cells3 ∧
      removal_inv { cells := cells3, removal_list := (u ++ H.cells.length :: v).head? }
        (u ++ H.cells.length :: v) ∧
      cells3.length = H.cells.length + 1 ∧
      (∀ i, i < H.cells.length → removal_key cells3 i = removal_key H.cells i) ∧
      removal_key cells3 H.cells.length = some (Address, Type_) ∧
      (∀ (i : Nat) (c : removal_cell), H.cells[i]? = some c →
        ∃ c1, cells3[i]? = some c1 ∧ c1.elem = c.elem) ∧
      (∃ c, cells3[H.cells.length]? = some c ∧ c.elem = elem) := by
  have hbound := removal_inv_bound hinv
  have hbm : b ∈ u ++ v := by
    have := List.mem_of_mem_head? hh
    simp only [List.mem_append] at this ⊢
    tauto
  have ham : a ∈ u ++ v := by
    have := List.mem_of_mem_getLast? hl
    simp only [List.mem_append] at this ⊢
    tauto
  obtain ⟨cells2, cells3, h2, h3, hlen3, hnew, hold⟩ :=
    set_cells_spec H.cells a b { prev := a, next := b, elem := elem } (hbound a ham)
      (hbound b hbm)
  refine ⟨cells2, cells3, h2, h3, ?_, hlen3, ?_, ?_, ?_, ⟨_, hnew, rfl⟩⟩
  · exact removal_insert_inv H u v a b Address Type_ _ cells3 hinv hh hl rfl rfl haddr htype
      hlen3 hnew hold hu hv
  · intro i hi
    have hc := List.getElem?_eq_getElem hi
    rw [removal_key_of_cell _ _ _ hc, removal_key_of_cell _ _ _ (hold i _ hc)]
  · rw [removal_key_of_cell _ _ _ hnew, haddr, htype]
  · intro i c hc
    exact ⟨_, hold i c hc, rfl⟩

theorem removal_add_first (Address Type_ malloc_page malloc_naddr : Nat) :
    ∃ H1, _removal_add_to_list removal_heap_empty Address Type_ malloc_page malloc_naddr
        = some (H1, 0) ∧
      removal_inv H1 [0] ∧ H1.cells.length = 1 ∧
      removal_key H1.cells 0 = some (Address, Type_) ∧
      (∃ c, H1.cells[0]? = some c ∧ c.elem =
        { relocation := none, section_ := none, source := none, type_ := Type_, flags := 0
          length := 2, address := Address, page := malloc_page
          state := REMOVAL_STATE_UNDEF, naddr := malloc_naddr }) := by
  refine ⟨_, rfl, ⟨rfl, ?_, ?_, ?_⟩, rfl, rfl, ⟨_, rfl, rfl⟩⟩
  · exact List.Perm.refl _
  · show List.Chain' _ [0, 0]
    rw [List.chain'_pair]
    exact ⟨⟨_, rfl, rfl⟩, ⟨_, rfl, rfl⟩⟩
  · exact List.pairwise_singleton _ _
theorem removal_add_inv (H : removal_heap) (order : List Nat)
    (Address Type_ malloc_page malloc_naddr : Nat) (hinv : removal_inv H order) :
    ∃ H1 order1, _removal_add_to_list H Address Type_ malloc_page malloc_naddr
        = some (H1, H.cells.length) ∧
      removal_inv H1 order1 ∧ H1.cells.length = H.cells.length + 1 ∧
      (∀ i, i < H.cells.length → removal_key H1.cells i = removal_key H.cells i) ∧
      removal_key H1.cells H.cells.length = some (Address, Type_) ∧
      (∀ (i : Nat) (c : removal_cell), H.cells[i]? = some c →
        ∃ c1, H1.cells[i]? = some c1 ∧ c1.elem = c.elem) ∧
      (∃ c, H1.cells[H.cells.length]? = some c ∧ c.elem =
        { relocation := none, section_ := none, source := none, type_ := Type_, flags := 0
          length := 2, address := Address, page := malloc_page
          state := REMOVAL_STATE_UNDEF, naddr := malloc_naddr }) := by
  by_cases horder : order = []
  · subst horder
    have hlen := removal_inv_length hinv
    have hhead := hinv.head
    have hH : H = removal_heap_empty := by
      cases H with
      | mk cells rl =>
        simp only [List.length_nil, List.head?_nil] at hlen hhead
        have : cells = [] := List.length_eq_zero.1 hlen.symm
        subst this
        subst hhead
        rfl
    subst hH
    obtain ⟨H1, h1, h2, h3, h4, h5⟩ :=
      removal_add_first Address Type_ malloc_page malloc_naddr
    refine ⟨H1, [0], h1, h2, h3, fun i hi => absurd hi (Nat.not_lt_zero i), h4, ?_, h5⟩
    intro i c hc
    simp [removal_heap_empty] at hc
  · obtain ⟨l1, pos, l2, he, hneg, hstop0⟩ :=
      removal_split (fun p => ∃ c, H.cells[p]? = some c ∧
        _removal_compare c.elem Address Type_ < 0) order horder
    subst he
    have hnd := removal_inv_nodup hinv
    obtain ⟨head, hh⟩ : ∃ head, (l1 ++ pos :: l2).head? = some head := by
      cases l1 with
      | nil => exact ⟨pos, rfl⟩
      | cons x t => exact ⟨x, rfl⟩
    have hhead : H.removal_list = some head := by rw [hinv.head, hh]
    have hposN : pos < H.cells.length := removal_inv_bound hinv pos (by simp)
    have hpc := List.getElem?_eq_getElem hposN
    generalize H.cells[pos] = pc at hpc
    have hstop : ¬ _removal_compare pc.elem Address Type_ < 0 ∨ l2 = [] := by
      rcases hstop0 with h | h
      · exact Or.inl (fun hlt => h ⟨pc, hpc, hlt⟩)
      · exact Or.inr h
    have hscan := removal_scan_ring H l1 l2 head pos Address Type_ pc hinv hhead hpc hneg hstop
    have hsorted := hinv.sorted
    unfold removal_sorted at hsorted
    rw [List.pairwise_append, List.pairwise_cons] at hsorted
    have hl1 : ∀ p ∈ l1, removal_key_le (removal_key H.cells p) (some (Address, Type_)) := by
      intro p hp
      obtain ⟨c, hc, hlt⟩ := hneg p hp
      exact removal_key_le_of_compare_le _ _ _ _ c hc (le_of_lt hlt)
    by_cases hres : 0 < _removal_compare pc.elem Address Type_
    · obtain ⟨a, hl⟩ : ∃ a, ((pos :: l2) ++ l1).getLast? = some a :=
        ⟨_, List.getLast?_eq_getLast _ (by simp)⟩
      have hrot := removal_ring_rotate _ l1 (pos :: l2) hinv.ring
      obtain ⟨-, ⟨c, hc, hcp⟩⟩ := removal_ring_closing _ _ a pos hrot rfl hl
      rw [hpc] at hc
      cases Option.some.inj hc
      have hpos_ge := removal_key_le_of_compare_ge _ _ _ _ pc hpc (le_of_lt hres)
      obtain ⟨cells2, cells3, h2, h3, hinv3, hlen3, hk, hkN, hel, helN⟩ :=
        removal_insert_step H l1 (pos :: l2) a pos Address Type_
          { relocation := none, section_ := none, source := none, type_ := Type_, flags := 0
            length := 2, address := Address, page := malloc_page
            state := REMOVAL_STATE_UNDEF, naddr := malloc_naddr }
          hinv rfl hl rfl rfl hl1 (by
            intro q hq
            rcases List.mem_cons.1 hq with rfl | hq
            · exact hpos_ge
            · exact removal_key_le_trans _ _ _ hpos_ge (hsorted.2.1.1 q hq))
      refine ⟨_, _, ?_, hinv3, hlen3, hk, hkN, hel, helN⟩
      simp only [_removal_add_to_list, hhead, hscan, hpc, gt_iff_lt, hres, if_true, true_and,
        hcp, h2, h3]
      cases l1 with
      | nil =>
        simp only [List.nil_append, List.head?_cons, Option.some.injEq] at hh
        simp [hh]
      | cons x t =>
        simp only [List.cons_append, List.head?_cons, Option.some.injEq] at hh
        have hne : pos ≠ head := by
          rintro rfl
          rw [← hh] at hnd
          simp at hnd
        simp [hne, hh]
    · have hle : _removal_compare pc.elem Address Type_ ≤ 0 := not_lt.1 hres
      obtain ⟨b, hb⟩ : ∃ b, (l2 ++ (l1 ++ [pos])).head? = some b := by
        cases l2 with
        | nil => exact ⟨head, by cases l1 <;> simpa using hh⟩
        | cons x t => exact ⟨x, rfl⟩
      have he : l1 ++ pos :: l2 = (l1 ++ [pos]) ++ l2 := by simp
      have hinv2 := hinv
      rw [he] at hinv2
      have hrot := removal_ring_rotate _ (l1 ++ [pos]) l2 hinv2.ring
      have hl : (l2 ++ (l1 ++ [pos])).getLast? = some pos := by
        rw [← List.append_assoc]
        simp
      obtain ⟨⟨c, hc, hcn⟩, -⟩ := removal_ring_closing _ _ pos b hrot hb hl
      rw [hpc] at hc
      cases Option.some.inj hc
      obtain ⟨cells2, cells3, h2, h3, hinv3, hlen3, hk, hkN, hel, helN⟩ :=
        removal_insert_step H (l1 ++ [pos]) l2 pos b Address Type_
          { relocation := none, section_ := none, source := none, type_ := Type_, flags := 0
            length := 2, address := Address, page := malloc_page
            state := REMOVAL_STATE_UNDEF, naddr := malloc_naddr }
          hinv2 hb hl rfl rfl (by
            intro p hp
            rcases List.mem_append.1 hp with hp | hp
            · exact hl1 p hp
            · rw [List.mem_singleton.1 hp]
              exact removal_key_le_of_compare_le _ _ _ _ pc hpc hle) (by
            intro q hq
            rcases hstop with hs | hs
            · have h0 : _removal_compare pc.elem Address Type_ = 0 := by omega
              have hkey := (removal_compare_zero _ _ _).1 h0
              have := hsorted.2.1.1 q hq
              rw [removal_key_of_cell _ _ _ hpc, hkey.1, hkey.2] at this
              exact this
            · rw [hs] at hq
              cases hq)
      refine ⟨_, _, ?_, hinv3, hlen3, hk, hkN, hel, helN⟩
      simp only [_removal_add_to_list, hhead, hscan, hpc, gt_iff_lt, hres, if_false, false_and,
        hcn, h2, h3]
      have : ((l1 ++ [pos]) ++ H.cells.length :: l2).head? = some head := by
        cases l1 <;> simpa using hh
      rw [this]
theorem removal_find_spec (H : removal_heap) (order : List Nat) (Address Type_ : Nat)
    (hinv : removal_inv H order) :
    ∃ r, _removal_find_in_list H Address Type_ = some r ∧
      (∀ p, r = some p → p ∈ order ∧ removal_key H.cells p = some (Address, Type_)) ∧
      (r = none → ∀ p ∈ order, removal_key H.cells p ≠ some (Address, Type_)) := by
  by_cases horder : order = []
  · subst horder
    have hhead := hinv.head
    simp only [List.head?_nil] at hhead
    refine ⟨none, by simp [_removal_find_in_list, hhead], by simp, by simp⟩
  · obtain ⟨l1, pos, l2, he, hneg, hstop0⟩ :=
      removal_split (fun p => ∃ c, H.cells[p]? = some c ∧
        _removal_compare c.elem Address Type_ < 0) order horder
    subst he
    obtain ⟨head, hh⟩ : ∃ head, (l1 ++ pos :: l2).head? = some head := by
      cases l1 with
      | nil => exact ⟨pos, rfl⟩
      | cons x t => exact ⟨x, rfl⟩
    have hhead : H.removal_list = some head := by rw [hinv.head, hh]
    have hposN : pos < H.cells.length := removal_inv_bound hinv pos (by simp)
    have hpc := List.getElem?_eq_getElem hposN
    generalize H.cells[pos] = pc at hpc
    have hstop : ¬ _removal_compare pc.elem Address Type_ < 0 ∨ l2 = [] := by
      rcases hstop0 with h | h
      · exact Or.inl (fun hlt => h ⟨pc, hpc, hlt⟩)
      · exact Or.inr h
    have hscan := removal_scan_ring H l1 l2 head pos Address Type_ pc hinv hhead hpc hneg hstop
    have hsorted := hinv.sorted
    unfold removal_sorted at hsorted
    rw [List.pairwise_append, List.pairwise_cons] at hsorted
    refine ⟨if _removal_compare pc.elem Address Type_ = 0 then some pos else none,
      by simp only [_removal_find_in_list, hhead, hscan], ?_, ?_⟩
    · intro p hp
      by_cases h0 : _removal_compare pc.elem Address Type_ = 0
      · rw [if_pos h0] at hp
        cases Option.some.inj hp
        have hkey := (removal_compare_zero _ _ _).1 h0
        exact ⟨by simp, by rw [removal_key_of_cell _ _ _ hpc, hkey.1, hkey.2]⟩
      · rw [if_neg h0] at hp
        cases hp
    · intro hr p hp
      have h0 : _removal_compare pc.elem Address Type_ ≠ 0 := by
        intro h0
        rw [if_pos h0] at hr
        cases hr
      rcases List.mem_append.1 hp with hp | hp
      · obtain ⟨c, hc, hlt⟩ := hneg p hp
        rw [removal_key_of_cell _ _ _ hc]
        intro hk
        have : _removal_compare c.elem Address Type_ = 0 :=
          (removal_compare_zero _ _ _).2 (by simpa using hk)
        omega
      · rcases List.mem_cons.1 hp with rfl | hp
        · rw [removal_key_of_cell _ _ _ hpc]
          intro hk
          exact h0 ((removal_compare_zero _ _ _).2 (by simpa using hk))
        · have hpos : 0 < _removal_compare pc.elem Address Type_ := by
            rcases hstop with hs | hs
            · omega
            · rw [hs] at hp
              cases hp
          have hge := removal_key_le_of_compare_ge _ _ _ _ pc hpc (le_of_lt hpos)
          have hle := hsorted.2.1.1 p hp
          rw [removal_key_of_cell _ _ _ hpc] at hle hge
          have hgt := (removal_compare_pos _ _ _).1 hpos
          intro hk
          rw [hk] at hle
          simp only [removal_key_le] at hle
          omega

theorem removal_walk_path (cells : List removal_cell) (head : Nat) :
    ∀ (l : List Nat) (s fuel : Nat), l.length < fuel →
      List.Chain' (removal_linked cells) (s :: l ++ [head]) → (∀ p ∈ l, p ≠ head) →
      removal_walk cells head fuel s = some (s :: l)
  | [], s, fuel, hf, hch, _ => by
    obtain ⟨f, rfl⟩ : ∃ f, fuel = f + 1 := ⟨fuel - 1, by simp at hf; omega⟩
    simp only [List.cons_append, List.nil_append, List.chain'_pair] at hch
    obtain ⟨⟨c, hc, hcn⟩, -⟩ := hch
    unfold removal_walk
    rw [hc]
    simp only
    rw [if_pos hcn]
  | x :: t, s, fuel, hf, hch, hne => by
    obtain ⟨f, rfl⟩ : ∃ f, fuel = f + 1 := ⟨fuel - 1, by simp at hf; omega⟩
    simp only [List.cons_append, List.chain'_cons] at hch
    obtain ⟨⟨⟨c, hc, hcn⟩, -⟩, hrest⟩ := hch
    have hx : x ≠ head := hne x (by simp)
    have ih := removal_walk_path cells head t x f (by simp at hf; omega)
      (by simpa using hrest) (fun p hp => hne p (by simp [hp]))
    unfold removal_walk
    rw [hc]
    simp only
    rw [if_neg (by rw [hcn]; exact hx), hcn, ih]
    rfl

theorem removal_traverse_inv (H : removal_heap) (order : List Nat)
    (hinv : removal_inv H order) : removal_traverse H = some order := by
  have hnd := removal_inv_nodup hinv
  have hlen := removal_inv_length hinv
  cases order with
  | nil =>
    have hhead := hinv.head
    simp only [List.head?_nil] at hhead
    simp [removal_traverse, hhead]
  | cons h t =>
    have hhead := hinv.head
    simp only [List.head?_cons] at hhead
    simp only [removal_traverse, hhead]
    refine removal_walk_path H.cells h t h H.cells.length ?_ ?_ ?_
    · rw [← hlen]
      simp
    · have := hinv.ring
      unfold removal_ring at this
      simpa using this
    · intro p hp hph
      subst hph
      exact (List.nodup_cons.1 hnd).1 hp

theorem removal_links_inverse (H : removal_heap) (order : List Nat)
    (hinv : removal_inv H order) (a : Nat) (ha : a ∈ order) :
    ∃ c n p, H.cells[a]? = some c ∧ H.cells[c.next]? = some n ∧ n.prev = a ∧
      H.cells[c.prev]? = some p ∧ p.next = a := by
  obtain ⟨u, w, rfl⟩ := List.append_of_mem ha
  have e : u ++ a :: w = (u ++ [a]) ++ w := by simp
  have hr1 := hinv.ring
  rw [e] at hr1
  have hrot1 := removal_ring_rotate _ _ _ hr1
  obtain ⟨b, hb⟩ : ∃ b, (w ++ (u ++ [a])).head? = some b := by
    cases w with
    | nil => cases u <;> simp
    | cons x t => exact ⟨x, rfl⟩
  have hl1 : (w ++ (u ++ [a])).getLast? = some a := by
    rw [← List.append_assoc]
    simp
  obtain ⟨⟨ca, hca, hcan⟩, ⟨cb, hcb, hcbp⟩⟩ := removal_ring_closing _ _ a b hrot1 hb hl1
  have hrot2 := removal_ring_rotate _ u (a :: w) hinv.ring
  obtain ⟨d, hd⟩ : ∃ d, ((a :: w) ++ u).getLast? = some d :=
    ⟨_, List.getLast?_eq_getLast _ (by simp)⟩
  obtain ⟨⟨cd, hcd, hcdn⟩, ⟨ca2, hca2, hca2p⟩⟩ := removal_ring_closing _ _ d a hrot2 rfl hd
  rw [hca] at hca2
  cases Option.some.inj hca2
  refine ⟨ca, cb, cd, hca, ?_, hcbp, ?_, hcdn⟩
  · rw [hcan]
    exact hcb
  · rw [hca2p]
    exact hcd

theorem removal_inv_empty : removal_inv removal_heap_empty [] :=
  ⟨rfl, List.Perm.refl _, List.chain'_nil, List.Pairwise.nil⟩

theorem removal_add_all_inv :
    ∀ (calls : List (Nat × Nat × Nat × Nat)) (H : removal_heap) (order : List Nat),
      removal_inv H order →
      ∃ H1 order1, removal_add_all H calls = some H1 ∧ removal_inv H1 order1 ∧
        H1.cells.length = H.cells.length + calls.length ∧
        (∀ i, i < H.cells.length → removal_key H1.cells i = removal_key H.cells i) ∧
        (∀ (j : Nat) (c : Nat × Nat × Nat × Nat), calls[j]? = some c →
          removal_key H1.cells (H.cells.length + j) = some (c.1, c.2.1))
  | [], H, order, hinv => ⟨H, order, rfl, hinv, rfl, fun _ _ => rfl, by simp⟩
  | (Address, Type_, malloc_page, malloc_naddr) :: rest, H, order, hinv => by
    obtain ⟨H1, order1, h1, hinv1, hlen1, hk1, hkN1, -, -⟩ :=
      removal_add_inv H order Address Type_ malloc_page malloc_naddr hinv
    obtain ⟨H2, order2, h2, hinv2, hlen2, hk2, hkN2⟩ := removal_add_all_inv rest H1 order1 hinv1
    refine ⟨H2, order2, ?_, hinv2, ?_, ?_, ?_⟩
    · simp only [removal_add_all, h1]
      exact h2
    · rw [hlen2, hlen1, List.length_cons]
      omega
    · intro i hi
      rw [hk2 i (by omega), hk1 i hi]
    · intro j c hj
      cases j with
      | zero =>
        simp only [List.getElem?_cons_zero, Option.some.injEq] at hj
        subst hj
        rw [Nat.add_zero, hk2 _ (by omega), hkN1]
      | succ j =>
        simp only [List.getElem?_cons_succ] at hj
        have := hkN2 j c hj
        rw [hlen1] at this
        rw [← this]
        congr 1
        omega
/-- C35: after any sequence of calls of `_removal_add_to_list` from the empty
list, every call returns, and the heap is such that the walk from
`_removal_list` along `next` comes back to `_removal_list` having visited every
element allocated exactly once; element `j` has the address and the type of the
call `j`; the elements are visited in an order sorted non-decreasingly by
(address, type); for every element `a`, `a->next->prev == a` and
`a->prev->next == a`; and `_removal_find_in_list(Address, Type)` returns, an
element it returns is in the list and has exactly that address and type, and it
returns `NULL` only when no element of the list has that address and type. -/
theorem removal_list_invariant (calls : List (Nat × Nat × Nat × Nat)) :
    ∃ H order, removal_add_all removal_heap_empty calls = some H ∧
      removal_traverse H = some order ∧
      order.Perm (List.range calls.length) ∧
      (∀ (j : Nat) (c : Nat × Nat × Nat × Nat), calls[j]? = some c →
        removal_key H.cells j = some (c.1, c.2.1)) ∧
      removal_sorted H.cells order ∧
      (∀ a ∈ order, ∃ c n p, H.cells[a]? = some c ∧ H.cells[c.next]? = some n ∧ n.prev = a ∧
        H.cells[c.prev]? = some p ∧ p.next = a) ∧
      (∀ Address Type_, ∃ r, _removal_find_in_list H Address Type_ = some r ∧
        (∀ p, r = some p → p ∈ order ∧ removal_key H.cells p = some (Address, Type_)) ∧
        (r = none → ∀ p ∈ order, removal_key H.cells p ≠ some (Address, Type_))) := by
  obtain ⟨H, order, hadd, hinv, hlen, -, hkeys⟩ :=
    removal_add_all_inv calls removal_heap_empty [] removal_inv_empty
  have hlen0 : H.cells.length = calls.length := by
    rw [hlen]
    simp [removal_heap_empty]
  refine ⟨H, order, hadd, removal_traverse_inv H order hinv, ?_, ?_, hinv.sorted,
    removal_links_inverse H order hinv, fun Address Type_ =>
      removal_find_spec H order Address Type_ hinv⟩
  · rw [← hlen0]
    exact hinv.perm
  · intro j c hj
    have := hkeys j c hj
    simpa [removal_heap_empty] using this

/-- The calls of the example leave the list 1, 3, 2, 0: the addresses 0, 2, 4, 4
with the types 0, 1, 0, 1; the element of address 4 and type 0 is found, and
none of address 2 and type 0. -/
theorem removal_list_example :
    (removal_add_all removal_heap_empty example_add_calls).bind removal_traverse
        = some [1, 3, 2, 0] ∧
      (removal_add_all removal_heap_empty example_add_calls).bind
        (fun H => _removal_find_in_list H 4 0) = some (some 2) ∧
      (removal_add_all removal_heap_empty example_add_calls).bind
        (fun H => _removal_find_in_list H 2 0) = some none := by
  decide

/-! ## The banksel variant on the lists that `_removal_prepare_list` builds -/

theorem removal_new_spec (E : prepare_env) (H H1 : removal_heap) (order : List Nat)
    (Address Type_ ptr : Nat) (hinv : removal_inv H order)
    (h : removal_new E H Address Type_ = some (H1, ptr)) :
    ptr = H.cells.length ∧ (∃ order1, removal_inv H1 order1) ∧
    ∃ fresh : _removal_t, removal_elems H1 = removal_elems H ++ [fresh] ∧
      fresh.type_ = Type_ ∧ fresh.state = REMOVAL_STATE_UNDEF ∧ fresh.source = none := by
  obtain ⟨H2, order1, heq, hinv1, hlen, -, -, hel, ⟨c, hc, hce⟩⟩ :=
    removal_add_inv H order Address Type_ (E.malloc H.cells.length).1
      (E.malloc H.cells.length).2 hinv
  unfold removal_new at h
  rw [heq] at h
  simp only [Option.some.injEq, Prod.mk.injEq] at h
  obtain ⟨h1, h2⟩ := h
  subst h1
  refine ⟨h2.symm, ⟨order1, hinv1⟩, c.elem, ?_, by rw [hce], by rw [hce], by rw [hce]⟩
  apply List.ext_getElem?
  intro i
  simp only [removal_elems, List.getElem?_map]
  rcases Nat.lt_trichotomy i H.cells.length with hi | hi | hi
  · obtain ⟨c1, hc1, hc1e⟩ := hel i _ (List.getElem?_eq_getElem hi)
    rw [hc1, List.getElem?_append_left (by simpa using hi), List.getElem?_map,
      List.getElem?_eq_getElem hi]
    simp [hc1e]
  · subst hi
    rw [hc, List.getElem?_append_right (by simp)]
    simp
  · rw [List.getElem?_eq_none (by omega), List.getElem?_eq_none (by simp; omega)]
    rfl

theorem set_cell_elem_spec (H H1 : removal_heap) (ptr : Nat) (f : _removal_t → _removal_t)
    (h : set_cell_elem H ptr f = some H1) :
    ∃ c, H.cells[ptr]? = some c ∧
      H1 = { H with cells := H.cells.set ptr { c with elem := f c.elem } } := by
  unfold set_cell_elem at h
  cases hc : H.cells[ptr]? with
  | none => simp [hc] at h
  | some c =>
    simp only [hc, Option.some.injEq] at h
    exact ⟨c, rfl, h.symm⟩

theorem set_cell_elem_elems (H H1 : removal_heap) (ptr : Nat) (f : _removal_t → _removal_t)
    (h : set_cell_elem H ptr f = some H1) :
    ∃ e, (removal_elems H)[ptr]? = some e ∧ removal_elems H1 = (removal_elems H).set ptr (f e) := by
  obtain ⟨c, hc, rfl⟩ := set_cell_elem_spec H H1 ptr f h
  refine ⟨c.elem, by simp [removal_elems, hc], ?_⟩
  simp [removal_elems, List.map_set]

theorem removal_linked_set (cells : List removal_cell) (ptr : Nat) (c : removal_cell)
    (e : _removal_t) (hc : cells[ptr]? = some c) (a b : Nat) (h : removal_linked cells a b) :
    removal_linked (cells.set ptr { c with elem := e }) a b := by
  have hp : ptr < cells.length := by
    by_contra hn
    rw [List.getElem?_eq_none (by omega)] at hc
    cases hc
  have key : ∀ (i : Nat) (ci : removal_cell), cells[i]? = some ci →
      ∃ c1, (cells.set ptr { c with elem := e })[i]? = some c1 ∧ c1.prev = ci.prev ∧
        c1.next = ci.next := by
    intro i ci hci
    by_cases hip : ptr = i
    · subst hip
      rw [hc] at hci
      cases Option.some.inj hci
      exact ⟨_, List.getElem?_set_self hp, rfl, rfl⟩
    · exact ⟨ci, by rw [List.getElem?_set_ne hip]; exact hci, rfl, rfl⟩
  obtain ⟨⟨ca, hca, hcan⟩, ⟨cb, hcb, hcbp⟩⟩ := h
  obtain ⟨ca1, h1, -, h1n⟩ := key a ca hca
  obtain ⟨cb1, h2, h2p, -⟩ := key b cb hcb
  exact ⟨⟨ca1, h1, by rw [h1n, hcan]⟩, ⟨cb1, h2, by rw [h2p, hcbp]⟩⟩

theorem set_cell_elem_inv (H H1 : removal_heap) (ptr : Nat) (f : _removal_t → _removal_t)
    (order : List Nat) (h : set_cell_elem H ptr f = some H1)
    (haddr : ∀ e, (f e).address = e.address) (htype : ∀ e, (f e).type_ = e.type_)
    (hinv : removal_inv H order) : removal_inv H1 order := by
  obtain ⟨c, hc, rfl⟩ := set_cell_elem_spec H H1 ptr f h
  have hp : ptr < H.cells.length := by
    by_contra hn
    rw [List.getElem?_eq_none (by omega)] at hc
    cases hc
  have hkey : ∀ p, removal_key (H.cells.set ptr { c with elem := f c.elem }) p
      = removal_key H.cells p := by
    intro p
    unfold removal_key
    by_cases hip : ptr = p
    · subst hip
      rw [List.getElem?_set_self hp, hc]
      simp [haddr, htype]
    · rw [List.getElem?_set_ne hip]
  refine ⟨hinv.head, ?_, ?_, ?_⟩
  · simpa using hinv.perm
  · exact List.Chain'.imp (fun a b hab => removal_linked_set _ _ _ _ hc a b hab) hinv.ring
  · refine List.Pairwise.imp ?_ hinv.sorted
    intro a b hab
    rw [hkey a, hkey b]
    exact hab
theorem getElem?_append_singleton_cases (els : List _removal_t) (fresh e : _removal_t) (i : Nat)
    (h : (els ++ [fresh])[i]? = some e) :
    els[i]? = some e ∨ (i = els.length ∧ e = fresh) := by
  rcases Nat.lt_trichotomy i els.length with hi | hi | hi
  · rw [List.getElem?_append_left hi] at h
    exact Or.inl h
  · subst hi
    rw [List.getElem?_append_right (le_refl _)] at h
    simp only [Nat.sub_self, List.getElem?_cons_zero, Option.some.injEq] at h
    exact Or.inr ⟨rfl, h.symm⟩
  · rw [List.getElem?_eq_none (by simp; omega)] at h
    cases h

theorem prepare_fields_append (els : List _removal_t) (fresh : _removal_t)
    (h : prepare_fields els) (hstate : fresh.state = REMOVAL_STATE_UNDEF)
    (hsrc : fresh.source = none) : prepare_fields (els ++ [fresh]) := by
  refine ⟨?_, ?_, ?_⟩
  · intro i e he
    rcases getElem?_append_singleton_cases els fresh e i he with h1 | ⟨-, rfl⟩
    · exact h.state_lt i e h1
    · rw [hstate]
      decide
  · intro i e he ht
    rcases getElem?_append_singleton_cases els fresh e i he with h1 | ⟨-, rfl⟩
    · exact h.undef i e h1 ht
    · exact hstate
  · intro i e s he hs
    rcases getElem?_append_singleton_cases els fresh e i he with h1 | ⟨-, rfl⟩
    · obtain ⟨es, hes, h2, h3⟩ := h.source i e s h1 hs
      have hsl : s < els.length := by
        by_contra hn
        rw [List.getElem?_eq_none (by omega)] at hes
        cases hes
      exact ⟨es, by rw [List.getElem?_append_left hsl]; exact hes, h2, h3⟩
    · rw [hsrc] at hs
      cases hs

theorem getElem?_set_cases (els : List _removal_t) (ptr i : Nat) (e1 e : _removal_t)
    (h : (els.set ptr e1)[i]? = some e) :
    (i ≠ ptr ∧ els[i]? = some e) ∨ (i = ptr ∧ e = e1) := by
  by_cases hip : ptr = i
  · subst hip
    have hp : ptr < els.length := by
      by_contra hn
      rw [List.getElem?_eq_none (by simp; omega)] at h
      cases h
    rw [List.getElem?_set_self hp] at h
    exact Or.inr ⟨rfl, (Option.some.inj h).symm⟩
  · rw [List.getElem?_set_ne hip] at h
    exact Or.inl ⟨fun hc => hip hc.symm, h⟩

theorem getElem?_set_type (els : List _removal_t) (ptr s : Nat) (e0 e1 es : _removal_t)
    (he : els[ptr]? = some e0) (htype : e1.type_ = e0.type_) (hes : els[s]? = some es) :
    ∃ es1, (els.set ptr e1)[s]? = some es1 ∧ es1.type_ = es.type_ := by
  have hp : ptr < els.length := by
    by_contra hn
    rw [List.getElem?_eq_none (by omega)] at he
    cases he
  by_cases hsp : ptr = s
  · subst hsp
    rw [he] at hes
    cases Option.some.inj hes
    exact ⟨e1, List.getElem?_set_self hp, htype⟩
  · exact ⟨es, by rw [List.getElem?_set_ne hsp]; exact hes, rfl⟩

theorem prepare_fields_set (els : List _removal_t) (ptr : Nat) (e0 e1 : _removal_t)
    (h : prepare_fields els) (he : els[ptr]? = some e0) (htype : e1.type_ = e0.type_)
    (hstate : e1.state < 2 ^ 32)
    (hundef : e1.type_ = REMOVAL_TYPE_GOTO ∨ e1.type_ = REMOVAL_TYPE_LABEL →
      e1.state = REMOVAL_STATE_UNDEF)
    (hsrc : ∀ s, e1.source = some s → ∃ es, els[s]? = some es ∧
      es.type_ ≠ REMOVAL_TYPE_LABEL ∧ (e1.type_ ≠ REMOVAL_TYPE_LABEL → s < ptr)) :
    prepare_fields (els.set ptr e1) := by
  refine ⟨?_, ?_, ?_⟩
  · intro i e hi
    rcases getElem?_set_cases els ptr i e1 e hi with ⟨-, h1⟩ | ⟨-, rfl⟩
    · exact h.state_lt i e h1
    · exact hstate
  · intro i e hi ht
    rcases getElem?_set_cases els ptr i e1 e hi with ⟨-, h1⟩ | ⟨-, rfl⟩
    · exact h.undef i e h1 ht
    · exact hundef ht
  · intro i e s hi hs
    rcases getElem?_set_cases els ptr i e1 e hi with ⟨-, h1⟩ | ⟨rfl, rfl⟩
    · obtain ⟨es, hes, h2, h3⟩ := h.source i e s h1 hs
      obtain ⟨es1, hes1, ht1⟩ := getElem?_set_type els ptr s e0 e1 es he htype hes
      exact ⟨es1, hes1, by rw [ht1]; exact h2, h3⟩
    · obtain ⟨es, hes, h2, h3⟩ := hsrc s hs
      obtain ⟨es1, hes1, ht1⟩ := getElem?_set_type els i s e0 e es he htype hes
      exact ⟨es1, hes1, by rw [ht1]; exact h2, h3⟩

/-- An assignment to fields other than the address, the type, the state and the
source keeps the state of the heap. -/
theorem banksel_heap_inv_set_passive (H H1 : removal_heap) (ptr : Nat)
    (f : _removal_t → _removal_t) (h : set_cell_elem H ptr f = some H1)
    (haddr : ∀ e, (f e).address = e.address) (htype : ∀ e, (f e).type_ = e.type_)
    (hstate : ∀ e, (f e).state = e.state) (hsource : ∀ e, (f e).source = e.source)
    (hinv : banksel_heap_inv H) : banksel_heap_inv H1 := by
  obtain ⟨⟨order, hord⟩, hf⟩ := hinv
  refine ⟨⟨order, set_cell_elem_inv H H1 ptr f order h haddr htype hord⟩, ?_⟩
  obtain ⟨e, he, hel⟩ := set_cell_elem_elems H H1 ptr f h
  rw [hel]
  refine prepare_fields_set _ ptr e (f e) hf he (htype e) ?_ ?_ ?_
  · rw [hstate]
    exact hf.state_lt ptr e he
  · rw [hstate, htype]
    exact hf.undef ptr e he
  · intro s hs
    rw [hsource] at hs
    rw [htype]
    exact hf.source ptr e s he hs
theorem set_cell_elem_length (H H1 : removal_heap) (ptr : Nat) (f : _removal_t → _removal_t)
    (h : set_cell_elem H ptr f = some H1) : H1.cells.length = H.cells.length := by
  obtain ⟨c, -, rfl⟩ := set_cell_elem_spec H H1 ptr f h
  simp

theorem removal_elems_length (H : removal_heap) : (removal_elems H).length = H.cells.length := by
  simp [removal_elems]

/-- What `_removal_add_reloc` leaves: one more element, the last allocated, of the
type given, without a source and with the state `REMOVAL_STATE_UNDEF`. -/
theorem removal_add_reloc_spec (E : prepare_env) (H H1 : removal_heap)
    (Type_ Length Flags idx ptr : Nat) (Section : prepare_section) (Reloc : prepare_reloc)
    (order : List Nat) (hinv : removal_inv H order)
    (h : _removal_add_reloc E H Type_ Length Flags idx Section Reloc = some (H1, ptr)) :
    ptr = H.cells.length ∧ (∃ order1, removal_inv H1 order1) ∧
    ∃ e : _removal_t, removal_elems H1 = removal_elems H ++ [e] ∧
      e.type_ = Type_ ∧ e.state = REMOVAL_STATE_UNDEF ∧ e.source = none := by
  unfold _removal_add_reloc at h
  split at h
  · cases h
  · dsimp only at h
    split at h
    · cases h
    · rename_i H2 p hnew
      obtain ⟨hp, ⟨order1, hinv1⟩, fresh, hel, ht, hs, hsrc⟩ :=
        removal_new_spec E H H2 order _ _ p hinv hnew
      split at h
      · cases h
      · rename_i H3 hset
        simp only [Option.some.injEq, Prod.mk.injEq] at h
        obtain ⟨rfl, rfl⟩ := h
        refine ⟨hp, ⟨order1, set_cell_elem_inv H2 H3 p _ order1 hset (fun _ => rfl)
          (fun _ => rfl) hinv1⟩, ?_⟩
        obtain ⟨e, he, hel3⟩ := set_cell_elem_elems H2 H3 p _ hset
        rw [hel, hp, ← removal_elems_length H,
          List.getElem?_append_right (le_refl _)] at he
        simp only [Nat.sub_self, List.getElem?_cons_zero, Option.some.injEq] at he
        subst he
        refine ⟨{ fresh with relocation := some Reloc.ptr, section_ := some idx
                             length := Length, flags := Flags }, ?_, ht, hs, hsrc⟩
        rw [hel3, hel, hp, ← removal_elems_length H]
        simp

/-- The two assignments of `_removal_add_label` that put the source `s` in front of
the chain of the label `ptr`. -/
theorem removal_link_source_spec (Hc H2 H3 : removal_heap) (s ptr : Nat)
    (es pe : _removal_t) (hord : ∃ order, removal_inv Hc order)
    (hf : prepare_fields (removal_elems Hc)) (hes : (removal_elems Hc)[s]? = some es)
    (hpe : (removal_elems Hc)[ptr]? = some pe) (hest : es.type_ ≠ REMOVAL_TYPE_LABEL)
    (hpet : pe.type_ = REMOVAL_TYPE_LABEL)
    (hbelow : ∀ (i : Nat) (e : _removal_t) (t : Nat), (removal_elems Hc)[i]? = some e →
      e.source = some t → t < s)
    (h2 : set_cell_elem Hc s (fun e => { e with source := pe.source }) = some H2)
    (h3 : set_cell_elem H2 ptr (fun e => { e with source := some s }) = some H3) :
    banksel_heap_inv H3 ∧ H3.cells.length = Hc.cells.length := by
  obtain ⟨order, hinv⟩ := hord
  have hinv2 := set_cell_elem_inv Hc H2 s _ order h2 (fun _ => rfl) (fun _ => rfl) hinv
  have hinv3 := set_cell_elem_inv H2 H3 ptr _ order h3 (fun _ => rfl) (fun _ => rfl) hinv2
  have hne : s ≠ ptr := by
    rintro rfl
    rw [hes] at hpe
    cases Option.some.inj hpe
    exact hest hpet
  obtain ⟨e2, he2, hel2⟩ := set_cell_elem_elems Hc H2 s _ h2
  rw [hes] at he2
  cases Option.some.inj he2
  have hf2 : prepare_fields (removal_elems H2) := by
    rw [hel2]
    refine prepare_fields_set _ s es _ hf hes rfl (hf.state_lt s es hes)
      (hf.undef s es hes) ?_
    intro t ht
    obtain ⟨et, het, hett, -⟩ := hf.source ptr pe t hpe ht
    exact ⟨et, het, hett, fun _ => hbelow ptr pe t hpe ht⟩
  obtain ⟨e3, he3, hel3⟩ := set_cell_elem_elems H2 H3 ptr _ h3
  have hpe2 : (removal_elems H2)[ptr]? = some pe := by
    rw [hel2, List.getElem?_set_ne hne]
    exact hpe
  rw [hpe2] at he3
  cases Option.some.inj he3
  have hs2 : ∃ es2, (removal_elems H2)[s]? = some es2 ∧ es2.type_ ≠ REMOVAL_TYPE_LABEL := by
    have hsl : s < (removal_elems Hc).length := by
      by_contra hn
      rw [List.getElem?_eq_none (by omega)] at hes
      cases hes
    exact ⟨{ es with source := pe.source }, by rw [hel2, List.getElem?_set_self hsl], hest⟩
  refine ⟨⟨⟨order, hinv3⟩, ?_⟩, ?_⟩
  · rw [hel3]
    refine prepare_fields_set _ ptr pe _ hf2 hpe2 rfl (hf2.state_lt ptr pe hpe2)
      (hf2.undef ptr pe hpe2) ?_
    intro t ht
    simp only [Option.some.injEq] at ht
    subst ht
    obtain ⟨es2, hes2, hes2t⟩ := hs2
    exact ⟨es2, hes2, hes2t, fun hc => absurd hpet hc⟩
  · rw [set_cell_elem_length H2 H3 ptr _ h3, set_cell_elem_length Hc H2 s _ h2]
theorem removal_elems_getElem? (H : removal_heap) (i : Nat) :
    (removal_elems H)[i]? = (H.cells[i]?).map (fun c => c.elem) := by
  simp [removal_elems]

theorem removal_link_source_inv (Hc H3 : removal_heap) (s ptr : Nat) (es pe : _removal_t)
    (hord : ∃ order, removal_inv Hc order)
    (hf : prepare_fields (removal_elems Hc)) (hes : (removal_elems Hc)[s]? = some es)
    (hpe : (removal_elems Hc)[ptr]? = some pe) (hest : es.type_ ≠ REMOVAL_TYPE_LABEL)
    (hpet : pe.type_ = REMOVAL_TYPE_LABEL)
    (hbelow : ∀ (i : Nat) (e : _removal_t) (t : Nat), (removal_elems Hc)[i]? = some e →
      e.source = some t → t < s)
    (h : removal_link_source Hc ptr (some s) = some H3) :
    banksel_heap_inv H3 ∧ H3.cells.length = Hc.cells.length := by
  unfold removal_link_source at h
  dsimp only at h
  split at h
  · rename_i sc pc hsc hpc
    have hpe2 : pe = pc.elem := by
      rw [removal_elems_getElem?, hpc] at hpe
      exact (Option.some.inj hpe).symm
    subst hpe2
    split at h
    · cases h
    · split at h
      · cases h
      · rename_i H2 h2
        exact removal_link_source_spec Hc H2 H3 s ptr es pc.elem hord hf hes hpe hest hpet
          hbelow h2 h
  · cases h

/-- A call of `_removal_add_label` with the source that `_removal_add_reloc` has
just allocated keeps the state of the heap. -/
theorem removal_add_label_spec (E : prepare_env) (H1 H2 : removal_heap)
    (els0 : List _removal_t) (es : _removal_t) (value : Int) (ptr : Nat)
    (hord : ∃ order, removal_inv H1 order) (hf0 : prepare_fields els0)
    (hel : removal_elems H1 = els0 ++ [es]) (hest : es.type_ ≠ REMOVAL_TYPE_LABEL)
    (hess : es.state = REMOVAL_STATE_UNDEF) (hesrc : es.source = none)
    (h : _removal_add_label E H1 value (some els0.length) = some (H2, ptr)) :
    banksel_heap_inv H2 ∧ H1.cells.length ≤ H2.cells.length := by
  have hf1 : prepare_fields (els0 ++ [es]) := prepare_fields_append els0 es hf0 hess hesrc
  have hbelow1 : ∀ (i : Nat) (e : _removal_t) (t : Nat), (els0 ++ [es])[i]? = some e →
      e.source = some t → t < els0.length := by
    intro i e t hi ht
    rcases getElem?_append_singleton_cases els0 es e i hi with h1 | ⟨-, rfl⟩
    · obtain ⟨et, het, -, -⟩ := hf0.source i e t h1 ht
      by_contra hn
      rw [List.getElem?_eq_none (by omega)] at het
      cases het
    · rw [hesrc] at ht
      cases ht
  have hs1 : (els0 ++ [es])[els0.length]? = some es := by
    rw [List.getElem?_append_right (le_refl _)]
    simp
  obtain ⟨order, hinv⟩ := hord
  unfold _removal_add_label at h
  split at h
  · cases h
  · rename_i p hfind
    obtain ⟨r, hr, hsome, -⟩ :=
      removal_find_spec H1 order (to_unsigned value) REMOVAL_TYPE_LABEL hinv
    rw [hfind] at hr
    cases Option.some.inj hr
    obtain ⟨-, hkey⟩ := hsome p rfl
    cases hl : removal_link_source H1 p (some els0.length) with
    | none => simp [hl] at h
    | some H3 =>
      simp only [hl, Option.map_some', Option.some.injEq, Prod.mk.injEq] at h
      obtain ⟨rfl, rfl⟩ := h
      unfold removal_key at hkey
      cases hc : H1.cells[p]? with
      | none => simp [hc] at hkey
      | some c =>
        simp only [hc, Option.map_some', Option.some.injEq, Prod.mk.injEq] at hkey
        have hpe : (removal_elems H1)[p]? = some c.elem := by
          rw [removal_elems_getElem?, hc]
          rfl
        obtain ⟨hinv3, hlen3⟩ := removal_link_source_inv H1 H3 els0.length p es c.elem
          ⟨order, hinv⟩ (by rw [hel]; exact hf1) (by rw [hel]; exact hs1) hpe hest hkey.2
          (by rw [hel]; exact hbelow1) hl
        exact ⟨hinv3, by omega⟩
  · split at h
    · cases h
    · rename_i Hc q hnew
      obtain ⟨hq, hordc, fresh, helc, hft, hfs, hfsrc⟩ :=
        removal_new_spec E H1 Hc order _ _ q hinv hnew
      cases hl : removal_link_source Hc q (some els0.length) with
      | none => simp [hl] at h
      | some H3 =>
        simp only [hl, Option.map_some', Option.some.injEq, Prod.mk.injEq] at h
        obtain ⟨rfl, rfl⟩ := h
        have hfc : prepare_fields (removal_elems Hc) := by
          rw [helc, hel]
          exact prepare_fields_append _ fresh hf1 hfs hfsrc
        have hlen1 : H1.cells.length = els0.length + 1 := by
          rw [← removal_elems_length, hel]
          simp
        have hqe : (removal_elems Hc)[q]? = some fresh := by
          rw [helc, hq, ← removal_elems_length H1, List.getElem?_append_right (le_refl _)]
          simp
        have hse : (removal_elems Hc)[els0.length]? = some es := by
          rw [helc, List.getElem?_append_left (by rw [removal_elems_length]; omega), hel]
          exact hs1
        have hbelowc : ∀ (i : Nat) (e : _removal_t) (t : Nat),
            (removal_elems Hc)[i]? = some e → e.source = some t → t < els0.length := by
          intro i e t hi ht
          rw [helc] at hi
          rcases getElem?_append_singleton_cases _ fresh e i hi with h1 | ⟨-, rfl⟩
          · rw [hel] at h1
            exact hbelow1 i e t h1 ht
          · rw [hfsrc] at ht
            cases ht
        obtain ⟨hinv3, hlen3⟩ := removal_link_source_inv Hc H3 els0.length q es fresh
          hordc hfc hse hqe hest hft hbelowc hl
        have hlenc : Hc.cells.length = H1.cells.length + 1 := by
          rw [← removal_elems_length, helc, List.length_append, removal_elems_length]
          rfl
        exact ⟨hinv3, by omega⟩
theorem to_unsigned_lt_two_pow (x : Int) : to_unsigned x < 2 ^ 32 := by
  unfold to_unsigned
  have h1 : 0 ≤ x % 2 ^ 32 := Int.emod_nonneg x (by norm_num)
  have h2 : x % 2 ^ 32 < 2 ^ 32 := Int.emod_lt_of_pos x (by norm_num)
  omega

theorem banksel_reloc_kind_type (E : prepare_env) (t : reloc_type) (type length flags : Nat)
    (h : banksel_reloc_kind E t = some (type, length, flags)) :
    type = REMOVAL_TYPE_BANKSEL ∨ type = REMOVAL_TYPE_CALL ∨ type = REMOVAL_TYPE_GOTO := by
  cases t <;> simp [banksel_reloc_kind] at h <;> simp [← h.1]

/-- A call of `_banksel_add_reloc` that returns keeps the state of the heap. -/
theorem banksel_add_reloc_inv (E : prepare_env) (H H1 : removal_heap) (idx : Nat)
    (Section : prepare_section) (Reloc : prepare_reloc) (r : Bool)
    (hinv : banksel_heap_inv H)
    (h : _banksel_add_reloc E H idx Section Reloc = some (H1, r)) :
    banksel_heap_inv H1 ∧ H.cells.length ≤ H1.cells.length := by
  unfold _banksel_add_reloc at h
  split at h
  · simp only [Option.some.injEq, Prod.mk.injEq] at h
    obtain ⟨rfl, -⟩ := h
    exact ⟨hinv, le_refl _⟩
  · rename_i type length flags hkind
    have htype := banksel_reloc_kind_type E _ _ _ _ hkind
    obtain ⟨⟨order, hord⟩, hf⟩ := hinv
    split at h
    · rename_i H2 ptr symbol_value hadd hsv
      obtain ⟨hptr, hord2, e, hel, het, hes, hesrc⟩ :=
        removal_add_reloc_spec E H H2 type length flags idx ptr Section Reloc order hord hadd
      have hlen2 : H2.cells.length = H.cells.length + 1 := by
        rw [← removal_elems_length, hel, List.length_append, removal_elems_length]
        rfl
      split at h
      · rename_i hb
        dsimp only at h
        split at h
        · split at h
          · cases h
          · rename_i H3 hset
            simp only [Option.some.injEq, Prod.mk.injEq] at h
            obtain ⟨rfl, -⟩ := h
            obtain ⟨order2, hinv2⟩ := hord2
            refine ⟨⟨⟨order2, set_cell_elem_inv H2 H3 ptr _ order2 hset (fun _ => rfl)
              (fun _ => rfl) hinv2⟩, ?_⟩, ?_⟩
            · obtain ⟨e2, he2, hel3⟩ := set_cell_elem_elems H2 H3 ptr _ hset
              rw [hel3]
              have hf2 : prepare_fields (removal_elems H2) := by
                rw [hel]
                exact prepare_fields_append _ e hf hes hesrc
              have he2' : e2 = e := by
                rw [hel, hptr, ← removal_elems_length H,
                  List.getElem?_append_right (le_refl _)] at he2
                simp only [Nat.sub_self, List.getElem?_cons_zero, Option.some.injEq] at he2
                exact he2.symm
              subst he2'
              refine prepare_fields_set _ ptr e2 _ hf2 he2 rfl (to_unsigned_lt_two_pow _) ?_ ?_
              · intro hc
                simp only [het, hb] at hc
                rcases hc with hc | hc
                · exact absurd hc (by decide)
                · exact absurd hc (by decide)
              · intro s hs
                simp only [hesrc] at hs
                cases hs
            · rw [set_cell_elem_length H2 H3 ptr _ hset]
              omega
        · cases h
      · rename_i hb
        split at h
        · cases h
        · rename_i H3 q hlabel
          simp only [Option.some.injEq, Prod.mk.injEq] at h
          obtain ⟨rfl, -⟩ := h
          have hest : e.type_ ≠ REMOVAL_TYPE_LABEL := by
            rw [het]
            rcases htype with h1 | h1 | h1 <;> rw [h1] <;> decide
          rw [hptr, ← removal_elems_length H] at hlabel
          obtain ⟨hinv3, hlen3⟩ := removal_add_label_spec E H2 H3 (removal_elems H) e
            symbol_value q hord2 hf hel hest hes hesrc hlabel
          exact ⟨hinv3, by omega⟩
    · cases h
theorem removal_add_section_inv (E : prepare_env) (H H1 : removal_heap) (idx ptr : Nat)
    (Section : prepare_section) (hinv : banksel_heap_inv H)
    (h : _removal_add_section E H idx Section = some (H1, ptr)) :
    banksel_heap_inv H1 ∧ H.cells.length ≤ H1.cells.length := by
  obtain ⟨⟨order, hord⟩, hf⟩ := hinv
  unfold _removal_add_section at h
  dsimp only at h
  split at h
  · cases h
  · rename_i H2 p hnew
    obtain ⟨-, hord2, fresh, hel, -, hfs, hfsrc⟩ := removal_new_spec E H H2 order _ _ p hord hnew
    split at h
    · cases h
    · rename_i H3 hset
      simp only [Option.some.injEq, Prod.mk.injEq] at h
      obtain ⟨rfl, -⟩ := h
      have hinv2 : banksel_heap_inv H2 :=
        ⟨hord2, by rw [hel]; exact prepare_fields_append _ fresh hf hfs hfsrc⟩
      refine ⟨banksel_heap_inv_set_passive H2 H3 p _ hset (fun _ => rfl) (fun _ => rfl)
        (fun _ => rfl) (fun _ => rfl) hinv2, ?_⟩
      rw [set_cell_elem_length H2 H3 p _ hset, ← removal_elems_length H2, hel,
        List.length_append, removal_elems_length]
      omega

theorem prepare_sections_inv (E : prepare_env) :
    ∀ (sections : List prepare_section) (idx : Nat) (H H1 : removal_heap),
      banksel_heap_inv H → prepare_sections E sections idx H = some H1 →
      banksel_heap_inv H1 ∧ H.cells.length ≤ H1.cells.length
  | [], _, H, H1, hinv, h => by
    simp only [prepare_sections, Option.some.injEq] at h
    subst h
    exact ⟨hinv, le_refl _⟩
  | section_ :: rest, idx, H, H1, hinv, h => by
    unfold prepare_sections at h
    split at h
    · split at h
      · cases h
      · rename_i H2 p hadd
        obtain ⟨hinv2, hlen2⟩ := removal_add_section_inv E H H2 idx p section_ hinv hadd
        obtain ⟨hinv1, hlen1⟩ := prepare_sections_inv E rest (idx + 1) H2 H1 hinv2 h
        exact ⟨hinv1, by omega⟩
    · exact prepare_sections_inv E rest (idx + 1) H H1 hinv h

theorem prepare_relocs_inv (E : prepare_env) (idx : Nat) (section_ : prepare_section) :
    ∀ (relocs : List prepare_reloc) (H H1 : removal_heap) (ret ret1 : Bool),
      banksel_heap_inv H →
      prepare_relocs (_banksel_add_reloc E) idx section_ relocs H ret = some (H1, ret1) →
      banksel_heap_inv H1 ∧ H.cells.length ≤ H1.cells.length
  | [], H, H1, ret, ret1, hinv, h => by
    simp only [prepare_relocs, Option.some.injEq, Prod.mk.injEq] at h
    obtain ⟨rfl, -⟩ := h
    exact ⟨hinv, le_refl _⟩
  | reloc :: rest, H, H1, ret, ret1, hinv, h => by
    unfold prepare_relocs at h
    split at h
    · cases h
    · split at h
      · cases h
      · split at h
        · cases h
        · rename_i H2 r hadd
          obtain ⟨hinv2, hlen2⟩ := banksel_add_reloc_inv E H H2 idx section_ reloc r hinv hadd
          obtain ⟨hinv1, hlen1⟩ :=
            prepare_relocs_inv E idx section_ rest H2 H1 (r || ret) ret1 hinv2 h
          exact ⟨hinv1, by omega⟩

theorem prepare_relocations_inv (E : prepare_env) :
    ∀ (sections : List prepare_section) (idx : Nat) (H H1 : removal_heap) (ret ret1 : Bool),
      banksel_heap_inv H →
      prepare_relocations (_banksel_add_reloc E) sections idx H ret = some (H1, ret1) →
      banksel_heap_inv H1 ∧ H.cells.length ≤ H1.cells.length
  | [], _, H, H1, ret, ret1, hinv, h => by
    simp only [prepare_relocations, Option.some.injEq, Prod.mk.injEq] at h
    obtain ⟨rfl, -⟩ := h
    exact ⟨hinv, le_refl _⟩
  | section_ :: rest, idx, H, H1, ret, ret1, hinv, h => by
    unfold prepare_relocations at h
    split at h
    · split at h
      · cases h
      · split at h
        · cases h
        · rename_i H2 ret2 hrel
          obtain ⟨hinv2, hlen2⟩ :=
            prepare_relocs_inv E idx section_ _ H H2 ret ret2 hinv hrel
          obtain ⟨hinv1, hlen1⟩ :=
            prepare_relocations_inv E rest (idx + 1) H2 H1 ret2 ret1 hinv2 h
          exact ⟨hinv1, by omega⟩
    · exact prepare_relocations_inv E rest (idx + 1) H H1 ret ret1 hinv h

theorem banksel_heap_inv_empty : banksel_heap_inv removal_heap_empty :=
  ⟨⟨[], removal_inv_empty⟩, ⟨by intro i e h; simp [removal_elems, removal_heap_empty] at h,
    by intro i e h; simp [removal_elems, removal_heap_empty] at h,
    by intro i e s h; simp [removal_elems, removal_heap_empty] at h⟩⟩

/-- What `_removal_prepare_list` with `_banksel_add_reloc` leaves when it returns
true: a heap in the state described, with a list that is not empty. -/
theorem banksel_prepare_list_inv (E : prepare_env) (sections : List prepare_section)
    (H : removal_heap)
    (h : _removal_prepare_list E (_banksel_add_reloc E) sections = some (H, true)) :
    banksel_heap_inv H ∧ 0 < H.cells.length := by
  unfold _removal_prepare_list at h
  split at h
  · cases h
  · rename_i H0 hsec
    obtain ⟨hinv0, -⟩ := prepare_sections_inv E sections 0 _ H0 banksel_heap_inv_empty hsec
    split at h
    · simp at h
    · rename_i hlist
      split at h
      · cases h
      · rename_i H1 ret hrel
        obtain ⟨hinv1, hlen1⟩ :=
          prepare_relocations_inv E sections 0 H0 H1 false ret hinv0 hrel
        split at h
        · simp only [Option.some.injEq, Prod.mk.injEq, and_true] at h
          subst h
          refine ⟨hinv1, ?_⟩
          obtain ⟨⟨order0, hord0⟩, -⟩ := hinv0
          have hne : order0 ≠ [] := by
            intro hc
            have := hord0.head
            rw [hc] at this
            exact hlist this
          have := removal_inv_length hord0
          have : 0 < order0.length := List.length_pos.2 hne
          omega
        · simp at h
theorem removal_position_spec :
    ∀ (order : List Nat) (p : Nat), p ∈ order → order[removal_position order p]? = some p
  | [], p, h => by simp at h
  | q :: rest, p, h => by
    unfold removal_position
    by_cases hq : q = p
    · rw [if_pos hq, hq]
      exact List.getElem?_cons_zero
    · rw [if_neg hq]
      have hp : p ∈ rest := by
        rcases List.mem_cons.1 h with h1 | h1
        · exact absurd h1.symm hq
        · exact h1
      rw [List.getElem?_cons_succ]
      exact removal_position_spec rest p hp

theorem removal_collect_spec (f : Nat → Option _removal_t) :
    ∀ (l : List Nat), (∀ p ∈ l, ∃ e, f p = some e) →
      ∃ L, removal_collect f l = some L ∧ L.length = l.length ∧
        ∀ (k p : Nat), l[k]? = some p → L[k]? = f p
  | [], _ => ⟨[], rfl, rfl, by intro k p h; simp at h⟩
  | q :: rest, h => by
    obtain ⟨e, he⟩ := h q (by simp)
    obtain ⟨L, hL, hlen, hget⟩ := removal_collect_spec f rest (fun p hp => h p (by simp [hp]))
    refine ⟨e :: L, by simp only [removal_collect, he, hL], by simp [hlen], ?_⟩
    intro k p hk
    cases k with
    | zero =>
      simp only [List.getElem?_cons_zero, Option.some.injEq] at hk
      subst hk
      simp [he]
    | succ k =>
      simp only [List.getElem?_cons_succ] at hk ⊢
      exact hget k p hk

theorem removal_list_of_heap_spec (H : removal_heap) (order : List Nat)
    (hinv : removal_inv H order) :
    ∃ L, removal_list_of_heap H = some L ∧ L.length = order.length ∧
      ∀ (k p : Nat), order[k]? = some p → ∃ e : _removal_t, (removal_elems H)[p]? = some e ∧
        L[k]? = some { e with source := e.source.map (removal_position order) } := by
  have hb := removal_inv_bound hinv
  obtain ⟨L, hL, hlen, hget⟩ := removal_collect_spec (fun p =>
      (H.cells[p]?).map (fun c =>
        ({ c.elem with source := c.elem.source.map (removal_position order) } : _removal_t)))
      order (by
        intro p hp
        obtain ⟨c, hc⟩ : ∃ c, H.cells[p]? = some c := ⟨_, List.getElem?_eq_getElem (hb p hp)⟩
        exact ⟨_, by dsimp only; rw [hc]; rfl⟩)
  refine ⟨L, ?_, hlen, ?_⟩
  · unfold removal_list_of_heap
    rw [removal_traverse_inv H order hinv]
    exact hL
  · intro k p hk
    have hp : p ∈ order := List.mem_iff_getElem?.2 ⟨k, hk⟩
    obtain ⟨c, hc⟩ : ∃ c, H.cells[p]? = some c := ⟨_, List.getElem?_eq_getElem (hb p hp)⟩
    refine ⟨c.elem, ?_, ?_⟩
    · rw [removal_elems_getElem?, hc]
      rfl
    · rw [hget k p hk]
      dsimp only
      rw [hc]
      rfl
theorem source_chain_of_heap (H : removal_heap) (order : List Nat) (L : List _removal_t)
    (hinv : removal_inv H order) (hf : prepare_fields (removal_elems H))
    (hget : ∀ (k p : Nat), order[k]? = some p → ∃ e : _removal_t,
      (removal_elems H)[p]? = some e ∧
      L[k]? = some { e with source := e.source.map (removal_position order) }) :
    ∀ (fuel s : Nat) (es : _removal_t), s < fuel → (removal_elems H)[s]? = some es →
      es.type_ ≠ REMOVAL_TYPE_LABEL →
      (source_chain L fuel (some (removal_position order s))).isSome = true
  | 0, s, _, hs, _, _ => absurd hs (Nat.not_lt_zero s)
  | fuel + 1, s, es, hs, hes, hest => by
    have hsN : s < H.cells.length := by
      rw [← removal_elems_length]
      by_contra hn
      rw [List.getElem?_eq_none (by omega)] at hes
      cases hes
    have hmem : s ∈ order := (List.Perm.mem_iff hinv.perm).2 (List.mem_range.2 hsN)
    obtain ⟨e, he, hLk⟩ := hget _ s (removal_position_spec order s hmem)
    rw [hes] at he
    cases Option.some.inj he
    unfold source_chain
    rw [hLk]
    dsimp only
    rw [Option.isSome_map']
    cases hsrc : es.source with
    | none =>
      cases fuel <;> rfl
    | some s0 =>
      obtain ⟨es0, hes0, hes0t, hlt⟩ := hf.source s es s0 hes hsrc
      exact source_chain_of_heap H order L hinv hf hget fuel s0 es0
        (by have := hlt hest; omega) hes0 hes0t

/-- The list of a heap in the state that the building keeps has the properties
`banksel_prepared`. -/
theorem banksel_prepared_of_heap (H : removal_heap) (L : List _removal_t)
    (hinv : banksel_heap_inv H) (hpos : 0 < H.cells.length)
    (hL : removal_list_of_heap H = some L) : banksel_prepared L = true := by
  obtain ⟨⟨order, hord⟩, hf⟩ := hinv
  obtain ⟨L1, hL1, hlen, hget⟩ := removal_list_of_heap_spec H order hord
  rw [hL] at hL1
  cases Option.some.inj hL1
  have hlenN : L.length = H.cells.length := by rw [hlen, removal_inv_length hord]
  unfold banksel_prepared
  rw [Bool.and_eq_true]
  constructor
  · cases L with
    | nil =>
      simp at hlenN
      omega
    | cons x t => rfl
  · rw [List.all_eq_true]
    intro e0 he0
    obtain ⟨k, hk⟩ := List.mem_iff_getElem?.1 he0
    have hkl : k < order.length := by
      rw [← hlen]
      by_contra hn
      rw [List.getElem?_eq_none (by omega)] at hk
      cases hk
    obtain ⟨e, he, hLk⟩ := hget k _ (List.getElem?_eq_getElem hkl)
    generalize order[k] = p at he hLk
    rw [hk] at hLk
    cases Option.some.inj hLk
    simp only [Bool.and_eq_true, decide_eq_true_eq]
    refine ⟨⟨hf.state_lt p e he, ?_⟩, ?_⟩
    · split_ifs with ht
      · simp only [decide_eq_true_eq]
        exact hf.undef p e he ht
      · rfl
    · split_ifs with ht
      · cases hsrc : e.source with
        | none =>
          simp only [Option.map_none']
          cases L.length <;> rfl
        | some s =>
          obtain ⟨es, hes, hest, -⟩ := hf.source p e s he hsrc
          have hsN : s < H.cells.length := by
            rw [← removal_elems_length]
            by_contra hn
            rw [List.getElem?_eq_none (by omega)] at hes
            cases hes
          simp only [Option.map_some']
          rw [hlenN]
          exact source_chain_of_heap H order L hord hf hget _ s es hsN hes hest
      · rfl
/-- C33: for every object, processor and allocator, when `_removal_prepare_list`
with `_banksel_add_reloc` has built the list of elements and returned true, the
walk from `_removal_list` gives a list on which `_removal_process_list` with
`_banksel_check_state` returns: after finitely many runs of the inner loop a run
changes no element. -/
theorem banksel_process_list_terminates (E : prepare_env) (sections : List prepare_section)
    (H : removal_heap)
    (h : _removal_prepare_list E (_banksel_add_reloc E) sections = some (H, true)) :
    ∃ L, removal_list_of_heap H = some L ∧
      ∃ fuel r, _removal_process_list _banksel_check_state fuel L = some r := by
  obtain ⟨hinv, hpos⟩ := banksel_prepare_list_inv E sections H h
  obtain ⟨⟨order, hord⟩, hf⟩ := hinv
  obtain ⟨L, hL, -, -⟩ := removal_list_of_heap_spec H order hord
  exact ⟨L, hL, banksel_terminates_of_prepared L
    (banksel_prepared_of_heap H L ⟨⟨order, hord⟩, hf⟩ hpos hL)⟩

/-- C33 on the object of the examples: the list is built, and
`_removal_process_list` with `_banksel_check_state` returns on it. -/
theorem banksel_process_list_terminates_witness :
    _removal_prepare_list example_prepare_env (_banksel_add_reloc example_prepare_env)
        example_banksel_object = some (example_banksel_heap, true) ∧
      ∃ L, removal_list_of_heap example_banksel_heap = some L ∧
        ∃ fuel r, _removal_process_list _banksel_check_state fuel L = some r :=
  ⟨by decide, banksel_process_list_terminates example_prepare_env example_banksel_object
    example_banksel_heap (by decide)⟩

/-- The list that is built for the object of the examples: the section, the
selection of bank 1, the call, the selection of bank 2, the label with the call
as its source, and two more selections of bank 2. -/
theorem example_banksel_heap_list :
    (removal_list_of_heap example_banksel_heap).map
        (fun L => L.map (fun e => (e.type_, e.address, e.state, e.source)))
      = some [ (REMOVAL_TYPE_SECTION, 0, REMOVAL_STATE_UNDEF, none),
               (REMOVAL_TYPE_BANKSEL, 0, 2, none),
               (REMOVAL_TYPE_CALL, 1, REMOVAL_STATE_UNDEF, none),
               (REMOVAL_TYPE_BANKSEL, 2, 4, none),
               (REMOVAL_TYPE_LABEL, 3, REMOVAL_STATE_UNDEF, some 2),
               (REMOVAL_TYPE_BANKSEL, 3, 4, none),
               (REMOVAL_TYPE_BANKSEL, 4, 4, none) ] := by
  decide

end Gputils
